import Mathlib

/-!
# NEdit regular expressions: `CompileRE`, `ExecRE`, `SubstituteRE`

A shallow embedding of `src/regex/regularExp.cpp`.

* Characters are bytes, modelled as natural numbers `0..255`; a pattern, a text and a
  replacement template are lists of bytes.  Reading the byte at the end of a string
  (`*Reg_Parse` at `Reg_Parse_End`, `*Reg_Input` at the end of the text) yields the
  terminating NUL, `0`.
* Pointers into a string or into the program are indices; `nullptr`, the address of
  `Compute_Size` and the sentinel `(uint8_t *)1` are separate constructors of `Ptr`.
* `raise<regex_error>(...)` is `Except.error` with one constructor per message.
* Loops and recursion are bounded by an explicit fuel argument; running out of fuel
  is reported separately and never counts as a result of the program.
-/

namespace NEditRegex

/-- The bytes of a string literal. -/
def strBytes (s : String) : List Nat := s.toList.map Char.toNat

/-! ## Constants of the absent headers -/

/-- Modelled from the spec: `regularExp.h` is absent from the sources; the spec gives
"historically <= ~50 sub-expressions", the value of `NSUBEXP` in NEdit. -/
def NSUBEXP : Nat := 50

/-- Modelled from the spec: `regularExp.h` is absent from the sources; the hard ceiling
of the recursion depth of `match` ("Recursion is hard-capped"), 10000 in NEdit. -/
def REGEX_RECURSION_LIMIT : Nat := 10000

/-- Modelled from the spec: `regularExp.h` is absent; the bit of `defaultFlags` that
selects case-insensitive compilation. -/
def REDFLT_CASE_INSENSITIVE : Nat := 1

/-! Modelled from the spec: `Opcodes.h` is absent from the sources.  The opcodes are the
node kinds named in the spec and used by `regularExp.cpp`; the numbering is the one of
NEdit.  The code relies only on their being distinct bytes, on
`PLUS <= op <= LAZY_PLUS` selecting exactly `PLUS` and `LAZY_PLUS`, and on the blocks
`OPEN .. OPEN + NSUBEXP - 1` and `CLOSE .. CLOSE + NSUBEXP - 1` lying above all others. -/

def END : Nat := 1
def BOL : Nat := 2
def EOL : Nat := 3
def BOWORD : Nat := 4
def EOWORD : Nat := 5
def NOT_BOUNDARY : Nat := 6
def EXACTLY : Nat := 7
def SIMILAR : Nat := 8
def ANY_OF : Nat := 9
def ANY_BUT : Nat := 10
def ANY : Nat := 11
def EVERY : Nat := 12
def DIGIT : Nat := 13
def NOT_DIGIT : Nat := 14
def LETTER : Nat := 15
def NOT_LETTER : Nat := 16
def SPACE : Nat := 17
def SPACE_NL : Nat := 18
def NOT_SPACE : Nat := 19
def NOT_SPACE_NL : Nat := 20
def WORD_CHAR : Nat := 21
def NOT_WORD_CHAR : Nat := 22
def IS_DELIM : Nat := 23
def NOT_DELIM : Nat := 24
def STAR : Nat := 25
def LAZY_STAR : Nat := 26
def QUESTION : Nat := 27
def LAZY_QUESTION : Nat := 28
def PLUS : Nat := 29
def LAZY_PLUS : Nat := 30
def BRACE : Nat := 31
def LAZY_BRACE : Nat := 32
def NOTHING : Nat := 33
def BRANCH : Nat := 34
def BACK : Nat := 35
def INIT_COUNT : Nat := 36
def INC_COUNT : Nat := 37
def TEST_COUNT : Nat := 38
def BACK_REF : Nat := 39
def BACK_REF_CI : Nat := 40
def X_REGEX_BR : Nat := 41
def X_REGEX_BR_CI : Nat := 42
def POS_AHEAD_OPEN : Nat := 43
def NEG_AHEAD_OPEN : Nat := 44
def LOOK_AHEAD_CLOSE : Nat := 45
def POS_BEHIND_OPEN : Nat := 46
def NEG_BEHIND_OPEN : Nat := 47
def LOOK_BEHIND_CLOSE : Nat := 48
def OPEN : Nat := 49
def CLOSE : Nat := OPEN + NSUBEXP

/-! ## Constants of `regularExp.cpp` -/

def MAGIC : Nat := 0o234

def OP_CODE_SIZE : Nat := 1
def NEXT_PTR_SIZE : Nat := 2
def INDEX_SIZE : Nat := 1
def LENGTH_SIZE : Nat := 4
def NODE_SIZE : Nat := NEXT_PTR_SIZE + OP_CODE_SIZE

def WORST : Nat := 0
def HAS_WIDTH : Nat := 1
def SIMPLE : Nat := 2

def NO_PAREN : Nat := 0
def PAREN : Nat := 1
def NO_CAPTURE : Nat := 2
def INSENSITIVE : Nat := 3
def SENSITIVE : Nat := 4
def NEWLINE : Nat := 5
def NO_NEWLINE : Nat := 6

def REG_INFINITY : Nat := 0
def REG_ZERO : Nat := 0
def REG_ONE : Nat := 1

def CHECK_ESCAPE : Nat := 0
def CHECK_CLASS_ESCAPE : Nat := 1
def EMIT_CLASS_BYTES : Nat := 2
def EMIT_NODE : Nat := 3

def REGEX_START_OFFSET : Nat := 3
def MAX_COMPILED_SIZE : Nat := 32767

def UINT8_MAX : Nat := 255
def ULONG_MAX : Nat := 2 ^ 64 - 1

/-- The string `"0123456789"`. -/
def ASCII_Digits : List Nat := strBytes "0123456789"
/-- The string `"{.*+?[(|)^<>$"`. -/
def Default_Meta_Char : List Nat := strBytes "\x7b.*+?[(|)^<>$"

/-! ## `<cctype>` in the "C" locale, on `unsigned char` values -/

def isdigit (c : Nat) : Bool := decide (48 ≤ c ∧ c ≤ 57)
def isupper (c : Nat) : Bool := decide (65 ≤ c ∧ c ≤ 90)
def islower (c : Nat) : Bool := decide (97 ≤ c ∧ c ≤ 122)
def isalpha (c : Nat) : Bool := isupper c || islower c
def isalnum (c : Nat) : Bool := isalpha c || isdigit c
def isspace (c : Nat) : Bool := decide (c = 32 ∨ (9 ≤ c ∧ c ≤ 13))
def tolower (c : Nat) : Nat := if isupper c then c + 32 else c
def toupper (c : Nat) : Nat := if islower c then c - 32 else c

/-- The template `safe_ctype<F>(c)`: `F(static_cast<unsigned char>(c))`. -/
def safe_ctype {α : Type} (F : Nat → α) (c : Nat) : α := F (c % 256)

/-- The C function `strchr(s, c) != nullptr` on a NUL-terminated string `s`: the
terminator itself is found when `c` is NUL. -/
def strchr (s : List Nat) (c : Nat) : Bool := decide (c = 0) || s.contains c

/-! ## Errors, pointers and the compile context -/

/-- The messages of `raise<regex_error>`; `fuel` is not a message of the program: it
reports that a bounded loop of this embedding ran out of fuel. -/
inductive RegexError
  | internal (n : Nat)
  | tooBig
  | tooManyParens
  | missingRightParen
  | missingLeftParen
  | junkOnEnd
  | lookBehindUnbounded
  | lookBehindTooLarge
  | minOperandTooBig (min : Nat) (c : Nat)
  | maxOperandTooBig (min max : Nat) (c : Nat)
  | range0
  | range00
  | rangeM0 (min : Nat)
  | rangeComma0
  | missingRightBrace
  | invalidRange (min max : Nat)
  | tooManyBraces
  | braceOperandEmpty (min max : Nat)
  | operandEmpty (op : Nat)
  | nestedBrace (c : Nat)
  | nested (op c : Nat)
  | followsNothing (c : Nat)
  | braceFollowsNothing
  | invalidLookBehindSyntax (c : Nat)
  | invalidGroupingSyntax (c : Nat)
  | notAllowedAsRangeOperand (c : Nat)
  | invalidClassEscape (c : Nat)
  | invalidClassRange
  | missingRightBracket
  | invalidEscape (c : Nat)
  | octalZero
  | hexZero (c : Nat)
  | illegalBackRef (n : Nat)
  | fuel
  deriving DecidableEq, Repr

/-- A `uint8_t *`: `nullptr`, the sentinel `reinterpret_cast<uint8_t *>(1)`,
`&Compute_Size + off`, or `program + i`. -/
inductive Ptr
  | null
  | one
  | size (off : Int)
  | prog (i : Nat)
  deriving DecidableEq, Repr

/-- The address `&Compute_Size`. -/
def Compute_Size : Ptr := Ptr.size 0

/-- Pointer arithmetic `p + k`. -/
def Ptr.add (p : Ptr) (k : Int) : Ptr :=
  match p with
  | Ptr.null => Ptr.null
  | Ptr.one => Ptr.one
  | Ptr.size off => Ptr.size (off + k)
  | Ptr.prog i => Ptr.prog (Int.toNat ((i : Int) + k))

/-- The numeric value used for pointer differences inside the program. -/
def Ptr.toInt (p : Ptr) : Int :=
  match p with
  | Ptr.prog i => (i : Int)
  | _ => 0

/-- `struct len_range`. -/
structure len_range where
  lower : Int
  upper : Int
  deriving DecidableEq, Repr

/-- Conversion of an integer to `long` (64-bit two's complement). -/
def toLong (x : Int) : Int := (x + 2 ^ 63) % 2 ^ 64 - 2 ^ 63

/-- The global work variables of `CompileRE` (`pContext`), together with the buffer
`program` allocated between the two passes.  The header that declares `pContext` is absent
from the sources; `Num_Braces` is a counter that does not wrap at 256, as the test
`Num_Braces > (int)UINT8_MAX` of `piece` and the conversion
`static_cast<uint8_t>(pContext.Num_Braces)` of the constructor require. -/
structure ParseContext where
  Reg_Parse : Nat
  InputString : List Nat
  program : List Nat
  Code_Emit_Ptr : Ptr
  Reg_Size : Nat
  Closed_Parens : Nat
  Paren_Has_Width : Nat
  Num_Braces : Nat
  Total_Paren : Nat
  Is_Case_Insensitive : Bool
  Match_Newline : Bool
  Enable_Counting_Quantifier : Bool
  White_Space : List Nat
  Word_Char : List Nat
  Letter_Char : List Nat
  Brace_Char : Nat
  Meta_Char : List Nat
  deriving DecidableEq, Repr

/-- Computations of the compiler: the context is threaded, an error aborts. -/
abbrev Comp (α : Type) := StateT ParseContext (Except RegexError) α

/-- The template `raise<regex_error>`. -/
def raise {α : Type} (e : RegexError) : Comp α := fun _ => Except.error e

/-- Test of a bit of a `std::bitset<64>`. -/
def bitTest (b : Nat) (i : Nat) : Bool := Nat.testBit b i
/-- Setting a bit of a `std::bitset<64>`. -/
def bitSet (b : Nat) (i : Nat) : Nat := b ||| (1 <<< i)

/-- The byte `Reg_Parse[k]`. -/
def ParseContext.peekAt (ctx : ParseContext) (k : Nat) : Nat :=
  ctx.InputString.getD (ctx.Reg_Parse + k) 0

/-- The byte `*Reg_Parse`. -/
def ParseContext.peek (ctx : ParseContext) : Nat := ctx.peekAt 0

/-- The test `Reg_Parse == Reg_Parse_End`. -/
def ParseContext.atEnd (ctx : ParseContext) : Bool :=
  decide (ctx.Reg_Parse = ctx.InputString.length)

/-- The statement `Reg_Parse += k`. -/
def advance (k : Nat) : Comp Unit :=
  modify fun ctx => { ctx with Reg_Parse := ctx.Reg_Parse + k }

/-- The statement `--Reg_Parse`. -/
def retreat : Comp Unit :=
  modify fun ctx => { ctx with Reg_Parse := ctx.Reg_Parse - 1 }

def GET_OP_CODE (prog : List Nat) (p : Ptr) : Nat :=
  match p with
  | Ptr.prog i => prog.getD i 0
  | _ => 0

def OPERAND (p : Ptr) : Ptr := p.add NODE_SIZE

def GET_OFFSET (prog : List Nat) (p : Ptr) : Nat :=
  match p with
  | Ptr.prog i => (((prog.getD (i + 1) 0 % 256) <<< 8) + prog.getD (i + 2) 0 % 256) % 65536
  | _ => 0

def PUT_OFFSET_L (v : Int) : Nat := Int.toNat ((v / 256) % 256)
def PUT_OFFSET_R (v : Int) : Nat := Int.toNat (v % 256)

/-- `GET_LOWER` returns a `uint8_t`. -/
def GET_LOWER (prog : List Nat) (p : Ptr) : Nat :=
  match p with
  | Ptr.prog i =>
    (((prog.getD (i + NODE_SIZE) 0 % 256) <<< 8) + prog.getD (i + NODE_SIZE + 1) 0 % 256) % 256
  | _ => 0

/-- `GET_UPPER` returns a `uint8_t`. -/
def GET_UPPER (prog : List Nat) (p : Ptr) : Nat :=
  match p with
  | Ptr.prog i =>
    (((prog.getD (i + NODE_SIZE + 2) 0 % 256) <<< 8) + prog.getD (i + NODE_SIZE + 3) 0 % 256) % 256
  | _ => 0

def IS_QUANTIFIER (ctx : ParseContext) (c : Nat) : Bool :=
  decide (c = 42) || decide (c = 43) || decide (c = 63) || decide (c = ctx.Brace_Char)

/-! ## Bytecode emission primitives -/

/-- The store `*p = v` into the program buffer (`v` converted to `uint8_t`). -/
def poke (prog : List Nat) (p : Ptr) (v : Nat) : List Nat :=
  match p with
  | Ptr.prog i => prog.set i (v % 256)
  | _ => prog

def emit_node (op_code : Nat) : Comp Ptr := fun ctx =>
  let ret_val := ctx.Code_Emit_Ptr
  if ret_val = Compute_Size then
    Except.ok (ret_val, { ctx with Reg_Size := ctx.Reg_Size + NODE_SIZE })
  else
    let p0 := poke ctx.program ret_val op_code
    let p1 := poke p0 (ret_val.add 1) 0
    let p2 := poke p1 (ret_val.add 2) 0
    Except.ok (ret_val, { ctx with program := p2, Code_Emit_Ptr := ret_val.add 3 })

def emit_byte (ch : Nat) : Comp Unit := fun ctx =>
  if ctx.Code_Emit_Ptr = Compute_Size then
    Except.ok ((), { ctx with Reg_Size := ctx.Reg_Size + 1 })
  else
    Except.ok ((), { ctx with program := poke ctx.program ctx.Code_Emit_Ptr ch,
                              Code_Emit_Ptr := ctx.Code_Emit_Ptr.add 1 })

def emit_class_byte (ch : Nat) : Comp Unit := fun ctx =>
  if ctx.Code_Emit_Ptr = Compute_Size then
    let ctx1 := { ctx with Reg_Size := ctx.Reg_Size + 1 }
    if ctx.Is_Case_Insensitive && safe_ctype isalpha ch then
      Except.ok ((), { ctx1 with Reg_Size := ctx1.Reg_Size + 1 })
    else
      Except.ok ((), ctx1)
  else if ctx.Is_Case_Insensitive && safe_ctype isalpha ch then
    let p0 := poke ctx.program ctx.Code_Emit_Ptr (safe_ctype tolower ch)
    let p1 := poke p0 (ctx.Code_Emit_Ptr.add 1) (safe_ctype toupper ch)
    Except.ok ((), { ctx with program := p1, Code_Emit_Ptr := ctx.Code_Emit_Ptr.add 2 })
  else
    Except.ok ((), { ctx with program := poke ctx.program ctx.Code_Emit_Ptr ch,
                              Code_Emit_Ptr := ctx.Code_Emit_Ptr.add 1 })

def emit_special (op_code : Nat) (test_val : Nat) (index : Nat) : Comp Ptr := fun ctx =>
  if ctx.Code_Emit_Ptr = Compute_Size then
    let sz :=
      if op_code = POS_BEHIND_OPEN ∨ op_code = NEG_BEHIND_OPEN then
        ctx.Reg_Size + LENGTH_SIZE + NODE_SIZE
      else if op_code = TEST_COUNT then
        ctx.Reg_Size + NEXT_PTR_SIZE + INDEX_SIZE + NODE_SIZE
      else if op_code = INC_COUNT then
        ctx.Reg_Size + INDEX_SIZE + NODE_SIZE
      else
        ctx.Reg_Size + NODE_SIZE
    Except.ok (Compute_Size, { ctx with Reg_Size := sz })
  else
    match emit_node op_code ctx with
    | Except.error e => Except.error e
    | Except.ok (ret_val, ctx1) =>
      let ptr := ctx1.Code_Emit_Ptr
      if op_code = INC_COUNT ∨ op_code = TEST_COUNT then
        let p0 := poke ctx1.program ptr index
        if op_code = TEST_COUNT then
          let p1 := poke p0 (ptr.add 1) (PUT_OFFSET_L test_val)
          let p2 := poke p1 (ptr.add 2) (PUT_OFFSET_R test_val)
          Except.ok (ret_val, { ctx1 with program := p2, Code_Emit_Ptr := ptr.add 3 })
        else
          Except.ok (ret_val, { ctx1 with program := p0, Code_Emit_Ptr := ptr.add 1 })
      else if op_code = POS_BEHIND_OPEN ∨ op_code = NEG_BEHIND_OPEN then
        let p0 := poke ctx1.program ptr (PUT_OFFSET_L test_val)
        let p1 := poke p0 (ptr.add 1) (PUT_OFFSET_R test_val)
        let p2 := poke p1 (ptr.add 2) (PUT_OFFSET_L test_val)
        let p3 := poke p2 (ptr.add 3) (PUT_OFFSET_R test_val)
        Except.ok (ret_val, { ctx1 with program := p3, Code_Emit_Ptr := ptr.add 4 })
      else
        Except.ok (ret_val, { ctx1 with Code_Emit_Ptr := ptr })

/-- The relocation loop of `insert`: `while (src > insert_pos) *--dst = *--src;`,
run `n = src - insert_pos` times. -/
def insertMove : Nat → List Nat → Nat → Nat → List Nat
  | 0, prog, _, _ => prog
  | n + 1, prog, src, dst =>
    insertMove n (prog.set (dst - 1) (prog.getD (src - 1) 0)) (src - 1) (dst - 1)

def insert (op : Nat) (insert_pos : Ptr) (min max : Nat) (index : Nat) : Comp Ptr := fun ctx =>
  let insert_size :=
    if op = BRACE ∨ op = LAZY_BRACE then NODE_SIZE + 2 * NEXT_PTR_SIZE
    else if op = INIT_COUNT then NODE_SIZE + INDEX_SIZE
    else NODE_SIZE
  if ctx.Code_Emit_Ptr = Compute_Size then
    Except.ok (Compute_Size, { ctx with Reg_Size := ctx.Reg_Size + insert_size })
  else
    let src := Int.toNat ctx.Code_Emit_Ptr.toInt
    let pos := Int.toNat insert_pos.toInt
    let dst := src + insert_size
    let p0 := insertMove (src - pos) ctx.program src dst
    let p1 := poke p0 insert_pos op
    let p2 := poke p1 (insert_pos.add 1) 0
    let p3 := poke p2 (insert_pos.add 2) 0
    if op = BRACE ∨ op = LAZY_BRACE then
      let p4 := poke p3 (insert_pos.add 3) (PUT_OFFSET_L min)
      let p5 := poke p4 (insert_pos.add 4) (PUT_OFFSET_R min)
      let p6 := poke p5 (insert_pos.add 5) (PUT_OFFSET_L max)
      let p7 := poke p6 (insert_pos.add 6) (PUT_OFFSET_R max)
      Except.ok (insert_pos.add 7, { ctx with program := p7, Code_Emit_Ptr := Ptr.prog dst })
    else if op = INIT_COUNT then
      let p4 := poke p3 (insert_pos.add 3) index
      Except.ok (insert_pos.add 4, { ctx with program := p4, Code_Emit_Ptr := Ptr.prog dst })
    else
      Except.ok (insert_pos.add 3, { ctx with program := p3, Code_Emit_Ptr := Ptr.prog dst })

def next_ptr (prog : List Nat) (ptr : Ptr) : Ptr :=
  if ptr = Compute_Size then Ptr.null
  else
    let offset := GET_OFFSET prog ptr
    if offset = 0 then Ptr.null
    else if GET_OP_CODE prog ptr = BACK then ptr.add (-(offset : Int))
    else ptr.add (offset : Int)

/-- The search loop of `tail`: the last node of the chain starting at `scan`, or `none`
when the chain does not end within `fuel` steps. -/
def tailScan : Nat → List Nat → Ptr → Option Ptr
  | 0, _, _ => none
  | fuel + 1, prog, scan =>
    let next := next_ptr prog scan
    if next = Ptr.null then some scan else tailScan fuel prog next

def tail (search_from point_to : Ptr) : Comp Unit := fun ctx =>
  if search_from = Compute_Size then Except.ok ((), ctx)
  else
    match tailScan (ctx.program.length + 1) ctx.program search_from with
    | none => Except.error RegexError.fuel
    | some scan =>
      let offset : Int :=
        if GET_OP_CODE ctx.program scan = BACK then scan.toInt - point_to.toInt
        else point_to.toInt - scan.toInt
      let p0 := poke ctx.program (scan.add 1) (PUT_OFFSET_L offset)
      let p1 := poke p0 (scan.add 2) (PUT_OFFSET_R offset)
      Except.ok ((), { ctx with program := p1 })

def offset_tail (ptr : Ptr) (offset : Int) (val : Ptr) : Comp Unit :=
  if ptr = Compute_Size ∨ ptr = Ptr.null then pure ()
  else tail (ptr.add offset) val

def branch_tail (ptr : Ptr) (offset : Int) (val : Ptr) : Comp Unit := fun ctx =>
  if ptr = Compute_Size ∨ ptr = Ptr.null ∨ GET_OP_CODE ctx.program ptr ≠ BRANCH then
    Except.ok ((), ctx)
  else tail (ptr.add offset) val ctx

/-! ## Escape sequences -/

/-- The body of `init_ansi_classes`: the three tables, for `i = 1 .. UINT8_MAX - 1`. -/
def init_ansi_classes (ctx : ParseContext) : ParseContext :=
  let r := List.range' 1 (UINT8_MAX - 1)
  { ctx with
    Word_Char := r.filter fun i => safe_ctype isalnum i || decide (i = 95)
    Letter_Char := r.filter fun i => safe_ctype isalpha i
    White_Space := r.filter fun i => safe_ctype isspace i && decide (i ≠ 10) }

/-- The position of the first occurrence found by `strchr(s, c)` in the NUL-terminated
string `s`, if any; the terminator is found at position `s.length`. -/
def strchrPos (s : List Nat) (c : Nat) : Option Nat :=
  if s.contains c then some (s.indexOf c)
  else if c = 0 then some s.length
  else none

/-- The string `digits` of `numeric_escape`. -/
def numeric_digits : List Nat := strBytes "fedcbaFEDCBA9876543210"

/-- The table `digit_val` of `numeric_escape`. -/
def numeric_digit_val : List Nat :=
  [15, 14, 13, 12, 11, 10, 15, 14, 13, 12, 11, 10, 9, 8, 7, 6, 5, 4, 3, 2, 1, 0]

/-- The digit loop of `numeric_escape`, run at most `width` times; returns `scan` and
`value`.  A lookup past the end of `digit_val` (undefined in C++) reads as `0`. -/
def numericLoop (digit_str : List Nat) (pos_delta radix : Nat) (s : List Nat) :
    Nat → Nat → Nat → Nat × Nat
  | 0, scan, value => (scan, value)
  | width + 1, scan, value =>
    match strchrPos digit_str (s.getD scan 0) with
    | none => (scan, value)
    | some k =>
      let pos := k + pos_delta
      let value1 := value * radix + numeric_digit_val.getD pos 0
      if value1 > 255 then (scan, (value1 - numeric_digit_val.getD pos 0) / radix)
      else numericLoop digit_str pos_delta radix s width (scan + 1) value1

/-- The function `numeric_escape(ch, &parse)` on the string `s`: the character value and
the new `parse`; value `0` with `parse` unchanged when `ch` starts no numeric escape. -/
def numeric_escape (ch : Nat) (s : List Nat) (parse : Nat) : Except RegexError (Nat × Nat) :=
  if ch = 48 ∨ ch = 120 ∨ ch = 88 then
    let width := if ch = 48 then 3 else 2
    let radix := if ch = 48 then 8 else 16
    let pos_delta := if ch = 48 then 14 else 0
    let digit_str := numeric_digits.drop pos_delta
    let (scan, value) := numericLoop digit_str pos_delta radix s width (parse + 1) 0
    if value = 0 then
      if ch = 48 then Except.error RegexError.octalZero
      else Except.error (RegexError.hexZero ch)
    else Except.ok (value % 256, scan - 1)
  else Except.ok (0, parse)

/-- The call `numeric_escape(*Reg_Parse, &Reg_Parse)` of the compiler. -/
def numeric_escape_parse : Comp Nat := fun ctx =>
  match numeric_escape ctx.peek ctx.InputString ctx.Reg_Parse with
  | Except.error e => Except.error e
  | Except.ok (v, p) => Except.ok (v, { ctx with Reg_Parse := p })

/-- The table `valid_escape` of `literal_escape`. -/
def valid_escape : List Nat := strBytes "abefnrtv()-[]<>\x7b\x7d.\\|^$*+?&"

/-- The table `value` of `literal_escape`. -/
def literal_value : List Nat :=
  [7, 8, 27, 12, 10, 13, 9, 11] ++ strBytes "()-[]<>\x7b\x7d.\\|^$*+?&"

def literal_escape (ch : Nat) : Nat :=
  if valid_escape.contains (ch % 256) then literal_value.getD (valid_escape.indexOf (ch % 256)) 0
  else 0

/-- Emission of the bytes of a class string: `while (*clazz != 0) emit_byte(*clazz++)`. -/
def emit_bytes : List Nat → Comp Unit
  | [] => pure ()
  | c :: cs => do emit_byte c; emit_bytes cs

/-- The string `codes` of `shortcut_escape`. -/
def shortcut_codes : List Nat := strBytes "ByYdDlLsSwW"

/-- The function `shortcut_escape(ch, flag_param, emit)`; the flags are passed in and
returned. -/
def shortcut_escape (ch : Nat) (flag : Nat) (emit : Nat) : Comp (Ptr × Nat) := do
  let valid_codes :=
    if emit = EMIT_CLASS_BYTES ∨ emit = CHECK_CLASS_ESCAPE then shortcut_codes.drop 3
    else shortcut_codes
  if !strchr valid_codes ch then return (Ptr.null, flag)
  else if emit = CHECK_ESCAPE ∨ emit = CHECK_CLASS_ESCAPE then return (Ptr.one, flag)
  else
    let ctx ← get
    let lower := safe_ctype islower ch
    let mut ret_val := Ptr.one
    let mut clazz : Option (List Nat) := none
    if ch = 100 ∨ ch = 68 then
      if emit = EMIT_CLASS_BYTES then clazz := some ASCII_Digits
      else if emit = EMIT_NODE then
        ret_val ← emit_node (if lower then DIGIT else NOT_DIGIT)
    else if ch = 108 ∨ ch = 76 then
      if emit = EMIT_CLASS_BYTES then clazz := some ctx.Letter_Char
      else if emit = EMIT_NODE then
        ret_val ← emit_node (if lower then LETTER else NOT_LETTER)
    else if ch = 115 ∨ ch = 83 then
      if emit = EMIT_CLASS_BYTES then
        if ctx.Match_Newline then emit_byte 10
        clazz := some ctx.White_Space
      else if emit = EMIT_NODE then
        if ctx.Match_Newline then
          ret_val ← emit_node (if lower then SPACE_NL else NOT_SPACE_NL)
        else
          ret_val ← emit_node (if lower then SPACE else NOT_SPACE)
    else if ch = 119 ∨ ch = 87 then
      if emit = EMIT_CLASS_BYTES then clazz := some ctx.Word_Char
      else if emit = EMIT_NODE then
        ret_val ← emit_node (if lower then WORD_CHAR else NOT_WORD_CHAR)
    else if ch = 121 then
      if emit = EMIT_NODE then ret_val ← emit_node IS_DELIM
      else raise (RegexError.internal 5)
    else if ch = 89 then
      if emit = EMIT_NODE then ret_val ← emit_node NOT_DELIM
      else raise (RegexError.internal 6)
    else if ch = 66 then
      if emit = EMIT_NODE then ret_val ← emit_node NOT_BOUNDARY
      else raise (RegexError.internal 7)
    else
      raise (RegexError.internal 8)
    let flag1 := if emit = EMIT_NODE ∧ ch ≠ 66 then flag ||| (HAS_WIDTH ||| SIMPLE) else flag
    match clazz with
    | some cs => emit_bytes cs
    | none => pure ()
    return (ret_val, flag1)

/-- The function `back_ref(c, flag_param, emit)`, `ch` being the character `*c`; the
flags are passed in and returned. -/
def back_ref (ch : Nat) (flag : Nat) (emit : Nat) : Comp (Ptr × Nat) := do
  let paren_no : Int := (ch : Int) - 48
  if !safe_ctype isdigit ch ∨ paren_no = 0 then return (Ptr.null, flag)
  else
    let ctx ← get
    if !bitTest ctx.Closed_Parens paren_no.toNat then
      raise (RegexError.illegalBackRef paren_no.toNat)
    else if emit = EMIT_NODE then
      let ret_val ← emit_node (if ctx.Is_Case_Insensitive then BACK_REF_CI else BACK_REF)
      emit_byte paren_no.toNat
      let flag1 := if bitTest ctx.Paren_Has_Width paren_no.toNat then flag ||| HAS_WIDTH else flag
      return (ret_val, flag1)
    else if emit = CHECK_ESCAPE then return (Ptr.one, flag)
    else return (Ptr.null, flag)

/-! ## The recursive-descent compiler -/

/-- What `chunk`, `alternative`, `piece` and `atom` hand back: the returned node
pointer, `*flag_param` and `*range_param`. -/
abbrev Ret := Ptr × Nat × len_range

/-- The inner loop of a regex comment: skip to `')'` or to the end of the pattern. -/
def skipComment : Nat → Comp Unit
  | 0 => pure ()
  | fuel + 1 => do
    let ctx ← get
    if ctx.peek ≠ 41 ∧ !ctx.atEnd then
      advance 1
      skipComment fuel
    else pure ()

/-- The comment loop at the head of `atom`; `some r` when `atom` returns from inside the
loop. -/
def atomComments : Nat → Comp (Option Ptr)
  | 0 => raise RegexError.fuel
  | fuel + 1 => do
    let ctx ← get
    if ctx.peek = 40 ∧ ctx.peekAt 1 = 63 ∧ ctx.peekAt 2 = 35 then
      advance 3
      skipComment ctx.InputString.length
      if (← get).peek = 41 then advance 1
      let ctx1 ← get
      if ctx1.peek = 41 ∨ ctx1.peek = 124 ∨ ctx1.atEnd then
        let ret_val ← emit_node NOTHING
        return some ret_val
      else atomComments fuel
    else return none

/-- The loop `for (; second_value <= last_value; second_value++) emit_class_byte(second_value)`
of a class range, run `n` times. -/
def emitClassRange : Nat → Nat → Comp Unit
  | 0, _ => pure ()
  | n + 1, second_value => do
    emit_class_byte second_value
    emitClassRange n (second_value + 1)

/-- The loop over the characters of a class `[...]` in `atom`, `last_emit` being carried
along. -/
def atomClassLoop : Nat → Nat → Comp Unit
  | 0, _ => raise RegexError.fuel
  | fuel + 1, last_emit => do
    let ctx ← get
    if !ctx.atEnd ∧ ctx.peek ≠ 93 then
      if ctx.peek = 45 then
        advance 1
        let ctx1 ← get
        if ctx1.peek = 93 ∨ ctx1.atEnd then
          emit_byte 45
          atomClassLoop fuel 45
        else
          let second_value0 := last_emit + 1
          let mut last_value0 := 0
          if ctx1.peek = 92 then
            advance 1
            let c := (← get).peek
            let test ← numeric_escape_parse
            if test ≠ 0 then last_value0 := test
            else
              let test1 := literal_escape c
              if test1 ≠ 0 then last_value0 := test1
              else
                let (r, _) ← shortcut_escape c 0 CHECK_CLASS_ESCAPE
                if r ≠ Ptr.null then raise (RegexError.notAllowedAsRangeOperand c)
                else raise (RegexError.invalidClassEscape c)
          else
            last_value0 := ctx1.peek
          let second_value :=
            if ctx.Is_Case_Insensitive then safe_ctype tolower second_value0 else second_value0
          let last_value :=
            if ctx.Is_Case_Insensitive then safe_ctype tolower last_value0 else last_value0
          if (second_value + 2 ^ 32 - 1) % 2 ^ 32 > last_value then
            raise RegexError.invalidClassRange
          emitClassRange (last_value + 1 - second_value) second_value
          advance 1
          atomClassLoop fuel (last_value % 256)
      else if ctx.peek = 92 then
        advance 1
        let c := (← get).peek
        let test ← numeric_escape_parse
        if test ≠ 0 then
          emit_class_byte test
          advance 1
          atomClassLoop fuel test
        else
          let test1 := literal_escape c
          if test1 ≠ 0 then
            emit_byte test1
            advance 1
            atomClassLoop fuel test1
          else
            let (r, _) ← shortcut_escape c 0 CHECK_CLASS_ESCAPE
            if r ≠ Ptr.null then
              if (← get).peekAt 1 = 45 then raise (RegexError.notAllowedAsRangeOperand c)
              else
                let _ ← shortcut_escape c 0 EMIT_CLASS_BYTES
                advance 1
                atomClassLoop fuel last_emit
            else raise (RegexError.invalidClassEscape c)
      else
        emit_class_byte ctx.peek
        advance 1
        atomClassLoop fuel ctx.peek
    else pure ()

/-- The loop of the default case of `atom`, which collects a run of ordinary characters
into one node; `len` is carried along and returned. -/
def atomLiteralLoop : Nat → Nat → Comp Nat
  | 0, _ => raise RegexError.fuel
  | fuel + 1, len => do
    let ctx ← get
    if !ctx.atEnd ∧ !strchr ctx.Meta_Char ctx.peek then
      let parse_save := ctx.Reg_Parse
      let mut stop := false
      if ctx.peek = 92 then
        advance 1
        let c := (← get).peek
        let test ← numeric_escape_parse
        if test ≠ 0 then
          emit_byte (if ctx.Is_Case_Insensitive then tolower test else test)
          advance 1
        else
          let test1 := literal_escape c
          if test1 ≠ 0 then
            emit_byte test1
            advance 1
          else
            let (r, _) ← back_ref c 0 CHECK_ESCAPE
            if r ≠ Ptr.null then
              retreat
              stop := true
            else
              let (r1, _) ← shortcut_escape c 0 CHECK_ESCAPE
              if r1 ≠ Ptr.null then
                retreat
                stop := true
              else raise (RegexError.invalidEscape c)
      else
        emit_byte (if ctx.Is_Case_Insensitive then tolower ctx.peek else ctx.peek)
        advance 1
      if stop then return len
      let ctx2 ← get
      if IS_QUANTIFIER ctx2 ctx2.peek ∧ len > 0 then
        if ctx2.Code_Emit_Ptr = Compute_Size then
          set { ctx2 with Reg_Parse := parse_save, Reg_Size := ctx2.Reg_Size - 1 }
        else
          set { ctx2 with Reg_Parse := parse_save, Code_Emit_Ptr := ctx2.Code_Emit_Ptr.add (-1) }
        return len
      atomLiteralLoop fuel (len + 1)
    else return len

/-- The function `atom`; `chunk` stands for the recursive call of `chunk`. -/
def atom (chunk : Nat → Comp Ret) : Comp Ret := do
  let r0 : len_range := { lower := 0, upper := 0 }
  match ← atomComments ((← get).InputString.length + 1) with
  | some ret_val => return (ret_val, WORST, r0)
  | none =>
    let ctx ← get
    if ctx.atEnd then raise (RegexError.internal 3)
    let c := ctx.peek
    advance 1
    if c = 94 then
      let ret_val ← emit_node BOL
      return (ret_val, WORST, r0)
    else if c = 36 then
      let ret_val ← emit_node EOL
      return (ret_val, WORST, r0)
    else if c = 60 then
      let ret_val ← emit_node BOWORD
      return (ret_val, WORST, r0)
    else if c = 62 then
      let ret_val ← emit_node EOWORD
      return (ret_val, WORST, r0)
    else if c = 46 then
      let ret_val ← emit_node (if ctx.Match_Newline then EVERY else ANY)
      return (ret_val, WORST ||| (HAS_WIDTH ||| SIMPLE), { lower := 1, upper := 1 })
    else if c = 40 then
      let ctx1 ← get
      let mut kind := PAREN
      if ctx1.peek = 63 then
        advance 1
        let d := (← get).peek
        if d = 58 then advance 1; kind := NO_CAPTURE
        else if d = 61 then advance 1; kind := POS_AHEAD_OPEN
        else if d = 33 then advance 1; kind := NEG_AHEAD_OPEN
        else if d = 105 then advance 1; kind := INSENSITIVE
        else if d = 73 then advance 1; kind := SENSITIVE
        else if d = 110 then advance 1; kind := NEWLINE
        else if d = 78 then advance 1; kind := NO_NEWLINE
        else if d = 60 then
          advance 1
          let e := (← get).peek
          if e = 61 then advance 1; kind := POS_BEHIND_OPEN
          else if e = 33 then advance 1; kind := NEG_BEHIND_OPEN
          else raise (RegexError.invalidLookBehindSyntax e)
        else raise (RegexError.invalidGroupingSyntax d)
      let (ret_val, flags_local, range_local) ← chunk kind
      if ret_val = Ptr.null then return (Ptr.null, WORST, r0)
      return (ret_val, WORST ||| (flags_local &&& HAS_WIDTH), range_local)
    else if c = 124 ∨ c = 41 then raise (RegexError.internal 3)
    else if c = 63 ∨ c = 43 ∨ c = 42 then
      raise (RegexError.followsNothing c)
    else if c = 123 ∧ ctx.Enable_Counting_Quantifier then raise RegexError.braceFollowsNothing
    else if c = 123 then
      let ret_val ← emit_node EXACTLY
      emit_byte 123
      emit_byte 0
      return (ret_val, WORST, { lower := 1, upper := 1 })
    else if c = 91 then
      let mut last_emit := 0
      let mut ret_val := Ptr.null
      if (← get).peek = 94 then
        ret_val ← emit_node ANY_BUT
        advance 1
        if !ctx.Match_Newline then emit_byte 10
      else
        ret_val ← emit_node ANY_OF
      let ctx1 ← get
      if ctx1.peek = 93 ∨ ctx1.peek = 45 then
        last_emit := ctx1.peek
        emit_byte ctx1.peek
        advance 1
      atomClassLoop (ctx.InputString.length + 1) last_emit
      if (← get).peek ≠ 93 then raise RegexError.missingRightBracket
      emit_byte 0
      advance 1
      return (ret_val, WORST ||| (HAS_WIDTH ||| SIMPLE), { lower := 1, upper := 1 })
    else
      let mut flag := WORST
      if c = 92 then
        let (ret_val, flag1) ← shortcut_escape (← get).peek flag EMIT_NODE
        if ret_val ≠ Ptr.null then
          advance 1
          return (ret_val, flag1, { lower := 1, upper := 1 })
        let (ret_val2, flag2) ← back_ref (← get).peek flag1 EMIT_NODE
        if ret_val2 ≠ Ptr.null then
          advance 1
          return (ret_val2, flag2, { lower := -1, upper := -1 })
        flag := flag2
      retreat
      let ret_val ← emit_node (if ctx.Is_Case_Insensitive then SIMILAR else EXACTLY)
      let len ← atomLiteralLoop (ctx.InputString.length + 1) 0
      if len ≤ 0 then raise (RegexError.internal 4)
      let flag3 := flag ||| HAS_WIDTH
      let flag4 := if len = 1 then flag3 ||| SIMPLE else flag3
      emit_byte 0
      return (ret_val, flag4, { lower := len, upper := len })

/-- The digit loop `while (isdigit(*Reg_Parse))` of `piece` for the operand `i` of
`{min,max}`: returns the operand value and the number of digits seen. -/
def braceDigits (i : Nat) (min0 : Nat) : Nat → Nat → Nat → Comp (Nat × Nat)
  | 0, _, _ => raise RegexError.fuel
  | fuel + 1, value, digit_present => do
    let ctx ← get
    let c := ctx.peek
    if safe_ctype isdigit c then
      if (value = 6553 ∧ c - 48 ≤ 5) ∨ value ≤ 6552 then
        advance 1
        braceDigits i min0 fuel (value * 10 + (c - 48)) (digit_present + 1)
      else if i = 0 then raise (RegexError.minOperandTooBig value c)
      else raise (RegexError.maxOperandTooBig min0 value c)
    else return (value, digit_present)

/-- The parsing and validation of `{min,max}` in `piece`, entered after the `'{'`;
returns `min_max[0]` and `min_max[1]`, with `Reg_Parse` left on the `'}'`. -/
def pieceBrace : Comp (Nat × Nat) := do
  let fuel := (← get).InputString.length + 1
  let (min, dp0) ← braceDigits 0 0 fuel REG_ZERO 0
  let mut comma_present := false
  if (← get).peek = 44 then
    comma_present := true
    advance 1
  let (max0, dp1) ← braceDigits 1 min fuel REG_INFINITY 0
  if !comma_present ∧ (← get).peek = 44 then
    comma_present := true
    advance 1
  if dp0 ≠ 0 ∧ min = REG_ZERO ∧ !comma_present then raise RegexError.range0
  else if dp0 ≠ 0 ∧ min = REG_ZERO ∧ dp1 ≠ 0 ∧ max0 = REG_ZERO then raise RegexError.range00
  else if dp1 ≠ 0 ∧ max0 = REG_ZERO then
    if dp0 ≠ 0 then raise (RegexError.rangeM0 min)
    else raise RegexError.rangeComma0
  let max := if !comma_present then min else max0
  if (← get).peek ≠ 125 then raise RegexError.missingRightBrace
  else if max ≠ REG_INFINITY ∧ min > max then raise (RegexError.invalidRange min max)
  return (min, max)

/-- The code generation of `piece` for the quantifier `op_code` applied to the atom at
`ret_val`. -/
def pieceEmit (op_code : Nat) (simple lazy : Bool) (min max : Nat) (ret_val : Ptr) :
    Comp Unit := do
  if op_code = 42 ∧ simple then
    let _ ← insert (if lazy then LAZY_STAR else STAR) ret_val 0 0 0
  else if op_code = 43 ∧ simple then
    let _ ← insert (if lazy then LAZY_PLUS else PLUS) ret_val 0 0 0
  else if op_code = 63 ∧ simple then
    let _ ← insert (if lazy then LAZY_QUESTION else QUESTION) ret_val 0 0 0
  else if op_code = 123 ∧ simple then
    let _ ← insert (if lazy then LAZY_BRACE else BRACE) ret_val min max 0
  else if (op_code = 42 ∨ op_code = 43) ∧ lazy then
    tail ret_val (← emit_node BACK)
    let _ ← insert BRANCH ret_val 0 0 0
    let _ ← insert NOTHING ret_val 0 0 0
    let next ← emit_node NOTHING
    offset_tail ret_val NODE_SIZE next
    tail ret_val next
    let _ ← insert BRANCH ret_val 0 0 0
    tail ret_val (ret_val.add (2 * NODE_SIZE))
    offset_tail ret_val (3 * NODE_SIZE) ret_val
    if op_code = 43 then
      let _ ← insert NOTHING ret_val 0 0 0
      tail ret_val (ret_val.add (4 * NODE_SIZE))
  else if op_code = 42 then
    let _ ← insert BRANCH ret_val 0 0 0
    offset_tail ret_val NODE_SIZE (← emit_node BACK)
    offset_tail ret_val NODE_SIZE ret_val
    tail ret_val (← emit_node BRANCH)
    tail ret_val (← emit_node NOTHING)
  else if op_code = 43 then
    let next ← emit_node BRANCH
    tail ret_val next
    tail (← emit_node BACK) ret_val
    tail next (← emit_node BRANCH)
    tail ret_val (← emit_node NOTHING)
  else if op_code = 63 ∧ lazy then
    let _ ← insert BRANCH ret_val 0 0 0
    let _ ← insert NOTHING ret_val 0 0 0
    let next ← emit_node NOTHING
    offset_tail ret_val (2 * NODE_SIZE) next
    offset_tail ret_val NODE_SIZE next
    tail ret_val next
    let _ ← insert BRANCH ret_val 0 0 0
    tail ret_val (ret_val.add (2 * NODE_SIZE))
  else if op_code = 63 then
    let _ ← insert BRANCH ret_val 0 0 0
    tail ret_val (← emit_node BRANCH)
    let next ← emit_node NOTHING
    tail ret_val next
    offset_tail ret_val NODE_SIZE next
  else if op_code = 123 ∧ min = max then
    tail ret_val (← emit_special INC_COUNT 0 (← get).Num_Braces)
    tail ret_val (← emit_special TEST_COUNT min (← get).Num_Braces)
    tail (← emit_node BACK) ret_val
    tail ret_val (← emit_node NOTHING)
    let next ← insert INIT_COUNT ret_val 0 0 (← get).Num_Braces
    tail ret_val next
    modify fun ctx => { ctx with Num_Braces := ctx.Num_Braces + 1 }
  else if op_code = 123 ∧ lazy then
    if min = REG_ZERO ∧ max ≠ REG_INFINITY then
      tail ret_val (← emit_special INC_COUNT 0 (← get).Num_Braces)
      let next ← emit_special TEST_COUNT min (← get).Num_Braces
      tail ret_val next
      let _ ← insert BRANCH ret_val 0 0 (← get).Num_Braces
      let _ ← insert NOTHING ret_val 0 0 (← get).Num_Braces
      let _ ← insert BRANCH ret_val 0 0 (← get).Num_Braces
      tail (← emit_node BACK) ret_val
      tail ret_val (ret_val.add (2 * NODE_SIZE))
      let next1 ← emit_node NOTHING
      offset_tail ret_val NODE_SIZE next1
      offset_tail ret_val (2 * NODE_SIZE) next1
      offset_tail ret_val (3 * NODE_SIZE) next1
      let next2 ← insert INIT_COUNT ret_val 0 0 (← get).Num_Braces
      tail ret_val next2
    else if min > REG_ZERO ∧ max = REG_INFINITY then
      tail ret_val (← emit_special INC_COUNT 0 (← get).Num_Braces)
      let next ← emit_special TEST_COUNT min (← get).Num_Braces
      tail ret_val next
      tail (← emit_node BACK) ret_val
      tail ret_val (← emit_node BACK)
      let _ ← insert BRANCH ret_val 0 0 0
      let _ ← insert NOTHING ret_val 0 0 0
      let next1 ← emit_node NOTHING
      offset_tail ret_val NODE_SIZE next1
      tail ret_val next1
      let _ ← insert BRANCH ret_val 0 0 0
      tail ret_val (ret_val.add (2 * NODE_SIZE))
      offset_tail ret_val (3 * NODE_SIZE) ret_val
      let _ ← insert INIT_COUNT ret_val 0 0 (← get).Num_Braces
      tail ret_val (ret_val.add (INDEX_SIZE + 4 * NODE_SIZE))
    else
      tail ret_val (← emit_special INC_COUNT 0 (← get).Num_Braces)
      let next ← emit_special TEST_COUNT max (← get).Num_Braces
      tail ret_val next
      let next1 ← emit_special TEST_COUNT min (← get).Num_Braces
      tail (← emit_node BACK) ret_val
      tail next1 (← emit_node BACK)
      let _ ← insert BRANCH ret_val 0 0 0
      let _ ← insert NOTHING ret_val 0 0 0
      let _ ← insert BRANCH ret_val 0 0 0
      let next2 ← emit_node NOTHING
      offset_tail ret_val NODE_SIZE next2
      offset_tail ret_val (2 * NODE_SIZE) next2
      offset_tail ret_val (3 * NODE_SIZE) next2
      tail ret_val (ret_val.add (2 * NODE_SIZE))
      offset_tail next2 (-(NODE_SIZE : Int)) ret_val
      let _ ← insert INIT_COUNT ret_val 0 0 (← get).Num_Braces
      tail ret_val (ret_val.add (INDEX_SIZE + 4 * NODE_SIZE))
    modify fun ctx => { ctx with Num_Braces := ctx.Num_Braces + 1 }
  else if op_code = 123 then
    if min = REG_ZERO ∧ max ≠ REG_INFINITY then
      tail ret_val (← emit_special INC_COUNT 0 (← get).Num_Braces)
      let next ← emit_special TEST_COUNT max (← get).Num_Braces
      tail ret_val next
      let _ ← insert BRANCH ret_val 0 0 0
      tail (← emit_node BACK) ret_val
      let next1 ← emit_node BRANCH
      tail ret_val next1
      tail next1 (← emit_node NOTHING)
      offset_tail ret_val NODE_SIZE next1
      let next2 ← insert INIT_COUNT ret_val 0 0 (← get).Num_Braces
      tail ret_val next2
    else if min > REG_ZERO ∧ max = REG_INFINITY then
      tail ret_val (← emit_special INC_COUNT 0 (← get).Num_Braces)
      let next ← emit_special TEST_COUNT min (← get).Num_Braces
      tail ret_val next
      tail (← emit_node BACK) ret_val
      let _ ← insert BRANCH ret_val 0 0 0
      let next1 ← emit_node BACK
      tail next1 ret_val
      offset_tail ret_val NODE_SIZE next1
      tail ret_val (← emit_node BRANCH)
      tail ret_val (← emit_node NOTHING)
      let _ ← insert INIT_COUNT ret_val 0 0 (← get).Num_Braces
      tail ret_val (ret_val.add (INDEX_SIZE + 2 * NODE_SIZE))
    else
      tail ret_val (← emit_special INC_COUNT 0 (← get).Num_Braces)
      let next ← emit_special TEST_COUNT max (← get).Num_Braces
      tail ret_val next
      let next1 ← emit_special TEST_COUNT min (← get).Num_Braces
      tail (← emit_node BACK) ret_val
      tail next1 (← emit_node BACK)
      let _ ← insert BRANCH ret_val 0 0 0
      let next2 ← emit_node BRANCH
      tail ret_val next2
      offset_tail next2 (-(NODE_SIZE : Int)) ret_val
      let next3 ← emit_node NOTHING
      offset_tail ret_val NODE_SIZE next3
      offset_tail next3 (-(NODE_SIZE : Int)) next3
      let _ ← insert INIT_COUNT ret_val 0 0 (← get).Num_Braces
      tail ret_val (ret_val.add (INDEX_SIZE + 2 * NODE_SIZE))
    modify fun ctx => { ctx with Num_Braces := ctx.Num_Braces + 1 }
  else
    raise (RegexError.internal 2)

/-- The function `piece`; `chunk` stands for the recursive call of `chunk`. -/
def piece (chunk : Nat → Comp Ret) : Comp Ret := do
  let (ret_val, flags_local, range_local) ← atom chunk
  if ret_val = Ptr.null then return (Ptr.null, WORST, { lower := 0, upper := 0 })
  let ctx ← get
  let op_code0 := ctx.peek
  if !IS_QUANTIFIER ctx op_code0 then return (ret_val, flags_local, range_local)
  let mut min := REG_ZERO
  let mut max := REG_INFINITY
  let mut brace_present := false
  if op_code0 = 123 then
    brace_present := true
    advance 1
    let (m, n) ← pieceBrace
    min := m
    max := n
  advance 1
  let mut lazy := false
  if (← get).peek = 63 then
    lazy := true
    advance 1
  let mut op_code := op_code0
  if op_code0 = 123 then
    if min = REG_ZERO ∧ max = REG_INFINITY then op_code := 42
    else if min = REG_ONE ∧ max = REG_INFINITY then op_code := 43
    else if min = REG_ZERO ∧ max = REG_ONE then op_code := 63
    else if min = REG_ONE ∧ max = REG_ONE then return (ret_val, flags_local, range_local)
    else if (← get).Num_Braces > UINT8_MAX then raise RegexError.tooManyBraces
  if op_code = 43 then min := REG_ONE
  if op_code = 63 then max := REG_ONE
  if flags_local &&& HAS_WIDTH = 0 then
    if brace_present then raise (RegexError.braceOperandEmpty min max)
    else raise (RegexError.operandEmpty op_code)
  let flag := if min > REG_ZERO then WORST ||| HAS_WIDTH else WORST
  let range : len_range :=
    if range_local.lower ≥ 0 then
      if max ≠ REG_INFINITY then
        { lower := toLong (range_local.lower * min), upper := toLong (range_local.upper * max) }
      else { lower := -1, upper := -1 }
    else { lower := -1, upper := -1 }
  pieceEmit op_code (decide (flags_local &&& SIMPLE ≠ 0)) lazy min max ret_val
  let ctx1 ← get
  if IS_QUANTIFIER ctx1 ctx1.peek then
    if op_code = 123 then raise (RegexError.nestedBrace ctx1.peek)
    else raise (RegexError.nested op_code ctx1.peek)
  return (ret_val, flag, range)

/-- The loop of `alternative` over the pieces of one branch; `chain` and the flags and
range accumulated so far are carried along. -/
def alternativeLoop (chunk : Nat → Comp Ret) :
    Nat → Ptr → Nat → len_range → Comp (Option (Ptr × Nat × len_range))
  | 0, _, _, _ => raise RegexError.fuel
  | fuel + 1, chain, flag, range => do
    let ctx ← get
    if ctx.peek ≠ 124 ∧ ctx.peek ≠ 41 ∧ !ctx.atEnd then
      let (latest, flags_local, range_local) ← piece chunk
      if latest = Ptr.null then return none
      let flag1 := flag ||| (flags_local &&& HAS_WIDTH)
      let range1 : len_range :=
        if range_local.lower < 0 then { lower := -1, upper := -1 }
        else if range.lower ≥ 0 then
          { lower := toLong (range.lower + range_local.lower),
            upper := toLong (range.upper + range_local.upper) }
        else range
      if chain ≠ Ptr.null then tail chain latest
      alternativeLoop chunk fuel latest flag1 range1
    else return some (chain, flag, range)

/-- The function `alternative`; `chunk` stands for the recursive call of `chunk`. -/
def alternative (chunk : Nat → Comp Ret) : Comp Ret := do
  let ret_val ← emit_node BRANCH
  let fuel := (← get).InputString.length + 1
  match ← alternativeLoop chunk fuel Ptr.null WORST { lower := 0, upper := 0 } with
  | none => return (Ptr.null, WORST, { lower := 0, upper := 0 })
  | some (chain, flag, range) =>
    if chain = Ptr.null then
      let _ ← emit_node NOTHING
    return (ret_val, flag, range)

/-- The loop of `chunk` over the alternatives separated by `'|'`; `ret_val`, `first`,
`*flag_param` and `*range_param` are carried along. -/
def chunkBranches (chunk : Nat → Comp Ret) :
    Nat → Ptr → Bool → Nat → len_range → Comp (Option (Ptr × Nat × len_range))
  | 0, _, _, _, _ => raise RegexError.fuel
  | fuel + 1, ret_val, first, flag, range => do
    let (this_branch, flags_local, range_local) ← alternative chunk
    if this_branch = Ptr.null then return none
    let ret_val1 := if first ∧ ret_val = Ptr.null then this_branch else ret_val
    let range1 : len_range :=
      if first then range_local
      else if range.lower ≥ 0 then
        if range_local.lower ≥ 0 then
          { lower := if range_local.lower < range.lower then range_local.lower else range.lower,
            upper := if range_local.upper > range.upper then range_local.upper else range.upper }
        else { lower := -1, upper := -1 }
      else range
    tail ret_val1 this_branch
    let flag1 := if flags_local &&& HAS_WIDTH = 0 then flag &&& (2 ^ 32 - 1 - HAS_WIDTH) else flag
    if (← get).peek ≠ 124 then return some (ret_val1, flag1, range1)
    advance 1
    chunkBranches chunk fuel ret_val1 false flag1 range1

/-- The loop of `chunk` that hooks the tail of every branch to the closing node. -/
def chunkHook (ender : Ptr) : Nat → Ptr → Comp Unit
  | 0, _ => raise RegexError.fuel
  | fuel + 1, this_branch => do
    if this_branch ≠ Ptr.null then
      branch_tail this_branch NODE_SIZE ender
      chunkHook ender fuel (next_ptr (← get).program this_branch)
    else pure ()

/-- The loop `while (Reg_Parse[i] == '0') i++` of `chunk`. -/
def skipZeros (ctx : ParseContext) : Nat → Nat → Nat
  | 0, i => i
  | fuel + 1, i => if ctx.peekAt i = 48 then skipZeros ctx fuel (i + 1) else i

/-- The body of `chunk(paren, flag_param, range_param)`; `chunk` stands for the
recursive call made through `atom`. -/
def chunkBody (chunk : Nat → Comp Ret) (paren : Nat) : Comp Ret := do
  let ctx0 ← get
  let old_sensitive := ctx0.Is_Case_Insensitive
  let old_newline := ctx0.Match_Newline
  let mut ret_val := Ptr.null
  let mut this_paren := 0
  let mut look_only := false
  let mut emit_look_behind_bounds := Ptr.null
  let mut flag := HAS_WIDTH
  if paren = PAREN then
    if ctx0.Total_Paren ≥ NSUBEXP then raise RegexError.tooManyParens
    this_paren := ctx0.Total_Paren
    set { ctx0 with Total_Paren := (ctx0.Total_Paren + 1) % 256 }
    ret_val ← emit_node (OPEN + this_paren)
  else if paren = POS_AHEAD_OPEN ∨ paren = NEG_AHEAD_OPEN then
    flag := WORST
    look_only := true
    ret_val ← emit_node paren
  else if paren = POS_BEHIND_OPEN ∨ paren = NEG_BEHIND_OPEN then
    flag := WORST
    look_only := true
    ret_val ← emit_special paren 0 0
    emit_look_behind_bounds := ret_val.add NODE_SIZE
  else if paren = INSENSITIVE then
    set { ctx0 with Is_Case_Insensitive := true }
  else if paren = SENSITIVE then
    set { ctx0 with Is_Case_Insensitive := false }
  else if paren = NEWLINE then
    set { ctx0 with Match_Newline := true }
  else if paren = NO_NEWLINE then
    set { ctx0 with Match_Newline := false }
  let fuel := ctx0.InputString.length + 1
  match ← chunkBranches chunk fuel ret_val true flag { lower := 0, upper := 0 } with
  | none => return (Ptr.null, flag, { lower := 0, upper := 0 })
  | some (ret_val1, flag1, range1) =>
    let ender ←
      if paren = PAREN then emit_node (CLOSE + this_paren)
      else if paren = NO_PAREN then emit_node END
      else if paren = POS_AHEAD_OPEN ∨ paren = NEG_AHEAD_OPEN then emit_node LOOK_AHEAD_CLOSE
      else if paren = POS_BEHIND_OPEN ∨ paren = NEG_BEHIND_OPEN then emit_node LOOK_BEHIND_CLOSE
      else emit_node NOTHING
    tail ret_val1 ender
    chunkHook ender ((← get).program.length + 2) ret_val1
    let ctx1 ← get
    if paren ≠ NO_PAREN then
      advance 1
      if ctx1.peek ≠ 41 then raise RegexError.missingRightParen
    else if !ctx1.atEnd then
      if ctx1.peek = 41 then raise RegexError.missingLeftParen
      else raise RegexError.junkOnEnd
    if emit_look_behind_bounds ≠ Ptr.null then
      if range1.lower < 0 then raise RegexError.lookBehindUnbounded
      if range1.upper > 65535 then raise RegexError.lookBehindTooLarge
      let ctx2 ← get
      if ctx2.Code_Emit_Ptr ≠ Compute_Size then
        let p0 := poke ctx2.program emit_look_behind_bounds (PUT_OFFSET_L range1.lower)
        let p1 := poke p0 (emit_look_behind_bounds.add 1) (PUT_OFFSET_R range1.lower)
        let p2 := poke p1 (emit_look_behind_bounds.add 2) (PUT_OFFSET_L range1.upper)
        let p3 := poke p2 (emit_look_behind_bounds.add 3) (PUT_OFFSET_R range1.upper)
        set { ctx2 with program := p3 }
    let range2 : len_range := if look_only then { lower := 0, upper := 0 } else range1
    let mut zero_width := false
    let ctx3 ← get
    if paren = PAREN ∧ this_paren ≤ 64 then
      set { ctx3 with Closed_Parens := bitSet ctx3.Closed_Parens this_paren }
      if ctx3.peek = 63 ∨ ctx3.peek = 42 then zero_width := true
      else if ctx3.peek = 123 ∧ ctx3.Brace_Char = 123 then
        if ctx3.peekAt 1 = 44 ∨ ctx3.peekAt 1 = 125 then zero_width := true
        else if ctx3.peekAt 1 = 48 then
          let i := skipZeros ctx3 ctx3.InputString.length 2
          if ctx3.peekAt i = 44 then zero_width := true
    if flag1 &&& HAS_WIDTH ≠ 0 ∧ paren = PAREN ∧ !zero_width ∧ this_paren ≤ 64 then
      modify fun c => { c with Paren_Has_Width := bitSet c.Paren_Has_Width this_paren }
    modify fun c => { c with Is_Case_Insensitive := old_sensitive, Match_Newline := old_newline }
    return (ret_val1, flag1, range2)

/-- The function `chunk`, the recursion through `atom` being bounded by the fuel. -/
def chunk : Nat → Nat → Comp Ret
  | 0, _ => raise RegexError.fuel
  | fuel + 1, paren => chunkBody (chunk fuel) paren

/-- The class `regexp`: the compiled program and the results of the last match.  The
arrays `startp` and `endp` (of `NSUBEXP` pointers) are functions of the index. -/
structure regexp where
  program : List Nat
  match_start : Nat
  anchor : Nat
  startp : Nat → Option Nat
  endp : Nat → Option Nat
  extentpBW : Option Nat
  extentpFW : Option Nat
  top_branch : Nat

/-- The context at the start of a pass of `CompileRE`. -/
def passContext (exp : List Nat) (defaultFlags : Nat) (counting : Bool)
    (program : List Nat) (emit : Ptr) (size : Nat) : ParseContext :=
  init_ansi_classes
    { Reg_Parse := 0, InputString := exp, program := program, Code_Emit_Ptr := emit,
      Reg_Size := size, Closed_Parens := 0, Paren_Has_Width := 0, Num_Braces := 0,
      Total_Paren := 1,
      Is_Case_Insensitive := decide (defaultFlags &&& REDFLT_CASE_INSENSITIVE ≠ 0),
      Match_Newline := false, Enable_Counting_Quantifier := counting,
      White_Space := [], Word_Char := [], Letter_Char := [],
      Brace_Char := if counting then 123 else 42,
      Meta_Char := if counting then Default_Meta_Char else Default_Meta_Char.drop 1 }

/-- One pass of the loop of `CompileRE`: the three header bytes and the top-level
`chunk`. -/
def compilePass (ctx : ParseContext) : Except RegexError ParseContext :=
  match (do emit_byte MAGIC; emit_byte 37; emit_byte 37
            chunk (ctx.InputString.length + 1) NO_PAREN : Comp Ret) ctx with
  | Except.error e => Except.error e
  | Except.ok ((ret_val, _, _), ctx1) =>
    if ret_val = Ptr.null then Except.error (RegexError.internal 10) else Except.ok ctx1

/-- The constructor `regexp::regexp(exp, defaultFlags)` with the setting
`Enable_Counting_Quantifier = counting`. -/
def CompileRE_counting (counting : Bool) (exp : List Nat) (defaultFlags : Nat) :
    Except RegexError regexp :=
  match compilePass (passContext exp defaultFlags counting [] Compute_Size 0) with
  | Except.error e => Except.error e
  | Except.ok ctx1 =>
    if ctx1.Reg_Size ≥ MAX_COMPILED_SIZE then Except.error RegexError.tooBig
    else
      match compilePass (passContext exp defaultFlags counting
              (List.replicate ctx1.Reg_Size 0) (Ptr.prog 0) ctx1.Reg_Size) with
      | Except.error e => Except.error e
      | Except.ok ctx2 =>
        let p0 := (ctx2.program.set 1 ((ctx2.Total_Paren + 255) % 256)).set 2 (ctx2.Num_Braces % 256)
        let scan := Ptr.prog REGEX_START_OFFSET
        let r : regexp :=
          { program := p0, match_start := 0, anchor := 0,
            startp := fun _ => none, endp := fun _ => none,
            extentpBW := none, extentpFW := none, top_branch := 0 }
        if GET_OP_CODE p0 (next_ptr p0 scan) = END then
          let scan1 := OPERAND scan
          if GET_OP_CODE p0 scan1 = EXACTLY then
            Except.ok { r with match_start := GET_OP_CODE p0 (OPERAND scan1) }
          else if PLUS ≤ GET_OP_CODE p0 scan1 ∧ GET_OP_CODE p0 scan1 ≤ LAZY_PLUS then
            if GET_OP_CODE p0 (scan1.add NODE_SIZE) = EXACTLY then
              Except.ok { r with match_start := GET_OP_CODE p0 (OPERAND (scan1.add NODE_SIZE)) }
            else Except.ok r
          else if GET_OP_CODE p0 scan1 = BOL then Except.ok { r with anchor := 1 }
          else Except.ok r
        else Except.ok r

/-- The constructor `regexp::regexp(exp, defaultFlags)`; `Enable_Counting_Quantifier`
has its default value `true`. -/
def CompileRE (exp : List Nat) (defaultFlags : Nat) : Except RegexError regexp :=
  CompileRE_counting true exp defaultFlags

/-! ## Execution -/

/-- The global work variables of `ExecRE` (`eContext`), with the two fields
`Total_Paren` and `Num_Braces` of `pContext` that `ExecRE` sets.  Pointers into the
text are indices; the arrays are functions of the index.  `Start_Ptr_Ptr` and
`End_Ptr_Ptr` alias the arrays `startp` and `endp` of the `regexp`. -/
structure ExecuteContext where
  Reg_Input : Nat
  Start_Of_String : Nat
  End_Of_String : Option Nat
  Look_Behind_To : Nat
  Start_Ptr_Ptr : Nat → Option Nat
  End_Ptr_Ptr : Nat → Option Nat
  Extent_Ptr_FW : Option Nat
  Extent_Ptr_BW : Option Nat
  Back_Ref_Start : Nat → Option Nat
  Back_Ref_End : Nat → Option Nat
  Prev_Is_BOL : Bool
  Succ_Is_EOL : Bool
  Prev_Is_Delim : Bool
  Succ_Is_Delim : Bool
  Recursion_Count : Nat
  Recursion_Limit_Exceeded : Bool
  Current_Delimiters : Nat
  BraceCounts : Nat → Nat
  Total_Paren : Nat
  Num_Braces : Nat

/-- The assignment `a[i] = v` to an array. -/
def arraySet {α : Type} (a : Nat → α) (i : Nat) (v : α) : Nat → α :=
  fun j => if j = i then v else a j

/-- The call `std::fill_n(a.begin(), n, v)`. -/
def fill_n {α : Type} (a : Nat → α) (n : Nat) (v : α) : Nat → α :=
  fun j => if j < n then v else a j

def AT_END_OF_STRING (st : ExecuteContext) (ptr : Nat) : Bool :=
  match st.End_Of_String with
  | some e => decide (ptr ≥ e)
  | none => false

def isDelimiter (st : ExecuteContext) (ch : Nat) : Bool :=
  if ch < 256 then bitTest st.Current_Delimiters ch else false

/-- The macro `NEXT_PTR(in_ptr, out_ptr)`. -/
def NEXT_PTR (prog : List Nat) (in_ptr : Ptr) : Ptr :=
  let next_ptr_offset := GET_OFFSET prog in_ptr
  if next_ptr_offset = 0 then Ptr.null
  else if GET_OP_CODE prog in_ptr = BACK then in_ptr.add (-(next_ptr_offset : Int))
  else in_ptr.add (next_ptr_offset : Int)

/-- The NUL-terminated string stored in the program at `p`. -/
def cstring (prog : List Nat) (p : Ptr) : List Nat :=
  match p with
  | Ptr.prog i => (prog.drop i).takeWhile fun c => c ≠ 0
  | _ => []

/-- The test `strncmp(s, text + i, s.length) == 0` for a string `s` without NUL. -/
def strncmpEq : List Nat → List Nat → Nat → Bool
  | [], _, _ => true
  | c :: cs, text, i => decide (text.getD i 0 = c) && strncmpEq cs text (i + 1)

/-- The condition on `*input_str` in the loop of `greedy` for the node `op` with operand
string `operand`; `none` in the default case. -/
def greedyPred (st : ExecuteContext) (op : Nat) (operand : List Nat) (c : Nat) : Option Bool :=
  if op = ANY then some (decide (c ≠ 10))
  else if op = EVERY then some true
  else if op = EXACTLY then some (decide (operand.headD 0 = c))
  else if op = SIMILAR then some (decide (operand.headD 0 = tolower c))
  else if op = ANY_OF then some (strchr operand c)
  else if op = ANY_BUT then some (!strchr operand c)
  else if op = IS_DELIM then some (isDelimiter st c)
  else if op = NOT_DELIM then some (!isDelimiter st c)
  else if op = WORD_CHAR then some (safe_ctype isalnum c || decide (c = 95))
  else if op = NOT_WORD_CHAR then
    some (!safe_ctype isalnum c && decide (c ≠ 95) && decide (c ≠ 10))
  else if op = DIGIT then some (safe_ctype isdigit c)
  else if op = NOT_DIGIT then some (!safe_ctype isdigit c && decide (c ≠ 10))
  else if op = SPACE then some (safe_ctype isspace c && decide (c ≠ 10))
  else if op = SPACE_NL then some (safe_ctype isspace c)
  else if op = NOT_SPACE then some (!safe_ctype isspace c)
  else if op = NOT_SPACE_NL then some (!safe_ctype isspace c || decide (c = 10))
  else if op = LETTER then some (safe_ctype isalpha c)
  else if op = NOT_LETTER then some (!safe_ctype isalpha c && decide (c ≠ 10))
  else none

/-- The loop of `greedy`: `while (count < max_cmp && pred(*input_str) &&
!AT_END_OF_STRING(input_str)) { count++; input_str++; }`; `none` when it does not stop
within the fuel. -/
def greedyLoop (st : ExecuteContext) (text : List Nat) (pred : Nat → Bool) (max_cmp : Nat) :
    Nat → Nat → Nat → Option (Nat × Nat)
  | 0, _, _ => none
  | fuel + 1, count, input_str =>
    if count < max_cmp ∧ pred (text.getD input_str 0) ∧ !AT_END_OF_STRING st input_str then
      greedyLoop st text pred max_cmp fuel (count + 1) (input_str + 1)
    else some (count, input_str)

/-- The function `greedy(p, max)`: the count, and the context with `Reg_Input` moved. -/
def greedy (prog text : List Nat) (p : Ptr) (max : Int) (st : ExecuteContext) :
    Option (Nat × ExecuteContext) :=
  let max_cmp := if max > 0 then max.toNat else ULONG_MAX
  match greedyPred st (GET_OP_CODE prog p) (cstring prog (OPERAND p)) 0 with
  | none => some (0, st)
  | some _ =>
    match greedyLoop st text
        (fun c => (greedyPred st (GET_OP_CODE prog p) (cstring prog (OPERAND p)) c).getD false)
        max_cmp (text.length + 2) 0 st.Reg_Input with
    | none => none
    | some (count, input_str) => some (count, { st with Reg_Input := input_str })

/-- What a call of `match` hands back: the returned value, `*branch_index_param`
(`none` for a null pointer) and the context. -/
abbrev MatchResult := Option (Bool × Option Nat × ExecuteContext)

/-- The macro `MATCH_RETURN(X)`. -/
def MATCH_RETURN (x : Bool) (bip : Option Nat) (st : ExecuteContext) : MatchResult :=
  some (x, bip, { st with Recursion_Count := st.Recursion_Count - 1 })

/-- The entry of `match(prog, branch_index_param)`: the recursion counter and its limit;
`loop` is the rest of the function. -/
def matchEntry (loop : Ptr → Option Nat → ExecuteContext → MatchResult)
    (prog : Ptr) (bip : Option Nat) (st : ExecuteContext) : MatchResult :=
  let st1 := { st with Recursion_Count := st.Recursion_Count + 1 }
  if st1.Recursion_Count > REGEX_RECURSION_LIMIT then
    MATCH_RETURN false bip { st1 with Recursion_Limit_Exceeded := true }
  else loop prog bip st1

/-- The `do ... while` loop of the `BRANCH` case over the alternatives; `rec` is the
recursive call `match(p, nullptr)`. -/
def branchLoop (prog : List Nat) (rec : Ptr → ExecuteContext → MatchResult) :
    Nat → Ptr → Nat → Option Nat → ExecuteContext → MatchResult
  | 0, _, _, _, _ => none
  | fuel + 1, scan, branch_index_local, bip, st =>
    let save := st.Reg_Input
    match rec (OPERAND scan) st with
    | none => none
    | some (true, _, st1) =>
      MATCH_RETURN true (bip.map fun _ => branch_index_local) st1
    | some (false, _, st1) =>
      if st1.Recursion_Limit_Exceeded then MATCH_RETURN false bip st1
      else
        let st2 := { st1 with Reg_Input := save }
        let scan1 := NEXT_PTR prog scan
        if scan1 ≠ Ptr.null ∧ GET_OP_CODE prog scan1 = BRANCH then
          branchLoop prog rec fuel scan1 (branch_index_local + 1) bip st2
        else MATCH_RETURN false bip st2

/-- The loop of the `SIMILAR` case over the operand: whether every character matched,
and the context with `Reg_Input` as the loop leaves it. -/
def similarLoop (text : List Nat) : List Nat → ExecuteContext → Bool × ExecuteContext
  | [], st => (true, st)
  | test :: opnd, st =>
    if AT_END_OF_STRING st st.Reg_Input then (false, st)
    else if tolower (text.getD st.Reg_Input 0) ≠ test then
      (false, { st with Reg_Input := st.Reg_Input + 1 })
    else similarLoop text opnd { st with Reg_Input := st.Reg_Input + 1 }

/-- The loops `while (captured < finish)` of the `BACK_REF` cases, run
`n = finish - captured` times: whether every character matched, and the context with
`Reg_Input` as the loop leaves it. -/
def backRefLoop (text : List Nat) (ci : Bool) :
    Nat → Nat → ExecuteContext → Bool × ExecuteContext
  | 0, _, st => (true, st)
  | n + 1, captured, st =>
    if AT_END_OF_STRING st st.Reg_Input then (false, st)
    else
      let a := text.getD captured 0
      let b := text.getD st.Reg_Input 0
      if (if ci then tolower a ≠ tolower b else a ≠ b) then
        (false, { st with Reg_Input := st.Reg_Input + 1 })
      else backRefLoop text ci n (captured + 1) { st with Reg_Input := st.Reg_Input + 1 }

/-- The loop `while (min <= num_matched && num_matched <= max)` of the repetition
cases; `rec` is the recursive call `match(p, nullptr)`. -/
def repeatLoop (prog text : List Nat) (rec : Ptr → ExecuteContext → MatchResult)
    (next next_op : Ptr) (next_char : Nat) (lazy : Bool) (min max : Nat) (save : Nat) :
    Nat → Nat → Option Nat → ExecuteContext → MatchResult
  | 0, _, _, _ => none
  | fuel + 1, num_matched, bip, st =>
    if min ≤ num_matched ∧ num_matched ≤ max then
      let tryNext := decide (next_char = 0 ∨ next_char = text.getD st.Reg_Input 0)
      match (if tryNext then rec next st else some (false, none, st)) with
      | none => none
      | some (true, _, st1) => MATCH_RETURN true bip st1
      | some (false, _, st1) =>
        if tryNext ∧ st1.Recursion_Limit_Exceeded then MATCH_RETURN false bip st1
        else if lazy then
          match greedy prog text next_op 1 st1 with
          | none => none
          | some (n, st2) =>
            if n = 0 then MATCH_RETURN false bip st2
            else
              repeatLoop prog text rec next next_op next_char lazy min max save fuel
                (num_matched + 1) bip { st2 with Reg_Input := save + (num_matched + 1) }
        else if num_matched > REG_ZERO then
          repeatLoop prog text rec next next_op next_char lazy min max save fuel
            (num_matched - 1) bip { st1 with Reg_Input := save + (num_matched - 1) }
        else if min = REG_ZERO ∧ num_matched = REG_ZERO then MATCH_RETURN false bip st1
        else
          repeatLoop prog text rec next next_op next_char lazy min max save fuel
            num_matched bip { st1 with Reg_Input := save + num_matched }
    else MATCH_RETURN false bip st

/-- The loop `for (offset = lower; offset <= upper; ++offset)` of the look-behind
cases, run at most `n` times; `rec` is the call `match(next, nullptr)`.  The result is
`none` when the recursion limit was exceeded, otherwise `found`. -/
def lookBehindLoop (rec : ExecuteContext → MatchResult) (save : Nat) :
    Nat → Nat → ExecuteContext → Option (Option Bool × ExecuteContext)
  | 0, _, st => some (some false, st)
  | n + 1, offset, st =>
    if (save : Int) - offset < st.Look_Behind_To then
      some (some false, { st with Reg_Input := save - offset })
    else
      match rec { st with Reg_Input := save - offset } with
      | none => none
      | some (answer, _, st1) =>
        if st1.Recursion_Limit_Exceeded then some (none, st1)
        else if answer ∧ st1.Reg_Input = save then
          let bw :=
            match st1.Extent_Ptr_BW with
            | none => some (save - offset)
            | some e => if (e : Int) - ((save : Int) - offset) > 0 then some (save - offset) else some e
          some (some true, { st1 with Extent_Ptr_BW := bw })
        else lookBehindLoop rec save n (offset + 1) st1

/-- The loop `while (GET_OP_CODE(next) == BRANCH) next = next_ptr(next)` that skips the
branches of a look-ahead or look-behind. -/
def skipBranches (prog : List Nat) : Nat → Ptr → Option Ptr
  | 0, _ => none
  | fuel + 1, next =>
    if GET_OP_CODE prog next = BRANCH then skipBranches prog fuel (next_ptr prog next)
    else some next

/-- The update of `Extent_Ptr_FW` in the `END` and look-ahead cases. -/
def extentFW (st : ExecuteContext) : ExecuteContext :=
  match st.Extent_Ptr_FW with
  | none => { st with Extent_Ptr_FW := some st.Reg_Input }
  | some e => if st.Reg_Input > e then { st with Extent_Ptr_FW := some st.Reg_Input } else st

/-- One-character cases of `match`: the test made on `*Reg_Input`; the node matches
when it holds, and `Reg_Input` is then advanced by one. -/
def matchCharTest (prog : List Nat) (scan : Ptr) (st : ExecuteContext) (op : Nat) (c : Nat) :
    Option Bool :=
  let atEnd := AT_END_OF_STRING st st.Reg_Input
  if op = IS_DELIM then some (isDelimiter st c && !atEnd)
  else if op = NOT_DELIM then some (!isDelimiter st c && !atEnd)
  else if op = WORD_CHAR then some ((safe_ctype isalnum c || decide (c = 95)) && !atEnd)
  else if op = NOT_WORD_CHAR then
    some (!(safe_ctype isalnum c || decide (c = 95) || decide (c = 10) || atEnd))
  else if op = ANY then some (!(atEnd || decide (c = 10)))
  else if op = EVERY then some (!atEnd)
  else if op = DIGIT then some (!(!safe_ctype isdigit c || atEnd))
  else if op = NOT_DIGIT then some (!(safe_ctype isdigit c || decide (c = 10) || atEnd))
  else if op = LETTER then some (!(!safe_ctype isalpha c || atEnd))
  else if op = NOT_LETTER then some (!(safe_ctype isalpha c || decide (c = 10) || atEnd))
  else if op = SPACE then some (!(!safe_ctype isspace c || decide (c = 10) || atEnd))
  else if op = SPACE_NL then some (!(!safe_ctype isspace c || atEnd))
  else if op = NOT_SPACE then some (!(safe_ctype isspace c || atEnd))
  else if op = NOT_SPACE_NL then some (!((safe_ctype isspace c && decide (c ≠ 10)) || atEnd))
  else if op = ANY_OF then some (!atEnd && strchr (cstring prog (OPERAND scan)) c)
  else if op = ANY_BUT then some (!atEnd && !strchr (cstring prog (OPERAND scan)) c)
  else none

/-- The anchor cases of `match`: the test made at `Reg_Input`; the node matches when
it holds, and consumes nothing. -/
def matchAnchorTest (text : List Nat) (st : ExecuteContext) (op : Nat) : Option Bool :=
  let prev_is_delim :=
    if st.Reg_Input = st.Start_Of_String then st.Prev_Is_Delim
    else isDelimiter st (text.getD (st.Reg_Input - 1) 0)
  let current_is_delim :=
    if AT_END_OF_STRING st st.Reg_Input then st.Succ_Is_Delim
    else isDelimiter st (text.getD st.Reg_Input 0)
  if op = BOL then
    some (if st.Reg_Input = st.Start_Of_String then st.Prev_Is_BOL
          else decide (text.getD (st.Reg_Input - 1) 0 = 10))
  else if op = EOL then
    some (decide (text.getD st.Reg_Input 0 = 10) ||
          (AT_END_OF_STRING st st.Reg_Input && st.Succ_Is_EOL))
  else if op = BOWORD then some (prev_is_delim && !current_is_delim)
  else if op = EOWORD then some (!prev_is_delim && current_is_delim)
  else if op = NOT_BOUNDARY then some (!(xor prev_is_delim current_is_delim))
  else none

/-- The `case BRANCH` of `match`; `rec_` is the recursive call `match(p, nullptr)` and
`continue_` the next turn of the loop `while (scan)`. -/
def case_BRANCH (prog : List Nat) (rec_ : Ptr → ExecuteContext → MatchResult)
    (continue_ : Ptr → ExecuteContext → MatchResult) (fuel : Nat) (scan next : Ptr)
    (bip : Option Nat) (st : ExecuteContext) : MatchResult :=
  if GET_OP_CODE prog next ≠ BRANCH then continue_ (OPERAND scan) st
  else branchLoop prog rec_ fuel scan 0 bip st

/-- The `case EXACTLY` of `match`. -/
def case_EXACTLY (prog text : List Nat) (continue_ : Ptr → ExecuteContext → MatchResult)
    (scan next : Ptr) (bip : Option Nat) (st : ExecuteContext) : MatchResult :=
  let opnd := OPERAND scan
  let str := cstring prog opnd
  if GET_OP_CODE prog opnd ≠ text.getD st.Reg_Input 0 then MATCH_RETURN false bip st
  else
    let len := str.length
    if (match st.End_Of_String with
        | some e => decide (st.Reg_Input + len > e)
        | none => false) then MATCH_RETURN false bip st
    else if len > 1 ∧ !strncmpEq str text st.Reg_Input then MATCH_RETURN false bip st
    else continue_ next { st with Reg_Input := st.Reg_Input + len }

/-- The `case SIMILAR` of `match`. -/
def case_SIMILAR (prog text : List Nat) (continue_ : Ptr → ExecuteContext → MatchResult)
    (scan next : Ptr) (bip : Option Nat) (st : ExecuteContext) : MatchResult :=
  match similarLoop text (cstring prog (OPERAND scan)) st with
  | (false, st1) => MATCH_RETURN false bip st1
  | (true, st1) => continue_ next st1

/-- The cases `STAR`, `PLUS`, `QUESTION`, `BRACE` and their lazy forms of `match`. -/
def case_REPEAT (prog text : List Nat) (rec_ : Ptr → ExecuteContext → MatchResult)
    (fuel : Nat) (op : Nat) (scan next : Ptr) (bip : Option Nat) (st : ExecuteContext) :
    MatchResult :=
  let next_char := if GET_OP_CODE prog next = EXACTLY then GET_OP_CODE prog (OPERAND next) else 0
  let lazy := decide (op = LAZY_STAR ∨ op = LAZY_PLUS ∨ op = LAZY_QUESTION ∨ op = LAZY_BRACE)
  let brace := decide (op = BRACE ∨ op = LAZY_BRACE)
  let min :=
    if op = STAR ∨ op = LAZY_STAR then REG_ZERO
    else if op = PLUS ∨ op = LAZY_PLUS then REG_ONE
    else if op = QUESTION ∨ op = LAZY_QUESTION then REG_ZERO
    else GET_OFFSET prog (scan.add NEXT_PTR_SIZE)
  let max :=
    if op = STAR ∨ op = LAZY_STAR then ULONG_MAX
    else if op = PLUS ∨ op = LAZY_PLUS then ULONG_MAX
    else if op = QUESTION ∨ op = LAZY_QUESTION then REG_ONE
    else if GET_OFFSET prog (scan.add (2 * NEXT_PTR_SIZE)) ≤ REG_INFINITY then ULONG_MAX
    else GET_OFFSET prog (scan.add (2 * NEXT_PTR_SIZE))
  let next_op := if brace then OPERAND (scan.add (2 * NEXT_PTR_SIZE)) else OPERAND scan
  let save := st.Reg_Input
  let start : Option (Nat × ExecuteContext) :=
    if lazy then
      if min > REG_ZERO then greedy prog text next_op (toLong min) st else some (REG_ZERO, st)
    else greedy prog text next_op (toLong max) st
  match start with
  | none => none
  | some (num_matched, st1) =>
    repeatLoop prog text rec_ next next_op next_char lazy min max save fuel num_matched bip st1

/-- The cases `INIT_COUNT`, `INC_COUNT` and `TEST_COUNT` of `match`. -/
def case_COUNT (prog : List Nat) (continue_ : Ptr → ExecuteContext → MatchResult)
    (op : Nat) (scan next : Ptr) (st : ExecuteContext) : MatchResult :=
  let i := GET_OP_CODE prog (OPERAND scan)
  if op = INIT_COUNT then
    continue_ next { st with BraceCounts := arraySet st.BraceCounts i REG_ZERO }
  else if op = INC_COUNT then
    continue_ next { st with BraceCounts := arraySet st.BraceCounts i ((st.BraceCounts i + 1) % 2 ^ 32) }
  else if st.BraceCounts i < GET_OFFSET prog (scan.add (NEXT_PTR_SIZE + INDEX_SIZE)) then
    continue_ (scan.add (NODE_SIZE + INDEX_SIZE + NEXT_PTR_SIZE)) st
  else continue_ next st

/-- The cases `BACK_REF` and `BACK_REF_CI` of `match`. -/
def case_BACK_REF (prog text : List Nat) (continue_ : Ptr → ExecuteContext → MatchResult)
    (op : Nat) (scan next : Ptr) (bip : Option Nat) (st : ExecuteContext) : MatchResult :=
  let paren_no := GET_OP_CODE prog (OPERAND scan)
  match st.Back_Ref_Start paren_no, st.Back_Ref_End paren_no with
  | some captured, some finish =>
    if captured > finish then MATCH_RETURN false bip st
    else
      match backRefLoop text (decide (op = BACK_REF_CI)) (finish - captured) captured st with
      | (false, st1) => MATCH_RETURN false bip st1
      | (true, st1) => continue_ next st1
  | _, _ => MATCH_RETURN false bip st

/-- The cases `POS_AHEAD_OPEN` and `NEG_AHEAD_OPEN` of `match`. -/
def case_AHEAD (prog : List Nat) (rec_ : Ptr → ExecuteContext → MatchResult)
    (continue_ : Ptr → ExecuteContext → MatchResult) (op : Nat) (scan next : Ptr)
    (bip : Option Nat) (st : ExecuteContext) : MatchResult :=
  let save := st.Reg_Input
  let saved_end := st.End_Of_String
  match rec_ next { st with End_Of_String := none } with
  | none => none
  | some (answer, _, st1) =>
    if st1.Recursion_Limit_Exceeded then MATCH_RETURN false bip st1
    else if (if op = POS_AHEAD_OPEN then answer else !answer) then
      let st2 := { extentFW st1 with Reg_Input := save, End_Of_String := saved_end }
      match skipBranches prog (prog.length + 1) (next_ptr prog (OPERAND scan)) with
      | none => none
      | some close => continue_ (next_ptr prog close) st2
    else MATCH_RETURN false bip { st1 with Reg_Input := save, End_Of_String := saved_end }

/-- The cases `POS_BEHIND_OPEN` and `NEG_BEHIND_OPEN` of `match`. -/
def case_BEHIND (prog : List Nat) (rec_ : Ptr → ExecuteContext → MatchResult)
    (continue_ : Ptr → ExecuteContext → MatchResult) (op : Nat) (scan next : Ptr)
    (bip : Option Nat) (st : ExecuteContext) : MatchResult :=
  let save := st.Reg_Input
  let saved_end := st.End_Of_String
  let lower := GET_LOWER prog scan
  let upper := GET_UPPER prog scan
  match lookBehindLoop (rec_ next) save (upper + 1 - lower) lower
      { st with End_Of_String := some st.Reg_Input } with
  | none => none
  | some (none, st1) => MATCH_RETURN false bip st1
  | some (some found, st1) =>
    let st2 := { st1 with Reg_Input := save, End_Of_String := saved_end }
    if (if op = POS_BEHIND_OPEN then found else !found) then
      match skipBranches prog (prog.length + 1)
          (next_ptr prog ((OPERAND scan).add LENGTH_SIZE)) with
      | none => none
      | some close => continue_ (next_ptr prog close) st2
    else MATCH_RETURN false bip st2

/-- The case of an opening parenthesis `OPEN + no` of `match`. -/
def case_OPEN (rec_ : Ptr → ExecuteContext → MatchResult) (no : Nat) (next : Ptr)
    (bip : Option Nat) (st : ExecuteContext) : MatchResult :=
  let save := st.Reg_Input
  let st1 :=
    if no < 10 then
      { st with Back_Ref_Start := arraySet st.Back_Ref_Start no (some save),
                Back_Ref_End := arraySet st.Back_Ref_End no none }
    else st
  match rec_ next st1 with
  | none => none
  | some (true, _, st2) =>
    MATCH_RETURN true bip
      (if st2.Start_Ptr_Ptr no = none then
        { st2 with Start_Ptr_Ptr := arraySet st2.Start_Ptr_Ptr no (some save) } else st2)
  | some (false, _, st2) => MATCH_RETURN false bip st2

/-- The case of a closing parenthesis `CLOSE + no` of `match`. -/
def case_CLOSE (rec_ : Ptr → ExecuteContext → MatchResult) (no : Nat) (next : Ptr)
    (bip : Option Nat) (st : ExecuteContext) : MatchResult :=
  let save := st.Reg_Input
  let st1 :=
    if no < 10 then { st with Back_Ref_End := arraySet st.Back_Ref_End no (some save) }
    else st
  match rec_ next st1 with
  | none => none
  | some (true, _, st2) =>
    MATCH_RETURN true bip
      (if st2.End_Ptr_Ptr no = none then
        { st2 with End_Ptr_Ptr := arraySet st2.End_Ptr_Ptr no (some save) } else st2)
  | some (false, _, st2) => MATCH_RETURN false bip st2

/-- The `switch (GET_OP_CODE(scan))` of `match` at the node `scan`; `rec_` is the
recursive call `match(p, nullptr)` and `continue_` the next turn of the loop
`while (scan)`. -/
def matchNode (prog text : List Nat) (rec_ : Ptr → ExecuteContext → MatchResult)
    (continue_ : Ptr → ExecuteContext → MatchResult) (fuel : Nat) (scan : Ptr)
    (bip : Option Nat) (st : ExecuteContext) : MatchResult :=
  if scan = Ptr.null then MATCH_RETURN false bip st
  else
    let next := NEXT_PTR prog scan
    let op := GET_OP_CODE prog scan
    if op = BRANCH then case_BRANCH prog rec_ continue_ fuel scan next bip st
    else if op = EXACTLY then case_EXACTLY prog text continue_ scan next bip st
    else if op = SIMILAR then case_SIMILAR prog text continue_ scan next bip st
    else if op = NOTHING ∨ op = BACK then continue_ next st
    else if op = STAR ∨ op = PLUS ∨ op = QUESTION ∨ op = BRACE ∨ op = LAZY_STAR ∨
        op = LAZY_PLUS ∨ op = LAZY_QUESTION ∨ op = LAZY_BRACE then
      case_REPEAT prog text rec_ fuel op scan next bip st
    else if op = END then MATCH_RETURN true bip (extentFW st)
    else if op = INIT_COUNT ∨ op = INC_COUNT ∨ op = TEST_COUNT then
      case_COUNT prog continue_ op scan next st
    else if op = BACK_REF ∨ op = BACK_REF_CI then
      case_BACK_REF prog text continue_ op scan next bip st
    else if op = POS_AHEAD_OPEN ∨ op = NEG_AHEAD_OPEN then
      case_AHEAD prog rec_ continue_ op scan next bip st
    else if op = POS_BEHIND_OPEN ∨ op = NEG_BEHIND_OPEN then
      case_BEHIND prog rec_ continue_ op scan next bip st
    else if op = LOOK_AHEAD_CLOSE ∨ op = LOOK_BEHIND_CLOSE then MATCH_RETURN true bip st
    else
      match matchAnchorTest text st op with
      | some ok => if ok then continue_ next st else MATCH_RETURN false bip st
      | none =>
      match matchCharTest prog scan st op (text.getD st.Reg_Input 0) with
      | some ok =>
        if ok then continue_ next { st with Reg_Input := st.Reg_Input + 1 }
        else MATCH_RETURN false bip st
      | none =>
      if op > OPEN ∧ op < OPEN + NSUBEXP then case_OPEN rec_ (op - OPEN) next bip st
      else if op > CLOSE ∧ op < CLOSE + NSUBEXP then case_CLOSE rec_ (op - CLOSE) next bip st
      else MATCH_RETURN false bip st

/-- The loop `while (scan)` of `match`, entered at the node `scan`; every node visited
and every nested call of `match` takes one unit of fuel. -/
def matchLoop (prog text : List Nat) :
    Nat → Ptr → Option Nat → ExecuteContext → MatchResult
  | 0, _, _, _ => none
  | fuel + 1, scan, bip, st =>
    matchNode prog text (fun p s => matchEntry (matchLoop prog text fuel) p none s)
      (fun next s => matchLoop prog text fuel next bip s) (fuel + 1) scan bip st

/-- The function `match(prog, branch_index_param)`. -/
def match_ (prog text : List Nat) (fuel : Nat) (p : Ptr) (bip : Option Nat)
    (st : ExecuteContext) : MatchResult :=
  matchEntry (matchLoop prog text fuel) p bip st

/-- The function `attempt(prog, string)`: whether the match succeeded, the `regexp`
with its capture arrays, and the context. -/
def attempt (text : List Nat) (fuel : Nat) (prog : regexp) (string : Nat)
    (st : ExecuteContext) : Option (Bool × regexp × ExecuteContext) :=
  let st1 : ExecuteContext :=
    { st with
      Reg_Input := string
      Start_Ptr_Ptr := fill_n prog.startp (st.Total_Paren + 1) none
      End_Ptr_Ptr := fill_n prog.endp (st.Total_Paren + 1) none
      Recursion_Count := 0
      Extent_Ptr_BW := some string
      Extent_Ptr_FW := none }
  match match_ prog.program text fuel (Ptr.prog REGEX_START_OFFSET) (some 0) st1 with
  | none => none
  | some (true, branch_index, st2) =>
    some (true,
      { prog with
        startp := arraySet st2.Start_Ptr_Ptr 0 (some string)
        endp := arraySet st2.End_Ptr_Ptr 0 (some st2.Reg_Input)
        extentpBW := st2.Extent_Ptr_BW
        extentpFW := st2.Extent_Ptr_FW
        top_branch := branch_index.getD 0 },
      { st2 with
        Start_Ptr_Ptr := arraySet st2.Start_Ptr_Ptr 0 (some string)
        End_Ptr_Ptr := arraySet st2.End_Ptr_Ptr 0 (some st2.Reg_Input) })
  | some (false, _, st2) =>
    some (false, { prog with startp := st2.Start_Ptr_Ptr, endp := st2.End_Ptr_Ptr }, st2)

/-- The function `makeDelimiterTable(delimiters)`. -/
def makeDelimiterTable (delimiters : List Nat) : Nat :=
  let table := delimiters.foldl (fun t ch => bitSet t ch) 0
  bitSet (bitSet (bitSet (bitSet table 0) 9) 10) 32

/-- The forward search loops of `ExecRE`,
`for (str = ...; !AT_END_OF_STRING(str) && str != end && !Recursion_Limit_Exceeded; str++)`;
`kind` is `0` for an anchored pattern (attempt at `str + 1` after a newline), `1` when
`match_start` is known (attempt where `*str` is that character) and `2` in the general
case (attempt at every `str`).  Returns the result, the final `str`, the `regexp` and
the context; `none` when the loop does not stop within `n` steps. -/
def searchForward (text : List Nat) (fuel : Nat) (kind : Nat) (end_ : Option Nat) :
    Nat → Nat → regexp → ExecuteContext → Option (Bool × Nat × regexp × ExecuteContext)
  | 0, _, _, _ => none
  | n + 1, str, prog, st =>
    if !AT_END_OF_STRING st str ∧ some str ≠ end_ ∧ !st.Recursion_Limit_Exceeded then
      let c := text.getD str 0
      if kind = 0 ∧ c ≠ 10 then searchForward text fuel kind end_ n (str + 1) prog st
      else if kind = 1 ∧ c ≠ prog.match_start then
        searchForward text fuel kind end_ n (str + 1) prog st
      else
        match attempt text fuel prog (if kind = 0 then str + 1 else str) st with
        | none => none
        | some (true, prog1, st1) => some (true, str, prog1, st1)
        | some (false, prog1, st1) => searchForward text fuel kind end_ n (str + 1) prog1 st1
    else some (false, str, prog, st)

/-- The reverse search loops of `ExecRE`,
`for (str = ...; str >= string && !Recursion_Limit_Exceeded; str--)`, run over the `n`
positions `str = string + n - 1` down to `string`. -/
def searchBackward (text : List Nat) (fuel : Nat) (kind : Nat) (string : Nat) :
    Nat → regexp → ExecuteContext → Option (Bool × regexp × ExecuteContext)
  | 0, prog, st => some (false, prog, st)
  | n + 1, prog, st =>
    let str := string + n
    if !st.Recursion_Limit_Exceeded then
      let c := text.getD str 0
      if kind = 0 ∧ c ≠ 10 then searchBackward text fuel kind string n prog st
      else if kind = 1 ∧ c ≠ prog.match_start then searchBackward text fuel kind string n prog st
      else
        match attempt text fuel prog (if kind = 0 then str + 1 else str) st with
        | none => none
        | some (true, prog1, st1) => some (true, prog1, st1)
        | some (false, prog1, st1) => searchBackward text fuel kind string n prog1 st1
    else some (false, prog, st)

/-- The settings of the global context made at the head of `ExecRE`, before the search;
`end0` is the argument `end`. -/
def execContext (Default_Delimiters : Nat) (prog : regexp) (st0 : ExecuteContext)
    (string : Nat) (end0 : Option Nat) (prev_char succ_char0 : Nat)
    (delimiters : Option (List Nat)) (look_behind_to match_to : Option Nat) : ExecuteContext :=
  let delims :=
    match delimiters with
    | some d => makeDelimiterTable d
    | none => Default_Delimiters
  let succ_char := if end0 = none then 10 else succ_char0
  { st0 with
    Current_Delimiters := delims
    End_Of_String := match_to
    Start_Of_String := string
    Look_Behind_To := look_behind_to.getD string
    Prev_Is_BOL := decide (prev_char = 10) || decide (prev_char = 0)
    Succ_Is_EOL := decide (succ_char = 10) || decide (succ_char = 0)
    Prev_Is_Delim := bitTest delims (prev_char % 256)
    Succ_Is_Delim := bitTest delims (succ_char % 256)
    Total_Paren := prog.program.getD 1 0
    Num_Braces := prog.program.getD 2 0
    Recursion_Limit_Exceeded := false
    BraceCounts := fun _ => 0 }

/-- The initialisation of the first nine capture pointers at the head of `ExecRE`. -/
def execRegexp (prog : regexp) (string : Nat) : regexp :=
  { prog with startp := fill_n prog.startp 9 (some string),
              endp := fill_n prog.endp 9 (some string) }

/-- The function `regexp::ExecRE(string, end, reverse, prev_char, succ_char, delimiters,
look_behind_to, match_to)` on the text `text`, all pointers being indices into it;
`Default_Delimiters` is the global table.  Returns the result, the `regexp` with its
captures and the global context; `none` when the fuel does not suffice. -/
def ExecRE (text : List Nat) (fuel : Nat) (Default_Delimiters : Nat) (prog : regexp)
    (st0 : ExecuteContext) (string : Nat) (end0 : Option Nat) (reverse : Bool)
    (prev_char succ_char0 : Nat) (delimiters : Option (List Nat))
    (look_behind_to match_to : Option Nat) : Option (Bool × regexp × ExecuteContext) :=
  if prog.program.getD 0 0 ≠ MAGIC then some (false, prog, st0)
  else
    let endOpt : Option (Option Nat) :=
      if end0 = none ∧ reverse then
        match match_to with
        | some e => some (some (if string ≥ e then string else e))
        | none => none
      else some end0
    match endOpt with
    | none => none
    | some end1 =>
      let st1 := execContext Default_Delimiters prog st0 string end0 prev_char succ_char0
        delimiters look_behind_to match_to
      let prog1 := execRegexp prog string
      let kind := if prog.anchor ≠ 0 then 0 else if prog.match_start ≠ 0 then 1 else 2
      let result : Option (Bool × regexp × ExecuteContext) :=
        if !reverse then
          if kind = 0 then
            match attempt text fuel prog1 string st1 with
            | none => none
            | some (true, prog2, st2) => some (true, prog2, st2)
            | some (false, prog2, st2) =>
              match searchForward text fuel 0 end1 (text.length + 2) string prog2 st2 with
              | none => none
              | some (r, _, prog3, st3) => some (r, prog3, st3)
          else if kind = 1 then
            match searchForward text fuel 1 end1 (text.length + 2) string prog1 st1 with
            | none => none
            | some (r, _, prog3, st3) => some (r, prog3, st3)
          else
            match searchForward text fuel 2 end1 (text.length + 2) string prog1 st1 with
            | none => none
            | some (true, _, prog3, st3) => some (true, prog3, st3)
            | some (false, str, prog3, st3) =>
              if !st3.Recursion_Limit_Exceeded ∧ AT_END_OF_STRING st3 str ∧ some str ≠ end1 then
                attempt text fuel prog3 str st3
              else some (false, prog3, st3)
        else
          let end2 :=
            match st1.End_Of_String with
            | some e => if end1.getD 0 > e then e else end1.getD 0
            | none => end1.getD 0
          if kind = 0 then
            match searchBackward text fuel 0 string (end2 - string) prog1 st1 with
            | none => none
            | some (true, prog2, st2) => some (true, prog2, st2)
            | some (false, prog2, st2) =>
              if !st2.Recursion_Limit_Exceeded then attempt text fuel prog2 string st2
              else some (false, prog2, st2)
          else searchBackward text fuel kind string (end2 + 1 - string) prog1 st1
      match result with
      | none => none
      | some (ret_val, prog2, st2) =>
        if st2.Recursion_Limit_Exceeded then some (false, prog2, st2)
        else some (ret_val, prog2, st2)

/-- The function `regexp::execute(string, offset, end_offset, delimiters, reverse)`. -/
def execute_range (text : List Nat) (fuel : Nat) (Default_Delimiters : Nat) (prog : regexp)
    (st0 : ExecuteContext) (offset end_offset : Nat) (delimiters : Option (List Nat))
    (reverse : Bool) : Option (Bool × regexp × ExecuteContext) :=
  ExecRE text fuel Default_Delimiters prog st0 offset (some end_offset) reverse
    (if offset = 0 then 0 else text.getD (offset - 1) 0)
    (if end_offset = text.length then 0 else text.getD end_offset 0)
    delimiters (some 0) (some text.length)

/-- The function `regexp::execute(string, offset, reverse)`, for a forward search. -/
def execute (text : List Nat) (fuel : Nat) (Default_Delimiters : Nat) (prog : regexp)
    (st0 : ExecuteContext) (offset : Nat) : Option (Bool × regexp × ExecuteContext) :=
  execute_range text fuel Default_Delimiters prog st0 offset text.length none false

/-! ## Substitution -/

/-- The text between two capture pointers, `[startp, endp)`. -/
def capturedText (text : List Nat) (s e : Nat) : List Nat := (text.drop s).take (e - s)

/-- The `switch (chgcase)` of `SubstituteRE`: the captured text with the case directive
applied. -/
def applyCase (chgcase : Nat) (cap : List Nat) : List Nat :=
  if chgcase = 117 then
    match cap with
    | [] => []
    | ch :: rest => safe_ctype toupper ch :: rest
  else if chgcase = 85 then cap.map fun ch => safe_ctype toupper ch
  else if chgcase = 108 then
    match cap with
    | [] => []
    | ch :: rest => safe_ctype tolower ch :: rest
  else if chgcase = 76 then cap.map fun ch => safe_ctype tolower ch
  else cap

/-- The loop `while (src != source.end())` of `SubstituteRE`; `src` is an index into
`source` and `dest` the text appended to so far. -/
def substituteLoop (prog : regexp) (text source : List Nat) :
    Nat → Nat → List Nat → Except RegexError (List Nat)
  | 0, _, _ => Except.error RegexError.fuel
  | fuel + 1, src0, dest =>
    if src0 = source.length then Except.ok dest
    else
      let c0 := source.getD src0 0
      let src1 := src0 + 1
      let d := source.getD src1 0
      let isCase := decide (c0 = 92 ∧ (d = 117 ∨ d = 85 ∨ d = 108 ∨ d = 76))
      if isCase ∧ src1 + 1 = source.length then Except.ok dest
      else
        let chgcase := if isCase then d else 0
        let c := if isCase then source.getD (src1 + 1) 0 else c0
        let src := if isCase then src1 + 2 else src1
        let e := source.getD src 0
        let step : Except RegexError (Int × Nat × Nat) :=
          if c = 38 then Except.ok (0, c, src)
          else if c = 92 then
            if 49 ≤ e ∧ e ≤ 57 then Except.ok ((e : Int) - 48, c, src + 1)
            else if literal_escape e ≠ 0 then Except.ok (-1, literal_escape e, src + 1)
            else
              match numeric_escape e source src with
              | Except.error err => Except.error err
              | Except.ok (test, src_alias) =>
                if test ≠ 0 then Except.ok (-1, test, src_alias + 1)
                else if src = source.length then Except.ok (-1, 92, src)
                else Except.ok (-1, e, src + 1)
          else Except.ok (-1, c, src)
        match step with
        | Except.error err => Except.error err
        | Except.ok (paren_no, c1, src2) =>
          if paren_no < 0 then substituteLoop prog text source fuel src2 (dest ++ [c1])
          else
            match prog.startp paren_no.toNat, prog.endp paren_no.toNat with
            | some s, some e =>
              substituteLoop prog text source fuel src2
                (dest ++ applyCase chgcase (capturedText text s e))
            | _, _ => substituteLoop prog text source fuel src2 dest

/-- The function `regexp::SubstituteRE(source, dest)` after a match on `text`: the
returned value and the new `dest`. -/
def SubstituteRE (prog : regexp) (text source dest : List Nat) :
    Except RegexError (Bool × List Nat) :=
  if prog.program.getD 0 0 ≠ MAGIC then Except.ok (false, dest)
  else
    match substituteLoop prog text source (source.length + 1) 0 dest with
    | Except.error err => Except.error err
    | Except.ok d => Except.ok (true, d)

/-- A global context as it is before the first call of `ExecRE`. -/
def initialContext : ExecuteContext :=
  { Reg_Input := 0, Start_Of_String := 0, End_Of_String := none, Look_Behind_To := 0,
    Start_Ptr_Ptr := fun _ => none, End_Ptr_Ptr := fun _ => none,
    Extent_Ptr_FW := none, Extent_Ptr_BW := none,
    Back_Ref_Start := fun _ => none, Back_Ref_End := fun _ => none,
    Prev_Is_BOL := false, Succ_Is_EOL := false, Prev_Is_Delim := false,
    Succ_Is_Delim := false, Recursion_Count := 0, Recursion_Limit_Exceeded := false,
    Current_Delimiters := 0, BraceCounts := fun _ => 0, Total_Paren := 0, Num_Braces := 0 }


/-! ## The entry points in sequence, and the programs of the scenarios -/

deriving instance DecidableEq for Except

/-- The spans `[startp n, endp n)` of a `regexp` for `n = 0 .. 9`. -/
def spans (r : regexp) : List (Option Nat × Option Nat) :=
  (List.range 10).map fun n => (r.startp n, r.endp n)

/-- Compile `pat` with `defaultFlags`, then search `text` forward from offset 0 in a
global context not used before: the result of `execute`, the program of the `regexp`
after the search and the spans of the groups. -/
def compileAndExecute (fuel : Nat) (pat : List Nat) (defaultFlags : Nat) (text : List Nat) :
    Option (Bool × List Nat × List (Option Nat × Option Nat)) :=
  match CompileRE pat defaultFlags with
  | Except.error _ => none
  | Except.ok re =>
    match execute text fuel 0 re initialContext 0 with
    | none => none
    | some (found, r, _) => some (found, r.program, spans r)

/-- Compile `pat`, search `text` forward from offset 0, and on success substitute the
template `source` into an empty destination. -/
def compileExecuteSubstitute (fuel : Nat) (pat text source : List Nat) :
    Option (Bool × List Nat) :=
  match CompileRE pat 0 with
  | Except.error _ => none
  | Except.ok re =>
    match execute text fuel 0 re initialContext 0 with
    | some (true, r, _) =>
      match SubstituteRE r text source [] with
      | Except.ok res => some res
      | Except.error _ => none
    | _ => none

/-- What a compilation yields apart from the capture arrays: the program and the two
hints, or the error. -/
def compiled (pat : List Nat) (defaultFlags : Nat) : Except RegexError (List Nat × Nat × Nat) :=
  match CompileRE pat defaultFlags with
  | Except.error e => Except.error e
  | Except.ok re => Except.ok (re.program, re.match_start, re.anchor)

/-- The program of `^\d{2,4}$`. -/
def program_digits : List Nat :=
  [156, 0, 0, 34, 0, 19, 2, 0, 3, 31, 0, 10, 0, 2, 0, 4, 13, 0, 0, 3, 0, 3, 1, 0, 0]

/-- The program of `(?<=\d)px`. -/
def program_lookbehind : List Nat :=
  [156, 0, 0, 34, 0, 25, 46, 0, 7, 0, 1, 0, 1, 34, 0, 6, 13, 0, 3, 48, 0, 3, 7, 0, 6, 112, 120, 0,
    1, 0, 0]

/-- The text `T` has `"px"` at position `p`, immediately preceded by a decimal digit. -/
def digitPxAt (T : List Nat) (p : Nat) : Bool :=
  decide (1 ≤ p) && isdigit (T.getD (p - 1) 0) && decide (T.getD p 0 = 112) &&
    decide (T.getD (p + 1) 0 = 120)

/-- The program compiled from `(foo)\1`. -/
def program_backref : List Nat :=
  [156, 1, 0, 34, 0, 23, 50, 0, 3, 34, 0, 10, 7, 0, 7, 102, 111, 111, 0, 100, 0, 3, 39, 0, 4, 1,
    1, 0, 0]

/-- The word `w` stands in the text `T` at position `p`. -/
def occursAt (w T : List Nat) (p : Nat) : Bool :=
  decide ((T.drop p).take w.length = w)

/-- The program compiled from `(\w+)@(\w+)`. -/
def program_email : List Nat :=
  [156, 2, 0, 34, 0, 38, 50, 0, 3, 34, 0, 9, 29, 0, 6, 21, 0, 0, 100, 0, 3, 7, 0, 5, 64, 0, 51,
    0, 3, 34, 0, 9, 29, 0, 6, 21, 0, 0, 101, 0, 3, 1, 0, 0]

/-- The program compiled from `a(b|c)+d`. -/
def program_alt_plus : List Nat :=
  [156, 1, 0, 34, 0, 47, 7, 0, 5, 97, 0, 50, 0, 3, 34, 0, 8, 7, 0, 13, 98, 0, 34, 0, 8, 7, 0, 5,
    99, 0, 100, 0, 3, 34, 0, 6, 35, 0, 25, 34, 0, 3, 33, 0, 3, 7, 0, 5, 100, 0, 1, 0, 0]

/-- A decimal numeral: a non-empty string of digits. -/
def isNumeral (ds : List Nat) : Prop := ds ≠ [] ∧ ∀ d ∈ ds, isdigit d = true

/-- The value of the digits `ds` read after the value `v`. -/
def digitsValue (v : Nat) (ds : List Nat) : Nat := ds.foldl (fun a d => a * 10 + (d - 48)) v

/-- The value of a decimal numeral. -/
def numeralValue (ds : List Nat) : Nat := digitsValue 0 ds

/-- The text from `Reg_Parse` on. -/
def ParseContext.ahead (ctx : ParseContext) : List Nat := ctx.InputString.drop ctx.Reg_Parse

/-- The context in which the first piece of the pattern `S` is parsed in the sizing pass
of `CompileRE S 0`: the three header bytes and the first `BRANCH` node are counted. -/
def sizingStart (S : List Nat) : ParseContext :=
  { passContext S 0 true [] Compute_Size 0 with Reg_Size := 6 }

/-- The text of a quantifier: one of the characters `*`, `+`, `?`, or a counted range
with both bounds written out. -/
def isQuantifierText (q : List Nat) : Prop :=
  q = strBytes "*" ∨ q = strBytes "+" ∨ q = strBytes "?" ∨
    ∃ dm dn, isNumeral dm ∧ isNumeral dn ∧
      q = strBytes "\x7b" ++ dm ++ strBytes "," ++ dn ++ strBytes "\x7d"

/-- An ordinary character of a pattern: not the terminator, not one of the meta characters
and not the backslash; `atom` makes a literal of it. -/
def isOrdinaryChar (x : Nat) : Prop := strchr Default_Meta_Char x = false ∧ x ≠ 92

instance (x : Nat) : Decidable (isOrdinaryChar x) := by unfold isOrdinaryChar; infer_instance

/-- The global context at the head of a forward `execute(string, offset, end_offset)` of
`re` on `text`, as `ExecRE` sets it up from a context not used before. -/
def executeContext (re : regexp) (text : List Nat) (offset end_offset : Nat) : ExecuteContext :=
  execContext 0 re initialContext offset (some end_offset)
    (if offset = 0 then 0 else text.getD (offset - 1) 0)
    (if end_offset = text.length then 0 else text.getD end_offset 0) none (some 0)
    (some text.length)

/-- Compile `pat`, then search `text` forward between `offset` and `end_offset` in a
global context not used before: the result of `execute` and the span of the match. -/
def compileAndExecuteRange (fuel : Nat) (pat text : List Nat) (offset end_offset : Nat) :
    Option (Bool × Option Nat × Option Nat) :=
  match CompileRE pat 0 with
  | Except.error _ => none
  | Except.ok re =>
    match execute_range text fuel 0 re initialContext offset end_offset none false with
    | none => none
    | some (found, r, _) => some (found, r.startp 0, r.endp 0)

/-- Compile `pat`, then make the single call `attempt(prog, text + p)` in the context of a
forward `execute(text, offset, end_offset)`: its result and the span of the match. -/
def compileAndAttempt (fuel : Nat) (pat text : List Nat) (offset end_offset p : Nat) :
    Option (Bool × Option Nat × Option Nat) :=
  match CompileRE pat 0 with
  | Except.error _ => none
  | Except.ok re =>
    match attempt text fuel (execRegexp re offset) p (executeContext re text offset end_offset) with
    | none => none
    | some (found, r, _) => some (found, r.startp 0, r.endp 0)

/-- Compile `pat1` and `pat2`, search `text` with the first and then, in the global
context the first search leaves behind, with the second: the result of the second
`execute` and its spans. -/
def executeAfter (fuel : Nat) (pat1 pat2 text : List Nat) :
    Option (Bool × List (Option Nat × Option Nat)) :=
  match CompileRE pat1 0, CompileRE pat2 0 with
  | Except.ok re1, Except.ok re2 =>
    match execute text fuel 0 re1 initialContext 0 with
    | some (_, _, st1) =>
      match execute text fuel 0 re2 st1 0 with
      | some (found, r, _) => some (found, spans r)
      | none => none
    | none => none
  | _, _ => none
/-- What the recursion ceiling asks of a call of `match` entered in the context `st`: the
flag `Recursion_Limit_Exceeded` is never cleared, and a call during which it is set
returns failure. -/
def LimitKept (st : ExecuteContext) (r : MatchResult) : Prop :=
  ∀ b bip st', r = some (b, bip, st') →
    (st.Recursion_Limit_Exceeded = true → st'.Recursion_Limit_Exceeded = true) ∧
    (st.Recursion_Limit_Exceeded = false → st'.Recursion_Limit_Exceeded = true → b = false)

/-- The program of a pattern that is one literal string: the header, the `BRANCH` node, the
node `op` (`EXACTLY` or `SIMILAR`) with the operand `bytes`, and the `END` node. -/
def literalProgram (op : Nat) (bytes : List Nat) : List Nat :=
  [MAGIC, 0, 0, BRANCH, PUT_OFFSET_L ((bytes.length + 7 : Nat) : Int),
    PUT_OFFSET_R ((bytes.length + 7 : Nat) : Int), op,
    PUT_OFFSET_L ((bytes.length + 4 : Nat) : Int),
    PUT_OFFSET_R ((bytes.length + 4 : Nat) : Int)] ++ bytes ++ [0, END, 0, 0]

/-- An atom that is a single character: an ordinary character, the dot, or one of the
anchors `^`, `$`, `<` and `>`. -/
def isSingleCharAtom (x : Nat) : Prop :=
  isOrdinaryChar x ∨ x = 46 ∨ x = 94 ∨ x = 36 ∨ x = 60 ∨ x = 62

/-- The context `c1` differs from `c` at most in the emitted code: the program buffer,
the emit pointer and the size counter. -/
def SameParse (c c1 : ParseContext) : Prop :=
  { c1 with program := c.program, Code_Emit_Ptr := c.Code_Emit_Ptr, Reg_Size := c.Reg_Size } = c

/-- The bytes of the node that `insert` writes at `insert_pos`. -/
def insertNode (op min max index : Nat) : List Nat :=
  if op = BRACE ∨ op = LAZY_BRACE then
    [op % 256, 0, 0, PUT_OFFSET_L min % 256, PUT_OFFSET_R min % 256, PUT_OFFSET_L max % 256,
      PUT_OFFSET_R max % 256]
  else if op = INIT_COUNT then [op % 256, 0, 0, index % 256]
  else [op % 256, 0, 0]

/-- The opcode that `piece` inserts in front of a simple atom for the quantifier `op`
(`*`, `+`, `?` or a counted range), greedy or lazy. -/
def quantifierNode (op : Nat) (lazy : Bool) : Nat :=
  if op = 42 then (if lazy then LAZY_STAR else STAR)
  else if op = 43 then (if lazy then LAZY_PLUS else PLUS)
  else if op = 63 then (if lazy then LAZY_QUESTION else QUESTION)
  else (if lazy then LAZY_BRACE else BRACE)

/-- The quantifier that `piece` makes of the counted range `{min,max}`: `*` for `{0,}`,
`+` for `{1,}`, `?` for `{0,1}`, and the range itself otherwise (`max = 0` stands for no
upper bound). -/
def braceOp (min max : Nat) : Nat :=
  if min = 0 ∧ max = 0 then 42 else if min = 1 ∧ max = 0 then 43
  else if min = 0 ∧ max = 1 then 63 else 123

/-- The bytes that `piece` inserts in front of a simple atom for the counted range
`{min,max}`: nothing for `{1,1}`. -/
def braceCode (min max : Nat) (lazy : Bool) : List Nat :=
  if min = 1 ∧ max = 1 then []
  else insertNode (quantifierNode (braceOp min max) lazy) min max 0

/-- The program of a pattern that is a single piece whose code is the node `n0`, which the
`BRANCH` node and `END` are linked to, with `N` for the operand of `n0` and whatever else
the piece emits after it. -/
def pieceProgram (n0 : Nat) (N : List Nat) : List Nat :=
  [MAGIC, 0, 0, BRANCH, PUT_OFFSET_L ((N.length + 6 : Nat) : Int),
    PUT_OFFSET_R ((N.length + 6 : Nat) : Int), n0,
    PUT_OFFSET_L ((N.length + 3 : Nat) : Int),
    PUT_OFFSET_R ((N.length + 3 : Nat) : Int)] ++ N ++ [END, 0, 0]

/-- The program of a pattern that is one ordinary character `x` with a quantifier, where
`code` is what `piece` inserts in front of the `EXACTLY` node of `x`. -/
def quantifiedProgram (code : List Nat) (x : Nat) : List Nat :=
  match code ++ [EXACTLY, 0, 0, x % 256, 0] with
  | n0 :: _ :: _ :: N => pieceProgram n0 N
  | _ => []

/-- The context `ctx` with the pattern text and the parse position replaced by `I` and
`R`. -/
def reInput (I : List Nat) (R : Nat) (ctx : ParseContext) : ParseContext :=
  { ctx with InputString := I, Reg_Parse := R }

/-- The computation `m` neither reads nor changes the pattern text and the parse position:
run on a context with another text and position, it gives the same value and the same
context up to the text and position. -/
def InputFree {α : Type} (m : Comp α) : Prop :=
  ∀ (I : List Nat) (R : Nat) (ctx : ParseContext),
    m (reInput I R ctx) = (m ctx).map (fun r => (r.1, reInput I R r.2))

/-- The trivial counted ranges, as the text between the braces, each with the quantifier
it stands for: `*` for `{0,}`, `{,}` and `{}`, `+` for `{1,}`, `?` for `{0,1}` and `{,1}`,
and no quantifier at all (`none`) for `{1,1}` and `{1}`. -/
def collapseForms : List (List Nat × Option Nat) :=
  [(strBytes "0,", some 42), (strBytes ",", some 42), ([], some 42), (strBytes "1,", some 43),
    (strBytes "0,1", some 63), (strBytes ",1", some 63), (strBytes "1,1", none),
    (strBytes "1", none)]

/-- The lazy suffix `?`, or nothing. -/
def lazySuffix (lz : Bool) : List Nat := if lz then [63] else []

/-- The text of the counted range `{spec}`, with the lazy suffix when `lz`. -/
def rangeText (spec : List Nat) (lz : Bool) : List Nat := 123 :: (spec ++ 125 :: lazySuffix lz)

/-- The text of the quantifier `q`, with the lazy suffix when `lz`; nothing for `none`. -/
def quantText (q : Option Nat) (lz : Bool) : List Nat :=
  match q with
  | some c => c :: lazySuffix lz
  | none => []

/-- The constructor accepts both patterns and makes the same program, start character and
anchor of them, and the counter byte of the program is zero. -/
def sameCompiled (A B : List Nat) : Bool :=
  match compiled A 0, compiled B 0 with
  | Except.ok a, Except.ok b => decide (a = b) && decide (a.1.getD 2 0 = 0)
  | _, _ => false

/-! ## Definitions for the helpers of the matcher and of the emitter -/

/-- The opcodes of the cases of `greedy`: the nodes of the atoms that are `SIMPLE`. -/
def simpleOps : List Nat :=
  [ANY, EVERY, EXACTLY, SIMILAR, ANY_OF, ANY_BUT, IS_DELIM, NOT_DELIM, WORD_CHAR, NOT_WORD_CHAR,
    DIGIT, NOT_DIGIT, SPACE, SPACE_NL, NOT_SPACE, NOT_SPACE_NL, LETTER, NOT_LETTER]

/-- What the loop of `greedy(p, max)` asks of the text position `i`: the character there
satisfies the condition of the node `p`, and `i` lies before the logical end of the string. -/
def greedyStep (prog text : List Nat) (p : Ptr) (st : ExecuteContext) (i : Nat) : Bool :=
  (greedyPred st (GET_OP_CODE prog p) (cstring prog (OPERAND p)) (text.getD i 0)).getD false &&
    !AT_END_OF_STRING st i

/-- The node reached from `start` after `k` steps along the next pointers of the program. -/
def chainNode (prog : List Nat) (start : Ptr) : Nat → Ptr
  | 0 => start
  | k + 1 => chainNode prog (next_ptr prog start) k

/-- A compile context in the emitting pass that holds nothing but the program buffer
`prog` and the emit pointer `emit`: no pattern text, every flag and counter at zero. -/
def emitContext (prog : List Nat) (emit : Ptr) : ParseContext :=
  { Reg_Parse := 0, InputString := [], program := prog, Code_Emit_Ptr := emit, Reg_Size := 0,
    Closed_Parens := 0, Paren_Has_Width := 0, Num_Braces := 0, Total_Paren := 1,
    Is_Case_Insensitive := false, Match_Newline := false, Enable_Counting_Quantifier := true,
    White_Space := [], Word_Char := [], Letter_Char := [], Brace_Char := 123,
    Meta_Char := Default_Meta_Char }

/-- The global context of a search of `text` in which only the logical end of the string,
the end of `text`, is set. -/
def textContext (text : List Nat) : ExecuteContext :=
  { initialContext with End_Of_String := some text.length }

/-- The program of `(?=a)`. -/
def program_lookahead : List Nat :=
  [156, 0, 0, 34, 0, 17, 43, 0, 3, 34, 0, 8, 7, 0, 5, 97, 0, 45, 0, 3, 1, 0, 0]

/-- The search of the description of C36: an attempt at every start position of the list
`ps`, in order, until one succeeds. -/
def attemptEach (text : List Nat) (fuel : Nat) :
    List Nat → regexp → ExecuteContext → Option (Bool × regexp × ExecuteContext)
  | [], prog, st => some (false, prog, st)
  | p :: ps, prog, st =>
    match attempt text fuel prog p st with
    | none => none
    | some (true, prog1, st1) => some (true, prog1, st1)
    | some (false, prog1, st1) => attemptEach text fuel ps prog1 st1

/-- Compile `pat`, then, in the context of a forward `execute(text, offset, end_offset)`,
make an attempt at every start position from `offset` to `last`: whether one succeeded,
and the span of the match. -/
def compileAndAttemptEach (fuel : Nat) (pat text : List Nat) (offset end_offset last : Nat) :
    Option (Bool × Option Nat × Option Nat) :=
  match CompileRE pat 0 with
  | Except.error _ => none
  | Except.ok re =>
    match attemptEach text fuel (List.range' offset (last + 1 - offset)) (execRegexp re offset)
        (executeContext re text offset end_offset) with
    | none => none
    | some (found, r, _) => some (found, if found then r.startp 0 else none,
        if found then r.endp 0 else none)

/-- What holds of a computation of the compiler that is entered with an emit pointer that
is not null: when it returns, the emit pointer is not null and the value returned
satisfies `Q`. -/
def Yields {α : Type} (Q : α → Prop) (m : Comp α) : Prop :=
  ∀ (ctx : ParseContext) (r : α) (ctx' : ParseContext), ctx.Code_Emit_Ptr ≠ Ptr.null →
    m ctx = Except.ok (r, ctx') → ctx'.Code_Emit_Ptr ≠ Ptr.null ∧ Q r

/-- What holds of `chunk` when it is entered with an emit pointer that is not null and
returns: the emit pointer is not null, the node returned is not null, and the two flags
are `ci` and `mn`. -/
def YieldsFlags (ci mn : Bool) (m : Comp Ret) : Prop :=
  ∀ (ctx : ParseContext) (r : Ret) (ctx' : ParseContext), ctx.Code_Emit_Ptr ≠ Ptr.null →
    m ctx = Except.ok (r, ctx') →
    ctx'.Code_Emit_Ptr ≠ Ptr.null ∧ r.1 ≠ Ptr.null ∧
      ctx'.Is_Case_Insensitive = ci ∧ ctx'.Match_Newline = mn


/-! ## One step of `match` at a node of known kind -/

section MatchSteps

variable (P T : List Nat) (n : Nat) (bip : Option Nat) (st : ExecuteContext)

theorem ptr_ne_null_of_op {p : Ptr} {o : Nat} (hop : GET_OP_CODE P p = o) (h0 : o ≠ 0) :
    p ≠ Ptr.null := by
  rintro rfl
  exact h0 (by simpa [GET_OP_CODE] using hop.symm)

theorem matchLoop_succ (p : Ptr) :
    matchLoop P T (n + 1) p bip st
      = matchNode P T (fun q s => match_ P T n q none s)
          (fun d s => matchLoop P T n d bip s) (n + 1) p bip st := by
  rw [matchLoop]; rfl

theorem matchLoop_BRANCH_single {p d : Ptr} (hop : GET_OP_CODE P p = BRANCH)
    (hnext : NEXT_PTR P p = d) (hnb : GET_OP_CODE P d ≠ BRANCH) :
    matchLoop P T (n + 1) p bip st = matchLoop P T n (OPERAND p) bip st := by
  have hp := ptr_ne_null_of_op P hop (by decide)
  rw [matchLoop_succ]
  simp [matchNode, hp, hop, hnext, hnb, case_BRANCH]

theorem matchLoop_BRANCH_choice {p d : Ptr} (hop : GET_OP_CODE P p = BRANCH)
    (hnext : NEXT_PTR P p = d) (hnb : GET_OP_CODE P d = BRANCH) :
    matchLoop P T (n + 1) p bip st
      = branchLoop P (fun q s => match_ P T n q none s) (n + 1) p 0 bip st := by
  have hp := ptr_ne_null_of_op P hop (by decide)
  rw [matchLoop_succ]
  simp [matchNode, hp, hop, hnext, hnb, case_BRANCH]

theorem matchLoop_EXACTLY {p d : Ptr} (hop : GET_OP_CODE P p = EXACTLY)
    (hnext : NEXT_PTR P p = d) :
    matchLoop P T (n + 1) p bip st
      = case_EXACTLY P T (fun q s => matchLoop P T n q bip s) p d bip st := by
  have hp := ptr_ne_null_of_op P hop (by decide)
  rw [matchLoop_succ]
  simp [matchNode, hp, hop, hnext, BRANCH, EXACTLY]

theorem matchLoop_NOTHING {p d : Ptr} (hop : GET_OP_CODE P p = NOTHING ∨ GET_OP_CODE P p = BACK)
    (hnext : NEXT_PTR P p = d) :
    matchLoop P T (n + 1) p bip st = matchLoop P T n d bip st := by
  have hp : p ≠ Ptr.null := by
    rcases hop with h | h
    · exact ptr_ne_null_of_op P h (by decide)
    · exact ptr_ne_null_of_op P h (by decide)
  rw [matchLoop_succ]
  rcases hop with h | h <;>
    simp [matchNode, hp, h, hnext, BRANCH, EXACTLY, SIMILAR, NOTHING, BACK]

theorem matchLoop_END {p : Ptr} (hop : GET_OP_CODE P p = END) :
    matchLoop P T (n + 1) p bip st = MATCH_RETURN true bip (extentFW st) := by
  have hp := ptr_ne_null_of_op P hop (by decide)
  rw [matchLoop_succ]
  simp [matchNode, hp, hop, BRANCH, EXACTLY, SIMILAR, NOTHING, BACK, STAR, PLUS, QUESTION, BRACE,
    LAZY_STAR, LAZY_PLUS, LAZY_QUESTION, LAZY_BRACE, END]

theorem matchLoop_REPEAT {p d : Ptr} {o : Nat} (hop : GET_OP_CODE P p = o)
    (hrep : o = STAR ∨ o = PLUS ∨ o = QUESTION ∨ o = BRACE ∨ o = LAZY_STAR ∨
      o = LAZY_PLUS ∨ o = LAZY_QUESTION ∨ o = LAZY_BRACE)
    (hnext : NEXT_PTR P p = d) :
    matchLoop P T (n + 1) p bip st
      = case_REPEAT P T (fun q s => match_ P T n q none s) (n + 1) o p d bip st := by
  have hp : p ≠ Ptr.null := by
    apply ptr_ne_null_of_op P hop
    rcases hrep with h | h | h | h | h | h | h | h <;> rw [h] <;> decide
  rw [matchLoop_succ]
  rcases hrep with h | h | h | h | h | h | h | h <;> subst h <;>
    simp [matchNode, hp, hop, hnext, BRANCH, EXACTLY, SIMILAR, NOTHING, BACK, STAR, PLUS, QUESTION,
      BRACE, LAZY_STAR, LAZY_PLUS, LAZY_QUESTION, LAZY_BRACE]

theorem matchLoop_anchor {p d : Ptr} {o : Nat} (hop : GET_OP_CODE P p = o)
    (hanch : o = BOL ∨ o = EOL ∨ o = BOWORD ∨ o = EOWORD ∨ o = NOT_BOUNDARY)
    (hnext : NEXT_PTR P p = d) :
    matchLoop P T (n + 1) p bip st
      = if (matchAnchorTest T st o).getD false then matchLoop P T n d bip st
        else MATCH_RETURN false bip st := by
  have hp : p ≠ Ptr.null := by
    apply ptr_ne_null_of_op P hop
    rcases hanch with h | h | h | h | h <;> rw [h] <;> decide
  rw [matchLoop_succ]
  rcases hanch with h | h | h | h | h <;> subst h <;>
    simp [matchNode, hp, hop, hnext, BRANCH, EXACTLY, SIMILAR, NOTHING, BACK, STAR, PLUS, QUESTION,
      BRACE, LAZY_STAR, LAZY_PLUS, LAZY_QUESTION, LAZY_BRACE, END, INIT_COUNT, INC_COUNT,
      TEST_COUNT, BACK_REF, BACK_REF_CI, POS_AHEAD_OPEN, NEG_AHEAD_OPEN, POS_BEHIND_OPEN,
      NEG_BEHIND_OPEN, LOOK_AHEAD_CLOSE, LOOK_BEHIND_CLOSE, matchAnchorTest, BOL, EOL, BOWORD,
      EOWORD, NOT_BOUNDARY]


theorem matchLoop_char {p d : Ptr} {o : Nat} (hop : GET_OP_CODE P p = o)
    (hchar : o = IS_DELIM ∨ o = NOT_DELIM ∨ o = WORD_CHAR ∨ o = NOT_WORD_CHAR ∨ o = ANY ∨
      o = EVERY ∨ o = DIGIT ∨ o = NOT_DIGIT ∨ o = LETTER ∨ o = NOT_LETTER ∨ o = SPACE ∨
      o = SPACE_NL ∨ o = NOT_SPACE ∨ o = NOT_SPACE_NL ∨ o = ANY_OF ∨ o = ANY_BUT)
    (hnext : NEXT_PTR P p = d) :
    matchLoop P T (n + 1) p bip st
      = if (matchCharTest P p st o (T.getD st.Reg_Input 0)).getD false then
          matchLoop P T n d bip { st with Reg_Input := st.Reg_Input + 1 }
        else MATCH_RETURN false bip st := by
  have hp : p ≠ Ptr.null := by
    apply ptr_ne_null_of_op P hop
    rcases hchar with h | h | h | h | h | h | h | h | h | h | h | h | h | h | h | h <;>
      rw [h] <;> decide
  rw [matchLoop_succ]
  rcases hchar with h | h | h | h | h | h | h | h | h | h | h | h | h | h | h | h <;> subst h <;>
    simp [matchNode, hp, hop, hnext, BRANCH, EXACTLY, SIMILAR, NOTHING, BACK, STAR, PLUS, QUESTION,
      BRACE, LAZY_STAR, LAZY_PLUS, LAZY_QUESTION, LAZY_BRACE, END, INIT_COUNT, INC_COUNT,
      TEST_COUNT, BACK_REF, BACK_REF_CI, POS_AHEAD_OPEN, NEG_AHEAD_OPEN, POS_BEHIND_OPEN,
      NEG_BEHIND_OPEN, LOOK_AHEAD_CLOSE, LOOK_BEHIND_CLOSE, matchAnchorTest, BOL, EOL, BOWORD,
      EOWORD, NOT_BOUNDARY, matchCharTest, IS_DELIM, NOT_DELIM, WORD_CHAR, NOT_WORD_CHAR, ANY,
      EVERY, DIGIT, NOT_DIGIT, LETTER, NOT_LETTER, SPACE, SPACE_NL, NOT_SPACE, NOT_SPACE_NL,
      ANY_OF, ANY_BUT]

theorem matchLoop_OPEN {p d : Ptr} (no : Nat) (hop : GET_OP_CODE P p = OPEN + no)
    (hno : 1 ≤ no ∧ no < NSUBEXP) (hnext : NEXT_PTR P p = d) :
    matchLoop P T (n + 1) p bip st
      = case_OPEN (fun q s => match_ P T n q none s) no d bip st := by
  have hp : p ≠ Ptr.null := ptr_ne_null_of_op P hop (by simp [OPEN])
  obtain ⟨h1, h2⟩ := hno
  simp only [NSUBEXP] at h2
  rw [matchLoop_succ]
  have e1 : ∀ k, k ≤ 48 → OPEN + no ≠ k := by intro k hk; simp only [OPEN]; omega
  have hgt : OPEN + no > OPEN := by omega
  have hlt : OPEN + no < OPEN + NSUBEXP := by simp only [NSUBEXP]; omega
  simp [matchNode, hp, hop, hnext, BRANCH, EXACTLY, SIMILAR, NOTHING, BACK, STAR, PLUS, QUESTION,
      BRACE, LAZY_STAR, LAZY_PLUS, LAZY_QUESTION, LAZY_BRACE, END, INIT_COUNT, INC_COUNT,
      TEST_COUNT, BACK_REF, BACK_REF_CI, POS_AHEAD_OPEN, NEG_AHEAD_OPEN, POS_BEHIND_OPEN,
      NEG_BEHIND_OPEN, LOOK_AHEAD_CLOSE, LOOK_BEHIND_CLOSE, matchAnchorTest, BOL, EOL, BOWORD,
      EOWORD, NOT_BOUNDARY, matchCharTest, IS_DELIM, NOT_DELIM, WORD_CHAR, NOT_WORD_CHAR, ANY,
      EVERY, DIGIT, NOT_DIGIT, LETTER, NOT_LETTER, SPACE, SPACE_NL, NOT_SPACE, NOT_SPACE_NL,
      ANY_OF, ANY_BUT, e1, hgt, hlt]

theorem matchLoop_CLOSE {p d : Ptr} (no : Nat) (hop : GET_OP_CODE P p = CLOSE + no)
    (hno : 1 ≤ no ∧ no < NSUBEXP) (hnext : NEXT_PTR P p = d) :
    matchLoop P T (n + 1) p bip st
      = case_CLOSE (fun q s => match_ P T n q none s) no d bip st := by
  have hp : p ≠ Ptr.null := ptr_ne_null_of_op P hop (by simp [CLOSE, OPEN])
  obtain ⟨h1, h2⟩ := hno
  simp only [NSUBEXP] at h2
  rw [matchLoop_succ]
  have e1 : ∀ k, k ≤ 48 → CLOSE + no ≠ k := by intro k hk; simp only [CLOSE, OPEN, NSUBEXP]; omega
  have hgt : CLOSE + no > CLOSE := by omega
  have hlt : CLOSE + no < CLOSE + NSUBEXP := by simp only [NSUBEXP]; omega
  have hnot : ¬ (CLOSE + no > OPEN ∧ CLOSE + no < OPEN + NSUBEXP) := by
    simp only [CLOSE, OPEN, NSUBEXP]; omega
  simp [matchNode, hp, hop, hnext, BRANCH, EXACTLY, SIMILAR, NOTHING, BACK, STAR, PLUS, QUESTION,
      BRACE, LAZY_STAR, LAZY_PLUS, LAZY_QUESTION, LAZY_BRACE, END, INIT_COUNT, INC_COUNT,
      TEST_COUNT, BACK_REF, BACK_REF_CI, POS_AHEAD_OPEN, NEG_AHEAD_OPEN, POS_BEHIND_OPEN,
      NEG_BEHIND_OPEN, LOOK_AHEAD_CLOSE, LOOK_BEHIND_CLOSE, matchAnchorTest, BOL, EOL, BOWORD,
      EOWORD, NOT_BOUNDARY, matchCharTest, IS_DELIM, NOT_DELIM, WORD_CHAR, NOT_WORD_CHAR, ANY,
      EVERY, DIGIT, NOT_DIGIT, LETTER, NOT_LETTER, SPACE, SPACE_NL, NOT_SPACE, NOT_SPACE_NL,
      ANY_OF, ANY_BUT, e1, hgt, hlt, hnot]

theorem matchLoop_BACK_REF {p d : Ptr} {o : Nat} (hop : GET_OP_CODE P p = o)
    (hbr : o = BACK_REF ∨ o = BACK_REF_CI) (hnext : NEXT_PTR P p = d) :
    matchLoop P T (n + 1) p bip st
      = case_BACK_REF P T (fun q s => matchLoop P T n q bip s) o p d bip st := by
  have hp : p ≠ Ptr.null := by
    apply ptr_ne_null_of_op P hop
    rcases hbr with h | h <;> rw [h] <;> decide
  rw [matchLoop_succ]
  rcases hbr with h | h <;> subst h <;>
    simp [matchNode, hp, hop, hnext, BRANCH, EXACTLY, SIMILAR, NOTHING, BACK, STAR, PLUS, QUESTION,
      BRACE, LAZY_STAR, LAZY_PLUS, LAZY_QUESTION, LAZY_BRACE, END, INIT_COUNT, INC_COUNT,
      TEST_COUNT, BACK_REF, BACK_REF_CI]

theorem matchLoop_BEHIND {p d : Ptr} {o : Nat} (hop : GET_OP_CODE P p = o)
    (hb : o = POS_BEHIND_OPEN ∨ o = NEG_BEHIND_OPEN) (hnext : NEXT_PTR P p = d) :
    matchLoop P T (n + 1) p bip st
      = case_BEHIND P (fun q s => match_ P T n q none s) (fun q s => matchLoop P T n q bip s)
          o p d bip st := by
  have hp : p ≠ Ptr.null := by
    apply ptr_ne_null_of_op P hop
    rcases hb with h | h <;> rw [h] <;> decide
  rw [matchLoop_succ]
  rcases hb with h | h <;> subst h <;>
    simp [matchNode, hp, hop, hnext, BRANCH, EXACTLY, SIMILAR, NOTHING, BACK, STAR, PLUS, QUESTION,
      BRACE, LAZY_STAR, LAZY_PLUS, LAZY_QUESTION, LAZY_BRACE, END, INIT_COUNT, INC_COUNT,
      TEST_COUNT, BACK_REF, BACK_REF_CI, POS_AHEAD_OPEN, NEG_AHEAD_OPEN, POS_BEHIND_OPEN,
      NEG_BEHIND_OPEN]

theorem matchLoop_AHEAD {p d : Ptr} {o : Nat} (hop : GET_OP_CODE P p = o)
    (hb : o = POS_AHEAD_OPEN ∨ o = NEG_AHEAD_OPEN) (hnext : NEXT_PTR P p = d) :
    matchLoop P T (n + 1) p bip st
      = case_AHEAD P (fun q s => match_ P T n q none s) (fun q s => matchLoop P T n q bip s)
          o p d bip st := by
  have hp : p ≠ Ptr.null := by
    apply ptr_ne_null_of_op P hop
    rcases hb with h | h <;> rw [h] <;> decide
  rw [matchLoop_succ]
  rcases hb with h | h <;> subst h <;>
    simp [matchNode, hp, hop, hnext, BRANCH, EXACTLY, SIMILAR, NOTHING, BACK, STAR, PLUS, QUESTION,
      BRACE, LAZY_STAR, LAZY_PLUS, LAZY_QUESTION, LAZY_BRACE, END, INIT_COUNT, INC_COUNT,
      TEST_COUNT, BACK_REF, BACK_REF_CI, POS_AHEAD_OPEN, NEG_AHEAD_OPEN]

theorem matchLoop_COUNT {p d : Ptr} {o : Nat} (hop : GET_OP_CODE P p = o)
    (hb : o = INIT_COUNT ∨ o = INC_COUNT ∨ o = TEST_COUNT) (hnext : NEXT_PTR P p = d) :
    matchLoop P T (n + 1) p bip st
      = case_COUNT P (fun q s => matchLoop P T n q bip s) o p d st := by
  have hp : p ≠ Ptr.null := by
    apply ptr_ne_null_of_op P hop
    rcases hb with h | h | h <;> rw [h] <;> decide
  rw [matchLoop_succ]
  rcases hb with h | h | h <;> subst h <;>
    simp [matchNode, hp, hop, hnext, BRANCH, EXACTLY, SIMILAR, NOTHING, BACK, STAR, PLUS, QUESTION,
      BRACE, LAZY_STAR, LAZY_PLUS, LAZY_QUESTION, LAZY_BRACE, END, INIT_COUNT, INC_COUNT,
      TEST_COUNT]

theorem matchLoop_LOOK_CLOSE {p : Ptr} {o : Nat} (hop : GET_OP_CODE P p = o)
    (hb : o = LOOK_AHEAD_CLOSE ∨ o = LOOK_BEHIND_CLOSE) :
    matchLoop P T (n + 1) p bip st = MATCH_RETURN true bip st := by
  have hp : p ≠ Ptr.null := by
    apply ptr_ne_null_of_op P hop
    rcases hb with h | h <;> rw [h] <;> decide
  rw [matchLoop_succ]
  rcases hb with h | h <;> subst h <;>
    simp [matchNode, hp, hop, BRANCH, EXACTLY, SIMILAR, NOTHING, BACK, STAR, PLUS, QUESTION,
      BRACE, LAZY_STAR, LAZY_PLUS, LAZY_QUESTION, LAZY_BRACE, END, INIT_COUNT, INC_COUNT,
      TEST_COUNT, BACK_REF, BACK_REF_CI, POS_AHEAD_OPEN, NEG_AHEAD_OPEN, POS_BEHIND_OPEN,
      NEG_BEHIND_OPEN, LOOK_AHEAD_CLOSE, LOOK_BEHIND_CLOSE]

end MatchSteps


/-! ## Common facts for running `ExecRE` -/

theorem match_eq (P T : List Nat) (n : Nat) (p : Ptr) (bip : Option Nat) (st : ExecuteContext) :
    match_ P T n p bip st
      = if st.Recursion_Count + 1 > REGEX_RECURSION_LIMIT then
          MATCH_RETURN false bip
            { st with Recursion_Count := st.Recursion_Count + 1, Recursion_Limit_Exceeded := true }
        else matchLoop P T n p bip { st with Recursion_Count := st.Recursion_Count + 1 } := rfl

theorem isdigit_lt {c : Nat} (h : isdigit c = true) : c < 256 := by
  simp [isdigit] at h; omega

theorem isdigit_ne_newline {c : Nat} (h : isdigit c = true) : c ≠ 10 := by
  simp [isdigit] at h; omega

theorem safe_ctype_of_lt {α : Type} (F : Nat → α) {c : Nat} (h : c < 256) :
    safe_ctype F c = F c := by
  simp [safe_ctype, Nat.mod_eq_of_lt h]

/-- What compiling yields, read off `CompileRE`. -/
theorem compiled_ok {pat : List Nat} {flags : Nat} {P : List Nat} {ms an : Nat}
    (h : compiled pat flags = Except.ok (P, ms, an)) :
    ∃ re, CompileRE pat flags = Except.ok re ∧ re.program = P ∧ re.match_start = ms ∧
      re.anchor = an := by
  unfold compiled at h
  cases hc : CompileRE pat flags with
  | error e => rw [hc] at h; cases h
  | ok re =>
    rw [hc] at h
    simp only [Except.ok.injEq, Prod.mk.injEq] at h
    exact ⟨re, rfl, h.1, h.2.1, h.2.2⟩

/-- The anchored forward search finds nothing when no newline lies ahead: no attempt is
made. -/
theorem searchForward_anchor_no_newline (T : List Nat) (fuel L : Nat) :
    ∀ (k str : Nat) (prog : regexp) (st : ExecuteContext),
      st.End_Of_String = some L → st.Recursion_Limit_Exceeded = false →
      (∀ i, str ≤ i → i < L → T.getD i 0 ≠ 10) → L - str < k →
      ∃ str', searchForward T fuel 0 (some L) k str prog st = some (false, str', prog, st) := by
  intro k
  induction k with
  | zero => intro str prog st _ _ _ hk; omega
  | succ k ih =>
    intro str prog st hE hX hno hk
    rw [searchForward]
    by_cases hlt : str < L
    · have h1 : AT_END_OF_STRING st str = false := by
        simp [AT_END_OF_STRING, hE]; omega
      have h2 : (some str : Option Nat) ≠ some L := by simp; omega
      have h3 := hno str (Nat.le_refl _) hlt
      simp only [h1, hX, Bool.not_false, ne_eq, h2, not_false_eq_true, and_self, if_true, h3,
        true_and]
      exact ih (str + 1) prog st hE hX (fun i hi hL => hno i (by omega) hL) (by omega)
    · have h1 : AT_END_OF_STRING st str = true := by
        simp [AT_END_OF_STRING, hE]; omega
      simp [h1]

/-- The forward search in the general case (`kind = 2`), given what each attempt does:
`good p` tells whether the attempt at `p` succeeds, `Inv` is kept by failing attempts
and `Q p` holds after the successful attempt at `p`.  The search returns the least
position at or after `str` whose attempt succeeds, or fails at the end of the text. -/
theorem searchForward_general (T : List Nat) (fuel L : Nat)
    (Inv : regexp → ExecuteContext → Prop) (good : Nat → Bool)
    (Q : Nat → regexp → ExecuteContext → Prop)
    (hInv : ∀ prog st, Inv prog st →
      st.End_Of_String = some L ∧ st.Recursion_Limit_Exceeded = false)
    (hatt : ∀ p, p < L → ∀ prog st, Inv prog st →
      ∃ prog' st', attempt T fuel prog p st = some (good p, prog', st') ∧
        (good p = false → Inv prog' st') ∧ (good p = true → Q p prog' st')) :
    ∀ (k str : Nat) (prog : regexp) (st : ExecuteContext), Inv prog st → str ≤ L →
      L - str < k →
      (∃ p prog' st', str ≤ p ∧ p < L ∧ good p = true ∧
          (∀ q, str ≤ q → q < p → good q = false) ∧
          searchForward T fuel 2 (some L) k str prog st = some (true, p, prog', st') ∧
          Q p prog' st') ∨
      ((∀ q, str ≤ q → q < L → good q = false) ∧
        ∃ prog' st', searchForward T fuel 2 (some L) k str prog st
            = some (false, L, prog', st') ∧ Inv prog' st') := by
  intro k
  induction k with
  | zero => intro str prog st _ _ hk; omega
  | succ k ih =>
    intro str prog st hI hstr hk
    obtain ⟨hE, hX⟩ := hInv prog st hI
    rw [searchForward]
    by_cases hlt : str < L
    · have h1 : AT_END_OF_STRING st str = false := by
        simp [AT_END_OF_STRING, hE]; omega
      have h2 : (some str : Option Nat) ≠ some L := by simp; omega
      obtain ⟨prog', st', ha, hbad, hgood⟩ := hatt str hlt prog st hI
      simp only [h1, hX, Bool.not_false, ne_eq, h2, not_false_eq_true, and_self, if_true,
        OfNat.ofNat_ne_zero, false_and, if_false, OfNat.ofNat_ne_one, ha]
      cases hg : good str with
      | true =>
        left
        refine ⟨str, prog', st', Nat.le_refl _, hlt, hg, fun q h1 h2 => by omega, ?_, hgood hg⟩
        simp only [hg] at ha ⊢
      | false =>
        simp only [hg] at ha ⊢
        rcases ih (str + 1) prog' st' (hbad hg) (by omega) (by omega) with
          ⟨p, prog'', st'', hp1, hp2, hp3, hp4, hp5, hp6⟩ | ⟨hall, prog'', st'', hs, hI'⟩
        · left
          refine ⟨p, prog'', st'', by omega, hp2, hp3, ?_, hp5, hp6⟩
          intro q hq1 hq2
          by_cases hq : q = str
          · rw [hq]; exact hg
          · exact hp4 q (by omega) hq2
        · right
          refine ⟨?_, prog'', st'', hs, hI'⟩
          intro q hq1 hq2
          by_cases hq : q = str
          · rw [hq]; exact hg
          · exact hall q (by omega) hq2
    · have hL : str = L := by omega
      subst hL
      have h1 : AT_END_OF_STRING st str = true := by
        simp [AT_END_OF_STRING, hE]
      right
      refine ⟨fun q h1 h2 => by omega, prog, st, ?_, hI⟩
      simp [h1]

/-- What compiling and searching yields, read off `compileAndExecute`. -/
theorem compileAndExecute_ok {fuel : Nat} {pat text : List Nat} {flags : Nat} {found : Bool}
    {P : List Nat} {sp : List (Option Nat × Option Nat)}
    (h : compileAndExecute fuel pat flags text = some (found, P, sp)) :
    ∃ re r st, CompileRE pat flags = Except.ok re ∧
      execute text fuel 0 re initialContext 0 = some (found, r, st) ∧
      r.program = P ∧ spans r = sp := by
  unfold compileAndExecute at h
  cases hc : CompileRE pat flags with
  | error err => rw [hc] at h; cases h
  | ok re =>
    rw [hc] at h
    simp only at h
    cases hx : execute text fuel 0 re initialContext 0 with
    | none => rw [hx] at h; cases h
    | some res =>
      obtain ⟨found', r, st⟩ := res
      rw [hx] at h
      simp only [Option.some.injEq, Prod.mk.injEq] at h
      obtain ⟨hfound, hprog, hspans⟩ := h
      subst hfound
      exact ⟨re, r, st, rfl, hx, hprog, hspans⟩

/-- The update of `Extent_Ptr_FW` leaves the other fields alone. -/
theorem extentFW_fields (st : ExecuteContext) :
    (extentFW st).Reg_Input = st.Reg_Input ∧ (extentFW st).Start_Ptr_Ptr = st.Start_Ptr_Ptr ∧
      (extentFW st).End_Ptr_Ptr = st.End_Ptr_Ptr ∧
      (extentFW st).End_Of_String = st.End_Of_String ∧
      (extentFW st).Recursion_Limit_Exceeded = st.Recursion_Limit_Exceeded ∧
      (extentFW st).Recursion_Count = st.Recursion_Count ∧
      (extentFW st).Total_Paren = st.Total_Paren := by
  unfold extentFW
  cases st.Extent_Ptr_FW with
  | none => simp
  | some e => by_cases h : e < st.Reg_Input <;> simp [h]

/-- One step of the forward search with a known first character (`kind = 1`) over a
character that is not `match_start`: no attempt is made. -/
theorem searchForward_start_skip (T : List Nat) (fuel L k str : Nat) (prog : regexp)
    (st : ExecuteContext) (hE : st.End_Of_String = some L)
    (hX : st.Recursion_Limit_Exceeded = false) (hlt : str < L)
    (hne : T.getD str 0 ≠ prog.match_start) :
    searchForward T fuel 1 (some L) (k + 1) str prog st
      = searchForward T fuel 1 (some L) k (str + 1) prog st := by
  rw [searchForward]
  have h1 : AT_END_OF_STRING st str = false := by
    simp [AT_END_OF_STRING, hE]; omega
  have h2 : (some str : Option Nat) ≠ some L := by simp; omega
  simp only [List.getD_eq_getElem?_getD] at hne
  simp [h1, hX, h2, hne]

/-- One step of the forward search with a known first character (`kind = 1`) at a
character that is `match_start`, where the attempt succeeds. -/
theorem searchForward_start_hit (T : List Nat) (fuel L k str : Nat) (prog r : regexp)
    (st st' : ExecuteContext) (hE : st.End_Of_String = some L)
    (hX : st.Recursion_Limit_Exceeded = false) (hlt : str < L)
    (heq : T.getD str 0 = prog.match_start)
    (hatt : attempt T fuel prog str st = some (true, r, st')) :
    searchForward T fuel 1 (some L) (k + 1) str prog st = some (true, str, r, st') := by
  rw [searchForward]
  have h1 : AT_END_OF_STRING st str = false := by
    simp [AT_END_OF_STRING, hE]; omega
  have h2 : (some str : Option Nat) ≠ some L := by simp; omega
  have hk : (if (1 : Nat) = 0 then str + 1 else str) = str := by simp
  simp only [h1, hX, h2, heq, hk, hatt, Bool.not_false, ne_eq, not_false_eq_true, and_self,
    if_true, one_ne_zero, false_and, if_false, not_true_eq_false, and_false]

/-! ## Common facts for running the compiler -/

theorem peek_eq_ahead (ctx : ParseContext) : ctx.peek = ctx.ahead.headD 0 := by
  simp only [ParseContext.peek, ParseContext.peekAt, ParseContext.ahead, Nat.add_zero]
  by_cases h : ctx.Reg_Parse < ctx.InputString.length
  · rw [List.drop_eq_getElem_cons h, List.getD_eq_getElem _ _ h]; rfl
  · rw [List.drop_eq_nil_of_le (by omega), List.getD_eq_default _ _ (by omega)]; rfl

theorem ahead_advance (ctx : ParseContext) (c : Nat) (rest : List Nat)
    (h : ctx.ahead = c :: rest) :
    ({ ctx with Reg_Parse := ctx.Reg_Parse + 1 } : ParseContext).ahead = rest := by
  simp only [ParseContext.ahead] at h ⊢
  rw [← List.drop_drop, h]; rfl

theorem comp_bind {α β : Type} (x : Comp α) (f : α → Comp β) (ctx : ParseContext) :
    (x >>= f) ctx = match x ctx with
      | Except.ok (a, s) => f a s
      | Except.error e => Except.error e := by
  show (StateT.bind x f) ctx = _
  unfold StateT.bind
  show Except.bind (x ctx) _ = _
  cases x ctx <;> rfl

theorem comp_pure {α : Type} (a : α) (ctx : ParseContext) :
    (pure a : Comp α) ctx = Except.ok (a, ctx) := rfl

theorem comp_get (ctx : ParseContext) : (get : Comp ParseContext) ctx = Except.ok (ctx, ctx) := rfl

theorem comp_set (s ctx : ParseContext) : (set s : Comp PUnit) ctx = Except.ok (PUnit.unit, s) :=
  rfl

theorem comp_modify (f : ParseContext → ParseContext) (ctx : ParseContext) :
    (modify f : Comp PUnit) ctx = Except.ok (PUnit.unit, f ctx) := rfl

theorem comp_raise {α : Type} (e : RegexError) (ctx : ParseContext) :
    (raise e : Comp α) ctx = Except.error e := rfl

theorem comp_advance (k : Nat) (ctx : ParseContext) :
    advance k ctx = Except.ok (PUnit.unit, { ctx with Reg_Parse := ctx.Reg_Parse + k }) := rfl

theorem comp_retreat (ctx : ParseContext) :
    retreat ctx = Except.ok (PUnit.unit, { ctx with Reg_Parse := ctx.Reg_Parse - 1 }) := rfl

theorem digitsValue_le (ds : List Nat) : ∀ v, v ≤ digitsValue v ds := by
  induction ds with
  | nil => intro v; exact Nat.le_refl _
  | cons d ds ih =>
    intro v
    exact Nat.le_trans (by omega) (ih (v * 10 + (d - 48)))

/-- The digit loop of `piece` on a run of digits `ds` followed by a character that is not
a digit: the value is accumulated as long as it stays below 65536, and the loop raises
an error otherwise. -/
theorem braceDigits_spec (i min0 : Nat) (ds : List Nat) :
    ∀ (fuel v dp : Nat) (ctx : ParseContext) (rest : List Nat),
      (∀ d ∈ ds, isdigit d = true) → ctx.ahead = ds ++ rest →
      safe_ctype isdigit (rest.headD 0) = false → ds.length < fuel → v ≤ 65535 →
      (digitsValue v ds ≤ 65535 →
        braceDigits i min0 fuel v dp ctx
          = Except.ok ((digitsValue v ds, dp + ds.length),
              { ctx with Reg_Parse := ctx.Reg_Parse + ds.length })) ∧
      (65535 < digitsValue v ds → ∃ e, braceDigits i min0 fuel v dp ctx = Except.error e) := by
  induction ds with
  | nil =>
    intro fuel v dp ctx rest _ hah hnd hf hv0
    obtain ⟨f, rfl⟩ : ∃ f, fuel = f + 1 := ⟨fuel - 1, by simp at hf; omega⟩
    have hpk : safe_ctype isdigit ctx.peek = false := by rw [peek_eq_ahead, hah]; exact hnd
    constructor
    · intro _
      rw [braceDigits]
      simp only [comp_bind, comp_get, hpk, Bool.false_eq_true, if_false, comp_pure]
      rfl
    · intro h
      simp only [digitsValue, List.foldl_nil] at h
      omega
  | cons d ds ih =>
    intro fuel v dp ctx rest hds hah hnd hf hv0
    obtain ⟨f, rfl⟩ : ∃ f, fuel = f + 1 := ⟨fuel - 1, by simp at hf; omega⟩
    have hd : isdigit d = true := hds d (List.mem_cons_self _ _)
    have hd' : 48 ≤ d ∧ d ≤ 57 := by simpa [isdigit] using hd
    have hpk : ctx.peek = d := by rw [peek_eq_ahead, hah]; rfl
    have hsd : safe_ctype isdigit d = true := by
      rw [safe_ctype_of_lt isdigit (by omega)]; exact hd
    have hah' : ({ ctx with Reg_Parse := ctx.Reg_Parse + 1 } : ParseContext).ahead = ds ++ rest :=
      ahead_advance ctx d (ds ++ rest) hah
    have hstep : digitsValue v (d :: ds) = digitsValue (v * 10 + (d - 48)) ds := rfl
    rw [braceDigits]
    simp only [comp_bind, comp_get, hpk, hsd, if_true]
    by_cases hv : (v = 6553 ∧ d - 48 ≤ 5) ∨ v ≤ 6552
    · obtain ⟨ih1, ih2⟩ := ih f (v * 10 + (d - 48)) (dp + 1)
        { ctx with Reg_Parse := ctx.Reg_Parse + 1 } rest
        (fun x hx => hds x (List.mem_cons_of_mem _ hx)) hah' hnd (by simpa using hf) (by omega)
      simp only [hv, if_true, comp_bind, comp_advance, hstep]
      constructor
      · intro h
        rw [ih1 h]
        simp [Nat.add_assoc, Nat.add_comm 1]
      · exact ih2
    · simp only [hv, if_false]
      constructor
      · intro h
        have := digitsValue_le ds (v * 10 + (d - 48))
        rw [hstep] at h
        omega
      · intro _
        by_cases hi : i = 0 <;> simp [hi, comp_raise]

theorem ahead_length_le (ctx : ParseContext) : ctx.ahead.length ≤ ctx.InputString.length := by
  simp [ParseContext.ahead]

theorem ahead_advance_append (ctx : ParseContext) (l rest : List Nat)
    (h : ctx.ahead = l ++ rest) :
    ({ ctx with Reg_Parse := ctx.Reg_Parse + l.length } : ParseContext).ahead = rest := by
  simp only [ParseContext.ahead] at h ⊢
  rw [← List.drop_drop, h]
  simp

/-- The validation of `{min,max}` on a specification with a comma, `dm , dn }`, whose
two digit strings (either may be empty) have values below 65536. -/
theorem pieceBrace_comma (ctx : ParseContext) (dm dn rest : List Nat)
    (hdm : ∀ d ∈ dm, isdigit d = true) (hdn : ∀ d ∈ dn, isdigit d = true)
    (hah : ctx.ahead = dm ++ 44 :: (dn ++ 125 :: rest))
    (hm : numeralValue dm ≤ 65535) (hn : numeralValue dn ≤ 65535) :
    pieceBrace ctx =
      if dm ≠ [] ∧ numeralValue dm = 0 ∧ dn ≠ [] ∧ numeralValue dn = 0 then
        Except.error RegexError.range00
      else if dn ≠ [] ∧ numeralValue dn = 0 then
        if dm ≠ [] then Except.error (RegexError.rangeM0 (numeralValue dm))
        else Except.error RegexError.rangeComma0
      else if numeralValue dn ≠ 0 ∧ numeralValue dm > numeralValue dn then
        Except.error (RegexError.invalidRange (numeralValue dm) (numeralValue dn))
      else
        Except.ok ((numeralValue dm, numeralValue dn),
          { ctx with Reg_Parse := ctx.Reg_Parse + dm.length + 1 + dn.length }) := by
  have hlen := ahead_length_le ctx
  rw [hah] at hlen
  simp only [List.length_append, List.length_cons] at hlen
  have hnd1 : safe_ctype isdigit ((44 :: (dn ++ 125 :: rest)).headD 0) = false := by
    show safe_ctype isdigit 44 = false; decide
  have hnd2 : safe_ctype isdigit ((125 :: rest).headD 0) = false := by
    show safe_ctype isdigit 125 = false; decide
  have h1 := (braceDigits_spec 0 0 dm (ctx.InputString.length + 1) 0 0 ctx
    (44 :: (dn ++ 125 :: rest)) hdm hah hnd1 (by omega) (by omega)).1 hm
  have ha1 := ahead_advance_append ctx dm _ hah
  have hp1 : ({ ctx with Reg_Parse := ctx.Reg_Parse + dm.length } : ParseContext).peek = 44 := by
    rw [peek_eq_ahead, ha1]; rfl
  have ha2 := ahead_advance { ctx with Reg_Parse := ctx.Reg_Parse + dm.length } 44 _ ha1
  have h2 := (braceDigits_spec 1 (numeralValue dm) dn (ctx.InputString.length + 1) 0 0
    { ctx with Reg_Parse := ctx.Reg_Parse + dm.length + 1 }
    (125 :: rest) hdn ha2 hnd2 (by omega) (by omega)).1 hn
  have ha3 := ahead_advance_append { ctx with Reg_Parse := ctx.Reg_Parse + dm.length + 1 } dn _ ha2
  have hp3 : ({ ctx with Reg_Parse := ctx.Reg_Parse + dm.length + 1 + dn.length } :
      ParseContext).peek = 125 := by
    rw [peek_eq_ahead, ha3]; rfl
  simp only [Nat.zero_add] at h1 h2
  have e0 : ∀ l : List Nat, l.length ≠ 0 ↔ l ≠ [] := fun l => by simp
  unfold pieceBrace
  simp only [comp_bind, comp_get, REG_ZERO, REG_INFINITY, h1, hp1, if_true, comp_advance]
  erw [h2]
  simp only [comp_bind, comp_get, comp_pure, hp3, e0, numeralValue, Bool.not_true,
    Bool.false_eq_true, false_and, and_false, if_false, if_true, ne_eq, not_true_eq_false,
    gt_iff_lt]
  split_ifs <;>
    simp only [comp_bind, comp_raise, comp_get, comp_pure, hp3, not_true_eq_false, if_false]

/-- The validation of `{min}`, a specification without a comma. -/
theorem pieceBrace_single (ctx : ParseContext) (dm rest : List Nat)
    (hdm : ∀ d ∈ dm, isdigit d = true) (hah : ctx.ahead = dm ++ 125 :: rest)
    (hm : numeralValue dm ≤ 65535) :
    pieceBrace ctx =
      if dm ≠ [] ∧ numeralValue dm = 0 then Except.error RegexError.range0
      else
        Except.ok ((numeralValue dm, numeralValue dm),
          { ctx with Reg_Parse := ctx.Reg_Parse + dm.length }) := by
  have hlen := ahead_length_le ctx
  rw [hah] at hlen
  simp only [List.length_append, List.length_cons] at hlen
  have hnd1 : safe_ctype isdigit ((125 :: rest).headD 0) = false := by
    show safe_ctype isdigit 125 = false; decide
  have h1 := (braceDigits_spec 0 0 dm (ctx.InputString.length + 1) 0 0 ctx
    (125 :: rest) hdm hah hnd1 (by omega) (by omega)).1 hm
  have ha1 := ahead_advance_append ctx dm _ hah
  have hp1 : ({ ctx with Reg_Parse := ctx.Reg_Parse + dm.length } : ParseContext).peek = 125 := by
    rw [peek_eq_ahead, ha1]; rfl
  have h2 := (braceDigits_spec 1 (numeralValue dm) [] (ctx.InputString.length + 1) 0 0
    { ctx with Reg_Parse := ctx.Reg_Parse + dm.length }
    (125 :: rest) (fun _ h => absurd h (List.not_mem_nil _)) ha1 hnd1 (by simp) (by omega)).1
    (by simp [digitsValue])
  simp only [Nat.zero_add, List.length_nil, Nat.add_zero] at h1 h2
  rw [show digitsValue 0 ([] : List Nat) = 0 from rfl] at h2
  have e0 : ∀ l : List Nat, l.length ≠ 0 ↔ l ≠ [] := fun l => by simp
  have e1 : ¬ ((125 : Nat) = 44) := by decide
  unfold pieceBrace
  simp only [comp_bind, comp_get, REG_ZERO, REG_INFINITY, h1, hp1, e1, if_false, comp_pure]
  erw [h2]
  simp only [comp_bind, comp_get, comp_pure, hp1, e0, e1, numeralValue, Bool.not_false,
    and_false, and_true, if_false, if_true, ne_eq, not_true_eq_false, false_and,
    gt_iff_lt, Nat.lt_irrefl]
  split_ifs <;>
    simp only [comp_bind, comp_raise, comp_get, comp_pure, hp1, not_true_eq_false, if_false]

/-- A `min` operand above 65535 is rejected. -/
theorem pieceBrace_min_overflow (ctx : ParseContext) (dm rest : List Nat)
    (hdm : ∀ d ∈ dm, isdigit d = true) (hah : ctx.ahead = dm ++ rest)
    (hnd : safe_ctype isdigit (rest.headD 0) = false) (hm : 65535 < numeralValue dm) :
    ∃ e, pieceBrace ctx = Except.error e := by
  have hlen := ahead_length_le ctx
  rw [hah] at hlen
  simp only [List.length_append] at hlen
  obtain ⟨e, he⟩ := (braceDigits_spec 0 0 dm (ctx.InputString.length + 1) 0 0 ctx
    rest hdm hah hnd (by omega) (by omega)).2 hm
  refine ⟨e, ?_⟩
  unfold pieceBrace
  simp only [comp_bind, comp_get, REG_ZERO, he]

/-- A `max` operand above 65535 is rejected. -/
theorem pieceBrace_max_overflow (ctx : ParseContext) (dm dn rest : List Nat)
    (hdm : ∀ d ∈ dm, isdigit d = true) (hdn : ∀ d ∈ dn, isdigit d = true)
    (hah : ctx.ahead = dm ++ 44 :: (dn ++ rest))
    (hnd : safe_ctype isdigit (rest.headD 0) = false)
    (hm : numeralValue dm ≤ 65535) (hn : 65535 < numeralValue dn) :
    ∃ e, pieceBrace ctx = Except.error e := by
  have hlen := ahead_length_le ctx
  rw [hah] at hlen
  simp only [List.length_append, List.length_cons] at hlen
  have hnd1 : safe_ctype isdigit ((44 :: (dn ++ rest)).headD 0) = false := by
    show safe_ctype isdigit 44 = false; decide
  have h1 := (braceDigits_spec 0 0 dm (ctx.InputString.length + 1) 0 0 ctx
    (44 :: (dn ++ rest)) hdm hah hnd1 (by omega) (by omega)).1 hm
  have ha1 := ahead_advance_append ctx dm _ hah
  have hp1 : ({ ctx with Reg_Parse := ctx.Reg_Parse + dm.length } : ParseContext).peek = 44 := by
    rw [peek_eq_ahead, ha1]; rfl
  have ha2 := ahead_advance { ctx with Reg_Parse := ctx.Reg_Parse + dm.length } 44 _ ha1
  obtain ⟨e, he⟩ := (braceDigits_spec 1 (numeralValue dm) dn (ctx.InputString.length + 1) 0 0
    { ctx with Reg_Parse := ctx.Reg_Parse + dm.length + 1 }
    rest hdn ha2 hnd (by omega) (by omega)).2 hn
  refine ⟨e, ?_⟩
  simp only [Nat.zero_add] at h1
  unfold pieceBrace
  simp only [comp_bind, comp_get, REG_ZERO, REG_INFINITY, h1, hp1, if_true, comp_advance]
  erw [he]

theorem atomComments_none (fuel : Nat) (ctx : ParseContext) (h : ctx.peek ≠ 40) :
    atomComments (fuel + 1) ctx = Except.ok (none, ctx) := by
  rw [atomComments]
  simp only [comp_bind, comp_get, h, false_and, if_false, comp_pure]

theorem comp_map {α β : Type} (f : α → β) (x : Comp α) (ctx : ParseContext) :
    (f <$> x) ctx = match x ctx with
      | Except.ok (a, s) => Except.ok (f a, s)
      | Except.error e => Except.error e := by
  show (StateT.map f x) ctx = _
  unfold StateT.map
  show Except.bind (x ctx) _ = _
  cases x ctx <;> rfl

/-- The function `piece` when the atom is followed by a counted range that `pieceBrace`
rejects. -/
theorem piece_brace_error (chunk : Nat → Comp Ret) (ctx ctx1 : ParseContext) (ret : Ptr)
    (flags : Nat) (range : len_range) (rest : List Nat) (e : RegexError)
    (hatom : atom chunk ctx = Except.ok ((ret, flags, range), ctx1)) (hret : ret ≠ Ptr.null)
    (hB : ctx1.Brace_Char = 123) (hah : ctx1.ahead = 123 :: rest)
    (hbrace : pieceBrace { ctx1 with Reg_Parse := ctx1.Reg_Parse + 1 } = Except.error e) :
    piece chunk ctx = Except.error e := by
  have hpk : ctx1.peek = 123 := by rw [peek_eq_ahead, hah]; rfl
  have hq : IS_QUANTIFIER ctx1 123 = true := by simp [IS_QUANTIFIER, hB]
  unfold piece
  simp only [comp_bind, hatom, hret, if_false, comp_get, hpk, hq, Bool.not_true,
    Bool.false_eq_true, comp_pure, if_true, comp_advance, hbrace]

/-- The function `piece` when the atom is followed by a counted range that `pieceBrace`
accepts as `{min,max}`, and no `?` follows the range. -/
theorem piece_brace_ok (chunk : Nat → Comp Ret) (ctx ctx1 ctx2 : ParseContext) (ret : Ptr)
    (flags : Nat) (range : len_range) (rest : List Nat) (min max : Nat)
    (hatom : atom chunk ctx = Except.ok ((ret, flags, range), ctx1)) (hret : ret ≠ Ptr.null)
    (hB : ctx1.Brace_Char = 123) (hah : ctx1.ahead = 123 :: rest)
    (hbrace : pieceBrace { ctx1 with Reg_Parse := ctx1.Reg_Parse + 1 }
      = Except.ok ((min, max), ctx2))
    (hlazy : ({ ctx2 with Reg_Parse := ctx2.Reg_Parse + 1 } : ParseContext).peek ≠ 63) :
    piece chunk ctx =
      let ctx3 : ParseContext := { ctx2 with Reg_Parse := ctx2.Reg_Parse + 1 }
      let op := if min = 0 ∧ max = 0 then 42 else if min = 1 ∧ max = 0 then 43
        else if min = 0 ∧ max = 1 then 63 else 123
      if min = 1 ∧ max = 1 then Except.ok ((ret, flags, range), ctx3)
      else if op = 123 ∧ ctx3.Num_Braces > UINT8_MAX then Except.error RegexError.tooManyBraces
      else if flags &&& HAS_WIDTH = 0 then
        Except.error (RegexError.braceOperandEmpty (if op = 43 then 1 else min)
          (if op = 63 then 1 else max))
      else
        match pieceEmit op (decide (flags &&& SIMPLE ≠ 0)) false (if op = 43 then 1 else min)
            (if op = 63 then 1 else max) ret ctx3 with
        | Except.error e => Except.error e
        | Except.ok (_, ctx4) =>
          if IS_QUANTIFIER ctx4 ctx4.peek then
            Except.error (if op = 123 then RegexError.nestedBrace ctx4.peek
              else RegexError.nested op ctx4.peek)
          else
            Except.ok ((ret, if (if op = 43 then 1 else min) > 0 then WORST ||| HAS_WIDTH else WORST,
              if range.lower ≥ 0 then
                if (if op = 63 then 1 else max) ≠ 0 then
                  { lower := toLong (range.lower * ((if op = 43 then 1 else min : Nat) : Int)),
                    upper := toLong (range.upper * ((if op = 63 then 1 else max : Nat) : Int)) }
                else { lower := -1, upper := -1 }
              else { lower := -1, upper := -1 }), ctx4) := by
  have hpk : ctx1.peek = 123 := by rw [peek_eq_ahead, hah]; rfl
  have hq : IS_QUANTIFIER ctx1 123 = true := by simp [IS_QUANTIFIER, hB]
  unfold piece
  simp only [comp_bind, hatom, hret, if_false, comp_get, hpk, hq, Bool.not_true,
    Bool.false_eq_true, comp_pure, if_true, comp_advance, hbrace, hlazy, REG_ZERO, REG_ONE,
    REG_INFINITY]
  by_cases h11 : min = 1 ∧ max = 1
  · obtain ⟨rfl, rfl⟩ := h11
    simp [comp_pure]
  by_cases hw : flags &&& HAS_WIDTH = 0
  · by_cases h00 : min = 0 ∧ max = 0
    · obtain ⟨rfl, rfl⟩ := h00
      simp [hw, comp_bind, comp_raise, comp_pure]
    by_cases h10 : min = 1 ∧ max = 0
    · obtain ⟨rfl, rfl⟩ := h10
      simp [hw, comp_bind, comp_raise, comp_pure]
    by_cases h01 : min = 0 ∧ max = 1
    · obtain ⟨rfl, rfl⟩ := h01
      simp [hw, comp_bind, comp_raise, comp_pure]
    by_cases hnb : (ctx2.Num_Braces > UINT8_MAX)
    · simp [hw, h00, h10, h01, h11, hnb, comp_bind, comp_raise, comp_pure, comp_get]
    · simp [hw, h00, h10, h01, h11, hnb, comp_bind, comp_raise, comp_pure, comp_get]
  · by_cases h00 : min = 0 ∧ max = 0
    · obtain ⟨rfl, rfl⟩ := h00
      simp [hw, comp_bind, comp_pure, comp_get]
      generalize pieceEmit _ _ _ _ _ _ _ = r
      rcases r with e | ⟨u, c4⟩
      · simp
      · by_cases hq2 : IS_QUANTIFIER c4 c4.peek = true <;>
          simp [hq2, comp_bind, comp_pure, comp_raise, comp_map]
    by_cases h10 : min = 1 ∧ max = 0
    · obtain ⟨rfl, rfl⟩ := h10
      simp [hw, comp_bind, comp_pure, comp_get]
      generalize pieceEmit _ _ _ _ _ _ _ = r
      rcases r with e | ⟨u, c4⟩
      · simp
      · by_cases hq2 : IS_QUANTIFIER c4 c4.peek = true <;>
          simp [hq2, comp_bind, comp_pure, comp_raise, comp_map]
    by_cases h01 : min = 0 ∧ max = 1
    · obtain ⟨rfl, rfl⟩ := h01
      simp [hw, comp_bind, comp_pure, comp_get]
      generalize pieceEmit _ _ _ _ _ _ _ = r
      rcases r with e | ⟨u, c4⟩
      · simp
      · by_cases hq2 : IS_QUANTIFIER c4 c4.peek = true <;>
          simp [hq2, comp_bind, comp_pure, comp_raise, comp_map]
    by_cases hnb : (ctx2.Num_Braces > UINT8_MAX)
    · simp [hw, h00, h10, h01, h11, hnb, comp_bind, comp_raise, comp_pure, comp_get]
    · simp [hw, h00, h10, h01, h11, hnb, comp_bind, comp_pure, comp_get]
      generalize pieceEmit _ _ _ _ _ _ _ = r
      rcases r with e | ⟨u, c4⟩
      · simp
      · by_cases hq2 : IS_QUANTIFIER c4 c4.peek = true <;>
          simp [hq2, comp_bind, comp_pure, comp_raise, comp_map]

/-- The function `piece` when the atom is followed by `*`, `+` or `?`, and no `?` follows
that. -/
theorem piece_simple_quant (chunk : Nat → Comp Ret) (ctx ctx1 : ParseContext) (ret : Ptr)
    (flags : Nat) (range : len_range) (q : Nat) (rest : List Nat)
    (hatom : atom chunk ctx = Except.ok ((ret, flags, range), ctx1)) (hret : ret ≠ Ptr.null)
    (hq : q = 42 ∨ q = 43 ∨ q = 63) (hah : ctx1.ahead = q :: rest)
    (hlazy : ({ ctx1 with Reg_Parse := ctx1.Reg_Parse + 1 } : ParseContext).peek ≠ 63) :
    piece chunk ctx =
      let ctx3 : ParseContext := { ctx1 with Reg_Parse := ctx1.Reg_Parse + 1 }
      if flags &&& HAS_WIDTH = 0 then Except.error (RegexError.operandEmpty q)
      else
        match pieceEmit q (decide (flags &&& SIMPLE ≠ 0)) false (if q = 43 then 1 else 0)
            (if q = 63 then 1 else 0) ret ctx3 with
        | Except.error e => Except.error e
        | Except.ok (_, ctx4) =>
          if IS_QUANTIFIER ctx4 ctx4.peek then Except.error (RegexError.nested q ctx4.peek)
          else
            Except.ok ((ret, if q = 43 then WORST ||| HAS_WIDTH else WORST,
              if range.lower ≥ 0 then
                if q = 63 then { lower := toLong 0, upper := toLong range.upper }
                else { lower := -1, upper := -1 }
              else { lower := -1, upper := -1 }), ctx4) := by
  have hpk : ctx1.peek = q := by rw [peek_eq_ahead, hah]; rfl
  unfold piece
  simp only [comp_bind, hatom, hret, if_false, comp_get, hpk]
  by_cases hw : flags &&& HAS_WIDTH = 0
  · rcases hq with rfl | rfl | rfl <;>
      simp [hw, comp_bind, comp_raise, comp_pure, IS_QUANTIFIER, comp_advance, comp_get, hlazy, hpk]
  · rcases hq with rfl | rfl | rfl
    · simp [hw, comp_bind, comp_pure, comp_get, IS_QUANTIFIER, comp_advance, hlazy, REG_ZERO,
        REG_ONE, REG_INFINITY, hpk]
      generalize pieceEmit _ _ _ _ _ _ _ = r
      rcases r with e | ⟨u, c4⟩
      · simp
      · simp only []
        split_ifs <;> simp [comp_pure, comp_raise, comp_map]
    · simp [hw, comp_bind, comp_pure, comp_get, IS_QUANTIFIER, comp_advance, hlazy, REG_ZERO,
        REG_ONE, REG_INFINITY, hpk]
      generalize pieceEmit _ _ _ _ _ _ _ = r
      rcases r with e | ⟨u, c4⟩
      · simp
      · simp only []
        split_ifs <;> simp [comp_pure, comp_raise, comp_map]
    · simp [hw, comp_bind, comp_pure, comp_get, IS_QUANTIFIER, comp_advance, hlazy, REG_ZERO,
        REG_ONE, REG_INFINITY, hpk]
      generalize pieceEmit _ _ _ _ _ _ _ = r
      rcases r with e | ⟨u, c4⟩
      · simp
      · simp only []
        split_ifs <;> simp [comp_pure, comp_raise, comp_map]

set_option maxHeartbeats 4000000 in
/-- In the sizing pass `pieceEmit` only counts: it cannot fail. -/
theorem pieceEmit_sizing (op : Nat) (simple lazy : Bool) (min max : Nat) (ctx : ParseContext)
    (hP : ctx.Code_Emit_Ptr = Compute_Size) (hop : op = 42 ∨ op = 43 ∨ op = 63 ∨ op = 123) :
    ∃ size nb, pieceEmit op simple lazy min max Compute_Size ctx
      = Except.ok (PUnit.unit, { ctx with Reg_Size := size, Num_Braces := nb }) := by
  unfold pieceEmit
  rcases hop with rfl | rfl | rfl | rfl
  · cases simple <;> cases lazy <;>
      simp [comp_bind, comp_pure, comp_get, comp_modify, insert, emit_node, emit_special, tail,
        offset_tail, hP]
  · cases simple <;> cases lazy <;>
      simp [comp_bind, comp_pure, comp_get, comp_modify, insert, emit_node, emit_special, tail,
        offset_tail, hP]
  · cases simple <;> cases lazy <;>
      simp [comp_bind, comp_pure, comp_get, comp_modify, insert, emit_node, emit_special, tail,
        offset_tail, hP]
  · simp only [REG_ZERO, REG_INFINITY]
    by_cases h1 : min = max <;> by_cases h2 : min = 0 <;> by_cases h3 : max = 0 <;>
      cases simple <;> cases lazy <;>
      simp [comp_bind, comp_pure, comp_get, comp_modify, insert, emit_node, emit_special, tail,
        offset_tail, hP, h1, h2, h3, eq_comm (a := 0) (b := max), Nat.pos_iff_ne_zero]
theorem getD_ahead (ctx : ParseContext) (l : List Nat) (h : ctx.ahead = l) (j : Nat) :
    ctx.InputString.getD (ctx.Reg_Parse + j) 0 = l.getD j 0 := by
  rw [← h]
  simp only [ParseContext.ahead, List.getD_eq_getElem?_getD, List.getElem?_drop]

theorem length_of_ahead (ctx : ParseContext) (l : List Nat) (h : ctx.ahead = l) (hl : l ≠ []) :
    ctx.Reg_Parse + l.length = ctx.InputString.length := by
  have := congrArg List.length h
  simp only [ParseContext.ahead, List.length_drop] at this
  have : 0 < l.length := List.length_pos.mpr hl
  omega

theorem ordinaryChar_ne {x : Nat} (hx : isOrdinaryChar x) :
    x ≠ 0 ∧ x ≠ 123 ∧ x ≠ 46 ∧ x ≠ 42 ∧ x ≠ 43 ∧ x ≠ 63 ∧ x ≠ 91 ∧ x ≠ 40 ∧ x ≠ 124 ∧ x ≠ 41 ∧
      x ≠ 94 ∧ x ≠ 60 ∧ x ≠ 62 ∧ x ≠ 36 ∧ x ≠ 92 := by
  have hmc : Default_Meta_Char = [123, 46, 42, 43, 63, 91, 40, 124, 41, 94, 60, 62, 36] := by
    decide
  obtain ⟨h1, h2⟩ := hx
  simp [strchr, hmc] at h1
  omega

set_option maxHeartbeats 4000000 in
/-- The literal loop of `atom` in the sizing pass on one ordinary character `x` followed by a
meta character: `x` is taken, the loop stops at the meta character. -/
theorem atomLiteralLoop_single_sizing (F : Nat) (ctx : ParseContext) (x q : Nat)
    (hx : isOrdinaryChar x) (hq : strchr Default_Meta_Char q = true)
    (h0 : ctx.InputString.getD ctx.Reg_Parse 0 = x)
    (h1 : ctx.InputString.getD (ctx.Reg_Parse + 1) 0 = q)
    (hpos : ctx.Reg_Parse + 1 < ctx.InputString.length)
    (hM : ctx.Meta_Char = Default_Meta_Char) (hCI : ctx.Is_Case_Insensitive = false)
    (hP : ctx.Code_Emit_Ptr = Compute_Size) :
    atomLiteralLoop (F + 2) 0 ctx
      = Except.ok (1, { ctx with Reg_Parse := ctx.Reg_Parse + 1, Reg_Size := ctx.Reg_Size + 1 }) := by
  have hxm := hx.1
  have hx' : x ≠ 92 := hx.2
  have hpos0 : ¬ (ctx.Reg_Parse = ctx.InputString.length) := by omega
  have hpos1 : ¬ (ctx.Reg_Parse + 1 = ctx.InputString.length) := by omega
  rw [atomLiteralLoop]
  simp only [comp_bind, comp_get, ParseContext.atEnd, hpos0, decide_False, Bool.not_false,
    true_and, hM, ParseContext.peek, ParseContext.peekAt, Nat.add_zero, h0, hxm, if_true, hx',
    if_false, hCI, Bool.false_eq_true, emit_byte, hP, comp_advance, comp_pure, h1,
    Nat.lt_irrefl, gt_iff_lt, and_false]
  rw [atomLiteralLoop]
  simp only [comp_bind, comp_get, ParseContext.atEnd, hpos1, decide_False, Bool.not_false,
    true_and, hM, ParseContext.peek, ParseContext.peekAt, Nat.add_zero, h1, hq, Bool.not_true,
    Bool.false_eq_true, if_false, comp_pure, Nat.zero_add]

set_option maxHeartbeats 4000000 in
/-- The function `atom` in the sizing pass on an ordinary character `x` that is followed by a
quantifier character: one `EXACTLY` node for `x`. -/
theorem atom_single_sizing (chunk : Nat → Comp Ret) (ctx : ParseContext) (x q : Nat)
    (rest : List Nat) (hx : isOrdinaryChar x) (hq : q = 42 ∨ q = 43 ∨ q = 63 ∨ q = 123)
    (hah : ctx.ahead = x :: q :: rest) (hM : ctx.Meta_Char = Default_Meta_Char)
    (hCI : ctx.Is_Case_Insensitive = false) (hP : ctx.Code_Emit_Ptr = Compute_Size) :
    atom chunk ctx = Except.ok ((Compute_Size, HAS_WIDTH ||| SIMPLE, { lower := 1, upper := 1 }),
      { ctx with Reg_Parse := ctx.Reg_Parse + 1, Reg_Size := ctx.Reg_Size + 5 }) := by
  have hpk : ctx.peek = x := by rw [peek_eq_ahead, hah]; rfl
  have h0 : ctx.InputString.getD ctx.Reg_Parse 0 = x := getD_ahead ctx _ hah 0
  have h1 : ctx.InputString.getD (ctx.Reg_Parse + 1) 0 = q := getD_ahead ctx _ hah 1
  have hx' := ordinaryChar_ne hx
  have hne : ctx.peek ≠ 40 := by rw [hpk]; omega
  have hlen := length_of_ahead ctx _ hah (by simp)
  simp only [List.length_cons] at hlen
  have hend : ctx.atEnd = false := by
    simp only [ParseContext.atEnd, decide_eq_false_iff_not]; omega
  have hqm : strchr Default_Meta_Char q = true := by
    rcases hq with rfl | rfl | rfl | rfl <;> decide
  have c1 : x ≠ 94 := by omega
  have c2 : x ≠ 36 := by omega
  have c3 : x ≠ 60 := by omega
  have c4 : x ≠ 62 := by omega
  have c5 : x ≠ 46 := by omega
  have c6 : x ≠ 40 := by omega
  have c7 : x ≠ 124 := by omega
  have c8 : x ≠ 41 := by omega
  have c9 : x ≠ 63 := by omega
  have c10 : x ≠ 43 := by omega
  have c11 : x ≠ 42 := by omega
  have c12 : x ≠ 123 := by omega
  have c13 : x ≠ 91 := by omega
  have c14 : x ≠ 92 := by omega
  obtain ⟨F, hF⟩ : ∃ F, ctx.InputString.length + 1 = F + 2 :=
    ⟨ctx.InputString.length - 1, by omega⟩
  unfold atom
  simp only [comp_bind, comp_get, atomComments_none _ ctx hne, hend, Bool.false_eq_true, if_false,
    comp_pure, comp_advance, hpk, c1, c2, c3, c4, c5, c6, c7, c8, c9, c10, c11, c12, c13, c14,
    false_or, or_false, false_and, comp_retreat, hCI, emit_node, hP, if_true, hF,
    Nat.add_sub_cancel]
  rw [atomLiteralLoop_single_sizing F _ x q hx hqm ?_ ?_ ?_ ?_ ?_ ?_]
  · simp [emit_byte, NODE_SIZE, NEXT_PTR_SIZE, OP_CODE_SIZE, comp_bind, comp_pure, comp_map, WORST]
  · exact h0
  · exact h1
  · show ctx.Reg_Parse + 1 < ctx.InputString.length; omega
  · exact hM
  · rfl
  · rfl

/-! ## The path from `CompileRE` to the first piece -/

theorem alternativeLoop_piece_error (chunk : Nat → Comp Ret) (fuel : Nat) (chain : Ptr)
    (flag : Nat) (range : len_range) (ctx : ParseContext) (e : RegexError)
    (h1 : ctx.peek ≠ 124) (h2 : ctx.peek ≠ 41) (h3 : ctx.atEnd = false)
    (hp : piece chunk ctx = Except.error e) :
    alternativeLoop chunk (fuel + 1) chain flag range ctx = Except.error e := by
  rw [alternativeLoop]
  simp only [comp_bind, comp_get, h1, h2, h3, hp, ne_eq, not_false_eq_true, Bool.not_false,
    and_self, if_true]

theorem alternativeLoop_piece_ok (chunk : Nat → Comp Ret) (fuel : Nat)
    (flag : Nat) (range : len_range) (ctx ctx1 : ParseContext) (latest : Ptr) (fl : Nat)
    (rg : len_range)
    (h1 : ctx.peek ≠ 124) (h2 : ctx.peek ≠ 41) (h3 : ctx.atEnd = false)
    (hp : piece chunk ctx = Except.ok ((latest, fl, rg), ctx1)) (hl : latest ≠ Ptr.null) :
    alternativeLoop chunk (fuel + 1) Ptr.null flag range ctx
      = alternativeLoop chunk fuel latest (flag ||| (fl &&& HAS_WIDTH))
          (if rg.lower < 0 then { lower := -1, upper := -1 }
           else if range.lower ≥ 0 then
             { lower := toLong (range.lower + rg.lower), upper := toLong (range.upper + rg.upper) }
           else range) ctx1 := by
  rw [alternativeLoop]
  simp only [comp_bind, comp_get, h1, h2, h3, hp, hl, ne_eq, not_false_eq_true, Bool.not_false,
    and_self, if_true, if_false, not_true_eq_false, comp_pure]

/-- The body of `chunk` at the top level (`NO_PAREN`). -/
theorem chunkBody_top (chunk : Nat → Comp Ret) (ctx : ParseContext) :
    chunkBody chunk NO_PAREN ctx =
      match chunkBranches chunk (ctx.InputString.length + 1) Ptr.null true HAS_WIDTH
          { lower := 0, upper := 0 } ctx with
      | Except.error e => Except.error e
      | Except.ok (none, c) => Except.ok ((Ptr.null, HAS_WIDTH, { lower := 0, upper := 0 }), c)
      | Except.ok (some (rv, fl, rg), c) =>
        match emit_node END c with
        | Except.error e => Except.error e
        | Except.ok (ender, c1) =>
          match tail rv ender c1 with
          | Except.error e => Except.error e
          | Except.ok (_, c2) =>
            match chunkHook ender (c2.program.length + 2) rv c2 with
            | Except.error e => Except.error e
            | Except.ok (_, c3) =>
              if c3.atEnd = true then
                Except.ok ((rv, fl, rg), { c3 with Is_Case_Insensitive := ctx.Is_Case_Insensitive,
                                                   Match_Newline := ctx.Match_Newline })
              else if c3.peek = 41 then Except.error RegexError.missingLeftParen
              else Except.error RegexError.junkOnEnd := by
  have c1 : ¬ ((0 : Nat) = 1) := by decide
  have c2 : ¬ ((0 : Nat) = 43 ∨ (0 : Nat) = 44) := by decide
  have c3 : ¬ ((0 : Nat) = 46 ∨ (0 : Nat) = 47) := by decide
  have c4 : ¬ ((0 : Nat) = 3) := by decide
  have c5 : ¬ ((0 : Nat) = 4) := by decide
  have c6 : ¬ ((0 : Nat) = 5) := by decide
  have c7 : ¬ ((0 : Nat) = 6) := by decide
  unfold chunkBody
  simp only [comp_bind, comp_get, NO_PAREN, PAREN, POS_AHEAD_OPEN, NEG_AHEAD_OPEN,
    POS_BEHIND_OPEN, NEG_BEHIND_OPEN, INSENSITIVE, SENSITIVE, NEWLINE, NO_NEWLINE, comp_pure,
    c1, c2, c3, c4, c5, c6, c7, if_false]
  rcases chunkBranches chunk (ctx.InputString.length + 1) Ptr.null true HAS_WIDTH
      { lower := 0, upper := 0 } ctx with e | ⟨_ | ⟨rv, fl, rg⟩, c⟩
  · rfl
  · rfl
  · simp only [comp_bind, comp_get, comp_pure, if_true, ne_eq, not_true_eq_false, if_false,
      false_and, and_false, comp_modify, comp_raise]
    rcases emit_node END c with e | ⟨ender, c1⟩
    · rfl
    simp only []
    rcases tail rv ender c1 with e | ⟨u, c2⟩
    · rfl
    simp only []
    rcases chunkHook ender (c2.program.length + 2) rv c2 with e | ⟨u, c3⟩
    · rfl
    simp only []
    cases hE : c3.atEnd
    · by_cases h41 : c3.peek = 41
      · simp [h41, comp_raise, comp_bind]
      · simp [h41, comp_raise, comp_bind]
    · simp [comp_pure, comp_bind, comp_get, comp_modify, comp_map]

/-- The function `alternative` in terms of its loop. -/
theorem alternative_eq (chunk : Nat → Comp Ret) (ctx : ParseContext) :
    alternative chunk ctx =
      match emit_node BRANCH ctx with
      | Except.error e => Except.error e
      | Except.ok (rv, c0) =>
        match alternativeLoop chunk (c0.InputString.length + 1) Ptr.null WORST
            { lower := 0, upper := 0 } c0 with
        | Except.error e => Except.error e
        | Except.ok (none, c) => Except.ok ((Ptr.null, WORST, { lower := 0, upper := 0 }), c)
        | Except.ok (some (chain, fl, rg), c) =>
          if chain = Ptr.null then
            match emit_node NOTHING c with
            | Except.error e => Except.error e
            | Except.ok (_, c1) => Except.ok ((rv, fl, rg), c1)
          else Except.ok ((rv, fl, rg), c) := by
  unfold alternative
  simp only [comp_bind, comp_get, comp_pure]
  rcases emit_node BRANCH ctx with e | ⟨rv, c0⟩
  · rfl
  simp only []
  rcases alternativeLoop chunk (c0.InputString.length + 1) Ptr.null WORST
      { lower := 0, upper := 0 } c0 with e | ⟨_ | ⟨chain, fl, rg⟩, c⟩
  · rfl
  · rfl
  · simp only []
    by_cases hc : chain = Ptr.null
    · simp only [hc, if_true, comp_bind, comp_pure]
      rcases emit_node NOTHING c with e | ⟨x, c1⟩ <;> rfl
    · simp only [hc, if_false, comp_bind, comp_pure]

/-- One round of the loop of `chunk` over the alternatives. -/
theorem chunkBranches_eq (chunk : Nat → Comp Ret) (fuel : Nat) (ret_val : Ptr) (first : Bool)
    (flag : Nat) (range : len_range) (ctx : ParseContext) :
    chunkBranches chunk (fuel + 1) ret_val first flag range ctx =
      match alternative chunk ctx with
      | Except.error e => Except.error e
      | Except.ok ((tb, fl, rg), c) =>
        if tb = Ptr.null then Except.ok (none, c)
        else
          match tail (if first = true ∧ ret_val = Ptr.null then tb else ret_val) tb c with
          | Except.error e => Except.error e
          | Except.ok (_, c1) =>
            if c1.peek ≠ 124 then
              Except.ok (some (if first = true ∧ ret_val = Ptr.null then tb else ret_val,
                if fl &&& HAS_WIDTH = 0 then flag &&& (2 ^ 32 - 1 - HAS_WIDTH) else flag,
                if first = true then rg
                else if range.lower ≥ 0 then
                  if rg.lower ≥ 0 then
                    { lower := if rg.lower < range.lower then rg.lower else range.lower,
                      upper := if rg.upper > range.upper then rg.upper else range.upper }
                  else { lower := -1, upper := -1 }
                else range), c1)
            else
              chunkBranches chunk fuel (if first = true ∧ ret_val = Ptr.null then tb else ret_val)
                false (if fl &&& HAS_WIDTH = 0 then flag &&& (2 ^ 32 - 1 - HAS_WIDTH) else flag)
                (if first = true then rg
                 else if range.lower ≥ 0 then
                  if rg.lower ≥ 0 then
                    { lower := if rg.lower < range.lower then rg.lower else range.lower,
                      upper := if rg.upper > range.upper then rg.upper else range.upper }
                  else { lower := -1, upper := -1 }
                 else range) { c1 with Reg_Parse := c1.Reg_Parse + 1 } := by
  rw [chunkBranches]
  simp only [comp_bind, comp_get, comp_pure]
  rcases alternative chunk ctx with e | ⟨⟨tb, fl, rg⟩, c⟩
  · rfl
  simp only []
  by_cases ht : tb = Ptr.null
  · simp only [ht, if_true, comp_pure]
  simp only [ht, if_false, comp_bind, comp_pure]
  rcases tail (if first = true ∧ ret_val = Ptr.null then tb else ret_val) tb c with e | ⟨u, c1⟩
  · rfl
  simp only [comp_get]
  by_cases hp : c1.peek = 124
  · simp only [hp, ne_eq, not_true_eq_false, if_false, comp_bind, comp_advance, comp_pure]
  · simp only [hp, ne_eq, not_false_eq_true, if_true, comp_pure]

theorem compile_error_of_first_piece (S : List Nat) (e : RegexError)
    (h : alternativeLoop (chunk S.length) (S.length + 1) Ptr.null WORST { lower := 0, upper := 0 }
      (sizingStart S) = Except.error e) :
    CompileRE S 0 = Except.error e := by
  have hs : ∀ (p : ParseContext), p = passContext S 0 true [] Compute_Size 0 →
      compilePass p = Except.error e := by
    intro p hp
    have h1 : p.Code_Emit_Ptr = Compute_Size := by rw [hp]; rfl
    have h2 : p.InputString = S := by rw [hp]; rfl
    have h3 : ({ p with
          InputString := S
          Code_Emit_Ptr := Compute_Size
          Reg_Size := p.Reg_Size + 1 + 1 + 1 + NODE_SIZE } : ParseContext)
        = sizingStart S := by rw [hp]; rfl
    have h4 : (sizingStart S).InputString = S := rfl
    unfold compilePass
    simp only [comp_bind, emit_byte, h1, if_true, h2, chunk, chunkBody_top, chunkBranches_eq,
      alternative_eq, emit_node, h3, h4, h]
  unfold CompileRE CompileRE_counting
  rw [hs _ rfl]

/-- The function `atom` on a quantifier character: there is nothing for the quantifier to
apply to. -/
theorem atom_quantifier (chunk : Nat → Comp Ret) (ctx : ParseContext) (q : Nat)
    (rest : List Nat) (hq : q = 42 ∨ q = 43 ∨ q = 63 ∨ q = 123)
    (hah : ctx.ahead = q :: rest) (hE : ctx.Enable_Counting_Quantifier = true) :
    atom chunk ctx = Except.error
      (if q = 123 then RegexError.braceFollowsNothing else RegexError.followsNothing q) := by
  have hpk : ctx.peek = q := by rw [peek_eq_ahead, hah]; rfl
  have hne : ctx.peek ≠ 40 := by rw [hpk]; omega
  have hlen := length_of_ahead ctx _ hah (by simp)
  simp only [List.length_cons] at hlen
  have hend : ctx.atEnd = false := by
    simp only [ParseContext.atEnd, decide_eq_false_iff_not]; omega
  unfold atom
  simp only [comp_bind, comp_get, atomComments_none _ ctx hne, hend, Bool.false_eq_true, if_false,
    comp_pure, comp_advance, hpk]
  rcases hq with rfl | rfl | rfl | rfl <;> simp [comp_raise, comp_bind, hE]


/-! ## `^\d{2,4}$` -/

theorem compiled_digits :
    compiled (strBytes "^\\d\x7b2,4\x7d$") 0 = Except.ok (program_digits, 0, 1) := by decide!

section DigitsNodes

variable (T : List Nat) (n : Nat) (bip : Option Nat) (st : ExecuteContext)

theorem digits_n3 : matchLoop program_digits T (n + 1) (Ptr.prog 3) bip st
    = matchLoop program_digits T n (Ptr.prog 6) bip st :=
  matchLoop_BRANCH_single program_digits T n bip st (p := Ptr.prog 3) (d := Ptr.prog 22)
    (by decide) (by decide) (by decide)

theorem digits_n6 : matchLoop program_digits T (n + 1) (Ptr.prog 6) bip st
    = if (matchAnchorTest T st BOL).getD false then
        matchLoop program_digits T n (Ptr.prog 9) bip st
      else MATCH_RETURN false bip st :=
  matchLoop_anchor program_digits T n bip st (p := Ptr.prog 6) (d := Ptr.prog 9) (o := BOL)
    (by decide) (by decide) (by decide)

theorem digits_n9 : matchLoop program_digits T (n + 1) (Ptr.prog 9) bip st
    = match greedyLoop st T (fun c => safe_ctype isdigit c) 4 (T.length + 2) 0 st.Reg_Input with
      | none => none
      | some (k, i) =>
        repeatLoop program_digits T (fun q s => match_ program_digits T n q none s)
          (Ptr.prog 19) (Ptr.prog 16) 0 false 2 4 st.Reg_Input (n + 1) k bip
          { st with Reg_Input := i } := by
  rw [matchLoop_REPEAT program_digits T n bip st (p := Ptr.prog 9) (d := Ptr.prog 19)
    (o := BRACE) (by decide) (by decide) (by decide)]
  simp [case_REPEAT, BRACE, LAZY_STAR, LAZY_PLUS, LAZY_QUESTION, LAZY_BRACE, STAR, PLUS, QUESTION,
    GET_OFFSET, program_digits, Ptr.add, NEXT_PTR_SIZE, OPERAND, NODE_SIZE, OP_CODE_SIZE, toLong,
    greedy, greedyPred, cstring, GET_OP_CODE, ANY, EVERY, EXACTLY, SIMILAR, ANY_OF, ANY_BUT,
    IS_DELIM, NOT_DELIM, WORD_CHAR, NOT_WORD_CHAR, DIGIT, REG_INFINITY, REG_ZERO, REG_ONE]
  cases greedyLoop st T (fun c => safe_ctype isdigit c) 4 (T.length + 2) 0 st.Reg_Input <;> rfl

theorem digits_n19 : matchLoop program_digits T (n + 1) (Ptr.prog 19) bip st
    = if (matchAnchorTest T st EOL).getD false then
        matchLoop program_digits T n (Ptr.prog 22) bip st
      else MATCH_RETURN false bip st :=
  matchLoop_anchor program_digits T n bip st (p := Ptr.prog 19) (d := Ptr.prog 22) (o := EOL)
    (by decide) (by decide) (by decide)

theorem digits_n22 : matchLoop program_digits T (n + 1) (Ptr.prog 22) bip st
    = MATCH_RETURN true bip (extentFW st) :=
  matchLoop_END program_digits T n bip st (p := Ptr.prog 22) (by decide)

end DigitsNodes

/-- The first attempt of `^\d{2,4}$` on a string of digits, made at its start. -/
theorem digits_attempt (s : List Nat) (hs : ∀ c ∈ s, isdigit c = true) (n : Nat) (re : regexp)
    (st : ExecuteContext) (hp : re.program = program_digits)
    (hE : st.End_Of_String = some s.length) (hS : st.Start_Of_String = 0)
    (hB : st.Prev_Is_BOL = true) (hZ : st.Succ_Is_EOL = true)
    (hX : st.Recursion_Limit_Exceeded = false) :
    ∃ r' st', attempt s (n + 10) re 0 st
        = some (decide (2 ≤ s.length ∧ s.length ≤ 4), r', st') ∧
      r'.program = re.program ∧ r'.anchor = re.anchor ∧ r'.match_start = re.match_start ∧
      st'.End_Of_String = some s.length ∧ st'.Recursion_Limit_Exceeded = false ∧
      (2 ≤ s.length ∧ s.length ≤ 4 → r'.startp 0 = some 0 ∧ r'.endp 0 = some s.length) := by
  have key : ∀ c ∈ s, safe_ctype isdigit c = true ∧ c ≠ 10 := fun c hc =>
    ⟨by rw [safe_ctype_of_lt isdigit (isdigit_lt (hs c hc))]; exact hs c hc,
      isdigit_ne_newline (hs c hc)⟩
  rcases s with _ | ⟨d1, _ | ⟨d2, _ | ⟨d3, _ | ⟨d4, _ | ⟨d5, rest⟩⟩⟩⟩⟩ <;>
    simp only [List.mem_cons, forall_eq_or_imp, List.length_cons, List.length_nil] at key hE ⊢ <;>
    rw [attempt, match_eq] <;>
    simp [hp, REGEX_START_OFFSET, digits_n3, digits_n6, digits_n9, digits_n19, digits_n22,
      REGEX_RECURSION_LIMIT, matchAnchorTest, BOL, EOL, hS, hB, hZ, greedyLoop, AT_END_OF_STRING,
      hE, key, repeatLoop, match_eq, MATCH_RETURN, hX, REG_ZERO, extentFW] <;>
    exact ⟨_, _, ⟨rfl, rfl⟩, by simp [arraySet]⟩

/-- C7: for every string `s` of decimal digits, executing the compiled pattern
`^\d{2,4}$` on `s` from offset 0 (with any fuel from 10 on, any default delimiter table
and any earlier state of the global context) finds a match if and only if `s` has 2 to
4 characters, and the match then spans all of `s`. -/
theorem bounded_digit_repetition :
    ∃ re, CompileRE (strBytes "^\\d\x7b2,4\x7d$") 0 = Except.ok re ∧
      ∀ (s : List Nat), (∀ c ∈ s, isdigit c = true) →
      ∀ (fuel : Nat), 10 ≤ fuel → ∀ (Default_Delimiters : Nat) (st0 : ExecuteContext),
        ∃ r st, execute s fuel Default_Delimiters re st0 0
            = some (decide (2 ≤ s.length ∧ s.length ≤ 4), r, st) ∧
          (2 ≤ s.length ∧ s.length ≤ 4 → r.startp 0 = some 0 ∧ r.endp 0 = some s.length) := by
  obtain ⟨re, hre, hp, hms, han⟩ := compiled_ok compiled_digits
  refine ⟨re, hre, ?_⟩
  intro s hs fuel hf dd st0
  obtain ⟨n, rfl⟩ : ∃ n, fuel = n + 10 := ⟨fuel - 10, by omega⟩
  have hmagic : re.program.getD 0 0 = MAGIC := by rw [hp]; decide
  obtain ⟨r', st', hatt, hprog, han', hms', hE', hX', hcap⟩ :=
    digits_attempt s hs n (execRegexp re 0)
      (execContext dd re st0 0 (some s.length) 0 0 none (some 0) (some s.length))
      (by simp [execRegexp, hp]) (by simp [execContext]) (by simp [execContext])
      (by simp [execContext]) (by simp [execContext]) (by simp [execContext])
  have hno : ∀ i, 0 ≤ i → i < s.length → s.getD i 0 ≠ 10 := by
    intro i _ hi
    rw [List.getD_eq_getElem _ _ hi]
    exact isdigit_ne_newline (hs _ (List.getElem_mem _))
  simp only [execute, execute_range, ExecRE, hmagic, han, ne_eq, not_true_eq_false, if_false,
    if_true, Bool.not_false, one_ne_zero, not_false_eq_true, hatt, and_false, reduceCtorEq]
  by_cases hc : 2 ≤ s.length ∧ s.length ≤ 4
  · simp only [hc, and_self, decide_True, hX', Bool.false_eq_true, if_false] at hatt ⊢
    exact ⟨r', st', rfl, fun _ => hcap hc⟩
  · simp only [hc, decide_False] at hatt ⊢
    obtain ⟨str', hsf⟩ := searchForward_anchor_no_newline s (n + 10) s.length (s.length + 2) 0
      r' st' hE' hX' hno (by omega)
    simp only [hsf, hX', Bool.false_eq_true, if_false]
    exact ⟨r', st', rfl, fun h => h.elim⟩

/-- C7, at the two strings of the scenario: `"123"` matches in full, `"12345"` does
not match. -/
theorem bounded_digit_repetition_witness :
    ∃ re, CompileRE (strBytes "^\\d\x7b2,4\x7d$") 0 = Except.ok re ∧
      (∃ r st, execute (strBytes "123") 10 0 re initialContext 0 = some (true, r, st) ∧
        r.startp 0 = some 0 ∧ r.endp 0 = some 3) ∧
      (∃ r st, execute (strBytes "12345") 10 0 re initialContext 0 = some (false, r, st)) := by
  obtain ⟨re, hre, h⟩ := bounded_digit_repetition
  refine ⟨re, hre, ?_, ?_⟩
  · obtain ⟨r, st, h1, h2⟩ := h (strBytes "123") (by decide) 10 (by decide) 0 initialContext
    exact ⟨r, st, h1, h2 (by decide)⟩
  · obtain ⟨r, st, h1, _⟩ := h (strBytes "12345") (by decide) 10 (by decide) 0 initialContext
    exact ⟨r, st, h1⟩

theorem compiled_lookbehind :
    compiled (strBytes "(?<=\\d)px") 0 = Except.ok (program_lookbehind, 0, 0) := by decide!

section LookbehindNodes

variable (T : List Nat) (n : Nat) (bip : Option Nat) (st : ExecuteContext)

theorem lookbehind_n3 : matchLoop program_lookbehind T (n + 1) (Ptr.prog 3) bip st
    = matchLoop program_lookbehind T n (Ptr.prog 6) bip st :=
  matchLoop_BRANCH_single program_lookbehind T n bip st (p := Ptr.prog 3) (d := Ptr.prog 28)
    (by decide) (by decide) (by decide)

theorem lookbehind_n6 : matchLoop program_lookbehind T (n + 1) (Ptr.prog 6) bip st
    = match lookBehindLoop (fun s => match_ program_lookbehind T n (Ptr.prog 13) none s)
          st.Reg_Input 1 1 { st with End_Of_String := some st.Reg_Input } with
      | none => none
      | some (none, st1) => MATCH_RETURN false bip st1
      | some (some found, st1) =>
        if found then
          matchLoop program_lookbehind T n (Ptr.prog 22) bip
            { st1 with Reg_Input := st.Reg_Input, End_Of_String := st.End_Of_String }
        else
          MATCH_RETURN false bip
            { st1 with Reg_Input := st.Reg_Input, End_Of_String := st.End_Of_String } := by
  rw [matchLoop_BEHIND program_lookbehind T n bip st (p := Ptr.prog 6) (d := Ptr.prog 13)
    (o := POS_BEHIND_OPEN) (by decide) (by decide) (by decide)]
  have h1 : GET_LOWER program_lookbehind (Ptr.prog 6) = 1 := by decide
  have h2 : GET_UPPER program_lookbehind (Ptr.prog 6) = 1 := by decide
  have h3 : skipBranches program_lookbehind (program_lookbehind.length + 1)
      (next_ptr program_lookbehind ((OPERAND (Ptr.prog 6)).add LENGTH_SIZE)) = some (Ptr.prog 19) := by
    decide
  have h4 : next_ptr program_lookbehind (Ptr.prog 19) = Ptr.prog 22 := by decide
  simp only [case_BEHIND, h1, h2, h3, h4]
  rfl

end LookbehindNodes

section LookbehindNodes2

variable (T : List Nat) (n : Nat) (bip : Option Nat) (st : ExecuteContext)

theorem lookbehind_n13 : matchLoop program_lookbehind T (n + 1) (Ptr.prog 13) bip st
    = matchLoop program_lookbehind T n (Ptr.prog 16) bip st :=
  matchLoop_BRANCH_single program_lookbehind T n bip st (p := Ptr.prog 13) (d := Ptr.prog 19)
    (by decide) (by decide) (by decide)

theorem lookbehind_n16 : matchLoop program_lookbehind T (n + 1) (Ptr.prog 16) bip st
    = if safe_ctype isdigit (T.getD st.Reg_Input 0) && !AT_END_OF_STRING st st.Reg_Input then
        matchLoop program_lookbehind T n (Ptr.prog 19) bip { st with Reg_Input := st.Reg_Input + 1 }
      else MATCH_RETURN false bip st := by
  rw [matchLoop_char program_lookbehind T n bip st (p := Ptr.prog 16) (d := Ptr.prog 19)
    (o := DIGIT) (by decide) (by decide) (by decide)]
  simp [matchCharTest, IS_DELIM, NOT_DELIM, WORD_CHAR, NOT_WORD_CHAR, ANY, EVERY, DIGIT]

theorem lookbehind_n19 : matchLoop program_lookbehind T (n + 1) (Ptr.prog 19) bip st
    = MATCH_RETURN true bip st :=
  matchLoop_LOOK_CLOSE program_lookbehind T n bip st (p := Ptr.prog 19) (o := LOOK_BEHIND_CLOSE)
    (by decide) (by decide)

theorem lookbehind_n22 : matchLoop program_lookbehind T (n + 1) (Ptr.prog 22) bip st
    = if 112 ≠ T.getD st.Reg_Input 0 then MATCH_RETURN false bip st
      else if (match st.End_Of_String with
          | some e => decide (st.Reg_Input + 2 > e)
          | none => false) then MATCH_RETURN false bip st
      else if 2 > 1 ∧ !strncmpEq [112, 120] T st.Reg_Input then MATCH_RETURN false bip st
      else
        matchLoop program_lookbehind T n (Ptr.prog 28) bip
          { st with Reg_Input := st.Reg_Input + 2 } := by
  rw [matchLoop_EXACTLY program_lookbehind T n bip st (p := Ptr.prog 22) (d := Ptr.prog 28)
    (by decide) (by decide)]
  have h1 : GET_OP_CODE program_lookbehind (OPERAND (Ptr.prog 22)) = 112 := by decide
  have h2 : cstring program_lookbehind (OPERAND (Ptr.prog 22)) = [112, 120] := by decide
  simp only [case_EXACTLY, h1, h2]
  rfl

theorem lookbehind_n28 : matchLoop program_lookbehind T (n + 1) (Ptr.prog 28) bip st
    = MATCH_RETURN true bip (extentFW st) :=
  matchLoop_END program_lookbehind T n bip st (p := Ptr.prog 28) (by decide)
end LookbehindNodes2

theorem getD_lt_of_ne_zero {T : List Nat} {i c : Nat} (h : T.getD i 0 = c) (hc : c ≠ 0) :
    i < T.length := by
  by_contra hlt
  rw [List.getD_eq_default _ _ (by omega)] at h
  exact hc h.symm

set_option maxHeartbeats 1000000 in
/-- An attempt of `(?<=\d)px` at the position `p`. -/
theorem lookbehind_attempt (T : List Nat) (hT : ∀ c ∈ T, c < 256) (n p : Nat) (hp : p < T.length)
    (re : regexp) (st : ExecuteContext) (hprog : re.program = program_lookbehind)
    (hE : st.End_Of_String = some T.length) (hL : st.Look_Behind_To = 0)
    (hX : st.Recursion_Limit_Exceeded = false) :
    ∃ r' st', attempt T (n + 10) re p st = some (digitPxAt T p, r', st') ∧
      r'.program = re.program ∧ r'.anchor = re.anchor ∧ r'.match_start = re.match_start ∧
      st'.End_Of_String = some T.length ∧ st'.Look_Behind_To = 0 ∧
      st'.Recursion_Limit_Exceeded = false ∧
      (digitPxAt T p = true → r'.startp 0 = some p ∧ r'.endp 0 = some (p + 2)) := by
  have hfin : ∀ c, T.getD c 0 ≠ 0 → c < T.length := fun c hc => by
    by_contra hlt
    exact hc (List.getD_eq_default _ _ (by omega))
  rw [attempt, match_eq]
  by_cases h0 : p = 0
  · subst h0
    simp [hprog, REGEX_START_OFFSET, lookbehind_n3, lookbehind_n6, REGEX_RECURSION_LIMIT,
      lookBehindLoop, hE, hL, hX, match_eq, MATCH_RETURN, AT_END_OF_STRING, digitPxAt, extentFW]
    exact ⟨_, _, ⟨rfl, rfl⟩, by simp [arraySet]⟩
  · have hp1 : p - 1 + 1 = p := by omega
    have hp0 : 0 < p := by omega
    have hlt : T.getD (p - 1) 0 < 256 := by
      rw [List.getD_eq_getElem _ _ (by omega)]
      exact hT _ (List.getElem_mem _)
    have hsc := safe_ctype_of_lt isdigit hlt
    by_cases hd : isdigit (T.getD (p - 1) 0) = true
    · by_cases h112 : T.getD p 0 = 112
      · by_cases h120 : T.getD (p + 1) 0 = 120
        · have hlen : ¬ T.length < p + 2 := by
            have := hfin (p + 1) (by omega)
            omega
          rw [hd] at hsc
          simp only [List.getD_eq_getElem?_getD] at hsc hd h112 h120
          simp [hprog, REGEX_START_OFFSET, lookbehind_n3, lookbehind_n6, lookbehind_n13,
            lookbehind_n16, lookbehind_n19, lookbehind_n22, lookbehind_n28,
            REGEX_RECURSION_LIMIT, lookBehindLoop, hE, hL, hX, match_eq, MATCH_RETURN,
            AT_END_OF_STRING, h0, hp1, hp0, hd, hsc, digitPxAt, h112, h120, hlen, strncmpEq,
            extentFW]
          exact ⟨_, _, ⟨⟨by omega, rfl, rfl⟩, by simp [arraySet]⟩⟩
        · rw [hd] at hsc
          simp only [List.getD_eq_getElem?_getD] at hsc hd h112 h120
          simp [hprog, REGEX_START_OFFSET, lookbehind_n3, lookbehind_n6, lookbehind_n13,
            lookbehind_n16, lookbehind_n19, lookbehind_n22, lookbehind_n28,
            REGEX_RECURSION_LIMIT, lookBehindLoop, hE, hL, hX, match_eq, MATCH_RETURN,
            AT_END_OF_STRING, h0, hp1, hp0, hd, hsc, digitPxAt, h112, h120, strncmpEq,
            extentFW]
          exact ⟨_, _, ⟨rfl, rfl⟩, by simp [arraySet]⟩
      · rw [hd] at hsc
        simp only [List.getD_eq_getElem?_getD] at hsc hd h112
        simp [hprog, REGEX_START_OFFSET, lookbehind_n3, lookbehind_n6, lookbehind_n13,
            lookbehind_n16, lookbehind_n19, lookbehind_n22, lookbehind_n28,
            REGEX_RECURSION_LIMIT, lookBehindLoop, hE, hL, hX, match_eq, MATCH_RETURN,
            AT_END_OF_STRING, h0, hp1, hp0, hd, hsc, digitPxAt, h112, strncmpEq,
            extentFW]
        exact ⟨_, _, ⟨rfl, rfl⟩, by simp [arraySet]⟩
    · rw [Bool.not_eq_true] at hd
      rw [hd] at hsc
      simp only [List.getD_eq_getElem?_getD] at hsc hd
      simp [hprog, REGEX_START_OFFSET, lookbehind_n3, lookbehind_n6, lookbehind_n13,
            lookbehind_n16, lookbehind_n19, lookbehind_n22, lookbehind_n28,
            REGEX_RECURSION_LIMIT, lookBehindLoop, hE, hL, hX, match_eq, MATCH_RETURN,
            AT_END_OF_STRING, h0, hp1, hp0, hd, hsc, digitPxAt, strncmpEq,
            extentFW]
      exact ⟨_, _, ⟨rfl, rfl⟩, by simp [arraySet]⟩

theorem digitPxAt_lt {T : List Nat} {p : Nat} (h : digitPxAt T p = true) : p < T.length := by
  simp only [digitPxAt, Bool.and_eq_true, decide_eq_true_eq] at h
  by_contra hlt
  have := List.getD_eq_default T 0 (Nat.le_of_not_lt hlt)
  omega

/-- C9: for every text `T` of bytes, executing the compiled pattern `(?<=\d)px` on `T`
from offset 0 (with any fuel from 10 on, any default delimiter table and any earlier
state of the global context) finds a match if and only if some position of `T` holds
`"px"` immediately preceded by a decimal digit; the match reported is then the `"px"` of
the leftmost such position, without the digit. -/
theorem lookbehind_digit_px :
    ∃ re, CompileRE (strBytes "(?<=\\d)px") 0 = Except.ok re ∧
      ∀ (T : List Nat), (∀ c ∈ T, c < 256) →
      ∀ (fuel : Nat), 10 ≤ fuel → ∀ (Default_Delimiters : Nat) (st0 : ExecuteContext),
        ∃ r st, execute T fuel Default_Delimiters re st0 0
            = some (decide (∃ p, p < T.length ∧ digitPxAt T p = true), r, st) ∧
          ∀ p, digitPxAt T p = true → (∀ q, q < p → digitPxAt T q = false) →
            r.startp 0 = some p ∧ r.endp 0 = some (p + 2) := by
  obtain ⟨re, hre, hp, hms, han⟩ := compiled_ok compiled_lookbehind
  refine ⟨re, hre, ?_⟩
  intro T hT fuel hf dd st0
  obtain ⟨n, rfl⟩ : ∃ n, fuel = n + 10 := ⟨fuel - 10, by omega⟩
  have hmagic : re.program.getD 0 0 = MAGIC := by rw [hp]; decide
  have hsearch := searchForward_general T (n + 10) T.length
    (fun prog st => prog.program = program_lookbehind ∧ st.End_Of_String = some T.length ∧
      st.Look_Behind_To = 0 ∧ st.Recursion_Limit_Exceeded = false)
    (digitPxAt T)
    (fun p prog st => st.Recursion_Limit_Exceeded = false ∧ prog.startp 0 = some p ∧
      prog.endp 0 = some (p + 2))
    (fun prog st h => ⟨h.2.1, h.2.2.2⟩)
    (by
      intro p hpl prog st ⟨h1, h2, h3, h4⟩
      obtain ⟨r', st', ha, hb1, _, _, hb4, hb5, hb6, hb7⟩ :=
        lookbehind_attempt T hT n p hpl prog st h1 h2 h3 h4
      exact ⟨r', st', ha, fun _ => ⟨hb1.trans h1, hb4, hb5, hb6⟩, fun hg => ⟨hb6, hb7 hg⟩⟩)
    (T.length + 2) 0 (execRegexp re 0)
    (execContext dd re st0 0 (some T.length) 0 0 none (some 0) (some T.length))
    ⟨by simp [execRegexp, hp], by simp [execContext], by simp [execContext],
      by simp [execContext]⟩
    (Nat.zero_le _) (by omega)
  have h21 : ¬ ((2 : Nat) = 1) := by decide
  have h20 : ¬ ((2 : Nat) = 0) := by decide
  simp only [execute, execute_range, ExecRE, hmagic, han, hms, ne_eq, not_true_eq_false,
    if_false, if_true, Bool.not_false, one_ne_zero, not_false_eq_true, and_false, reduceCtorEq,
    h21, h20]
  rcases hsearch with ⟨p, prog', st', _, hpl, hg, hleast, hs, hX, hsp, hep⟩ |
    ⟨hall, prog', st', hs, _, hE, _, hX⟩
  · have hex : ∃ p, p < T.length ∧ digitPxAt T p = true := ⟨p, hpl, hg⟩
    simp only [hs, hX, hex, decide_True, Bool.false_eq_true, if_false]
    refine ⟨prog', st', rfl, ?_⟩
    intro p' hg' hleast'
    have : p' = p := by
      rcases Nat.lt_trichotomy p' p with h | h | h
      · have := hleast p' (Nat.zero_le _) h
        rw [hg'] at this; cases this
      · exact h
      · have := hleast' p h
        rw [hg] at this; cases this
    subst this
    exact ⟨hsp, hep⟩
  · have hex : ¬ ∃ p, p < T.length ∧ digitPxAt T p = true := by
      rintro ⟨p, hpl, hg⟩
      have := hall p (Nat.zero_le _) hpl
      rw [hg] at this; cases this
    simp only [hs, hX, hex, decide_False, Bool.false_eq_true, if_false, AT_END_OF_STRING, hE,
      ge_iff_le, le_refl, decide_True, not_true_eq_false, and_false, Bool.not_false, and_true,
      true_and]
    refine ⟨prog', st', rfl, ?_⟩
    intro p hg _
    exact absurd ⟨p, digitPxAt_lt hg, hg⟩ hex

/-- C9, at the two texts of the scenario: `"3px"` matches at offsets 1 to 3, `"apx"` does
not match. -/
theorem lookbehind_digit_px_witness :
    ∃ re, CompileRE (strBytes "(?<=\\d)px") 0 = Except.ok re ∧
      (∃ r st, execute (strBytes "3px") 10 0 re initialContext 0 = some (true, r, st) ∧
        r.startp 0 = some 1 ∧ r.endp 0 = some 3) ∧
      (∃ r st, execute (strBytes "apx") 10 0 re initialContext 0 = some (false, r, st)) := by
  obtain ⟨re, hre, h⟩ := lookbehind_digit_px
  refine ⟨re, hre, ?_, ?_⟩
  · obtain ⟨r, st, h1, h2⟩ := h (strBytes "3px") (by decide) 10 (by decide) 0 initialContext
    exact ⟨r, st, h1, h2 1 (by decide) (by decide)⟩
  · obtain ⟨r, st, h1, _⟩ := h (strBytes "apx") (by decide) 10 (by decide) 0 initialContext
    exact ⟨r, st, h1⟩

theorem compiled_backref :
    compiled (strBytes "(foo)\\1") 0 = Except.ok (program_backref, 0, 0) := by decide!

theorem strncmpEq_eq_occursAt (T : List Nat) :
    ∀ (w : List Nat) (p : Nat), (∀ c ∈ w, c ≠ 0) → strncmpEq w T p = occursAt w T p := by
  intro w
  induction w with
  | nil => intro p _; simp [strncmpEq, occursAt]
  | cons c w ih =>
    intro p hw
    have hc : c ≠ 0 := hw c (List.mem_cons_self _ _)
    rw [strncmpEq, ih (p + 1) (fun d hd => hw d (List.mem_cons_of_mem _ hd))]
    simp only [occursAt, List.length_cons]
    rw [← Bool.decide_and]
    apply decide_eq_decide.mpr
    by_cases hp : p < T.length
    · have hg : T.getD p 0 = T[p] := List.getD_eq_getElem _ _ hp
      rw [hg, List.drop_eq_getElem_cons hp, List.take_succ_cons]
      simp
    · have h1 : T.drop p = [] := List.drop_eq_nil_of_le (by omega)
      have h2 : T.drop (p + 1) = [] := List.drop_eq_nil_of_le (by omega)
      rw [List.getD_eq_default _ _ (by omega), h1, h2]
      simp [Ne.symm hc]

section BackrefNodes
variable (T : List Nat) (n : Nat) (bip : Option Nat) (st : ExecuteContext)

theorem backref_n3 : matchLoop program_backref T (n + 1) (Ptr.prog 3) bip st
    = matchLoop program_backref T n (Ptr.prog 6) bip st :=
  matchLoop_BRANCH_single program_backref T n bip st (p := Ptr.prog 3) (d := Ptr.prog 26)
    (by decide) (by decide) (by decide)

theorem backref_n6 : matchLoop program_backref T (n + 1) (Ptr.prog 6) bip st
    = case_OPEN (fun q s => match_ program_backref T n q none s) 1 (Ptr.prog 9) bip st :=
  matchLoop_OPEN program_backref T n bip st 1 (by decide) (by decide) (by decide)

theorem backref_n9 : matchLoop program_backref T (n + 1) (Ptr.prog 9) bip st
    = matchLoop program_backref T n (Ptr.prog 12) bip st :=
  matchLoop_BRANCH_single program_backref T n bip st (p := Ptr.prog 9) (d := Ptr.prog 19)
    (by decide) (by decide) (by decide)

theorem backref_n12 : matchLoop program_backref T (n + 1) (Ptr.prog 12) bip st
    = if 102 ≠ T.getD st.Reg_Input 0 then MATCH_RETURN false bip st
      else if (match st.End_Of_String with
          | some e => decide (st.Reg_Input + 3 > e)
          | none => false) then MATCH_RETURN false bip st
      else if 3 > 1 ∧ !strncmpEq [102, 111, 111] T st.Reg_Input then MATCH_RETURN false bip st
      else
        matchLoop program_backref T n (Ptr.prog 19) bip
          { st with Reg_Input := st.Reg_Input + 3 } := by
  rw [matchLoop_EXACTLY program_backref T n bip st (p := Ptr.prog 12) (d := Ptr.prog 19)
    (by decide) (by decide)]
  have h1 : GET_OP_CODE program_backref (OPERAND (Ptr.prog 12)) = 102 := by decide
  have h2 : cstring program_backref (OPERAND (Ptr.prog 12)) = [102, 111, 111] := by decide
  simp only [case_EXACTLY, h1, h2]
  rfl

theorem backref_n19 : matchLoop program_backref T (n + 1) (Ptr.prog 19) bip st
    = case_CLOSE (fun q s => match_ program_backref T n q none s) 1 (Ptr.prog 22) bip st :=
  matchLoop_CLOSE program_backref T n bip st 1 (by decide) (by decide) (by decide)

theorem backref_n22 : matchLoop program_backref T (n + 1) (Ptr.prog 22) bip st
    = match st.Back_Ref_Start 1, st.Back_Ref_End 1 with
      | some captured, some finish =>
        if captured > finish then MATCH_RETURN false bip st
        else
          match backRefLoop T false (finish - captured) captured st with
          | (false, st1) => MATCH_RETURN false bip st1
          | (true, st1) => matchLoop program_backref T n (Ptr.prog 26) bip st1
      | _, _ => MATCH_RETURN false bip st := by
  rw [matchLoop_BACK_REF program_backref T n bip st (p := Ptr.prog 22) (d := Ptr.prog 26)
    rfl (Or.inl (by decide)) (by decide)]
  have h1 : GET_OP_CODE program_backref (OPERAND (Ptr.prog 22)) = 1 := by decide
  have h2 : GET_OP_CODE program_backref (Ptr.prog 22) = BACK_REF := by decide
  simp only [case_BACK_REF, h1, h2]
  rfl

theorem backref_n26 : matchLoop program_backref T (n + 1) (Ptr.prog 26) bip st
    = MATCH_RETURN true bip (extentFW st) :=
  matchLoop_END program_backref T n bip st (by decide)

end BackrefNodes

set_option maxHeartbeats 1000000 in
/-- An attempt of `(foo)\1` at the position `p`. -/
theorem backref_attempt (T : List Nat) (n p : Nat)
    (re : regexp) (st : ExecuteContext) (hprog : re.program = program_backref)
    (hE : st.End_Of_String = some T.length) (hX : st.Recursion_Limit_Exceeded = false)
    (hTP : st.Total_Paren = 1) :
    ∃ r' st', attempt T (n + 10) re p st
        = some (occursAt (strBytes "foofoo") T p, r', st') ∧
      r'.program = re.program ∧ st'.End_Of_String = some T.length ∧
      st'.Recursion_Limit_Exceeded = false ∧ st'.Total_Paren = 1 ∧
      (occursAt (strBytes "foofoo") T p = true →
        r'.startp 0 = some p ∧ r'.endp 0 = some (p + 6) ∧
        r'.startp 1 = some p ∧ r'.endp 1 = some (p + 3)) := by
  have hfin : ∀ c, T.getD c 0 ≠ 0 → c < T.length := fun c hc => by
    by_contra hlt
    exact hc (List.getD_eq_default _ _ (by omega))
  have hw : strBytes "foofoo" = [102, 111, 111, 102, 111, 111] := by decide
  rw [hw, ← strncmpEq_eq_occursAt T _ p (by decide)]
  rw [attempt, match_eq]
  simp [hprog, REGEX_START_OFFSET, backref_n3, backref_n6, backref_n9, backref_n12, backref_n19,
    backref_n22, backref_n26, case_OPEN, case_CLOSE, REGEX_RECURSION_LIMIT, hE, hX, match_eq,
    MATCH_RETURN, AT_END_OF_STRING, strncmpEq, extentFW, backRefLoop, arraySet, Nat.add_assoc,
    hTP, fill_n]
  by_cases c0 : T.getD p 0 = 102
  swap
  · simp only [List.getD_eq_getElem?_getD] at c0
    simp [c0, Ne.symm c0]
    exact ⟨_, _, ⟨rfl, rfl⟩, by simp [hTP, fill_n]⟩
  by_cases c1 : T.getD (p + 1) 0 = 111
  swap
  · simp only [List.getD_eq_getElem?_getD] at c0 c1
    simp [c0, c1]
    exact ⟨_, _, ⟨rfl, rfl⟩, by simp [hTP, fill_n]⟩
  by_cases c2 : T.getD (p + 2) 0 = 111
  swap
  · simp only [List.getD_eq_getElem?_getD] at c0 c1 c2
    simp [c0, c1, c2]
    exact ⟨_, _, ⟨rfl, rfl⟩, by simp [hTP, fill_n]⟩
  have hl2 : ¬ T.length < p + 3 := by
    have := hfin (p + 2) (by omega)
    omega
  by_cases c3 : T.getD (p + 3) 0 = 102
  swap
  · simp only [List.getD_eq_getElem?_getD] at c0 c1 c2 c3
    simp [c0, c1, c2, c3, hl2, Ne.symm c3]
    split_ifs <;> simp <;> exact ⟨_, _, ⟨rfl, rfl⟩, by simp [hTP, fill_n]⟩
  have hl3 : ¬ T.length ≤ p + 3 := by
    have := hfin (p + 3) (by omega)
    omega
  by_cases c4 : T.getD (p + 4) 0 = 111
  swap
  · simp only [List.getD_eq_getElem?_getD] at c0 c1 c2 c3 c4
    simp [c0, c1, c2, c3, c4, hl2, hl3, Ne.symm c4]
    split_ifs <;> simp <;> exact ⟨_, _, ⟨rfl, rfl⟩, by simp [hTP, fill_n]⟩
  have hl4 : ¬ T.length ≤ p + 4 := by
    have := hfin (p + 4) (by omega)
    omega
  by_cases c5 : T.getD (p + 5) 0 = 111
  swap
  · simp only [List.getD_eq_getElem?_getD] at c0 c1 c2 c3 c4 c5
    simp [c0, c1, c2, c3, c4, c5, hl2, hl3, hl4, Ne.symm c5]
    split_ifs <;> simp <;> exact ⟨_, _, ⟨rfl, rfl⟩, by simp [hTP, fill_n]⟩
  have hl5 : ¬ T.length ≤ p + 5 := by
    have := hfin (p + 5) (by omega)
    omega
  simp only [List.getD_eq_getElem?_getD] at c0 c1 c2 c3 c4 c5
  simp [c0, c1, c2, c3, c4, c5, hl2, hl3, hl4, hl5]
  exact ⟨_, _, ⟨rfl, rfl⟩, by simp [arraySet, hTP, fill_n]⟩

theorem occursAt_lt {w T : List Nat} {p : Nat} (hw : w ≠ []) (h : occursAt w T p = true) :
    p < T.length := by
  simp only [occursAt, decide_eq_true_eq] at h
  by_contra hlt
  rw [List.drop_eq_nil_of_le (Nat.le_of_not_lt hlt), List.take_nil] at h
  exact hw h.symm

/-- C8: for every text `T`, executing the compiled pattern `(foo)\1` on `T` from offset 0
(with any fuel from 10 on, any default delimiter table and any earlier state of the
global context) finds a match if and only if `"foofoo"` stands at some position of `T`;
the match reported is then the leftmost such occurrence, and group 1 is its first
`"foo"`. -/
theorem backref_foofoo :
    ∃ re, CompileRE (strBytes "(foo)\\1") 0 = Except.ok re ∧
      ∀ (T : List Nat) (fuel : Nat), 10 ≤ fuel →
      ∀ (Default_Delimiters : Nat) (st0 : ExecuteContext),
        ∃ r st, execute T fuel Default_Delimiters re st0 0
            = some (decide (∃ p, p < T.length ∧ occursAt (strBytes "foofoo") T p = true),
                r, st) ∧
          ∀ p, occursAt (strBytes "foofoo") T p = true →
            (∀ q, q < p → occursAt (strBytes "foofoo") T q = false) →
            r.startp 0 = some p ∧ r.endp 0 = some (p + 6) ∧
            r.startp 1 = some p ∧ r.endp 1 = some (p + 3) := by
  obtain ⟨re, hre, hp, hms, han⟩ := compiled_ok compiled_backref
  refine ⟨re, hre, ?_⟩
  intro T fuel hf dd st0
  obtain ⟨n, rfl⟩ : ∃ n, fuel = n + 10 := ⟨fuel - 10, by omega⟩
  have hmagic : re.program.getD 0 0 = MAGIC := by rw [hp]; decide
  have hsearch := searchForward_general T (n + 10) T.length
    (fun prog st => prog.program = program_backref ∧ st.End_Of_String = some T.length ∧
      st.Recursion_Limit_Exceeded = false ∧ st.Total_Paren = 1)
    (occursAt (strBytes "foofoo") T)
    (fun p prog st => st.Recursion_Limit_Exceeded = false ∧ prog.startp 0 = some p ∧
      prog.endp 0 = some (p + 6) ∧ prog.startp 1 = some p ∧ prog.endp 1 = some (p + 3))
    (fun prog st h => ⟨h.2.1, h.2.2.1⟩)
    (by
      intro p hpl prog st ⟨h1, h2, h3, h4⟩
      obtain ⟨r', st', ha, hb1, hb2, hb3, hb4, hb5⟩ :=
        backref_attempt T n p prog st h1 h2 h3 h4
      exact ⟨r', st', ha, fun _ => ⟨hb1.trans h1, hb2, hb3, hb4⟩, fun hg => ⟨hb3, hb5 hg⟩⟩)
    (T.length + 2) 0 (execRegexp re 0)
    (execContext dd re st0 0 (some T.length) 0 0 none (some 0) (some T.length))
    ⟨by simp [execRegexp, hp], by simp [execContext], by simp [execContext],
      by simp [execContext, hp, program_backref]⟩
    (Nat.zero_le _) (by omega)
  have h21 : ¬ ((2 : Nat) = 1) := by decide
  have h20 : ¬ ((2 : Nat) = 0) := by decide
  simp only [execute, execute_range, ExecRE, hmagic, han, hms, ne_eq, not_true_eq_false,
    if_false, if_true, Bool.not_false, one_ne_zero, not_false_eq_true, and_false, reduceCtorEq,
    h21, h20]
  rcases hsearch with ⟨p, prog', st', _, hpl, hg, hleast, hs, hX, hcap⟩ |
    ⟨hall, prog', st', hs, _, hE, hX, _⟩
  · have hex : ∃ p, p < T.length ∧ occursAt (strBytes "foofoo") T p = true := ⟨p, hpl, hg⟩
    simp only [hs, hX, hex, decide_True, Bool.false_eq_true, if_false]
    refine ⟨prog', st', rfl, ?_⟩
    intro p' hg' hleast'
    have : p' = p := by
      rcases Nat.lt_trichotomy p' p with h | h | h
      · have := hleast p' (Nat.zero_le _) h
        rw [hg'] at this; cases this
      · exact h
      · have := hleast' p h
        rw [hg] at this; cases this
    subst this
    exact hcap
  · have hex : ¬ ∃ p, p < T.length ∧ occursAt (strBytes "foofoo") T p = true := by
      rintro ⟨p, hpl, hg⟩
      have := hall p (Nat.zero_le _) hpl
      rw [hg] at this; cases this
    simp only [hs, hX, hex, decide_False, Bool.false_eq_true, if_false, AT_END_OF_STRING, hE,
      ge_iff_le, le_refl, decide_True, not_true_eq_false, and_false, Bool.not_false, and_true,
      true_and]
    refine ⟨prog', st', rfl, ?_⟩
    intro p hg _
    exact absurd ⟨p, occursAt_lt (by decide) hg, hg⟩ hex

/-- C8, at the two texts of the scenario: `"foofoo"` matches in full with group 1 the
first `"foo"`, `"foobar"` does not match. -/
theorem backref_foofoo_witness :
    ∃ re, CompileRE (strBytes "(foo)\\1") 0 = Except.ok re ∧
      (∃ r st, execute (strBytes "foofoo") 10 0 re initialContext 0 = some (true, r, st) ∧
        r.startp 0 = some 0 ∧ r.endp 0 = some 6 ∧ r.startp 1 = some 0 ∧ r.endp 1 = some 3) ∧
      (∃ r st, execute (strBytes "foobar") 10 0 re initialContext 0 = some (false, r, st)) := by
  obtain ⟨re, hre, h⟩ := backref_foofoo
  refine ⟨re, hre, ?_, ?_⟩
  · obtain ⟨r, st, h1, h2⟩ := h (strBytes "foofoo") 10 (by decide) 0 initialContext
    exact ⟨r, st, h1, h2 0 (by decide) (by intro q hq; omega)⟩
  · obtain ⟨r, st, h1, _⟩ := h (strBytes "foobar") 10 (by decide) 0 initialContext
    exact ⟨r, st, h1⟩

theorem capturedText_lt {text : List Nat} (h : ∀ c ∈ text, c < 256) (s e : Nat) :
    ∀ c ∈ capturedText text s e, c < 256 := fun c hc =>
  h c (List.mem_of_mem_drop (List.mem_of_mem_take hc))

theorem applyCase_bytes {l : List Nat} (h : ∀ c ∈ l, c < 256) :
    applyCase 85 l = l.map toupper ∧ applyCase 76 l = l.map tolower ∧
      applyCase 117 l = l.modifyHead toupper ∧ applyCase 108 l = l.modifyHead tolower := by
  have hm : ∀ F : Nat → Nat, l.map (fun ch => safe_ctype F ch) = l.map F := fun F =>
    List.map_congr_left fun c hc => safe_ctype_of_lt F (h c hc)
  refine ⟨?_, ?_, ?_, ?_⟩
  · simp [applyCase, hm]
  · simp [applyCase, hm]
  · cases l with
    | nil => rfl
    | cons c r => simp [applyCase, List.modifyHead, safe_ctype_of_lt _ (h c (List.mem_cons_self _ _))]
  · cases l with
    | nil => rfl
    | cons c r => simp [applyCase, List.modifyHead, safe_ctype_of_lt _ (h c (List.mem_cons_self _ _))]

/-- C10: let a match on the text `text` (of bytes) have left group `N` (the whole match
for `N = 0`) on the span `[s, e)`, and let `ref` be the reference to it in a template,
`&` for `N = 0` and `\N` for `N` from 1 to 9.  Then `SubstituteRE` appends for the
template `\U ref` the captured text with every character upper-cased, for `\L ref` with
every character lower-cased, for `\u ref` with its first character upper-cased and for
`\l ref` with its first character lower-cased. -/
theorem substitute_case_directives (prog : regexp) (text dest ref : List Nat) (N s e : Nat)
    (hmagic : prog.program.getD 0 0 = MAGIC) (htext : ∀ c ∈ text, c < 256)
    (href : (N = 0 ∧ ref = strBytes "&") ∨ (1 ≤ N ∧ N ≤ 9 ∧ ref = [92, 48 + N]))
    (hs : prog.startp N = some s) (he : prog.endp N = some e) :
    SubstituteRE prog text (strBytes "\\U" ++ ref) dest
        = Except.ok (true, dest ++ (capturedText text s e).map toupper) ∧
      SubstituteRE prog text (strBytes "\\L" ++ ref) dest
        = Except.ok (true, dest ++ (capturedText text s e).map tolower) ∧
      SubstituteRE prog text (strBytes "\\u" ++ ref) dest
        = Except.ok (true, dest ++ (capturedText text s e).modifyHead toupper) ∧
      SubstituteRE prog text (strBytes "\\l" ++ ref) dest
        = Except.ok (true, dest ++ (capturedText text s e).modifyHead tolower) := by
  obtain ⟨hU, hL, hu, hl⟩ := applyCase_bytes (capturedText_lt htext s e)
  simp only [List.getD_eq_getElem?_getD] at hmagic
  rcases href with ⟨h0, rfl⟩ | ⟨h1, h9, rfl⟩
  · subst h0
    simp [SubstituteRE, hmagic, substituteLoop, hs, he, literal_escape,
      valid_escape, strBytes, hU, hL, hu, hl]
  · interval_cases N <;>
      simp [SubstituteRE, hmagic, substituteLoop, hs, he, literal_escape,
        valid_escape, strBytes, hU, hL, hu, hl]

theorem executed_email :
    compileAndExecute 100 (strBytes "(\\w+)@(\\w+)") 0 (strBytes "user@host")
      = some (true, program_email,
          [(some 0, some 9), (some 0, some 4), (some 5, some 9), (some 0, some 0),
            (some 0, some 0), (some 0, some 0), (some 0, some 0), (some 0, some 0),
            (some 0, some 0), (none, none)]) := by decide!

/-- C10, at the match of `(\w+)@(\w+)` on `"user@host"`: the template `\U\1` gives
`"USER"`, and the template `\U\1\L@\2` of the scenario gives `"USER@host"`. -/
theorem substitute_case_directives_witness :
    ∃ re r st, CompileRE (strBytes "(\\w+)@(\\w+)") 0 = Except.ok re ∧
      execute (strBytes "user@host") 100 0 re initialContext 0 = some (true, r, st) ∧
      SubstituteRE r (strBytes "user@host") (strBytes "\\U\\1") []
        = Except.ok (true, strBytes "USER") ∧
      SubstituteRE r (strBytes "user@host") (strBytes "\\U\\1\\L@\\2") []
        = Except.ok (true, strBytes "USER@host") := by
  obtain ⟨re, r, st, hc, hx, hprog, hspans⟩ := compileAndExecute_ok executed_email
  refine ⟨re, r, st, hc, hx, ?_⟩
  simp [spans, List.range, List.range.loop] at hspans
  obtain ⟨-, ⟨hs1, he1⟩, ⟨hs2, he2⟩, -⟩ := hspans
  have hmagic : r.program.getD 0 0 = MAGIC := by rw [hprog]; decide
  refine ⟨?_, ?_⟩
  · exact (substitute_case_directives r (strBytes "user@host") [] [92, 48 + 1] 1 0 4 hmagic
      (by decide) (Or.inr ⟨by decide, by decide, rfl⟩) hs1 he1).1
  · simp only [List.getD_eq_getElem?_getD] at hmagic
    simp [SubstituteRE, hmagic, substituteLoop, hs1, he1, hs2, he2, applyCase, safe_ctype,
      literal_escape, valid_escape, strBytes, capturedText, toupper, tolower, islower, isupper]

theorem compiled_alt_plus :
    compiled (strBytes "a(b|c)+d") 0 = Except.ok (program_alt_plus, 97, 0) := by decide!

section AltPlusNodes
variable (T : List Nat) (n : Nat) (bip : Option Nat) (st : ExecuteContext)

theorem alt_plus_n3 : matchLoop program_alt_plus T (n + 1) (Ptr.prog 3) bip st
    = matchLoop program_alt_plus T n (Ptr.prog 6) bip st :=
  matchLoop_BRANCH_single program_alt_plus T n bip st (p := Ptr.prog 3) (d := Ptr.prog 50)
    (by decide) (by decide) (by decide)

/-- The form of an `EXACTLY` node of one character `c`. -/
theorem alt_plus_exactly (p d : Ptr) (c : Nat)
    (hop : GET_OP_CODE program_alt_plus p = EXACTLY) (hnext : NEXT_PTR program_alt_plus p = d)
    (h1 : GET_OP_CODE program_alt_plus (OPERAND p) = c)
    (h2 : cstring program_alt_plus (OPERAND p) = [c]) :
    matchLoop program_alt_plus T (n + 1) p bip st
    = if c ≠ T.getD st.Reg_Input 0 then MATCH_RETURN false bip st
      else if (match st.End_Of_String with
          | some e => decide (st.Reg_Input + 1 > e)
          | none => false) then MATCH_RETURN false bip st
      else
        matchLoop program_alt_plus T n d bip { st with Reg_Input := st.Reg_Input + 1 } := by
  rw [matchLoop_EXACTLY program_alt_plus T n bip st hop hnext]
  simp only [case_EXACTLY, h1, h2]
  rfl

theorem alt_plus_n6 : matchLoop program_alt_plus T (n + 1) (Ptr.prog 6) bip st
    = if 97 ≠ T.getD st.Reg_Input 0 then MATCH_RETURN false bip st
      else if (match st.End_Of_String with
          | some e => decide (st.Reg_Input + 1 > e)
          | none => false) then MATCH_RETURN false bip st
      else
        matchLoop program_alt_plus T n (Ptr.prog 11) bip
          { st with Reg_Input := st.Reg_Input + 1 } :=
  alt_plus_exactly T n bip st (Ptr.prog 6) (Ptr.prog 11) 97 (by decide) (by decide) (by decide)
    (by decide)

theorem alt_plus_n11 : matchLoop program_alt_plus T (n + 1) (Ptr.prog 11) bip st
    = case_OPEN (fun q s => match_ program_alt_plus T n q none s) 1 (Ptr.prog 14) bip st :=
  matchLoop_OPEN program_alt_plus T n bip st 1 (by decide) (by decide) (by decide)

theorem alt_plus_n14 : matchLoop program_alt_plus T (n + 1) (Ptr.prog 14) bip st
    = branchLoop program_alt_plus (fun q s => match_ program_alt_plus T n q none s) (n + 1)
        (Ptr.prog 14) 0 bip st :=
  matchLoop_BRANCH_choice program_alt_plus T n bip st (p := Ptr.prog 14) (d := Ptr.prog 22)
    (by decide) (by decide) (by decide)

theorem alt_plus_n17 : matchLoop program_alt_plus T (n + 1) (Ptr.prog 17) bip st
    = if 98 ≠ T.getD st.Reg_Input 0 then MATCH_RETURN false bip st
      else if (match st.End_Of_String with
          | some e => decide (st.Reg_Input + 1 > e)
          | none => false) then MATCH_RETURN false bip st
      else
        matchLoop program_alt_plus T n (Ptr.prog 30) bip
          { st with Reg_Input := st.Reg_Input + 1 } :=
  alt_plus_exactly T n bip st (Ptr.prog 17) (Ptr.prog 30) 98 (by decide) (by decide) (by decide)
    (by decide)

theorem alt_plus_n25 : matchLoop program_alt_plus T (n + 1) (Ptr.prog 25) bip st
    = if 99 ≠ T.getD st.Reg_Input 0 then MATCH_RETURN false bip st
      else if (match st.End_Of_String with
          | some e => decide (st.Reg_Input + 1 > e)
          | none => false) then MATCH_RETURN false bip st
      else
        matchLoop program_alt_plus T n (Ptr.prog 30) bip
          { st with Reg_Input := st.Reg_Input + 1 } :=
  alt_plus_exactly T n bip st (Ptr.prog 25) (Ptr.prog 30) 99 (by decide) (by decide) (by decide)
    (by decide)

theorem alt_plus_n30 : matchLoop program_alt_plus T (n + 1) (Ptr.prog 30) bip st
    = case_CLOSE (fun q s => match_ program_alt_plus T n q none s) 1 (Ptr.prog 33) bip st :=
  matchLoop_CLOSE program_alt_plus T n bip st 1 (by decide) (by decide) (by decide)

theorem alt_plus_n33 : matchLoop program_alt_plus T (n + 1) (Ptr.prog 33) bip st
    = branchLoop program_alt_plus (fun q s => match_ program_alt_plus T n q none s) (n + 1)
        (Ptr.prog 33) 0 bip st :=
  matchLoop_BRANCH_choice program_alt_plus T n bip st (p := Ptr.prog 33) (d := Ptr.prog 39)
    (by decide) (by decide) (by decide)

theorem alt_plus_n36 : matchLoop program_alt_plus T (n + 1) (Ptr.prog 36) bip st
    = matchLoop program_alt_plus T n (Ptr.prog 11) bip st :=
  matchLoop_NOTHING program_alt_plus T n bip st (p := Ptr.prog 36) (d := Ptr.prog 11)
    (Or.inr (by decide)) (by decide)

theorem alt_plus_n42 : matchLoop program_alt_plus T (n + 1) (Ptr.prog 42) bip st
    = matchLoop program_alt_plus T n (Ptr.prog 45) bip st :=
  matchLoop_NOTHING program_alt_plus T n bip st (p := Ptr.prog 42) (d := Ptr.prog 45)
    (Or.inl (by decide)) (by decide)

theorem alt_plus_n45 : matchLoop program_alt_plus T (n + 1) (Ptr.prog 45) bip st
    = if 100 ≠ T.getD st.Reg_Input 0 then MATCH_RETURN false bip st
      else if (match st.End_Of_String with
          | some e => decide (st.Reg_Input + 1 > e)
          | none => false) then MATCH_RETURN false bip st
      else
        matchLoop program_alt_plus T n (Ptr.prog 50) bip
          { st with Reg_Input := st.Reg_Input + 1 } :=
  alt_plus_exactly T n bip st (Ptr.prog 45) (Ptr.prog 50) 100 (by decide) (by decide)
    (by decide) (by decide)

theorem alt_plus_n50 : matchLoop program_alt_plus T (n + 1) (Ptr.prog 50) bip st
    = MATCH_RETURN true bip (extentFW st) :=
  matchLoop_END program_alt_plus T n bip st (p := Ptr.prog 50) (by decide)

end AltPlusNodes
set_option maxHeartbeats 4000000 in
/-- The loop of `a(b|c)+d` entered at its group with the characters `c :: w` of the
repetition and then `d` ahead: the match succeeds, and the group is left on the last
character. -/
theorem alt_plus_loop (T : List Nat) (L : Nat) :
    ∀ (w : List Nat), (∀ x ∈ w, x = 98 ∨ x = 99) → ∀ (c : Nat), (c = 98 ∨ c = 99) →
    ∀ (n : Nat) (bip : Option Nat) (st : ExecuteContext) (r : MatchResult),
      matchLoop program_alt_plus T (n + 6 * w.length + 14) (Ptr.prog 11) bip st = r →
      T.getD st.Reg_Input 0 = c →
      (∀ j, j < w.length → T.getD (st.Reg_Input + 1 + j) 0 = w.getD j 0) →
      T.getD (st.Reg_Input + 1 + w.length) 0 = 100 →
      st.End_Of_String = some L → st.Reg_Input + w.length + 2 ≤ L →
      st.Recursion_Limit_Exceeded = false →
      st.Recursion_Count + 4 * w.length + 6 ≤ REGEX_RECURSION_LIMIT →
      st.Start_Ptr_Ptr 1 = none → st.End_Ptr_Ptr 1 = none →
      ∃ st', r = some (true, bip, st') ∧ st'.Reg_Input = st.Reg_Input + w.length + 2 ∧
        st'.Start_Ptr_Ptr 1 = some (st.Reg_Input + w.length) ∧
        st'.End_Ptr_Ptr 1 = some (st.Reg_Input + w.length + 1) ∧
        st'.Recursion_Limit_Exceeded = false := by
  have e1 : NEXT_PTR program_alt_plus (Ptr.prog 14) = Ptr.prog 22 := by decide
  have e2 : NEXT_PTR program_alt_plus (Ptr.prog 22) = Ptr.prog 30 := by decide
  have e3 : NEXT_PTR program_alt_plus (Ptr.prog 33) = Ptr.prog 39 := by decide
  have e4 : NEXT_PTR program_alt_plus (Ptr.prog 39) = Ptr.prog 42 := by decide
  have e5 : GET_OP_CODE program_alt_plus (Ptr.prog 22) = BRANCH := by decide
  have e6 : GET_OP_CODE program_alt_plus (Ptr.prog 39) = BRANCH := by decide
  have e7 : GET_OP_CODE program_alt_plus (Ptr.prog 30) ≠ BRANCH := by decide
  have e8 : GET_OP_CODE program_alt_plus (Ptr.prog 42) ≠ BRANCH := by decide
  have o1 : OPERAND (Ptr.prog 14) = Ptr.prog 17 := by decide
  have o2 : OPERAND (Ptr.prog 22) = Ptr.prog 25 := by decide
  have o3 : OPERAND (Ptr.prog 33) = Ptr.prog 36 := by decide
  have o4 : OPERAND (Ptr.prog 39) = Ptr.prog 42 := by decide
  intro w
  induction w with
  | nil =>
    intro _ c hc n bip st r hr h0 _ h1 hE hL hX hR hS hF
    subst hr
    simp only [REGEX_RECURSION_LIMIT, List.length_nil, Nat.mul_zero, Nat.add_zero] at hR hL h1 ⊢
    simp only [List.getD_eq_getElem?_getD] at h0 h1
    have hr : ∀ k, k ≤ 6 → ¬ (10000 < st.Recursion_Count + k) := fun k hk => by omega
    have hl1 : ¬ L < st.Reg_Input + 1 := by omega
    have hl2 : ¬ L < st.Reg_Input + 2 := by omega
    rcases hc with rfl | rfl <;>
      simp [alt_plus_n11, alt_plus_n14, alt_plus_n17, alt_plus_n25, alt_plus_n30, alt_plus_n33,
        alt_plus_n36, alt_plus_n42, alt_plus_n45, alt_plus_n50, case_OPEN, case_CLOSE,
        branchLoop, match_eq, MATCH_RETURN, REGEX_RECURSION_LIMIT, e1, e2, e3, e4, e5, e6, e7,
        e8, o1, o2, o3, o4, h0, h1, hE, hX, hS, hF, extentFW_fields, Nat.add_assoc, hr, hl1,
        hl2, arraySet]
  | cons c2 w ih =>
    intro hw c hc n bip st r hr h0 hrest h1 hE hL hX hR hS hF
    subst hr
    have hc2 : c2 = 98 ∨ c2 = 99 := hw c2 (List.mem_cons_self _ _)
    have hw2 : ∀ x ∈ w, x = 98 ∨ x = 99 := fun x hx => hw x (List.mem_cons_of_mem _ hx)
    simp only [REGEX_RECURSION_LIMIT, List.length_cons] at hR hL h1 hrest ⊢
    have hfuel : n + 6 * (w.length + 1) + 14 = (n + 6 * w.length + 14) + 6 := by omega
    rw [hfuel]
    generalize hF' : n + 6 * w.length + 14 = F
    simp only [List.getD_eq_getElem?_getD] at h0
    have hr : ∀ k, k ≤ 6 → ¬ (10000 < st.Recursion_Count + k) := fun k hk => by omega
    have hl1 : ¬ L < st.Reg_Input + 1 := by omega
    have hl2 : ¬ L < st.Reg_Input + 2 := by omega
    rcases hc with rfl | rfl <;>
      simp [alt_plus_n11, alt_plus_n14, alt_plus_n17, alt_plus_n25, alt_plus_n30, alt_plus_n33,
        alt_plus_n36, case_OPEN, case_CLOSE, branchLoop, match_eq, MATCH_RETURN,
        REGEX_RECURSION_LIMIT, e1, e2, e3, e4, e5, e6, e7, e8, o1, o2, o3, o4, h0, hE, hX, hS,
        hF, Nat.add_assoc, hr, hl1, hl2] <;>
      generalize hrec : matchLoop program_alt_plus T F (Ptr.prog 11) none _ = r' <;>
      rw [← hF'] at hrec <;>
      obtain ⟨s1, rfl, p1, p2, p3, p4⟩ := ih hw2 c2 hc2 n none _ r' hrec (hrest 0 (by omega))
        (fun j hj => by
          show T.getD (st.Reg_Input + 1 + 1 + j) 0 = w.getD j 0
          rw [show st.Reg_Input + 1 + 1 + j = st.Reg_Input + 1 + (j + 1) by omega]
          exact hrest (j + 1) (by omega))
        (by
          show T.getD (st.Reg_Input + 1 + 1 + w.length) 0 = 100
          rw [show st.Reg_Input + 1 + 1 + w.length = st.Reg_Input + 1 + (w.length + 1) by omega]
          exact h1)
        rfl (by show st.Reg_Input + 1 + w.length + 2 ≤ L; omega) rfl
        (by show st.Recursion_Count + 4 + 4 * w.length + 6 ≤ REGEX_RECURSION_LIMIT
            simp only [REGEX_RECURSION_LIMIT]; omega)
        hS hF <;>
      simp at p1 p2 p3 p4 <;>
      simp [p1, p2, p3, p4, hS, hF, arraySet] <;>
      omega
set_option maxHeartbeats 2000000 in
/-- The attempt of `a(b|c)+d` at position 1 of a text `?a` `c :: w` `d`. -/
theorem alt_plus_attempt (T : List Nat) (L : Nat) (w : List Nat) (c n : Nat) (re : regexp)
    (st : ExecuteContext) (hw : ∀ x ∈ w, x = 98 ∨ x = 99) (hc : c = 98 ∨ c = 99)
    (hprog : re.program = program_alt_plus) (hE : st.End_Of_String = some L)
    (hX : st.Recursion_Limit_Exceeded = false) (hTP : st.Total_Paren = 1)
    (h1 : T.getD 1 0 = 97) (h2 : T.getD 2 0 = c)
    (hrest : ∀ j, j < w.length → T.getD (3 + j) 0 = w.getD j 0)
    (hd : T.getD (3 + w.length) 0 = 100) (hL : w.length + 4 ≤ L)
    (hR : 4 * w.length + 7 ≤ REGEX_RECURSION_LIMIT) :
    ∃ r' st', attempt T (n + 6 * w.length + 16) re 1 st = some (true, r', st') ∧
      st'.Recursion_Limit_Exceeded = false ∧
      r'.startp 0 = some 1 ∧ r'.endp 0 = some (w.length + 4) ∧
      r'.startp 1 = some (w.length + 2) ∧ r'.endp 1 = some (w.length + 3) := by
  have hfuel : n + 6 * w.length + 16 = (n + 6 * w.length + 14) + 2 := by omega
  rw [attempt, match_eq, hfuel]
  generalize hF' : n + 6 * w.length + 14 = F
  simp only [List.getD_eq_getElem?_getD] at h1
  have hl : ¬ L < 1 + 1 := by omega
  simp [hprog, REGEX_START_OFFSET, alt_plus_n3, alt_plus_n6, REGEX_RECURSION_LIMIT, hE, hX, hTP,
    h1, hl]
  generalize hrec : matchLoop program_alt_plus T F (Ptr.prog 11) (some 0) _ = r'
  rw [← hF'] at hrec
  obtain ⟨s1, rfl, p1, p2, p3, p4⟩ := alt_plus_loop T L w hw c hc n (some 0) _ r' hrec h2
    (fun j hj => hrest j hj) hd rfl (by show 1 + 1 + w.length + 2 ≤ L; omega) rfl
    (by show 1 + 4 * w.length + 6 ≤ REGEX_RECURSION_LIMIT; omega)
    (by simp [fill_n]) (by simp [fill_n])
  simp at p1 p2 p3 p4
  simp [p1, p2, p3, p4, arraySet]
  refine ⟨_, _, ⟨rfl, rfl⟩, ?_⟩
  simp [arraySet, p2, p3]
  omega

/-- C6: for every non-empty word `w` over the letters `b` and `c` that is short enough
for the recursion limit (`4 * |w| + 3` calls deep), executing the compiled pattern
`a(b|c)+d` on the text `"xa" ++ w ++ "d"` from offset 0 (with fuel from `6 * |w| + 10`
on, any default delimiter table and any earlier state of the global context) reports a
match from offset 1 to offset `|w| + 3`, and group 1 spans the last character of `w`,
from offset `|w| + 1` to offset `|w| + 2`. -/
theorem alt_plus_last_repetition :
    ∃ re, CompileRE (strBytes "a(b|c)+d") 0 = Except.ok re ∧
      ∀ (w : List Nat), w ≠ [] → (∀ x ∈ w, x ∈ strBytes "bc") →
      4 * w.length + 3 ≤ REGEX_RECURSION_LIMIT →
      ∀ (fuel : Nat), 6 * w.length + 10 ≤ fuel →
      ∀ (Default_Delimiters : Nat) (st0 : ExecuteContext),
        ∃ r st, execute (strBytes "xa" ++ w ++ strBytes "d") fuel Default_Delimiters re st0 0
            = some (true, r, st) ∧
          r.startp 0 = some 1 ∧ r.endp 0 = some (w.length + 3) ∧
          r.startp 1 = some (w.length + 1) ∧ r.endp 1 = some (w.length + 2) := by
  obtain ⟨re, hre, hp, hms, han⟩ := compiled_ok compiled_alt_plus
  refine ⟨re, hre, ?_⟩
  intro w hne hw hR fuel hf dd st0
  obtain ⟨c, w, rfl⟩ : ∃ c w', w = c :: w' := by
    cases w with
    | nil => exact absurd rfl hne
    | cons c w' => exact ⟨c, w', rfl⟩
  have hbc : ∀ x, x ∈ strBytes "bc" → x = 98 ∨ x = 99 := by
    intro x hx
    have : strBytes "bc" = [98, 99] := by decide
    rw [this] at hx
    simpa using hx
  have hc : c = 98 ∨ c = 99 := hbc c (hw c (List.mem_cons_self _ _))
  have hw' : ∀ x ∈ w, x = 98 ∨ x = 99 := fun x hx => hbc x (hw x (List.mem_cons_of_mem _ hx))
  simp only [List.length_cons] at hR hf ⊢
  obtain ⟨n, rfl⟩ : ∃ n, fuel = n + 6 * w.length + 16 := ⟨fuel - (6 * w.length + 16), by omega⟩
  have hT : strBytes "xa" ++ c :: w ++ strBytes "d" = 120 :: 97 :: c :: (w ++ [100]) := by
    have h1 : strBytes "xa" = [120, 97] := by decide
    have h2 : strBytes "d" = [100] := by decide
    rw [h1, h2]; rfl
  rw [hT]
  generalize hTdef : 120 :: 97 :: c :: (w ++ [100]) = T
  have hlen : T.length = w.length + 4 := by rw [← hTdef]; simp
  have h0 : T.getD 0 0 = 120 := by rw [← hTdef]; rfl
  have h1 : T.getD 1 0 = 97 := by rw [← hTdef]; rfl
  have h2 : T.getD 2 0 = c := by rw [← hTdef]; rfl
  have hrest : ∀ j, j < w.length → T.getD (3 + j) 0 = w.getD j 0 := by
    intro j hj
    rw [← hTdef, Nat.add_comm 3 j]
    show (w ++ [100]).getD j 0 = w.getD j 0
    rw [List.getD_append _ _ _ _ hj]
  have hd : T.getD (3 + w.length) 0 = 100 := by
    rw [← hTdef, Nat.add_comm 3 w.length]
    show (w ++ [100]).getD w.length 0 = 100
    rw [List.getD_append_right _ _ _ _ (Nat.le_refl _)]
    simp
  have hmagic : re.program.getD 0 0 = MAGIC := by rw [hp]; decide
  obtain ⟨r', st', hatt, hX', hcap⟩ := alt_plus_attempt T T.length w c n (execRegexp re 0)
    (execContext dd re st0 0 (some T.length) 0 0 none (some 0) (some T.length))
    hw' hc (by simp [execRegexp, hp]) (by simp [execContext]) (by simp [execContext])
    (by simp [execContext, hp, program_alt_plus]) h1 h2 hrest hd (by omega)
    (by simp only [REGEX_RECURSION_LIMIT] at hR ⊢; omega)
  have h10 : ¬ ((1 : Nat) = 0) := by decide
  have hms0 : ¬ ((97 : Nat) = 0) := by decide
  simp only [execute, execute_range, ExecRE, hmagic, han, hms, ne_eq, not_true_eq_false,
    if_false, if_true, Bool.not_false, one_ne_zero, not_false_eq_true, and_false, reduceCtorEq,
    h10, hms0]
  rw [searchForward_start_skip T _ T.length _ 0 _ _ (by simp [execContext])
      (by simp [execContext]) (by omega)
      (by show T.getD 0 0 ≠ re.match_start; rw [h0, hms]; decide),
    searchForward_start_hit T _ T.length _ (0 + 1) _ r' _ st' (by simp [execContext])
      (by simp [execContext]) (by omega)
      (by show T.getD 1 0 = re.match_start; rw [h1, hms]) hatt]
  simp only [hX', Bool.false_eq_true, if_false]
  refine ⟨r', st', rfl, hcap.1, ?_, ?_, ?_⟩
  · rw [hcap.2.1]
  · rw [hcap.2.2.1]
  · rw [hcap.2.2.2]

/-- C6, at the text of the scenario: on `"xabcbcd"` the match is `"abcbcd"`, offsets 1 to
7, and group 1 is the `"c"` at offset 5. -/
theorem alt_plus_last_repetition_witness :
    ∃ re, CompileRE (strBytes "a(b|c)+d") 0 = Except.ok re ∧
      ∃ r st, execute (strBytes "xabcbcd") 34 0 re initialContext 0 = some (true, r, st) ∧
        r.startp 0 = some 1 ∧ r.endp 0 = some 7 ∧ r.startp 1 = some 5 ∧ r.endp 1 = some 6 := by
  obtain ⟨re, hre, h⟩ := alt_plus_last_repetition
  exact ⟨re, hre, h (strBytes "bcbc") (by decide) (by decide) (by decide) 34 (by decide) 0
    initialContext⟩

/-! ## `SubstituteRE`: references to the captured texts -/

theorem substituteLoop_prefix (prog : regexp) (text source : List Nat) :
    ∀ fuel src dest d, substituteLoop prog text source fuel src dest = Except.ok d →
      dest <+: d := by
  intro fuel
  induction fuel with
  | zero => intro src dest d h; simp [substituteLoop] at h
  | succ fuel ih =>
    intro src dest d
    rw [substituteLoop]
    by_cases h1 : src = source.length
    · rw [if_pos h1]
      intro h
      simp only [Except.ok.injEq] at h; rw [h]
    rw [if_neg h1]
    lift_lets
    intro c0 src1 dd isCase chgcase c src' e step
    clear_value step
    by_cases h2 : isCase = true ∧ src1 + 1 = source.length
    · rw [if_pos h2]
      intro h
      simp only [Except.ok.injEq] at h; rw [h]
    rw [if_neg h2]
    rcases step with err | ⟨paren_no, c1, src2⟩
    · intro h; cases h
    · simp only []
      by_cases h3 : paren_no < 0
      · rw [if_pos h3]
        intro h
        exact (List.prefix_append _ _).trans (ih _ _ _ h)
      · rw [if_neg h3]
        intro h
        split at h
        · exact (List.prefix_append _ _).trans (ih _ _ _ h)
        · exact ih _ _ _ h

theorem SubstituteRE_prefix (prog : regexp) (text source dest : List Nat) (b : Bool)
    (d : List Nat) (h : SubstituteRE prog text source dest = Except.ok (b, d)) : dest <+: d := by
  unfold SubstituteRE at h
  split_ifs at h
  · simp only [Except.ok.injEq, Prod.mk.injEq] at h; rw [h.2]
  · split at h
    · cases h
    · rename_i d' hd
      simp only [Except.ok.injEq, Prod.mk.injEq] at h
      rw [← h.2]
      exact substituteLoop_prefix _ _ _ _ _ _ _ hd

theorem substitute_reference (prog : regexp) (text dest : List Nat) (N : Nat) (ref : List Nat)
    (hmagic : prog.program.getD 0 0 = MAGIC)
    (href : (N = 0 ∧ ref = strBytes "&") ∨ (1 ≤ N ∧ N ≤ 9 ∧ ref = [92, 48 + N])) :
    SubstituteRE prog text ref dest =
      match prog.startp N, prog.endp N with
      | some s, some e => Except.ok (true, dest ++ capturedText text s e)
      | _, _ => Except.ok (true, dest) := by
  simp only [List.getD_eq_getElem?_getD] at hmagic
  rcases href with ⟨h0, rfl⟩ | ⟨h1, h9, rfl⟩
  · subst h0
    rcases hs : prog.startp 0 with _ | s <;> rcases he : prog.endp 0 with _ | e <;>
      simp [SubstituteRE, hmagic, substituteLoop, hs, he, literal_escape,
        valid_escape, strBytes, applyCase]
  · interval_cases N <;>
      (rcases hs : prog.startp _ with _ | s <;> rcases he : prog.endp _ with _ | e <;>
        simp [SubstituteRE, hmagic, substituteLoop, hs, he, literal_escape,
          valid_escape, strBytes, applyCase])

/-- A successful attempt leaves the span of the whole match in `startp[0]`, `endp[0]`; the
program is never changed. -/
theorem attempt_span (text : List Nat) (fuel : Nat) (prog : regexp) (string : Nat)
    (st : ExecuteContext) (b : Bool) (r : regexp) (st' : ExecuteContext)
    (h : attempt text fuel prog string st = some (b, r, st')) :
    r.program = prog.program ∧ r.match_start = prog.match_start ∧ r.anchor = prog.anchor ∧
      (b = true → r.startp 0 = some string ∧ r.endp 0 = some st'.Reg_Input) := by
  unfold attempt at h
  simp only [] at h
  split at h
  · cases h
  · simp only [Option.some.injEq, Prod.mk.injEq] at h
    obtain ⟨rfl, rfl, rfl⟩ := h
    exact ⟨rfl, rfl, rfl, fun _ => ⟨by simp [arraySet], by simp [arraySet]⟩⟩
  · simp only [Option.some.injEq, Prod.mk.injEq] at h
    obtain ⟨rfl, rfl, rfl⟩ := h
    exact ⟨rfl, rfl, rfl, fun h => by cases h⟩

theorem searchForward_span (text : List Nat) (fuel kind : Nat) (end_ : Option Nat) :
    ∀ n str prog st b str' r st',
      searchForward text fuel kind end_ n str prog st = some (b, str', r, st') →
      r.program = prog.program ∧
        (b = true → ∃ s e, r.startp 0 = some s ∧ r.endp 0 = some e) := by
  intro n
  induction n with
  | zero => intro str prog st b str' r st' h; simp [searchForward] at h
  | succ n ih =>
    intro str prog st b str' r st' h
    rw [searchForward] at h
    by_cases hc : (!AT_END_OF_STRING st str) = true ∧ some str ≠ end_ ∧
        (!st.Recursion_Limit_Exceeded) = true
    swap
    · rw [if_neg hc] at h
      simp only [Option.some.injEq, Prod.mk.injEq] at h
      obtain ⟨rfl, -, rfl, rfl⟩ := h
      exact ⟨rfl, fun h => by cases h⟩
    rw [if_pos hc] at h
    simp only [] at h
    by_cases h0 : kind = 0 ∧ text.getD str 0 ≠ 10
    · rw [if_pos h0] at h
      exact ih _ _ _ _ _ _ _ h
    rw [if_neg h0] at h
    by_cases h1 : kind = 1 ∧ text.getD str 0 ≠ prog.match_start
    · rw [if_pos h1] at h
      exact ih _ _ _ _ _ _ _ h
    rw [if_neg h1] at h
    rcases ha : attempt text fuel prog (if kind = 0 then str + 1 else str) st
      with _ | ⟨b1, r1, st1⟩
    · rw [ha] at h; cases h
    · rw [ha] at h
      have hl := attempt_span _ _ _ _ _ _ _ _ ha
      cases b1
      · simp only [] at h
        have := ih _ _ _ _ _ _ _ h
        exact ⟨this.1.trans hl.1, this.2⟩
      · simp only [Option.some.injEq, Prod.mk.injEq] at h
        obtain ⟨rfl, -, rfl, rfl⟩ := h
        exact ⟨hl.1, fun _ => ⟨_, _, hl.2.2.2 rfl⟩⟩

theorem searchBackward_span (text : List Nat) (fuel kind string : Nat) :
    ∀ n prog st b r st',
      searchBackward text fuel kind string n prog st = some (b, r, st') →
      r.program = prog.program ∧
        (b = true → ∃ s e, r.startp 0 = some s ∧ r.endp 0 = some e) := by
  intro n
  induction n with
  | zero =>
    intro prog st b r st' h
    simp only [searchBackward, Option.some.injEq, Prod.mk.injEq] at h
    obtain ⟨rfl, rfl, rfl⟩ := h
    exact ⟨rfl, fun h => by cases h⟩
  | succ n ih =>
    intro prog st b r st' h
    rw [searchBackward] at h
    simp only [] at h
    by_cases hc : (!st.Recursion_Limit_Exceeded) = true
    swap
    · rw [if_neg hc] at h
      simp only [Option.some.injEq, Prod.mk.injEq] at h
      obtain ⟨rfl, rfl, rfl⟩ := h
      exact ⟨rfl, fun h => by cases h⟩
    rw [if_pos hc] at h
    by_cases h0 : kind = 0 ∧ text.getD (string + n) 0 ≠ 10
    · rw [if_pos h0] at h
      exact ih _ _ _ _ _ h
    rw [if_neg h0] at h
    by_cases h1 : kind = 1 ∧ text.getD (string + n) 0 ≠ prog.match_start
    · rw [if_pos h1] at h
      exact ih _ _ _ _ _ h
    rw [if_neg h1] at h
    rcases ha : attempt text fuel prog (if kind = 0 then string + n + 1 else string + n) st
      with _ | ⟨b1, r1, st1⟩
    · rw [ha] at h; cases h
    · rw [ha] at h
      have hl := attempt_span _ _ _ _ _ _ _ _ ha
      cases b1
      · simp only [] at h
        have := ih _ _ _ _ _ h
        exact ⟨this.1.trans hl.1, this.2⟩
      · simp only [Option.some.injEq, Prod.mk.injEq] at h
        obtain ⟨rfl, rfl, rfl⟩ := h
        exact ⟨hl.1, fun _ => ⟨_, _, hl.2.2.2 rfl⟩⟩

/-- A successful `ExecRE` leaves the span of the whole match in `startp[0]`, `endp[0]` of
the `regexp`, whose program is valid and unchanged. -/
theorem ExecRE_span (text : List Nat) (fuel : Nat) (Default_Delimiters : Nat) (prog : regexp)
    (st0 : ExecuteContext) (string : Nat) (end0 : Option Nat) (reverse : Bool)
    (prev_char succ_char0 : Nat) (delimiters : Option (List Nat))
    (look_behind_to match_to : Option Nat) (r : regexp) (st : ExecuteContext)
    (h : ExecRE text fuel Default_Delimiters prog st0 string end0 reverse prev_char succ_char0
      delimiters look_behind_to match_to = some (true, r, st)) :
    r.program.getD 0 0 = MAGIC ∧ ∃ s e, r.startp 0 = some s ∧ r.endp 0 = some e := by
  unfold ExecRE at h
  by_cases hm : prog.program.getD 0 0 = MAGIC
  swap
  · rw [if_pos hm] at h
    simp at h
  rw [if_neg (not_not.mpr hm)] at h
  simp only [] at h
  split at h
  · cases h
  rename_i end1 _
  split at h
  · cases h
  rename_i ret_val prog2 st2 hres
  have key : prog2.program = prog.program ∧
      (ret_val = true → ∃ s e, prog2.startp 0 = some s ∧ prog2.endp 0 = some e) := by
    have hp1 : (execRegexp prog string).program = prog.program := rfl
    have hA : ∀ pr p s b r' s', attempt text fuel pr p s = some (b, r', s') →
        r'.program = pr.program ∧
          (b = true → ∃ s e, r'.startp 0 = some s ∧ r'.endp 0 = some e) := by
      intro pr p s b r' s' ha
      have := attempt_span _ _ _ _ _ _ _ _ ha
      exact ⟨this.1, fun hb => ⟨_, _, this.2.2.2 hb⟩⟩
    generalize (if prog.anchor ≠ 0 then 0 else if prog.match_start ≠ 0 then 1 else 2) = kind
      at hres
    generalize hst1 : execContext Default_Delimiters prog st0 string end0 prev_char succ_char0
      delimiters look_behind_to match_to = st1 at hres
    have hB : ∀ k n pr s b r' s', searchBackward text fuel k string n pr s = some (b, r', s') →
        pr.program = prog.program →
        r'.program = prog.program ∧
          (b = true → ∃ s e, r'.startp 0 = some s ∧ r'.endp 0 = some e) := by
      intro k n pr s b r' s' hb hpr
      have := searchBackward_span _ _ _ _ _ _ _ _ _ _ hb
      exact ⟨this.1.trans hpr, this.2⟩
    have hF : ∀ k n str pr s b str' r' s',
        searchForward text fuel k end1 n str pr s = some (b, str', r', s') →
        pr.program = prog.program →
        r'.program = prog.program ∧
          (b = true → ∃ s e, r'.startp 0 = some s ∧ r'.endp 0 = some e) := by
      intro k n str pr s b str' r' s' hb hpr
      have := searchForward_span _ _ _ _ _ _ _ _ _ _ _ _ hb
      exact ⟨this.1.trans hpr, this.2⟩
    cases reverse
    · simp only [Bool.not_false, if_true] at hres
      by_cases hk0 : kind = 0
      · rw [if_pos hk0] at hres
        rcases ha : attempt text fuel (execRegexp prog string) string st1 with _ | ⟨b1, r1, s1⟩
        · rw [ha] at hres; cases hres
        rw [ha] at hres
        have h1 := hA _ _ _ _ _ _ ha
        cases b1
        · simp only [] at hres
          rcases hs : searchForward text fuel 0 end1 (text.length + 2) string r1 s1
            with _ | ⟨b2, str2, r2, s2⟩
          · rw [hs] at hres; cases hres
          rw [hs] at hres
          simp only [Option.some.injEq, Prod.mk.injEq] at hres
          obtain ⟨rfl, rfl, rfl⟩ := hres
          exact hF _ _ _ _ _ _ _ _ _ hs (h1.1.trans hp1)
        · simp only [Option.some.injEq, Prod.mk.injEq] at hres
          obtain ⟨rfl, rfl, rfl⟩ := hres
          exact ⟨h1.1.trans hp1, h1.2⟩
      rw [if_neg hk0] at hres
      by_cases hk1 : kind = 1
      · rw [if_pos hk1] at hres
        rcases hs : searchForward text fuel 1 end1 (text.length + 2) string
          (execRegexp prog string) st1 with _ | ⟨b2, str2, r2, s2⟩
        · rw [hs] at hres; cases hres
        rw [hs] at hres
        simp only [Option.some.injEq, Prod.mk.injEq] at hres
        obtain ⟨rfl, rfl, rfl⟩ := hres
        exact hF _ _ _ _ _ _ _ _ _ hs hp1
      rw [if_neg hk1] at hres
      rcases hs : searchForward text fuel 2 end1 (text.length + 2) string
        (execRegexp prog string) st1 with _ | ⟨b2, str2, r2, s2⟩
      · rw [hs] at hres; cases hres
      rw [hs] at hres
      have h2 := hF _ _ _ _ _ _ _ _ _ hs hp1
      cases b2
      · simp only [] at hres
        split_ifs at hres
        · have h3 := hA _ _ _ _ _ _ hres
          exact ⟨h3.1.trans h2.1, h3.2⟩
        · simp only [Option.some.injEq, Prod.mk.injEq] at hres
          obtain ⟨rfl, rfl, rfl⟩ := hres
          exact h2
      · simp only [Option.some.injEq, Prod.mk.injEq] at hres
        obtain ⟨rfl, rfl, rfl⟩ := hres
        exact h2
    · simp only [Bool.not_true, Bool.false_eq_true, if_false] at hres
      by_cases hk0 : kind = 0
      · rw [if_pos hk0] at hres
        split at hres
        · cases hres
        · rename_i pr2 s2 hsb
          simp only [Option.some.injEq, Prod.mk.injEq] at hres
          obtain ⟨rfl, rfl, rfl⟩ := hres
          exact hB _ _ _ _ _ _ _ hsb hp1
        · rename_i pr2 s2 hsb
          have h2 := hB _ _ _ _ _ _ _ hsb hp1
          split_ifs at hres
          · have h3 := hA _ _ _ _ _ _ hres
            exact ⟨h3.1.trans h2.1, h3.2⟩
          · simp only [Option.some.injEq, Prod.mk.injEq] at hres
            obtain ⟨rfl, rfl, rfl⟩ := hres
            exact h2
      · rw [if_neg hk0] at hres
        exact hB _ _ _ _ _ _ _ hres hp1
  by_cases hf : st2.Recursion_Limit_Exceeded = true
  · rw [if_pos hf] at h
    simp at h
  · rw [if_neg hf] at h
    simp only [Option.some.injEq, Prod.mk.injEq] at h
    obtain ⟨rfl, rfl, rfl⟩ := h
    obtain ⟨s, e, hs, he⟩ := key.2 rfl
    exact ⟨by rw [key.1]; exact hm, s, e, hs, he⟩
/-- C11: capture references in `SubstituteRE`.  For a `regexp` with a valid program, a
reference `ref` to group `N` (`&` for the whole match, `N = 0`, and `\N` for `N` from 1 to
9) appends exactly the text between the capture pointers of group `N` when both are set,
and appends nothing when one of them is null; whatever the template, the old `dest` is a
prefix of the new one; and after a successful `ExecRE` both pointers of the whole match
are set, so that `&` appends the whole matched text. -/
theorem substitute_capture_references (text dest : List Nat) :
    (∀ (prog : regexp) (N : Nat) (ref : List Nat), prog.program.getD 0 0 = MAGIC →
      ((N = 0 ∧ ref = strBytes "&") ∨ (1 ≤ N ∧ N ≤ 9 ∧ ref = [92, 48 + N])) →
      (∀ s e, prog.startp N = some s → prog.endp N = some e →
        SubstituteRE prog text ref dest = Except.ok (true, dest ++ capturedText text s e)) ∧
      (prog.startp N = none ∨ prog.endp N = none →
        SubstituteRE prog text ref dest = Except.ok (true, dest))) ∧
    (∀ (prog : regexp) (source : List Nat) (b : Bool) (d : List Nat),
      SubstituteRE prog text source dest = Except.ok (b, d) → dest <+: d) ∧
    (∀ (fuel Default_Delimiters : Nat) (prog : regexp) (st0 : ExecuteContext) (string : Nat)
      (end0 : Option Nat) (reverse : Bool) (prev_char succ_char : Nat)
      (delimiters : Option (List Nat)) (look_behind_to match_to : Option Nat) (r : regexp)
      (st : ExecuteContext),
      ExecRE text fuel Default_Delimiters prog st0 string end0 reverse prev_char succ_char
        delimiters look_behind_to match_to = some (true, r, st) →
      ∃ s e, r.startp 0 = some s ∧ r.endp 0 = some e ∧
        SubstituteRE r text (strBytes "&") dest
          = Except.ok (true, dest ++ capturedText text s e)) := by
  refine ⟨?_, ?_, ?_⟩
  · intro prog N ref hmagic href
    have h := substitute_reference prog text dest N ref hmagic href
    constructor
    · intro s e hs he
      rw [h, hs, he]
    · intro hn
      rw [h]
      rcases hn with hn | hn
      · rw [hn]
      · rw [hn]
        cases prog.startp N <;> rfl
  · intro prog source b d h
    exact SubstituteRE_prefix prog text source dest b d h
  · intro fuel dd prog st0 string end0 reverse pc sc delims lbt mt r st h
    obtain ⟨hmagic, s, e, hs, he⟩ := ExecRE_span _ _ _ _ _ _ _ _ _ _ _ _ _ _ _ h
    refine ⟨s, e, hs, he, ?_⟩
    rw [substitute_reference r text dest 0 _ hmagic (Or.inl ⟨rfl, rfl⟩), hs, he]

/-- C11, at the match of `(\w+)@(\w+)` on `"user@host"`: appended to `"to: "`, the
template `&` gives `"to: user@host"`, the template `\2` gives `"to: host"`, and the
template `\3`, whose group does not exist, appends an empty text. -/
theorem substitute_capture_references_witness :
    ∃ re r st, CompileRE (strBytes "(\\w+)@(\\w+)") 0 = Except.ok re ∧
      execute (strBytes "user@host") 100 0 re initialContext 0 = some (true, r, st) ∧
      SubstituteRE r (strBytes "user@host") (strBytes "&") (strBytes "to: ")
        = Except.ok (true, strBytes "to: user@host") ∧
      SubstituteRE r (strBytes "user@host") (strBytes "\\2") (strBytes "to: ")
        = Except.ok (true, strBytes "to: host") ∧
      SubstituteRE r (strBytes "user@host") (strBytes "\\3") (strBytes "to: ")
        = Except.ok (true, strBytes "to: ") ∧
      SubstituteRE r (strBytes "user@host") (strBytes "\\9") (strBytes "to: ")
        = Except.ok (true, strBytes "to: ") := by
  obtain ⟨re, r, st, hc, hx, hprog, hspans⟩ := compileAndExecute_ok executed_email
  refine ⟨re, r, st, hc, hx, ?_⟩
  simp [spans, List.range, List.range.loop] at hspans
  obtain ⟨⟨hs0, he0⟩, -, ⟨hs2, he2⟩, ⟨hs3, he3⟩, -, -, -, -, -, ⟨hs9, he9⟩⟩ := hspans
  have hmagic : r.program.getD 0 0 = MAGIC := by rw [hprog]; decide
  have key := (substitute_capture_references (strBytes "user@host") (strBytes "to: ")).1 r
  refine ⟨?_, ?_, ?_, ?_⟩
  · exact (key 0 _ hmagic (Or.inl ⟨rfl, rfl⟩)).1 0 9 hs0 he0
  · exact (key 2 _ hmagic (Or.inr ⟨by decide, by decide, rfl⟩)).1 5 9 hs2 he2
  · exact (key 3 _ hmagic (Or.inr ⟨by decide, by decide, rfl⟩)).1 0 0 hs3 he3
  · exact (key 9 _ hmagic (Or.inr ⟨by decide, by decide, rfl⟩)).2 (Or.inl hs9)

/-! ## The recursion ceiling of `match` -/

theorem limitKept_return (b : Bool) (bip : Option Nat) (st0 st : ExecuteContext)
    (h1 : st0.Recursion_Limit_Exceeded = true → st.Recursion_Limit_Exceeded = true)
    (h2 : st0.Recursion_Limit_Exceeded = false → st.Recursion_Limit_Exceeded = true → b = false) :
    LimitKept st0 (MATCH_RETURN b bip st) := by
  intro b' bip' st' h
  simp only [MATCH_RETURN, Option.some.injEq, Prod.mk.injEq] at h
  obtain ⟨rfl, -, rfl⟩ := h
  exact ⟨h1, h2⟩

theorem limitKept_of_eq (st0 st : ExecuteContext) (r : MatchResult)
    (h : st.Recursion_Limit_Exceeded = st0.Recursion_Limit_Exceeded) (hr : LimitKept st r) :
    LimitKept st0 r := by
  intro b bip st' e
  have := hr b bip st' e
  rw [h] at this
  exact this

theorem limitKept_none (st0 : ExecuteContext) : LimitKept st0 none := by
  intro b bip st' h; cases h

theorem limitKept_matchEntry (loop : Ptr → Option Nat → ExecuteContext → MatchResult)
    (h : ∀ p bip s, LimitKept s (loop p bip s)) (p : Ptr) (bip : Option Nat)
    (st : ExecuteContext) : LimitKept st (matchEntry loop p bip st) := by
  unfold matchEntry
  simp only []
  split_ifs
  · exact limitKept_return _ _ _ _ (fun _ => rfl) (fun _ _ => rfl)
  · exact limitKept_of_eq _ _ _ rfl (h _ _ _)

theorem greedy_limit (prog text : List Nat) (p : Ptr) (max : Int) (st : ExecuteContext)
    (n : Nat) (st' : ExecuteContext) (h : greedy prog text p max st = some (n, st')) :
    st'.Recursion_Limit_Exceeded = st.Recursion_Limit_Exceeded := by
  unfold greedy at h
  simp only [] at h
  split at h
  · simp only [Option.some.injEq, Prod.mk.injEq] at h; rw [← h.2]
  · split at h
    · cases h
    · simp only [Option.some.injEq, Prod.mk.injEq] at h; rw [← h.2]

theorem similarLoop_limit (text : List Nat) (opnd : List Nat) :
    ∀ st, (similarLoop text opnd st).2.Recursion_Limit_Exceeded = st.Recursion_Limit_Exceeded := by
  induction opnd with
  | nil => intro st; rfl
  | cons c cs ih =>
    intro st
    rw [similarLoop]
    split_ifs
    · rfl
    · rfl
    · rw [ih]

theorem backRefLoop_limit (text : List Nat) (ci : Bool) (n : Nat) :
    ∀ captured st,
      (backRefLoop text ci n captured st).2.Recursion_Limit_Exceeded
        = st.Recursion_Limit_Exceeded := by
  induction n with
  | zero => intro c st; rfl
  | succ n ih =>
    intro c st
    rw [backRefLoop]
    simp only []
    split_ifs <;> first | rfl | rw [ih]

theorem extentFW_limit (st : ExecuteContext) :
    (extentFW st).Recursion_Limit_Exceeded = st.Recursion_Limit_Exceeded := by
  unfold extentFW
  split
  · rfl
  · split_ifs <;> rfl

theorem limitKept_branchLoop (prog : List Nat) (rec : Ptr → ExecuteContext → MatchResult)
    (hrec : ∀ p s, LimitKept s (rec p s)) :
    ∀ fuel scan i bip st, LimitKept st (branchLoop prog rec fuel scan i bip st) := by
  intro fuel
  induction fuel with
  | zero => intro scan i bip st; exact limitKept_none _
  | succ fuel ih =>
    intro scan i bip st
    rw [branchLoop]
    simp only []
    have h := hrec (OPERAND scan) st
    rcases hr : rec (OPERAND scan) st with _ | ⟨b, bip1, st1⟩
    · exact limitKept_none _
    · have h1 := h b bip1 st1 hr
      cases b
      · simp only []
        split_ifs with hx hn
        · exact limitKept_return _ _ _ _ h1.1 (fun _ _ => rfl)
        · exact limitKept_of_eq _ _ _ (by
            simp only [Bool.not_eq_true] at hx
            cases hs : st.Recursion_Limit_Exceeded
            · exact hx
            · exact absurd (h1.1 hs) (by simp [hx])) (ih _ _ _ _)
        · exact limitKept_return _ _ _ _ h1.1 (fun _ _ => rfl)
      · simp only []
        exact limitKept_return _ _ _ _ h1.1 (fun h0 hs => absurd (h1.2 h0 hs) (by simp))

theorem limit_cases (st st1 : ExecuteContext) {b : Bool}
    (h1 : (st.Recursion_Limit_Exceeded = true → st1.Recursion_Limit_Exceeded = true) ∧
      (st.Recursion_Limit_Exceeded = false → st1.Recursion_Limit_Exceeded = true → b = false))
    (hx : st1.Recursion_Limit_Exceeded = false) :
    st1.Recursion_Limit_Exceeded = st.Recursion_Limit_Exceeded := by
  cases hs : st.Recursion_Limit_Exceeded
  · exact hx
  · exact absurd (h1.1 hs) (by simp [hx])

theorem limitKept_repeatStep (prog text : List Nat) (rec : Ptr → ExecuteContext → MatchResult)
    (next next_op : Ptr) (next_char : Nat) (lazy : Bool) (min max save fuel num : Nat)
    (bip : Option Nat) (st st1 : ExecuteContext)
    (ih : ∀ num bip st,
      LimitKept st (repeatLoop prog text rec next next_op next_char lazy min max save fuel num
        bip st))
    (he : st1.Recursion_Limit_Exceeded = st.Recursion_Limit_Exceeded) :
    LimitKept st
      (if lazy = true then
          match greedy prog text next_op 1 st1 with
          | none => none
          | some (n, st2) =>
            if n = 0 then MATCH_RETURN false bip st2
            else
              repeatLoop prog text rec next next_op next_char lazy min max save fuel
                (num + 1) bip { st2 with Reg_Input := save + (num + 1) }
        else if num > REG_ZERO then
          repeatLoop prog text rec next next_op next_char lazy min max save fuel
            (num - 1) bip { st1 with Reg_Input := save + (num - 1) }
        else if min = REG_ZERO ∧ num = REG_ZERO then MATCH_RETURN false bip st1
        else
          repeatLoop prog text rec next next_op next_char lazy min max save fuel
            num bip { st1 with Reg_Input := save + num }) := by
  by_cases hl : lazy = true
  · rw [if_pos hl]
    rcases hg : greedy prog text next_op 1 st1 with _ | ⟨n, st2⟩
    · exact limitKept_none _
    · have hg' := greedy_limit _ _ _ _ _ _ _ hg
      simp only []
      by_cases hn : n = 0
      · rw [if_pos hn]
        exact limitKept_return _ _ _ _ (fun h => by rw [hg', he]; exact h) (fun _ _ => rfl)
      · rw [if_neg hn]
        exact limitKept_of_eq _ _ _ (by simp only []; rw [hg', he]) (ih _ _ _)
  · rw [if_neg hl]
    by_cases hn : num > REG_ZERO
    · rw [if_pos hn]
      exact limitKept_of_eq _ _ _ he (ih _ _ _)
    · rw [if_neg hn]
      by_cases hz : min = REG_ZERO ∧ num = REG_ZERO
      · rw [if_pos hz]
        exact limitKept_return _ _ _ _ (fun h => by rw [he]; exact h) (fun _ _ => rfl)
      · rw [if_neg hz]
        exact limitKept_of_eq _ _ _ he (ih _ _ _)

theorem limitKept_repeatLoop (prog text : List Nat) (rec : Ptr → ExecuteContext → MatchResult)
    (hrec : ∀ p s, LimitKept s (rec p s)) (next next_op : Ptr) (next_char : Nat) (lazy : Bool)
    (min max save : Nat) :
    ∀ fuel num bip st,
      LimitKept st (repeatLoop prog text rec next next_op next_char lazy min max save fuel num
        bip st) := by
  intro fuel
  induction fuel with
  | zero => intro num bip st; exact limitKept_none _
  | succ fuel ih =>
    intro num bip st
    rw [repeatLoop]
    by_cases hmm : min ≤ num ∧ num ≤ max
    swap
    · rw [if_neg hmm]
      exact limitKept_return _ _ _ _ (fun h => h) (fun _ _ => rfl)
    rw [if_pos hmm]
    simp only []
    by_cases ht : (next_char = 0 ∨ next_char = text.getD st.Reg_Input 0)
    · simp only [ht, decide_True, if_true, true_and]
      have h := hrec next st
      rcases hr : rec next st with _ | ⟨b, bip1, st1⟩
      · exact limitKept_none _
      have h1 := h b bip1 st1 hr
      cases b
      · simp only []
        by_cases hx : st1.Recursion_Limit_Exceeded = true
        · rw [if_pos hx]
          exact limitKept_return _ _ _ _ h1.1 (fun _ _ => rfl)
        · rw [if_neg hx]
          exact limitKept_repeatStep _ _ _ _ _ _ _ _ _ _ _ _ _ _ _ ih
            (limit_cases st st1 h1 (by simpa using hx))
      · simp only []
        exact limitKept_return _ _ _ _ h1.1 (fun h0 hs => absurd (h1.2 h0 hs) (by simp))
    · simp only [ht, decide_False, Bool.false_eq_true, if_false, false_and]
      exact limitKept_repeatStep _ _ _ _ _ _ _ _ _ _ _ _ _ _ _ ih rfl

/-- The look-behind loop: the flag is never cleared; when the loop ends with an answer the
flag is as it was, and when the flag is set during the loop there is no answer. -/
theorem lookBehindLoop_limit (rec : ExecuteContext → MatchResult)
    (hrec : ∀ s, LimitKept s (rec s)) (save : Nat) :
    ∀ n offset st r st', lookBehindLoop rec save n offset st = some (r, st') →
      (st.Recursion_Limit_Exceeded = true → st'.Recursion_Limit_Exceeded = true) ∧
      (st.Recursion_Limit_Exceeded = false → r ≠ none →
        st'.Recursion_Limit_Exceeded = false) := by
  intro n
  induction n with
  | zero =>
    intro offset st r st' h
    simp only [lookBehindLoop, Option.some.injEq, Prod.mk.injEq] at h
    obtain ⟨-, rfl⟩ := h
    exact ⟨fun h => h, fun h _ => h⟩
  | succ n ih =>
    intro offset st r st' h
    rw [lookBehindLoop] at h
    split_ifs at h with hlt
    · simp only [Option.some.injEq, Prod.mk.injEq] at h
      obtain ⟨-, rfl⟩ := h
      exact ⟨fun h => h, fun h _ => h⟩
    · have hk := hrec { st with Reg_Input := save - offset }
      rcases hr : rec { st with Reg_Input := save - offset } with _ | ⟨b, bip1, st1⟩
      · rw [hr] at h; cases h
      · rw [hr] at h
        have h1 := hk b bip1 st1 hr
        simp only [] at h
        split_ifs at h with hx ha
        · simp only [Option.some.injEq, Prod.mk.injEq] at h
          obtain ⟨rfl, rfl⟩ := h
          exact ⟨h1.1, fun _ hn => absurd rfl hn⟩
        · simp only [Option.some.injEq, Prod.mk.injEq] at h
          obtain ⟨rfl, rfl⟩ := h
          exact ⟨h1.1, fun _ _ => by simpa using hx⟩
        · have he : st1.Recursion_Limit_Exceeded = st.Recursion_Limit_Exceeded :=
            limit_cases { st with Reg_Input := save - offset } st1 h1 (by simpa using hx)
          have := ih _ _ _ _ h
          rw [he] at this
          exact this

section LimitCases

variable (prog text : List Nat) (rec_ continue_ : Ptr → ExecuteContext → MatchResult)
  (hrec : ∀ p s, LimitKept s (rec_ p s)) (hcont : ∀ p s, LimitKept s (continue_ p s))

include hrec hcont in
theorem limitKept_case_BRANCH (fuel : Nat) (scan next : Ptr) (bip : Option Nat)
    (st : ExecuteContext) :
    LimitKept st (case_BRANCH prog rec_ continue_ fuel scan next bip st) := by
  unfold case_BRANCH
  split_ifs
  · exact hcont _ _
  · exact limitKept_branchLoop prog rec_ hrec _ _ _ _ _

include hcont in
theorem limitKept_case_EXACTLY (scan next : Ptr) (bip : Option Nat) (st : ExecuteContext) :
    LimitKept st (case_EXACTLY prog text continue_ scan next bip st) := by
  unfold case_EXACTLY
  simp only []
  split_ifs
  · exact limitKept_return _ _ _ _ (fun h => h) (fun _ _ => rfl)
  · exact limitKept_return _ _ _ _ (fun h => h) (fun _ _ => rfl)
  · exact limitKept_return _ _ _ _ (fun h => h) (fun _ _ => rfl)
  · exact limitKept_of_eq _ _ _ rfl (hcont _ _)

include hcont in
theorem limitKept_case_SIMILAR (scan next : Ptr) (bip : Option Nat) (st : ExecuteContext) :
    LimitKept st (case_SIMILAR prog text continue_ scan next bip st) := by
  unfold case_SIMILAR
  have h := similarLoop_limit text (cstring prog (OPERAND scan)) st
  rcases hs : similarLoop text (cstring prog (OPERAND scan)) st with ⟨b, st1⟩
  rw [hs] at h
  cases b
  · exact limitKept_return _ _ _ _ (fun h0 => by rw [h]; exact h0) (fun _ _ => rfl)
  · exact limitKept_of_eq _ _ _ h (hcont _ _)

include hrec in
theorem limitKept_case_REPEAT (fuel op : Nat) (scan next : Ptr) (bip : Option Nat)
    (st : ExecuteContext) :
    LimitKept st (case_REPEAT prog text rec_ fuel op scan next bip st) := by
  unfold case_REPEAT
  simp only []
  split
  · exact limitKept_none _
  · rename_i num st1 hstart
    have he : st1.Recursion_Limit_Exceeded = st.Recursion_Limit_Exceeded := by
      split_ifs at hstart <;>
        first
        | exact greedy_limit _ _ _ _ _ _ _ hstart
        | (simp only [Option.some.injEq, Prod.mk.injEq] at hstart; rw [← hstart.2])
    exact limitKept_of_eq _ _ _ he (limitKept_repeatLoop prog text rec_ hrec _ _ _ _ _ _ _ _ _ _ _)

include hcont in
theorem limitKept_case_COUNT (op : Nat) (scan next : Ptr) (st : ExecuteContext) :
    LimitKept st (case_COUNT prog continue_ op scan next st) := by
  unfold case_COUNT
  simp only []
  split_ifs
  · exact limitKept_of_eq _ _ _ rfl (hcont _ _)
  · exact limitKept_of_eq _ _ _ rfl (hcont _ _)
  · exact hcont _ _
  · exact hcont _ _

include hcont in
theorem limitKept_case_BACK_REF (op : Nat) (scan next : Ptr) (bip : Option Nat)
    (st : ExecuteContext) :
    LimitKept st (case_BACK_REF prog text continue_ op scan next bip st) := by
  unfold case_BACK_REF
  simp only []
  split
  · rename_i captured finish _ _
    split_ifs
    · exact limitKept_return _ _ _ _ (fun h => h) (fun _ _ => rfl)
    · have h := backRefLoop_limit text (decide (op = BACK_REF_CI)) (finish - captured) captured st
      rcases hs : backRefLoop text (decide (op = BACK_REF_CI)) (finish - captured) captured st
        with ⟨b, st1⟩
      rw [hs] at h
      cases b
      · exact limitKept_return _ _ _ _ (fun h0 => by rw [h]; exact h0) (fun _ _ => rfl)
      · exact limitKept_of_eq _ _ _ h (hcont _ _)
  · exact limitKept_return _ _ _ _ (fun h => h) (fun _ _ => rfl)

include hrec hcont in
theorem limitKept_case_AHEAD (op : Nat) (scan next : Ptr) (bip : Option Nat)
    (st : ExecuteContext) :
    LimitKept st (case_AHEAD prog rec_ continue_ op scan next bip st) := by
  unfold case_AHEAD
  simp only []
  have h := hrec next { st with End_Of_String := none }
  rcases hr : rec_ next { st with End_Of_String := none } with _ | ⟨b, bip1, st1⟩
  · exact limitKept_none _
  have h1 := h b bip1 st1 hr
  simp only []
  by_cases hx : st1.Recursion_Limit_Exceeded = true
  · rw [if_pos hx]
    exact limitKept_return _ _ _ _ h1.1 (fun _ _ => rfl)
  · rw [if_neg hx]
    have he : st1.Recursion_Limit_Exceeded = st.Recursion_Limit_Exceeded :=
      limit_cases { st with End_Of_String := none } st1 h1 (by simpa using hx)
    generalize (if op = POS_AHEAD_OPEN then b else !b) = c
    cases c
    · rw [if_neg (by simp)]
      exact limitKept_return _ _ _ _ (fun h0 => by simp only []; rw [he]; exact h0)
        (fun _ _ => rfl)
    · rw [if_pos rfl]
      split
      · exact limitKept_none _
      · exact limitKept_of_eq _ _ _ (by simp only []; rw [extentFW_limit, he]) (hcont _ _)

include hrec hcont in
theorem limitKept_case_BEHIND (op : Nat) (scan next : Ptr) (bip : Option Nat)
    (st : ExecuteContext) :
    LimitKept st (case_BEHIND prog rec_ continue_ op scan next bip st) := by
  unfold case_BEHIND
  simp only []
  have h := lookBehindLoop_limit (rec_ next) (fun s => hrec next s) st.Reg_Input
    (GET_UPPER prog scan + 1 - GET_LOWER prog scan) (GET_LOWER prog scan)
    { st with End_Of_String := some st.Reg_Input }
  rcases hr : lookBehindLoop (rec_ next) st.Reg_Input
      (GET_UPPER prog scan + 1 - GET_LOWER prog scan) (GET_LOWER prog scan)
      { st with End_Of_String := some st.Reg_Input } with _ | ⟨_ | found, st1⟩
  · exact limitKept_none _
  · have h1 := h _ _ hr
    exact limitKept_return _ _ _ _ h1.1 (fun _ _ => rfl)
  · have h1 := h _ _ hr
    have he : st1.Recursion_Limit_Exceeded = st.Recursion_Limit_Exceeded := by
      cases hs : st.Recursion_Limit_Exceeded
      · exact h1.2 hs (by simp)
      · exact h1.1 hs
    simp only []
    generalize (if op = POS_BEHIND_OPEN then found else !found) = c
    cases c
    · rw [if_neg (by simp)]
      exact limitKept_return _ _ _ _ (fun h0 => by simp only []; rw [he]; exact h0)
        (fun _ _ => rfl)
    · rw [if_pos rfl]
      split
      · exact limitKept_none _
      · exact limitKept_of_eq _ _ _ he (hcont _ _)

include hrec in
theorem limitKept_case_OPEN (no : Nat) (next : Ptr) (bip : Option Nat) (st : ExecuteContext) :
    LimitKept st (case_OPEN rec_ no next bip st) := by
  unfold case_OPEN
  simp only []
  generalize hst1 : (if no < 10 then
      { st with Back_Ref_Start := arraySet st.Back_Ref_Start no (some st.Reg_Input),
                Back_Ref_End := arraySet st.Back_Ref_End no none }
    else st) = st1
  have he : st1.Recursion_Limit_Exceeded = st.Recursion_Limit_Exceeded := by
    rw [← hst1]; split_ifs <;> rfl
  have h := hrec next st1
  rcases hr : rec_ next st1 with _ | ⟨b, bip1, st2⟩
  · exact limitKept_none _
  have h1 := h b bip1 st2 hr
  rw [he] at h1
  cases b
  · exact limitKept_return _ _ _ _ h1.1 (fun _ _ => rfl)
  · simp only []
    split_ifs
    · exact limitKept_return _ _ _ _ h1.1 (fun h0 hs => absurd (h1.2 h0 hs) (by simp))
    · exact limitKept_return _ _ _ _ h1.1 (fun h0 hs => absurd (h1.2 h0 hs) (by simp))

include hrec in
theorem limitKept_case_CLOSE (no : Nat) (next : Ptr) (bip : Option Nat) (st : ExecuteContext) :
    LimitKept st (case_CLOSE rec_ no next bip st) := by
  unfold case_CLOSE
  simp only []
  generalize hst1 : (if no < 10 then
      { st with Back_Ref_End := arraySet st.Back_Ref_End no (some st.Reg_Input) }
    else st) = st1
  have he : st1.Recursion_Limit_Exceeded = st.Recursion_Limit_Exceeded := by
    rw [← hst1]; split_ifs <;> rfl
  have h := hrec next st1
  rcases hr : rec_ next st1 with _ | ⟨b, bip1, st2⟩
  · exact limitKept_none _
  have h1 := h b bip1 st2 hr
  rw [he] at h1
  cases b
  · exact limitKept_return _ _ _ _ h1.1 (fun _ _ => rfl)
  · simp only []
    split_ifs
    · exact limitKept_return _ _ _ _ h1.1 (fun h0 hs => absurd (h1.2 h0 hs) (by simp))
    · exact limitKept_return _ _ _ _ h1.1 (fun h0 hs => absurd (h1.2 h0 hs) (by simp))

include hrec hcont in
theorem limitKept_matchNode (fuel : Nat) (scan : Ptr) (bip : Option Nat) (st : ExecuteContext) :
    LimitKept st (matchNode prog text rec_ continue_ fuel scan bip st) := by
  unfold matchNode
  lift_lets
  intro next op
  clear_value next op
  by_cases h0 : scan = Ptr.null
  · rw [if_pos h0]
    exact limitKept_return _ _ _ _ (fun h => h) (fun _ _ => rfl)
  rw [if_neg h0]
  by_cases h1 : op = BRANCH
  · rw [if_pos h1]
    exact limitKept_case_BRANCH prog rec_ continue_ hrec hcont _ _ _ _ _
  rw [if_neg h1]
  by_cases h2 : op = EXACTLY
  · rw [if_pos h2]
    exact limitKept_case_EXACTLY prog text continue_ hcont _ _ _ _
  rw [if_neg h2]
  by_cases h3 : op = SIMILAR
  · rw [if_pos h3]
    exact limitKept_case_SIMILAR prog text continue_ hcont _ _ _ _
  rw [if_neg h3]
  by_cases h4 : op = NOTHING ∨ op = BACK
  · rw [if_pos h4]
    exact hcont _ _
  rw [if_neg h4]
  by_cases h5 : op = STAR ∨ op = PLUS ∨ op = QUESTION ∨ op = BRACE ∨ op = LAZY_STAR ∨
      op = LAZY_PLUS ∨ op = LAZY_QUESTION ∨ op = LAZY_BRACE
  · rw [if_pos h5]
    exact limitKept_case_REPEAT prog text rec_ hrec _ _ _ _ _ _
  rw [if_neg h5]
  by_cases h6 : op = END
  · rw [if_pos h6]
    exact limitKept_return _ _ _ _ (fun h => by rw [extentFW_limit]; exact h)
      (fun h0 hs => by rw [extentFW_limit, h0] at hs; cases hs)
  rw [if_neg h6]
  by_cases h7 : op = INIT_COUNT ∨ op = INC_COUNT ∨ op = TEST_COUNT
  · rw [if_pos h7]
    exact limitKept_case_COUNT prog continue_ hcont _ _ _ _
  rw [if_neg h7]
  by_cases h8 : op = BACK_REF ∨ op = BACK_REF_CI
  · rw [if_pos h8]
    exact limitKept_case_BACK_REF prog text continue_ hcont _ _ _ _ _
  rw [if_neg h8]
  by_cases h9 : op = POS_AHEAD_OPEN ∨ op = NEG_AHEAD_OPEN
  · rw [if_pos h9]
    exact limitKept_case_AHEAD prog rec_ continue_ hrec hcont _ _ _ _ _
  rw [if_neg h9]
  by_cases h10 : op = POS_BEHIND_OPEN ∨ op = NEG_BEHIND_OPEN
  · rw [if_pos h10]
    exact limitKept_case_BEHIND prog rec_ continue_ hrec hcont _ _ _ _ _
  rw [if_neg h10]
  by_cases h11 : op = LOOK_AHEAD_CLOSE ∨ op = LOOK_BEHIND_CLOSE
  · rw [if_pos h11]
    exact limitKept_return _ _ _ _ (fun h => h) (fun h0 hs => by rw [h0] at hs; cases hs)
  rw [if_neg h11]
  rcases matchAnchorTest text st op with _ | ok
  · simp only []
    rcases matchCharTest prog scan st op (text.getD st.Reg_Input 0) with _ | ok
    · simp only []
      by_cases h12 : op > OPEN ∧ op < OPEN + NSUBEXP
      · rw [if_pos h12]
        exact limitKept_case_OPEN rec_ hrec _ _ _ _
      rw [if_neg h12]
      by_cases h13 : op > CLOSE ∧ op < CLOSE + NSUBEXP
      · rw [if_pos h13]
        exact limitKept_case_CLOSE rec_ hrec _ _ _ _
      rw [if_neg h13]
      exact limitKept_return _ _ _ _ (fun h => h) (fun _ _ => rfl)
    · simp only []
      cases ok
      · rw [if_neg (by simp)]
        exact limitKept_return _ _ _ _ (fun h => h) (fun _ _ => rfl)
      · rw [if_pos rfl]
        exact limitKept_of_eq _ _ _ rfl (hcont _ _)
  · simp only []
    cases ok
    · rw [if_neg (by simp)]
      exact limitKept_return _ _ _ _ (fun h => h) (fun _ _ => rfl)
    · rw [if_pos rfl]
      exact hcont _ _

end LimitCases

theorem limitKept_matchLoop (prog text : List Nat) :
    ∀ fuel scan bip st, LimitKept st (matchLoop prog text fuel scan bip st) := by
  intro fuel
  induction fuel with
  | zero => intro scan bip st; exact limitKept_none _
  | succ fuel ih =>
    intro scan bip st
    rw [matchLoop]
    exact limitKept_matchNode prog text _ _
      (fun p s => limitKept_matchEntry _ (fun p bip s => ih p bip s) p none s)
      (fun p s => ih p bip s) _ _ _ _

theorem limitKept_match (prog text : List Nat) (fuel : Nat) (p : Ptr) (bip : Option Nat)
    (st : ExecuteContext) : LimitKept st (match_ prog text fuel p bip st) :=
  limitKept_matchEntry _ (fun p bip s => limitKept_matchLoop prog text fuel p bip s) p bip st

/-- An attempt never clears the flag, and an attempt during which the limit is exceeded
fails. -/
theorem attempt_limit (text : List Nat) (fuel : Nat) (prog : regexp) (string : Nat)
    (st : ExecuteContext) (b : Bool) (r : regexp) (st' : ExecuteContext)
    (h : attempt text fuel prog string st = some (b, r, st')) :
    (st.Recursion_Limit_Exceeded = true → st'.Recursion_Limit_Exceeded = true) ∧
    (st.Recursion_Limit_Exceeded = false → st'.Recursion_Limit_Exceeded = true → b = false) := by
  unfold attempt at h
  simp only [] at h
  have hk := limitKept_match prog.program text fuel (Ptr.prog REGEX_START_OFFSET) (some 0)
    { st with
      Reg_Input := string
      Start_Ptr_Ptr := fill_n prog.startp (st.Total_Paren + 1) none
      End_Ptr_Ptr := fill_n prog.endp (st.Total_Paren + 1) none
      Recursion_Count := 0
      Extent_Ptr_BW := some string
      Extent_Ptr_FW := none }
  rcases hm : match_ prog.program text fuel (Ptr.prog REGEX_START_OFFSET) (some 0)
    { st with
      Reg_Input := string
      Start_Ptr_Ptr := fill_n prog.startp (st.Total_Paren + 1) none
      End_Ptr_Ptr := fill_n prog.endp (st.Total_Paren + 1) none
      Recursion_Count := 0
      Extent_Ptr_BW := some string
      Extent_Ptr_FW := none } with _ | ⟨b1, bip1, st1⟩
  · rw [hm] at h; cases h
  · rw [hm] at h
    have h1 := hk b1 bip1 st1 hm
    cases b1
    · simp only [Option.some.injEq, Prod.mk.injEq] at h
      obtain ⟨rfl, -, rfl⟩ := h
      exact ⟨h1.1, fun _ _ => rfl⟩
    · simp only [Option.some.injEq, Prod.mk.injEq] at h
      obtain ⟨rfl, -, rfl⟩ := h
      exact ⟨h1.1, fun h0 hs => absurd (h1.2 h0 hs) (by simp)⟩

/-- Once the flag is set, the forward search tries no further start position. -/
theorem searchForward_stops (text : List Nat) (fuel kind : Nat) (end_ : Option Nat) (n str : Nat)
    (prog : regexp) (st : ExecuteContext) (h : st.Recursion_Limit_Exceeded = true) :
    searchForward text fuel kind end_ (n + 1) str prog st = some (false, str, prog, st) := by
  rw [searchForward]
  simp [h]

/-- Once the flag is set, the reverse search tries no further start position. -/
theorem searchBackward_stops (text : List Nat) (fuel kind string n : Nat)
    (prog : regexp) (st : ExecuteContext) (h : st.Recursion_Limit_Exceeded = true) :
    searchBackward text fuel kind string n prog st = some (false, prog, st) := by
  cases n with
  | zero => rfl
  | succ n => rw [searchBackward]; simp [h]

theorem searchForward_limit (text : List Nat) (fuel kind : Nat) (end_ : Option Nat) :
    ∀ n str prog st b str' r st',
      searchForward text fuel kind end_ n str prog st = some (b, str', r, st') →
      (st.Recursion_Limit_Exceeded = true → st'.Recursion_Limit_Exceeded = true) ∧
      (st'.Recursion_Limit_Exceeded = true → b = false) := by
  intro n
  induction n with
  | zero => intro str prog st b str' r st' h; simp [searchForward] at h
  | succ n ih =>
    intro str prog st b str' r st' h
    cases hs : st.Recursion_Limit_Exceeded
    swap
    · rw [searchForward_stops _ _ _ _ _ _ _ _ hs] at h
      simp only [Option.some.injEq, Prod.mk.injEq] at h
      obtain ⟨rfl, -, -, rfl⟩ := h
      exact ⟨fun _ => hs, fun _ => rfl⟩
    rw [searchForward] at h
    by_cases hc : (!AT_END_OF_STRING st str) = true ∧ some str ≠ end_ ∧
        (!st.Recursion_Limit_Exceeded) = true
    swap
    · rw [if_neg hc] at h
      simp only [Option.some.injEq, Prod.mk.injEq] at h
      obtain ⟨rfl, -, -, rfl⟩ := h
      exact ⟨fun h => by simp at h, fun _ => rfl⟩
    rw [if_pos hc] at h
    simp only [] at h
    have hfin : ∀ b str' r st', searchForward text fuel kind end_ n (str + 1) prog st
          = some (b, str', r, st') →
        (false = true → st'.Recursion_Limit_Exceeded = true) ∧
        (st'.Recursion_Limit_Exceeded = true → b = false) := by
      intro b str' r st' h
      have := ih _ _ _ _ _ _ _ h
      exact ⟨fun h => by simp at h, this.2⟩
    by_cases h0 : kind = 0 ∧ text.getD str 0 ≠ 10
    · rw [if_pos h0] at h
      exact hfin _ _ _ _ h
    rw [if_neg h0] at h
    by_cases h1 : kind = 1 ∧ text.getD str 0 ≠ prog.match_start
    · rw [if_pos h1] at h
      exact hfin _ _ _ _ h
    rw [if_neg h1] at h
    rcases ha : attempt text fuel prog (if kind = 0 then str + 1 else str) st
      with _ | ⟨b1, r1, st1⟩
    · rw [ha] at h; cases h
    · rw [ha] at h
      have hl := attempt_limit _ _ _ _ _ _ _ _ ha
      cases b1
      · simp only [] at h
        have := ih _ _ _ _ _ _ _ h
        exact ⟨fun h => by simp at h, this.2⟩
      · simp only [Option.some.injEq, Prod.mk.injEq] at h
        obtain ⟨rfl, -, -, rfl⟩ := h
        exact ⟨fun h => by simp at h, fun hx => absurd (hl.2 hs hx) (by simp)⟩

theorem searchBackward_limit (text : List Nat) (fuel kind string : Nat) :
    ∀ n prog st b r st',
      searchBackward text fuel kind string n prog st = some (b, r, st') →
      (st.Recursion_Limit_Exceeded = true → st'.Recursion_Limit_Exceeded = true) ∧
      (st'.Recursion_Limit_Exceeded = true → b = false) := by
  intro n
  induction n with
  | zero =>
    intro prog st b r st' h
    simp only [searchBackward, Option.some.injEq, Prod.mk.injEq] at h
    obtain ⟨rfl, -, rfl⟩ := h
    exact ⟨fun h => h, fun _ => rfl⟩
  | succ n ih =>
    intro prog st b r st' h
    cases hs : st.Recursion_Limit_Exceeded
    swap
    · rw [searchBackward_stops _ _ _ _ _ _ _ hs] at h
      simp only [Option.some.injEq, Prod.mk.injEq] at h
      obtain ⟨rfl, -, rfl⟩ := h
      exact ⟨fun _ => hs, fun _ => rfl⟩
    rw [searchBackward] at h
    simp only [hs, Bool.not_false, if_true] at h
    have hfin : ∀ b r st', searchBackward text fuel kind string n prog st = some (b, r, st') →
        (false = true → st'.Recursion_Limit_Exceeded = true) ∧
        (st'.Recursion_Limit_Exceeded = true → b = false) := by
      intro b r st' h
      have := ih _ _ _ _ _ h
      exact ⟨fun h => by simp at h, this.2⟩
    by_cases h0 : kind = 0 ∧ text.getD (string + n) 0 ≠ 10
    · rw [if_pos h0] at h
      exact hfin _ _ _ h
    rw [if_neg h0] at h
    by_cases h1 : kind = 1 ∧ text.getD (string + n) 0 ≠ prog.match_start
    · rw [if_pos h1] at h
      exact hfin _ _ _ h
    rw [if_neg h1] at h
    rcases ha : attempt text fuel prog (if kind = 0 then string + n + 1 else string + n) st
      with _ | ⟨b1, r1, st1⟩
    · rw [ha] at h; cases h
    · rw [ha] at h
      have hl := attempt_limit _ _ _ _ _ _ _ _ ha
      cases b1
      · simp only [] at h
        have := ih _ _ _ _ _ h
        exact ⟨fun h => by simp at h, this.2⟩
      · simp only [Option.some.injEq, Prod.mk.injEq] at h
        obtain ⟨rfl, -, rfl⟩ := h
        exact ⟨fun h => by simp at h, fun hx => absurd (hl.2 hs hx) (by simp)⟩

/-- A call of `ExecRE` that ends with the flag set returns `false`. -/
theorem ExecRE_limit (text : List Nat) (fuel : Nat) (Default_Delimiters : Nat) (prog : regexp)
    (st0 : ExecuteContext) (string : Nat) (end0 : Option Nat) (reverse : Bool)
    (prev_char succ_char0 : Nat) (delimiters : Option (List Nat))
    (look_behind_to match_to : Option Nat) (found : Bool) (r : regexp) (st : ExecuteContext)
    (h : ExecRE text fuel Default_Delimiters prog st0 string end0 reverse prev_char succ_char0
      delimiters look_behind_to match_to = some (found, r, st))
    (hx : st.Recursion_Limit_Exceeded = true) : found = false := by
  unfold ExecRE at h
  by_cases hmagic : prog.program.getD 0 0 = MAGIC
  swap
  · rw [if_pos hmagic] at h
    simp only [Option.some.injEq, Prod.mk.injEq] at h
    exact h.1.symm
  rw [if_neg (not_not.mpr hmagic)] at h
  simp only [] at h
  split at h
  · cases h
  · split at h
    · cases h
    · rename_i ret_val prog2 st2 _
      by_cases hf : st2.Recursion_Limit_Exceeded = true
      · rw [if_pos hf] at h
        simp only [Option.some.injEq, Prod.mk.injEq] at h
        exact h.1.symm
      · rw [if_neg hf] at h
        simp only [Option.some.injEq, Prod.mk.injEq] at h
        obtain ⟨-, -, rfl⟩ := h
        exact absurd hx hf

/-- C18: the recursion ceiling.  A call of `match` entered at the ceiling sets
`Recursion_Limit_Exceeded` and returns failure; no call of `match` and no attempt ever
clears the flag, and every call of `match` and every attempt during which it is set
returns failure; once it is set the search loops of `ExecRE` try no further start
position and never report success; and a call of `ExecRE` that ends with the flag set
returns `false`. -/
theorem recursion_limit_aborts_execute (prog text : List Nat) (fuel : Nat) :
    (∀ (p : Ptr) (bip : Option Nat) (st : ExecuteContext),
      (st.Recursion_Count + 1 > REGEX_RECURSION_LIMIT →
        ∃ st', match_ prog text fuel p bip st = some (false, bip, st') ∧
          st'.Recursion_Limit_Exceeded = true) ∧
      ∀ b bip' st', match_ prog text fuel p bip st = some (b, bip', st') →
        (st.Recursion_Limit_Exceeded = true → st'.Recursion_Limit_Exceeded = true) ∧
        (st.Recursion_Limit_Exceeded = false → st'.Recursion_Limit_Exceeded = true →
          b = false)) ∧
    (∀ (re : regexp) (string : Nat) (st : ExecuteContext) (b : Bool) (r : regexp)
      (st' : ExecuteContext), attempt text fuel re string st = some (b, r, st') →
      (st.Recursion_Limit_Exceeded = true → st'.Recursion_Limit_Exceeded = true) ∧
      (st.Recursion_Limit_Exceeded = false → st'.Recursion_Limit_Exceeded = true →
        b = false)) ∧
    (∀ (kind : Nat) (end_ : Option Nat) (n str : Nat) (re : regexp) (st : ExecuteContext),
      (st.Recursion_Limit_Exceeded = true →
        searchForward text fuel kind end_ (n + 1) str re st = some (false, str, re, st)) ∧
      ∀ b str' r st', searchForward text fuel kind end_ n str re st = some (b, str', r, st') →
        (st.Recursion_Limit_Exceeded = true → st'.Recursion_Limit_Exceeded = true) ∧
        (st'.Recursion_Limit_Exceeded = true → b = false)) ∧
    (∀ (kind string n : Nat) (re : regexp) (st : ExecuteContext),
      (st.Recursion_Limit_Exceeded = true →
        searchBackward text fuel kind string n re st = some (false, re, st)) ∧
      ∀ b r st', searchBackward text fuel kind string n re st = some (b, r, st') →
        (st.Recursion_Limit_Exceeded = true → st'.Recursion_Limit_Exceeded = true) ∧
        (st'.Recursion_Limit_Exceeded = true → b = false)) ∧
    (∀ (Default_Delimiters : Nat) (re : regexp) (st0 : ExecuteContext) (string : Nat)
      (end0 : Option Nat) (reverse : Bool) (prev_char succ_char : Nat)
      (delimiters : Option (List Nat)) (look_behind_to match_to : Option Nat) (found : Bool)
      (r : regexp) (st : ExecuteContext),
      ExecRE text fuel Default_Delimiters re st0 string end0 reverse prev_char succ_char
        delimiters look_behind_to match_to = some (found, r, st) →
      st.Recursion_Limit_Exceeded = true → found = false) := by
  refine ⟨?_, ?_, ?_, ?_, ?_⟩
  · intro p bip st
    constructor
    · intro hlim
      rw [match_eq, if_pos hlim]
      exact ⟨_, rfl, rfl⟩
    · intro b bip' st' h
      exact limitKept_match prog text fuel p bip st b bip' st' h
  · intro re string st b r st' h
    exact attempt_limit _ _ _ _ _ _ _ _ h
  · intro kind end_ n str re st
    exact ⟨searchForward_stops _ _ _ _ _ _ _ _,
      fun b str' r st' h => searchForward_limit _ _ _ _ _ _ _ _ _ _ _ _ h⟩
  · intro kind string n re st
    exact ⟨searchBackward_stops _ _ _ _ _ _ _,
      fun b r st' h => searchBackward_limit _ _ _ _ _ _ _ _ _ _ h⟩
  · intro dd re st0 string end0 reverse pc sc delims lbt mt found r st h hx
    exact ExecRE_limit _ _ _ _ _ _ _ _ _ _ _ _ _ _ _ _ h hx

/-- C18, at the program of `a(b|c)+d`: a call of `match` entered with the recursion
counter at the ceiling fails and sets the flag, and a forward search entered with the
flag set stops at once. -/
theorem recursion_limit_aborts_execute_witness :
    (∃ st', match_ program_alt_plus (strBytes "abd") 50 (Ptr.prog 3) none
        { initialContext with Recursion_Count := REGEX_RECURSION_LIMIT } = some (false, none, st') ∧
      st'.Recursion_Limit_Exceeded = true) ∧
    ∀ re : regexp, searchForward (strBytes "abd") 50 2 (some 3) (0 + 1) 0 re
        { initialContext with Recursion_Limit_Exceeded := true }
      = some (false, 0, re, { initialContext with Recursion_Limit_Exceeded := true }) :=
  ⟨((recursion_limit_aborts_execute program_alt_plus (strBytes "abd") 50).1 (Ptr.prog 3) none
      { initialContext with Recursion_Count := REGEX_RECURSION_LIMIT }).1 (by decide),
    fun re => ((recursion_limit_aborts_execute program_alt_plus (strBytes "abd") 50).2.2.1 2
      (some 3) 0 0 re { initialContext with Recursion_Limit_Exceeded := true }).1 rfl⟩

/-! ## Inputs on which `ExecRE` departs from its description -/

/-- C12, a failing input: on `"ab1"` the lazy pattern `a*?\w\d` is reported to match at
`[1, 3)`; the attempt at position 0 fails although one repetition of `a` followed by
`\w\d` matches there, as the greedy pattern `a*\w\d`, reported at `[0, 3)`, shows.  After
the continuation has failed, the lazy loop tests the next repetition at the position where
the failure left `Reg_Input`, not directly after the repetitions matched so far. -/
theorem lazy_repetition_misses_smallest_count :
    compileAndExecuteRange 100 (strBytes "a*?\\w\\d") (strBytes "ab1") 0 3
      = some (true, some 1, some 3) ∧
    compileAndAttempt 100 (strBytes "a*?\\w\\d") (strBytes "ab1") 0 3 0
      = some (false, none, none) ∧
    compileAndExecuteRange 100 (strBytes "a*\\w\\d") (strBytes "ab1") 0 3
      = some (true, some 0, some 3) := by
  refine ⟨?_, ?_, ?_⟩ <;> decide!

/-- C15, a failing input: in a global context not used before, `(?:b|(a))\1` does not
match `"bb"`; in the context left behind by a search of `"bb"` with `(b)`, the same call
reports a match at `[0, 2)`, with group 1 not set.  `Back_Ref_Start` and `Back_Ref_End`
are never reset. -/
theorem execute_depends_on_earlier_call :
    (compileAndExecute 100 (strBytes "(?:b|(a))\\1") 0 (strBytes "bb")).map (fun r => r.1)
        = some false ∧
      (executeAfter 100 (strBytes "(b)") (strBytes "(?:b|(a))\\1") (strBytes "bb")).map
        (fun r => (r.1, r.2.take 2)) = some (true, [(some 0, some 2), (none, none)]) := by
  constructor <;> decide!

/-- C16, a failing input: on `"aba"` the pattern `(?:b|(a))\1` is reported to match at
`[1, 3)` with group 1 not set: the attempt at position 1 takes the alternative `b`, and
`\1` is compared with the `a` that group 1 captured in the failed attempt at position 0. -/
theorem backref_uses_capture_of_earlier_attempt :
    (compileAndExecute 100 (strBytes "(?:b|(a))\\1") 0 (strBytes "aba")).map
        (fun r => (r.1, r.2.2.take 2))
      = some (true, [(some 1, some 3), (none, none)]) := by decide!

/-- C17, failing inputs: searching `"ab"` forward from 0 with end offset 2, `$` is not
found although the attempt at position 2 succeeds; with end offset 1, `b` is not found
although the attempt at position 1 succeeds.  The loops of the forward search stop
before `end`; only the anchored search, as for `^b` on `"a\nb"` with end offset 2, makes
an attempt at `end`. -/
theorem forward_search_never_begins_at_end :
    compileAndExecuteRange 100 (strBytes "$") (strBytes "ab") 0 2 = some (false, none, none) ∧
    compileAndAttempt 100 (strBytes "$") (strBytes "ab") 0 2 2 = some (true, some 2, some 2) ∧
    compileAndExecuteRange 100 (strBytes "b") (strBytes "ab") 0 1
      = some (false, some 0, some 0) ∧
    compileAndAttempt 100 (strBytes "b") (strBytes "ab") 0 1 1 = some (true, some 1, some 2) ∧
    compileAndExecuteRange 100 (strBytes "^b") (strBytes "a\nb") 0 2
      = some (true, some 2, some 3) := by
  refine ⟨?_, ?_, ?_, ?_, ?_⟩ <;> decide!
/-- C14, a failing input: compiled case-insensitively, the class `[Z-Z]` gets the operand
`zZ`, the six characters from `'['` to the back quote, and both cases of every letter
from `a` to `z`, so it matches `"a"` and `"_"`; the class `[Y-Z]` does not match `"a"`.
The loop over the range starts at the lower-case form of `last_emit + 1`, which for
`last_emit = 'Z'` is `'['`, and runs up to `'z'`. -/
theorem class_range_from_upper_Z_overruns :
    compiled (strBytes "[Z-Z]") REDFLT_CASE_INSENSITIVE
      = Except.ok ([156, 0, 0, 34, 0, 67, 9, 0, 64, 122, 90, 91, 92, 93, 94, 95, 96, 97, 65,
          98, 66, 99, 67, 100, 68, 101, 69, 102, 70, 103, 71, 104, 72, 105, 73, 106, 74, 107,
          75, 108, 76, 109, 77, 110, 78, 111, 79, 112, 80, 113, 81, 114, 82, 115, 83, 116, 84,
          117, 85, 118, 86, 119, 87, 120, 88, 121, 89, 122, 90, 0, 1, 0, 0], 0, 0) ∧
    (compileAndExecute 100 (strBytes "[Z-Z]") REDFLT_CASE_INSENSITIVE (strBytes "a")).map
        (fun r => (r.1, r.2.2.take 1)) = some (true, [(some 0, some 1)]) ∧
    (compileAndExecute 100 (strBytes "[Z-Z]") REDFLT_CASE_INSENSITIVE (strBytes "_")).map
        (fun r => (r.1, r.2.2.take 1)) = some (true, [(some 0, some 1)]) ∧
    (compileAndExecute 100 (strBytes "[Y-Z]") REDFLT_CASE_INSENSITIVE (strBytes "a")).map
        (fun r => r.1) = some false := by
  refine ⟨?_, ?_, ?_, ?_⟩ <;> decide!

/-! ## Patterns that are one literal string -/

theorem alpha_ordinary {x : Nat} (hx : isalpha x = true) : isOrdinaryChar x := by
  have hmc : Default_Meta_Char = [123, 46, 42, 43, 63, 91, 40, 124, 41, 94, 60, 62, 36] := by
    decide
  have hx' : (65 ≤ x ∧ x ≤ 90) ∨ (97 ≤ x ∧ x ≤ 122) := by
    simp [isalpha, isupper, islower] at hx; omega
  constructor
  · simp [strchr, hmc]; omega
  · omega

theorem headD_not_quantifier (P : List Nat) (hord : ∀ x ∈ P, isOrdinaryChar x)
    (ctx : ParseContext) (hB : ctx.Brace_Char = 123) :
    IS_QUANTIFIER ctx (P.headD 0) = false := by
  cases P with
  | nil => simp [IS_QUANTIFIER, hB]
  | cons x P =>
    have h := ordinaryChar_ne (hord x (List.mem_cons_self _ _))
    simp [IS_QUANTIFIER, hB]
    omega

theorem emit_byte_sizing (c : Nat) (ctx : ParseContext) (h : ctx.Code_Emit_Ptr = Compute_Size) :
    emit_byte c ctx = Except.ok (PUnit.unit, { ctx with Reg_Size := ctx.Reg_Size + 1 }) := by
  simp only [emit_byte, h, if_true]

theorem emit_node_sizing (op : Nat) (ctx : ParseContext) (h : ctx.Code_Emit_Ptr = Compute_Size) :
    emit_node op ctx
      = Except.ok (Compute_Size, { ctx with Reg_Size := ctx.Reg_Size + NODE_SIZE }) := by
  simp only [emit_node, h, if_true]

/-- The literal loop of `atom` in the sizing pass over a run `P` of ordinary characters
that ends the pattern: every character is counted. -/
theorem atomLiteralLoop_run_sizing (P : List Nat) :
    ∀ (fuel len : Nat) (ctx : ParseContext), (∀ x ∈ P, isOrdinaryChar x) → ctx.ahead = P →
      P.length < fuel → ctx.Meta_Char = Default_Meta_Char → ctx.Brace_Char = 123 →
      ctx.Code_Emit_Ptr = Compute_Size →
      atomLiteralLoop fuel len ctx
        = Except.ok (len + P.length,
            { ctx with Reg_Parse := ctx.Reg_Parse + P.length,
                       Reg_Size := ctx.Reg_Size + P.length }) := by
  induction P with
  | nil =>
    intro fuel len ctx _ hah hf hM hB hP
    obtain ⟨f, rfl⟩ : ∃ f, fuel = f + 1 := ⟨fuel - 1, by simp at hf; omega⟩
    have hpk : ctx.peek = 0 := by rw [peek_eq_ahead, hah]; rfl
    have hm0 : strchr ctx.Meta_Char 0 = true := by simp [strchr]
    rw [atomLiteralLoop]
    simp only [comp_bind, comp_get, hpk, hm0, Bool.not_true,
      Bool.false_eq_true, and_false, if_false, comp_pure, List.length_nil, Nat.add_zero]
  | cons x P ih =>
    intro fuel len ctx hord hah hf hM hB hP
    obtain ⟨f, rfl⟩ : ∃ f, fuel = f + 1 := ⟨fuel - 1, by simp at hf; omega⟩
    have hx := hord x (List.mem_cons_self _ _)
    have hpk : ctx.peek = x := by rw [peek_eq_ahead, hah]; rfl
    have hlen := length_of_ahead ctx _ hah (by simp)
    simp only [List.length_cons] at hlen
    have hend : ctx.atEnd = false := by
      simp only [ParseContext.atEnd, decide_eq_false_iff_not]; omega
    have hah2 := ahead_advance ctx x P hah
    have hxm : strchr ctx.Meta_Char x = false := by rw [hM]; exact hx.1
    have hq := headD_not_quantifier P (fun y hy => hord y (List.mem_cons_of_mem _ hy))
      { ctx with Reg_Size := ctx.Reg_Size + 1, Reg_Parse := ctx.Reg_Parse + 1 } hB
    have hpk2 : ({ ctx with Reg_Size := ctx.Reg_Size + 1, Reg_Parse := ctx.Reg_Parse + 1 }
        : ParseContext).peek = P.headD 0 := by
      rw [peek_eq_ahead]
      exact congrArg (fun l => List.headD l 0) hah2
    rw [atomLiteralLoop]
    simp only [comp_bind, comp_get, hend, hpk, hxm, hx.2, Bool.not_false, Bool.not_true,
      and_self, if_true, if_false, emit_byte_sizing _ ctx hP, comp_advance, comp_pure, hpk2,
      hq, Bool.false_eq_true, false_and]
    rw [ih f (len + 1) _ (fun y hy => hord y (List.mem_cons_of_mem _ hy)) ?_
      (by simp at hf; omega) ?_ ?_ ?_]
    · simp only [List.length_cons]
      congr 2
      · omega
      · simp only [ParseContext.mk.injEq, and_true, true_and]
        constructor <;> omega
    · exact hah2
    · exact hM
    · exact hB
    · exact hP

theorem emit_byte_emitting (c : Nat) (ctx : ParseContext) (k : Nat)
    (h : ctx.Code_Emit_Ptr = Ptr.prog k) :
    emit_byte c ctx = Except.ok (PUnit.unit,
      { ctx with program := ctx.program.set k (c % 256), Code_Emit_Ptr := Ptr.prog (k + 1) }) := by
  simp only [emit_byte, h, Compute_Size, reduceCtorEq, if_false, poke, Ptr.add]
  rfl

theorem emit_node_emitting (op : Nat) (ctx : ParseContext) (k : Nat)
    (h : ctx.Code_Emit_Ptr = Ptr.prog k) :
    emit_node op ctx = Except.ok (Ptr.prog k,
      { ctx with program := ((ctx.program.set k (op % 256)).set (k + 1) 0).set (k + 2) 0,
                 Code_Emit_Ptr := Ptr.prog (k + 3) }) := by
  simp only [emit_node, h, Compute_Size, reduceCtorEq, if_false, poke, Ptr.add]
  rfl

theorem set_append_length (A Z : List Nat) (z v : Nat) :
    (A ++ z :: Z).set A.length v = A ++ v :: Z := by
  induction A with
  | nil => rfl
  | cons a A ih => simp [ih]

/-- The literal loop of `atom` in the emitting pass over a run `P` of ordinary characters
that ends the pattern: the characters (lower-cased when the pattern is case insensitive)
are stored one after the other at the emit pointer. -/
theorem atomLiteralLoop_run_emitting (P : List Nat) :
    ∀ (fuel len : Nat) (ctx : ParseContext) (A Z : List Nat), (∀ x ∈ P, isOrdinaryChar x) →
      ctx.ahead = P → P.length < fuel → ctx.Meta_Char = Default_Meta_Char →
      ctx.Brace_Char = 123 → ctx.Code_Emit_Ptr = Ptr.prog A.length → ctx.program = A ++ Z →
      P.length ≤ Z.length →
      atomLiteralLoop fuel len ctx
        = Except.ok (len + P.length,
            { ctx with
              Reg_Parse := ctx.Reg_Parse + P.length
              program := A ++ P.map (fun c =>
                (if ctx.Is_Case_Insensitive = true then tolower c else c) % 256) ++ Z.drop P.length
              Code_Emit_Ptr := Ptr.prog (A.length + P.length) }) := by
  induction P with
  | nil =>
    intro fuel len ctx A Z _ hah hf hM hB hP hprog hZ
    obtain ⟨f, rfl⟩ : ∃ f, fuel = f + 1 := ⟨fuel - 1, by simp at hf; omega⟩
    have hpk : ctx.peek = 0 := by rw [peek_eq_ahead, hah]; rfl
    have hm0 : strchr ctx.Meta_Char 0 = true := by simp [strchr]
    rw [atomLiteralLoop]
    simp only [comp_bind, comp_get, hpk, hm0, Bool.not_true,
      Bool.false_eq_true, and_false, if_false, comp_pure, List.length_nil, Nat.add_zero,
      List.map_nil, List.append_nil, List.drop_zero]
    rw [← hprog, ← hP]
  | cons x P ih =>
    intro fuel len ctx A Z hord hah hf hM hB hP hprog hZ
    obtain ⟨f, rfl⟩ : ∃ f, fuel = f + 1 := ⟨fuel - 1, by simp at hf; omega⟩
    obtain ⟨z, Z', rfl⟩ : ∃ z Z', Z = z :: Z' := by
      cases Z with
      | nil => simp at hZ
      | cons z Z' => exact ⟨z, Z', rfl⟩
    have hx := hord x (List.mem_cons_self _ _)
    have hpk : ctx.peek = x := by rw [peek_eq_ahead, hah]; rfl
    have hlen := length_of_ahead ctx _ hah (by simp)
    simp only [List.length_cons] at hlen
    have hend : ctx.atEnd = false := by
      simp only [ParseContext.atEnd, decide_eq_false_iff_not]; omega
    have hah2 := ahead_advance ctx x P hah
    have hxm : strchr ctx.Meta_Char x = false := by rw [hM]; exact hx.1
    generalize hv : (if ctx.Is_Case_Insensitive = true then tolower x else x) = v
    have hq := headD_not_quantifier P (fun y hy => hord y (List.mem_cons_of_mem _ hy))
      { ctx with
        program := ctx.program.set A.length (v % 256)
        Code_Emit_Ptr := Ptr.prog (A.length + 1)
        Reg_Parse := ctx.Reg_Parse + 1 } hB
    have hpk2 : ({ ctx with
        program := ctx.program.set A.length (v % 256)
        Code_Emit_Ptr := Ptr.prog (A.length + 1)
        Reg_Parse := ctx.Reg_Parse + 1 } : ParseContext).peek = P.headD 0 := by
      rw [peek_eq_ahead]
      exact congrArg (fun l => List.headD l 0) hah2
    have hne : ¬ (Ptr.prog (A.length + 1) = Compute_Size) := by simp [Compute_Size]
    rw [atomLiteralLoop]
    simp only [comp_bind, comp_get, hend, hpk, hxm, hx.2, Bool.not_false, Bool.not_true,
      and_self, if_true, if_false, emit_byte_emitting _ ctx _ hP, comp_advance, comp_pure, hpk2,
      hq, Bool.false_eq_true, false_and, hv]
    rw [ih f (len + 1) _ (A ++ [v % 256]) Z' (fun y hy => hord y (List.mem_cons_of_mem _ hy))
      ?_ (by simp at hf; omega) ?_ ?_ ?_ ?_ (by simp at hZ; omega)]
    · simp only [List.length_cons, List.length_append, List.length_nil, List.map_cons, hv,
        List.drop_succ_cons, List.append_assoc, List.singleton_append]
      congr 2
      · omega
      · simp only [ParseContext.mk.injEq, and_true, true_and]
        refine ⟨by omega, ?_⟩
        congr 1
        omega
    · exact hah2
    · exact hM
    · exact hB
    · simp
    · show ctx.program.set A.length (v % 256) = A ++ [v % 256] ++ Z'
      rw [hprog, set_append_length]
      simp

set_option maxHeartbeats 4000000 in
/-- The function `atom` in the sizing pass on a run `x :: P` of ordinary characters that
ends the pattern. -/
theorem atom_run_sizing (chunk : Nat → Comp Ret) (ctx : ParseContext) (x : Nat) (P : List Nat)
    (hord : ∀ y ∈ x :: P, isOrdinaryChar y) (hah : ctx.ahead = x :: P)
    (hM : ctx.Meta_Char = Default_Meta_Char) (hB : ctx.Brace_Char = 123)
    (hP : ctx.Code_Emit_Ptr = Compute_Size) :
    atom chunk ctx = Except.ok
      ((Compute_Size, (if P.length + 1 = 1 then WORST ||| HAS_WIDTH ||| SIMPLE else WORST ||| HAS_WIDTH),
        { lower := ((P.length + 1 : Nat) : Int), upper := ((P.length + 1 : Nat) : Int) }),
      { ctx with Reg_Parse := ctx.Reg_Parse + (P.length + 1),
                 Reg_Size := ctx.Reg_Size + NODE_SIZE + (P.length + 1) + 1 }) := by
  have hx := hord x (List.mem_cons_self _ _)
  have hpk : ctx.peek = x := by rw [peek_eq_ahead, hah]; rfl
  have hx' := ordinaryChar_ne hx
  have hne : ctx.peek ≠ 40 := by rw [hpk]; omega
  have hlen := length_of_ahead ctx _ hah (by simp)
  simp only [List.length_cons] at hlen
  have hend : ctx.atEnd = false := by
    simp only [ParseContext.atEnd, decide_eq_false_iff_not]; omega
  have c1 : x ≠ 94 := by omega
  have c2 : x ≠ 36 := by omega
  have c3 : x ≠ 60 := by omega
  have c4 : x ≠ 62 := by omega
  have c5 : x ≠ 46 := by omega
  have c6 : x ≠ 40 := by omega
  have c7 : x ≠ 124 := by omega
  have c8 : x ≠ 41 := by omega
  have c9 : x ≠ 63 := by omega
  have c10 : x ≠ 43 := by omega
  have c11 : x ≠ 42 := by omega
  have c12 : x ≠ 123 := by omega
  have c13 : x ≠ 91 := by omega
  have c14 : x ≠ 92 := by omega
  unfold atom
  simp only [comp_bind, comp_get, atomComments_none _ ctx hne, hend, Bool.false_eq_true, if_false,
    comp_pure, comp_advance, hpk, c1, c2, c3, c4, c5, c6, c7, c8, c9, c10, c11, c12, c13, c14,
    false_or, or_false, false_and, comp_retreat, Nat.add_sub_cancel]
  rw [emit_node_sizing _ _ hP]
  simp only []
  rw [atomLiteralLoop_run_sizing (x :: P) _ 0 _ hord ?_ ?_ ?_ ?_ ?_]
  · simp only [List.length_cons, Nat.zero_add]
    rw [if_neg (by omega)]
    simp only [comp_bind, comp_pure]
    rw [emit_byte_sizing _ _ (by exact hP)]
  · exact hah
  · show (x :: P).length < ctx.InputString.length + 1
    simp only [List.length_cons]; omega
  · exact hM
  · exact hB
  · exact hP

theorem emit_byte_at (c : Nat) (ctx : ParseContext) (A Z : List Nat)
    (h : ctx.Code_Emit_Ptr = Ptr.prog A.length) (hprog : ctx.program = A ++ Z)
    (hZ : 1 ≤ Z.length) :
    emit_byte c ctx = Except.ok (PUnit.unit,
      { ctx with program := A ++ [c % 256] ++ Z.drop 1,
                 Code_Emit_Ptr := Ptr.prog (A.length + 1) }) := by
  obtain ⟨z, Z', rfl⟩ : ∃ z Z', Z = z :: Z' := by
    cases Z with
    | nil => simp at hZ
    | cons z Z' => exact ⟨z, Z', rfl⟩
  rw [emit_byte_emitting c ctx _ h, hprog, set_append_length]
  simp

theorem emit_node_at (op : Nat) (ctx : ParseContext) (A Z : List Nat)
    (h : ctx.Code_Emit_Ptr = Ptr.prog A.length) (hprog : ctx.program = A ++ Z)
    (hZ : 3 ≤ Z.length) :
    emit_node op ctx = Except.ok (Ptr.prog A.length,
      { ctx with program := A ++ [op % 256, 0, 0] ++ Z.drop 3,
                 Code_Emit_Ptr := Ptr.prog (A.length + 3) }) := by
  obtain ⟨z1, z2, z3, Z', rfl⟩ : ∃ z1 z2 z3 Z', Z = z1 :: z2 :: z3 :: Z' := by
    rcases Z with _ | ⟨z1, _ | ⟨z2, _ | ⟨z3, Z'⟩⟩⟩
    · simp at hZ
    · simp at hZ
    · simp at hZ
    · exact ⟨z1, z2, z3, Z', rfl⟩
  rw [emit_node_emitting op ctx _ h, hprog, set_append_length]
  have h1 : (A ++ op % 256 :: z2 :: z3 :: Z').set (A.length + 1) 0
      = A ++ op % 256 :: 0 :: z3 :: Z' := by
    have := set_append_length (A ++ [op % 256]) (z3 :: Z') z2 0
    simpa using this
  have h2 : (A ++ op % 256 :: 0 :: z3 :: Z').set (A.length + 2) 0
      = A ++ op % 256 :: 0 :: 0 :: Z' := by
    have := set_append_length (A ++ [op % 256, 0]) Z' z3 0
    simpa using this
  rw [h1, h2]
  simp

set_option maxHeartbeats 4000000 in
/-- The function `atom` in the emitting pass on a run `x :: P` of ordinary characters that
ends the pattern: one `EXACTLY` node (`SIMILAR` when case insensitive) whose operand is the
run, lower-cased when case insensitive. -/
theorem atom_run_emitting (chunk : Nat → Comp Ret) (ctx : ParseContext) (x : Nat)
    (P A Z : List Nat)
    (hord : ∀ y ∈ x :: P, isOrdinaryChar y) (hah : ctx.ahead = x :: P)
    (hM : ctx.Meta_Char = Default_Meta_Char) (hB : ctx.Brace_Char = 123)
    (hP : ctx.Code_Emit_Ptr = Ptr.prog A.length) (hprog : ctx.program = A ++ Z)
    (hZ : P.length + 5 ≤ Z.length) :
    atom chunk ctx = Except.ok
      ((Ptr.prog A.length,
        (if P.length + 1 = 1 then WORST ||| HAS_WIDTH ||| SIMPLE else WORST ||| HAS_WIDTH),
        { lower := ((P.length + 1 : Nat) : Int), upper := ((P.length + 1 : Nat) : Int) }),
      { ctx with
        Reg_Parse := ctx.Reg_Parse + (P.length + 1)
        program := A ++ [(if ctx.Is_Case_Insensitive = true then SIMILAR else EXACTLY), 0, 0]
          ++ (x :: P).map (fun c =>
            (if ctx.Is_Case_Insensitive = true then tolower c else c) % 256)
          ++ [0] ++ Z.drop (P.length + 5)
        Code_Emit_Ptr := Ptr.prog (A.length + (P.length + 5)) }) := by
  have hx := hord x (List.mem_cons_self _ _)
  have hpk : ctx.peek = x := by rw [peek_eq_ahead, hah]; rfl
  have hx' := ordinaryChar_ne hx
  have hne : ctx.peek ≠ 40 := by rw [hpk]; omega
  have hlen := length_of_ahead ctx _ hah (by simp)
  simp only [List.length_cons] at hlen
  have hend : ctx.atEnd = false := by
    simp only [ParseContext.atEnd, decide_eq_false_iff_not]; omega
  have c1 : x ≠ 94 := by omega
  have c2 : x ≠ 36 := by omega
  have c3 : x ≠ 60 := by omega
  have c4 : x ≠ 62 := by omega
  have c5 : x ≠ 46 := by omega
  have c6 : x ≠ 40 := by omega
  have c7 : x ≠ 124 := by omega
  have c8 : x ≠ 41 := by omega
  have c9 : x ≠ 63 := by omega
  have c10 : x ≠ 43 := by omega
  have c11 : x ≠ 42 := by omega
  have c12 : x ≠ 123 := by omega
  have c13 : x ≠ 91 := by omega
  have c14 : x ≠ 92 := by omega
  have hop : (if ctx.Is_Case_Insensitive = true then SIMILAR else EXACTLY) % 256
      = (if ctx.Is_Case_Insensitive = true then SIMILAR else EXACTLY) := by
    split_ifs <;> decide
  unfold atom
  simp only [comp_bind, comp_get, atomComments_none _ ctx hne, hend, Bool.false_eq_true, if_false,
    comp_pure, comp_advance, hpk, c1, c2, c3, c4, c5, c6, c7, c8, c9, c10, c11, c12, c13, c14,
    false_or, or_false, false_and, comp_retreat, Nat.add_sub_cancel]
  rw [emit_node_at _ _ A Z (by exact hP) (by exact hprog) (by omega)]
  simp only [hop]
  generalize (if ctx.Is_Case_Insensitive = true then SIMILAR else EXACTLY) = opc
  rw [atomLiteralLoop_run_emitting (x :: P) _ 0 _ (A ++ [opc, 0, 0]) (Z.drop 3) hord ?_ ?_ ?_ ?_
    ?_ ?_ ?_]
  · simp only [List.length_cons, Nat.zero_add]
    rw [if_neg (by omega)]
    simp only [comp_bind, comp_pure]
    rw [emit_byte_at _ _ (A ++ [opc, 0, 0] ++ List.map (fun c =>
        (if ctx.Is_Case_Insensitive = true then tolower c else c) % 256) (x :: P))
      ((Z.drop 3).drop (P.length + 1)) ?_ ?_ ?_]
    · simp only [List.length_append, List.length_cons, List.length_nil, List.length_map,
        List.drop_drop, Nat.zero_mod]
      congr 2
      simp only [ParseContext.mk.injEq, and_true, true_and]
      refine ⟨?_, by congr 1; omega⟩
      congr 2
      omega
    · simp only [List.length_append, List.length_cons, List.length_nil, List.length_map]
    · rfl
    · simp only [List.length_drop]; omega
  · exact hah
  · show (x :: P).length < ctx.InputString.length + 1
    simp only [List.length_cons]; omega
  · exact hM
  · exact hB
  · simp
  · simp
  · simp only [List.length_drop, List.length_cons]; omega

/-- The function `piece` when no quantifier follows the atom. -/
theorem piece_no_quantifier (chunk : Nat → Comp Ret) (ctx ctx1 : ParseContext) (ret : Ptr)
    (flags : Nat) (range : len_range)
    (hatom : atom chunk ctx = Except.ok ((ret, flags, range), ctx1)) (hret : ret ≠ Ptr.null)
    (hq : IS_QUANTIFIER ctx1 ctx1.peek = false) :
    piece chunk ctx = Except.ok ((ret, flags, range), ctx1) := by
  unfold piece
  simp only [comp_bind, hatom, hret, if_false, comp_get, hq, Bool.not_false, if_true, comp_pure]

/-- The loop of `alternative` stops at `'|'`, at `')'` and at the end of the pattern. -/
theorem alternativeLoop_end (chunk : Nat → Comp Ret) (fuel : Nat) (chain : Ptr) (flag : Nat)
    (range : len_range) (ctx : ParseContext)
    (h : ctx.peek = 124 ∨ ctx.peek = 41 ∨ ctx.atEnd = true) :
    alternativeLoop chunk (fuel + 1) chain flag range ctx
      = Except.ok (some (chain, flag, range), ctx) := by
  rw [alternativeLoop]
  have hc : ¬ (ctx.peek ≠ 124 ∧ ctx.peek ≠ 41 ∧ (!ctx.atEnd) = true) := by
    rcases h with h | h | h <;> simp [h]
  simp only [comp_bind, comp_get, hc, if_false, comp_pure]

theorem atEnd_of_ahead_nil (ctx : ParseContext) (h : ctx.ahead = [])
    (hle : ctx.Reg_Parse ≤ ctx.InputString.length) : ctx.atEnd = true := by
  simp only [ParseContext.ahead, List.drop_eq_nil_iff] at h
  simp only [ParseContext.atEnd, decide_eq_true_eq]
  omega

theorem tail_sizing (point_to : Ptr) (ctx : ParseContext) :
    tail Compute_Size point_to ctx = Except.ok (PUnit.unit, ctx) := by
  simp only [tail, if_true]

theorem chunkHook_sizing (ender : Ptr) (fuel : Nat) (ctx : ParseContext) :
    chunkHook ender (fuel + 2) Compute_Size ctx = Except.ok (PUnit.unit, ctx) := by
  have h1 : Compute_Size ≠ Ptr.null := by simp [Compute_Size]
  have h2 : next_ptr ctx.program Compute_Size = Ptr.null := by simp [next_ptr]
  rw [chunkHook]
  simp only [h1, ne_eq, not_false_eq_true, if_true, comp_bind, branch_tail, true_or, comp_get, h2]
  rw [chunkHook]
  simp only [ne_eq, not_true_eq_false, if_false, comp_pure]

/-- The function `alternative` on a branch that consists of one piece. -/
theorem alternative_single (chunk : Nat → Comp Ret) (ctx c0 c1 : ParseContext) (rv latest : Ptr)
    (fl : Nat) (rg : len_range)
    (hnode : emit_node BRANCH ctx = Except.ok (rv, c0))
    (h1 : c0.peek ≠ 124) (h2 : c0.peek ≠ 41) (h3 : c0.atEnd = false)
    (hpiece : piece chunk c0 = Except.ok ((latest, fl, rg), c1)) (hl : latest ≠ Ptr.null)
    (hend : c1.peek = 124 ∨ c1.peek = 41 ∨ c1.atEnd = true)
    (hfuel : 1 ≤ c0.InputString.length) :
    ∃ fl' rg', alternative chunk ctx = Except.ok ((rv, fl', rg'), c1) := by
  obtain ⟨f, hf⟩ : ∃ f, c0.InputString.length = f + 1 := ⟨c0.InputString.length - 1, by omega⟩
  rw [alternative_eq, hnode]
  simp only [hf]
  rw [alternativeLoop_piece_ok chunk _ _ _ c0 c1 latest fl rg h1 h2 h3 hpiece hl,
    alternativeLoop_end _ _ _ _ _ _ hend]
  simp only [hl, if_false]
  exact ⟨_, _, rfl⟩

/-- The loop of `chunk` over the alternatives when there is one alternative. -/
theorem chunkBranches_single (chunk : Nat → Comp Ret) (fuel : Nat) (flag : Nat)
    (range : len_range) (ctx c c1 : ParseContext) (tb : Ptr) (fl : Nat) (rg : len_range)
    (halt : alternative chunk ctx = Except.ok ((tb, fl, rg), c)) (htb : tb ≠ Ptr.null)
    (htail : tail tb tb c = Except.ok (PUnit.unit, c1)) (hpk : c1.peek ≠ 124) :
    ∃ fl', chunkBranches chunk (fuel + 1) Ptr.null true flag range ctx
      = Except.ok (some (tb, fl', rg), c1) := by
  rw [chunkBranches_eq, halt]
  simp only [htb, if_false, and_self, if_true, htail, hpk, ne_eq, not_false_eq_true]
  exact ⟨_, rfl⟩

/-- The body of `chunk` at the top level when the branches are parsed up to the end of
the pattern. -/
theorem chunkBody_top_ok (chunk : Nat → Comp Ret) (ctx c c1 c2 c3 : ParseContext)
    (rv ender : Ptr) (fl : Nat) (rg : len_range)
    (hbr : chunkBranches chunk (ctx.InputString.length + 1) Ptr.null true HAS_WIDTH
      { lower := 0, upper := 0 } ctx = Except.ok (some (rv, fl, rg), c))
    (hnode : emit_node END c = Except.ok (ender, c1))
    (htail : tail rv ender c1 = Except.ok (PUnit.unit, c2))
    (hhook : chunkHook ender (c2.program.length + 2) rv c2 = Except.ok (PUnit.unit, c3))
    (hend : c3.atEnd = true) :
    chunkBody chunk NO_PAREN ctx = Except.ok ((rv, fl, rg),
      { c3 with Is_Case_Insensitive := ctx.Is_Case_Insensitive,
                Match_Newline := ctx.Match_Newline }) := by
  rw [chunkBody_top, hbr]
  simp only [hnode, htail, hhook, hend, if_true]

set_option maxHeartbeats 4000000 in
/-- The sizing pass on a pattern that is one run of ordinary characters. -/
theorem compilePass_run_sizing (p : ParseContext) (x : Nat) (P : List Nat)
    (hord : ∀ y ∈ x :: P, isOrdinaryChar y) (h0 : p.Reg_Parse = 0)
    (hS : p.InputString = x :: P) (hM : p.Meta_Char = Default_Meta_Char)
    (hB : p.Brace_Char = 123) (hP : p.Code_Emit_Ptr = Compute_Size) :
    compilePass p = Except.ok
      { p with Reg_Parse := P.length + 1, Reg_Size := p.Reg_Size + (P.length + 14) } := by
  have hx := ordinaryChar_ne (hord x (List.mem_cons_self _ _))
  have hcs : Compute_Size ≠ Ptr.null := by simp [Compute_Size]
  let c3 : ParseContext := { p with Reg_Size := p.Reg_Size + 1 + 1 + 1 }
  let cA : ParseContext := { p with Reg_Size := p.Reg_Size + 1 + 1 + 1 + NODE_SIZE }
  let cB : ParseContext :=
    { p with Reg_Parse := p.Reg_Parse + (P.length + 1),
             Reg_Size := p.Reg_Size + 1 + 1 + 1 + NODE_SIZE + NODE_SIZE + (P.length + 1) + 1 }
  let cC : ParseContext :=
    { p with Reg_Parse := p.Reg_Parse + (P.length + 1),
             Reg_Size := p.Reg_Size + 1 + 1 + 1 + NODE_SIZE + NODE_SIZE + (P.length + 1) + 1
               + NODE_SIZE }
  have hahA : cA.ahead = x :: P := by
    show List.drop p.Reg_Parse p.InputString = x :: P
    rw [h0, hS]; rfl
  have hpkA : cA.peek = x := by rw [peek_eq_ahead, hahA]; rfl
  have hendA : cA.atEnd = false := by
    show decide (p.Reg_Parse = p.InputString.length) = false
    simp [h0, hS]
  have hpkB : cB.peek = 0 := by
    rw [peek_eq_ahead]
    show (List.drop (p.Reg_Parse + (P.length + 1)) p.InputString).headD 0 = 0
    simp [h0, hS]
  have hendB : cB.atEnd = true := by
    show decide (p.Reg_Parse + (P.length + 1) = p.InputString.length) = true
    simp [h0, hS]
  have hatom : atom (chunk p.InputString.length) cA = Except.ok
      ((Compute_Size, (if P.length + 1 = 1 then WORST ||| HAS_WIDTH ||| SIMPLE
          else WORST ||| HAS_WIDTH),
        { lower := ((P.length + 1 : Nat) : Int), upper := ((P.length + 1 : Nat) : Int) }), cB) :=
    atom_run_sizing _ cA x P hord hahA hM hB hP
  have hpiece := piece_no_quantifier _ _ _ _ _ _ hatom hcs
    (by rw [hpkB]; simp [IS_QUANTIFIER]; exact hB ▸ (by decide))
  obtain ⟨fl, rg, halt⟩ := alternative_single (chunk p.InputString.length) c3 cA cB
    Compute_Size Compute_Size _ _ (emit_node_sizing _ c3 hP) (by rw [hpkA]; omega)
    (by rw [hpkA]; omega) hendA hpiece hcs (Or.inr (Or.inr hendB))
    (by show 1 ≤ p.InputString.length; rw [hS]; simp)
  obtain ⟨fl', hbr⟩ := chunkBranches_single (chunk p.InputString.length) p.InputString.length
    HAS_WIDTH { lower := 0, upper := 0 } c3 cB cB Compute_Size fl rg halt hcs (tail_sizing _ _)
    (by rw [hpkB]; decide)
  have hbody := chunkBody_top_ok (chunk p.InputString.length) c3 cB cC cC cC Compute_Size
    Compute_Size fl' rg hbr (emit_node_sizing _ cB hP) (tail_sizing _ _)
    (chunkHook_sizing _ _ _) hendB
  unfold compilePass
  simp only [comp_bind, chunk]
  rw [emit_byte_sizing _ _ hP]
  simp only []
  rw [emit_byte_sizing _ _ (by exact hP)]
  simp only []
  rw [emit_byte_sizing _ _ (by exact hP)]
  simp only []
  rw [hbody]
  simp only [hcs, if_false]
  congr 1
  simp only [cC, NODE_SIZE, NEXT_PTR_SIZE, OP_CODE_SIZE, h0, ParseContext.mk.injEq, and_true,
    true_and]
  constructor <;> omega

/-- The function `tail` in the emitting pass when the chain consists of the node
`search_from` alone, which is not a `BACK` node. -/
theorem tail_last (s t : Nat) (ctx : ParseContext)
    (hoff : GET_OFFSET ctx.program (Ptr.prog s) = 0)
    (hop : GET_OP_CODE ctx.program (Ptr.prog s) ≠ BACK) :
    tail (Ptr.prog s) (Ptr.prog t) ctx = Except.ok (PUnit.unit,
      { ctx with
        program := List.set (List.set ctx.program (s + 1)
          (PUT_OFFSET_L ((t : Int) - (s : Int)) % 256)) (s + 2)
          (PUT_OFFSET_R ((t : Int) - (s : Int)) % 256) }) := by
  have h1 : Ptr.prog s ≠ Compute_Size := by simp [Compute_Size]
  have h2 : next_ptr ctx.program (Ptr.prog s) = Ptr.null := by
    simp [next_ptr, h1, hoff]
  unfold tail
  rw [if_neg h1, tailScan]
  simp only [h2, if_true, hop, if_false, Ptr.toInt, poke, Ptr.add]
  rfl

theorem getD_frame9 (a0 a1 a2 a3 a4 a5 a6 a7 a8 : Nat) (bytes post : List Nat) (j : Nat) :
    (a0 :: a1 :: a2 :: a3 :: a4 :: a5 :: a6 :: a7 :: a8 :: (bytes ++ post)).getD
      (bytes.length + 9 + j) 0 = post.getD j 0 := by
  have : bytes.length + 9 + j = (bytes.length + j) + 9 := by omega
  rw [this]
  simp only [List.getD_cons_succ]
  simp [List.getD_eq_getElem?_getD, List.getElem?_append_right]

theorem put_offset_mod (v : Int) (h0 : 0 ≤ v) :
    PUT_OFFSET_L v % 256 = PUT_OFFSET_L v ∧ PUT_OFFSET_R v % 256 = PUT_OFFSET_R v := by
  unfold PUT_OFFSET_L PUT_OFFSET_R
  constructor <;> omega

theorem get_put_offset (v : Nat) (h : v < 65536) :
    ((PUT_OFFSET_L (v : Int) % 256) <<< 8 + PUT_OFFSET_R (v : Int) % 256) % 65536 = v := by
  unfold PUT_OFFSET_L PUT_OFFSET_R
  simp only [Nat.shiftLeft_eq]
  omega

set_option maxHeartbeats 4000000 in
/-- The emitting pass on a pattern that is one run of ordinary characters. -/
theorem compilePass_run_emitting (p : ParseContext) (x : Nat) (P : List Nat)
    (hord : ∀ y ∈ x :: P, isOrdinaryChar y) (h0 : p.Reg_Parse = 0)
    (hS : p.InputString = x :: P) (hM : p.Meta_Char = Default_Meta_Char)
    (hB : p.Brace_Char = 123) (hP : p.Code_Emit_Ptr = Ptr.prog 0)
    (hZ : p.program.length = P.length + 14) (hsmall : P.length + 14 < 65536) :
    compilePass p = Except.ok
      { p with
        Reg_Parse := P.length + 1
        program := [MAGIC, 37, 37] ++ (literalProgram
          (if p.Is_Case_Insensitive = true then SIMILAR else EXACTLY)
          ((x :: P).map (fun c =>
            (if p.Is_Case_Insensitive = true then tolower c else c) % 256))).drop 3
        Code_Emit_Ptr := Ptr.prog (P.length + 14) } := by
  have hx := ordinaryChar_ne (hord x (List.mem_cons_self _ _))
  generalize hop : (if p.Is_Case_Insensitive = true then SIMILAR else EXACTLY) = op
  generalize hbytes : (x :: P).map (fun c =>
            (if p.Is_Case_Insensitive = true then tolower c else c) % 256) = bytes
  have hblen : bytes.length = P.length + 1 := by rw [← hbytes]; simp
  have hopv : op = 7 ∨ op = 8 := by
    rw [← hop]; split_ifs
    · right; rfl
    · left; rfl
  obtain ⟨z0, z1, z2, Z3, hZ0⟩ : ∃ z0 z1 z2 Z3, p.program = z0 :: z1 :: z2 :: Z3 := by
    rcases hp : p.program with _ | ⟨z0, _ | ⟨z1, _ | ⟨z2, Z3⟩⟩⟩
    · rw [hp] at hZ; simp at hZ
    · rw [hp] at hZ; simp at hZ
    · rw [hp] at hZ; simp at hZ
    · exact ⟨z0, z1, z2, Z3, rfl⟩
  have hZ3 : Z3.length = P.length + 11 := by rw [hZ0] at hZ; simp at hZ; omega
  let c3 : ParseContext := { p with program := [156, 37, 37] ++ Z3, Code_Emit_Ptr := Ptr.prog 3 }
  let cA : ParseContext :=
    { p with program := [156, 37, 37, 34, 0, 0] ++ Z3.drop 3, Code_Emit_Ptr := Ptr.prog 6 }
  let cB : ParseContext :=
    { p with
      Reg_Parse := p.Reg_Parse + (P.length + 1)
      program := 156 :: 37 :: 37 :: 34 :: 0 :: 0 :: op :: 0 :: 0 ::
        (bytes ++ 0 :: Z3.drop (P.length + 8))
      Code_Emit_Ptr := Ptr.prog (P.length + 11) }
  let cC : ParseContext :=
    { p with
      Reg_Parse := p.Reg_Parse + (P.length + 1)
      program := 156 :: 37 :: 37 :: 34 :: 0 :: 0 :: op :: 0 :: 0 :: (bytes ++ [0, 1, 0, 0])
      Code_Emit_Ptr := Ptr.prog (P.length + 14) }
  let cD : ParseContext :=
    { p with
      Reg_Parse := p.Reg_Parse + (P.length + 1)
      program := 156 :: 37 :: 37 :: 34 :: PUT_OFFSET_L ((bytes.length + 7 : Nat) : Int) ::
        PUT_OFFSET_R ((bytes.length + 7 : Nat) : Int) :: op :: 0 :: 0 ::
        (bytes ++ [0, 1, 0, 0])
      Code_Emit_Ptr := Ptr.prog (P.length + 14) }
  let cE : ParseContext :=
    { p with
      Reg_Parse := p.Reg_Parse + (P.length + 1)
      program := 156 :: 37 :: 37 :: 34 :: PUT_OFFSET_L ((bytes.length + 7 : Nat) : Int) ::
        PUT_OFFSET_R ((bytes.length + 7 : Nat) : Int) :: op ::
        PUT_OFFSET_L ((bytes.length + 4 : Nat) : Int) ::
        PUT_OFFSET_R ((bytes.length + 4 : Nat) : Int) :: (bytes ++ [0, 1, 0, 0])
      Code_Emit_Ptr := Ptr.prog (P.length + 14) }
  have h3 : ∀ k : Comp Ret, (do emit_byte MAGIC; emit_byte 37; emit_byte 37; k : Comp Ret) p
      = k c3 := by
    intro k
    simp only [comp_bind]
    rw [emit_byte_at _ p [] _ hP hZ0 (by simp)]
    simp only []
    rw [emit_byte_at _ _ [156] (z1 :: z2 :: Z3) rfl (by simp [MAGIC]) (by simp)]
    simp only []
    rw [emit_byte_at _ _ [156, 37] (z2 :: Z3) rfl (by simp) (by simp)]
    simp only []
    rfl
  have hnodeA : emit_node BRANCH c3 = Except.ok (Ptr.prog 3, cA) := by
    rw [emit_node_at _ c3 [156, 37, 37] Z3 rfl rfl (by omega)]
    rfl
  have hahA : cA.ahead = x :: P := by
    show List.drop p.Reg_Parse p.InputString = x :: P
    rw [h0, hS]; rfl
  have hpkA : cA.peek = x := by rw [peek_eq_ahead, hahA]; rfl
  have hendA : cA.atEnd = false := by
    show decide (p.Reg_Parse = p.InputString.length) = false
    simp [h0, hS]
  have hpkB : cB.peek = 0 := by
    rw [peek_eq_ahead]
    show (List.drop (p.Reg_Parse + (P.length + 1)) p.InputString).headD 0 = 0
    simp [h0, hS]
  have hendB : cB.atEnd = true := by
    show decide (p.Reg_Parse + (P.length + 1) = p.InputString.length) = true
    simp [h0, hS]
  have hatom : atom (chunk p.InputString.length) cA = Except.ok
      ((Ptr.prog 6, (if P.length + 1 = 1 then WORST ||| HAS_WIDTH ||| SIMPLE
          else WORST ||| HAS_WIDTH),
        { lower := ((P.length + 1 : Nat) : Int), upper := ((P.length + 1 : Nat) : Int) }), cB) := by
    rw [atom_run_emitting _ cA x P [156, 37, 37, 34, 0, 0] (Z3.drop 3) hord hahA hM hB rfl rfl
      (by simp only [List.length_drop]; omega)]
    have e1 : (if cA.Is_Case_Insensitive = true then SIMILAR else EXACTLY) = op := hop
    have e2 : (x :: P).map (fun c =>
            (if cA.Is_Case_Insensitive = true then tolower c else c) % 256) = bytes := hbytes
    rw [e1, e2]
    simp only [cB, cA, List.drop_drop, List.length_cons, List.length_nil]
    congr 2
    simp
    exact ⟨by congr 1; omega, by omega⟩
  have hp3 : Ptr.prog 3 ≠ Ptr.null := by simp
  have hp6 : Ptr.prog 6 ≠ Ptr.null := by simp
  have hpiece := piece_no_quantifier _ _ _ _ _ _ hatom hp6
    (by rw [hpkB]; simp [IS_QUANTIFIER]; exact hB ▸ (by decide))
  obtain ⟨fl, rg, halt⟩ := alternative_single (chunk p.InputString.length) c3 cA cB
    (Ptr.prog 3) (Ptr.prog 6) _ _ hnodeA (by rw [hpkA]; omega)
    (by rw [hpkA]; omega) hendA hpiece hp6 (Or.inr (Or.inr hendB))
    (by show 1 ≤ p.InputString.length; rw [hS]; simp)
  have htailB : tail (Ptr.prog 3) (Ptr.prog 3) cB = Except.ok (PUnit.unit, cB) := by
    rw [tail_last 3 3 cB (by simp [cB, GET_OFFSET]) (by simp [cB, GET_OP_CODE, BACK])]
    simp [cB, PUT_OFFSET_L, PUT_OFFSET_R]
  obtain ⟨fl', hbr⟩ := chunkBranches_single (chunk p.InputString.length) p.InputString.length
    HAS_WIDTH { lower := 0, upper := 0 } c3 cB cB (Ptr.prog 3) fl rg halt hp3 htailB
    (by rw [hpkB]; decide)
  have hnodeC : emit_node END cB = Except.ok (Ptr.prog (P.length + 11), cC) := by
    have hl : (156 :: 37 :: 37 :: 34 :: 0 :: 0 :: op :: 0 :: 0 :: (bytes ++ [0])).length
        = P.length + 11 := by simp [hblen]
    rw [emit_node_at END cB (156 :: 37 :: 37 :: 34 :: 0 :: 0 :: op :: 0 :: 0 :: (bytes ++ [0]))
      (Z3.drop (P.length + 8)) (by rw [hl]) (by simp [cB])
      (by simp only [List.length_drop]; omega)]
    rw [hl]
    have hd : List.drop 3 (List.drop (P.length + 8) Z3) = [] := by
      rw [List.drop_drop, List.drop_eq_nil_iff]; omega
    rw [hd]
    simp [cB, cC, END]
  have htailC : tail (Ptr.prog 3) (Ptr.prog (P.length + 11)) cC = Except.ok (PUnit.unit, cD) := by
    rw [tail_last 3 (P.length + 11) cC (by simp [cC, GET_OFFSET]) (by simp [cC, GET_OP_CODE, BACK])]
    have e : ((P.length + 11 : Nat) : Int) - ((3 : Nat) : Int) = ((bytes.length + 7 : Nat) : Int) := by
      rw [hblen]; push_cast; omega
    rw [e, (put_offset_mod _ (Int.natCast_nonneg _)).1, (put_offset_mod _ (Int.natCast_nonneg _)).2]
    simp [cC, cD]
  have htailD : tail (Ptr.prog 6) (Ptr.prog (P.length + 11)) cD = Except.ok (PUnit.unit, cE) := by
    rw [tail_last 6 (P.length + 11) cD (by simp [cD, GET_OFFSET])
      (by rcases hopv with h | h <;> simp [cD, GET_OP_CODE, BACK, h])]
    have e : ((P.length + 11 : Nat) : Int) - ((6 : Nat) : Int) = ((bytes.length + 4 : Nat) : Int) := by
      rw [hblen]; push_cast; omega
    rw [e, (put_offset_mod _ (Int.natCast_nonneg _)).1, (put_offset_mod _ (Int.natCast_nonneg _)).2]
    simp [cD, cE]
  have hhook : chunkHook (Ptr.prog (P.length + 11)) (cD.program.length + 2) (Ptr.prog 3) cD
      = Except.ok (PUnit.unit, cE) := by
    obtain ⟨f, hf⟩ : ∃ f, cD.program.length + 2 = f + 3 := ⟨cD.program.length - 1, by
      simp [cD]⟩
    have hopD : GET_OP_CODE cD.program (Ptr.prog 3) = BRANCH := by simp [cD, GET_OP_CODE, BRANCH]
    have hnext : next_ptr cE.program (Ptr.prog 3) = Ptr.prog (P.length + 11) := by
      have hg : GET_OFFSET cE.program (Ptr.prog 3) = bytes.length + 7 := by
        simp only [cE, GET_OFFSET, List.getD_cons_succ, List.getD_cons_zero]
        exact get_put_offset _ (by omega)
      have h1 : Ptr.prog 3 ≠ Compute_Size := by simp [Compute_Size]
      have h2 : GET_OP_CODE cE.program (Ptr.prog 3) ≠ BACK := by simp [cE, GET_OP_CODE, BACK]
      simp only [next_ptr, h1, if_false, hg, h2, Ptr.add]
      rw [if_neg (by omega)]
      congr 1
      omega
    have hopE : GET_OP_CODE cE.program (Ptr.prog (P.length + 11)) ≠ BRANCH := by
      have := getD_frame9 156 37 37 34 (PUT_OFFSET_L ((bytes.length + 7 : Nat) : Int))
        (PUT_OFFSET_R ((bytes.length + 7 : Nat) : Int)) op
        (PUT_OFFSET_L ((bytes.length + 4 : Nat) : Int))
        (PUT_OFFSET_R ((bytes.length + 4 : Nat) : Int)) bytes [0, 1, 0, 0] 1
      have e : P.length + 11 = bytes.length + 9 + 1 := by omega
      simp only [cE, GET_OP_CODE, e, this]
      simp [BRANCH]
    have hnextE : next_ptr cE.program (Ptr.prog (P.length + 11)) = Ptr.null := by
      have t2 := getD_frame9 156 37 37 34 (PUT_OFFSET_L ((bytes.length + 7 : Nat) : Int))
        (PUT_OFFSET_R ((bytes.length + 7 : Nat) : Int)) op
        (PUT_OFFSET_L ((bytes.length + 4 : Nat) : Int))
        (PUT_OFFSET_R ((bytes.length + 4 : Nat) : Int)) bytes [0, 1, 0, 0] 2
      have t3 := getD_frame9 156 37 37 34 (PUT_OFFSET_L ((bytes.length + 7 : Nat) : Int))
        (PUT_OFFSET_R ((bytes.length + 7 : Nat) : Int)) op
        (PUT_OFFSET_L ((bytes.length + 4 : Nat) : Int))
        (PUT_OFFSET_R ((bytes.length + 4 : Nat) : Int)) bytes [0, 1, 0, 0] 3
      have e2 : P.length + 11 + 1 = bytes.length + 9 + 2 := by omega
      have e3 : P.length + 11 + 2 = bytes.length + 9 + 3 := by omega
      have hg : GET_OFFSET cE.program (Ptr.prog (P.length + 11)) = 0 := by
        simp only [cE, GET_OFFSET, e2, e3, t2, t3]
        simp
      have h1 : Ptr.prog (P.length + 11) ≠ Compute_Size := by simp [Compute_Size]
      simp only [next_ptr, h1, if_false, hg, if_true]
    have hadd : (Ptr.prog 3).add (NODE_SIZE : Int) = Ptr.prog 6 := by
      simp [Ptr.add, NODE_SIZE, NEXT_PTR_SIZE, OP_CODE_SIZE]
    have hpe : Ptr.prog (P.length + 11) ≠ Ptr.null := by simp
    rw [hf, chunkHook]
    simp only [hp3, ne_eq, not_false_eq_true, if_true, comp_bind, branch_tail, hopD,
      not_true_eq_false, or_false, if_false, comp_get]
    have h1 : Ptr.prog 3 ≠ Compute_Size := by simp [Compute_Size]
    have h1e : Ptr.prog (P.length + 11) ≠ Compute_Size := by simp [Compute_Size]
    rw [if_neg h1, hadd, htailD]
    simp only [hnext]
    rw [chunkHook]
    simp only [hpe, ne_eq, not_false_eq_true, if_true, comp_bind, branch_tail, hopE,
      or_true, comp_get, hnextE]
    rw [chunkHook]
    simp only [ne_eq, not_true_eq_false, if_false, comp_pure]
  have hendE : cE.atEnd = true := hendB
  have hbody := chunkBody_top_ok (chunk p.InputString.length) c3 cB cC cD cE (Ptr.prog 3)
    (Ptr.prog (P.length + 11)) fl' rg hbr hnodeC htailC hhook hendE
  unfold compilePass
  rw [h3]
  simp only [chunk]
  rw [hbody]
  simp only [hp3, if_false]
  congr 1
  simp only [cE, c3, h0, literalProgram, MAGIC, BRANCH, END, ParseContext.mk.injEq, and_true,
    true_and]
  refine ⟨by omega, ?_⟩
  simp

theorem passContext_fields (exp : List Nat) (flags : Nat) (prog : List Nat) (emit : Ptr)
    (size : Nat) :
    (passContext exp flags true prog emit size).Reg_Parse = 0 ∧
    (passContext exp flags true prog emit size).InputString = exp ∧
    (passContext exp flags true prog emit size).Meta_Char = Default_Meta_Char ∧
    (passContext exp flags true prog emit size).Brace_Char = 123 ∧
    (passContext exp flags true prog emit size).Code_Emit_Ptr = emit ∧
    (passContext exp flags true prog emit size).program = prog ∧
    (passContext exp flags true prog emit size).Reg_Size = size ∧
    (passContext exp flags true prog emit size).Total_Paren = 1 ∧
    (passContext exp flags true prog emit size).Num_Braces = 0 ∧
    (passContext exp flags true prog emit size).Is_Case_Insensitive
      = decide (flags &&& REDFLT_CASE_INSENSITIVE ≠ 0) := by
  simp only [passContext, init_ansi_classes, if_true, and_self]

theorem literalProgram_getD_post (op : Nat) (bytes : List Nat) (j : Nat) :
    (literalProgram op bytes).getD (bytes.length + 9 + j) 0 = [0, END, 0, 0].getD j 0 := by
  unfold literalProgram
  exact getD_frame9 _ _ _ _ _ _ _ _ _ bytes _ j

theorem literalProgram_next3 (op : Nat) (bytes : List Nat) (h : bytes.length + 7 < 65536) :
    GET_OFFSET (literalProgram op bytes) (Ptr.prog 3) = bytes.length + 7 := by
  simp only [literalProgram, GET_OFFSET, List.cons_append, List.getD_cons_succ,
    List.getD_cons_zero]
  exact get_put_offset _ h

theorem literalProgram_next6 (op : Nat) (bytes : List Nat) (h : bytes.length + 7 < 65536) :
    GET_OFFSET (literalProgram op bytes) (Ptr.prog 6) = bytes.length + 4 := by
  simp only [literalProgram, GET_OFFSET, List.cons_append, List.getD_cons_succ,
    List.getD_cons_zero]
  exact get_put_offset _ (by omega)

set_option maxHeartbeats 4000000 in
/-- The constructor on a pattern `x :: P` that is one run of ordinary characters: the
program is the literal program, and `match_start` is the first character unless the
pattern is case insensitive. -/
theorem CompileRE_run (x : Nat) (P : List Nat) (flags : Nat)
    (hord : ∀ y ∈ x :: P, isOrdinaryChar y) (hlen : P.length + 14 < MAX_COMPILED_SIZE) :
    CompileRE (x :: P) flags = Except.ok
      { program := literalProgram
          (if flags &&& REDFLT_CASE_INSENSITIVE ≠ 0 then SIMILAR else EXACTLY)
          ((x :: P).map (fun c =>
            (if flags &&& REDFLT_CASE_INSENSITIVE ≠ 0 then tolower c else c) % 256))
        match_start := if flags &&& REDFLT_CASE_INSENSITIVE ≠ 0 then 0 else x % 256
        anchor := 0
        startp := fun _ => none
        endp := fun _ => none
        extentpBW := none
        extentpFW := none
        top_branch := 0 } := by
  have hM : MAX_COMPILED_SIZE = 32767 := rfl
  rw [hM] at hlen
  unfold CompileRE CompileRE_counting
  obtain ⟨a1, a2, a3, a4, a5, -, a7, -, -, -⟩ :=
    passContext_fields (x :: P) flags [] Compute_Size 0
  generalize passContext (x :: P) flags true [] Compute_Size 0 = p1 at *
  rw [compilePass_run_sizing p1 x P hord a1 a2 a3 a4 a5]
  have hsz : ¬ (p1.Reg_Size + (P.length + 14) ≥ MAX_COMPILED_SIZE) := by rw [hM, a7]; omega
  simp only []
  rw [if_neg hsz, a7]
  obtain ⟨b1, b2, b3, b4, b5, b6, -, b8, b9, b10⟩ :=
    passContext_fields (x :: P) flags (List.replicate (0 + (P.length + 14)) 0) (Ptr.prog 0)
      (0 + (P.length + 14))
  generalize passContext (x :: P) flags true (List.replicate (0 + (P.length + 14)) 0)
    (Ptr.prog 0) (0 + (P.length + 14)) = p2 at *
  rw [compilePass_run_emitting p2 x P hord b1 b2 b3 b4 b5 (by rw [b6]; simp) (by omega)]
  simp only [b8, b9, b10, decide_eq_true_eq]
  generalize hop : (if flags &&& REDFLT_CASE_INSENSITIVE ≠ 0 then SIMILAR else EXACTLY) = op
  generalize hbytes : (x :: P).map (fun c =>
    (if flags &&& REDFLT_CASE_INSENSITIVE ≠ 0 then tolower c else c) % 256) = bytes
  have hblen : bytes.length = P.length + 1 := by rw [← hbytes]; simp
  have hprog : List.set (List.set ([MAGIC, 37, 37] ++ List.drop 3 (literalProgram op bytes)) 1
      ((1 + 255) % 256)) 2 (0 % 256) = literalProgram op bytes := by
    simp [literalProgram]
  rw [hprog]
  have hoff := literalProgram_next3 op bytes (by omega)
  have hn : next_ptr (literalProgram op bytes) (Ptr.prog REGEX_START_OFFSET)
      = Ptr.prog (bytes.length + 9 + 1) := by
    have h1 : Ptr.prog 3 ≠ Compute_Size := by simp [Compute_Size]
    have h2 : GET_OP_CODE (literalProgram op bytes) (Ptr.prog 3) ≠ BACK := by
      simp [literalProgram, GET_OP_CODE, BACK, BRANCH]
    simp only [REGEX_START_OFFSET, next_ptr, h1, if_false, hoff, h2, Ptr.add]
    rw [if_neg (by omega)]
    congr 1
    omega
  have hend : GET_OP_CODE (literalProgram op bytes) (Ptr.prog (bytes.length + 9 + 1)) = END := by
    simp only [GET_OP_CODE, literalProgram_getD_post]
    rfl
  have h6 : GET_OP_CODE (literalProgram op bytes) (OPERAND (Ptr.prog REGEX_START_OFFSET)) = op := by
    simp [literalProgram, GET_OP_CODE, OPERAND, Ptr.add, REGEX_START_OFFSET, NODE_SIZE,
      NEXT_PTR_SIZE, OP_CODE_SIZE]
  have h9 : GET_OP_CODE (literalProgram op bytes)
      (OPERAND (OPERAND (Ptr.prog REGEX_START_OFFSET))) = bytes.headD 0 := by
    rw [← hbytes]
    simp [literalProgram, GET_OP_CODE, OPERAND, Ptr.add, REGEX_START_OFFSET, NODE_SIZE,
      NEXT_PTR_SIZE, OP_CODE_SIZE]
  rw [hn, hend, if_pos rfl, h6, h9]
  by_cases hci : flags &&& REDFLT_CASE_INSENSITIVE ≠ 0
  · rw [if_pos hci] at hop
    rw [if_pos hci, ← hop]
    simp [SIMILAR, EXACTLY, PLUS, LAZY_PLUS, BOL]
  · rw [if_neg hci] at hop
    rw [if_neg hci, ← hop, if_pos rfl, ← hbytes]
    simp [hci]

/-! ## Matching the program of a literal string -/

theorem takeWhile_terminated (bytes rest : List Nat) (hnz : ∀ b ∈ bytes, b ≠ 0) :
    (bytes ++ 0 :: rest).takeWhile (fun c => decide (c ≠ 0)) = bytes := by
  induction bytes with
  | nil => simp
  | cons b bs ih =>
    have hb : b ≠ 0 := hnz b (List.mem_cons_self _ _)
    simp only [List.cons_append, List.takeWhile_cons, hb, ne_eq, not_false_eq_true,
      decide_True, if_true]
    rw [ih (fun c hc => hnz c (List.mem_cons_of_mem _ hc))]

theorem cstring_literalProgram (op : Nat) (bytes : List Nat) (hnz : ∀ b ∈ bytes, b ≠ 0) :
    cstring (literalProgram op bytes) (Ptr.prog 9) = bytes := by
  simp only [cstring, literalProgram]
  exact takeWhile_terminated bytes _ hnz

theorem literalProgram_NEXT3 (op : Nat) (bytes : List Nat) (h : bytes.length + 7 < 65536) :
    NEXT_PTR (literalProgram op bytes) (Ptr.prog 3) = Ptr.prog (bytes.length + 9 + 1) := by
  have h2 : GET_OP_CODE (literalProgram op bytes) (Ptr.prog 3) ≠ BACK := by
    simp [literalProgram, GET_OP_CODE, BACK, BRANCH]
  simp only [NEXT_PTR, literalProgram_next3 op bytes h, h2, if_false, Ptr.add]
  rw [if_neg (by omega)]
  congr 1
  omega

theorem literalProgram_NEXT6 (op : Nat) (bytes : List Nat) (h : bytes.length + 7 < 65536)
    (hop : op ≠ BACK) :
    NEXT_PTR (literalProgram op bytes) (Ptr.prog 6) = Ptr.prog (bytes.length + 9 + 1) := by
  have h2 : GET_OP_CODE (literalProgram op bytes) (Ptr.prog 6) ≠ BACK := by
    simpa [literalProgram, GET_OP_CODE] using hop
  simp only [NEXT_PTR, literalProgram_next6 op bytes h, h2, if_false, Ptr.add]
  rw [if_neg (by omega)]
  congr 1
  omega

theorem literalProgram_END (op : Nat) (bytes : List Nat) :
    GET_OP_CODE (literalProgram op bytes) (Ptr.prog (bytes.length + 9 + 1)) = END := by
  simp only [GET_OP_CODE, literalProgram_getD_post]
  rfl

theorem matchLoop_SIMILAR (P T : List Nat) (n : Nat) (bip : Option Nat) (st : ExecuteContext)
    {p d : Ptr} (hop : GET_OP_CODE P p = SIMILAR) (hnext : NEXT_PTR P p = d) :
    matchLoop P T (n + 1) p bip st
      = case_SIMILAR P T (fun q s => matchLoop P T n q bip s) p d bip st := by
  have hp := ptr_ne_null_of_op P hop (by decide)
  rw [matchLoop_succ]
  simp [matchNode, hp, hop, hnext, BRANCH, EXACTLY, SIMILAR]

/-- The loop of the `SIMILAR` case on a text that equals the operand after lower-casing. -/
theorem similarLoop_match (T : List Nat) (L : Nat) :
    ∀ (opnd : List Nat) (st : ExecuteContext), st.End_Of_String = some L →
      st.Reg_Input + opnd.length ≤ L → L ≤ T.length →
      ((T.drop st.Reg_Input).take opnd.length).map tolower = opnd →
      similarLoop T opnd st
        = (true, { st with Reg_Input := st.Reg_Input + opnd.length }) := by
  intro opnd
  induction opnd with
  | nil => intro st _ _ _ _; simp [similarLoop]
  | cons b bs ih =>
    intro st hE hle hL hmap
    simp only [List.length_cons] at hle hmap
    have hlt : st.Reg_Input < T.length := by omega
    have hd : T.drop st.Reg_Input = T.getD st.Reg_Input 0 :: T.drop (st.Reg_Input + 1) := by
      rw [List.getD_eq_getElem _ _ hlt]
      exact List.drop_eq_getElem_cons hlt
    rw [hd] at hmap
    simp only [List.take_succ_cons, List.map_cons, List.cons.injEq] at hmap
    have hend : AT_END_OF_STRING st st.Reg_Input = false := by
      simp [AT_END_OF_STRING, hE]; omega
    rw [similarLoop]
    simp only [hend, Bool.false_eq_true, if_false, hmap.1, ne_eq, not_true_eq_false]
    rw [ih { st with Reg_Input := st.Reg_Input + 1 } hE (by simp only []; omega) hL hmap.2]
    simp only [List.length_cons, Prod.mk.injEq, true_and]
    congr 1
    omega

/-- The test `strncmp` against the text at `i`, when the text is long enough. -/
theorem strncmpEq_iff (T : List Nat) :
    ∀ (s : List Nat) (i : Nat), i + s.length ≤ T.length →
      (strncmpEq s T i = true ↔ (T.drop i).take s.length = s) := by
  intro s
  induction s with
  | nil => intro i _; simp [strncmpEq]
  | cons c cs ih =>
    intro i hle
    simp only [List.length_cons] at hle
    have hlt : i < T.length := by omega
    have hd : T.drop i = T.getD i 0 :: T.drop (i + 1) := by
      rw [List.getD_eq_getElem _ _ hlt]
      exact List.drop_eq_getElem_cons hlt
    rw [strncmpEq, hd]
    simp only [Bool.and_eq_true, decide_eq_true_eq, List.length_cons, List.take_succ_cons,
      List.cons.injEq]
    rw [ih (i + 1) (by omega)]

/-- The forward search with a known first character (`kind = 1`) when every attempt
fails: the loop runs to the end of the text. -/
theorem searchForward_start_none (T : List Nat) (fuel L ms : Nat)
    (Inv : regexp → ExecuteContext → Prop)
    (hInv : ∀ prog st, Inv prog st →
      st.End_Of_String = some L ∧ st.Recursion_Limit_Exceeded = false ∧ prog.match_start = ms)
    (hatt : ∀ p, p < L → ∀ prog st, Inv prog st → T.getD p 0 = ms →
      ∃ prog' st', attempt T fuel prog p st = some (false, prog', st') ∧ Inv prog' st') :
    ∀ (k str : Nat) (prog : regexp) (st : ExecuteContext), Inv prog st → str ≤ L →
      L - str < k →
      ∃ prog' st', searchForward T fuel 1 (some L) k str prog st = some (false, L, prog', st') ∧
        Inv prog' st' := by
  intro k
  induction k with
  | zero => intro str prog st _ _ hk; omega
  | succ k ih =>
    intro str prog st hI hstr hk
    obtain ⟨hE, hX, hms⟩ := hInv prog st hI
    by_cases hlt : str < L
    · by_cases hc : T.getD str 0 = prog.match_start
      · obtain ⟨prog', st', ha, hI'⟩ := hatt str hlt prog st hI (hc.trans hms)
        have h1 : AT_END_OF_STRING st str = false := by
          simp [AT_END_OF_STRING, hE]; omega
        have h2 : (some str : Option Nat) ≠ some L := by simp; omega
        have hk1 : (if (1 : Nat) = 0 then str + 1 else str) = str := by simp
        rw [searchForward]
        simp only [h1, hX, h2, hc, hk1, ha, Bool.not_false, ne_eq, not_false_eq_true, and_self,
          if_true, one_ne_zero, false_and, if_false, not_true_eq_false, and_false]
        exact ih (str + 1) prog' st' hI' (by omega) (by omega)
      · rw [searchForward_start_skip T fuel L k str prog st hE hX hlt hc]
        exact ih (str + 1) prog st hI (by omega) (by omega)
    · have hL : str = L := by omega
      subst hL
      have h1 : AT_END_OF_STRING st str = true := by
        simp [AT_END_OF_STRING, hE]
      refine ⟨prog, st, ?_, hI⟩
      rw [searchForward]
      simp [h1]

/-- The function `attempt` on the program of a case-insensitive literal, at a position
where the text equals the operand after lower-casing. -/
theorem attempt_similar (bytes T : List Nat) (f s : Nat) (re : regexp) (st : ExecuteContext)
    (hprog : re.program = literalProgram SIMILAR bytes) (hnz : ∀ b ∈ bytes, b ≠ 0)
    (hlen : bytes.length + 7 < 65536) (hE : st.End_Of_String = some T.length)
    (hs : s + bytes.length ≤ T.length)
    (hmap : ((T.drop s).take bytes.length).map tolower = bytes) :
    ∃ r st', attempt T (f + 3) re s st = some (true, r, st') ∧ r.startp 0 = some s ∧
      r.endp 0 = some (s + bytes.length) ∧
      st'.Recursion_Limit_Exceeded = st.Recursion_Limit_Exceeded := by
  have hb : GET_OP_CODE (literalProgram SIMILAR bytes) (Ptr.prog 3) = BRANCH := by
    simp [literalProgram, GET_OP_CODE]
  have hs6 : GET_OP_CODE (literalProgram SIMILAR bytes) (Ptr.prog 6) = SIMILAR := by
    simp [literalProgram, GET_OP_CODE]
  have hnb : GET_OP_CODE (literalProgram SIMILAR bytes) (Ptr.prog (bytes.length + 9 + 1))
      ≠ BRANCH := by rw [literalProgram_END]; decide
  have ho3 : OPERAND (Ptr.prog 3) = Ptr.prog 6 := by
    simp [OPERAND, Ptr.add, NODE_SIZE, NEXT_PTR_SIZE, OP_CODE_SIZE]
  have ho6 : OPERAND (Ptr.prog 6) = Ptr.prog 9 := by
    simp [OPERAND, Ptr.add, NODE_SIZE, NEXT_PTR_SIZE, OP_CODE_SIZE]
  have hlim : ¬ (0 + 1 > REGEX_RECURSION_LIMIT) := by decide
  unfold attempt
  simp only [hprog, REGEX_START_OFFSET]
  rw [match_eq]
  simp only []
  rw [if_neg hlim, matchLoop_BRANCH_single _ _ _ _ _ hb (literalProgram_NEXT3 _ _ hlen) hnb, ho3,
    matchLoop_SIMILAR _ _ _ _ _ hs6 (literalProgram_NEXT6 _ _ hlen (by decide))]
  unfold case_SIMILAR
  let st1 : ExecuteContext :=
    { st with
      Reg_Input := s
      Start_Ptr_Ptr := fill_n re.startp (st.Total_Paren + 1) none
      End_Ptr_Ptr := fill_n re.endp (st.Total_Paren + 1) none
      Recursion_Count := 0 + 1
      Extent_Ptr_BW := some s
      Extent_Ptr_FW := none }
  have hsim : similarLoop T bytes st1 = (true, { st1 with Reg_Input := s + bytes.length }) :=
    similarLoop_match T T.length bytes st1 hE hs (Nat.le_refl _) hmap
  rw [ho6, cstring_literalProgram _ _ hnz, hsim]
  simp only []
  rw [matchLoop_END _ _ _ _ _ (literalProgram_END _ _)]
  obtain ⟨e1, e2, e3, e4, e5, e6, e7⟩ := extentFW_fields { st1 with Reg_Input := s + bytes.length }
  simp only [MATCH_RETURN]
  refine ⟨_, _, rfl, ?_, ?_, ?_⟩
  · simp [arraySet]
  · simp only [arraySet, if_true]
    exact congrArg some e1
  · exact e5

/-- The function `attempt` on the program of a case-sensitive literal: it succeeds exactly
where the operand stands in the text. -/
theorem attempt_exactly (b : Nat) (bs T : List Nat) (f s : Nat) (re : regexp)
    (st : ExecuteContext)
    (hprog : re.program = literalProgram EXACTLY (b :: bs)) (hnz : ∀ c ∈ b :: bs, c ≠ 0)
    (hlen : (b :: bs).length + 7 < 65536) (hE : st.End_Of_String = some T.length) :
    ∃ r st', attempt T (f + 3) re s st
        = some (decide (s + (b :: bs).length ≤ T.length ∧
            (T.drop s).take (b :: bs).length = b :: bs), r, st') ∧
      r.program = re.program ∧ r.match_start = re.match_start ∧ r.anchor = re.anchor ∧
      st'.End_Of_String = st.End_Of_String ∧
      st'.Recursion_Limit_Exceeded = st.Recursion_Limit_Exceeded ∧
      (s + (b :: bs).length ≤ T.length ∧ (T.drop s).take (b :: bs).length = b :: bs →
        r.startp 0 = some s ∧ r.endp 0 = some (s + (b :: bs).length)) := by
  have hb : GET_OP_CODE (literalProgram EXACTLY (b :: bs)) (Ptr.prog 3) = BRANCH := by
    simp [literalProgram, GET_OP_CODE]
  have hs6 : GET_OP_CODE (literalProgram EXACTLY (b :: bs)) (Ptr.prog 6) = EXACTLY := by
    simp [literalProgram, GET_OP_CODE]
  have hs9 : GET_OP_CODE (literalProgram EXACTLY (b :: bs)) (Ptr.prog 9) = b := by
    simp [literalProgram, GET_OP_CODE]
  have hnb : GET_OP_CODE (literalProgram EXACTLY (b :: bs))
      (Ptr.prog ((b :: bs).length + 9 + 1)) ≠ BRANCH := by rw [literalProgram_END]; decide
  have ho3 : OPERAND (Ptr.prog 3) = Ptr.prog 6 := by
    simp [OPERAND, Ptr.add, NODE_SIZE, NEXT_PTR_SIZE, OP_CODE_SIZE]
  have ho6 : OPERAND (Ptr.prog 6) = Ptr.prog 9 := by
    simp [OPERAND, Ptr.add, NODE_SIZE, NEXT_PTR_SIZE, OP_CODE_SIZE]
  have hlim : ¬ (0 + 1 > REGEX_RECURSION_LIMIT) := by decide
  unfold attempt
  simp only [hprog, REGEX_START_OFFSET]
  rw [match_eq]
  simp only []
  rw [if_neg hlim, matchLoop_BRANCH_single _ _ _ _ _ hb (literalProgram_NEXT3 _ _ hlen) hnb, ho3,
    matchLoop_EXACTLY _ _ _ _ _ hs6 (literalProgram_NEXT6 _ _ hlen (by decide))]
  unfold case_EXACTLY
  simp only []
  rw [ho6, cstring_literalProgram _ _ hnz, hs9]
  simp only [hE]
  by_cases h1 : b = T.getD s 0
  · rw [if_neg (not_not.mpr h1)]
    by_cases h2 : s + (b :: bs).length > T.length
    · have hd : ¬ (s + (b :: bs).length ≤ T.length ∧
          (T.drop s).take (b :: bs).length = b :: bs) := fun h => by omega
      simp only [h2, decide_True, if_true, MATCH_RETURN, hd, decide_False]
      exact ⟨_, _, rfl, rfl, rfl, rfl, rfl, rfl, fun h => absurd h (by simp)⟩
    · have h2' : s + (b :: bs).length ≤ T.length := by omega
      have hst := strncmpEq_iff T (b :: bs) s h2'
      simp only [h2, decide_False, Bool.false_eq_true, if_false]
      by_cases h3 : (T.drop s).take (b :: bs).length = b :: bs
      · have hs3 : strncmpEq (b :: bs) T s = true := hst.mpr h3
        simp only [hs3, Bool.not_true, Bool.false_eq_true, and_false, if_false]
        rw [matchLoop_END _ _ _ _ _ (literalProgram_END _ _)]
        let st1 : ExecuteContext :=
          { st with
            Reg_Input := s + (b :: bs).length
            End_Of_String := some T.length
            Start_Ptr_Ptr := fill_n re.startp (st.Total_Paren + 1) none
            End_Ptr_Ptr := fill_n re.endp (st.Total_Paren + 1) none
            Recursion_Count := 0 + 1
            Extent_Ptr_BW := some s
            Extent_Ptr_FW := none }
        obtain ⟨e1, e2, e3, e4, e5, e6, e7⟩ := extentFW_fields st1
        have hd : (s + (b :: bs).length ≤ T.length ∧
            (T.drop s).take (b :: bs).length = b :: bs) := ⟨h2', h3⟩
        simp only [MATCH_RETURN, hd, and_self, decide_True]
        refine ⟨_, _, rfl, rfl, rfl, rfl, ?_, ?_, fun _ => ⟨?_, ?_⟩⟩
        · exact e4
        · exact e5
        · simp [arraySet]
        · simp only [arraySet, if_true]
          exact congrArg some e1
      · have hs3 : strncmpEq (b :: bs) T s = false := by
          cases hc : strncmpEq (b :: bs) T s with
          | false => rfl
          | true => exact absurd (hst.mp hc) h3
        have hl : (b :: bs).length > 1 := by
          cases bs with
          | nil =>
            exfalso
            apply h3
            simp only [List.length_cons, List.length_nil] at h2' ⊢
            have hlt : s < T.length := by omega
            have hd : T.drop s = T.getD s 0 :: T.drop (s + 1) := by
              rw [List.getD_eq_getElem _ _ hlt]
              exact List.drop_eq_getElem_cons hlt
            rw [hd, ← h1]
            rfl
          | cons c cs => simp
        have hd : ¬ (s + (b :: bs).length ≤ T.length ∧
            (T.drop s).take (b :: bs).length = b :: bs) := fun h => h3 h.2
        simp only [hl, hs3, Bool.not_false, and_self, if_true, MATCH_RETURN, hd, decide_False]
        exact ⟨_, _, rfl, rfl, rfl, rfl, rfl, rfl, fun h => absurd h (by simp)⟩
  · rw [if_pos h1]
    have hd : ¬ (s + (b :: bs).length ≤ T.length ∧
        (T.drop s).take (b :: bs).length = b :: bs) := by
      rintro ⟨hle, htk⟩
      simp only [List.length_cons] at hle
      have hlt : s < T.length := by omega
      have hd : T.drop s = T.getD s 0 :: T.drop (s + 1) := by
        rw [List.getD_eq_getElem _ _ hlt]
        exact List.drop_eq_getElem_cons hlt
      rw [hd] at htk
      simp only [List.length_cons, List.take_succ_cons, List.cons.injEq] at htk
      exact h1 htk.1.symm
    simp only [MATCH_RETURN, hd, decide_False]
    exact ⟨_, _, rfl, rfl, rfl, rfl, rfl, rfl, fun h => absurd h (by simp)⟩

/-- The function `execute` on the program of a case-insensitive literal and a text that
equals the operand after lower-casing: the match spans the text. -/
theorem execute_similar (bytes T : List Nat) (fuel dd : Nat) (re : regexp)
    (st0 : ExecuteContext) (hprog : re.program = literalProgram SIMILAR bytes)
    (hms : re.match_start = 0) (han : re.anchor = 0) (hne : bytes ≠ [])
    (hnz : ∀ b ∈ bytes, b ≠ 0) (hlen : bytes.length + 7 < 65536)
    (hT : T.length = bytes.length) (hmap : T.map tolower = bytes) (hf : 3 ≤ fuel) :
    ∃ r st, execute T fuel dd re st0 0 = some (true, r, st) ∧ r.startp 0 = some 0 ∧
      r.endp 0 = some T.length := by
  obtain ⟨f, rfl⟩ : ∃ f, fuel = f + 3 := ⟨fuel - 3, by omega⟩
  have hpos : 0 < T.length := by
    rw [hT]; exact List.length_pos.mpr hne
  have hmagic : ¬ (re.program.getD 0 0 ≠ MAGIC) := by
    rw [hprog]; simp [literalProgram]
  let st1 := execContext dd re st0 0 (some T.length) 0 0 none (some 0) (some T.length)
  have hE : st1.End_Of_String = some T.length := rfl
  have hX : st1.Recursion_Limit_Exceeded = false := rfl
  obtain ⟨r, st', hatt, hs, he, hx⟩ := attempt_similar bytes T f 0 (execRegexp re 0) st1
    hprog hnz hlen hE (by omega) (by rw [← hT]; simpa using hmap)
  have hsearch : searchForward T (f + 3) 2 (some T.length) (T.length + 2) 0 (execRegexp re 0) st1
      = some (true, 0, r, st') := by
    rw [searchForward]
    have h1 : AT_END_OF_STRING st1 0 = false := by
      simp only [AT_END_OF_STRING, hE, decide_eq_false_iff_not]; omega
    have h2 : (some 0 : Option Nat) ≠ some T.length := by
      simp only [ne_eq, Option.some.injEq]; omega
    simp only [h1, hX, h2, hatt, Bool.not_false, ne_eq, not_false_eq_true, and_self, if_true,
      OfNat.ofNat_ne_zero, false_and, if_false, OfNat.ofNat_ne_one]
  refine ⟨r, st', ?_, hs, by rw [he]; simp [hT]⟩
  unfold execute execute_range ExecRE
  rw [if_neg hmagic]
  simp only [han, hms, ne_eq, not_true_eq_false, if_false, if_true, Bool.not_false,
    Bool.false_eq_true, and_false, OfNat.ofNat_ne_zero, OfNat.ofNat_ne_one]
  rw [hsearch]
  simp only [hx, hX, Bool.false_eq_true, if_false]

/-- The function `execute` on the program of a case-sensitive literal and a text of the
same length: it finds a match exactly when the text is the operand. -/
theorem execute_exactly (b : Nat) (bs T : List Nat) (fuel dd : Nat) (re : regexp)
    (st0 : ExecuteContext) (hprog : re.program = literalProgram EXACTLY (b :: bs))
    (hms : re.match_start = b) (han : re.anchor = 0)
    (hnz : ∀ c ∈ b :: bs, c ≠ 0) (hlen : (b :: bs).length + 7 < 65536)
    (hT : T.length = (b :: bs).length) (hf : 3 ≤ fuel) :
    ∃ r st, execute T fuel dd re st0 0 = some (decide (T = b :: bs), r, st) ∧
      (T = b :: bs → r.startp 0 = some 0 ∧ r.endp 0 = some T.length) := by
  obtain ⟨f, rfl⟩ : ∃ f, fuel = f + 3 := ⟨fuel - 3, by omega⟩
  have hb0 : b ≠ 0 := hnz b (List.mem_cons_self _ _)
  have hpos : 0 < T.length := by rw [hT]; simp
  have hmagic : ¬ (re.program.getD 0 0 ≠ MAGIC) := by
    rw [hprog]; simp [literalProgram]
  let st1 := execContext dd re st0 0 (some T.length) 0 0 none (some 0) (some T.length)
  have hE : st1.End_Of_String = some T.length := rfl
  have hX : st1.Recursion_Limit_Exceeded = false := rfl
  have hkind : (if re.anchor ≠ 0 then 0 else if re.match_start ≠ 0 then 1 else 2) = 1 := by
    rw [han, hms]; simp [hb0]
  have hsearch : ∃ str r st, searchForward T (f + 3) 1 (some T.length) (T.length + 2) 0
      (execRegexp re 0) st1 = some (decide (T = b :: bs), str, r, st) ∧
      st.Recursion_Limit_Exceeded = false ∧
      (T = b :: bs → r.startp 0 = some 0 ∧ r.endp 0 = some T.length) := by
    by_cases hTP : T = b :: bs
    · obtain ⟨r, st', hatt, -, -, -, -, hx, hspan⟩ := attempt_exactly b bs T f 0 (execRegexp re 0)
        st1 hprog hnz hlen hE
      have hd : (0 + (b :: bs).length ≤ T.length ∧
          (T.drop 0).take (b :: bs).length = b :: bs) := by
        constructor
        · omega
        · rw [← hT, List.drop_zero, List.take_length]; exact hTP
      simp only [hd, and_self, decide_True] at hatt
      refine ⟨0, r, st', ?_, hx.trans hX, fun _ => ?_⟩
      · rw [searchForward_start_hit T (f + 3) T.length (T.length + 1) 0 (execRegexp re 0) r st1 st'
          hE hX hpos (by rw [hTP]; exact hms.symm) hatt]
        simp [hTP]
      · have := hspan hd
        rw [this.1, this.2]
        simp [hT]
    · obtain ⟨r, st', hs, hI⟩ := searchForward_start_none T (f + 3) T.length b
        (fun prog st => prog.program = literalProgram EXACTLY (b :: bs) ∧ prog.match_start = b ∧
          st.End_Of_String = some T.length ∧ st.Recursion_Limit_Exceeded = false)
        (fun prog st h => ⟨h.2.2.1, h.2.2.2, h.2.1⟩)
        (by
          intro p hp prog st hI _
          obtain ⟨r, st', hatt, h1, h2, -, h4, h5, -⟩ := attempt_exactly b bs T f p prog st hI.1
            hnz hlen hI.2.2.1
          have hd : ¬ (p + (b :: bs).length ≤ T.length ∧
              (T.drop p).take (b :: bs).length = b :: bs) := by
            rintro ⟨hle, htk⟩
            have hp0 : p = 0 := by omega
            subst hp0
            rw [← hT, List.drop_zero, List.take_length] at htk
            exact hTP htk
          simp only [hd, decide_False] at hatt
          exact ⟨r, st', hatt, h1.trans hI.1, h2.trans hI.2.1, h4.trans hI.2.2.1,
            h5.trans hI.2.2.2⟩)
        (T.length + 2) 0 (execRegexp re 0) st1 ⟨hprog, hms, hE, hX⟩ (Nat.zero_le _) (by omega)
      refine ⟨T.length, r, st', ?_, hI.2.2.2, fun h => absurd h hTP⟩
      rw [hs]
      simp [hTP]
  obtain ⟨str, r, st', hs, hx, hspan⟩ := hsearch
  refine ⟨r, st', ?_, hspan⟩
  unfold execute execute_range ExecRE
  rw [if_neg hmagic]
  simp only [hkind, ne_eq, not_true_eq_false, if_false, if_true, Bool.not_false,
    Bool.false_eq_true, and_false, OfNat.ofNat_ne_zero, OfNat.ofNat_ne_one, one_ne_zero]
  rw [hs]
  simp only [hx, Bool.false_eq_true, if_false]

/-! ## Case-insensitive literals -/

set_option maxHeartbeats 4000000 in
/-- A pattern of ordinary characters that is too long for the program buffer. -/
theorem CompileRE_run_tooBig (x : Nat) (P : List Nat) (flags : Nat)
    (hord : ∀ y ∈ x :: P, isOrdinaryChar y) (hlen : MAX_COMPILED_SIZE ≤ P.length + 14) :
    CompileRE (x :: P) flags = Except.error RegexError.tooBig := by
  unfold CompileRE CompileRE_counting
  obtain ⟨a1, a2, a3, a4, a5, -, a7, -, -, -⟩ :=
    passContext_fields (x :: P) flags [] Compute_Size 0
  generalize passContext (x :: P) flags true [] Compute_Size 0 = p1 at *
  rw [compilePass_run_sizing p1 x P hord a1 a2 a3 a4 a5]
  have hsz : p1.Reg_Size + (P.length + 14) ≥ MAX_COMPILED_SIZE := by
    rw [a7, Nat.zero_add]; exact hlen
  simp only []
  rw [if_pos hsz]

theorem letters_bytes (P : List Nat) (hletters : ∀ c ∈ P, isalpha c = true) :
    P.map (fun c => tolower c % 256) = P.map tolower ∧ P.map (fun c => c % 256) = P ∧
      (∀ b ∈ P.map tolower, b ≠ 0) ∧ (∀ b ∈ P, b ≠ 0) := by
  have hr : ∀ c ∈ P, (65 ≤ c ∧ c ≤ 90) ∨ (97 ≤ c ∧ c ≤ 122) := by
    intro c hc
    have := hletters c hc
    simp [isalpha, isupper, islower] at this
    omega
  have hl : ∀ c ∈ P, tolower c % 256 = tolower c ∧ tolower c ≠ 0 := by
    intro c hc
    have := hr c hc
    unfold tolower isupper
    split_ifs <;> omega
  refine ⟨List.map_congr_left fun c hc => (hl c hc).1, ?_, ?_, ?_⟩
  · conv_rhs => rw [← List.map_id P]
    exact List.map_congr_left fun c hc => by have := hr c hc; simp only [id]; omega
  · intro b hb
    obtain ⟨c, hc, rfl⟩ := List.mem_map.mp hb
    exact (hl c hc).2
  · intro b hb
    have := hr b hb
    omega

/-- C13 (amended): for every non-empty pattern `P` of at most 32753 ASCII letters and
every text `T` of the same length that equals `P` after lower-casing both: compiled with
the case-insensitive flag, `P` is found by `execute` in `T` with the match spanning all
of `T`; compiled without the flag, `P` is found in `T` exactly when `T = P`, and the
match then spans all of `T`. -/
theorem case_insensitive_literal (P T : List Nat) (hP : P ≠ []) (hsize : P.length ≤ 32753)
    (hletters : ∀ c ∈ P, isalpha c = true) (hT : T.length = P.length)
    (hlow : T.map tolower = P.map tolower) :
    (∃ re, CompileRE P REDFLT_CASE_INSENSITIVE = Except.ok re ∧
      ∀ fuel Default_Delimiters st0, 3 ≤ fuel →
        ∃ r st, execute T fuel Default_Delimiters re st0 0 = some (true, r, st) ∧
          r.startp 0 = some 0 ∧ r.endp 0 = some T.length) ∧
    (∃ re, CompileRE P 0 = Except.ok re ∧
      ∀ fuel Default_Delimiters st0, 3 ≤ fuel →
        ∃ r st, execute T fuel Default_Delimiters re st0 0 = some (decide (T = P), r, st) ∧
          (T = P → r.startp 0 = some 0 ∧ r.endp 0 = some T.length)) := by
  obtain ⟨x, P', rfl⟩ : ∃ x P', P = x :: P' := by
    cases P with
    | nil => exact absurd rfl hP
    | cons x P' => exact ⟨x, P', rfl⟩
  simp only [List.length_cons] at hsize
  have hord : ∀ y ∈ x :: P', isOrdinaryChar y := fun y hy => alpha_ordinary (hletters y hy)
  have hM : P'.length + 14 < MAX_COMPILED_SIZE := by
    have : MAX_COMPILED_SIZE = 32767 := rfl
    omega
  obtain ⟨hb1, hb2, hz1, hz2⟩ := letters_bytes (x :: P') hletters
  have hci : REDFLT_CASE_INSENSITIVE &&& REDFLT_CASE_INSENSITIVE ≠ 0 := by decide
  have hcs : ¬ (0 &&& REDFLT_CASE_INSENSITIVE ≠ 0) := by decide
  constructor
  · refine ⟨_, CompileRE_run x P' REDFLT_CASE_INSENSITIVE hord hM, ?_⟩
    intro fuel dd st0 hf
    simp only [if_pos hci, hb1]
    exact execute_similar ((x :: P').map tolower) T fuel dd _ st0 rfl rfl rfl (by simp) hz1
      (by simp only [List.length_map, List.length_cons]; omega) (by simpa using hT) hlow hf
  · refine ⟨_, CompileRE_run x P' 0 hord hM, ?_⟩
    intro fuel dd st0 hf
    have hx : x % 256 = x := by
      have := hb2
      simp only [List.map_cons, List.cons.injEq] at this
      exact this.1
    simp only [if_neg hcs, hb2, hx]
    exact execute_exactly x P' T fuel dd _ st0 rfl rfl rfl hz2
      (by simp only [List.length_cons]; omega) hT hf

/-- C13, at the patterns of the claim: `abc` compiled case-insensitively matches all of
`"ABC"`; compiled without the flag it does not match `"ABC"`. -/
theorem case_insensitive_literal_witness :
    (∃ re, CompileRE (strBytes "abc") REDFLT_CASE_INSENSITIVE = Except.ok re ∧
      ∀ fuel Default_Delimiters st0, 3 ≤ fuel →
        ∃ r st, execute (strBytes "ABC") fuel Default_Delimiters re st0 0 = some (true, r, st) ∧
          r.startp 0 = some 0 ∧ r.endp 0 = some (strBytes "ABC").length) ∧
    (∃ re, CompileRE (strBytes "abc") 0 = Except.ok re ∧
      ∀ fuel Default_Delimiters st0, 3 ≤ fuel →
        ∃ r st, execute (strBytes "ABC") fuel Default_Delimiters re st0 0
            = some (decide (strBytes "ABC" = strBytes "abc"), r, st) ∧
          (strBytes "ABC" = strBytes "abc" →
            r.startp 0 = some 0 ∧ r.endp 0 = some (strBytes "ABC").length)) :=
  case_insensitive_literal (strBytes "abc") (strBytes "ABC") (by decide) (by decide)
    (by decide) (by decide) (by decide)

/-- C13, a counterexample: a pattern of 32754 letters `a` is rejected by the constructor,
with or without the case-insensitive flag, because its program would not fit into
`MAX_COMPILED_SIZE` bytes; nothing can be executed on the text of 32754 letters `A`. -/
theorem case_insensitive_literal_too_long :
    CompileRE (List.replicate 32754 97) REDFLT_CASE_INSENSITIVE
        = Except.error RegexError.tooBig ∧
      CompileRE (List.replicate 32754 97) 0 = Except.error RegexError.tooBig := by
  have hrep : List.replicate 32754 97 = 97 :: List.replicate 32753 97 :=
    List.replicate_succ 97 32753
  have hord : ∀ y ∈ 97 :: List.replicate 32753 97, isOrdinaryChar y := by
    intro y hy
    have hy' : y = 97 := by
      rcases List.mem_cons.mp hy with h | h
      · exact h
      · exact List.eq_of_mem_replicate h
    rw [hy']
    decide
  rw [hrep]
  exact ⟨CompileRE_run_tooBig 97 _ _ hord (by rw [List.length_replicate]; decide),
    CompileRE_run_tooBig 97 _ _ hord (by rw [List.length_replicate]; decide)⟩

/-! ## Nested quantifiers -/

/-- The digit loop of `piece` on a run of digits whose value exceeds 65535: the error is
one of the two operand errors. -/
theorem braceDigits_overflow_kind (i min0 : Nat) (ds : List Nat) :
    ∀ (fuel v dp : Nat) (ctx : ParseContext) (rest : List Nat),
      (∀ d ∈ ds, isdigit d = true) → ctx.ahead = ds ++ rest →
      safe_ctype isdigit (rest.headD 0) = false → ds.length < fuel → v ≤ 65535 →
      65535 < digitsValue v ds →
      ∃ e, braceDigits i min0 fuel v dp ctx = Except.error e ∧ e ≠ RegexError.fuel := by
  induction ds with
  | nil =>
    intro fuel v dp ctx rest _ hah hnd hf hv0 h
    simp only [digitsValue, List.foldl_nil] at h
    omega
  | cons d ds ih =>
    intro fuel v dp ctx rest hds hah hnd hf hv0 h
    obtain ⟨f, rfl⟩ : ∃ f, fuel = f + 1 := ⟨fuel - 1, by simp at hf; omega⟩
    have hd : isdigit d = true := hds d (List.mem_cons_self _ _)
    have hd' : 48 ≤ d ∧ d ≤ 57 := by simpa [isdigit] using hd
    have hpk : ctx.peek = d := by rw [peek_eq_ahead, hah]; rfl
    have hsd : safe_ctype isdigit d = true := by
      rw [safe_ctype_of_lt isdigit (by omega)]; exact hd
    have hah' : ({ ctx with Reg_Parse := ctx.Reg_Parse + 1 } : ParseContext).ahead = ds ++ rest :=
      ahead_advance ctx d (ds ++ rest) hah
    have hstep : digitsValue v (d :: ds) = digitsValue (v * 10 + (d - 48)) ds := rfl
    rw [braceDigits]
    simp only [comp_bind, comp_get, hpk, hsd, if_true]
    by_cases hv : (v = 6553 ∧ d - 48 ≤ 5) ∨ v ≤ 6552
    · simp only [hv, if_true, comp_bind, comp_advance]
      exact ih f (v * 10 + (d - 48)) (dp + 1) { ctx with Reg_Parse := ctx.Reg_Parse + 1 } rest
        (fun x hx => hds x (List.mem_cons_of_mem _ hx)) hah' hnd (by simpa using hf) (by omega)
        (by rw [← hstep]; exact h)
    · simp only [hv, if_false]
      by_cases hi : i = 0 <;> simp [hi, comp_raise]

/-- A counted range with both bounds written out, when `pieceBrace` rejects it: the error
is not the exhaustion of the fuel. -/
theorem pieceBrace_error_kind (ctx : ParseContext) (dm dn rest : List Nat)
    (hdm : ∀ d ∈ dm, isdigit d = true) (hdn : ∀ d ∈ dn, isdigit d = true)
    (hah : ctx.ahead = dm ++ 44 :: (dn ++ 125 :: rest)) (e : RegexError)
    (he : pieceBrace ctx = Except.error e) : e ≠ RegexError.fuel := by
  have hlen := ahead_length_le ctx
  rw [hah] at hlen
  simp only [List.length_append, List.length_cons] at hlen
  have hnd1 : safe_ctype isdigit ((44 :: (dn ++ 125 :: rest)).headD 0) = false := by
    show safe_ctype isdigit 44 = false; decide
  have hnd2 : safe_ctype isdigit ((125 :: rest).headD 0) = false := by
    show safe_ctype isdigit 125 = false; decide
  by_cases hm : numeralValue dm ≤ 65535
  · by_cases hn : numeralValue dn ≤ 65535
    · rw [pieceBrace_comma ctx dm dn rest hdm hdn hah hm hn] at he
      split_ifs at he <;> (simp only [Except.error.injEq] at he; rw [← he]; simp)
    · have h1 := (braceDigits_spec 0 0 dm (ctx.InputString.length + 1) 0 0 ctx
        (44 :: (dn ++ 125 :: rest)) hdm hah hnd1 (by omega) (by omega)).1 hm
      have ha1 := ahead_advance_append ctx dm _ hah
      have hp1 : ({ ctx with Reg_Parse := ctx.Reg_Parse + dm.length } : ParseContext).peek
          = 44 := by rw [peek_eq_ahead, ha1]; rfl
      have ha2 := ahead_advance { ctx with Reg_Parse := ctx.Reg_Parse + dm.length } 44 _ ha1
      obtain ⟨e', he', hk⟩ := braceDigits_overflow_kind 1 (numeralValue dm) dn
        (ctx.InputString.length + 1) 0 0
        { ctx with Reg_Parse := ctx.Reg_Parse + dm.length + 1 }
        (125 :: rest) hdn ha2 hnd2 (by omega) (by omega) (by unfold numeralValue at hn; omega)
      simp only [Nat.zero_add] at h1
      unfold pieceBrace at he
      simp only [comp_bind, comp_get, REG_ZERO, REG_INFINITY, h1, hp1, if_true, comp_advance]
        at he
      erw [he'] at he
      simp only [Except.error.injEq] at he
      rw [← he]; exact hk
  · obtain ⟨e', he', hk⟩ := braceDigits_overflow_kind 0 0 dm (ctx.InputString.length + 1) 0 0 ctx
      (44 :: (dn ++ 125 :: rest)) hdm hah hnd1 (by omega) (by omega)
      (by unfold numeralValue at hm; omega)
    unfold pieceBrace at he
    simp only [comp_bind, comp_get, REG_ZERO, he', Except.error.injEq] at he
    rw [← he]; exact hk

theorem sizingStart_fields (S : List Nat) :
    (sizingStart S).Reg_Parse = 0 ∧ (sizingStart S).InputString = S ∧
    (sizingStart S).Meta_Char = Default_Meta_Char ∧ (sizingStart S).Brace_Char = 123 ∧
    (sizingStart S).Code_Emit_Ptr = Compute_Size ∧
    (sizingStart S).Is_Case_Insensitive = false ∧
    (sizingStart S).Enable_Counting_Quantifier = true ∧
    (sizingStart S).Num_Braces = 0 := by
  simp only [sizingStart, passContext, init_ansi_classes, if_true, and_self, true_and]
  decide

theorem piece_atom_error (chunk : Nat → Comp Ret) (ctx : ParseContext) (e : RegexError)
    (h : atom chunk ctx = Except.error e) : piece chunk ctx = Except.error e := by
  unfold piece
  simp only [comp_bind, h]


theorem ahead_skip (ctx ctx1 : ParseContext) (l rest : List Nat) (h : ctx.ahead = l ++ rest)
    (hI : ctx1.InputString = ctx.InputString) (hR : ctx1.Reg_Parse = ctx.Reg_Parse + l.length) :
    ctx1.ahead = rest := by
  unfold ParseContext.ahead at *
  rw [hI, hR, ← List.drop_drop, h]
  simp

theorem peek_of_fields (ctx ctx1 : ParseContext) (hI : ctx1.InputString = ctx.InputString)
    (hR : ctx1.Reg_Parse = ctx.Reg_Parse) : ctx1.peek = ctx.peek := by
  rw [peek_eq_ahead, peek_eq_ahead]
  unfold ParseContext.ahead
  rw [hI, hR]

/-- After an atom, a quantifier `*`, `+` or `?` directly followed by a quantifier
character other than `?` makes `piece` fail in the sizing pass: the operand may be empty,
or the quantifiers are nested. -/
theorem piece_simple_then_quantifier (chunk : Nat → Comp Ret) (ctx0 ctx1 : ParseContext)
    (fl : Nat) (rg : len_range) (q c2 : Nat) (r2 : List Nat)
    (hatom : atom chunk ctx0 = Except.ok ((Compute_Size, fl, rg), ctx1))
    (fB1 : ctx1.Brace_Char = 123) (fP1 : ctx1.Code_Emit_Ptr = Compute_Size)
    (hq : q = 42 ∨ q = 43 ∨ q = 63) (hc2 : c2 = 42 ∨ c2 = 43 ∨ c2 = 123)
    (hah1 : ctx1.ahead = q :: c2 :: r2) :
    ∃ e, piece chunk ctx0 = Except.error e ∧ e ≠ RegexError.fuel := by
  have hcs : Compute_Size ≠ Ptr.null := by simp [Compute_Size]
  generalize hc3 : ({ ctx1 with Reg_Parse := ctx1.Reg_Parse + 1 } : ParseContext) = ctx3
  have hah3 : ctx3.ahead = c2 :: r2 := by rw [← hc3]; exact ahead_advance ctx1 q _ hah1
  have hlazy : ({ ctx1 with Reg_Parse := ctx1.Reg_Parse + 1 } : ParseContext).peek ≠ 63 := by
    rw [hc3, peek_eq_ahead, hah3]; show c2 ≠ 63; omega
  have fB3 : ctx3.Brace_Char = 123 := by rw [← hc3]; exact fB1
  have fP3 : ctx3.Code_Emit_Ptr = Compute_Size := by rw [← hc3]; exact fP1
  have hpiece := piece_simple_quant chunk ctx0 ctx1 Compute_Size fl rg q (c2 :: r2) hatom hcs hq
    hah1 hlazy
  simp only [hc3] at hpiece
  by_cases hw : fl &&& HAS_WIDTH = 0
  · rw [if_pos hw] at hpiece
    exact ⟨_, hpiece, by simp⟩
  · obtain ⟨size, nb, hemit⟩ := pieceEmit_sizing q (decide (fl &&& SIMPLE ≠ 0))
      false (if q = 43 then 1 else 0) (if q = 63 then 1 else 0) ctx3 fP3 (by omega)
    generalize hc4 : ({ ctx3 with Reg_Size := size, Num_Braces := nb } : ParseContext) = ctx4
      at hemit
    have hp4 : ctx4.peek = c2 := by
      rw [peek_of_fields ctx3 ctx4 (by rw [← hc4]) (by rw [← hc4]), peek_eq_ahead, hah3]; rfl
    have hq4 : IS_QUANTIFIER ctx4 ctx4.peek = true := by
      have fB4 : ctx4.Brace_Char = 123 := by rw [← hc4]; exact fB3
      rw [hp4]
      simp only [IS_QUANTIFIER]
      rcases hc2 with rfl | rfl | rfl <;> simp [fB4]
    rw [if_neg hw, hemit] at hpiece
    simp only [] at hpiece
    rw [if_pos hq4] at hpiece
    exact ⟨_, hpiece, by simp⟩

/-- After an atom, a counted range with both bounds written out, directly followed by a
quantifier character other than `?`: either `piece` fails in the sizing pass (the range
is invalid, the operand may be empty, or the quantifiers are nested), or the range is
`{1,1}` and `piece` returns with the quantifier character next. -/
theorem piece_brace_then_quantifier (chunk : Nat → Comp Ret) (ctx0 ctx1 : ParseContext)
    (fl : Nat) (rg : len_range) (c2 : Nat) (dm dn r2 : List Nat)
    (hatom : atom chunk ctx0 = Except.ok ((Compute_Size, fl, rg), ctx1))
    (fB1 : ctx1.Brace_Char = 123) (fP1 : ctx1.Code_Emit_Ptr = Compute_Size)
    (hdm : ∀ d ∈ dm, isdigit d = true) (hdn : ∀ d ∈ dn, isdigit d = true)
    (hc2 : c2 = 42 ∨ c2 = 43 ∨ c2 = 123)
    (hah1 : ctx1.ahead = 123 :: (dm ++ 44 :: (dn ++ 125 :: c2 :: r2))) :
    (∃ e, piece chunk ctx0 = Except.error e ∧ e ≠ RegexError.fuel) ∨
    (∃ ctx3, piece chunk ctx0 = Except.ok ((Compute_Size, fl, rg), ctx3) ∧
      ctx3.ahead = c2 :: r2 ∧
      ctx3.Enable_Counting_Quantifier = ctx1.Enable_Counting_Quantifier) := by
  have hcs : Compute_Size ≠ Ptr.null := by simp [Compute_Size]
  generalize hc1 : ({ ctx1 with Reg_Parse := ctx1.Reg_Parse + 1 } : ParseContext) = ctx1a
  have hah2 : ctx1a.ahead = dm ++ 44 :: (dn ++ 125 :: c2 :: r2) := by
    rw [← hc1]; exact ahead_advance ctx1 123 _ hah1
  have fB1a : ctx1a.Brace_Char = 123 := by rw [← hc1]; exact fB1
  have fP1a : ctx1a.Code_Emit_Ptr = Compute_Size := by rw [← hc1]; exact fP1
  have fE1a : ctx1a.Enable_Counting_Quantifier = ctx1.Enable_Counting_Quantifier := by
    rw [← hc1]
  cases hpb : pieceBrace ctx1a with
  | error e =>
    left
    have hk := pieceBrace_error_kind _ dm dn (c2 :: r2) hdm hdn hah2 e hpb
    exact ⟨e, piece_brace_error _ ctx0 ctx1 _ _ _ _ e hatom hcs fB1 hah1 (by rw [hc1]; exact hpb),
      hk⟩
  | ok r =>
    obtain ⟨⟨min, max⟩, ctx2⟩ := r
    have hnd1 : safe_ctype isdigit ((44 :: (dn ++ 125 :: c2 :: r2)).headD 0) = false := by
      show safe_ctype isdigit 44 = false; decide
    have hnd2 : safe_ctype isdigit ((125 :: c2 :: r2).headD 0) = false := by
      show safe_ctype isdigit 125 = false; decide
    have hm : numeralValue dm ≤ 65535 := by
      by_contra hm
      obtain ⟨e, he⟩ := pieceBrace_min_overflow _ dm _ hdm hah2 hnd1 (by omega)
      rw [he] at hpb
      exact absurd hpb (by simp)
    have hn : numeralValue dn ≤ 65535 := by
      by_contra hn
      obtain ⟨e, he⟩ := pieceBrace_max_overflow _ dm dn _ hdm hdn hah2 hnd2 hm (by omega)
      rw [he] at hpb
      exact absurd hpb (by simp)
    have hpb0 := hpb
    rw [pieceBrace_comma _ dm dn (c2 :: r2) hdm hdn hah2 hm hn] at hpb
    split_ifs at hpb
    simp only [Except.ok.injEq, Prod.mk.injEq] at hpb
    obtain ⟨-, hctx2⟩ := hpb
    have hI2 : ctx2.InputString = ctx1a.InputString := by rw [← hctx2]
    have hR2 : ctx2.Reg_Parse = ctx1a.Reg_Parse + dm.length + 1 + dn.length := by rw [← hctx2]
    have hB2 : ctx2.Brace_Char = 123 := by rw [← hctx2]; exact fB1a
    have hP2 : ctx2.Code_Emit_Ptr = Compute_Size := by rw [← hctx2]; exact fP1a
    have hE2 : ctx2.Enable_Counting_Quantifier = ctx1.Enable_Counting_Quantifier := by
      rw [← hctx2]; exact fE1a
    clear hctx2
    generalize hc3 : ({ ctx2 with Reg_Parse := ctx2.Reg_Parse + 1 } : ParseContext) = ctx3
    have hah3 : ctx3.ahead = c2 :: r2 := by
      apply ahead_skip ctx1a _ (dm ++ 44 :: (dn ++ [125])) (c2 :: r2)
      · rw [hah2]; simp
      · rw [← hc3]; exact hI2
      · rw [← hc3]; show ctx2.Reg_Parse + 1 = _
        rw [hR2]; simp only [List.length_cons, List.length_append, List.length_nil]; omega
    have hpk3 : ctx3.peek = c2 := by rw [peek_eq_ahead, hah3]; rfl
    have fB3 : ctx3.Brace_Char = 123 := by rw [← hc3]; exact hB2
    have fP3 : ctx3.Code_Emit_Ptr = Compute_Size := by rw [← hc3]; exact hP2
    have fE3 : ctx3.Enable_Counting_Quantifier = ctx1.Enable_Counting_Quantifier := by
      rw [← hc3]; exact hE2
    have hlazy : ({ ctx2 with Reg_Parse := ctx2.Reg_Parse + 1 } : ParseContext).peek ≠ 63 := by
      rw [hc3, hpk3]; omega
    have hpiece := piece_brace_ok chunk ctx0 ctx1 ctx2 Compute_Size fl rg _ min max hatom hcs fB1
      hah1 (by rw [hc1]; exact hpb0) hlazy
    simp only [hc3] at hpiece
    by_cases h11 : min = 1 ∧ max = 1
    · rw [if_pos h11] at hpiece
      exact Or.inr ⟨ctx3, hpiece, hah3, fE3⟩
    · left
      rw [if_neg h11] at hpiece
      generalize hop : (if min = 0 ∧ max = 0 then 42 else if min = 1 ∧ max = 0 then 43
        else if min = 0 ∧ max = 1 then 63 else 123) = op at hpiece
      have hopv : op = 42 ∨ op = 43 ∨ op = 63 ∨ op = 123 := by
        rw [← hop]; split_ifs <;> simp
      by_cases hnb : op = 123 ∧ ctx2.Num_Braces > UINT8_MAX
      · rw [if_pos hnb] at hpiece
        exact ⟨_, hpiece, by simp⟩
      · rw [if_neg hnb] at hpiece
        by_cases hw : fl &&& HAS_WIDTH = 0
        · rw [if_pos hw] at hpiece
          exact ⟨_, hpiece, by simp⟩
        · rw [if_neg hw] at hpiece
          obtain ⟨size, nb, hemit⟩ := pieceEmit_sizing op (decide (fl &&& SIMPLE ≠ 0)) false
            (if op = 43 then 1 else min) (if op = 63 then 1 else max) ctx3 fP3 hopv
          generalize hc4 : ({ ctx3 with Reg_Size := size, Num_Braces := nb } : ParseContext)
            = ctx4 at hemit
          have hp4 : ctx4.peek = c2 := by
            rw [peek_of_fields ctx3 ctx4 (by rw [← hc4]) (by rw [← hc4]), hpk3]
          have hq4 : IS_QUANTIFIER ctx4 ctx4.peek = true := by
            have fB4 : ctx4.Brace_Char = 123 := by rw [← hc4]; exact fB3
            rw [hp4]
            simp only [IS_QUANTIFIER]
            rcases hc2 with rfl | rfl | rfl <;> simp [fB4]
          rw [hemit] at hpiece
          simp only [] at hpiece
          rw [if_pos hq4] at hpiece
          refine ⟨_, hpiece, ?_⟩
          split_ifs <;> simp

/-! ## Nested quantifiers are rejected -/

/-- The function `atom` in the sizing pass on `.` or on one of the anchors `^`, `$`, `<`,
`>`: one node without operand. -/
theorem atom_special_sizing (chunk : Nat → Comp Ret) (ctx : ParseContext) (x : Nat)
    (rest : List Nat) (hx : x = 46 ∨ x = 94 ∨ x = 36 ∨ x = 60 ∨ x = 62)
    (hah : ctx.ahead = x :: rest) (hP : ctx.Code_Emit_Ptr = Compute_Size) :
    ∃ fl rg, atom chunk ctx = Except.ok ((Compute_Size, fl, rg),
      { ctx with Reg_Parse := ctx.Reg_Parse + 1, Reg_Size := ctx.Reg_Size + NODE_SIZE }) := by
  have hpk : ctx.peek = x := by rw [peek_eq_ahead, hah]; rfl
  have hne : ctx.peek ≠ 40 := by rw [hpk]; omega
  have hlen := length_of_ahead ctx _ hah (by simp)
  simp only [List.length_cons] at hlen
  have hend : ctx.atEnd = false := by
    simp only [ParseContext.atEnd, decide_eq_false_iff_not]; omega
  unfold atom
  simp only [comp_bind, comp_get, atomComments_none _ ctx hne, hend, Bool.false_eq_true, if_false,
    comp_pure, comp_advance, hpk]
  rcases hx with rfl | rfl | rfl | rfl | rfl <;>
    simp [comp_bind, comp_pure, emit_node, hP]

/-- The function `atom` in the sizing pass on a single-character atom that is followed by
a quantifier character. -/
theorem atom_single_char_sizing (chunk : Nat → Comp Ret) (ctx : ParseContext) (x q : Nat)
    (rest : List Nat) (hx : isSingleCharAtom x) (hq : q = 42 ∨ q = 43 ∨ q = 63 ∨ q = 123)
    (hah : ctx.ahead = x :: q :: rest) (hM : ctx.Meta_Char = Default_Meta_Char)
    (hCI : ctx.Is_Case_Insensitive = false) (hP : ctx.Code_Emit_Ptr = Compute_Size) :
    ∃ fl rg ctx1, atom chunk ctx = Except.ok ((Compute_Size, fl, rg), ctx1) ∧
      ctx1.ahead = q :: rest ∧ ctx1.Brace_Char = ctx.Brace_Char ∧
      ctx1.Code_Emit_Ptr = Compute_Size ∧
      ctx1.Enable_Counting_Quantifier = ctx.Enable_Counting_Quantifier := by
  rcases hx with hx | hx
  · exact ⟨_, _, _, atom_single_sizing chunk ctx x q rest hx hq hah hM hCI hP,
      ahead_advance ctx x _ hah, rfl, hP, rfl⟩
  · obtain ⟨fl, rg, h⟩ := atom_special_sizing chunk ctx x (q :: rest) hx hah hP
    exact ⟨fl, rg, _, h, ahead_advance ctx x _ hah, rfl, hP, rfl⟩

theorem quantifierText_head (q2 : List Nat) (h2 : isQuantifierText q2)
    (hlazy : q2 ≠ strBytes "?") :
    ∃ c2 r2, q2 = c2 :: r2 ∧ (c2 = 42 ∨ c2 = 43 ∨ c2 = 123) := by
  rcases h2 with rfl | rfl | rfl | ⟨dm, dn, -, -, rfl⟩
  · exact ⟨42, [], rfl, Or.inl rfl⟩
  · exact ⟨43, [], rfl, Or.inr (Or.inl rfl)⟩
  · exact absurd rfl hlazy
  · exact ⟨123, dm ++ strBytes "," ++ dn ++ strBytes "\x7d", by simp [strBytes],
      Or.inr (Or.inr rfl)⟩

/-- C4: for every single-character atom `x` (an ordinary character, `.`, or an anchor) and
all quantifiers `q1`, `q2` among `*`, `+`, `?` and `{m,n}`, where `q2` is not the lazy
suffix `?`, the constructor rejects the pattern `x q1 q2`, with an error of the parser. -/
theorem nested_quantifier_rejected (x : Nat) (q1 q2 : List Nat) (hx : isSingleCharAtom x)
    (h1 : isQuantifierText q1) (h2 : isQuantifierText q2) (hlazy : q2 ≠ strBytes "?") :
    ∃ e, CompileRE (x :: (q1 ++ q2)) 0 = Except.error e ∧ e ≠ RegexError.fuel := by
  obtain ⟨c2, r2, rfl, hc2⟩ := quantifierText_head q2 h2 hlazy
  generalize hS : x :: (q1 ++ c2 :: r2) = S
  suffices h : ∃ e, alternativeLoop (chunk S.length) (S.length + 1) Ptr.null WORST
      { lower := 0, upper := 0 } (sizingStart S) = Except.error e ∧ e ≠ RegexError.fuel by
    obtain ⟨e, he, hk⟩ := h
    exact ⟨e, compile_error_of_first_piece S e he, hk⟩
  obtain ⟨f0, f1, fM, fB, fP, fCI, fE, fN⟩ := sizingStart_fields S
  generalize sizingStart S = ctx0 at *
  have hah : ctx0.ahead = x :: (q1 ++ c2 :: r2) := by
    simp only [ParseContext.ahead, f0, f1, List.drop_zero, hS]
  have hq1 : ∃ q r1, q1 = q :: r1 := by
    rcases h1 with rfl | rfl | rfl | ⟨dm, dn, -, -, rfl⟩
    · exact ⟨_, _, rfl⟩
    · exact ⟨_, _, rfl⟩
    · exact ⟨_, _, rfl⟩
    · exact ⟨123, dm ++ strBytes "," ++ dn ++ strBytes "\x7d", by simp [strBytes]⟩
  have hSlen : 3 ≤ S.length := by
    obtain ⟨q, r1, rfl⟩ := hq1
    rw [← hS]; simp only [List.length_cons, List.length_append]; omega
  obtain ⟨F, hF⟩ : ∃ F, S.length + 1 = F + 2 := ⟨S.length - 1, by omega⟩
  have hxv : x ≠ 124 ∧ x ≠ 41 := by
    rcases hx with hx | hx
    · have := ordinaryChar_ne hx; omega
    · omega
  have hpk : ctx0.peek = x := by rw [peek_eq_ahead, hah]; rfl
  have hend : ctx0.atEnd = false := by
    simp only [ParseContext.atEnd, f0, f1, decide_eq_false_iff_not]; omega
  have hp1 : ctx0.peek ≠ 124 := by rw [hpk]; exact hxv.1
  have hp2 : ctx0.peek ≠ 41 := by rw [hpk]; exact hxv.2
  rw [hF]
  rcases h1 with rfl | rfl | rfl | ⟨dm, dn, hdm, hdn, rfl⟩
  · obtain ⟨fl, rg, ctx1, hatom, hah1, fB1, fP1, -⟩ := atom_single_char_sizing
      (chunk S.length) ctx0 x 42 (c2 :: r2) hx (by omega) hah fM fCI fP
    obtain ⟨e, he, hk⟩ := piece_simple_then_quantifier _ ctx0 ctx1 fl rg 42 c2 r2 hatom
      (fB1.trans fB) fP1 (by omega) hc2 hah1
    exact ⟨e, alternativeLoop_piece_error _ _ _ _ _ ctx0 _ hp1 hp2 hend he, hk⟩
  · obtain ⟨fl, rg, ctx1, hatom, hah1, fB1, fP1, -⟩ := atom_single_char_sizing
      (chunk S.length) ctx0 x 43 (c2 :: r2) hx (by omega) hah fM fCI fP
    obtain ⟨e, he, hk⟩ := piece_simple_then_quantifier _ ctx0 ctx1 fl rg 43 c2 r2 hatom
      (fB1.trans fB) fP1 (by omega) hc2 hah1
    exact ⟨e, alternativeLoop_piece_error _ _ _ _ _ ctx0 _ hp1 hp2 hend he, hk⟩
  · obtain ⟨fl, rg, ctx1, hatom, hah1, fB1, fP1, -⟩ := atom_single_char_sizing
      (chunk S.length) ctx0 x 63 (c2 :: r2) hx (by omega) hah fM fCI fP
    obtain ⟨e, he, hk⟩ := piece_simple_then_quantifier _ ctx0 ctx1 fl rg 63 c2 r2 hatom
      (fB1.trans fB) fP1 (by omega) hc2 hah1
    exact ⟨e, alternativeLoop_piece_error _ _ _ _ _ ctx0 _ hp1 hp2 hend he, hk⟩
  · have hah' : ctx0.ahead = x :: 123 :: (dm ++ 44 :: (dn ++ 125 :: c2 :: r2)) := by
      rw [hah]; simp [strBytes]
    obtain ⟨fl, rg, ctx1, hatom, hah1, fB1, fP1, fE1⟩ := atom_single_char_sizing
      (chunk S.length) ctx0 x 123 _ hx (by omega) hah' fM fCI fP
    rcases piece_brace_then_quantifier _ ctx0 ctx1 fl rg c2 dm dn r2 hatom (fB1.trans fB) fP1
      hdm.2 hdn.2 hc2 hah1 with ⟨e, he, hk⟩ | ⟨ctx3, hpiece, hah3, fE3⟩
    · exact ⟨e, alternativeLoop_piece_error _ _ _ _ _ ctx0 _ hp1 hp2 hend he, hk⟩
    · have hpk3 : ctx3.peek = c2 := by rw [peek_eq_ahead, hah3]; rfl
      have hend3 : ctx3.atEnd = false := by
        have := length_of_ahead _ _ hah3 (by simp)
        simp only [List.length_cons] at this
        simp only [ParseContext.atEnd, decide_eq_false_iff_not]; omega
      have hat := atom_quantifier (chunk S.length) ctx3 c2 r2 (by omega) hah3
        (fE3.trans (fE1.trans fE))
      have hcs : Compute_Size ≠ Ptr.null := by simp [Compute_Size]
      refine ⟨(if c2 = 123 then RegexError.braceFollowsNothing
        else RegexError.followsNothing c2), ?_, ?_⟩
      · rw [alternativeLoop_piece_ok _ _ _ _ ctx0 _ _ _ _ hp1 hp2 hend hpiece hcs]
        exact alternativeLoop_piece_error _ _ _ _ _ _ _ (by rw [hpk3]; omega)
          (by rw [hpk3]; omega) hend3 (piece_atom_error _ _ _ hat)
      · split_ifs <;> simp

/-- C4, at the pattern of the claim: `a**` is rejected. -/
theorem nested_quantifier_rejected_witness :
    ∃ e, CompileRE (97 :: (strBytes "*" ++ strBytes "*")) 0 = Except.error e ∧
      e ≠ RegexError.fuel :=
  nested_quantifier_rejected 97 (strBytes "*") (strBytes "*") (Or.inl (by decide))
    (Or.inl rfl) (Or.inl rfl) (by decide)

/-! ## Back-references in the compiler -/

theorem back_ref_digit (N : Nat) (h1 : 1 ≤ N) (h9 : N ≤ 9) :
    (!safe_ctype isdigit (48 + N) ∨ ((48 + N : Nat) : Int) - 48 = 0) = False ∧
      (((48 + N : Nat) : Int) - 48).toNat = N := by
  have hd : safe_ctype isdigit (48 + N) = true := by
    rw [safe_ctype_of_lt isdigit (by omega)]
    simp only [isdigit, decide_eq_true_eq]; omega
  constructor
  · simp only [hd, Bool.not_true, Bool.false_eq_true, false_or, eq_iff_iff, iff_false]
    omega
  · omega

/-- The function `back_ref` on a digit `1..9` whose group is not closed. -/
theorem back_ref_illegal (N : Nat) (h1 : 1 ≤ N) (h9 : N ≤ 9) (flag emit : Nat)
    (ctx : ParseContext) (h : bitTest ctx.Closed_Parens N = false) :
    back_ref (48 + N) flag emit ctx = Except.error (RegexError.illegalBackRef N) := by
  obtain ⟨e1, e2⟩ := back_ref_digit N h1 h9
  unfold back_ref
  simp only [e1, e2, if_false, comp_bind, comp_get, h, Bool.not_false, if_true, comp_raise]

/-- The function `back_ref` on a digit `1..9` whose group is closed, when a node is to be
emitted. -/
theorem back_ref_legal (N : Nat) (h1 : 1 ≤ N) (h9 : N ≤ 9) (flag : Nat)
    (ctx : ParseContext) (h : bitTest ctx.Closed_Parens N = true) :
    back_ref (48 + N) flag EMIT_NODE ctx =
      (do
        let ret_val ← emit_node (if ctx.Is_Case_Insensitive then BACK_REF_CI else BACK_REF)
        emit_byte N
        return (ret_val, if bitTest ctx.Paren_Has_Width N then flag ||| HAS_WIDTH else flag) :
          Comp (Ptr × Nat)) ctx := by
  obtain ⟨e1, e2⟩ := back_ref_digit N h1 h9
  unfold back_ref
  simp only [e1, e2, if_false, comp_bind, comp_get, h, Bool.not_true, Bool.false_eq_true,
    if_true]

/-- The function `back_ref` on a digit `1..9` whose group is closed, when the escape is
only checked. -/
theorem back_ref_check (N : Nat) (h1 : 1 ≤ N) (h9 : N ≤ 9) (flag : Nat)
    (ctx : ParseContext) (h : bitTest ctx.Closed_Parens N = true) :
    back_ref (48 + N) flag CHECK_ESCAPE ctx = Except.ok ((Ptr.one, flag), ctx) := by
  obtain ⟨e1, e2⟩ := back_ref_digit N h1 h9
  unfold back_ref
  simp only [e1, e2, if_false, comp_bind, comp_get, h, Bool.not_true, Bool.false_eq_true,
    CHECK_ESCAPE, EMIT_NODE, comp_pure]
  rfl

theorem shortcut_escape_digit (N : Nat) (h9 : N ≤ 9) (flag emit : Nat) (ctx : ParseContext) :
    shortcut_escape (48 + N) flag emit ctx = Except.ok ((Ptr.null, flag), ctx) := by
  have h : ∀ l : List Nat, (∀ c ∈ l, 65 ≤ c) → strchr l (48 + N) = false := by
    intro l hl
    simp only [strchr, Bool.or_eq_false_iff, decide_eq_false_iff_not]
    refine ⟨by omega, ?_⟩
    cases hc : l.contains (48 + N) with
    | false => rfl
    | true =>
      have hm : (48 + N) ∈ l := by simpa using hc
      have := hl _ hm
      omega
  have h1 : strchr shortcut_codes (48 + N) = false := h _ (by decide)
  have h2 : strchr (shortcut_codes.drop 3) (48 + N) = false := h _ (by decide)
  unfold shortcut_escape
  by_cases he : emit = EMIT_CLASS_BYTES ∨ emit = CHECK_CLASS_ESCAPE
  · simp only [he, if_true, h2, Bool.not_false, comp_pure]
  · simp only [he, if_false, h1, Bool.not_false, if_true, comp_pure]

theorem emit_node_same (op : Nat) (c : ParseContext) :
    ∃ c1, emit_node op c = Except.ok (c.Code_Emit_Ptr, c1) ∧ SameParse c c1 := by
  unfold emit_node
  by_cases h : c.Code_Emit_Ptr = Compute_Size
  · simp only [h, if_true]; exact ⟨_, rfl, rfl⟩
  · simp only [h, if_false]; exact ⟨_, rfl, rfl⟩

theorem emit_byte_same (ch : Nat) (c : ParseContext) :
    ∃ c1, emit_byte ch c = Except.ok (PUnit.unit, c1) ∧ SameParse c c1 := by
  unfold emit_byte
  by_cases h : c.Code_Emit_Ptr = Compute_Size
  · simp only [h, if_true]; exact ⟨_, rfl, rfl⟩
  · simp only [h, if_false]; exact ⟨_, rfl, rfl⟩

theorem SameParse.trans {a b c : ParseContext} (h1 : SameParse a b) (h2 : SameParse b c) :
    SameParse a c := by
  unfold SameParse at *
  rw [← h1, ← h2]

theorem SameParse.fields {a b : ParseContext} (h : SameParse a b) :
    b.Reg_Parse = a.Reg_Parse ∧ b.InputString = a.InputString ∧
      b.Closed_Parens = a.Closed_Parens ∧ b.Total_Paren = a.Total_Paren ∧
      b.Paren_Has_Width = a.Paren_Has_Width := by
  unfold SameParse at h
  rw [← h]
  exact ⟨rfl, rfl, rfl, rfl, rfl⟩

/-- The function `atom` at a back-reference `\N`, `N = 1..9`: an error unless group `N`
is closed, and otherwise a `BACK_REF` node. -/
theorem atom_back_ref (chunk : Nat → Comp Ret) (ctx : ParseContext) (N : Nat) (rest : List Nat)
    (h1 : 1 ≤ N) (h9 : N ≤ 9) (hah : ctx.ahead = 92 :: (48 + N) :: rest) :
    (bitTest ctx.Closed_Parens N = false →
      atom chunk ctx = Except.error (RegexError.illegalBackRef N)) ∧
    (bitTest ctx.Closed_Parens N = true → ctx.Code_Emit_Ptr ≠ Ptr.null →
      ∃ fl ctx1, atom chunk ctx
          = Except.ok ((ctx.Code_Emit_Ptr, fl, { lower := -1, upper := -1 }), ctx1) ∧
        ctx1.ahead = rest ∧ ctx1.Closed_Parens = ctx.Closed_Parens) := by
  have hpk : ctx.peek = 92 := by rw [peek_eq_ahead, hah]; rfl
  have hne : ctx.peek ≠ 40 := by rw [hpk]; decide
  have hlen := length_of_ahead ctx _ hah (by simp)
  simp only [List.length_cons] at hlen
  have hend : ctx.atEnd = false := by
    simp only [ParseContext.atEnd, decide_eq_false_iff_not]; omega
  generalize hc1 : ({ ctx with Reg_Parse := ctx.Reg_Parse + 1 } : ParseContext) = ctx1
  have hah1 : ctx1.ahead = (48 + N) :: rest := by rw [← hc1]; exact ahead_advance ctx 92 _ hah
  have hpk1 : ctx1.peek = 48 + N := by rw [peek_eq_ahead, hah1]; rfl
  have hcp : ctx1.Closed_Parens = ctx.Closed_Parens := by rw [← hc1]
  have hce : ctx1.Code_Emit_Ptr = ctx.Code_Emit_Ptr := by rw [← hc1]
  have hsc := shortcut_escape_digit N h9 WORST EMIT_NODE ctx1
  have k1 : ¬ ((92 : Nat) = 94) := by decide
  have k2 : ¬ ((92 : Nat) = 36) := by decide
  have k3 : ¬ ((92 : Nat) = 60) := by decide
  have k4 : ¬ ((92 : Nat) = 62) := by decide
  have k5 : ¬ ((92 : Nat) = 46) := by decide
  have k6 : ¬ ((92 : Nat) = 40) := by decide
  have k7 : ¬ ((92 : Nat) = 124 ∨ (92 : Nat) = 41) := by decide
  have k8 : ¬ ((92 : Nat) = 63 ∨ (92 : Nat) = 43 ∨ (92 : Nat) = 42) := by decide
  have k9 : ¬ ((92 : Nat) = 123) := by decide
  have k10 : ¬ ((92 : Nat) = 91) := by decide
  constructor
  · intro h
    have hb := back_ref_illegal N h1 h9 WORST EMIT_NODE ctx1 (by rw [hcp]; exact h)
    unfold atom
    simp only [comp_bind, comp_get, atomComments_none _ ctx hne, hend, Bool.false_eq_true,
      if_false, comp_pure, comp_advance, hpk, hc1, hpk1, hsc, k1, k2, k3, k4, k5, k6, k7, k8, k9,
      k10, false_and, if_true, ne_eq, not_true_eq_false, hb]
  · intro h hnn
    have hb := back_ref_legal N h1 h9 WORST ctx1 (by rw [hcp]; exact h)
    obtain ⟨c2, he2, hs2⟩ := emit_node_same
      (if ctx1.Is_Case_Insensitive = true then BACK_REF_CI else BACK_REF) ctx1
    obtain ⟨c3, he3, hs3⟩ := emit_byte_same N c2
    have hs := (hs2.trans hs3).fields
    simp only [comp_bind, he2, he3, comp_pure] at hb
    rw [hce] at hb
    unfold atom
    simp only [comp_bind, comp_get, atomComments_none _ ctx hne, hend, Bool.false_eq_true,
      if_false, comp_pure, comp_advance, hpk, hc1, hpk1, hsc, k1, k2, k3, k4, k5, k6, k7, k8, k9,
      k10, false_and, if_true, ne_eq, not_true_eq_false, hb, hnn, not_false_eq_true]
    refine ⟨_, _, rfl, ?_, ?_⟩
    · apply ahead_skip ctx1 _ [48 + N] rest hah1
      · exact hs.2.1
      · show c3.Reg_Parse + 1 = _
        rw [hs.1]; rfl
    · show c3.Closed_Parens = _
      rw [hs.2.2.1, hcp]

/-- The literal loop of `atom` at a back-reference `\N`, `N = 1..9`, whose group is not
closed: the check of the escape raises the error. -/
theorem atomLiteralLoop_back_ref (fuel len : Nat) (ctx : ParseContext) (N : Nat)
    (rest : List Nat) (h1 : 1 ≤ N) (h9 : N ≤ 9) (hah : ctx.ahead = 92 :: (48 + N) :: rest)
    (hM : strchr ctx.Meta_Char 92 = false)
    (h : bitTest ctx.Closed_Parens N = false) :
    atomLiteralLoop (fuel + 1) len ctx = Except.error (RegexError.illegalBackRef N) := by
  have hpk : ctx.peek = 92 := by rw [peek_eq_ahead, hah]; rfl
  have hlen := length_of_ahead ctx _ hah (by simp)
  simp only [List.length_cons] at hlen
  have hend : ctx.atEnd = false := by
    simp only [ParseContext.atEnd, decide_eq_false_iff_not]; omega
  generalize hc1 : ({ ctx with Reg_Parse := ctx.Reg_Parse + 1 } : ParseContext) = ctx1
  have hah1 : ctx1.ahead = (48 + N) :: rest := by rw [← hc1]; exact ahead_advance ctx 92 _ hah
  have hpk1 : ctx1.peek = 48 + N := by rw [peek_eq_ahead, hah1]; rfl
  have hcp : ctx1.Closed_Parens = ctx.Closed_Parens := by rw [← hc1]
  have hnum : numeric_escape_parse ctx1 = Except.ok (0, ctx1) := by
    have hn : ¬ (48 + N = 48 ∨ 48 + N = 120 ∨ 48 + N = 88) := by omega
    simp only [numeric_escape_parse, numeric_escape, hpk1, hn, if_false]
  have hlit : literal_escape (48 + N) = 0 := by
    have hv : valid_escape.contains ((48 + N) % 256) = false := by
      have : N = 1 ∨ N = 2 ∨ N = 3 ∨ N = 4 ∨ N = 5 ∨ N = 6 ∨ N = 7 ∨ N = 8 ∨ N = 9 := by omega
      rcases this with rfl | rfl | rfl | rfl | rfl | rfl | rfl | rfl | rfl <;> decide
    simp only [literal_escape, hv, Bool.false_eq_true, if_false]
  have hb := back_ref_illegal N h1 h9 0 CHECK_ESCAPE ctx1 (by rw [hcp]; exact h)
  rw [atomLiteralLoop]
  simp only [comp_bind, comp_get, hend, hpk, hM, Bool.not_false, and_self, if_true,
    comp_advance, hc1, hpk1, hnum, ne_eq, not_true_eq_false, if_false, hlit, hb]

set_option maxHeartbeats 4000000 in
/-- The body of `chunk` for a capturing group (`PAREN`): the branches are parsed with
`Closed_Parens` as on entry, an error in them is the error of `chunk`, and when `chunk`
returns a node, the character just consumed is the `')'` and the bit of the group, whose
number is the value of `Total_Paren` on entry, is set in `Closed_Parens`. -/
theorem chunkBody_paren (chunk : Nat → Comp Ret) (ctx : ParseContext) :
    (ctx.Total_Paren ≥ NSUBEXP → chunkBody chunk PAREN ctx = Except.error RegexError.tooManyParens) ∧
    (ctx.Total_Paren < NSUBEXP →
      ∃ cA, cA.Closed_Parens = ctx.Closed_Parens ∧ cA.Reg_Parse = ctx.Reg_Parse ∧
        cA.InputString = ctx.InputString ∧ cA.Total_Paren = ctx.Total_Paren + 1 ∧
        (∀ e, chunkBranches chunk (ctx.InputString.length + 1) ctx.Code_Emit_Ptr true HAS_WIDTH
            { lower := 0, upper := 0 } cA = Except.error e →
          chunkBody chunk PAREN ctx = Except.error e) ∧
        (∀ ret fl rg ctx1, chunkBody chunk PAREN ctx = Except.ok ((ret, fl, rg), ctx1) →
          ret ≠ Ptr.null →
          bitTest ctx1.Closed_Parens ctx.Total_Paren = true ∧ 1 ≤ ctx1.Reg_Parse ∧
            ctx1.InputString.getD (ctx1.Reg_Parse - 1) 0 = 41)) := by
  constructor
  · intro hT
    unfold chunkBody
    simp only [comp_bind, comp_get, PAREN, comp_pure, if_true, hT, comp_raise]
  intro hT
  obtain ⟨cA, hA, hsA⟩ := emit_node_same (OPEN + ctx.Total_Paren)
    { ctx with Total_Paren := (ctx.Total_Paren + 1) % 256 }
  have hf := hsA.fields
  have hmod : (ctx.Total_Paren + 1) % 256 = ctx.Total_Paren + 1 := by
    have : NSUBEXP = 50 := rfl
    omega
  have hT' : ¬ (ctx.Total_Paren ≥ NSUBEXP) := by omega
  have h64 : ctx.Total_Paren ≤ 64 := by
    have : NSUBEXP = 50 := rfl
    omega
  have hbit : ∀ b : Nat, bitTest (bitSet b ctx.Total_Paren) ctx.Total_Paren = true := by
    intro b
    simp [bitTest, bitSet, Nat.testBit_or, Nat.testBit_shiftLeft]
  refine ⟨cA, hf.2.2.1, hf.1, hf.2.1, hf.2.2.2.1.trans hmod, ?_, ?_⟩
  · intro e he
    unfold chunkBody
    simp only [comp_bind, comp_get, PAREN, comp_pure, if_true, hT', if_false, comp_set, hA, he]
  · intro ret fl rg ctx1 h hret
    clear hsA hf
    unfold chunkBody at h
    simp only [comp_bind, comp_get, PAREN, comp_pure, if_true, hT', if_false, comp_set, hA] at h
    rcases hbr : chunkBranches chunk (ctx.InputString.length + 1) ctx.Code_Emit_Ptr true HAS_WIDTH
        { lower := 0, upper := 0 } cA with e | ⟨_ | ⟨rv, fl', rg'⟩, c⟩
    · rw [hbr] at h; simp at h
    · rw [hbr] at h
      simp only [comp_pure, Except.ok.injEq, Prod.mk.injEq] at h
      exact absurd h.1.1.symm hret
    · rw [hbr] at h
      simp only [comp_bind, comp_get, comp_pure, if_true, ne_eq, not_true_eq_false, if_false,
        false_and, and_false, comp_modify, comp_raise, NO_PAREN] at h
      revert h
      rcases emit_node (CLOSE + ctx.Total_Paren) c with e | ⟨ender, c1⟩
      · intro h; simp at h
      simp only []
      rcases tail rv ender c1 with e | ⟨u, c2⟩
      · intro h; simp at h
      simp only []
      rcases chunkHook ender (c2.program.length + 2) rv c2 with e | ⟨u, c3⟩
      · intro h; simp at h
      simp only []
      intro h
      by_cases h41 : c3.peek = 41
      · simp only [show ¬ ((1 : Nat) = 0) by decide, not_false_eq_true, if_true, comp_bind,
          comp_advance, h41, not_true_eq_false, if_false, comp_pure, comp_get, true_and, h64,
          comp_set, comp_modify] at h
        have hpk : c3.InputString.getD c3.Reg_Parse 0 = 41 := by
          simpa [ParseContext.peek, ParseContext.peekAt] using h41
        simp only [Bool.not_true, Bool.false_eq_true, and_false, false_and, if_false,
          Bool.not_false, and_true, Nat.lt_irrefl] at h
        split_ifs at h <;>
          first
          | contradiction
          | (simp only [comp_bind, comp_pure, comp_modify, Except.ok.injEq, Prod.mk.injEq] at h
             obtain ⟨-, rfl⟩ := h
             exact ⟨hbit _, Nat.le_add_left _ _, hpk⟩)
      · simp only [show ¬ ((1 : Nat) = 0) by decide, not_false_eq_true, if_true, comp_bind,
          comp_advance, h41, comp_raise] at h
        simp at h

theorem compiled_error {pat : List Nat} {flags : Nat} {e : RegexError}
    (h : compiled pat flags = Except.error e) : CompileRE pat flags = Except.error e := by
  unfold compiled at h
  rcases hc : CompileRE pat flags with e1 | re
  · rw [hc] at h
    simp only [Except.error.injEq] at h
    rw [h]
  · rw [hc] at h; simp at h

/-- C3: for every digit `N` in `1..9`.  (1) `atom`, called at `\N`, raises the
illegal-back-reference error unless the bit `N` of `Closed_Parens` is set, and emits a
back-reference node when it is set.  (2) The literal loop of `atom`, on reaching `\N`
behind literal characters, raises the same error when the bit is not set.  (3) `back_ref`
itself raises it, whatever it is asked to emit.  (4) The bit of a capturing group is
set by `chunk` only after the branches of the group are parsed and its `')'` is
consumed: the branches are parsed with `Closed_Parens` as on entry, their error is the
error of `chunk`, and when `chunk` returns a node the bit of the group (numbered by
`Total_Paren` on entry) is set and the character before `Reg_Parse` is `')'`.  (5) Both
passes start with no bit set.  (6) The constructor rejects `\N` and `(a\N)` with the
illegal-back-reference error for `N`, and accepts `(a)\1`. -/
theorem back_reference_legality (N : Nat) (h1 : 1 ≤ N) (h9 : N ≤ 9) :
    (∀ (chunk : Nat → Comp Ret) (ctx : ParseContext) (rest : List Nat),
      ctx.ahead = 92 :: (48 + N) :: rest →
      (bitTest ctx.Closed_Parens N = false →
        atom chunk ctx = Except.error (RegexError.illegalBackRef N)) ∧
      (bitTest ctx.Closed_Parens N = true → ctx.Code_Emit_Ptr ≠ Ptr.null →
        ∃ fl ctx1, atom chunk ctx
            = Except.ok ((ctx.Code_Emit_Ptr, fl, { lower := -1, upper := -1 }), ctx1) ∧
          ctx1.ahead = rest ∧ ctx1.Closed_Parens = ctx.Closed_Parens)) ∧
    (∀ (fuel len : Nat) (ctx : ParseContext) (rest : List Nat),
      ctx.ahead = 92 :: (48 + N) :: rest → strchr ctx.Meta_Char 92 = false →
      bitTest ctx.Closed_Parens N = false →
      atomLiteralLoop (fuel + 1) len ctx = Except.error (RegexError.illegalBackRef N)) ∧
    (∀ (flag emit : Nat) (ctx : ParseContext), bitTest ctx.Closed_Parens N = false →
      back_ref (48 + N) flag emit ctx = Except.error (RegexError.illegalBackRef N)) ∧
    (∀ (chunk : Nat → Comp Ret) (ctx : ParseContext), ctx.Total_Paren < NSUBEXP →
      ∃ cA, cA.Closed_Parens = ctx.Closed_Parens ∧ cA.Reg_Parse = ctx.Reg_Parse ∧
        cA.InputString = ctx.InputString ∧ cA.Total_Paren = ctx.Total_Paren + 1 ∧
        (∀ e, chunkBranches chunk (ctx.InputString.length + 1) ctx.Code_Emit_Ptr true HAS_WIDTH
            { lower := 0, upper := 0 } cA = Except.error e →
          chunkBody chunk PAREN ctx = Except.error e) ∧
        (∀ ret fl rg ctx1, chunkBody chunk PAREN ctx = Except.ok ((ret, fl, rg), ctx1) →
          ret ≠ Ptr.null →
          bitTest ctx1.Closed_Parens ctx.Total_Paren = true ∧ 1 ≤ ctx1.Reg_Parse ∧
            ctx1.InputString.getD (ctx1.Reg_Parse - 1) 0 = 41)) ∧
    (∀ (exp : List Nat) (flags : Nat) (counting : Bool) (program : List Nat) (emit : Ptr)
        (size : Nat),
      bitTest (passContext exp flags counting program emit size).Closed_Parens N = false) ∧
    CompileRE [92, 48 + N] 0 = Except.error (RegexError.illegalBackRef N) ∧
    CompileRE (strBytes "(a\\" ++ [48 + N] ++ strBytes ")") 0
      = Except.error (RegexError.illegalBackRef N) ∧
    (∃ re, CompileRE (strBytes "(a)\\1") 0 = Except.ok re) := by
  refine ⟨fun chunk ctx rest hah => atom_back_ref chunk ctx N rest h1 h9 hah,
    fun fuel len ctx rest hah hM h => atomLiteralLoop_back_ref fuel len ctx N rest h1 h9 hah hM h,
    fun flag emit ctx h => back_ref_illegal N h1 h9 flag emit ctx h,
    fun chunk ctx hT => (chunkBody_paren chunk ctx).2 hT, ?_, ?_, ?_, ?_⟩
  · intro exp flags counting program emit size
    have : (passContext exp flags counting program emit size).Closed_Parens = 0 := by
      simp only [passContext, init_ansi_classes]
    rw [this]
    simp [bitTest]
  · have : N = 1 ∨ N = 2 ∨ N = 3 ∨ N = 4 ∨ N = 5 ∨ N = 6 ∨ N = 7 ∨ N = 8 ∨ N = 9 := by omega
    rcases this with rfl | rfl | rfl | rfl | rfl | rfl | rfl | rfl | rfl <;>
      exact compiled_error (by decide!)
  · have : N = 1 ∨ N = 2 ∨ N = 3 ∨ N = 4 ∨ N = 5 ∨ N = 6 ∨ N = 7 ∨ N = 8 ∨ N = 9 := by omega
    rcases this with rfl | rfl | rfl | rfl | rfl | rfl | rfl | rfl | rfl <;>
      exact compiled_error (by decide!)
  · have h : compiled (strBytes "(a)\\1") 0
        = Except.ok ([156, 1, 0, 34, 0, 21, 50, 0, 3, 34, 0, 8, 7, 0, 5, 97, 0, 100, 0, 3, 39, 0,
            4, 1, 1, 0, 0], 0, 0) := by decide!
    unfold compiled at h
    rcases hc : CompileRE (strBytes "(a)\\1") 0 with e | re
    · rw [hc] at h; simp at h
    · exact ⟨re, rfl⟩

/-- C3, at `N = 1`: `\1` alone and `(a\1)`, where group 1 is still open, are rejected with
the illegal-back-reference error; `(a)\1` compiles. -/
theorem back_reference_legality_witness :
    1 ≤ 1 ∧ 1 ≤ 9 ∧
      CompileRE [92, 48 + 1] 0 = Except.error (RegexError.illegalBackRef 1) ∧
      CompileRE (strBytes "(a\\" ++ [48 + 1] ++ strBytes ")") 0
        = Except.error (RegexError.illegalBackRef 1) ∧
      (∃ re, CompileRE (strBytes "(a)\\1") 0 = Except.ok re) :=
  ⟨by decide, by decide,
    (back_reference_legality 1 (by decide) (by decide)).2.2.2.2.2.1,
    (back_reference_legality 1 (by decide) (by decide)).2.2.2.2.2.2.1,
    (back_reference_legality 1 (by decide) (by decide)).2.2.2.2.2.2.2⟩

/-! ## Further inputs on which the code departs from its description -/

/-- C21, the 256th counter construct: in a context in which 255 counter constructs have
been compiled (`Num_Braces = 255`), the test `Num_Braces > UINT8_MAX` of `piece` does not
fire and both passes accept the construct `(?:a){2}`; the emitting pass stores the counter
index 255 in the `INIT_COUNT`, `INC_COUNT` and `TEST_COUNT` nodes, and the count that the
constructor writes into byte 2 of the program, `static_cast<uint8_t>(Num_Braces)`, is 0
afterwards. -/
theorem counter_limit_admits_256th_construct :
    (compilePass { passContext (strBytes "(?:a)\x7b2\x7d") 0 true [] Compute_Size 0 with
        Num_Braces := 255 }).map (fun c => (c.Num_Braces % 256, c.Reg_Size))
      = Except.ok (0, 40) ∧
    (compilePass { passContext (strBytes "(?:a)\x7b2\x7d") 0 true (List.replicate 40 0)
        (Ptr.prog 0) 40 with Num_Braces := 255 }).map
        (fun c => (c.Num_Braces % 256, c.program))
      = Except.ok (0, [156, 37, 37, 34, 0, 34, 36, 0, 4, 255, 34, 0, 8, 7, 0, 5, 97, 0, 33, 0,
          3, 37, 0, 4, 255, 38, 0, 9, 255, 0, 2, 35, 0, 21, 33, 0, 3, 1, 0, 0]) := by
  constructor <;> decide!

/-- C22, a failing input: the compiler stores the bounds 256 and 256 in the look-behind
node of `(?<=a{256})b`, `GET_LOWER` and `GET_UPPER` read them as 0 and 0, and the pattern
is not found in 256 times `a` followed by `b`; with 255 in place of 256 the match is found
at `[255, 256)`. -/
theorem look_behind_bounds_read_as_bytes :
    compiled (strBytes "(?<=a\x7b256\x7d)b") 0
      = Except.ok ([156, 0, 0, 34, 0, 33, 46, 0, 7, 1, 0, 1, 0, 34, 0, 15, 31, 0, 12, 1, 0, 1, 0,
          7, 0, 0, 97, 0, 48, 0, 3, 7, 0, 5, 98, 0, 1, 0, 0], 0, 0) ∧
    GET_LOWER [156, 0, 0, 34, 0, 33, 46, 0, 7, 1, 0, 1, 0] (Ptr.prog 6) = 0 ∧
    GET_UPPER [156, 0, 0, 34, 0, 33, 46, 0, 7, 1, 0, 1, 0] (Ptr.prog 6) = 0 ∧
    (compileAndExecute 1000 (strBytes "(?<=a\x7b256\x7d)b") 0 (List.replicate 256 97 ++ [98])).map
        (fun r => r.1) = some false ∧
    (compileAndExecute 1000 (strBytes "(?<=a\x7b255\x7d)b") 0 (List.replicate 255 97 ++ [98])).map
        (fun r => (r.1, r.2.2.take 1)) = some (true, [(some 255, some 256)]) := by
  refine ⟨?_, ?_, ?_, ?_, ?_⟩ <;> decide!

/-- When the program of the handle does not begin with the magic tag, `SubstituteRE`
returns `false` at once and leaves `dest` as it was, whatever the template. -/
theorem substitute_invalid_program (prog : regexp) (text source dest : List Nat)
    (h : prog.program.getD 0 0 ≠ MAGIC) :
    SubstituteRE prog text source dest = Except.ok (false, dest) := by
  unfold SubstituteRE
  rw [if_pos h]

/-- The early return of `SubstituteRE` at a handle whose program is the single byte 0. -/
theorem substitute_invalid_program_witness :
    ([0] : List Nat).getD 0 0 ≠ MAGIC ∧
    SubstituteRE
      { program := [0]
        match_start := 0
        anchor := 0
        startp := fun _ => some 0
        endp := fun _ => some 1
        extentpBW := none
        extentpFW := none
        top_branch := 0 }
      (strBytes "a") (strBytes "x&") (strBytes "d") = Except.ok (false, strBytes "d") :=
  ⟨by decide, substitute_invalid_program _ _ _ _ (by decide)⟩

/-- C25, a failing input: two handles hold the same captures; for the one whose program
begins with the magic tag the template `x&` appends `xa` to `dest`, for the damaged one
`SubstituteRE` returns `false` and appends nothing, where its description says that the
substitution is still executed. -/
theorem substitute_invalid_program_appends_nothing :
    SubstituteRE
      { program := [MAGIC]
        match_start := 0
        anchor := 0
        startp := fun _ => some 0
        endp := fun _ => some 1
        extentpBW := none
        extentpFW := none
        top_branch := 0 }
      (strBytes "a") (strBytes "x&") (strBytes "d") = Except.ok (true, strBytes "dxa") ∧
    SubstituteRE
      { program := [0]
        match_start := 0
        anchor := 0
        startp := fun _ => some 0
        endp := fun _ => some 1
        extentpBW := none
        extentpFW := none
        top_branch := 0 }
      (strBytes "a") (strBytes "x&") (strBytes "d") = Except.ok (false, strBytes "d") := by
  constructor <;> decide!

/-- C26, failing inputs: for a handle whose program begins with the magic tag,
`SubstituteRE` raises the error of `numeric_escape` on the templates `\x0` and `\000`
instead of treating the escape as literal text. -/
theorem substitute_raises_on_zero_escape (prog : regexp) (text dest : List Nat)
    (h : prog.program.getD 0 0 = MAGIC) :
    SubstituteRE prog text (strBytes "\\x0") dest = Except.error (RegexError.hexZero 120) ∧
    SubstituteRE prog text (strBytes "\\000") dest = Except.error RegexError.octalZero := by
  constructor <;>
  · unfold SubstituteRE
    rw [if_neg (by simpa using h)]
    rfl

/-- C26, at a handle whose program is the magic tag alone. -/
theorem substitute_raises_on_zero_escape_witness :
    ([MAGIC] : List Nat).getD 0 0 = MAGIC ∧
    SubstituteRE
      { program := [MAGIC]
        match_start := 0
        anchor := 0
        startp := fun _ => none
        endp := fun _ => none
        extentpBW := none
        extentpFW := none
        top_branch := 0 }
      [] (strBytes "\\x0") [] = Except.error (RegexError.hexZero 120) :=
  ⟨by decide, (substitute_raises_on_zero_escape _ _ _ (by decide)).1⟩

/-- C28, a failing input: the `TEST_COUNT` node of the lazy `^(?:ab){0,2}?$` holds the test
value 0, the minimum, so the loop is left after one repetition and the pattern is not
found in `"abab"`, which the greedy `^(?:ab){0,2}$` matches at `[0, 4)`. -/
theorem lazy_zero_min_tests_min :
    compiled (strBytes "^(?:ab)\x7b0,2\x7d?$") 0
      = Except.ok ([156, 0, 1, 34, 0, 50, 2, 0, 3, 36, 0, 4, 0, 34, 0, 6, 33, 0, 31, 34, 0, 28,
          34, 0, 9, 7, 0, 6, 97, 98, 0, 33, 0, 3, 37, 0, 4, 0, 38, 0, 9, 0, 0, 0, 35, 0, 31, 33,
          0, 3, 3, 0, 3, 1, 0, 0], 0, 1) ∧
    (compileAndExecute 100 (strBytes "^(?:ab)\x7b0,2\x7d?$") 0 (strBytes "abab")).map
        (fun r => r.1) = some false ∧
    (compileAndExecute 100 (strBytes "^(?:ab)\x7b0,2\x7d$") 0 (strBytes "abab")).map
        (fun r => (r.1, r.2.2.take 1)) = some (true, [(some 0, some 4)]) := by
  refine ⟨?_, ?_, ?_⟩ <;> decide!

/-! ## A quantifier on a single character -/

/-- The function `piece` when the atom is followed by `*`, `+` or `?` and the lazy suffix
`?`. -/
theorem piece_simple_lazy (chunk : Nat → Comp Ret) (ctx ctx1 : ParseContext) (ret : Ptr)
    (flags : Nat) (range : len_range) (q : Nat) (rest : List Nat)
    (hatom : atom chunk ctx = Except.ok ((ret, flags, range), ctx1)) (hret : ret ≠ Ptr.null)
    (hq : q = 42 ∨ q = 43 ∨ q = 63) (hah : ctx1.ahead = q :: rest)
    (hlazy : ({ ctx1 with Reg_Parse := ctx1.Reg_Parse + 1 } : ParseContext).peek = 63) :
    piece chunk ctx =
      let ctx3 : ParseContext := { ctx1 with Reg_Parse := ctx1.Reg_Parse + 1 + 1 }
      if flags &&& HAS_WIDTH = 0 then Except.error (RegexError.operandEmpty q)
      else
        match pieceEmit q (decide (flags &&& SIMPLE ≠ 0)) true (if q = 43 then 1 else 0)
            (if q = 63 then 1 else 0) ret ctx3 with
        | Except.error e => Except.error e
        | Except.ok (_, ctx4) =>
          if IS_QUANTIFIER ctx4 ctx4.peek then Except.error (RegexError.nested q ctx4.peek)
          else
            Except.ok ((ret, if q = 43 then WORST ||| HAS_WIDTH else WORST,
              if range.lower ≥ 0 then
                if q = 63 then { lower := toLong 0, upper := toLong range.upper }
                else { lower := -1, upper := -1 }
              else { lower := -1, upper := -1 }), ctx4) := by
  have hpk : ctx1.peek = q := by rw [peek_eq_ahead, hah]; rfl
  unfold piece
  simp only [comp_bind, hatom, hret, if_false, comp_get, hpk]
  by_cases hw : flags &&& HAS_WIDTH = 0
  · rcases hq with rfl | rfl | rfl <;>
      simp [hw, comp_bind, comp_raise, comp_pure, IS_QUANTIFIER, comp_advance, comp_get, hlazy, hpk]
  · rcases hq with rfl | rfl | rfl
    · simp [hw, comp_bind, comp_pure, comp_get, IS_QUANTIFIER, comp_advance, hlazy, REG_ZERO,
        REG_ONE, REG_INFINITY, hpk]
      generalize pieceEmit _ _ _ _ _ _ _ = r
      rcases r with e | ⟨u, c4⟩
      · simp
      · simp only []
        split_ifs <;> simp [comp_pure, comp_raise, comp_map]
    · simp [hw, comp_bind, comp_pure, comp_get, IS_QUANTIFIER, comp_advance, hlazy, REG_ZERO,
        REG_ONE, REG_INFINITY, hpk]
      generalize pieceEmit _ _ _ _ _ _ _ = r
      rcases r with e | ⟨u, c4⟩
      · simp
      · simp only []
        split_ifs <;> simp [comp_pure, comp_raise, comp_map]
    · simp [hw, comp_bind, comp_pure, comp_get, IS_QUANTIFIER, comp_advance, hlazy, REG_ZERO,
        REG_ONE, REG_INFINITY, hpk]
      generalize pieceEmit _ _ _ _ _ _ _ = r
      rcases r with e | ⟨u, c4⟩
      · simp
      · simp only []
        split_ifs <;> simp [comp_pure, comp_raise, comp_map]

/-- The function `piece` when the atom is followed by a counted range that `pieceBrace`
accepts as `{min,max}`, and the lazy suffix `?` follows the range. -/
theorem piece_brace_lazy (chunk : Nat → Comp Ret) (ctx ctx1 ctx2 : ParseContext) (ret : Ptr)
    (flags : Nat) (range : len_range) (rest : List Nat) (min max : Nat)
    (hatom : atom chunk ctx = Except.ok ((ret, flags, range), ctx1)) (hret : ret ≠ Ptr.null)
    (hB : ctx1.Brace_Char = 123) (hah : ctx1.ahead = 123 :: rest)
    (hbrace : pieceBrace { ctx1 with Reg_Parse := ctx1.Reg_Parse + 1 }
      = Except.ok ((min, max), ctx2))
    (hlazy : ({ ctx2 with Reg_Parse := ctx2.Reg_Parse + 1 } : ParseContext).peek = 63) :
    piece chunk ctx =
      let ctx3 : ParseContext := { ctx2 with Reg_Parse := ctx2.Reg_Parse + 1 + 1 }
      let op := if min = 0 ∧ max = 0 then 42 else if min = 1 ∧ max = 0 then 43
        else if min = 0 ∧ max = 1 then 63 else 123
      if min = 1 ∧ max = 1 then Except.ok ((ret, flags, range), ctx3)
      else if op = 123 ∧ ctx3.Num_Braces > UINT8_MAX then Except.error RegexError.tooManyBraces
      else if flags &&& HAS_WIDTH = 0 then
        Except.error (RegexError.braceOperandEmpty (if op = 43 then 1 else min)
          (if op = 63 then 1 else max))
      else
        match pieceEmit op (decide (flags &&& SIMPLE ≠ 0)) true (if op = 43 then 1 else min)
            (if op = 63 then 1 else max) ret ctx3 with
        | Except.error e => Except.error e
        | Except.ok (_, ctx4) =>
          if IS_QUANTIFIER ctx4 ctx4.peek then
            Except.error (if op = 123 then RegexError.nestedBrace ctx4.peek
              else RegexError.nested op ctx4.peek)
          else
            Except.ok ((ret, if (if op = 43 then 1 else min) > 0 then WORST ||| HAS_WIDTH else WORST,
              if range.lower ≥ 0 then
                if (if op = 63 then 1 else max) ≠ 0 then
                  { lower := toLong (range.lower * ((if op = 43 then 1 else min : Nat) : Int)),
                    upper := toLong (range.upper * ((if op = 63 then 1 else max : Nat) : Int)) }
                else { lower := -1, upper := -1 }
              else { lower := -1, upper := -1 }), ctx4) := by
  have hpk : ctx1.peek = 123 := by rw [peek_eq_ahead, hah]; rfl
  have hq : IS_QUANTIFIER ctx1 123 = true := by simp [IS_QUANTIFIER, hB]
  unfold piece
  simp only [comp_bind, hatom, hret, if_false, comp_get, hpk, hq, Bool.not_true,
    Bool.false_eq_true, comp_pure, if_true, comp_advance, hbrace, hlazy, REG_ZERO, REG_ONE,
    REG_INFINITY]
  by_cases h11 : min = 1 ∧ max = 1
  · obtain ⟨rfl, rfl⟩ := h11
    simp [comp_pure]
  by_cases hw : flags &&& HAS_WIDTH = 0
  · by_cases h00 : min = 0 ∧ max = 0
    · obtain ⟨rfl, rfl⟩ := h00
      simp [hw, comp_bind, comp_raise, comp_pure]
    by_cases h10 : min = 1 ∧ max = 0
    · obtain ⟨rfl, rfl⟩ := h10
      simp [hw, comp_bind, comp_raise, comp_pure]
    by_cases h01 : min = 0 ∧ max = 1
    · obtain ⟨rfl, rfl⟩ := h01
      simp [hw, comp_bind, comp_raise, comp_pure]
    by_cases hnb : (ctx2.Num_Braces > UINT8_MAX)
    · simp [hw, h00, h10, h01, h11, hnb, comp_bind, comp_raise, comp_pure, comp_get]
    · simp [hw, h00, h10, h01, h11, hnb, comp_bind, comp_raise, comp_pure, comp_get]
  · by_cases h00 : min = 0 ∧ max = 0
    · obtain ⟨rfl, rfl⟩ := h00
      simp [hw, comp_bind, comp_pure, comp_get]
      generalize pieceEmit _ _ _ _ _ _ _ = r
      rcases r with e | ⟨u, c4⟩
      · simp
      · by_cases hq2 : IS_QUANTIFIER c4 c4.peek = true <;>
          simp [hq2, comp_bind, comp_pure, comp_raise, comp_map]
    by_cases h10 : min = 1 ∧ max = 0
    · obtain ⟨rfl, rfl⟩ := h10
      simp [hw, comp_bind, comp_pure, comp_get]
      generalize pieceEmit _ _ _ _ _ _ _ = r
      rcases r with e | ⟨u, c4⟩
      · simp
      · by_cases hq2 : IS_QUANTIFIER c4 c4.peek = true <;>
          simp [hq2, comp_bind, comp_pure, comp_raise, comp_map]
    by_cases h01 : min = 0 ∧ max = 1
    · obtain ⟨rfl, rfl⟩ := h01
      simp [hw, comp_bind, comp_pure, comp_get]
      generalize pieceEmit _ _ _ _ _ _ _ = r
      rcases r with e | ⟨u, c4⟩
      · simp
      · by_cases hq2 : IS_QUANTIFIER c4 c4.peek = true <;>
          simp [hq2, comp_bind, comp_pure, comp_raise, comp_map]
    by_cases hnb : (ctx2.Num_Braces > UINT8_MAX)
    · simp [hw, h00, h10, h01, h11, hnb, comp_bind, comp_raise, comp_pure, comp_get]
    · simp [hw, h00, h10, h01, h11, hnb, comp_bind, comp_pure, comp_get]
      generalize pieceEmit _ _ _ _ _ _ _ = r
      rcases r with e | ⟨u, c4⟩
      · simp
      · by_cases hq2 : IS_QUANTIFIER c4 c4.peek = true <;>
          simp [hq2, comp_bind, comp_pure, comp_raise, comp_map]

theorem insertMove_spec : ∀ (n : Nat) (prog : List Nat) (src dst : Nat),
    n ≤ src → src ≤ dst → dst ≤ prog.length →
    (insertMove n prog src dst).length = prog.length ∧
    ∀ i, (insertMove n prog src dst).getD i 0
      = if dst - n ≤ i ∧ i < dst then prog.getD (i - (dst - src)) 0 else prog.getD i 0 := by
  intro n
  induction n with
  | zero =>
    intro prog src dst _ _ _
    refine ⟨rfl, fun i => ?_⟩
    have : ¬ (dst - 0 ≤ i ∧ i < dst) := by omega
    simp only [insertMove, this, if_false]
  | succ n ih =>
    intro prog src dst h1 h2 h3
    obtain ⟨hl, hg⟩ := ih (prog.set (dst - 1) (prog.getD (src - 1) 0)) (src - 1) (dst - 1)
      (by omega) (by omega) (by simp only [List.length_set]; omega)
    refine ⟨by rw [insertMove, hl, List.length_set], fun i => ?_⟩
    rw [insertMove, hg i]
    have hd : dst - 1 - (src - 1) = dst - src := by omega
    rw [hd]
    by_cases hi : dst - 1 - n ≤ i ∧ i < dst - 1
    · have hi' : dst - (n + 1) ≤ i ∧ i < dst := by omega
      rw [if_pos hi, if_pos hi']
      simp only [List.getD_eq_getElem?_getD]
      rw [List.getElem?_set_ne (by omega)]
    · rw [if_neg hi]
      by_cases hi2 : i = dst - 1
      · have hi' : dst - (n + 1) ≤ i ∧ i < dst := by omega
        rw [if_pos hi']
        subst hi2
        simp only [List.getD_eq_getElem?_getD]
        rw [List.getElem?_set_self (by omega)]
        have : dst - 1 - (dst - src) = src - 1 := by omega
        rw [this]
        simp
      · have hi' : ¬ (dst - (n + 1) ≤ i ∧ i < dst) := by omega
        rw [if_neg hi']
        simp only [List.getD_eq_getElem?_getD]
        rw [List.getElem?_set_ne (by omega)]

theorem list_eq_of_getD (l1 l2 : List Nat) (hl : l1.length = l2.length)
    (h : ∀ i, l1.getD i 0 = l2.getD i 0) : l1 = l2 := by
  apply List.ext_getElem hl
  intro i h1 h2
  have := h i
  rwa [List.getD_eq_getElem _ _ h1, List.getD_eq_getElem _ _ h2] at this

theorem getD_app (X Y : List Nat) (i : Nat) :
    (X ++ Y).getD i 0 = if i < X.length then X.getD i 0 else Y.getD (i - X.length) 0 := by
  by_cases h : i < X.length
  · rw [if_pos h, List.getD_append _ _ _ _ h]
  · rw [if_neg h, List.getD_append_right _ _ _ _ (by omega)]

theorem getD_take (X : List Nat) (k i : Nat) :
    (X.take k).getD i 0 = if i < k then X.getD i 0 else 0 := by
  simp only [List.getD_eq_getElem?_getD, List.getElem?_take]
  split_ifs <;> rfl

theorem getD_drop (X : List Nat) (k i : Nat) : (X.drop k).getD i 0 = X.getD (k + i) 0 := by
  simp only [List.getD_eq_getElem?_getD, List.getElem?_drop]

/-- The relocation loop of `insert` moves the code `B` emitted since `insert_pos` up by
`k` bytes. -/
theorem insertMove_at (A B Z : List Nat) (k : Nat) (hk : k ≤ Z.length) :
    insertMove B.length (A ++ B ++ Z) (A.length + B.length) (A.length + B.length + k)
      = A ++ (B ++ Z).take k ++ B ++ Z.drop k := by
  obtain ⟨hl, hg⟩ := insertMove_spec B.length (A ++ B ++ Z) (A.length + B.length)
    (A.length + B.length + k) (by omega) (by omega)
    (by simp only [List.length_append]; omega)
  apply list_eq_of_getD
  · rw [hl]
    simp only [List.length_append, List.length_take, List.length_drop]
    omega
  · intro i
    rw [hg i]
    have hlt : (List.take k (B ++ Z)).length = k := by
      simp only [List.length_take, List.length_append]; omega
    simp only [getD_app, getD_take, getD_drop, List.length_append, hlt]
    split_ifs <;> first | rfl | omega | (congr 1; omega)

theorem set_at (A L : List Nat) (j v : Nat) : (A ++ L).set (A.length + j) v = A ++ L.set j v := by
  rw [List.set_append]
  simp

theorem insertNode_length (op min max index : Nat) :
    (insertNode op min max index).length
      = if op = BRACE ∨ op = LAZY_BRACE then NODE_SIZE + 2 * NEXT_PTR_SIZE
        else if op = INIT_COUNT then NODE_SIZE + INDEX_SIZE else NODE_SIZE := by
  unfold insertNode
  split_ifs <;> rfl

/-- The function `insert` in the emitting pass: the code `B` emitted since `insert_pos` is
moved up and the new node is written in front of it. -/
theorem insert_at (op min max index : Nat) (ctx : ParseContext) (A B Z : List Nat)
    (hprog : ctx.program = A ++ B ++ Z) (hptr : ctx.Code_Emit_Ptr = Ptr.prog (A.length + B.length))
    (hZ : (insertNode op min max index).length ≤ Z.length) :
    insert op (Ptr.prog A.length) min max index ctx
      = Except.ok (Ptr.prog (A.length + (insertNode op min max index).length),
          { ctx with
            program := A ++ insertNode op min max index ++ B
              ++ Z.drop (insertNode op min max index).length
            Code_Emit_Ptr := Ptr.prog (A.length + B.length
              + (insertNode op min max index).length) }) := by
  have hne : ¬ (Ptr.prog (A.length + B.length) = Compute_Size) := by simp [Compute_Size]
  have hsub : A.length + B.length - A.length = B.length := by omega
  rw [insertNode_length] at hZ
  have hlen : ∀ k, k ≤ Z.length → (List.take k (B ++ Z)).length = k := by
    intro k hk
    simp only [List.length_take, List.length_append]; omega
  unfold insert
  simp only [hptr, hne, if_false, hprog, Ptr.toInt, Int.toNat_ofNat, hsub]
  by_cases h1 : op = BRACE ∨ op = LAZY_BRACE
  · simp only [h1, if_true] at hZ ⊢
    rw [insertMove_at A B Z _ hZ]
    have hl := hlen _ hZ
    generalize List.take (NODE_SIZE + 2 * NEXT_PTR_SIZE) (B ++ Z) = G at hl
    rcases G with _ | ⟨g0, _ | ⟨g1, _ | ⟨g2, _ | ⟨g3, _ | ⟨g4, _ | ⟨g5, _ | ⟨g6, _ | ⟨g7, G⟩⟩⟩⟩⟩⟩⟩⟩ <;>
      simp [NODE_SIZE, NEXT_PTR_SIZE, OP_CODE_SIZE] at hl
    have t1 : ((A.length : Int) + 1).toNat = A.length + 1 := by omega
    have t2 : ((A.length : Int) + 2).toNat = A.length + 2 := by omega
    have t3 : ((A.length : Int) + 3).toNat = A.length + 3 := by omega
    have t4 : ((A.length : Int) + 4).toNat = A.length + 4 := by omega
    have t5 : ((A.length : Int) + 5).toNat = A.length + 5 := by omega
    have t6 : ((A.length : Int) + 6).toNat = A.length + 6 := by omega
    have t7 : ((A.length : Int) + 7).toNat = A.length + 7 := by omega
    have t0 : ∀ (L : List Nat) (v : Nat), (A ++ L).set A.length v = A ++ L.set 0 v :=
      fun L v => set_at A L 0 v
    simp only [insertNode, h1, if_true, poke, Ptr.add, List.append_assoc, List.cons_append,
      List.nil_append, List.length_cons, List.length_nil, t1, t2, t3, t4, t5, t6, t7, t0, set_at,
      List.set_cons_zero, List.set_cons_succ, NODE_SIZE, NEXT_PTR_SIZE, OP_CODE_SIZE,
      Nat.zero_mod, Nat.reduceAdd, Nat.reduceMul]
  · by_cases h2 : op = INIT_COUNT
    · subst h2
      simp only [h1, if_true, if_false] at hZ ⊢
      rw [insertMove_at A B Z _ hZ]
      have hl := hlen _ hZ
      generalize List.take (NODE_SIZE + INDEX_SIZE) (B ++ Z) = G at hl
      rcases G with _ | ⟨g0, _ | ⟨g1, _ | ⟨g2, _ | ⟨g3, _ | ⟨g4, G⟩⟩⟩⟩⟩ <;>
        simp [NODE_SIZE, NEXT_PTR_SIZE, OP_CODE_SIZE, INDEX_SIZE] at hl
      have t1 : ((A.length : Int) + 1).toNat = A.length + 1 := by omega
      have t2 : ((A.length : Int) + 2).toNat = A.length + 2 := by omega
      have t3 : ((A.length : Int) + 3).toNat = A.length + 3 := by omega
      have t4 : ((A.length : Int) + 4).toNat = A.length + 4 := by omega
      have t0 : ∀ (L : List Nat) (v : Nat), (A ++ L).set A.length v = A ++ L.set 0 v :=
        fun L v => set_at A L 0 v
      simp only [insertNode, h1, if_true, if_false, poke, Ptr.add, List.append_assoc,
        List.cons_append,
        List.nil_append, List.length_cons, List.length_nil, t1, t2, t3, t4, t0, set_at,
        List.set_cons_zero, List.set_cons_succ, NODE_SIZE, NEXT_PTR_SIZE, OP_CODE_SIZE, INDEX_SIZE,
        Nat.zero_mod, Nat.reduceAdd, Nat.reduceMul]
    · simp only [h1, h2, if_true, if_false] at hZ ⊢
      rw [insertMove_at A B Z _ hZ]
      have hl := hlen _ hZ
      generalize List.take NODE_SIZE (B ++ Z) = G at hl
      rcases G with _ | ⟨g0, _ | ⟨g1, _ | ⟨g2, _ | ⟨g3, G⟩⟩⟩⟩ <;>
        simp [NODE_SIZE, NEXT_PTR_SIZE, OP_CODE_SIZE, INDEX_SIZE] at hl
      have t1 : ((A.length : Int) + 1).toNat = A.length + 1 := by omega
      have t2 : ((A.length : Int) + 2).toNat = A.length + 2 := by omega
      have t3 : ((A.length : Int) + 3).toNat = A.length + 3 := by omega
      have t0 : ∀ (L : List Nat) (v : Nat), (A ++ L).set A.length v = A ++ L.set 0 v :=
        fun L v => set_at A L 0 v
      simp only [insertNode, h1, h2, if_true, if_false, poke, Ptr.add, List.append_assoc,
        List.cons_append,
        List.nil_append, List.length_cons, List.length_nil, t1, t2, t3, t0, set_at,
        List.set_cons_zero, List.set_cons_succ, NODE_SIZE, NEXT_PTR_SIZE, OP_CODE_SIZE, INDEX_SIZE,
        Nat.zero_mod, Nat.reduceAdd, Nat.reduceMul]

theorem isQuantifier_char (ctx : ParseContext) (q : Nat) (hB : ctx.Brace_Char = 123)
    (hq : q = 42 ∨ q = 43 ∨ q = 63 ∨ q = 123) : IS_QUANTIFIER ctx q = true := by
  rcases hq with rfl | rfl | rfl | rfl <;> simp [IS_QUANTIFIER, hB]

theorem quantifier_char_meta (q : Nat) (hq : q = 42 ∨ q = 43 ∨ q = 63 ∨ q = 123) :
    strchr Default_Meta_Char q = true := by
  rcases hq with rfl | rfl | rfl | rfl <;> decide

/-- The literal loop of `atom` in the sizing pass over ordinary characters `P`, `x` followed
by a quantifier character: when a character precedes `x`, the loop stops before `x` (the
count of `x` is taken back); otherwise `x` alone is taken. -/
theorem atomLiteralLoop_quant_sizing (P : List Nat) :
    ∀ (fuel len : Nat) (ctx : ParseContext) (x q : Nat) (rest : List Nat),
      (∀ y ∈ P, isOrdinaryChar y) → isOrdinaryChar x → (q = 42 ∨ q = 43 ∨ q = 63 ∨ q = 123) →
      ctx.ahead = P ++ x :: q :: rest → P.length + 2 ≤ fuel →
      ctx.Meta_Char = Default_Meta_Char → ctx.Brace_Char = 123 →
      ctx.Code_Emit_Ptr = Compute_Size →
      atomLiteralLoop fuel len ctx
        = Except.ok (len + (if len + P.length = 0 then 1 else P.length),
            { ctx with
              Reg_Parse := ctx.Reg_Parse + (if len + P.length = 0 then 1 else P.length)
              Reg_Size := ctx.Reg_Size + (if len + P.length = 0 then 1 else P.length) }) := by
  induction P with
  | nil =>
    intro fuel len ctx x q rest _ hx hq hah hf hM hB hP
    obtain ⟨f, rfl⟩ : ∃ f, fuel = f + 2 := ⟨fuel - 2, by simp at hf; omega⟩
    have hpk : ctx.peek = x := by rw [peek_eq_ahead, hah]; rfl
    have hlen := length_of_ahead ctx _ hah (by simp)
    simp only [List.nil_append, List.length_cons] at hlen
    have hend : ctx.atEnd = false := by
      simp only [ParseContext.atEnd, decide_eq_false_iff_not]; omega
    have hah2 := ahead_advance ctx x _ hah
    have hxm : strchr ctx.Meta_Char x = false := by rw [hM]; exact hx.1
    generalize hc2 : ({ ctx with Reg_Size := ctx.Reg_Size + 1, Reg_Parse := ctx.Reg_Parse + 1 }
      : ParseContext) = c2
    have f1 : c2.Brace_Char = 123 := by rw [← hc2]; exact hB
    have f2 : c2.Meta_Char = Default_Meta_Char := by rw [← hc2]; exact hM
    have f3 : c2.Code_Emit_Ptr = Compute_Size := by rw [← hc2]; exact hP
    have f4 : c2.ahead = q :: rest := by rw [← hc2]; exact hah2
    have hpk2 : c2.peek = q := by rw [peek_eq_ahead, f4]; rfl
    have hq2 : IS_QUANTIFIER c2 q = true := isQuantifier_char c2 q f1 hq
    have hend2 : c2.atEnd = false := by
      have := length_of_ahead c2 _ f4 (by simp)
      simp only [List.length_cons] at this
      simp only [ParseContext.atEnd, decide_eq_false_iff_not]; omega
    have hqm : strchr c2.Meta_Char q = true := by rw [f2]; exact quantifier_char_meta q hq
    rw [atomLiteralLoop]
    simp only [comp_bind, comp_get, hend, hpk, hxm, hx.2, Bool.not_false, Bool.not_true,
      and_self, if_true, if_false, emit_byte_sizing _ ctx hP, comp_advance, comp_pure,
      Bool.false_eq_true, hc2, hpk2, hq2, true_and, f3, comp_set]
    by_cases hl : len = 0
    · subst hl
      simp only [gt_iff_lt, Nat.lt_irrefl, if_false, List.length_nil, Nat.add_zero, if_true]
      rw [atomLiteralLoop]
      simp only [comp_bind, comp_get, hend2, hpk2, hqm, Bool.not_true, Bool.not_false,
        Bool.false_eq_true, and_false, if_false, comp_pure, Nat.zero_add]
      rw [← hc2]
    · have hl' : len > 0 := by omega
      simp only [hl', if_true, List.length_nil, Nat.add_zero, hl, if_false]
      rw [← hc2]
      simp only [Nat.add_sub_cancel, comp_bind, comp_set, comp_pure, hP]
  | cons y P ih =>
    intro fuel len ctx x q rest hord hx hq hah hf hM hB hP
    obtain ⟨f, rfl⟩ : ∃ f, fuel = f + 1 := ⟨fuel - 1, by simp at hf; omega⟩
    have hy := hord y (List.mem_cons_self _ _)
    have hpk : ctx.peek = y := by rw [peek_eq_ahead, hah]; rfl
    have hlen := length_of_ahead ctx _ hah (by simp)
    simp only [List.length_cons, List.length_append] at hlen
    have hend : ctx.atEnd = false := by
      simp only [ParseContext.atEnd, decide_eq_false_iff_not]; omega
    have hah2 := ahead_advance ctx y _ hah
    have hym : strchr ctx.Meta_Char y = false := by rw [hM]; exact hy.1
    have hordx : ∀ z ∈ P ++ [x], isOrdinaryChar z := by
      intro z hz
      rcases List.mem_append.mp hz with h | h
      · exact hord z (List.mem_cons_of_mem _ h)
      · rw [List.mem_singleton.mp h]; exact hx
    generalize hc2 : ({ ctx with Reg_Size := ctx.Reg_Size + 1, Reg_Parse := ctx.Reg_Parse + 1 }
      : ParseContext) = c2
    have f1 : c2.Brace_Char = 123 := by rw [← hc2]; exact hB
    have f2 : c2.Meta_Char = Default_Meta_Char := by rw [← hc2]; exact hM
    have f3 : c2.Code_Emit_Ptr = Compute_Size := by rw [← hc2]; exact hP
    have f4 : c2.ahead = P ++ x :: q :: rest := by rw [← hc2]; exact hah2
    have hpk2 : c2.peek = (P ++ [x]).headD 0 := by
      rw [peek_eq_ahead, f4]
      cases P <;> rfl
    have hq2 := headD_not_quantifier (P ++ [x]) hordx c2 f1
    rw [atomLiteralLoop]
    simp only [comp_bind, comp_get, hend, hpk, hym, hy.2, Bool.not_false, Bool.not_true,
      and_self, if_true, if_false, emit_byte_sizing _ ctx hP, comp_advance, comp_pure,
      Bool.false_eq_true, hc2, hpk2, hq2, false_and]
    rw [ih f (len + 1) c2 x q rest (fun z hz => hord z (List.mem_cons_of_mem _ hz)) hx hq f4
      (by simp at hf; omega) f2 f1 f3]
    have e1 : ¬ (len + 1 + P.length = 0) := by omega
    have e2 : ¬ (len + (y :: P).length = 0) := by simp
    rw [if_neg e1, if_neg e2, ← hc2]
    simp only [List.length_cons]
    congr 2
    · omega
    · simp only [ParseContext.mk.injEq, and_true, true_and]
      constructor <;> omega

/-- The literal loop of `atom` in the emitting pass over ordinary characters `P`, `x`
followed by a quantifier character: all the characters are stored, and when a character
precedes `x` the emit pointer is taken back to the byte of `x`. -/
theorem atomLiteralLoop_quant_emitting (P : List Nat) :
    ∀ (fuel len : Nat) (ctx : ParseContext) (x q : Nat) (rest A Z : List Nat),
      (∀ y ∈ P, isOrdinaryChar y) → isOrdinaryChar x → (q = 42 ∨ q = 43 ∨ q = 63 ∨ q = 123) →
      ctx.ahead = P ++ x :: q :: rest → P.length + 2 ≤ fuel →
      ctx.Meta_Char = Default_Meta_Char → ctx.Brace_Char = 123 →
      ctx.Code_Emit_Ptr = Ptr.prog A.length → ctx.program = A ++ Z → P.length + 1 ≤ Z.length →
      atomLiteralLoop fuel len ctx
        = Except.ok (len + (if len + P.length = 0 then 1 else P.length),
            { ctx with
              Reg_Parse := ctx.Reg_Parse + (if len + P.length = 0 then 1 else P.length)
              program := A ++ (P ++ [x]).map (fun c =>
                (if ctx.Is_Case_Insensitive = true then tolower c else c) % 256)
                ++ Z.drop (P.length + 1)
              Code_Emit_Ptr := Ptr.prog (A.length
                + (if len + P.length = 0 then 1 else P.length)) }) := by
  induction P with
  | nil =>
    intro fuel len ctx x q rest A Z _ hx hq hah hf hM hB hP hprog hZ
    obtain ⟨f, rfl⟩ : ∃ f, fuel = f + 2 := ⟨fuel - 2, by simp at hf; omega⟩
    have hpk : ctx.peek = x := by rw [peek_eq_ahead, hah]; rfl
    have hlen := length_of_ahead ctx _ hah (by simp)
    simp only [List.nil_append, List.length_cons] at hlen
    have hend : ctx.atEnd = false := by
      simp only [ParseContext.atEnd, decide_eq_false_iff_not]; omega
    have hah2 := ahead_advance ctx x _ hah
    have hxm : strchr ctx.Meta_Char x = false := by rw [hM]; exact hx.1
    generalize hv : (if ctx.Is_Case_Insensitive = true then tolower x else x) = v
    have hem := emit_byte_at v ctx A Z hP hprog (by simpa using hZ)
    generalize hc1 : ({ ctx with
        program := A ++ [v % 256] ++ Z.drop 1
        Code_Emit_Ptr := Ptr.prog (A.length + 1) } : ParseContext) = c1 at hem
    generalize hc2 : ({ c1 with Reg_Parse := c1.Reg_Parse + 1 } : ParseContext) = c2
    have f1 : c2.Brace_Char = 123 := by rw [← hc2, ← hc1]; exact hB
    have f2 : c2.Meta_Char = Default_Meta_Char := by rw [← hc2, ← hc1]; exact hM
    have f3 : c2.Code_Emit_Ptr = Ptr.prog (A.length + 1) := by rw [← hc2, ← hc1]
    have f4 : c2.ahead = q :: rest := by rw [← hc2, ← hc1]; exact hah2
    have hpk2 : c2.peek = q := by rw [peek_eq_ahead, f4]; rfl
    have hq2 : IS_QUANTIFIER c2 q = true := isQuantifier_char c2 q f1 hq
    have hend2 : c2.atEnd = false := by
      have := length_of_ahead c2 _ f4 (by simp)
      simp only [List.length_cons] at this
      simp only [ParseContext.atEnd, decide_eq_false_iff_not]; omega
    have hqm : strchr c2.Meta_Char q = true := by rw [f2]; exact quantifier_char_meta q hq
    have hne : ¬ (Ptr.prog (A.length + 1) = Compute_Size) := by simp [Compute_Size]
    have hback : (Ptr.prog (A.length + 1)).add (-1) = Ptr.prog A.length := by
      simp only [Ptr.add, Ptr.prog.injEq]; omega
    rw [atomLiteralLoop]
    simp only [comp_bind, comp_get, hend, hpk, hxm, hx.2, Bool.not_false, Bool.not_true,
      and_self, if_true, if_false, hv, hem, comp_advance, comp_pure,
      Bool.false_eq_true, hc2, hpk2, hq2, true_and, f3, hne, comp_set, hback]
    by_cases hl : len = 0
    · subst hl
      simp only [gt_iff_lt, Nat.lt_irrefl, if_false, List.length_nil, Nat.add_zero, if_true]
      rw [atomLiteralLoop]
      simp only [comp_bind, comp_get, hend2, hpk2, hqm, Bool.not_true, Bool.not_false,
        Bool.false_eq_true, and_false, if_false, comp_pure, Nat.zero_add]
      rw [← hc2, ← hc1]
      simp only [List.nil_append, List.map_cons, List.map_nil, hv, List.length_nil, Nat.zero_add]
    · have hl' : len > 0 := by omega
      simp only [hl', if_true, List.length_nil, Nat.add_zero, hl, if_false]
      rw [← hc2, ← hc1]
      simp only [List.nil_append, List.map_cons, List.map_nil, hv, List.length_nil, Nat.zero_add,
        comp_bind, comp_set, comp_pure]
  | cons y P ih =>
    intro fuel len ctx x q rest A Z hord hx hq hah hf hM hB hP hprog hZ
    obtain ⟨f, rfl⟩ : ∃ f, fuel = f + 1 := ⟨fuel - 1, by simp at hf; omega⟩
    have hy := hord y (List.mem_cons_self _ _)
    have hpk : ctx.peek = y := by rw [peek_eq_ahead, hah]; rfl
    have hlen := length_of_ahead ctx _ hah (by simp)
    simp only [List.length_cons, List.length_append] at hlen
    have hend : ctx.atEnd = false := by
      simp only [ParseContext.atEnd, decide_eq_false_iff_not]; omega
    have hah2 := ahead_advance ctx y _ hah
    have hym : strchr ctx.Meta_Char y = false := by rw [hM]; exact hy.1
    have hordx : ∀ z ∈ P ++ [x], isOrdinaryChar z := by
      intro z hz
      rcases List.mem_append.mp hz with h | h
      · exact hord z (List.mem_cons_of_mem _ h)
      · rw [List.mem_singleton.mp h]; exact hx
    generalize hv : (if ctx.Is_Case_Insensitive = true then tolower y else y) = v
    have hem := emit_byte_at v ctx A Z hP hprog (by simp at hZ; omega)
    generalize hc1 : ({ ctx with
        program := A ++ [v % 256] ++ Z.drop 1
        Code_Emit_Ptr := Ptr.prog (A.length + 1) } : ParseContext) = c1 at hem
    generalize hc2 : ({ c1 with Reg_Parse := c1.Reg_Parse + 1 } : ParseContext) = c2
    have f1 : c2.Brace_Char = 123 := by rw [← hc2, ← hc1]; exact hB
    have f2 : c2.Meta_Char = Default_Meta_Char := by rw [← hc2, ← hc1]; exact hM
    have f3 : c2.Code_Emit_Ptr = Ptr.prog (A ++ [v % 256]).length := by
      rw [← hc2, ← hc1]; simp
    have f4 : c2.ahead = P ++ x :: q :: rest := by rw [← hc2, ← hc1]; exact hah2
    have f5 : c2.program = (A ++ [v % 256]) ++ Z.drop 1 := by rw [← hc2, ← hc1]
    have f6 : c2.Is_Case_Insensitive = ctx.Is_Case_Insensitive := by rw [← hc2, ← hc1]
    have hpk2 : c2.peek = (P ++ [x]).headD 0 := by
      rw [peek_eq_ahead, f4]
      cases P <;> rfl
    have hq2 := headD_not_quantifier (P ++ [x]) hordx c2 f1
    rw [atomLiteralLoop]
    simp only [comp_bind, comp_get, hend, hpk, hym, hy.2, Bool.not_false, Bool.not_true,
      and_self, if_true, if_false, hv, hem, comp_advance, comp_pure,
      Bool.false_eq_true, hc2, hpk2, hq2, false_and]
    rw [ih f (len + 1) c2 x q rest (A ++ [v % 256]) (Z.drop 1)
      (fun z hz => hord z (List.mem_cons_of_mem _ hz)) hx hq f4
      (by simp at hf; omega) f2 f1 f3 f5 (by simp at hZ ⊢; omega)]
    have e1 : ¬ (len + 1 + P.length = 0) := by omega
    have e2 : ¬ (len + (y :: P).length = 0) := by simp
    rw [if_neg e1, if_neg e2, f6, ← hc2, ← hc1]
    simp only [List.length_cons, List.length_append, List.length_nil, List.cons_append,
      List.map_cons, hv, List.drop_drop, List.append_assoc, List.singleton_append]
    congr 2
    · omega
    · simp only [ParseContext.mk.injEq, and_true, true_and]
      refine ⟨by omega, ?_, by congr 1; omega⟩
      rw [List.nil_append, show 1 + (P.length + 1) = P.length + 1 + 1 by omega]

set_option maxHeartbeats 4000000 in
/-- The function `atom` in the sizing pass on ordinary characters `R`, `x` followed by a
quantifier character: the node holds `R`, or `x` alone when `R` is empty. -/
theorem atom_quant_sizing (chunk : Nat → Comp Ret) (ctx : ParseContext) (R : List Nat)
    (x q : Nat) (rest : List Nat)
    (hord : ∀ y ∈ R, isOrdinaryChar y) (hx : isOrdinaryChar x)
    (hq : q = 42 ∨ q = 43 ∨ q = 63 ∨ q = 123) (hah : ctx.ahead = R ++ x :: q :: rest)
    (hM : ctx.Meta_Char = Default_Meta_Char) (hB : ctx.Brace_Char = 123)
    (hP : ctx.Code_Emit_Ptr = Compute_Size) :
    atom chunk ctx = Except.ok
      ((Compute_Size,
        (if (if R.length = 0 then 1 else R.length) = 1 then WORST ||| HAS_WIDTH ||| SIMPLE
          else WORST ||| HAS_WIDTH),
        { lower := ((if R.length = 0 then 1 else R.length : Nat) : Int),
          upper := ((if R.length = 0 then 1 else R.length : Nat) : Int) }),
      { ctx with
        Reg_Parse := ctx.Reg_Parse + (if R.length = 0 then 1 else R.length)
        Reg_Size := ctx.Reg_Size + NODE_SIZE + (if R.length = 0 then 1 else R.length) + 1 }) := by
  obtain ⟨y, T, hyT⟩ : ∃ y T, R ++ x :: q :: rest = y :: T := by
    cases R with
    | nil => exact ⟨x, q :: rest, rfl⟩
    | cons y R => exact ⟨y, R ++ x :: q :: rest, rfl⟩
  have hy : isOrdinaryChar y := by
    cases R with
    | nil => simp only [List.nil_append, List.cons.injEq] at hyT; rw [← hyT.1]; exact hx
    | cons z R =>
      simp only [List.cons_append, List.cons.injEq] at hyT
      rw [← hyT.1]; exact hord z (List.mem_cons_self _ _)
  have hpk : ctx.peek = y := by rw [peek_eq_ahead, hah, hyT]; rfl
  have hy' := ordinaryChar_ne hy
  have hne : ctx.peek ≠ 40 := by rw [hpk]; omega
  have hlen := length_of_ahead ctx _ hah (by simp)
  simp only [List.length_cons, List.length_append] at hlen
  have hend : ctx.atEnd = false := by
    simp only [ParseContext.atEnd, decide_eq_false_iff_not]; omega
  have c1 : y ≠ 94 := by omega
  have c2 : y ≠ 36 := by omega
  have c3 : y ≠ 60 := by omega
  have c4 : y ≠ 62 := by omega
  have c5 : y ≠ 46 := by omega
  have c6 : y ≠ 40 := by omega
  have c7 : y ≠ 124 := by omega
  have c8 : y ≠ 41 := by omega
  have c9 : y ≠ 63 := by omega
  have c10 : y ≠ 43 := by omega
  have c11 : y ≠ 42 := by omega
  have c12 : y ≠ 123 := by omega
  have c13 : y ≠ 91 := by omega
  have c14 : y ≠ 92 := by omega
  unfold atom
  simp only [comp_bind, comp_get, atomComments_none _ ctx hne, hend, Bool.false_eq_true, if_false,
    comp_pure, comp_advance, hpk, c1, c2, c3, c4, c5, c6, c7, c8, c9, c10, c11, c12, c13, c14,
    false_or, or_false, false_and, comp_retreat, Nat.add_sub_cancel]
  rw [emit_node_sizing _ _ hP]
  simp only []
  rw [atomLiteralLoop_quant_sizing R _ 0 _ x q rest hord hx hq ?_ ?_ ?_ ?_ ?_]
  · simp only [Nat.zero_add]
    have hc : ¬ ((if R.length = 0 then 1 else R.length) ≤ 0) := by split_ifs <;> omega
    generalize (if R.length = 0 then 1 else R.length) = c at hc
    rw [if_neg hc]
    simp only [comp_bind, comp_pure]
    rw [emit_byte_sizing _ _ (by exact hP)]
  · exact hah
  · show R.length + 2 ≤ ctx.InputString.length + 1
    omega
  · exact hM
  · exact hB
  · exact hP

set_option maxHeartbeats 4000000 in
/-- The function `atom` in the emitting pass on ordinary characters `R`, `x` followed by a
quantifier character: one `EXACTLY` node (`SIMILAR` when case insensitive) that holds `R`,
or `x` alone when `R` is empty. -/
theorem atom_quant_emitting (chunk : Nat → Comp Ret) (ctx : ParseContext) (R : List Nat)
    (x q : Nat) (rest A Z : List Nat)
    (hord : ∀ y ∈ R, isOrdinaryChar y) (hx : isOrdinaryChar x)
    (hq : q = 42 ∨ q = 43 ∨ q = 63 ∨ q = 123) (hah : ctx.ahead = R ++ x :: q :: rest)
    (hM : ctx.Meta_Char = Default_Meta_Char) (hB : ctx.Brace_Char = 123)
    (hP : ctx.Code_Emit_Ptr = Ptr.prog A.length) (hprog : ctx.program = A ++ Z)
    (hZ : R.length + 5 ≤ Z.length) :
    atom chunk ctx = Except.ok
      ((Ptr.prog A.length,
        (if (if R.length = 0 then 1 else R.length) = 1 then WORST ||| HAS_WIDTH ||| SIMPLE
          else WORST ||| HAS_WIDTH),
        { lower := ((if R.length = 0 then 1 else R.length : Nat) : Int),
          upper := ((if R.length = 0 then 1 else R.length : Nat) : Int) }),
      { ctx with
        Reg_Parse := ctx.Reg_Parse + (if R.length = 0 then 1 else R.length)
        program := A ++ [(if ctx.Is_Case_Insensitive = true then SIMILAR else EXACTLY), 0, 0]
          ++ (if R.length = 0 then [x] else R).map (fun c =>
            (if ctx.Is_Case_Insensitive = true then tolower c else c) % 256)
          ++ [0] ++ Z.drop ((if R.length = 0 then 1 else R.length) + 4)
        Code_Emit_Ptr := Ptr.prog (A.length + ((if R.length = 0 then 1 else R.length) + 4)) }) := by
  obtain ⟨y, T, hyT⟩ : ∃ y T, R ++ x :: q :: rest = y :: T := by
    cases R with
    | nil => exact ⟨x, q :: rest, rfl⟩
    | cons y R => exact ⟨y, R ++ x :: q :: rest, rfl⟩
  have hy : isOrdinaryChar y := by
    cases R with
    | nil => simp only [List.nil_append, List.cons.injEq] at hyT; rw [← hyT.1]; exact hx
    | cons z R =>
      simp only [List.cons_append, List.cons.injEq] at hyT
      rw [← hyT.1]; exact hord z (List.mem_cons_self _ _)
  have hpk : ctx.peek = y := by rw [peek_eq_ahead, hah, hyT]; rfl
  have hy' := ordinaryChar_ne hy
  have hne : ctx.peek ≠ 40 := by rw [hpk]; omega
  have hlen := length_of_ahead ctx _ hah (by simp)
  simp only [List.length_cons, List.length_append] at hlen
  have hend : ctx.atEnd = false := by
    simp only [ParseContext.atEnd, decide_eq_false_iff_not]; omega
  have c1 : y ≠ 94 := by omega
  have c2 : y ≠ 36 := by omega
  have c3 : y ≠ 60 := by omega
  have c4 : y ≠ 62 := by omega
  have c5 : y ≠ 46 := by omega
  have c6 : y ≠ 40 := by omega
  have c7 : y ≠ 124 := by omega
  have c8 : y ≠ 41 := by omega
  have c9 : y ≠ 63 := by omega
  have c10 : y ≠ 43 := by omega
  have c11 : y ≠ 42 := by omega
  have c12 : y ≠ 123 := by omega
  have c13 : y ≠ 91 := by omega
  have c14 : y ≠ 92 := by omega
  have hop : (if ctx.Is_Case_Insensitive = true then SIMILAR else EXACTLY) % 256
      = (if ctx.Is_Case_Insensitive = true then SIMILAR else EXACTLY) := by
    split_ifs <;> decide
  unfold atom
  simp only [comp_bind, comp_get, atomComments_none _ ctx hne, hend, Bool.false_eq_true, if_false,
    comp_pure, comp_advance, hpk, c1, c2, c3, c4, c5, c6, c7, c8, c9, c10, c11, c12, c13, c14,
    false_or, or_false, false_and, comp_retreat, Nat.add_sub_cancel]
  rw [emit_node_at _ _ A Z (by exact hP) (by exact hprog) (by omega)]
  simp only [hop]
  generalize (if ctx.Is_Case_Insensitive = true then SIMILAR else EXACTLY) = opc
  rw [atomLiteralLoop_quant_emitting R _ 0 _ x q rest (A ++ [opc, 0, 0]) (Z.drop 3) hord hx hq
    ?_ ?_ ?_ ?_ ?_ ?_ ?_]
  · simp only [Nat.zero_add]
    have hc : ¬ ((if R.length = 0 then 1 else R.length) ≤ 0) := by split_ifs <;> omega
    rw [if_neg hc]
    simp only [comp_bind, comp_pure]
    by_cases hR : R.length = 0
    · have hR' : R = [] := List.length_eq_zero.mp hR
      subst hR'
      simp only [List.length_nil, if_true, List.nil_append, List.map_cons, List.map_nil]
      rw [emit_byte_at _ _ (A ++ [opc, 0, 0] ++ [(if ctx.Is_Case_Insensitive = true then
          tolower x else x) % 256]) ((Z.drop 3).drop 1) ?_ ?_ ?_]
      · simp only [List.length_append, List.length_cons, List.length_nil,
          List.drop_drop, Nat.zero_mod]
      · simp only [List.length_append, List.length_cons, List.length_nil]
      · simp
      · simp only [List.length_drop]; simp at hZ; omega
    · simp only [hR, if_false]
      have hsplit : List.map (fun c => (if ctx.Is_Case_Insensitive = true then tolower c else c) % 256)
          (R ++ [x]) ++ List.drop (R.length + 1) (List.drop 3 Z)
          = List.map (fun c => (if ctx.Is_Case_Insensitive = true then tolower c else c) % 256) R
            ++ ([(if ctx.Is_Case_Insensitive = true then tolower x else x) % 256]
              ++ List.drop (R.length + 1) (List.drop 3 Z)) := by
        simp
      rw [emit_byte_at _ _ (A ++ [opc, 0, 0] ++ List.map (fun c =>
          (if ctx.Is_Case_Insensitive = true then tolower c else c) % 256) R)
        ([(if ctx.Is_Case_Insensitive = true then tolower x else x) % 256]
              ++ List.drop (R.length + 1) (List.drop 3 Z)) ?_ ?_ ?_]
      · simp only [List.length_append, List.length_cons, List.length_nil, List.length_map,
          List.drop_drop, Nat.zero_mod, List.singleton_append, List.drop_succ_cons, List.drop_zero]
        congr 2
        simp only [ParseContext.mk.injEq, and_true, true_and]
        refine ⟨?_, by congr 1; omega⟩
        rw [show 3 + (R.length + 1) + 0 = R.length + 4 by omega]
      · simp only [List.length_append, List.length_cons, List.length_nil, List.length_map]
      · simp
      · simp
  · exact hah
  · show R.length + 2 ≤ ctx.InputString.length + 1
    omega
  · exact hM
  · exact hB
  · simp
  · simp
  · simp only [List.length_drop]; omega

theorem peek_of_atEnd (ctx : ParseContext) (h : ctx.atEnd = true) : ctx.peek = 0 := by
  simp only [ParseContext.atEnd, decide_eq_true_eq] at h
  simp only [ParseContext.peek, ParseContext.peekAt, Nat.add_zero]
  exact List.getD_eq_default _ _ (by omega)

theorem getD_frame (A B : List Nat) (j : Nat) : (A ++ B).getD (A.length + j) 0 = B.getD j 0 := by
  rw [List.getD_append_right _ _ _ _ (by omega)]
  congr 1
  omega

set_option maxHeartbeats 4000000 in
/-- The emitting pass on a pattern that is one piece whose code `n0 :: 0 :: 0 :: N` starts
with a node that has no successor yet: the `BRANCH` node and the first node of the piece are
linked to the `END` node. -/
theorem compilePass_piece_emitting (p cB : ParseContext) (fl : Nat) (rg : len_range)
    (n0 : Nat) (N : List Nat)
    (h0 : p.InputString ≠ []) (hP : p.Code_Emit_Ptr = Ptr.prog 0)
    (hlen : p.program.length = N.length + 12) (hsmall : N.length + 12 < 65536)
    (hpk1 : p.peek ≠ 124) (hpk2 : p.peek ≠ 41) (hne : p.atEnd = false)
    (hpiece : piece (chunk p.InputString.length)
      { p with program := [156, 37, 37, 34, 0, 0] ++ p.program.drop 6,
               Code_Emit_Ptr := Ptr.prog 6 } = Except.ok ((Ptr.prog 6, fl, rg), cB))
    (hprogB : ∃ e0 e1 e2, cB.program = [156, 37, 37, 34, 0, 0] ++ (n0 :: 0 :: 0 :: N) ++ [e0, e1, e2])
    (hptrB : cB.Code_Emit_Ptr = Ptr.prog (N.length + 9)) (hendB : cB.atEnd = true)
    (hn0 : n0 ≠ BACK) :
    ∃ fl' rg', (do emit_byte MAGIC; emit_byte 37; emit_byte 37
                   chunk (p.InputString.length + 1) NO_PAREN : Comp Ret) p
      = Except.ok ((Ptr.prog 3, fl', rg'),
      { cB with
        program := [156, 37, 37, 34, PUT_OFFSET_L ((N.length + 6 : Nat) : Int),
          PUT_OFFSET_R ((N.length + 6 : Nat) : Int), n0,
          PUT_OFFSET_L ((N.length + 3 : Nat) : Int),
          PUT_OFFSET_R ((N.length + 3 : Nat) : Int)] ++ N ++ [END, 0, 0]
        Code_Emit_Ptr := Ptr.prog (N.length + 12)
        Is_Case_Insensitive := p.Is_Case_Insensitive
        Match_Newline := p.Match_Newline }) := by
  obtain ⟨e0, e1, e2, hprogB⟩ := hprogB
  obtain ⟨z0, z1, z2, z3, z4, z5, Zr, hZ0⟩ : ∃ z0 z1 z2 z3 z4 z5 Zr,
      p.program = z0 :: z1 :: z2 :: z3 :: z4 :: z5 :: Zr := by
    rcases hp : p.program with _ | ⟨z0, _ | ⟨z1, _ | ⟨z2, _ | ⟨z3, _ | ⟨z4, _ | ⟨z5, Zr⟩⟩⟩⟩⟩⟩ <;>
      first
      | (rw [hp] at hlen; simp at hlen; done)
      | exact ⟨_, _, _, _, _, _, _, rfl⟩
  have hZr : Zr.length = N.length + 6 := by rw [hZ0] at hlen; simp at hlen; omega
  have hdrop : p.program.drop 6 = Zr := by rw [hZ0]; rfl
  rw [hdrop] at hpiece
  generalize hc3 : ({ p with program := [156, 37, 37] ++ (z3 :: z4 :: z5 :: Zr),
                             Code_Emit_Ptr := Ptr.prog 3 } : ParseContext) = c3
  generalize hcA : ({ p with program := [156, 37, 37, 34, 0, 0] ++ Zr,
                             Code_Emit_Ptr := Ptr.prog 6 } : ParseContext) = cA at hpiece
  have h3 : ∀ k : Comp Ret, (do emit_byte MAGIC; emit_byte 37; emit_byte 37; k : Comp Ret) p
      = k c3 := by
    intro k
    simp only [comp_bind]
    rw [emit_byte_at _ p [] _ hP hZ0 (by simp)]
    simp only []
    rw [emit_byte_at _ _ [156] (z1 :: z2 :: z3 :: z4 :: z5 :: Zr) rfl (by simp [MAGIC]) (by simp)]
    simp only []
    rw [emit_byte_at _ _ [156, 37] (z2 :: z3 :: z4 :: z5 :: Zr) rfl (by simp) (by simp)]
    simp only []
    rw [← hc3]
    rfl
  have hnodeA : emit_node BRANCH c3 = Except.ok (Ptr.prog 3, cA) := by
    rw [emit_node_at _ c3 [156, 37, 37] (z3 :: z4 :: z5 :: Zr) (by rw [← hc3]; rfl)
      (by rw [← hc3]) (by simp)]
    rw [← hcA, ← hc3]
    rfl
  have hpkA : cA.peek = p.peek := by rw [← hcA]; rfl
  have hendA : cA.atEnd = p.atEnd := by rw [← hcA]; rfl
  have hISA : cA.InputString = p.InputString := by rw [← hcA]
  have hIS3 : c3.InputString = p.InputString := by rw [← hc3]
  have hpkB : cB.peek = 0 := peek_of_atEnd cB hendB
  have hp3 : Ptr.prog 3 ≠ Ptr.null := by simp
  have hp6 : Ptr.prog 6 ≠ Ptr.null := by simp
  rw [← hISA] at hpiece
  obtain ⟨fl1, rg1, halt⟩ := alternative_single (chunk cA.InputString.length) c3 cA cB
    (Ptr.prog 3) (Ptr.prog 6) _ _ hnodeA (by rw [hpkA]; exact hpk1)
    (by rw [hpkA]; exact hpk2) (by rw [hendA]; exact hne) hpiece hp6 (Or.inr (Or.inr hendB))
    (by rw [hISA]; exact Nat.succ_le_of_lt (List.length_pos.mpr h0))
  have hB3 : cB.program.getD 3 0 = 34 ∧ cB.program.getD 4 0 = 0 ∧ cB.program.getD 5 0 = 0 ∧
      cB.program.getD 6 0 = n0 ∧ cB.program.getD 7 0 = 0 ∧ cB.program.getD 8 0 = 0 := by
    rw [hprogB]; simp
  have hsetB : (cB.program.set 4 0).set 5 0 = cB.program := by rw [hprogB]; simp
  have htailB : tail (Ptr.prog 3) (Ptr.prog 3) cB = Except.ok (PUnit.unit, cB) := by
    rw [tail_last 3 3 cB (by simp only [GET_OFFSET, hB3.2.1, hB3.2.2.1]; rfl)
      (by simp only [GET_OP_CODE, hB3.1]; decide)]
    simp only [Int.sub_self, PUT_OFFSET_L, PUT_OFFSET_R]
    simp [hsetB]
  rw [hISA] at halt
  obtain ⟨fl', hbr⟩ := chunkBranches_single (chunk p.InputString.length) p.InputString.length
    HAS_WIDTH { lower := 0, upper := 0 } c3 cB cB (Ptr.prog 3) fl1 rg1 halt hp3 htailB
    (by rw [hpkB]; decide)
  generalize hcC : ({ cB with
      program := [156, 37, 37, 34, 0, 0] ++ (n0 :: 0 :: 0 :: N) ++ [1, 0, 0]
      Code_Emit_Ptr := Ptr.prog (N.length + 12) } : ParseContext) = cC
  generalize hcD : ({ cB with
      program := [156, 37, 37, 34, PUT_OFFSET_L ((N.length + 6 : Nat) : Int),
          PUT_OFFSET_R ((N.length + 6 : Nat) : Int)] ++ (n0 :: 0 :: 0 :: N) ++ [1, 0, 0]
      Code_Emit_Ptr := Ptr.prog (N.length + 12) } : ParseContext) = cD
  generalize hcE : ({ cB with
      program := [156, 37, 37, 34, PUT_OFFSET_L ((N.length + 6 : Nat) : Int),
          PUT_OFFSET_R ((N.length + 6 : Nat) : Int), n0,
          PUT_OFFSET_L ((N.length + 3 : Nat) : Int),
          PUT_OFFSET_R ((N.length + 3 : Nat) : Int)] ++ N ++ [1, 0, 0]
      Code_Emit_Ptr := Ptr.prog (N.length + 12) } : ParseContext) = cE
  have hnodeC : emit_node END cB = Except.ok (Ptr.prog (N.length + 9), cC) := by
    have hl : ([156, 37, 37, 34, 0, 0] ++ (n0 :: 0 :: 0 :: N)).length = N.length + 9 := by simp
    rw [emit_node_at END cB ([156, 37, 37, 34, 0, 0] ++ (n0 :: 0 :: 0 :: N)) [e0, e1, e2]
      (by rw [hl]; exact hptrB) hprogB (by simp)]
    rw [hl, ← hcC]
    simp [END]
  have hprogC : cC.program = [156, 37, 37, 34, 0, 0] ++ (n0 :: 0 :: 0 :: N) ++ [1, 0, 0] := by
    rw [← hcC]
  have hprogD : cD.program = [156, 37, 37, 34, PUT_OFFSET_L ((N.length + 6 : Nat) : Int),
          PUT_OFFSET_R ((N.length + 6 : Nat) : Int)] ++ (n0 :: 0 :: 0 :: N) ++ [1, 0, 0] := by
    rw [← hcD]
  have hprogE : cE.program = [156, 37, 37, 34, PUT_OFFSET_L ((N.length + 6 : Nat) : Int),
          PUT_OFFSET_R ((N.length + 6 : Nat) : Int), n0,
          PUT_OFFSET_L ((N.length + 3 : Nat) : Int),
          PUT_OFFSET_R ((N.length + 3 : Nat) : Int)] ++ N ++ [1, 0, 0] := by
    rw [← hcE]
  have htailC : tail (Ptr.prog 3) (Ptr.prog (N.length + 9)) cC = Except.ok (PUnit.unit, cD) := by
    rw [tail_last 3 (N.length + 9) cC (by rw [hprogC]; simp [GET_OFFSET])
      (by rw [hprogC]; simp [GET_OP_CODE, BACK])]
    have e : ((N.length + 9 : Nat) : Int) - ((3 : Nat) : Int) = ((N.length + 6 : Nat) : Int) := by
      push_cast; omega
    rw [e, (put_offset_mod _ (Int.natCast_nonneg _)).1, (put_offset_mod _ (Int.natCast_nonneg _)).2]
    rw [← hcD, ← hcC]
    simp
  have htailD : tail (Ptr.prog 6) (Ptr.prog (N.length + 9)) cD = Except.ok (PUnit.unit, cE) := by
    rw [tail_last 6 (N.length + 9) cD (by rw [hprogD]; simp [GET_OFFSET])
      (by rw [hprogD]; simpa [GET_OP_CODE] using hn0)]
    have e : ((N.length + 9 : Nat) : Int) - ((6 : Nat) : Int) = ((N.length + 3 : Nat) : Int) := by
      push_cast; omega
    rw [e, (put_offset_mod _ (Int.natCast_nonneg _)).1, (put_offset_mod _ (Int.natCast_nonneg _)).2]
    rw [← hcE, ← hcD]
    simp
  have hhook : chunkHook (Ptr.prog (N.length + 9)) (cD.program.length + 2) (Ptr.prog 3) cD
      = Except.ok (PUnit.unit, cE) := by
    obtain ⟨f, hf⟩ : ∃ f, cD.program.length + 2 = f + 3 := ⟨cD.program.length - 1, by
      rw [hprogD]; simp⟩
    have hopD : GET_OP_CODE cD.program (Ptr.prog 3) = BRANCH := by
      rw [hprogD]; simp [GET_OP_CODE, BRANCH]
    have hnext : next_ptr cE.program (Ptr.prog 3) = Ptr.prog (N.length + 9) := by
      have hg : GET_OFFSET cE.program (Ptr.prog 3) = N.length + 6 := by
        rw [hprogE]
        simp only [GET_OFFSET, List.cons_append, List.getD_cons_succ, List.getD_cons_zero]
        rw [← (put_offset_mod _ (Int.natCast_nonneg _)).1,
          ← (put_offset_mod ((N.length + 6 : Nat) : Int) (Int.natCast_nonneg _)).2]
        simp only [Nat.mod_mod]
        exact get_put_offset _ (by omega)
      have h1 : Ptr.prog 3 ≠ Compute_Size := by simp [Compute_Size]
      have h2 : GET_OP_CODE cE.program (Ptr.prog 3) ≠ BACK := by
        rw [hprogE]; simp [GET_OP_CODE, BACK]
      simp only [next_ptr, h1, if_false, hg, h2, Ptr.add]
      rw [if_neg (by omega)]
      congr 1
      omega
    have hfr : ∀ j, cE.program.getD (N.length + 9 + j) 0 = [1, 0, 0].getD j 0 := by
      intro j
      rw [hprogE]
      have := getD_frame ([156, 37, 37, 34, PUT_OFFSET_L ((N.length + 6 : Nat) : Int),
          PUT_OFFSET_R ((N.length + 6 : Nat) : Int), n0,
          PUT_OFFSET_L ((N.length + 3 : Nat) : Int),
          PUT_OFFSET_R ((N.length + 3 : Nat) : Int)] ++ N) [1, 0, 0] j
      simp only [List.length_append, List.length_cons, List.length_nil] at this
      rw [← this]
      congr 1
      omega
    have hopE : GET_OP_CODE cE.program (Ptr.prog (N.length + 9)) ≠ BRANCH := by
      have := hfr 0
      simp only [Nat.add_zero] at this
      simp only [GET_OP_CODE, this]
      simp [BRANCH]
    have hnextE : next_ptr cE.program (Ptr.prog (N.length + 9)) = Ptr.null := by
      have hg : GET_OFFSET cE.program (Ptr.prog (N.length + 9)) = 0 := by
        simp only [GET_OFFSET, hfr 1, hfr 2]
        simp
      have h1 : Ptr.prog (N.length + 9) ≠ Compute_Size := by simp [Compute_Size]
      simp only [next_ptr, h1, if_false, hg, if_true]
    have hadd : (Ptr.prog 3).add (NODE_SIZE : Int) = Ptr.prog 6 := by
      simp [Ptr.add, NODE_SIZE, NEXT_PTR_SIZE, OP_CODE_SIZE]
    have hpe : Ptr.prog (N.length + 9) ≠ Ptr.null := by simp
    rw [hf, chunkHook]
    simp only [hp3, ne_eq, not_false_eq_true, if_true, comp_bind, branch_tail, hopD,
      not_true_eq_false, or_false, if_false, comp_get]
    have h1 : Ptr.prog 3 ≠ Compute_Size := by simp [Compute_Size]
    rw [if_neg h1, hadd, htailD]
    simp only [hnext]
    rw [chunkHook]
    simp only [hpe, ne_eq, not_false_eq_true, if_true, comp_bind, branch_tail, hopE,
      or_true, comp_get, hnextE]
    rw [chunkHook]
    simp only [ne_eq, not_true_eq_false, if_false, comp_pure]
  have hendE : cE.atEnd = true := by rw [← hcE]; exact hendB
  have hbody := chunkBody_top_ok (chunk p.InputString.length) c3 cB cC cD cE (Ptr.prog 3)
    (Ptr.prog (N.length + 9)) fl' rg1 (by rw [hIS3]; exact hbr) hnodeC htailC hhook hendE
  refine ⟨fl', rg1, ?_⟩
  rw [h3]
  simp only [chunk]
  rw [hbody, ← hcE, ← hc3]
  simp [END]

theorem insert_sizing (op min max index : Nat) (pos : Ptr) (ctx : ParseContext)
    (hP : ctx.Code_Emit_Ptr = Compute_Size) :
    insert op pos min max index ctx = Except.ok (Compute_Size,
      { ctx with Reg_Size := ctx.Reg_Size + (insertNode op min max index).length }) := by
  unfold insert
  simp only [hP, if_true, insertNode_length]

theorem quantifierNode_brace (op : Nat) (lazy : Bool) (hop : op = 42 ∨ op = 43 ∨ op = 63 ∨ op = 123) :
    (quantifierNode op lazy = BRACE ∨ quantifierNode op lazy = LAZY_BRACE) ↔ op = 123 := by
  rcases hop with rfl | rfl | rfl | rfl <;> cases lazy <;> simp [quantifierNode] <;> decide

theorem insertNode_simple (op : Nat) (lazy : Bool) (min max : Nat) (hop : op = 42 ∨ op = 43 ∨ op = 63) :
    insertNode (quantifierNode op lazy) 0 0 0 = insertNode (quantifierNode op lazy) min max 0 := by
  have h : ¬ (quantifierNode op lazy = BRACE ∨ quantifierNode op lazy = LAZY_BRACE) := by
    rw [quantifierNode_brace op lazy (by omega)]; omega
  have h2 : ¬ (quantifierNode op lazy = INIT_COUNT) := by
    rcases hop with rfl | rfl | rfl <;> cases lazy <;> simp [quantifierNode] <;> decide
  simp only [insertNode, h, h2, if_false]

/-- The code generation of `piece` for a quantifier on a simple atom: one node is inserted
in front of the atom. -/
theorem pieceEmit_simple (op : Nat) (lazy : Bool) (min max : Nat) (ret : Ptr) (ctx : ParseContext)
    (hop : op = 42 ∨ op = 43 ∨ op = 63 ∨ op = 123) :
    pieceEmit op true lazy min max ret ctx
      = match insert (quantifierNode op lazy) ret (if op = 123 then min else 0)
          (if op = 123 then max else 0) 0 ctx with
        | Except.error e => Except.error e
        | Except.ok (_, c) => Except.ok (PUnit.unit, c) := by
  unfold pieceEmit
  rcases hop with rfl | rfl | rfl | rfl <;>
    simp only [comp_bind, comp_pure, quantifierNode, and_true, if_true, if_false,
      show ¬ ((43 : Nat) = 42) by decide, show ¬ ((63 : Nat) = 42) by decide,
      show ¬ ((63 : Nat) = 43) by decide, show ¬ ((123 : Nat) = 42) by decide,
      show ¬ ((123 : Nat) = 43) by decide, show ¬ ((123 : Nat) = 63) by decide,
      show ¬ ((42 : Nat) = 123) by decide, show ¬ ((43 : Nat) = 123) by decide,
      show ¬ ((63 : Nat) = 123) by decide] <;>
    (cases insert _ ret _ _ 0 ctx <;> rfl)

theorem pieceEmit_simple_sizing (op : Nat) (lazy : Bool) (min max : Nat) (ret : Ptr)
    (ctx : ParseContext) (hop : op = 42 ∨ op = 43 ∨ op = 63 ∨ op = 123)
    (hP : ctx.Code_Emit_Ptr = Compute_Size) :
    pieceEmit op true lazy min max ret ctx = Except.ok (PUnit.unit,
      { ctx with Reg_Size := ctx.Reg_Size
          + (insertNode (quantifierNode op lazy) min max 0).length }) := by
  rw [pieceEmit_simple op lazy min max ret ctx hop, insert_sizing _ _ _ _ _ _ hP]
  simp only []
  by_cases h : op = 123
  · simp only [h, if_true]
  · simp only [h, if_false]
    rw [insertNode_simple op lazy min max (by omega)]

theorem pieceEmit_simple_emitting (op : Nat) (lazy : Bool) (min max : Nat)
    (ctx : ParseContext) (A B Z : List Nat) (hop : op = 42 ∨ op = 43 ∨ op = 63 ∨ op = 123)
    (hprog : ctx.program = A ++ B ++ Z) (hptr : ctx.Code_Emit_Ptr = Ptr.prog (A.length + B.length))
    (hZ : (insertNode (quantifierNode op lazy) min max 0).length ≤ Z.length) :
    pieceEmit op true lazy min max (Ptr.prog A.length) ctx = Except.ok (PUnit.unit,
      { ctx with
        program := A ++ insertNode (quantifierNode op lazy) min max 0 ++ B
          ++ Z.drop (insertNode (quantifierNode op lazy) min max 0).length
        Code_Emit_Ptr := Ptr.prog (A.length + B.length
          + (insertNode (quantifierNode op lazy) min max 0).length) }) := by
  rw [pieceEmit_simple op lazy min max _ ctx hop]
  by_cases h : op = 123
  · simp only [h, if_true] at hZ ⊢
    rw [insert_at _ _ _ _ ctx A B Z hprog hptr hZ]
  · simp only [h, if_false]
    rw [← insertNode_simple op lazy min max (by omega)] at hZ ⊢
    rw [insert_at _ _ _ _ ctx A B Z hprog hptr hZ]

theorem not_quantifier_of_head (ctx : ParseContext) (rest : List Nat) (hB : ctx.Brace_Char = 123)
    (hah : ctx.ahead = rest)
    (hr : rest.headD 0 ≠ 42 ∧ rest.headD 0 ≠ 43 ∧ rest.headD 0 ≠ 63 ∧ rest.headD 0 ≠ 123) :
    IS_QUANTIFIER ctx ctx.peek = false := by
  rw [peek_eq_ahead, hah]
  simp only [IS_QUANTIFIER, hB, Bool.or_eq_false_iff, decide_eq_false_iff_not]
  exact ⟨⟨⟨hr.1, hr.2.1⟩, hr.2.2.1⟩, hr.2.2.2⟩

/-- The function `piece` on a simple atom with width that is followed by `*`, `+` or `?`,
with or without the lazy suffix, and then by no further quantifier: the result is the state
in which the code generation ends. -/
theorem piece_simple_ok (chunk : Nat → Comp Ret) (ctx ctx1 c4 : ParseContext) (ret : Ptr)
    (range : len_range) (q : Nat) (lz : Bool) (rest : List Nat)
    (hatom : atom chunk ctx
      = Except.ok ((ret, WORST ||| HAS_WIDTH ||| SIMPLE, range), ctx1))
    (hret : ret ≠ Ptr.null) (hq : q = 42 ∨ q = 43 ∨ q = 63)
    (hah : ctx1.ahead = q :: ((if lz then [63] else []) ++ rest))
    (hr : rest.headD 0 ≠ 42 ∧ rest.headD 0 ≠ 43 ∧ rest.headD 0 ≠ 63 ∧ rest.headD 0 ≠ 123)
    (hemit : pieceEmit q true lz (if q = 43 then 1 else 0) (if q = 63 then 1 else 0) ret
      { ctx1 with Reg_Parse := ctx1.Reg_Parse + 1 + (if lz then 1 else 0) }
        = Except.ok (PUnit.unit, c4))
    (h4a : c4.ahead = rest) (h4B : c4.Brace_Char = 123) :
    ∃ fl rg, piece chunk ctx = Except.ok ((ret, fl, rg), c4) := by
  have hw : ¬ ((WORST ||| HAS_WIDTH ||| SIMPLE) &&& HAS_WIDTH = 0) := by decide
  have hs : decide ((WORST ||| HAS_WIDTH ||| SIMPLE) &&& SIMPLE ≠ 0) = true := by decide
  have hnq := not_quantifier_of_head c4 rest h4B h4a hr
  cases lz with
  | false =>
    simp only [Bool.false_eq_true, if_false, List.nil_append, Nat.add_zero] at hah hemit
    have hlazy : ({ ctx1 with Reg_Parse := ctx1.Reg_Parse + 1 } : ParseContext).peek ≠ 63 := by
      rw [peek_eq_ahead, ahead_advance ctx1 q _ hah]; exact hr.2.2.1
    rw [piece_simple_quant chunk ctx ctx1 _ _ _ q _ hatom hret hq hah hlazy]
    simp only [hw, if_false, hs, hemit, hnq, Bool.false_eq_true]
    exact ⟨_, _, rfl⟩
  | true =>
    simp only [if_true, List.singleton_append] at hah hemit
    have hlazy : ({ ctx1 with Reg_Parse := ctx1.Reg_Parse + 1 } : ParseContext).peek = 63 := by
      rw [peek_eq_ahead, ahead_advance ctx1 q _ hah]; rfl
    rw [piece_simple_lazy chunk ctx ctx1 _ _ _ q _ hatom hret hq hah hlazy]
    simp only [hw, if_false, hs, hemit, hnq, Bool.false_eq_true]
    exact ⟨_, _, rfl⟩

/-- The function `piece` on a simple atom with width that is followed by a counted range
read as `{min,max}`, with or without the lazy suffix, and then by no further quantifier. -/
theorem piece_brace_ok_simple (chunk : Nat → Comp Ret) (ctx ctx1 c4 : ParseContext) (ret : Ptr)
    (range : len_range) (spec : List Nat) (min max : Nat) (lz : Bool) (rest : List Nat)
    (hatom : atom chunk ctx
      = Except.ok ((ret, WORST ||| HAS_WIDTH ||| SIMPLE, range), ctx1))
    (hret : ret ≠ Ptr.null) (hB : ctx1.Brace_Char = 123)
    (hah : ctx1.ahead = 123 :: (spec ++ 125 :: ((if lz then [63] else []) ++ rest)))
    (hr : rest.headD 0 ≠ 42 ∧ rest.headD 0 ≠ 43 ∧ rest.headD 0 ≠ 63 ∧ rest.headD 0 ≠ 123)
    (hbrace : pieceBrace { ctx1 with Reg_Parse := ctx1.Reg_Parse + 1 }
      = Except.ok ((min, max), { ctx1 with Reg_Parse := ctx1.Reg_Parse + 1 + spec.length }))
    (hNB : ctx1.Num_Braces ≤ UINT8_MAX)
    (hemit : ¬ (min = 1 ∧ max = 1) →
      pieceEmit (if min = 0 ∧ max = 0 then 42 else if min = 1 ∧ max = 0 then 43
          else if min = 0 ∧ max = 1 then 63 else 123) true lz
        (if (if min = 0 ∧ max = 0 then 42 else if min = 1 ∧ max = 0 then 43
          else if min = 0 ∧ max = 1 then 63 else 123) = 43 then 1 else min)
        (if (if min = 0 ∧ max = 0 then 42 else if min = 1 ∧ max = 0 then 43
          else if min = 0 ∧ max = 1 then 63 else 123) = 63 then 1 else max) ret
        { ctx1 with Reg_Parse := ctx1.Reg_Parse + 1 + spec.length + 1 + (if lz then 1 else 0) }
          = Except.ok (PUnit.unit, c4))
    (h11 : min = 1 ∧ max = 1 → c4 = { ctx1 with
      Reg_Parse := ctx1.Reg_Parse + 1 + spec.length + 1 + (if lz then 1 else 0) })
    (h4a : c4.ahead = rest) (h4B : c4.Brace_Char = 123) :
    ∃ fl rg, piece chunk ctx = Except.ok ((ret, fl, rg), c4) := by
  have hw : ¬ ((WORST ||| HAS_WIDTH ||| SIMPLE) &&& HAS_WIDTH = 0) := by decide
  have hs : decide ((WORST ||| HAS_WIDTH ||| SIMPLE) &&& SIMPLE ≠ 0) = true := by decide
  have hnq := not_quantifier_of_head c4 rest h4B h4a hr
  have hnb : ¬ (ctx1.Num_Braces > UINT8_MAX) := by omega
  have ha2 : ({ ctx1 with Reg_Parse := ctx1.Reg_Parse + 1 + spec.length } : ParseContext).ahead
      = 125 :: ((if lz then [63] else []) ++ rest) := by
    have h1 := ahead_advance ctx1 123 _ hah
    exact ahead_advance_append { ctx1 with Reg_Parse := ctx1.Reg_Parse + 1 } spec _ h1
  cases lz with
  | false =>
    simp only [Bool.false_eq_true, if_false, List.nil_append, Nat.add_zero] at hah hemit h11 ha2
    have hlazy : ({ ctx1 with Reg_Parse := ctx1.Reg_Parse + 1 + spec.length + 1 }
        : ParseContext).peek ≠ 63 := by
      rw [peek_eq_ahead]
      have := ahead_advance _ 125 _ ha2
      rw [this]; exact hr.2.2.1
    rw [piece_brace_ok chunk ctx ctx1 _ ret _ _ _ min max hatom hret hB hah hbrace hlazy]
    by_cases hone : min = 1 ∧ max = 1
    · simp only [hone, and_self, if_true]
      rw [h11 hone]
      exact ⟨_, _, rfl⟩
    · simp only [hone, if_false, hw, hs, hemit hone, hnq, Bool.false_eq_true, hnb, and_false]
      exact ⟨_, _, rfl⟩
  | true =>
    simp only [if_true, List.singleton_append] at hah hemit h11 ha2
    have hlazy : ({ ctx1 with Reg_Parse := ctx1.Reg_Parse + 1 + spec.length + 1 }
        : ParseContext).peek = 63 := by
      rw [peek_eq_ahead]
      have := ahead_advance _ 125 _ ha2
      rw [this]; rfl
    rw [piece_brace_lazy chunk ctx ctx1 _ ret _ _ _ min max hatom hret hB hah hbrace hlazy]
    by_cases hone : min = 1 ∧ max = 1
    · simp only [hone, and_self, if_true]
      rw [h11 hone]
      exact ⟨_, _, rfl⟩
    · simp only [hone, if_false, hw, hs, hemit hone, hnq, Bool.false_eq_true, hnb, and_false]
      exact ⟨_, _, rfl⟩

/-- The function `piece` in the sizing pass on an ordinary character followed by `*`, `+`
or `?`, with or without the lazy suffix. -/
theorem piece_char_simple_sizing (chunk : Nat → Comp Ret) (ctx : ParseContext) (x q : Nat)
    (lz : Bool) (rest : List Nat) (hx : isOrdinaryChar x) (hq : q = 42 ∨ q = 43 ∨ q = 63)
    (hah : ctx.ahead = x :: q :: ((if lz then [63] else []) ++ rest))
    (hr : rest.headD 0 ≠ 42 ∧ rest.headD 0 ≠ 43 ∧ rest.headD 0 ≠ 63 ∧ rest.headD 0 ≠ 123)
    (hM : ctx.Meta_Char = Default_Meta_Char) (hB : ctx.Brace_Char = 123)
    (hP : ctx.Code_Emit_Ptr = Compute_Size) :
    ∃ fl rg, piece chunk ctx = Except.ok ((Compute_Size, fl, rg),
      { ctx with
        Reg_Parse := ctx.Reg_Parse + 2 + (if lz then 1 else 0)
        Reg_Size := ctx.Reg_Size + 5
          + (insertNode (quantifierNode q lz) 0 0 0).length }) := by
  have hatom := atom_quant_sizing chunk ctx [] x q _ (by simp) hx (by omega) hah hM hB hP
  simp only [List.length_nil, if_true] at hatom
  generalize hc1 : ({ ctx with
      Reg_Parse := ctx.Reg_Parse + 1
      Reg_Size := ctx.Reg_Size + NODE_SIZE + 1 + 1 } : ParseContext) = c1 at hatom
  have f1 : c1.ahead = q :: ((if lz then [63] else []) ++ rest) := by
    rw [← hc1]; exact ahead_advance ctx x _ hah
  have hcs : Compute_Size ≠ Ptr.null := by simp [Compute_Size]
  generalize hc3 : ({ c1 with Reg_Parse := c1.Reg_Parse + 1 + (if lz then 1 else 0) }
    : ParseContext) = c3
  have g3 : c3.Code_Emit_Ptr = Compute_Size := by rw [← hc3, ← hc1]; exact hP
  have hemit := pieceEmit_simple_sizing q lz (if q = 43 then 1 else 0) (if q = 63 then 1 else 0)
    Compute_Size c3 (by omega) g3
  rw [← insertNode_simple q lz _ _ hq] at hemit
  generalize hc4 : ({ c3 with Reg_Size := c3.Reg_Size
      + (insertNode (quantifierNode q lz) 0 0 0).length } : ParseContext) = c4 at hemit
  have k1 : c4.ahead = rest := by
    rw [← hc4, ← hc3]
    have h1 := ahead_advance c1 q _ f1
    cases lz with
    | false => simpa using h1
    | true =>
      simp only [if_true, List.singleton_append] at h1 ⊢
      exact ahead_advance _ 63 _ h1
  have k2 : c4.Brace_Char = 123 := by rw [← hc4, ← hc3, ← hc1]; exact hB
  rw [← hc3] at hemit
  obtain ⟨fl, rg, h⟩ := piece_simple_ok chunk ctx c1 c4 _ _ q lz rest hatom hcs hq f1 hr hemit
    k1 k2
  refine ⟨fl, rg, ?_⟩
  rw [h, ← hc4, ← hc3, ← hc1]
  congr 2

/-- The function `piece` in the emitting pass on an ordinary character followed by `*`,
`+` or `?`, with or without the lazy suffix: the quantifier node, then the `EXACTLY` node of
the character. -/
theorem piece_char_simple_emitting (chunk : Nat → Comp Ret) (ctx : ParseContext) (x q : Nat)
    (lz : Bool) (rest A Z : List Nat) (hx : isOrdinaryChar x) (hq : q = 42 ∨ q = 43 ∨ q = 63)
    (hah : ctx.ahead = x :: q :: ((if lz then [63] else []) ++ rest))
    (hr : rest.headD 0 ≠ 42 ∧ rest.headD 0 ≠ 43 ∧ rest.headD 0 ≠ 63 ∧ rest.headD 0 ≠ 123)
    (hM : ctx.Meta_Char = Default_Meta_Char) (hB : ctx.Brace_Char = 123)
    (hCI : ctx.Is_Case_Insensitive = false)
    (hP : ctx.Code_Emit_Ptr = Ptr.prog A.length) (hprog : ctx.program = A ++ Z)
    (hZ : 5 + (insertNode (quantifierNode q lz) 0 0 0).length ≤ Z.length) :
    ∃ fl rg, piece chunk ctx = Except.ok ((Ptr.prog A.length, fl, rg),
      { ctx with
        Reg_Parse := ctx.Reg_Parse + 2 + (if lz then 1 else 0)
        program := A ++ insertNode (quantifierNode q lz) 0 0 0 ++ [EXACTLY, 0, 0, x % 256, 0]
          ++ Z.drop (5 + (insertNode (quantifierNode q lz) 0 0 0).length)
        Code_Emit_Ptr := Ptr.prog (A.length + 5
          + (insertNode (quantifierNode q lz) 0 0 0).length) }) := by
  have hatom := atom_quant_emitting chunk ctx [] x q _ A Z (by simp) hx (by omega) hah hM hB hP
    hprog (by simp only [List.length_nil]; omega)
  simp only [List.length_nil, if_true, hCI, Bool.false_eq_true, if_false, List.map_cons,
    List.map_nil, Nat.reduceAdd] at hatom
  generalize hc1 : ({ ctx with
      Reg_Parse := ctx.Reg_Parse + 1
      program := A ++ [EXACTLY, 0, 0] ++ [x % 256] ++ [0] ++ List.drop 5 Z
      Code_Emit_Ptr := Ptr.prog (A.length + 5)
      Is_Case_Insensitive := false } : ParseContext) = c1 at hatom
  have f1 : c1.ahead = q :: ((if lz then [63] else []) ++ rest) := by
    rw [← hc1]; exact ahead_advance ctx x _ hah
  have hcs : Ptr.prog A.length ≠ Ptr.null := by simp
  generalize hc3 : ({ c1 with Reg_Parse := c1.Reg_Parse + 1 + (if lz then 1 else 0) }
    : ParseContext) = c3
  have g3 : c3.Code_Emit_Ptr = Ptr.prog (A.length + [EXACTLY, 0, 0, x % 256, 0].length) := by
    rw [← hc3, ← hc1]; rfl
  have g4 : c3.program = A ++ [EXACTLY, 0, 0, x % 256, 0] ++ Z.drop 5 := by
    rw [← hc3, ← hc1]; simp
  have hemit := pieceEmit_simple_emitting q lz (if q = 43 then 1 else 0)
    (if q = 63 then 1 else 0) c3 A [EXACTLY, 0, 0, x % 256, 0] (Z.drop 5) (by omega) g4 g3
    (by rw [← insertNode_simple q lz _ _ hq]; simp only [List.length_drop]; omega)
  rw [← insertNode_simple q lz _ _ hq] at hemit
  generalize hc4 : ({ c3 with
      program := A ++ insertNode (quantifierNode q lz) 0 0 0 ++ [EXACTLY, 0, 0, x % 256, 0]
        ++ (Z.drop 5).drop (insertNode (quantifierNode q lz) 0 0 0).length
      Code_Emit_Ptr := Ptr.prog (A.length + [EXACTLY, 0, 0, x % 256, 0].length
        + (insertNode (quantifierNode q lz) 0 0 0).length) } : ParseContext) = c4 at hemit
  have k1 : c4.ahead = rest := by
    rw [← hc4, ← hc3]
    have h1 := ahead_advance c1 q _ f1
    cases lz with
    | false => simpa using h1
    | true =>
      simp only [if_true, List.singleton_append] at h1 ⊢
      exact ahead_advance _ 63 _ h1
  have k2 : c4.Brace_Char = 123 := by rw [← hc4, ← hc3, ← hc1]; exact hB
  rw [← hc3] at hemit
  obtain ⟨fl, rg, h⟩ := piece_simple_ok chunk ctx c1 c4 _ _ q lz rest hatom hcs hq f1 hr hemit
    k1 k2
  refine ⟨fl, rg, ?_⟩
  rw [h, ← hc4, ← hc3, ← hc1]
  congr 2
  simp only [List.drop_drop, List.length_cons, List.length_nil, ParseContext.mk.injEq, and_true,
    true_and, hCI]


theorem braceOp_cases (min max : Nat) :
    braceOp min max = 42 ∨ braceOp min max = 43 ∨ braceOp min max = 63 ∨ braceOp min max = 123 := by
  unfold braceOp
  split_ifs <;> simp

theorem braceOp_min (min max : Nat) : (if braceOp min max = 43 then 1 else min) = min := by
  unfold braceOp
  split_ifs <;> simp_all

theorem braceOp_max (min max : Nat) : (if braceOp min max = 63 then 1 else max) = max := by
  unfold braceOp
  split_ifs <;> simp_all

/-- The function `piece` in the sizing pass on an ordinary character followed by a counted
range that `pieceBrace` reads as `{min,max}`, with or without the lazy suffix. -/
theorem piece_char_brace_sizing (chunk : Nat → Comp Ret) (ctx : ParseContext) (x : Nat)
    (spec : List Nat) (min max : Nat) (lz : Bool) (rest : List Nat) (hx : isOrdinaryChar x)
    (hah : ctx.ahead = x :: 123 :: (spec ++ 125 :: ((if lz then [63] else []) ++ rest)))
    (hr : rest.headD 0 ≠ 42 ∧ rest.headD 0 ≠ 43 ∧ rest.headD 0 ≠ 63 ∧ rest.headD 0 ≠ 123)
    (hM : ctx.Meta_Char = Default_Meta_Char) (hB : ctx.Brace_Char = 123)
    (hP : ctx.Code_Emit_Ptr = Compute_Size) (hNB : ctx.Num_Braces ≤ UINT8_MAX)
    (hspec : ∀ c : ParseContext,
      c.ahead = spec ++ 125 :: ((if lz then [63] else []) ++ rest) →
      pieceBrace c = Except.ok ((min, max), { c with Reg_Parse := c.Reg_Parse + spec.length })) :
    ∃ fl rg, piece chunk ctx = Except.ok ((Compute_Size, fl, rg),
      { ctx with
        Reg_Parse := ctx.Reg_Parse + 3 + spec.length + (if lz then 1 else 0)
        Reg_Size := ctx.Reg_Size + 5 + (braceCode min max lz).length }) := by
  have hatom := atom_quant_sizing chunk ctx [] x 123 _ (by simp) hx (by omega) hah hM hB hP
  simp only [List.length_nil, if_true] at hatom
  generalize hc1 : ({ ctx with
      Reg_Parse := ctx.Reg_Parse + 1
      Reg_Size := ctx.Reg_Size + NODE_SIZE + 1 + 1 } : ParseContext) = c1 at hatom
  have f1 : c1.ahead = 123 :: (spec ++ 125 :: ((if lz then [63] else []) ++ rest)) := by
    rw [← hc1]; exact ahead_advance ctx x _ hah
  have f2 : c1.Brace_Char = 123 := by rw [← hc1]; exact hB
  have f3 : c1.Num_Braces ≤ UINT8_MAX := by rw [← hc1]; exact hNB
  have hcs : Compute_Size ≠ Ptr.null := by simp [Compute_Size]
  have hbrace := hspec { c1 with Reg_Parse := c1.Reg_Parse + 1 } (ahead_advance c1 123 _ f1)
  generalize hc3 : ({ c1 with
      Reg_Parse := c1.Reg_Parse + 1 + spec.length + 1 + (if lz then 1 else 0) }
    : ParseContext) = c3
  have g3 : c3.Code_Emit_Ptr = Compute_Size := by rw [← hc3, ← hc1]; exact hP
  have g1 : c3.ahead = rest := by
    rw [← hc3]
    have h1 := ahead_advance c1 123 _ f1
    have h2 := ahead_advance_append _ spec _ h1
    have h3 := ahead_advance _ 125 _ h2
    cases lz with
    | false => simpa using h3
    | true =>
      simp only [if_true, List.singleton_append] at h3 ⊢
      exact ahead_advance _ 63 _ h3
  have hemit := pieceEmit_simple_sizing (braceOp min max) lz min max
    Compute_Size c3 (braceOp_cases min max) g3
  generalize hc4 : (if min = 1 ∧ max = 1 then c3 else { c3 with Reg_Size := c3.Reg_Size
      + (insertNode (quantifierNode (braceOp min max) lz) min max 0).length }) = c4
  have k1 : c4.ahead = rest := by
    rw [← hc4]; split_ifs
    · exact g1
    · exact g1
  have k2 : c4.Brace_Char = 123 := by
    rw [← hc4]; split_ifs <;> (rw [← hc3]; exact f2)
  obtain ⟨fl, rg, h⟩ := piece_brace_ok_simple chunk ctx c1 c4 _ _ spec min max lz rest hatom hcs
    f2 f1 hr hbrace f3
    (by
      intro h11
      have e := hemit
      rw [← hc3] at e
      rw [← hc4, if_neg h11, ← hc3]
      have e1 := braceOp_min min max
      have e2 := braceOp_max min max
      unfold braceOp at e1 e2 e
      rw [e1, e2]
      exact e)
    (by
      intro h11
      rw [← hc4, if_pos h11, ← hc3])
    k1 k2
  refine ⟨fl, rg, ?_⟩
  rw [h, ← hc4]
  by_cases h11 : min = 1 ∧ max = 1
  · rw [if_pos h11, ← hc3, ← hc1]
    simp only [braceCode, if_pos h11, List.length_nil]
    congr 2
    generalize (if lz = true then 1 else 0) = l
    simp only [NODE_SIZE, NEXT_PTR_SIZE, OP_CODE_SIZE, ParseContext.mk.injEq, and_true, true_and]
    omega
  · rw [if_neg h11, ← hc3, ← hc1]
    simp only [braceCode, if_neg h11]
    congr 2
    generalize (if lz = true then 1 else 0) = l
    simp only [NODE_SIZE, NEXT_PTR_SIZE, OP_CODE_SIZE, ParseContext.mk.injEq, and_true, true_and]
    omega

theorem braceCode_length_le (min max : Nat) (lz : Bool) : (braceCode min max lz).length ≤ 7 := by
  unfold braceCode
  split_ifs
  · simp
  · rw [insertNode_length]
    split_ifs <;> decide

/-- The function `piece` in the emitting pass on an ordinary character followed by a counted
range that `pieceBrace` reads as `{min,max}`, with or without the lazy suffix: the inserted
node, if any, then the `EXACTLY` node of the character. -/
theorem piece_char_brace_emitting (chunk : Nat → Comp Ret) (ctx : ParseContext) (x : Nat)
    (spec : List Nat) (min max : Nat) (lz : Bool) (rest A Z : List Nat) (hx : isOrdinaryChar x)
    (hah : ctx.ahead = x :: 123 :: (spec ++ 125 :: ((if lz then [63] else []) ++ rest)))
    (hr : rest.headD 0 ≠ 42 ∧ rest.headD 0 ≠ 43 ∧ rest.headD 0 ≠ 63 ∧ rest.headD 0 ≠ 123)
    (hM : ctx.Meta_Char = Default_Meta_Char) (hB : ctx.Brace_Char = 123)
    (hCI : ctx.Is_Case_Insensitive = false)
    (hP : ctx.Code_Emit_Ptr = Ptr.prog A.length) (hprog : ctx.program = A ++ Z)
    (hZ : 5 + (braceCode min max lz).length ≤ Z.length) (hNB : ctx.Num_Braces ≤ UINT8_MAX)
    (hspec : ∀ c : ParseContext,
      c.ahead = spec ++ 125 :: ((if lz then [63] else []) ++ rest) →
      pieceBrace c = Except.ok ((min, max), { c with Reg_Parse := c.Reg_Parse + spec.length })) :
    ∃ fl rg, piece chunk ctx = Except.ok ((Ptr.prog A.length, fl, rg),
      { ctx with
        Reg_Parse := ctx.Reg_Parse + 3 + spec.length + (if lz then 1 else 0)
        program := A ++ braceCode min max lz ++ [EXACTLY, 0, 0, x % 256, 0]
          ++ Z.drop (5 + (braceCode min max lz).length)
        Code_Emit_Ptr := Ptr.prog (A.length + 5 + (braceCode min max lz).length) }) := by
  have hatom := atom_quant_emitting chunk ctx [] x 123 _ A Z (by simp) hx (by omega) hah hM hB hP
    hprog (by simp only [List.length_nil]; omega)
  simp only [List.length_nil, if_true, hCI, Bool.false_eq_true, if_false, List.map_cons,
    List.map_nil, Nat.reduceAdd] at hatom
  generalize hc1 : ({ ctx with
      Reg_Parse := ctx.Reg_Parse + 1
      program := A ++ [EXACTLY, 0, 0] ++ [x % 256] ++ [0] ++ List.drop 5 Z
      Code_Emit_Ptr := Ptr.prog (A.length + 5)
      Is_Case_Insensitive := false } : ParseContext) = c1 at hatom
  have f1 : c1.ahead = 123 :: (spec ++ 125 :: ((if lz then [63] else []) ++ rest)) := by
    rw [← hc1]; exact ahead_advance ctx x _ hah
  have f2 : c1.Brace_Char = 123 := by rw [← hc1]; exact hB
  have f3 : c1.Num_Braces ≤ UINT8_MAX := by rw [← hc1]; exact hNB
  have hcs : Ptr.prog A.length ≠ Ptr.null := by simp
  have hbrace := hspec { c1 with Reg_Parse := c1.Reg_Parse + 1 } (ahead_advance c1 123 _ f1)
  generalize hc3 : ({ c1 with
      Reg_Parse := c1.Reg_Parse + 1 + spec.length + 1 + (if lz then 1 else 0) }
    : ParseContext) = c3
  have g3 : c3.Code_Emit_Ptr = Ptr.prog (A.length + [EXACTLY, 0, 0, x % 256, 0].length) := by
    rw [← hc3, ← hc1]; rfl
  have g4 : c3.program = A ++ [EXACTLY, 0, 0, x % 256, 0] ++ Z.drop 5 := by
    rw [← hc3, ← hc1]; simp
  have g1 : c3.ahead = rest := by
    rw [← hc3]
    have h1 := ahead_advance c1 123 _ f1
    have h2 := ahead_advance_append _ spec _ h1
    have h3 := ahead_advance _ 125 _ h2
    cases lz with
    | false => simpa using h3
    | true =>
      simp only [if_true, List.singleton_append] at h3 ⊢
      exact ahead_advance _ 63 _ h3
  generalize hc4 : (if min = 1 ∧ max = 1 then c3 else { c3 with
      program := A ++ insertNode (quantifierNode (braceOp min max) lz) min max 0
        ++ [EXACTLY, 0, 0, x % 256, 0]
        ++ (Z.drop 5).drop (insertNode (quantifierNode (braceOp min max) lz) min max 0).length
      Code_Emit_Ptr := Ptr.prog (A.length + [EXACTLY, 0, 0, x % 256, 0].length
        + (insertNode (quantifierNode (braceOp min max) lz) min max 0).length) }) = c4
  have k1 : c4.ahead = rest := by
    rw [← hc4]; split_ifs
    · exact g1
    · exact g1
  have k2 : c4.Brace_Char = 123 := by
    rw [← hc4]; split_ifs <;> (rw [← hc3]; exact f2)
  obtain ⟨fl, rg, h⟩ := piece_brace_ok_simple chunk ctx c1 c4 _ _ spec min max lz rest hatom hcs
    f2 f1 hr hbrace f3
    (by
      intro h11
      have hZ' : (insertNode (quantifierNode (braceOp min max) lz) min max 0).length
          ≤ (Z.drop 5).length := by
        simp only [braceCode, if_neg h11] at hZ
        simp only [List.length_drop]; omega
      have e := pieceEmit_simple_emitting (braceOp min max) lz min max c3 A
        [EXACTLY, 0, 0, x % 256, 0] (Z.drop 5) (braceOp_cases min max) g4 g3 hZ'
      rw [← hc3] at e
      rw [← hc4, if_neg h11, ← hc3]
      have e1 := braceOp_min min max
      have e2 := braceOp_max min max
      unfold braceOp at e1 e2 e
      rw [e1, e2]
      exact e)
    (by
      intro h11
      rw [← hc4, if_pos h11, ← hc3])
    k1 k2
  refine ⟨fl, rg, ?_⟩
  rw [h, ← hc4]
  by_cases h11 : min = 1 ∧ max = 1
  · rw [if_pos h11, ← hc3, ← hc1]
    simp only [braceCode, if_pos h11, List.length_nil]
    congr 2
    generalize (if lz = true then 1 else 0) = l
    simp only [ParseContext.mk.injEq, and_true, true_and, hCI, Nat.add_zero, List.append_nil]
    refine ⟨by omega, ?_⟩
    simp
  · rw [if_neg h11, ← hc3, ← hc1]
    simp only [braceCode, if_neg h11]
    congr 2
    generalize (if lz = true then 1 else 0) = l
    simp only [ParseContext.mk.injEq, and_true, true_and, hCI, List.drop_drop, List.length_cons,
      List.length_nil]
    omega

set_option maxHeartbeats 4000000 in
/-- The sizing pass on a pattern that is one piece. -/
theorem compilePass_piece_sizing (p cB : ParseContext) (fl : Nat) (rg : len_range)
    (h0 : p.InputString ≠ []) (hP : p.Code_Emit_Ptr = Compute_Size)
    (hpk1 : p.peek ≠ 124) (hpk2 : p.peek ≠ 41) (hne : p.atEnd = false)
    (hpiece : piece (chunk p.InputString.length)
      { p with Reg_Size := p.Reg_Size + 1 + 1 + 1 + NODE_SIZE }
        = Except.ok ((Compute_Size, fl, rg), cB))
    (hptrB : cB.Code_Emit_Ptr = Compute_Size) (hendB : cB.atEnd = true) :
    compilePass p = Except.ok
      { cB with
        Reg_Size := cB.Reg_Size + NODE_SIZE
        Is_Case_Insensitive := p.Is_Case_Insensitive
        Match_Newline := p.Match_Newline } := by
  have hcs : Compute_Size ≠ Ptr.null := by simp [Compute_Size]
  generalize hc3 : ({ p with Reg_Size := p.Reg_Size + 1 + 1 + 1 } : ParseContext) = c3
  generalize hcA : ({ p with Reg_Size := p.Reg_Size + 1 + 1 + 1 + NODE_SIZE }
    : ParseContext) = cA at hpiece
  have hnodeA : emit_node BRANCH c3 = Except.ok (Compute_Size, cA) := by
    rw [emit_node_sizing _ c3 (by rw [← hc3]; exact hP), ← hcA, ← hc3]
  have hpkA : cA.peek = p.peek := by rw [← hcA]; rfl
  have hendA : cA.atEnd = p.atEnd := by rw [← hcA]; rfl
  have hISA : cA.InputString = p.InputString := by rw [← hcA]
  have hIS3 : c3.InputString = p.InputString := by rw [← hc3]
  have hpkB : cB.peek = 0 := peek_of_atEnd cB hendB
  rw [← hISA] at hpiece
  obtain ⟨fl1, rg1, halt⟩ := alternative_single (chunk cA.InputString.length) c3 cA cB
    Compute_Size Compute_Size _ _ hnodeA (by rw [hpkA]; exact hpk1)
    (by rw [hpkA]; exact hpk2) (by rw [hendA]; exact hne) hpiece hcs (Or.inr (Or.inr hendB))
    (by rw [hISA]; exact Nat.succ_le_of_lt (List.length_pos.mpr h0))
  rw [hISA] at halt
  obtain ⟨fl', hbr⟩ := chunkBranches_single (chunk p.InputString.length) p.InputString.length
    HAS_WIDTH { lower := 0, upper := 0 } c3 cB cB Compute_Size fl1 rg1 halt hcs (tail_sizing _ _)
    (by rw [hpkB]; decide)
  generalize hcC : ({ cB with Reg_Size := cB.Reg_Size + NODE_SIZE } : ParseContext) = cC
  have hendC : cC.atEnd = true := by rw [← hcC]; exact hendB
  have hbody := chunkBody_top_ok (chunk p.InputString.length) c3 cB cC cC cC Compute_Size
    Compute_Size fl' rg1 (by rw [hIS3]; exact hbr)
    (by rw [emit_node_sizing _ cB hptrB, hcC]) (tail_sizing _ _)
    (chunkHook_sizing _ _ _) hendC
  unfold compilePass
  simp only [comp_bind, chunk]
  rw [emit_byte_sizing _ _ hP]
  simp only []
  rw [emit_byte_sizing _ _ (by exact hP)]
  simp only []
  rw [emit_byte_sizing _ _ (by exact hP)]
  simp only []
  rw [hc3, hbody]
  simp only [hcs, if_false]
  rw [← hcC, ← hc3]

/-- The constructor when both passes succeed: the program is the buffer of the emitting
pass with the counts of groups and of counter constructs stored in bytes 1 and 2. -/
theorem CompileRE_of_passes (S : List Nat) (flags : Nat) (c1 c2 : ParseContext)
    (h1 : compilePass (passContext S flags true [] Compute_Size 0) = Except.ok c1)
    (hsize : c1.Reg_Size < MAX_COMPILED_SIZE)
    (h2 : compilePass (passContext S flags true (List.replicate c1.Reg_Size 0) (Ptr.prog 0)
      c1.Reg_Size) = Except.ok c2) :
    ∃ re, CompileRE S flags = Except.ok re ∧
      re.program = (c2.program.set 1 ((c2.Total_Paren + 255) % 256)).set 2
        (c2.Num_Braces % 256) := by
  unfold CompileRE CompileRE_counting
  rw [h1]
  simp only []
  rw [if_neg (by omega), h2]
  simp only []
  split_ifs <;> exact ⟨_, rfl, rfl⟩

set_option maxHeartbeats 4000000 in
/-- The constructor on a pattern `S` that `piece` reads as a single piece, emitting the
code `n0 :: 0 :: 0 :: N` for it in both passes: the program is `pieceProgram n0 N`. -/
theorem CompileRE_single_piece (S : List Nat) (n0 : Nat) (N : List Nat)
    (hS : S ≠ []) (hh1 : S.headD 0 ≠ 124) (hh2 : S.headD 0 ≠ 41)
    (hsz : ∀ ctx : ParseContext, ctx.ahead = S → ctx.Meta_Char = Default_Meta_Char →
      ctx.Brace_Char = 123 → ctx.Num_Braces = 0 → ctx.Is_Case_Insensitive = false →
      ctx.Code_Emit_Ptr = Compute_Size →
      ∃ fl rg, piece (chunk S.length) ctx = Except.ok ((Compute_Size, fl, rg),
        { ctx with
          Reg_Parse := ctx.Reg_Parse + S.length
          Reg_Size := ctx.Reg_Size + (N.length + 3) }))
    (hem : ∀ (ctx : ParseContext) (A Z : List Nat), ctx.ahead = S →
      ctx.Meta_Char = Default_Meta_Char →
      ctx.Brace_Char = 123 → ctx.Num_Braces = 0 → ctx.Is_Case_Insensitive = false →
      ctx.Code_Emit_Ptr = Ptr.prog A.length → ctx.program = A ++ Z → N.length + 3 ≤ Z.length →
      ∃ fl rg, piece (chunk S.length) ctx = Except.ok ((Ptr.prog A.length, fl, rg),
        { ctx with
          Reg_Parse := ctx.Reg_Parse + S.length
          program := A ++ (n0 :: 0 :: 0 :: N) ++ Z.drop (N.length + 3)
          Code_Emit_Ptr := Ptr.prog (A.length + (N.length + 3)) }))
    (hn0 : n0 ≠ BACK) (hsmall : N.length + 12 < MAX_COMPILED_SIZE) :
    ∃ re, CompileRE S 0 = Except.ok re ∧ re.program = pieceProgram n0 N := by
  have hM : MAX_COMPILED_SIZE = 32767 := rfl
  rw [hM] at hsmall
  -- the sizing pass
  obtain ⟨a1, a2, a3, a4, a5, -, a7, -, a9, a10⟩ := passContext_fields S 0 [] Compute_Size 0
  generalize hp1 : passContext S 0 true [] Compute_Size 0 = p1 at *
  have a10' : p1.Is_Case_Insensitive = false := by rw [a10]; decide
  have hah1 : p1.ahead = S := by simp only [ParseContext.ahead, a1, a2, List.drop_zero]
  have hpk1 : p1.peek = S.headD 0 := by rw [peek_eq_ahead, hah1]
  have hne1 : p1.atEnd = false := by
    simp only [ParseContext.atEnd, a1, a2, decide_eq_false_iff_not]
    exact fun h => hS (List.length_eq_zero.mp h.symm)
  obtain ⟨fl, rg, hpiece1⟩ := hsz { p1 with Reg_Size := p1.Reg_Size + 1 + 1 + 1 + NODE_SIZE }
    hah1 a3 a4 a9 a10' a5
  generalize hcB : ({ p1 with
      Reg_Parse := p1.Reg_Parse + S.length
      Reg_Size := p1.Reg_Size + 1 + 1 + 1 + NODE_SIZE + (N.length + 3) } : ParseContext) = cB
    at hpiece1
  have hendB : cB.atEnd = true := by
    rw [← hcB]
    simp only [ParseContext.atEnd, a1, a2, Nat.zero_add, decide_True]
  have hpass1 := compilePass_piece_sizing p1 cB fl rg (by rw [a2]; exact hS) a5
    (by rw [hpk1]; exact hh1) (by rw [hpk1]; exact hh2) hne1
    (by rw [show p1.InputString.length = S.length from by rw [a2]]; exact hpiece1)
    (by rw [← hcB]; exact a5) hendB
  generalize hc1 : ({ cB with
      Reg_Size := cB.Reg_Size + NODE_SIZE
      Is_Case_Insensitive := p1.Is_Case_Insensitive
      Match_Newline := p1.Match_Newline } : ParseContext) = c1 at hpass1
  have hsize1 : c1.Reg_Size = N.length + 12 := by
    rw [← hc1, ← hcB]
    simp only [a7, NODE_SIZE, NEXT_PTR_SIZE, OP_CODE_SIZE]
    omega
  -- the emitting pass
  obtain ⟨b1, b2, b3, b4, b5, b6, -, b8, b9, b10⟩ :=
    passContext_fields S 0 (List.replicate (N.length + 12) 0) (Ptr.prog 0) (N.length + 12)
  generalize hp2 : passContext S 0 true (List.replicate (N.length + 12) 0) (Ptr.prog 0)
    (N.length + 12) = p2 at *
  have b10' : p2.Is_Case_Insensitive = false := by rw [b10]; decide
  have hah2 : p2.ahead = S := by simp only [ParseContext.ahead, b1, b2, List.drop_zero]
  have hpk2 : p2.peek = S.headD 0 := by rw [peek_eq_ahead, hah2]
  have hne2 : p2.atEnd = false := by
    simp only [ParseContext.atEnd, b1, b2, decide_eq_false_iff_not]
    exact fun h => hS (List.length_eq_zero.mp h.symm)
  have hZl : (p2.program.drop 6).length = N.length + 6 := by
    rw [b6]; simp
  obtain ⟨fl2, rg2, hpiece2⟩ := hem
    { p2 with program := [156, 37, 37, 34, 0, 0] ++ p2.program.drop 6, Code_Emit_Ptr := Ptr.prog 6 }
    [156, 37, 37, 34, 0, 0] (p2.program.drop 6) hah2 b3 b4 b9 b10' rfl rfl (by rw [hZl]; omega)
  generalize hcB2 : ({ p2 with
      Reg_Parse := p2.Reg_Parse + S.length
      program := [156, 37, 37, 34, 0, 0] ++ (n0 :: 0 :: 0 :: N)
        ++ (p2.program.drop 6).drop (N.length + 3)
      Code_Emit_Ptr := Ptr.prog (([156, 37, 37, 34, 0, 0] : List Nat).length + (N.length + 3)) }
    : ParseContext) = cB2 at hpiece2
  obtain ⟨e0, e1, e2, he⟩ : ∃ e0 e1 e2, (p2.program.drop 6).drop (N.length + 3) = [e0, e1, e2] := by
    have hl : ((p2.program.drop 6).drop (N.length + 3)).length = 3 := by
      rw [List.length_drop, hZl]; omega
    rcases hd : (p2.program.drop 6).drop (N.length + 3) with _ | ⟨e0, _ | ⟨e1, _ | ⟨e2, _ | ⟨e3, E⟩⟩⟩⟩ <;>
      first
      | (rw [hd] at hl; simp at hl; done)
      | exact ⟨_, _, _, rfl⟩
  have hendB2 : cB2.atEnd = true := by
    rw [← hcB2]
    simp only [ParseContext.atEnd, b1, b2, Nat.zero_add, decide_True]
  obtain ⟨fl', rg', hdo⟩ := compilePass_piece_emitting p2 cB2 fl2 rg2 n0 N (by rw [b2]; exact hS)
    b5 (by rw [b6]; simp) (by omega) (by rw [hpk2]; exact hh1) (by rw [hpk2]; exact hh2) hne2
    (by rw [show p2.InputString.length = S.length from by rw [b2]]; exact hpiece2) ⟨e0, e1, e2, by rw [← hcB2, he]⟩
    (by rw [← hcB2]; simp only [List.length_cons, List.length_nil]; congr 1; omega) hendB2 hn0
  have hpass2 : compilePass p2 = Except.ok
      { cB2 with
        program := [156, 37, 37, 34, PUT_OFFSET_L ((N.length + 6 : Nat) : Int),
          PUT_OFFSET_R ((N.length + 6 : Nat) : Int), n0,
          PUT_OFFSET_L ((N.length + 3 : Nat) : Int),
          PUT_OFFSET_R ((N.length + 3 : Nat) : Int)] ++ N ++ [END, 0, 0]
        Code_Emit_Ptr := Ptr.prog (N.length + 12)
        Is_Case_Insensitive := p2.Is_Case_Insensitive
        Match_Newline := p2.Match_Newline } := by
    unfold compilePass
    rw [hdo]
    simp only [reduceCtorEq, if_false]
  generalize hc2 : ({ cB2 with
        program := [156, 37, 37, 34, PUT_OFFSET_L ((N.length + 6 : Nat) : Int),
          PUT_OFFSET_R ((N.length + 6 : Nat) : Int), n0,
          PUT_OFFSET_L ((N.length + 3 : Nat) : Int),
          PUT_OFFSET_R ((N.length + 3 : Nat) : Int)] ++ N ++ [END, 0, 0]
        Code_Emit_Ptr := Ptr.prog (N.length + 12)
        Is_Case_Insensitive := p2.Is_Case_Insensitive
        Match_Newline := p2.Match_Newline } : ParseContext) = c2 at hpass2
  rw [← hsize1] at hp2
  rw [← hp2] at hpass2
  rw [← hp1] at hpass1
  obtain ⟨re, hre, hprog⟩ := CompileRE_of_passes S 0 c1 c2 hpass1 (by rw [hsize1, hM]; exact hsmall)
    hpass2
  refine ⟨re, hre, ?_⟩
  rw [hprog, ← hc2, ← hcB2]
  simp only [b8, b9]
  simp [pieceProgram, MAGIC, BRANCH]

theorem insertNode_shape (op min max : Nat) (x : Nat) :
    ∃ N, insertNode op min max 0 ++ [EXACTLY, 0, 0, x % 256, 0] = (op % 256) :: 0 :: 0 :: N ∧
      N.length + 3 = (insertNode op min max 0).length + 5 := by
  unfold insertNode
  split_ifs
  · exact ⟨_, rfl, rfl⟩
  · exact ⟨_, rfl, rfl⟩
  · exact ⟨_, rfl, rfl⟩

theorem quantifierNode_lt (op : Nat) (lz : Bool) :
    quantifierNode op lz % 256 = quantifierNode op lz ∧ quantifierNode op lz ≠ BACK := by
  unfold quantifierNode
  cases lz <;> split_ifs <;> decide

theorem code_shape (code : List Nat) (x : Nat)
    (h : code = [] ∨ ∃ op lz min max, code = insertNode (quantifierNode op lz) min max 0) :
    ∃ n0 N, code ++ [EXACTLY, 0, 0, x % 256, 0] = n0 :: 0 :: 0 :: N ∧ n0 ≠ BACK ∧
      N.length + 3 = code.length + 5 ∧ quantifiedProgram code x = pieceProgram n0 N := by
  rcases h with rfl | ⟨op, lz, min, max, rfl⟩
  · exact ⟨EXACTLY, [x % 256, 0], rfl, by decide, rfl, rfl⟩
  · obtain ⟨N, hN, hl⟩ := insertNode_shape (quantifierNode op lz) min max x
    refine ⟨quantifierNode op lz % 256, N, hN, ?_, hl, ?_⟩
    · rw [(quantifierNode_lt op lz).1]; exact (quantifierNode_lt op lz).2
    · unfold quantifiedProgram
      rw [hN]

theorem braceCode_shape (min max : Nat) (lz : Bool) :
    braceCode min max lz = [] ∨
      ∃ op lz' mn mx, braceCode min max lz = insertNode (quantifierNode op lz') mn mx 0 := by
  unfold braceCode
  split_ifs
  · exact Or.inl rfl
  · exact Or.inr ⟨_, _, _, _, rfl⟩

set_option maxHeartbeats 4000000 in
/-- The constructor on an ordinary character `x` followed by `*`, `+` or `?`, with or
without the lazy suffix. -/
theorem CompileRE_char_simple (x q : Nat) (lz : Bool) (hx : isOrdinaryChar x)
    (hq : q = 42 ∨ q = 43 ∨ q = 63) :
    ∃ re, CompileRE (x :: q :: (if lz then [63] else [])) 0 = Except.ok re ∧
      re.program = quantifiedProgram (insertNode (quantifierNode q lz) 0 0 0) x := by
  have hx' := ordinaryChar_ne hx
  obtain ⟨n0, N, hN, hn0, hl, hqp⟩ := code_shape (insertNode (quantifierNode q lz) 0 0 0) x
    (Or.inr ⟨_, _, _, _, rfl⟩)
  have hlen7 : (insertNode (quantifierNode q lz) 0 0 0).length ≤ 7 := by
    rw [insertNode_length]; split_ifs <;> decide
  have hSl : (x :: q :: ((if lz then [63] else []) ++ [])).length = 2 + (if lz then 1 else 0) := by
    cases lz <;> rfl
  have hr : ([] : List Nat).headD 0 ≠ 42 ∧ ([] : List Nat).headD 0 ≠ 43 ∧
      ([] : List Nat).headD 0 ≠ 63 ∧ ([] : List Nat).headD 0 ≠ 123 := by decide
  have := CompileRE_single_piece (x :: q :: ((if lz then [63] else []) ++ [])) n0 N (by simp)
    (by simp; omega) (by simp; omega)
    (by
      intro ctx hah hM hB _ _ hP
      obtain ⟨fl, rg, h⟩ := piece_char_simple_sizing (chunk _) ctx x q lz [] hx hq hah hr hM hB hP
      refine ⟨fl, rg, ?_⟩
      rw [h, hSl, hl]
      congr 2
      simp only [ParseContext.mk.injEq, and_true, true_and]
      omega)
    (by
      intro ctx A Z hah hM hB _ hCI hP hprog hZ
      obtain ⟨fl, rg, h⟩ := piece_char_simple_emitting (chunk _) ctx x q lz [] A Z hx hq hah hr
        hM hB hCI hP hprog (by omega)
      refine ⟨fl, rg, ?_⟩
      rw [h, hSl, hl, ← hN]
      congr 2
      simp only [ParseContext.mk.injEq, and_true, true_and, List.append_assoc]
      refine ⟨by omega, ?_, by congr 1; omega⟩
      rw [Nat.add_comm 5])
    hn0 (by have : MAX_COMPILED_SIZE = 32767 := rfl; omega)
  simp only [List.append_nil] at this
  rw [hqp]
  exact this

set_option maxHeartbeats 4000000 in
/-- The constructor on an ordinary character `x` followed by a counted range that
`pieceBrace` reads as `{min,max}`, with or without the lazy suffix. -/
theorem CompileRE_char_brace (x : Nat) (spec : List Nat) (min max : Nat) (lz : Bool)
    (hx : isOrdinaryChar x)
    (hspec : ∀ c : ParseContext, c.ahead = spec ++ 125 :: ((if lz then [63] else []) ++ []) →
      pieceBrace c = Except.ok ((min, max), { c with Reg_Parse := c.Reg_Parse + spec.length })) :
    ∃ re, CompileRE (x :: 123 :: (spec ++ 125 :: (if lz then [63] else []))) 0 = Except.ok re ∧
      re.program = quantifiedProgram (braceCode min max lz) x := by
  have hx' := ordinaryChar_ne hx
  obtain ⟨n0, N, hN, hn0, hl, hqp⟩ := code_shape (braceCode min max lz) x
    (braceCode_shape min max lz)
  have hlen7 := braceCode_length_le min max lz
  have hSl : (x :: 123 :: (spec ++ 125 :: ((if lz then [63] else []) ++ []))).length
      = 3 + spec.length + (if lz then 1 else 0) := by
    cases lz <;> simp <;> omega
  have hr : ([] : List Nat).headD 0 ≠ 42 ∧ ([] : List Nat).headD 0 ≠ 43 ∧
      ([] : List Nat).headD 0 ≠ 63 ∧ ([] : List Nat).headD 0 ≠ 123 := by decide
  have := CompileRE_single_piece (x :: 123 :: (spec ++ 125 :: ((if lz then [63] else []) ++ [])))
    n0 N (by simp) (by simp; omega) (by simp; omega)
    (by
      intro ctx hah hM hB hNB _ hP
      obtain ⟨fl, rg, h⟩ := piece_char_brace_sizing (chunk _) ctx x spec min max lz [] hx hah hr
        hM hB hP (by rw [hNB]; decide) hspec
      refine ⟨fl, rg, ?_⟩
      rw [h, hSl, hl]
      congr 2
      simp only [ParseContext.mk.injEq, and_true, true_and]
      omega)
    (by
      intro ctx A Z hah hM hB hNB hCI hP hprog hZ
      obtain ⟨fl, rg, h⟩ := piece_char_brace_emitting (chunk _) ctx x spec min max lz [] A Z hx
        hah hr hM hB hCI hP hprog (by omega) (by rw [hNB]; decide) hspec
      refine ⟨fl, rg, ?_⟩
      rw [h, hSl, hl, ← hN]
      congr 2
      simp only [ParseContext.mk.injEq, and_true, true_and, List.append_assoc]
      refine ⟨by omega, ?_, by congr 1; omega⟩
      rw [Nat.add_comm 5])
    hn0 (by have : MAX_COMPILED_SIZE = 32767 := rfl; omega)
  simp only [List.append_nil] at this
  rw [hqp]
  exact this

/-! ## The cap on the operands of a counted range -/

/-- The digit loop of `piece` on a run of digits whose value exceeds 65535: the error is
the one of the operand that is being read. -/
theorem braceDigits_overflow_error (i min0 : Nat) (ds : List Nat) :
    ∀ (fuel v dp : Nat) (ctx : ParseContext) (rest : List Nat),
      (∀ d ∈ ds, isdigit d = true) → ctx.ahead = ds ++ rest →
      safe_ctype isdigit (rest.headD 0) = false → ds.length < fuel → v ≤ 65535 →
      65535 < digitsValue v ds →
      ∃ w c, braceDigits i min0 fuel v dp ctx
        = Except.error (if i = 0 then RegexError.minOperandTooBig w c
            else RegexError.maxOperandTooBig min0 w c) := by
  induction ds with
  | nil =>
    intro fuel v dp ctx rest _ hah hnd hf hv0 h
    simp only [digitsValue, List.foldl_nil] at h
    omega
  | cons d ds ih =>
    intro fuel v dp ctx rest hds hah hnd hf hv0 h
    obtain ⟨f, rfl⟩ : ∃ f, fuel = f + 1 := ⟨fuel - 1, by simp at hf; omega⟩
    have hd : isdigit d = true := hds d (List.mem_cons_self _ _)
    have hd' : 48 ≤ d ∧ d ≤ 57 := by simpa [isdigit] using hd
    have hpk : ctx.peek = d := by rw [peek_eq_ahead, hah]; rfl
    have hsd : safe_ctype isdigit d = true := by
      rw [safe_ctype_of_lt isdigit (by omega)]; exact hd
    have hah' : ({ ctx with Reg_Parse := ctx.Reg_Parse + 1 } : ParseContext).ahead = ds ++ rest :=
      ahead_advance ctx d (ds ++ rest) hah
    have hstep : digitsValue v (d :: ds) = digitsValue (v * 10 + (d - 48)) ds := rfl
    rw [braceDigits]
    simp only [comp_bind, comp_get, hpk, hsd, if_true]
    by_cases hv : (v = 6553 ∧ d - 48 ≤ 5) ∨ v ≤ 6552
    · simp only [hv, if_true, comp_bind, comp_advance]
      exact ih f (v * 10 + (d - 48)) (dp + 1) { ctx with Reg_Parse := ctx.Reg_Parse + 1 } rest
        (fun x hx => hds x (List.mem_cons_of_mem _ hx)) hah' hnd (by simpa using hf) (by omega)
        (by rw [← hstep]; exact h)
    · simp only [hv, if_false]
      by_cases hi : i = 0
      · exact ⟨v, d, by simp [hi, comp_raise]⟩
      · exact ⟨v, d, by simp [hi, comp_raise]⟩

/-- The two bytes that `PUT_OFFSET_L` and `PUT_OFFSET_R` make of a value below 65536. -/
theorem put_offset_bytes (n : Nat) (h : n ≤ 65535) :
    ((n : Int) / 256 % 256).toNat % 256 = n / 256 ∧ ((n : Int) % 256).toNat % 256 = n % 256 := by
  have h1 : ((n : Int) / 256 % 256) = ((n / 256 % 256 : Nat) : Int) := by push_cast; rfl
  have h2 : ((n : Int) % 256) = ((n % 256 : Nat) : Int) := by push_cast; rfl
  rw [h1, h2, Int.toNat_ofNat, Int.toNat_ofNat]
  omega

/-- The constructor on an ordinary character followed by a counted range that `pieceBrace`
rejects: the error of `pieceBrace` is the error of the constructor. -/
theorem CompileRE_char_brace_error (x : Nat) (tl : List Nat) (K : RegexError → Prop)
    (hx : isOrdinaryChar x)
    (hspec : ∀ c : ParseContext, c.ahead = tl → ∃ e, pieceBrace c = Except.error e ∧ K e) :
    ∃ e, CompileRE (x :: 123 :: tl) 0 = Except.error e ∧ K e := by
  generalize hS : x :: 123 :: tl = S
  suffices h : ∃ e, alternativeLoop (chunk S.length) (S.length + 1) Ptr.null WORST
      { lower := 0, upper := 0 } (sizingStart S) = Except.error e ∧ K e by
    obtain ⟨e, he, hk⟩ := h
    exact ⟨e, compile_error_of_first_piece S e he, hk⟩
  obtain ⟨f0, f1, fM, fB, fP, fCI, fE, fN⟩ := sizingStart_fields S
  generalize sizingStart S = ctx0 at *
  have hah : ctx0.ahead = x :: 123 :: tl := by
    simp only [ParseContext.ahead, f0, f1, List.drop_zero, hS]
  have hSlen : 2 ≤ S.length := by
    rw [← hS]; simp only [List.length_cons]; omega
  have hxv := ordinaryChar_ne hx
  have hpk : ctx0.peek = x := by rw [peek_eq_ahead, hah]; rfl
  have hend : ctx0.atEnd = false := by
    simp only [ParseContext.atEnd, f0, f1, decide_eq_false_iff_not]; omega
  have hp1 : ctx0.peek ≠ 124 := by rw [hpk]; omega
  have hp2 : ctx0.peek ≠ 41 := by rw [hpk]; omega
  have hatom := atom_single_sizing (chunk S.length) ctx0 x 123 tl hx (by omega) hah fM fCI fP
  have hah1 := ahead_advance ctx0 x _ hah
  generalize hc1 : ({ ctx0 with Reg_Parse := ctx0.Reg_Parse + 1, Reg_Size := ctx0.Reg_Size + 5 } :
    ParseContext) = ctx1 at hatom
  have hah1' : ctx1.ahead = 123 :: tl := by
    rw [← hc1]; exact hah1
  have hB1 : ctx1.Brace_Char = 123 := by rw [← hc1]; exact fB
  obtain ⟨e, he, hk⟩ := hspec { ctx1 with Reg_Parse := ctx1.Reg_Parse + 1 }
    (ahead_advance ctx1 123 tl hah1')
  refine ⟨e, ?_, hk⟩
  exact alternativeLoop_piece_error _ _ _ _ _ ctx0 _ hp1 hp2 hend
    (piece_brace_error _ ctx0 ctx1 _ _ _ tl e hatom (by simp [Compute_Size]) hB1 hah1' he)

/-- C24: the bound cap of a counted range. A string of decimal digits `dm` (leading zeros
allowed) that the digit loop of `piece` reads as operand `i` of a range (0 for the min, 1
for the max) is accepted if its decimal value is at most 65535, the value read being the
decimal value, and raises the error of that operand otherwise. At the level of the
constructor, for an ordinary character `x`: `x{dm,dn}` is rejected with the min-operand
error if the value of `dm` is above 65535, with the max-operand error if that of `dn` is,
and for values `m ≤ n`, `2 ≤ n ≤ 65535` it compiles to a program whose `BRACE` node holds
the two decimal values in two bytes each. -/
theorem brace_operand_cap (x : Nat) (dm dn : List Nat) (hx : isOrdinaryChar x)
    (hdm : ∀ d ∈ dm, isdigit d = true) (hdn : ∀ d ∈ dn, isdigit d = true) :
    (∀ (i min0 : Nat) (ctx : ParseContext) (rest : List Nat), ctx.ahead = dm ++ rest →
        safe_ctype isdigit (rest.headD 0) = false →
        (numeralValue dm ≤ 65535 →
          braceDigits i min0 (ctx.InputString.length + 1) 0 0 ctx
            = Except.ok ((numeralValue dm, dm.length),
                { ctx with Reg_Parse := ctx.Reg_Parse + dm.length })) ∧
        (65535 < numeralValue dm → ∃ w c,
          braceDigits i min0 (ctx.InputString.length + 1) 0 0 ctx
            = Except.error (if i = 0 then RegexError.minOperandTooBig w c
                else RegexError.maxOperandTooBig min0 w c))) ∧
    (65535 < numeralValue dm → ∃ w c,
      CompileRE (x :: 123 :: (dm ++ 44 :: (dn ++ [125]))) 0
        = Except.error (RegexError.minOperandTooBig w c)) ∧
    (numeralValue dm ≤ 65535 → 65535 < numeralValue dn → ∃ w c,
      CompileRE (x :: 123 :: (dm ++ 44 :: (dn ++ [125]))) 0
        = Except.error (RegexError.maxOperandTooBig (numeralValue dm) w c)) ∧
    (numeralValue dm ≤ numeralValue dn → 2 ≤ numeralValue dn → numeralValue dn ≤ 65535 →
      ∃ re, CompileRE (x :: 123 :: (dm ++ 44 :: (dn ++ [125]))) 0 = Except.ok re ∧
        re.program = [MAGIC, 0, 0, BRANCH, 0, 15, BRACE, 0, 12,
          numeralValue dm / 256, numeralValue dm % 256,
          numeralValue dn / 256, numeralValue dn % 256, EXACTLY, 0, 0, x % 256, 0,
          END, 0, 0]) := by
  have hnd1 : safe_ctype isdigit ((44 :: (dn ++ [125])).headD 0) = false := by
    show safe_ctype isdigit 44 = false; decide
  have hnd2 : safe_ctype isdigit (([125] : List Nat).headD 0) = false := by
    show safe_ctype isdigit 125 = false; decide
  refine ⟨?_, ?_, ?_, ?_⟩
  · intro i min0 ctx rest hah hnd
    have hlen := ahead_length_le ctx
    rw [hah] at hlen
    simp only [List.length_append] at hlen
    constructor
    · intro hm
      have := (braceDigits_spec i min0 dm (ctx.InputString.length + 1) 0 0 ctx rest hdm hah hnd
        (by omega) (by omega)).1 hm
      simpa [numeralValue] using this
    · intro hm
      exact braceDigits_overflow_error i min0 dm (ctx.InputString.length + 1) 0 0 ctx rest hdm
        hah hnd (by omega) (by omega) hm
  · intro hm
    obtain ⟨e, he, w, c, rfl⟩ := CompileRE_char_brace_error x (dm ++ 44 :: (dn ++ [125]))
      (fun e => ∃ w c, e = RegexError.minOperandTooBig w c) hx (by
        intro ctx hah
        have hlen := ahead_length_le ctx
        rw [hah] at hlen
        simp only [List.length_append, List.length_cons] at hlen
        obtain ⟨w, c, h⟩ := braceDigits_overflow_error 0 0 dm (ctx.InputString.length + 1) 0 0
          ctx _ hdm hah hnd1 (by omega) (by omega) hm
        refine ⟨_, ?_, w, c, rfl⟩
        unfold pieceBrace
        simp only [comp_bind, comp_get, REG_ZERO, h, if_true])
    exact ⟨w, c, he⟩
  · intro hm hn
    obtain ⟨e, he, w, c, rfl⟩ := CompileRE_char_brace_error x (dm ++ 44 :: (dn ++ [125]))
      (fun e => ∃ w c, e = RegexError.maxOperandTooBig (numeralValue dm) w c) hx (by
        intro ctx hah
        have hlen := ahead_length_le ctx
        rw [hah] at hlen
        simp only [List.length_append, List.length_cons] at hlen
        have h1 := (braceDigits_spec 0 0 dm (ctx.InputString.length + 1) 0 0 ctx
          (44 :: (dn ++ [125])) hdm hah hnd1 (by omega) (by omega)).1 hm
        have ha1 := ahead_advance_append ctx dm _ hah
        have hp1 : ({ ctx with Reg_Parse := ctx.Reg_Parse + dm.length } : ParseContext).peek
            = 44 := by rw [peek_eq_ahead, ha1]; rfl
        have ha2 := ahead_advance { ctx with Reg_Parse := ctx.Reg_Parse + dm.length } 44 _ ha1
        obtain ⟨w, c, h⟩ := braceDigits_overflow_error 1 (numeralValue dm) dn
          (ctx.InputString.length + 1) 0 0
          { ctx with Reg_Parse := ctx.Reg_Parse + dm.length + 1 }
          [125] hdn ha2 hnd2 (by omega) (by omega) hn
        refine ⟨_, ?_, w, c, rfl⟩
        simp only [Nat.zero_add] at h1
        unfold pieceBrace
        simp only [comp_bind, comp_get, REG_ZERO, REG_INFINITY, h1, hp1, if_true, comp_advance]
        erw [h]
        simp)
    exact ⟨w, c, he⟩
  · intro hmn h2 hn
    obtain ⟨re, hre, hp⟩ := CompileRE_char_brace x (dm ++ 44 :: dn) (numeralValue dm)
      (numeralValue dn) false hx (by
        intro c hah
        have hah' : c.ahead = dm ++ 44 :: (dn ++ 125 :: []) := by
          rw [hah]; simp
        rw [pieceBrace_comma c dm dn [] hdm hdn hah' (by omega) hn]
        have e1 : ¬ (numeralValue dn = 0) := by omega
        have e2 : ¬ (numeralValue dm > numeralValue dn) := by omega
        simp only [e1, e2, and_false, false_and, if_false, ne_eq, not_false_eq_true, true_and]
        congr 2
        simp only [List.length_append, List.length_cons, ParseContext.mk.injEq, and_true]
        omega)
    refine ⟨re, by simpa using hre, ?_⟩
    rw [hp]
    have hb : braceOp (numeralValue dm) (numeralValue dn) = 123 := by
      unfold braceOp
      have e1 : ¬ (numeralValue dn = 0) := by omega
      have e2 : ¬ (numeralValue dn = 1) := by omega
      simp [e1, e2]
    have e3 : ¬ (numeralValue dm = 1 ∧ numeralValue dn = 1) := by omega
    have hm : numeralValue dm ≤ 65535 := by omega
    simp only [quantifiedProgram, braceCode, e3, if_false, hb, quantifierNode, insertNode,
      pieceProgram, BRACE, LAZY_BRACE, INIT_COUNT, PUT_OFFSET_L, PUT_OFFSET_R, MAGIC, BRANCH,
      EXACTLY, END]
    simp
    exact ⟨(put_offset_bytes _ hm).1, (put_offset_bytes _ hm).2, (put_offset_bytes _ hn).1,
      (put_offset_bytes _ hn).2⟩

/-- C24 at `a{007,65535}`, `a{65536,7}` and `a{7,0065536}`. -/
theorem brace_operand_cap_witness :
    (∃ re, CompileRE (strBytes "a\x7b007,65535\x7d") 0 = Except.ok re ∧
      re.program = [MAGIC, 0, 0, BRANCH, 0, 15, BRACE, 0, 12, 0, 7, 255, 255, EXACTLY, 0, 0, 97,
        0, END, 0, 0]) ∧
    (∃ w c, CompileRE (strBytes "a\x7b65536,7\x7d") 0
      = Except.error (RegexError.minOperandTooBig w c)) ∧
    (∃ w c, CompileRE (strBytes "a\x7b7,0065536\x7d") 0
      = Except.error (RegexError.maxOperandTooBig 7 w c)) :=
  ⟨(brace_operand_cap 97 (strBytes "007") (strBytes "65535") (by decide) (by decide)
      (by decide)).2.2.2 (by decide) (by decide) (by decide),
    (brace_operand_cap 97 (strBytes "65536") (strBytes "7") (by decide) (by decide)
      (by decide)).2.1 (by decide),
    (brace_operand_cap 97 (strBytes "7") (strBytes "0065536") (by decide) (by decide)
      (by decide)).2.2.1 (by decide) (by decide)⟩

/-! ## Computations that do not touch the pattern text -/

theorem inputFree_pure {α : Type} (a : α) : InputFree (pure a : Comp α) := by
  intro I R ctx; rfl

theorem inputFree_raise {α : Type} (e : RegexError) : InputFree (raise e : Comp α) := by
  intro I R ctx; rfl

theorem inputFree_bind {α β : Type} (m : Comp α) (f : α → Comp β) (hm : InputFree m)
    (hf : ∀ a, InputFree (f a)) : InputFree (m >>= f) := by
  intro I R ctx
  simp only [comp_bind]
  rw [hm I R ctx]
  rcases m ctx with e | ⟨a, c⟩
  · rfl
  · exact hf a I R c

theorem inputFree_get_braces {β : Type} (f : ParseContext → Comp β)
    (hf : ∀ c : ParseContext, ∃ g : Nat → Comp β, InputFree (g c.Num_Braces) ∧
      ∀ I R, f (reInput I R c) = g c.Num_Braces ∧ f c = g c.Num_Braces) :
    InputFree (get >>= f) := by
  intro I R ctx
  simp only [comp_bind, comp_get]
  obtain ⟨g, hg, h⟩ := hf ctx
  rw [(h I R).1, (h I R).2]
  exact hg I R ctx

theorem inputFree_ite {α : Type} (c : Prop) [Decidable c] (a b : Comp α) (ha : InputFree a)
    (hb : InputFree b) : InputFree (if c then a else b) := by
  split_ifs
  · exact ha
  · exact hb

theorem inputFree_emit_node (op : Nat) : InputFree (emit_node op) := by
  intro I R ctx
  unfold emit_node
  simp only [reInput]
  split_ifs <;> rfl

theorem inputFree_emit_special (op t i : Nat) : InputFree (emit_special op t i) := by
  intro I R ctx
  unfold emit_special emit_node
  simp only [reInput]
  split_ifs <;> rfl

theorem inputFree_insert (op : Nat) (pos : Ptr) (min max index : Nat) :
    InputFree (insert op pos min max index) := by
  intro I R ctx
  unfold insert
  simp only [reInput]
  split_ifs <;> rfl

theorem inputFree_tail (s t : Ptr) : InputFree (tail s t) := by
  intro I R ctx
  unfold tail
  simp only [reInput]
  split_ifs
  · rfl
  · rcases tailScan (ctx.program.length + 1) ctx.program s with _ | scan <;> rfl

theorem inputFree_offset_tail (p : Ptr) (o : Int) (v : Ptr) : InputFree (offset_tail p o v) := by
  unfold offset_tail
  split_ifs
  · exact inputFree_pure _
  · exact inputFree_tail _ _

theorem inputFree_modify_braces :
    InputFree (modify fun ctx => { ctx with Num_Braces := ctx.Num_Braces + 1 } :
      Comp PUnit) := by
  intro I R ctx; rfl

theorem inputFree_get {β : Type} (f : ParseContext → Comp β) (h1 : ∀ c, InputFree (f c))
    (h2 : ∀ I R c, f (reInput I R c) = f c) : InputFree (get >>= f) := by
  intro I R ctx
  simp only [comp_bind, comp_get]
  rw [h2]
  exact h1 ctx I R ctx

set_option maxHeartbeats 4000000 in
set_option maxRecDepth 4000 in
/-- The code generation of `piece` neither reads nor changes the pattern text and the parse
position. -/
theorem inputFree_pieceEmit (op : Nat) (simple lz : Bool) (min max : Nat) (ret : Ptr) :
    InputFree (pieceEmit op simple lz min max ret) := by
  unfold pieceEmit
  repeat' first
    | exact inputFree_pure _
    | exact inputFree_raise _
    | exact inputFree_emit_node _
    | exact inputFree_emit_special _ _ _
    | exact inputFree_insert _ _ _ _ _
    | exact inputFree_tail _ _
    | exact inputFree_offset_tail _ _ _
    | exact inputFree_modify_braces
    | apply inputFree_ite
    | apply inputFree_get
    | apply inputFree_bind
    | intro _
    | rfl

theorem reInput_self (c : ParseContext) : reInput c.InputString c.Reg_Parse c = c := rfl

/-- A computation that neither reads nor changes the text and the position leaves them as
they are. -/
theorem inputFree_keeps {α : Type} (m : Comp α) (hm : InputFree m) (c c1 : ParseContext) (a : α)
    (h : m c = Except.ok (a, c1)) :
    c1.InputString = c.InputString ∧ c1.Reg_Parse = c.Reg_Parse := by
  have := hm c.InputString c.Reg_Parse c
  rw [reInput_self, h] at this
  simp only [Except.map, Except.ok.injEq, Prod.mk.injEq, true_and] at this
  constructor
  · rw [this]; rfl
  · rw [this]; rfl

theorem braceOp_inv (min max q : Nat) (h : braceOp min max = q) (hq : q = 42 ∨ q = 43 ∨ q = 63) :
    (q = 42 ∧ min = 0 ∧ max = 0) ∨ (q = 43 ∧ min = 1 ∧ max = 0) ∨
      (q = 63 ∧ min = 0 ∧ max = 1) := by
  unfold braceOp at h
  split_ifs at h <;> omega

theorem peek_reInput (I : List Nat) (R : Nat) (c : ParseContext) :
    (reInput I R c).peek = I.getD R 0 := rfl

theorem isQuantifier_reInput (I : List Nat) (R : Nat) (c : ParseContext) (x : Nat) :
    IS_QUANTIFIER (reInput I R c) x = IS_QUANTIFIER c x := rfl

theorem getD_of_ahead (ctx : ParseContext) (l : List Nat) (h : ctx.ahead = l) :
    ctx.InputString.getD ctx.Reg_Parse 0 = l.headD 0 := by
  have := peek_eq_ahead ctx
  rw [h] at this
  exact this

/-- The end of `piece`, from the code generation on, run on a context with another text and
position that continues with the same character. -/
theorem pieceEnd_reInput (I : List Nat) (R : Nat) (c3 : ParseContext) (ret : Ptr)
    (h : I.getD R 0 = c3.InputString.getD c3.Reg_Parse 0)
    (o : Nat) (s l : Bool) (a b : Nat) (flag : Nat) (rg : len_range) :
    (match pieceEmit o s l a b ret (reInput I R c3) with
      | Except.error e => Except.error e
      | Except.ok (_, ctx4) =>
        if IS_QUANTIFIER ctx4 ctx4.peek = true then
          (Except.error (RegexError.nested o ctx4.peek) : Except RegexError (Ret × ParseContext))
        else Except.ok ((ret, flag, rg), ctx4))
    = (match pieceEmit o s l a b ret c3 with
      | Except.error e => Except.error e
      | Except.ok (_, ctx4) =>
        if IS_QUANTIFIER ctx4 ctx4.peek = true then
          (Except.error (RegexError.nested o ctx4.peek) : Except RegexError (Ret × ParseContext))
        else Except.ok ((ret, flag, rg), ctx4)).map (fun r : Ret × ParseContext =>
          (r.1, reInput I R r.2)) := by
  rw [inputFree_pieceEmit o s l a b ret I R c3]
  rcases hem : pieceEmit o s l a b ret c3 with e | ⟨u, c4⟩
  · rfl
  · obtain ⟨k1, k2⟩ := inputFree_keeps _ (inputFree_pieceEmit o s l a b ret) c3 c4 u hem
    have hp4 : c4.peek = c3.InputString.getD c3.Reg_Parse 0 := by
      show c4.InputString.getD (c4.Reg_Parse + 0) 0 = _
      rw [k1, k2]; rfl
    simp only [Except.map, peek_reInput, isQuantifier_reInput, hp4, h]
    split_ifs <;> rfl

set_option maxHeartbeats 4000000 in
/-- The function `piece` on an atom followed by a counted range that stands for `*`, `+` or
`?`, and on the same atom followed by that quantifier: the same value, and the same context
up to the pattern text and the parse position. -/
theorem piece_collapse (chunkA chunkB : Nat → Comp Ret) (ctxA ctxB cA cB : ParseContext)
    (ret : Ptr) (flags : Nat) (range : len_range) (spec : List Nat) (q min max : Nat)
    (lz : Bool) (rest : List Nat)
    (hatomA : atom chunkA ctxA = Except.ok ((ret, flags, range), cA))
    (hatomB : atom chunkB ctxB = Except.ok ((ret, flags, range), cB))
    (hret : ret ≠ Ptr.null) (hBr : cA.Brace_Char = 123)
    (hsame : cB = reInput cB.InputString cB.Reg_Parse cA)
    (hahA : cA.ahead = 123 :: (spec ++ 125 :: ((if lz then [63] else []) ++ rest)))
    (hahB : cB.ahead = q :: ((if lz then [63] else []) ++ rest))
    (hrest : lz = false → rest.headD 0 ≠ 63) (hw : flags &&& HAS_WIDTH ≠ 0)
    (hbrace : pieceBrace { cA with Reg_Parse := cA.Reg_Parse + 1 }
      = Except.ok ((min, max), { cA with Reg_Parse := cA.Reg_Parse + 1 + spec.length }))
    (hop : braceOp min max = q) (hq : q = 42 ∨ q = 43 ∨ q = 63) :
    piece chunkB ctxB = (piece chunkA ctxA).map (fun r =>
      (r.1, reInput cB.InputString (cB.Reg_Parse + 1 + (if lz then 1 else 0)) r.2)) := by
  have hinv := braceOp_inv min max q hop hq
  -- the text behind the two quantifiers
  have hA1 := ahead_advance cA 123 _ hahA
  have hA2 := ahead_advance_append { cA with Reg_Parse := cA.Reg_Parse + 1 } spec _ hA1
  have hA3 := ahead_advance { cA with Reg_Parse := cA.Reg_Parse + 1 + spec.length } 125 _ hA2
  have hB1 := ahead_advance cB q _ hahB
  cases lz
  · -- no lazy suffix
    simp only [Bool.false_eq_true, if_false, List.nil_append, Nat.add_zero] at hA3 hB1 hahA hahB ⊢
    have hr := hrest rfl
    have hlA : ({ cA with Reg_Parse := cA.Reg_Parse + 1 + spec.length + 1 } : ParseContext).peek
        ≠ 63 := by rw [peek_eq_ahead, hA3]; exact hr
    have hlB : ({ cB with Reg_Parse := cB.Reg_Parse + 1 } : ParseContext).peek ≠ 63 := by
      rw [peek_eq_ahead, hB1]; exact hr
    rw [piece_brace_ok chunkA ctxA cA _ ret flags range _ min max hatomA hret hBr hahA hbrace hlA,
      piece_simple_quant chunkB ctxB cB ret flags range q rest hatomB hret hq hahB hlB]
    have h3 : ({ cB with Reg_Parse := cB.Reg_Parse + 1 } : ParseContext)
        = reInput cB.InputString (cB.Reg_Parse + 1)
            { cA with Reg_Parse := cA.Reg_Parse + 1 + spec.length + 1 } := by
      conv_lhs => rw [hsame]
      rfl
    generalize hc3 : ({ cA with Reg_Parse := cA.Reg_Parse + 1 + spec.length + 1 } :
      ParseContext) = c3 at h3 hA3
    have hpk : cB.InputString.getD (cB.Reg_Parse + 1) 0 = c3.InputString.getD c3.Reg_Parse 0 := by
      rw [getD_of_ahead _ _ hA3]; exact getD_of_ahead _ _ hB1
    simp only [h3, hw, if_false]
    rcases hinv with ⟨rfl, rfl, rfl⟩ | ⟨rfl, rfl, rfl⟩ | ⟨rfl, rfl, rfl⟩
    · simp [toLong]
      exact pieceEnd_reInput _ _ c3 ret hpk _ _ _ _ _ _ _
    · simp [toLong]
      exact pieceEnd_reInput _ _ c3 ret hpk _ _ _ _ _ _ _
    · simp [toLong]
      exact pieceEnd_reInput _ _ c3 ret hpk _ _ _ _ _ _ _
  · -- the lazy suffix
    simp only [if_true, List.singleton_append] at hA3 hB1 hahA hahB ⊢
    have hA4 := ahead_advance { cA with Reg_Parse := cA.Reg_Parse + 1 + spec.length + 1 } 63 _ hA3
    have hB2 := ahead_advance { cB with Reg_Parse := cB.Reg_Parse + 1 } 63 _ hB1
    have hlA : ({ cA with Reg_Parse := cA.Reg_Parse + 1 + spec.length + 1 } : ParseContext).peek
        = 63 := by rw [peek_eq_ahead, hA3]; rfl
    have hlB : ({ cB with Reg_Parse := cB.Reg_Parse + 1 } : ParseContext).peek = 63 := by
      rw [peek_eq_ahead, hB1]; rfl
    rw [piece_brace_lazy chunkA ctxA cA _ ret flags range _ min max hatomA hret hBr hahA hbrace hlA,
      piece_simple_lazy chunkB ctxB cB ret flags range q _ hatomB hret hq hahB hlB]
    have h3 : ({ cB with Reg_Parse := cB.Reg_Parse + 1 + 1 } : ParseContext)
        = reInput cB.InputString (cB.Reg_Parse + 1 + 1)
            { cA with Reg_Parse := cA.Reg_Parse + 1 + spec.length + 1 + 1 } := by
      conv_lhs => rw [hsame]
      rfl
    generalize hc3 : ({ cA with Reg_Parse := cA.Reg_Parse + 1 + spec.length + 1 + 1 } :
      ParseContext) = c3 at h3 hA4
    have hpk : cB.InputString.getD (cB.Reg_Parse + 1 + 1) 0
        = c3.InputString.getD c3.Reg_Parse 0 := by
      rw [getD_of_ahead _ _ hA4]; exact getD_of_ahead _ _ hB2
    simp only [h3, hw, if_false]
    rcases hinv with ⟨rfl, rfl, rfl⟩ | ⟨rfl, rfl, rfl⟩ | ⟨rfl, rfl, rfl⟩
    · simp [toLong]
      exact pieceEnd_reInput _ _ c3 ret hpk _ _ _ _ _ _ _
    · simp [toLong]
      exact pieceEnd_reInput _ _ c3 ret hpk _ _ _ _ _ _ _
    · simp [toLong]
      exact pieceEnd_reInput _ _ c3 ret hpk _ _ _ _ _ _ _

/-! ## The collapse of trivial counted ranges -/

/-- The validation of the trivial counted ranges by `pieceBrace`. -/
theorem pieceBrace_collapseForms (spec : List Nat) (q : Option Nat)
    (hf : (spec, q) ∈ collapseForms) (c : ParseContext) (rest : List Nat)
    (hah : c.ahead = spec ++ 125 :: rest) :
    pieceBrace c
      = Except.ok ((if q = some 43 ∨ q = none then 1 else 0,
          if q = some 63 ∨ q = none then 1 else 0),
        { c with Reg_Parse := c.Reg_Parse + spec.length }) := by
  have hd0 : ∀ d ∈ ([48] : List Nat), isdigit d = true := by decide
  have hd1 : ∀ d ∈ ([49] : List Nat), isdigit d = true := by decide
  have hdn : ∀ d ∈ ([] : List Nat), isdigit d = true := by decide
  have v0 : numeralValue [48] = 0 := by decide
  have v1 : numeralValue [49] = 1 := by decide
  have vn : numeralValue [] = 0 := by decide
  simp only [collapseForms, List.mem_cons, Prod.mk.injEq, List.mem_singleton, List.not_mem_nil,
    or_false] at hf
  rcases hf with h | h | h | h | h | h | h | h
  · obtain ⟨rfl, rfl⟩ := h
    rw [pieceBrace_comma c [48] [] rest hd0 hdn hah (by decide) (by decide)]
    simp [v0, vn, strBytes]
  · obtain ⟨rfl, rfl⟩ := h
    rw [pieceBrace_comma c [] [] rest hdn hdn hah (by decide) (by decide)]
    simp [vn, strBytes]
  · obtain ⟨rfl, rfl⟩ := h
    rw [pieceBrace_single c [] rest hdn hah (by decide)]
    simp [vn]
  · obtain ⟨rfl, rfl⟩ := h
    rw [pieceBrace_comma c [49] [] rest hd1 hdn hah (by decide) (by decide)]
    simp [v1, vn, strBytes]
  · obtain ⟨rfl, rfl⟩ := h
    rw [pieceBrace_comma c [48] [49] rest hd0 hd1 hah (by decide) (by decide)]
    simp [v0, v1, strBytes]
  · obtain ⟨rfl, rfl⟩ := h
    rw [pieceBrace_comma c [] [49] rest hdn hd1 hah (by decide) (by decide)]
    simp [vn, v1, strBytes]
  · obtain ⟨rfl, rfl⟩ := h
    rw [pieceBrace_comma c [49] [49] rest hd1 hd1 hah (by decide) (by decide)]
    simp [v1, strBytes]
  · obtain ⟨rfl, rfl⟩ := h
    rw [pieceBrace_single c [49] rest hd1 hah (by decide)]
    simp [v1, strBytes]

theorem collapseForms_quantifier (spec : List Nat) (q : Option Nat)
    (hf : (spec, q) ∈ collapseForms) :
    q = some 42 ∨ q = some 43 ∨ q = some 63 ∨ q = none := by
  have hall : ∀ f ∈ collapseForms,
      f.2 = some 42 ∨ f.2 = some 43 ∨ f.2 = some 63 ∨ f.2 = none := by decide
  exact hall (spec, q) hf

set_option maxHeartbeats 4000000 in
/-- The constructor on an ordinary character followed by one of the trivial counted
ranges, and on the character followed by the quantifier that the range stands for: both
succeed, with the same program, whose counter byte is zero. -/
theorem CompileRE_char_collapse (x : Nat) (lz : Bool) (hx : isOrdinaryChar x) (spec : List Nat)
    (q : Option Nat) (hf : (spec, q) ∈ collapseForms) :
    ∃ re1 re2, CompileRE (x :: rangeText spec lz) 0 = Except.ok re1 ∧
      CompileRE (x :: quantText q lz) 0 = Except.ok re2 ∧ re1.program = re2.program ∧
      re1.program.getD 2 0 = 0 := by
  obtain ⟨re1, h1, p1⟩ := CompileRE_char_brace x spec
    (if q = some 43 ∨ q = none then 1 else 0) (if q = some 63 ∨ q = none then 1 else 0) lz hx
    (fun c hah => pieceBrace_collapseForms spec q hf c _ hah)
  have hb2 : ∀ code, (code = [] ∨ ∃ op lz min max, code = insertNode (quantifierNode op lz) min max 0) →
      (quantifiedProgram code x).getD 2 0 = 0 := by
    intro code hc
    obtain ⟨n0, N, -, -, -, hqp⟩ := code_shape code x hc
    rw [hqp]
    rfl
  have hq := collapseForms_quantifier spec q hf
  refine ⟨re1, ?_⟩
  simp only [rangeText, lazySuffix, quantText]
  rcases hq with rfl | rfl | rfl | rfl
  · obtain ⟨re2, h2, p2⟩ := CompileRE_char_simple x 42 lz hx (by omega)
    refine ⟨re2, h1, h2, ?_, ?_⟩
    · rw [p1, p2]; rfl
    · rw [p1]; exact hb2 _ (braceCode_shape _ _ _)
  · obtain ⟨re2, h2, p2⟩ := CompileRE_char_simple x 43 lz hx (by omega)
    refine ⟨re2, h1, h2, ?_, ?_⟩
    · rw [p1, p2]
      cases lz <;> rfl
    · rw [p1]; exact hb2 _ (braceCode_shape _ _ _)
  · obtain ⟨re2, h2, p2⟩ := CompileRE_char_simple x 63 lz hx (by omega)
    refine ⟨re2, h1, h2, ?_, ?_⟩
    · rw [p1, p2]
      cases lz <;> rfl
    · rw [p1]; exact hb2 _ (braceCode_shape _ _ _)
  · have h2 := CompileRE_run x [] 0 (by
      intro y hy
      rw [List.mem_singleton.mp hy]; exact hx) (by decide)
    refine ⟨_, h1, h2, ?_, ?_⟩
    · rw [p1]
      rfl
    · rw [p1]; exact hb2 _ (braceCode_shape _ _ _)
/-- The function `piece` on an atom followed by `{1,1}` or `{1}`, and on the same atom
alone: the same value, and the same context up to the pattern text and the parse
position. -/
theorem piece_collapse_one (chunkA chunkB : Nat → Comp Ret) (ctxA ctxB cA cB : ParseContext)
    (ret : Ptr) (flags : Nat) (range : len_range) (spec : List Nat)
    (lz : Bool) (rest : List Nat)
    (hatomA : atom chunkA ctxA = Except.ok ((ret, flags, range), cA))
    (hatomB : atom chunkB ctxB = Except.ok ((ret, flags, range), cB))
    (hret : ret ≠ Ptr.null) (hBr : cA.Brace_Char = 123)
    (hsame : cB = reInput cB.InputString cB.Reg_Parse cA)
    (hahA : cA.ahead = 123 :: (spec ++ 125 :: ((if lz then [63] else []) ++ rest)))
    (hahB : cB.ahead = rest)
    (hrest : IS_QUANTIFIER cB (rest.headD 0) = false)
    (hbrace : pieceBrace { cA with Reg_Parse := cA.Reg_Parse + 1 }
      = Except.ok ((1, 1), { cA with Reg_Parse := cA.Reg_Parse + 1 + spec.length })) :
    piece chunkB ctxB = (piece chunkA ctxA).map (fun r =>
      (r.1, reInput cB.InputString cB.Reg_Parse r.2)) := by
  have hA1 := ahead_advance cA 123 _ hahA
  have hA2 := ahead_advance_append { cA with Reg_Parse := cA.Reg_Parse + 1 } spec _ hA1
  have hA3 := ahead_advance { cA with Reg_Parse := cA.Reg_Parse + 1 + spec.length } 125 _ hA2
  have hpB : cB.peek = rest.headD 0 := by rw [peek_eq_ahead, hahB]
  have hr63 : rest.headD 0 ≠ 63 := by
    intro h
    rw [h] at hrest
    simp [IS_QUANTIFIER] at hrest
  rw [piece_no_quantifier chunkB ctxB cB ret flags range hatomB hret (by rw [hpB]; exact hrest)]
  cases lz
  · simp only [Bool.false_eq_true, if_false, List.nil_append] at hA3 hahA
    have hlA : ({ cA with Reg_Parse := cA.Reg_Parse + 1 + spec.length + 1 } : ParseContext).peek
        ≠ 63 := by rw [peek_eq_ahead, hA3]; exact hr63
    rw [piece_brace_ok chunkA ctxA cA _ ret flags range _ 1 1 hatomA hret hBr hahA hbrace hlA]
    simp only [and_self, if_true, Except.map]
    conv_lhs => rw [hsame]
    rfl
  · simp only [if_true, List.singleton_append] at hA3 hahA
    have hlA : ({ cA with Reg_Parse := cA.Reg_Parse + 1 + spec.length + 1 } : ParseContext).peek
        = 63 := by rw [peek_eq_ahead, hA3]; rfl
    rw [piece_brace_lazy chunkA ctxA cA _ ret flags range _ 1 1 hatomA hret hBr hahA hbrace hlA]
    simp only [and_self, if_true, Except.map]
    conv_lhs => rw [hsame]
    rfl

set_option maxHeartbeats 4000000 in
/-- The function `piece` on an atom followed by one of the trivial counted ranges, and on
the same atom followed by the quantifier that the range stands for. -/
theorem piece_collapseForms (chunkA chunkB : Nat → Comp Ret) (ctxA ctxB cA cB : ParseContext)
    (ret : Ptr) (flags : Nat) (range : len_range) (spec : List Nat) (q : Option Nat)
    (lz : Bool) (rest : List Nat) (hf : (spec, q) ∈ collapseForms)
    (hatomA : atom chunkA ctxA = Except.ok ((ret, flags, range), cA))
    (hatomB : atom chunkB ctxB = Except.ok ((ret, flags, range), cB))
    (hret : ret ≠ Ptr.null) (hBr : cA.Brace_Char = 123)
    (hsame : cB = reInput cB.InputString cB.Reg_Parse cA)
    (hahA : cA.ahead = rangeText spec lz ++ rest)
    (hahB : cB.ahead = quantText q lz ++ rest)
    (hrest : lz = false → rest.headD 0 ≠ 63)
    (hw : q ≠ none → flags &&& HAS_WIDTH ≠ 0)
    (hnq : q = none → IS_QUANTIFIER cB (rest.headD 0) = false) :
    piece chunkB ctxB = (piece chunkA ctxA).map (fun r =>
      (r.1, reInput cB.InputString (cB.Reg_Parse + (quantText q lz).length) r.2)) := by
  have hahA' : cA.ahead = 123 :: (spec ++ 125 :: ((if lz then [63] else []) ++ rest)) := by
    rw [hahA]; simp [rangeText, lazySuffix]
  have hbrace := pieceBrace_collapseForms spec q hf { cA with Reg_Parse := cA.Reg_Parse + 1 } _
    (ahead_advance cA 123 _ hahA')
  have hlen : (quantText q lz).length
      = if q = none then 0 else 1 + (if lz then 1 else 0) := by
    rcases q with _ | k <;> cases lz <;> simp [quantText, lazySuffix]
  rw [hlen]
  rcases collapseForms_quantifier spec q hf with rfl | rfl | rfl | rfl
  · have := piece_collapse chunkA chunkB ctxA ctxB cA cB ret flags range spec 42 0 0 lz rest
      hatomA hatomB hret hBr hsame hahA' (by rw [hahB]; simp [quantText, lazySuffix]) hrest
      (hw (by simp)) (by simpa using hbrace) (by decide) (by omega)
    simpa [Nat.add_assoc] using this
  · have := piece_collapse chunkA chunkB ctxA ctxB cA cB ret flags range spec 43 1 0 lz rest
      hatomA hatomB hret hBr hsame hahA' (by rw [hahB]; simp [quantText, lazySuffix]) hrest
      (hw (by simp)) (by simpa using hbrace) (by decide) (by omega)
    simpa [Nat.add_assoc] using this
  · have := piece_collapse chunkA chunkB ctxA ctxB cA cB ret flags range spec 63 0 1 lz rest
      hatomA hatomB hret hBr hsame hahA' (by rw [hahB]; simp [quantText, lazySuffix]) hrest
      (hw (by simp)) (by simpa using hbrace) (by decide) (by omega)
    simpa [Nat.add_assoc] using this
  · have := piece_collapse_one chunkA chunkB ctxA ctxB cA cB ret flags range spec lz rest
      hatomA hatomB hret hBr hsame hahA' (by rw [hahB]; simp [quantText]) (hnq rfl)
      (by simpa using hbrace)
    simpa using this
/-- C27: the collapse of the trivial counted ranges `{0,}`, `{,}`, `{}` (for `*`), `{1,}`
(for `+`), `{0,1}`, `{,1}` (for `?`) and `{1,1}`, `{1}` (for no quantifier), with or without
the lazy suffix.  (1) For every atom: when `atom` has returned the same node, flags and
range on two patterns and left contexts that differ in the pattern text and position
only, the text continuing with the range in the one and with its quantifier in the other,
`piece` returns the same value and the same context up to the text and position on both
(the atom must have width for `*`, `+`, `?`, and must not be followed by a quantifier
where it stands alone).  (2) For every ordinary character `x` the constructor accepts
`x{...}` and `x` with the quantifier, with the same program, whose counter byte is
zero.  (3) The same holds on a class, an escape and a group. -/
theorem trivial_ranges_collapse :
    (∀ (chunkA chunkB : Nat → Comp Ret) (ctxA ctxB cA cB : ParseContext) (ret : Ptr) (flags : Nat)
        (range : len_range) (spec : List Nat) (q : Option Nat) (lz : Bool) (rest : List Nat),
      (spec, q) ∈ collapseForms →
      atom chunkA ctxA = Except.ok ((ret, flags, range), cA) →
      atom chunkB ctxB = Except.ok ((ret, flags, range), cB) →
      ret ≠ Ptr.null → cA.Brace_Char = 123 →
      cB = reInput cB.InputString cB.Reg_Parse cA →
      cA.ahead = rangeText spec lz ++ rest → cB.ahead = quantText q lz ++ rest →
      (lz = false → rest.headD 0 ≠ 63) → (q ≠ none → flags &&& HAS_WIDTH ≠ 0) →
      (q = none → IS_QUANTIFIER cB (rest.headD 0) = false) →
      piece chunkB ctxB = (piece chunkA ctxA).map (fun r =>
        (r.1, reInput cB.InputString (cB.Reg_Parse + (quantText q lz).length) r.2))) ∧
    (∀ (x : Nat) (lz : Bool) (spec : List Nat) (q : Option Nat), isOrdinaryChar x →
      (spec, q) ∈ collapseForms →
      ∃ re1 re2, CompileRE (x :: rangeText spec lz) 0 = Except.ok re1 ∧
        CompileRE (x :: quantText q lz) 0 = Except.ok re2 ∧ re1.program = re2.program ∧
        re1.program.getD 2 0 = 0) ∧
    (∀ p ∈ [(strBytes "[a-c]\x7b,\x7d", strBytes "[a-c]*"),
        (strBytes "[a-c]\x7b1,\x7d?", strBytes "[a-c]+?"),
        (strBytes "[a-c]\x7b,1\x7d", strBytes "[a-c]?"),
        (strBytes "[a-c]\x7b1\x7d", strBytes "[a-c]"),
        (strBytes "\\d\x7b\x7d?", strBytes "\\d*?"),
        (strBytes "\\d\x7b1,\x7d", strBytes "\\d+"),
        (strBytes "\\d\x7b0,1\x7d?", strBytes "\\d??"),
        (strBytes "\\d\x7b1,1\x7d?", strBytes "\\d"),
        (strBytes "(ab)\x7b0,\x7d", strBytes "(ab)*"),
        (strBytes "(ab)\x7b1,\x7d?", strBytes "(ab)+?"),
        (strBytes "(ab)\x7b0,1\x7d", strBytes "(ab)?"),
        (strBytes "(ab)\x7b1,1\x7d", strBytes "(ab)")],
      sameCompiled p.1 p.2 = true) := by
  refine ⟨?_, ?_, by decide!⟩
  · intro chunkA chunkB ctxA ctxB cA cB ret flags range spec q lz rest hf hA hB hret hBr hsame
      hahA hahB hrest hw hnq
    exact piece_collapseForms chunkA chunkB ctxA ctxB cA cB ret flags range spec q lz rest hf hA
      hB hret hBr hsame hahA hahB hrest hw hnq
  · intro x lz spec q hx hf
    exact CompileRE_char_collapse x lz hx spec q hf

/-- C27 at `a{0,}?` and `a*?`, at `a{1}` and `a`, and in the sizing pass at `a{1,}?` and
`a+?`. -/
theorem trivial_ranges_collapse_witness :
    (∃ re1 re2, CompileRE (strBytes "a\x7b0,\x7d?") 0 = Except.ok re1 ∧
      CompileRE (strBytes "a*?") 0 = Except.ok re2 ∧ re1.program = re2.program ∧
      re1.program.getD 2 0 = 0) ∧
    (∃ re1 re2, CompileRE (strBytes "a\x7b1\x7d") 0 = Except.ok re1 ∧
      CompileRE (strBytes "a") 0 = Except.ok re2 ∧ re1.program = re2.program ∧
      re1.program.getD 2 0 = 0) ∧
    piece (chunk 3) (sizingStart (strBytes "a+?"))
      = (piece (chunk 7) (sizingStart (strBytes "a\x7b1,\x7d?"))).map (fun r =>
        (r.1, reInput (strBytes "a+?") 3 r.2)) := by
  refine ⟨trivial_ranges_collapse.2.1 97 true (strBytes "0,") (some 42) (by decide) (by decide),
    trivial_ranges_collapse.2.1 97 false (strBytes "1") none (by decide) (by decide), ?_⟩
  obtain ⟨f0, f1, fM, fB, fP, fCI, fE, fN⟩ := sizingStart_fields (strBytes "a\x7b1,\x7d?")
  obtain ⟨g0, g1, gM, gB, gP, gCI, gE, gN⟩ := sizingStart_fields (strBytes "a+?")
  have hA := atom_single_sizing (chunk 7) (sizingStart (strBytes "a\x7b1,\x7d?")) 97 123
    (strBytes "1,\x7d?") (by decide) (by omega)
    (by simp only [ParseContext.ahead, f0, f1, List.drop_zero]; rfl) fM fCI fP
  have hB := atom_single_sizing (chunk 3) (sizingStart (strBytes "a+?")) 97 43
    (strBytes "?") (by decide) (by omega)
    (by simp only [ParseContext.ahead, g0, g1, List.drop_zero]; rfl) gM gCI gP
  have := trivial_ranges_collapse.1 (chunk 7) (chunk 3) _ _ _ _ _ _ _ (strBytes "1,") (some 43)
    true [] (by decide) hA hB (by simp [Compute_Size]) fB rfl
    (by simp only [ParseContext.ahead, f0, f1]; rfl)
    (by simp only [ParseContext.ahead, g0, g1]; rfl) (by simp) (by intro; decide) (by simp)
  simpa [g0, g1, quantText, lazySuffix] using this

/-! ## A quantifier on an atom without width -/

/-- The function `piece` on an atom without width that is followed by `*`, `+` or `?`. -/
theorem piece_zero_width_simple (chunk : Nat → Comp Ret) (ctx ctx1 : ParseContext) (ret : Ptr)
    (flags : Nat) (range : len_range) (q : Nat) (rest : List Nat)
    (hatom : atom chunk ctx = Except.ok ((ret, flags, range), ctx1)) (hret : ret ≠ Ptr.null)
    (hw : flags &&& HAS_WIDTH = 0)
    (hq : q = 42 ∨ q = 43 ∨ q = 63) (hah : ctx1.ahead = q :: rest) :
    piece chunk ctx = Except.error (RegexError.operandEmpty q) := by
  by_cases hl : ({ ctx1 with Reg_Parse := ctx1.Reg_Parse + 1 } : ParseContext).peek = 63
  · rw [piece_simple_lazy chunk ctx ctx1 ret flags range q rest hatom hret hq hah hl]
    simp only [hw, if_true]
  · rw [piece_simple_quant chunk ctx ctx1 ret flags range q rest hatom hret hq hah hl]
    simp only [hw, if_true]

/-- The function `piece` on an atom without width that is followed by a counted range
which `pieceBrace` accepts as `{min,max}`, other than `{1,1}`. -/
theorem piece_zero_width_brace (chunk : Nat → Comp Ret) (ctx ctx1 ctx2 : ParseContext)
    (ret : Ptr) (flags : Nat) (range : len_range) (rest : List Nat) (min max : Nat)
    (hatom : atom chunk ctx = Except.ok ((ret, flags, range), ctx1)) (hret : ret ≠ Ptr.null)
    (hw : flags &&& HAS_WIDTH = 0)
    (hB : ctx1.Brace_Char = 123) (hah : ctx1.ahead = 123 :: rest)
    (hbrace : pieceBrace { ctx1 with Reg_Parse := ctx1.Reg_Parse + 1 }
      = Except.ok ((min, max), ctx2))
    (h11 : ¬ (min = 1 ∧ max = 1)) :
    piece chunk ctx = Except.error
      (if braceOp min max = 123 ∧ ctx2.Num_Braces > UINT8_MAX then RegexError.tooManyBraces
       else RegexError.braceOperandEmpty (if braceOp min max = 43 then 1 else min)
        (if braceOp min max = 63 then 1 else max)) := by
  by_cases hl : ({ ctx2 with Reg_Parse := ctx2.Reg_Parse + 1 } : ParseContext).peek = 63
  · rw [piece_brace_lazy chunk ctx ctx1 ctx2 ret flags range rest min max hatom hret hB hah
      hbrace hl]
    simp only [h11, if_false, hw, if_true, braceOp]
    split_ifs <;> rfl
  · rw [piece_brace_ok chunk ctx ctx1 ctx2 ret flags range rest min max hatom hret hB hah
      hbrace hl]
    simp only [h11, if_false, hw, if_true, braceOp]
    split_ifs <;> rfl

/-- The function `atom` in the sizing pass on one of the anchors `^`, `$`, `<`, `>`: one
node without operand, and flags without width. -/
theorem atom_anchor_sizing (chunk : Nat → Comp Ret) (ctx : ParseContext) (x : Nat)
    (rest : List Nat) (hx : x = 94 ∨ x = 36 ∨ x = 60 ∨ x = 62)
    (hah : ctx.ahead = x :: rest) (hP : ctx.Code_Emit_Ptr = Compute_Size) :
    atom chunk ctx = Except.ok ((Compute_Size, WORST, { lower := 0, upper := 0 }),
      { ctx with Reg_Parse := ctx.Reg_Parse + 1, Reg_Size := ctx.Reg_Size + NODE_SIZE }) := by
  have hpk : ctx.peek = x := by rw [peek_eq_ahead, hah]; rfl
  have hne : ctx.peek ≠ 40 := by rw [hpk]; omega
  have hlen := length_of_ahead ctx _ hah (by simp)
  simp only [List.length_cons] at hlen
  have hend : ctx.atEnd = false := by
    simp only [ParseContext.atEnd, decide_eq_false_iff_not]; omega
  unfold atom
  simp only [comp_bind, comp_get, atomComments_none _ ctx hne, hend, Bool.false_eq_true, if_false,
    comp_pure, comp_advance, hpk]
  rcases hx with rfl | rfl | rfl | rfl <;>
    simp [comp_bind, comp_pure, emit_node, hP]

/-- The constructor on a pattern whose first piece is rejected: an anchor followed by
a quantifier. -/
theorem CompileRE_anchor_error (z : Nat) (tl : List Nat) (K : RegexError → Prop)
    (hz : z = 94 ∨ z = 36 ∨ z = 60 ∨ z = 62) (htl : tl ≠ [])
    (hpiece : ∀ (ctx ctx1 : ParseContext),
      atom (chunk (z :: tl).length) ctx
        = Except.ok ((Compute_Size, WORST, { lower := 0, upper := 0 }), ctx1) →
      ctx1.ahead = tl → ctx1.Brace_Char = 123 → ctx1.Num_Braces = 0 →
      ∃ e, piece (chunk (z :: tl).length) ctx = Except.error e ∧ K e) :
    ∃ e, CompileRE (z :: tl) 0 = Except.error e ∧ K e := by
  generalize hS : z :: tl = S at hpiece ⊢
  suffices h : ∃ e, alternativeLoop (chunk S.length) (S.length + 1) Ptr.null WORST
      { lower := 0, upper := 0 } (sizingStart S) = Except.error e ∧ K e by
    obtain ⟨e, he, hk⟩ := h
    exact ⟨e, compile_error_of_first_piece S e he, hk⟩
  obtain ⟨f0, f1, fM, fB, fP, fCI, fE, fN⟩ := sizingStart_fields S
  generalize sizingStart S = ctx0 at *
  have hah : ctx0.ahead = z :: tl := by
    simp only [ParseContext.ahead, f0, f1, List.drop_zero, hS]
  have hSlen : 2 ≤ S.length := by
    rw [← hS]
    have : 0 < tl.length := List.length_pos.mpr htl
    simp only [List.length_cons]; omega
  have hpk : ctx0.peek = z := by rw [peek_eq_ahead, hah]; rfl
  have hend : ctx0.atEnd = false := by
    simp only [ParseContext.atEnd, f0, f1, decide_eq_false_iff_not]; omega
  have hp1 : ctx0.peek ≠ 124 := by rw [hpk]; omega
  have hp2 : ctx0.peek ≠ 41 := by rw [hpk]; omega
  have hatom := atom_anchor_sizing (chunk S.length) ctx0 z tl hz hah fP
  obtain ⟨e, he, hk⟩ := hpiece ctx0 _ hatom (ahead_advance ctx0 z _ hah) fB fN
  exact ⟨e, alternativeLoop_piece_error _ _ _ _ _ ctx0 _ hp1 hp2 hend he, hk⟩
/-- C23, amended: a quantifier on an atom that is statically known to be zero-width is
rejected, unless it is the counted range `{1,1}` (or `{1}`).  (1), (2) For every atom whose
flags lack `HAS_WIDTH`, `piece` raises the empty-operand error on `*`, `+`, `?` (with or
without a lazy suffix) and on every counted range that `pieceBrace` accepts as
`{min,max}` other than `{1,1}`.  (3), (4) For the anchors `^`, `$`, `<`, `>` the
constructor rejects the anchor followed by `*`, `+`, `?`, and followed by `{dm,dn}`
unless both numerals have the value 1, whatever follows.  (5) The same on `\B`, on
look-ahead and look-behind groups and on groups that can match the empty string. -/
theorem zero_width_quantifier_rejected :
    (∀ (chunk : Nat → Comp Ret) (ctx ctx1 : ParseContext) (ret : Ptr) (flags : Nat)
        (range : len_range) (q : Nat) (rest : List Nat),
      atom chunk ctx = Except.ok ((ret, flags, range), ctx1) → ret ≠ Ptr.null →
      flags &&& HAS_WIDTH = 0 → q = 42 ∨ q = 43 ∨ q = 63 → ctx1.ahead = q :: rest →
      piece chunk ctx = Except.error (RegexError.operandEmpty q)) ∧
    (∀ (chunk : Nat → Comp Ret) (ctx ctx1 ctx2 : ParseContext) (ret : Ptr) (flags : Nat)
        (range : len_range) (rest : List Nat) (min max : Nat),
      atom chunk ctx = Except.ok ((ret, flags, range), ctx1) → ret ≠ Ptr.null →
      flags &&& HAS_WIDTH = 0 → ctx1.Brace_Char = 123 → ctx1.ahead = 123 :: rest →
      pieceBrace { ctx1 with Reg_Parse := ctx1.Reg_Parse + 1 } = Except.ok ((min, max), ctx2) →
      ¬ (min = 1 ∧ max = 1) →
      piece chunk ctx = Except.error
        (if braceOp min max = 123 ∧ ctx2.Num_Braces > UINT8_MAX then RegexError.tooManyBraces
         else RegexError.braceOperandEmpty (if braceOp min max = 43 then 1 else min)
          (if braceOp min max = 63 then 1 else max))) ∧
    (∀ (z q : Nat) (rest : List Nat), z = 94 ∨ z = 36 ∨ z = 60 ∨ z = 62 →
      q = 42 ∨ q = 43 ∨ q = 63 →
      CompileRE (z :: q :: rest) 0 = Except.error (RegexError.operandEmpty q)) ∧
    (∀ (z : Nat) (dm dn rest : List Nat), z = 94 ∨ z = 36 ∨ z = 60 ∨ z = 62 →
      (∀ d ∈ dm, isdigit d = true) → (∀ d ∈ dn, isdigit d = true) →
      ¬ (numeralValue dm = 1 ∧ numeralValue dn = 1) →
      ∃ e, CompileRE (z :: 123 :: (dm ++ 44 :: (dn ++ 125 :: rest))) 0 = Except.error e ∧
        e ≠ RegexError.fuel) ∧
    (∀ p ∈ [(strBytes "\\B*", RegexError.operandEmpty 42),
        (strBytes "\\B\x7b2,3\x7d", RegexError.braceOperandEmpty 2 3),
        (strBytes "(?=a)+", RegexError.operandEmpty 43),
        (strBytes "(?!a)?", RegexError.operandEmpty 63),
        (strBytes "(?<=a)*?", RegexError.operandEmpty 42),
        (strBytes "(?<!a)\x7b2\x7d", RegexError.braceOperandEmpty 2 2),
        (strBytes "(a*)*", RegexError.operandEmpty 42),
        (strBytes "(a|)+", RegexError.operandEmpty 43),
        (strBytes "()?", RegexError.operandEmpty 63),
        (strBytes "(?:a?)\x7b,4\x7d", RegexError.braceOperandEmpty 0 4)],
      compiled p.1 0 = Except.error p.2) := by
  refine ⟨?_, ?_, ?_, ?_, by decide!⟩
  · intro chunk ctx ctx1 ret flags range q rest hatom hret hw hq hah
    exact piece_zero_width_simple chunk ctx ctx1 ret flags range q rest hatom hret hw hq hah
  · intro chunk ctx ctx1 ctx2 ret flags range rest min max hatom hret hw hB hah hbrace h11
    exact piece_zero_width_brace chunk ctx ctx1 ctx2 ret flags range rest min max hatom hret hw
      hB hah hbrace h11
  · intro z q rest hz hq
    obtain ⟨e, he, rfl⟩ := CompileRE_anchor_error z (q :: rest)
      (fun e => e = RegexError.operandEmpty q) hz (by simp) (by
        intro ctx ctx1 hatom hah _ _
        exact ⟨_, piece_zero_width_simple _ ctx ctx1 _ _ _ q rest hatom (by simp [Compute_Size])
          (by decide) hq hah, rfl⟩)
    exact he
  · intro z dm dn rest hz hdm hdn h11
    refine CompileRE_anchor_error z (123 :: (dm ++ 44 :: (dn ++ 125 :: rest)))
      (fun e => e ≠ RegexError.fuel) hz (by simp) ?_
    intro ctx ctx1 hatom hah hB hNB
    have hcs : Compute_Size ≠ Ptr.null := by simp [Compute_Size]
    have hah2 := ahead_advance ctx1 123 _ hah
    rcases hpb : pieceBrace { ctx1 with Reg_Parse := ctx1.Reg_Parse + 1 } with e | ⟨⟨mn, mx⟩, c2⟩
    · exact ⟨e, piece_brace_error _ ctx ctx1 _ _ _ _ e hatom hcs hB hah hpb,
        pieceBrace_error_kind _ dm dn rest hdm hdn hah2 e hpb⟩
    · have hnd : safe_ctype isdigit ((44 :: (dn ++ 125 :: rest)).headD 0) = false := by
        show safe_ctype isdigit 44 = false; decide
      have hnd2 : safe_ctype isdigit ((125 :: rest).headD 0) = false := by
        show safe_ctype isdigit 125 = false; decide
      have hm : numeralValue dm ≤ 65535 := by
        by_contra hm
        obtain ⟨e, he⟩ := pieceBrace_min_overflow _ dm _ hdm hah2 hnd (by omega)
        rw [he] at hpb; simp at hpb
      have hn : numeralValue dn ≤ 65535 := by
        by_contra hn
        obtain ⟨e, he⟩ := pieceBrace_max_overflow _ dm dn _ hdm hdn hah2 hnd2 hm (by omega)
        rw [he] at hpb; simp at hpb
      have hval : mn = numeralValue dm ∧ mx = numeralValue dn := by
        rw [pieceBrace_comma _ dm dn rest hdm hdn hah2 hm hn] at hpb
        split_ifs at hpb
        simp at hpb
        exact ⟨hpb.1.1.symm, hpb.1.2.symm⟩
      refine ⟨_, piece_zero_width_brace _ ctx ctx1 c2 _ _ _ _ mn mx hatom hcs (by decide) hB hah
        hpb (by rw [hval.1, hval.2]; exact h11), ?_⟩
      split_ifs <;> simp

/-- C23 at `^*?`, at `$` followed by the range `{2,65536}`, and at `<{,3}`. -/
theorem zero_width_quantifier_rejected_witness :
    CompileRE (strBytes "^*?") 0 = Except.error (RegexError.operandEmpty 42) ∧
    (∃ e, CompileRE (strBytes "$\x7b2,65536\x7d") 0 = Except.error e ∧ e ≠ RegexError.fuel) ∧
    (∃ e, CompileRE (strBytes "<\x7b,3\x7d") 0 = Except.error e ∧ e ≠ RegexError.fuel) :=
  ⟨zero_width_quantifier_rejected.2.2.1 94 42 [63] (by decide) (by decide),
    zero_width_quantifier_rejected.2.2.2.1 36 (strBytes "2") (strBytes "65536") [] (by decide)
      (by decide) (by decide) (by decide),
    zero_width_quantifier_rejected.2.2.2.1 60 [] (strBytes "3") [] (by decide)
      (by decide) (by decide) (by decide)⟩

/-- C23, a counterexample: the counted ranges `{1,1}` and `{1}` are accepted on a zero-width
atom; `^{1,1}` compiles to the program of `^`, `$` followed by the lazy range to the
program of `$`, and the look-ahead `(?=a)` with `{1}` to the program of `(?=a)`. -/
theorem zero_width_quantifier_one_accepted :
    compiled (strBytes "^\x7b1,1\x7d") 0
        = Except.ok ([156, 0, 0, 34, 0, 6, 2, 0, 3, 1, 0, 0], 0, 1) ∧
      compiled (strBytes "^") 0 = Except.ok ([156, 0, 0, 34, 0, 6, 2, 0, 3, 1, 0, 0], 0, 1) ∧
      compiled (strBytes "$\x7b1\x7d?") 0
        = Except.ok ([156, 0, 0, 34, 0, 6, 3, 0, 3, 1, 0, 0], 0, 0) ∧
      compiled (strBytes "(?=a)\x7b1\x7d") 0 = compiled (strBytes "(?=a)") 0 ∧
      compiled (strBytes "(?=a)") 0
        = Except.ok ([156, 0, 0, 34, 0, 17, 43, 0, 3, 34, 0, 8, 7, 0, 5, 97, 0, 45, 0, 3, 1, 0,
            0], 0, 0) := by
  decide!

/-! ## A run of literal characters in front of a quantifier -/

theorem isQuantifier_ordinary (c : ParseContext) (x : Nat) (hx : isOrdinaryChar x)
    (hB : c.Brace_Char = 123) : IS_QUANTIFIER c x = false := by
  have := ordinaryChar_ne hx
  simp only [IS_QUANTIFIER, hB, Bool.or_eq_false_iff, decide_eq_false_iff_not]
  omega

set_option maxHeartbeats 4000000 in
/-- The function `piece` in the sizing pass on a run `R` of ordinary characters that is
followed by an ordinary character `x` and a quantifier character: the piece is the node of
`R` alone. -/
theorem piece_run_sizing (chunk : Nat → Comp Ret) (ctx : ParseContext) (R : List Nat)
    (x q : Nat) (rest : List Nat) (hR : R ≠ [])
    (hord : ∀ y ∈ R, isOrdinaryChar y) (hx : isOrdinaryChar x)
    (hq : q = 42 ∨ q = 43 ∨ q = 63 ∨ q = 123) (hah : ctx.ahead = R ++ x :: q :: rest)
    (hM : ctx.Meta_Char = Default_Meta_Char) (hB : ctx.Brace_Char = 123)
    (hP : ctx.Code_Emit_Ptr = Compute_Size) :
    piece chunk ctx = Except.ok
      ((Compute_Size,
        (if R.length = 1 then WORST ||| HAS_WIDTH ||| SIMPLE else WORST ||| HAS_WIDTH),
        { lower := (R.length : Int), upper := (R.length : Int) }),
      { ctx with
        Reg_Parse := ctx.Reg_Parse + R.length
        Reg_Size := ctx.Reg_Size + (R.length + 4) }) := by
  have hl : ¬ (R.length = 0) := fun h => hR (List.length_eq_zero.mp h)
  have hatom := atom_quant_sizing chunk ctx R x q rest hord hx hq hah hM hB hP
  simp only [hl, if_false] at hatom
  have ha1 := ahead_advance_append ctx R _ hah
  generalize hc1 : ({ ctx with
      Reg_Parse := ctx.Reg_Parse + R.length
      Reg_Size := ctx.Reg_Size + NODE_SIZE + R.length + 1 } : ParseContext) = c1 at hatom
  have hpk : c1.peek = x := by
    rw [← hc1]
    show ({ ctx with Reg_Parse := ctx.Reg_Parse + R.length } : ParseContext).peek = x
    rw [peek_eq_ahead, ha1]; rfl
  have hB1 : c1.Brace_Char = 123 := by rw [← hc1]; exact hB
  rw [piece_no_quantifier chunk ctx c1 _ _ _ hatom (by simp [Compute_Size])
    (by rw [hpk]; exact isQuantifier_ordinary c1 x hx hB1), ← hc1]
  congr 2
  simp only [ParseContext.mk.injEq, and_true, true_and, NODE_SIZE, NEXT_PTR_SIZE, OP_CODE_SIZE]
  omega

set_option maxHeartbeats 4000000 in
/-- The function `piece` in the emitting pass on a run `R` of ordinary characters that is
followed by an ordinary character `x` and a quantifier character: the piece is the
`EXACTLY` node of `R` alone. -/
theorem piece_run_emitting (chunk : Nat → Comp Ret) (ctx : ParseContext) (R : List Nat)
    (x q : Nat) (rest A Z : List Nat) (hR : R ≠ [])
    (hord : ∀ y ∈ R, isOrdinaryChar y) (hx : isOrdinaryChar x)
    (hq : q = 42 ∨ q = 43 ∨ q = 63 ∨ q = 123) (hah : ctx.ahead = R ++ x :: q :: rest)
    (hM : ctx.Meta_Char = Default_Meta_Char) (hB : ctx.Brace_Char = 123)
    (hCI : ctx.Is_Case_Insensitive = false)
    (hP : ctx.Code_Emit_Ptr = Ptr.prog A.length) (hprog : ctx.program = A ++ Z)
    (hZ : R.length + 5 ≤ Z.length) :
    piece chunk ctx = Except.ok
      ((Ptr.prog A.length,
        (if R.length = 1 then WORST ||| HAS_WIDTH ||| SIMPLE else WORST ||| HAS_WIDTH),
        { lower := (R.length : Int), upper := (R.length : Int) }),
      { ctx with
        Reg_Parse := ctx.Reg_Parse + R.length
        program := A ++ ([EXACTLY, 0, 0] ++ R.map (fun c => c % 256) ++ [0])
          ++ Z.drop (R.length + 4)
        Code_Emit_Ptr := Ptr.prog (A.length + (R.length + 4)) }) := by
  have hl : ¬ (R.length = 0) := fun h => hR (List.length_eq_zero.mp h)
  have hatom := atom_quant_emitting chunk ctx R x q rest A Z hord hx hq hah hM hB hP hprog hZ
  simp only [hl, if_false, hCI, Bool.false_eq_true] at hatom
  have ha1 := ahead_advance_append ctx R _ hah
  generalize hc1 : ({ ctx with
      Reg_Parse := ctx.Reg_Parse + R.length
      program := A ++ [EXACTLY, 0, 0] ++ R.map (fun c => c % 256) ++ [0] ++ Z.drop (R.length + 4)
      Code_Emit_Ptr := Ptr.prog (A.length + (R.length + 4))
      Is_Case_Insensitive := false } : ParseContext) = c1 at hatom
  have hpk : c1.peek = x := by
    rw [← hc1]
    show ({ ctx with Reg_Parse := ctx.Reg_Parse + R.length } : ParseContext).peek = x
    rw [peek_eq_ahead, ha1]; rfl
  have hB1 : c1.Brace_Char = 123 := by rw [← hc1]; exact hB
  rw [piece_no_quantifier chunk ctx c1 _ _ _ hatom (by simp)
    (by rw [hpk]; exact isQuantifier_ordinary c1 x hx hB1), ← hc1]
  congr 2
  simp only [ParseContext.mk.injEq, and_true, true_and, List.append_assoc, hCI]
/-- C30: the literal-run back-off.  On a run `R` of one or more ordinary characters
followed by an ordinary character `x` and a quantifier `*`, `+` or `?` (with or without the
lazy suffix; what follows is not a quantifier), `piece` first yields one literal node
holding `R` alone and leaves the parse position on `x`; called again there, it yields the
quantifier node applied to a separate `EXACTLY` node holding `x` alone.  This holds in the
sizing pass (`R.length + 4` and then 8 bytes counted) and in the emitting pass (the same
numbers of bytes written).  The same holds for a counted range that `pieceBrace` reads as
`{min,max}`, with the code `braceCode min max lz` in front of the node of `x`.  At
`abcd*` the program is `EXACTLY "abc"`, `STAR`, `EXACTLY "d"`, `END`, and the texts `abc`,
`abcd` and `abcddd` are matched in full. -/
theorem literal_run_backs_off (chunk : Nat → Comp Ret) (ctx : ParseContext) (R : List Nat)
    (x q : Nat) (lz : Bool) (qt code rest : List Nat) (hR : R ≠ [])
    (hord : ∀ y ∈ R, isOrdinaryChar y) (hx : isOrdinaryChar x)
    (hq : ((q = 42 ∨ q = 43 ∨ q = 63) ∧ qt = [] ∧
        code = insertNode (quantifierNode q lz) 0 0 0) ∨
      (q = 123 ∧ ∃ spec min max, qt = spec ++ [125] ∧ code = braceCode min max lz ∧
        ∀ c : ParseContext, c.ahead = spec ++ 125 :: ((if lz then [63] else []) ++ rest) →
          pieceBrace c
            = Except.ok ((min, max), { c with Reg_Parse := c.Reg_Parse + spec.length })))
    (hah : ctx.ahead = R ++ x :: q :: (qt ++ ((if lz then [63] else []) ++ rest)))
    (hr : rest.headD 0 ≠ 42 ∧ rest.headD 0 ≠ 43 ∧ rest.headD 0 ≠ 63 ∧ rest.headD 0 ≠ 123)
    (hM : ctx.Meta_Char = Default_Meta_Char) (hB : ctx.Brace_Char = 123)
    (hCI : ctx.Is_Case_Insensitive = false) (hNB : ctx.Num_Braces ≤ UINT8_MAX) :
    (ctx.Code_Emit_Ptr = Compute_Size →
      ∃ fl1 rg1 fl2 rg2 c1,
        piece chunk ctx = Except.ok ((Compute_Size, fl1, rg1), c1) ∧
        c1 = { ctx with
          Reg_Parse := ctx.Reg_Parse + R.length
          Reg_Size := ctx.Reg_Size + (R.length + 4) } ∧
        piece chunk c1 = Except.ok ((Compute_Size, fl2, rg2),
          { c1 with
            Reg_Parse := c1.Reg_Parse + 2 + qt.length + (if lz then 1 else 0)
            Reg_Size := c1.Reg_Size + (code.length + 5) })) ∧
    (∀ A Z : List Nat, ctx.Code_Emit_Ptr = Ptr.prog A.length → ctx.program = A ++ Z →
      R.length + 4 + (code.length + 5) ≤ Z.length →
      ∃ fl1 rg1 fl2 rg2 c1,
        piece chunk ctx = Except.ok ((Ptr.prog A.length, fl1, rg1), c1) ∧
        c1 = { ctx with
          Reg_Parse := ctx.Reg_Parse + R.length
          program := A ++ ([EXACTLY, 0, 0] ++ R.map (fun c => c % 256) ++ [0])
            ++ Z.drop (R.length + 4)
          Code_Emit_Ptr := Ptr.prog (A.length + (R.length + 4)) } ∧
        piece chunk c1 = Except.ok ((Ptr.prog (A.length + (R.length + 4)), fl2, rg2),
          { c1 with
            Reg_Parse := c1.Reg_Parse + 2 + qt.length + (if lz then 1 else 0)
            program := A ++ ([EXACTLY, 0, 0] ++ R.map (fun c => c % 256) ++ [0])
              ++ (code ++ [EXACTLY, 0, 0, x % 256, 0])
              ++ Z.drop (R.length + 4 + (code.length + 5))
            Code_Emit_Ptr := Ptr.prog (A.length + (R.length + 4) + (code.length + 5)) })) ∧
    compiled (strBytes "abcd*") 0
      = Except.ok ([MAGIC, 0, 0, BRANCH, 0, 18, EXACTLY, 0, 7, 97, 98, 99, 0, STAR, 0, 8,
          EXACTLY, 0, 0, 100, 0, END, 0, 0], 97, 0) ∧
    (∀ t ∈ [strBytes "abc", strBytes "abcd", strBytes "abcddd"],
      (compileAndExecute 100 (strBytes "abcd*") 0 t).map (fun r => (r.1, r.2.2.head?))
        = some (true, some (some 0, some t.length))) := by
  have hq0 : q = 42 ∨ q = 43 ∨ q = 63 ∨ q = 123 := by
    rcases hq with ⟨h, -, -⟩ | ⟨h, -⟩ <;> omega
  have ha1 := ahead_advance_append ctx R _ hah
  refine ⟨?_, ?_, by decide!, by decide!⟩
  · intro hP
    have h1 := piece_run_sizing chunk ctx R x q _ hR hord hx hq0 hah hM hB hP
    generalize hc1 : ({ ctx with
        Reg_Parse := ctx.Reg_Parse + R.length
        Reg_Size := ctx.Reg_Size + (R.length + 4) } : ParseContext) = c1 at h1
    have ha1' : c1.ahead = x :: q :: (qt ++ ((if lz then [63] else []) ++ rest)) := by
      rw [← hc1]; exact ha1
    have hM1 : c1.Meta_Char = Default_Meta_Char := by rw [← hc1]; exact hM
    have hB1 : c1.Brace_Char = 123 := by rw [← hc1]; exact hB
    have hP1 : c1.Code_Emit_Ptr = Compute_Size := by rw [← hc1]; exact hP
    have hNB1 : c1.Num_Braces ≤ UINT8_MAX := by rw [← hc1]; exact hNB
    rcases hq with ⟨hq, rfl, rfl⟩ | ⟨rfl, spec, min, max, rfl, rfl, hspec⟩
    · obtain ⟨fl2, rg2, h2⟩ := piece_char_simple_sizing chunk c1 x q lz rest hx hq
        (by rw [ha1']; rfl) hr hM1 hB1 hP1
      refine ⟨_, _, fl2, rg2, c1, h1, rfl, ?_⟩
      rw [h2]
      congr 2
      simp only [ParseContext.mk.injEq, and_true, true_and, List.length_nil]
      omega
    · obtain ⟨fl2, rg2, h2⟩ := piece_char_brace_sizing chunk c1 x spec min max lz rest hx
        (by rw [ha1']; simp) hr hM1 hB1 hP1 hNB1 hspec
      refine ⟨_, _, fl2, rg2, c1, h1, rfl, ?_⟩
      rw [h2]
      congr 2
      simp only [ParseContext.mk.injEq, and_true, true_and, List.length_append,
        List.length_singleton]
      omega
  · intro A Z hP hprog hZ
    have h1 := piece_run_emitting chunk ctx R x q _ A Z hR hord hx hq0 hah hM hB hCI hP hprog
      (by omega)
    generalize hc1 : ({ ctx with
        Reg_Parse := ctx.Reg_Parse + R.length
        program := A ++ ([EXACTLY, 0, 0] ++ R.map (fun c => c % 256) ++ [0])
          ++ Z.drop (R.length + 4)
        Code_Emit_Ptr := Ptr.prog (A.length + (R.length + 4)) } : ParseContext) = c1 at h1
    have ha1' : c1.ahead = x :: q :: (qt ++ ((if lz then [63] else []) ++ rest)) := by
      rw [← hc1]; exact ha1
    have hM1 : c1.Meta_Char = Default_Meta_Char := by rw [← hc1]; exact hM
    have hB1 : c1.Brace_Char = 123 := by rw [← hc1]; exact hB
    have hCI1 : c1.Is_Case_Insensitive = false := by rw [← hc1]; exact hCI
    have hNB1 : c1.Num_Braces ≤ UINT8_MAX := by rw [← hc1]; exact hNB
    have hlA : (A ++ ([EXACTLY, 0, 0] ++ R.map (fun c => c % 256) ++ [0])).length
        = A.length + (R.length + 4) := by
      simp only [List.length_append, List.length_cons, List.length_nil, List.length_map]
      omega
    have hP1 : c1.Code_Emit_Ptr
        = Ptr.prog (A ++ ([EXACTLY, 0, 0] ++ R.map (fun c => c % 256) ++ [0])).length := by
      rw [← hc1, hlA]
    have hprog1 : c1.program = (A ++ ([EXACTLY, 0, 0] ++ R.map (fun c => c % 256) ++ [0]))
        ++ Z.drop (R.length + 4) := by rw [← hc1]
    rcases hq with ⟨hq, rfl, rfl⟩ | ⟨rfl, spec, min, max, rfl, rfl, hspec⟩
    · obtain ⟨fl2, rg2, h2⟩ := piece_char_simple_emitting chunk c1 x q lz rest _ _ hx hq
        (by rw [ha1']; rfl) hr hM1 hB1 hCI1 hP1 hprog1
        (by simp only [List.length_drop]; omega)
      refine ⟨_, _, fl2, rg2, c1, h1, rfl, ?_⟩
      rw [h2, hlA]
      congr 2
      simp only [ParseContext.mk.injEq, and_true, true_and, List.length_nil, List.drop_drop,
        List.append_assoc]
      constructorm* _ ∧ _
      all_goals first | omega | (congr 1; omega) | rw [Nat.add_comm 5]
    · obtain ⟨fl2, rg2, h2⟩ := piece_char_brace_emitting chunk c1 x spec min max lz rest _ _ hx
        (by rw [ha1']; simp) hr hM1 hB1 hCI1 hP1 hprog1
        (by simp only [List.length_drop]; omega) hNB1 hspec
      refine ⟨_, _, fl2, rg2, c1, h1, rfl, ?_⟩
      rw [h2, hlA]
      congr 2
      simp only [ParseContext.mk.injEq, and_true, true_and, List.length_append,
        List.length_singleton, List.drop_drop, List.append_assoc]
      constructorm* _ ∧ _
      all_goals first | omega | (congr 1; omega) | rw [Nat.add_comm 5]
/-- C30 in the sizing pass of `abcd*`: the first piece counts the 7 bytes of the node of
`abc`, the second the 8 bytes of `STAR` and the node of `d`. -/
theorem literal_run_backs_off_witness :
    ∃ fl1 rg1 fl2 rg2 c1,
      piece (chunk 5) (sizingStart (strBytes "abcd*")) = Except.ok ((Compute_Size, fl1, rg1), c1) ∧
      c1 = { sizingStart (strBytes "abcd*") with
        Reg_Parse := (sizingStart (strBytes "abcd*")).Reg_Parse + 3
        Reg_Size := (sizingStart (strBytes "abcd*")).Reg_Size + (3 + 4) } ∧
      piece (chunk 5) c1 = Except.ok ((Compute_Size, fl2, rg2),
        { c1 with
          Reg_Parse := c1.Reg_Parse + 2 + 0 + 0
          Reg_Size := c1.Reg_Size + (3 + 5) }) := by
  obtain ⟨f0, f1, fM, fB, fP, fCI, fE, fN⟩ := sizingStart_fields (strBytes "abcd*")
  exact (literal_run_backs_off (chunk 5) (sizingStart (strBytes "abcd*")) (strBytes "abc") 100 42
    false [] (insertNode (quantifierNode 42 false) 0 0 0) [] (by decide) (by decide) (by decide)
    (Or.inl ⟨by decide, rfl, rfl⟩)
    (by simp only [ParseContext.ahead, f0, f1, List.drop_zero]; rfl) (by decide) fM fB fCI
    (by rw [fN]; decide)).1 fP

/-! ## The validation of counted ranges -/

set_option maxHeartbeats 4000000 in
/-- The constructor on a pattern `S` that `piece` reads as a single piece whose code has
`k` bytes in the sizing pass: the pattern is rejected when the program would not stay
below `MAX_COMPILED_SIZE`. -/
theorem CompileRE_single_piece_tooBig (S : List Nat) (k : Nat)
    (hS : S ≠ []) (hh1 : S.headD 0 ≠ 124) (hh2 : S.headD 0 ≠ 41)
    (hsz : ∀ ctx : ParseContext, ctx.ahead = S → ctx.Meta_Char = Default_Meta_Char →
      ctx.Brace_Char = 123 → ctx.Num_Braces = 0 → ctx.Is_Case_Insensitive = false →
      ctx.Code_Emit_Ptr = Compute_Size →
      ∃ fl rg, piece (chunk S.length) ctx = Except.ok ((Compute_Size, fl, rg),
        { ctx with
          Reg_Parse := ctx.Reg_Parse + S.length
          Reg_Size := ctx.Reg_Size + k }))
    (hbig : MAX_COMPILED_SIZE ≤ k + 9) :
    CompileRE S 0 = Except.error RegexError.tooBig := by
  have hM : MAX_COMPILED_SIZE = 32767 := rfl
  rw [hM] at hbig
  obtain ⟨a1, a2, a3, a4, a5, -, a7, -, a9, a10⟩ := passContext_fields S 0 [] Compute_Size 0
  unfold CompileRE CompileRE_counting
  generalize hp1 : passContext S 0 true [] Compute_Size 0 = p1 at *
  have a10' : p1.Is_Case_Insensitive = false := by rw [a10]; decide
  have hah1 : p1.ahead = S := by simp only [ParseContext.ahead, a1, a2, List.drop_zero]
  have hpk1 : p1.peek = S.headD 0 := by rw [peek_eq_ahead, hah1]
  have hne1 : p1.atEnd = false := by
    simp only [ParseContext.atEnd, a1, a2, decide_eq_false_iff_not]
    exact fun h => hS (List.length_eq_zero.mp h.symm)
  obtain ⟨fl, rg, hpiece1⟩ := hsz { p1 with Reg_Size := p1.Reg_Size + 1 + 1 + 1 + NODE_SIZE }
    hah1 a3 a4 a9 a10' a5
  generalize hcB : ({ p1 with
      Reg_Parse := p1.Reg_Parse + S.length
      Reg_Size := p1.Reg_Size + 1 + 1 + 1 + NODE_SIZE + k } : ParseContext) = cB
    at hpiece1
  have hendB : cB.atEnd = true := by
    rw [← hcB]
    simp only [ParseContext.atEnd, a1, a2, Nat.zero_add, decide_True]
  have hpass1 := compilePass_piece_sizing p1 cB fl rg (by rw [a2]; exact hS) a5
    (by rw [hpk1]; exact hh1) (by rw [hpk1]; exact hh2) hne1
    (by rw [show p1.InputString.length = S.length from by rw [a2]]; exact hpiece1)
    (by rw [← hcB]; exact a5) hendB
  generalize hc1 : ({ cB with
      Reg_Size := cB.Reg_Size + NODE_SIZE
      Is_Case_Insensitive := p1.Is_Case_Insensitive
      Match_Newline := p1.Match_Newline } : ParseContext) = c1 at hpass1
  have hsize1 : c1.Reg_Size = k + 9 := by
    rw [← hc1, ← hcB]
    simp only [a7, NODE_SIZE, NEXT_PTR_SIZE, OP_CODE_SIZE]
    omega
  rw [hpass1]
  simp only []
  rw [if_pos (by rw [hsize1, hM]; exact hbig)]

/-- The class loop of `atom` in the sizing pass over characters that are neither `]`, `-`
nor the backslash, up to the closing `]`: every character is counted once. -/
theorem atomClassLoop_plain_sizing (P : List Nat) :
    ∀ (fuel last : Nat) (ctx : ParseContext) (rest : List Nat),
      (∀ y ∈ P, y ≠ 93 ∧ y ≠ 45 ∧ y ≠ 92) → ctx.ahead = P ++ 93 :: rest →
      ctx.Is_Case_Insensitive = false → ctx.Code_Emit_Ptr = Compute_Size → P.length < fuel →
      atomClassLoop fuel last ctx = Except.ok (PUnit.unit,
        { ctx with Reg_Parse := ctx.Reg_Parse + P.length, Reg_Size := ctx.Reg_Size + P.length }) := by
  induction P with
  | nil =>
    intro fuel last ctx rest _ hah hCI hP hf
    obtain ⟨f, rfl⟩ : ∃ f, fuel = f + 1 := ⟨fuel - 1, by simp at hf; omega⟩
    have hpk : ctx.peek = 93 := by rw [peek_eq_ahead, hah]; rfl
    rw [atomClassLoop]
    simp only [comp_bind, comp_get, hpk, ne_eq, not_true_eq_false, and_false, if_false,
      comp_pure, List.length_nil, Nat.add_zero]
  | cons y P ih =>
    intro fuel last ctx rest hP' hah hCI hP hf
    obtain ⟨f, rfl⟩ : ∃ f, fuel = f + 1 := ⟨fuel - 1, by simp at hf; omega⟩
    obtain ⟨y1, y2, y3⟩ := hP' y (List.mem_cons_self _ _)
    have hpk : ctx.peek = y := by rw [peek_eq_ahead, hah]; rfl
    have hlen := length_of_ahead ctx _ hah (by simp)
    simp only [List.length_cons, List.length_append] at hlen
    have hend : ctx.atEnd = false := by
      simp only [ParseContext.atEnd, decide_eq_false_iff_not]; omega
    have hah' := ahead_advance ctx y _ hah
    have hcond : (ctx.Is_Case_Insensitive && safe_ctype isalpha y) = false := by
      rw [hCI]; rfl
    rw [atomClassLoop]
    simp only [comp_bind, comp_get, hpk, hend, Bool.not_false, ne_eq, y1, y2, y3,
      not_false_eq_true, and_self, if_true, if_false, emit_class_byte, hP, hcond,
      Bool.false_eq_true, comp_advance]
    generalize hc : ({ ctx with
        Reg_Parse := ctx.Reg_Parse + 1
        Code_Emit_Ptr := Compute_Size
        Reg_Size := ctx.Reg_Size + 1 } : ParseContext) = c
    have hahc : c.ahead = P ++ 93 :: rest := by rw [← hc]; exact hah'
    rw [ih f y c rest (fun z hz => hP' z (List.mem_cons_of_mem _ hz)) hahc
      (by rw [← hc]; exact hCI) (by rw [← hc]) (by simpa using hf), ← hc]
    congr 2
    simp only [List.length_cons, ParseContext.mk.injEq, and_true, true_and]
    omega

set_option maxHeartbeats 4000000 in
/-- The function `atom` in the sizing pass on a class `[P]` of characters that are neither
`]`, `-`, `^` nor the backslash. -/
theorem atom_class_sizing (chunk : Nat → Comp Ret) (ctx : ParseContext) (y : Nat)
    (P rest : List Nat) (hP' : ∀ z ∈ y :: P, z ≠ 93 ∧ z ≠ 45 ∧ z ≠ 92) (hy : y ≠ 94)
    (hah : ctx.ahead = 91 :: ((y :: P) ++ 93 :: rest))
    (hCI : ctx.Is_Case_Insensitive = false) (hP : ctx.Code_Emit_Ptr = Compute_Size) :
    atom chunk ctx = Except.ok
      ((Compute_Size, WORST ||| (HAS_WIDTH ||| SIMPLE), { lower := 1, upper := 1 }),
      { ctx with
        Reg_Parse := ctx.Reg_Parse + (P.length + 3)
        Reg_Size := ctx.Reg_Size + (P.length + 5) }) := by
  have hpk : ctx.peek = 91 := by rw [peek_eq_ahead, hah]; rfl
  have hne : ctx.peek ≠ 40 := by rw [hpk]; omega
  have hlen := length_of_ahead ctx _ hah (by simp)
  simp only [List.length_cons, List.length_append] at hlen
  have hend : ctx.atEnd = false := by
    simp only [ParseContext.atEnd, decide_eq_false_iff_not]; omega
  have hah1 := ahead_advance ctx 91 _ hah
  obtain ⟨y1, y2, y3⟩ := hP' y (List.mem_cons_self _ _)
  generalize hc1 : ({ ctx with Reg_Parse := ctx.Reg_Parse + 1 } : ParseContext) = c1 at hah1
  have hpk1 : c1.peek = y := by rw [peek_eq_ahead, hah1]; rfl
  have hP1 : c1.Code_Emit_Ptr = Compute_Size := by rw [← hc1]; exact hP
  generalize hc2 : ({ c1 with Reg_Size := c1.Reg_Size + NODE_SIZE } : ParseContext) = c2
  have hah2 : c2.ahead = (y :: P) ++ 93 :: rest := by rw [← hc2]; exact hah1
  have hpk2 : c2.peek = y := by rw [peek_eq_ahead, hah2]; rfl
  have hCI2 : c2.Is_Case_Insensitive = false := by rw [← hc2, ← hc1]; exact hCI
  have hP2 : c2.Code_Emit_Ptr = Compute_Size := by rw [← hc2]; exact hP1
  have hloop := atomClassLoop_plain_sizing (y :: P) (ctx.InputString.length + 1) 0 c2 rest hP'
    hah2 hCI2 hP2 (by simp only [List.length_cons]; omega)
  have hah3 := ahead_advance_append c2 (y :: P) _ hah2
  generalize hc3 : ({ c2 with
      Reg_Parse := c2.Reg_Parse + (y :: P).length
      Reg_Size := c2.Reg_Size + (y :: P).length } : ParseContext) = c3 at hloop
  have hpk3 : c3.peek = 93 := by
    rw [← hc3]
    show ({ c2 with Reg_Parse := c2.Reg_Parse + (y :: P).length } : ParseContext).peek = 93
    rw [peek_eq_ahead, hah3]; rfl
  have hP3 : c3.Code_Emit_Ptr = Compute_Size := by rw [← hc3]; exact hP2
  unfold atom
  simp only [comp_bind, comp_get, atomComments_none _ ctx hne, hend, Bool.false_eq_true, if_false,
    comp_pure, comp_advance, hpk, hc1]
  simp only [show ¬ ((91 : Nat) = 94) by decide, show ¬ ((91 : Nat) = 36) by decide,
    show ¬ ((91 : Nat) = 60) by decide, show ¬ ((91 : Nat) = 62) by decide,
    show ¬ ((91 : Nat) = 46) by decide, show ¬ ((91 : Nat) = 40) by decide,
    show ¬ ((91 : Nat) = 124 ∨ (91 : Nat) = 41) by decide,
    show ¬ ((91 : Nat) = 63 ∨ (91 : Nat) = 43 ∨ (91 : Nat) = 42) by decide,
    show ¬ ((91 : Nat) = 123) by decide, false_and, if_false, if_true, hpk1, hy,
    emit_node_sizing _ c1 hP1, hc2, hpk2, y1, y2, or_self, comp_bind, comp_get, comp_pure]
  rw [hloop]
  simp only [hpk3, ne_eq, not_true_eq_false, if_false, comp_bind, comp_pure,
    emit_byte_sizing 0 c3 hP3, comp_advance]
  rw [← hc3, ← hc2, ← hc1]
  congr 2
  simp only [List.length_cons, ParseContext.mk.injEq, and_true, true_and, NODE_SIZE,
    NEXT_PTR_SIZE, OP_CODE_SIZE]
  omega

set_option maxHeartbeats 4000000 in
/-- The function `piece` in the sizing pass on a simple atom with width followed by a
counted range that `pieceBrace` reads as `{min,max}`, with or without the lazy suffix. -/
theorem piece_simple_atom_brace_sizing (chunk : Nat → Comp Ret) (ctx c1 : ParseContext)
    (range : len_range) (spec : List Nat) (min max : Nat) (lz : Bool) (rest : List Nat)
    (hatom : atom chunk ctx
      = Except.ok ((Compute_Size, WORST ||| HAS_WIDTH ||| SIMPLE, range), c1))
    (f1 : c1.ahead = 123 :: (spec ++ 125 :: ((if lz then [63] else []) ++ rest)))
    (hr : rest.headD 0 ≠ 42 ∧ rest.headD 0 ≠ 43 ∧ rest.headD 0 ≠ 63 ∧ rest.headD 0 ≠ 123)
    (f2 : c1.Brace_Char = 123) (hP : c1.Code_Emit_Ptr = Compute_Size)
    (f3 : c1.Num_Braces ≤ UINT8_MAX)
    (hspec : ∀ c : ParseContext,
      c.ahead = spec ++ 125 :: ((if lz then [63] else []) ++ rest) →
      pieceBrace c = Except.ok ((min, max), { c with Reg_Parse := c.Reg_Parse + spec.length })) :
    ∃ fl rg, piece chunk ctx = Except.ok ((Compute_Size, fl, rg),
      { c1 with
        Reg_Parse := c1.Reg_Parse + 2 + spec.length + (if lz then 1 else 0)
        Reg_Size := c1.Reg_Size + (braceCode min max lz).length }) := by
  have hcs : Compute_Size ≠ Ptr.null := by simp [Compute_Size]
  have hbrace := hspec { c1 with Reg_Parse := c1.Reg_Parse + 1 } (ahead_advance c1 123 _ f1)
  generalize hc3 : ({ c1 with
      Reg_Parse := c1.Reg_Parse + 1 + spec.length + 1 + (if lz then 1 else 0) }
    : ParseContext) = c3
  have g3 : c3.Code_Emit_Ptr = Compute_Size := by rw [← hc3]; exact hP
  have g1 : c3.ahead = rest := by
    rw [← hc3]
    have h1 := ahead_advance c1 123 _ f1
    have h2 := ahead_advance_append _ spec _ h1
    have h3 := ahead_advance _ 125 _ h2
    cases lz with
    | false => simpa using h3
    | true =>
      simp only [if_true, List.singleton_append] at h3 ⊢
      exact ahead_advance _ 63 _ h3
  have hemit := pieceEmit_simple_sizing (braceOp min max) lz min max
    Compute_Size c3 (braceOp_cases min max) g3
  generalize hc4 : (if min = 1 ∧ max = 1 then c3 else { c3 with Reg_Size := c3.Reg_Size
      + (insertNode (quantifierNode (braceOp min max) lz) min max 0).length }) = c4
  have k1 : c4.ahead = rest := by
    rw [← hc4]; split_ifs
    · exact g1
    · exact g1
  have k2 : c4.Brace_Char = 123 := by
    rw [← hc4]; split_ifs <;> (rw [← hc3]; exact f2)
  obtain ⟨fl, rg, h⟩ := piece_brace_ok_simple chunk ctx c1 c4 _ _ spec min max lz rest hatom hcs
    f2 f1 hr hbrace f3
    (by
      intro h11
      have e := hemit
      rw [← hc3] at e
      rw [← hc4, if_neg h11, ← hc3]
      have e1 := braceOp_min min max
      have e2 := braceOp_max min max
      unfold braceOp at e1 e2 e
      rw [e1, e2]
      exact e)
    (by
      intro h11
      rw [← hc4, if_pos h11, ← hc3])
    k1 k2
  refine ⟨fl, rg, ?_⟩
  rw [h, ← hc4]
  by_cases h11 : min = 1 ∧ max = 1
  · rw [if_pos h11, ← hc3]
    simp only [braceCode, if_pos h11, List.length_nil]
    congr 2
    generalize (if lz = true then 1 else 0) = l
    simp only [ParseContext.mk.injEq, and_true, true_and]
    omega
  · rw [if_neg h11, ← hc3]
    simp only [braceCode, if_neg h11]
    congr 2
    generalize (if lz = true then 1 else 0) = l
    simp only [ParseContext.mk.injEq, and_true, true_and]
    omega

set_option maxHeartbeats 4000000 in
/-- The constructor on a class of `n + 1` letters `a` followed by `{1,2}`: the program
would have `n + 21` bytes, and the pattern is rejected when that is not below
`MAX_COMPILED_SIZE`. -/
theorem CompileRE_class_tooBig (n : Nat) (hn : MAX_COMPILED_SIZE ≤ n + 21) :
    CompileRE (91 :: ((97 :: List.replicate n 97) ++ 93 :: strBytes "\x7b1,2\x7d")) 0
      = Except.error RegexError.tooBig := by
  refine CompileRE_single_piece_tooBig _ (n + 12) (by simp) (by simp) (by simp) ?_
    (by omega)
  intro ctx hah hM hB hNB hCI hP
  have hP' : ∀ z ∈ 97 :: List.replicate n 97, z ≠ 93 ∧ z ≠ 45 ∧ z ≠ 92 := by
    intro z hz
    have hz' : z = 97 := by
      rcases List.mem_cons.mp hz with h | h
      · exact h
      · exact List.eq_of_mem_replicate h
    rw [hz']; decide
  have hatom := atom_class_sizing (chunk (91 :: ((97 :: List.replicate n 97)
    ++ 93 :: strBytes "\x7b1,2\x7d")).length) ctx 97 (List.replicate n 97)
    (strBytes "\x7b1,2\x7d") hP' (by decide) hah hCI hP
  rw [show WORST ||| (HAS_WIDTH ||| SIMPLE) = WORST ||| HAS_WIDTH ||| SIMPLE by decide] at hatom
  generalize hc1 : ({ ctx with
      Reg_Parse := ctx.Reg_Parse + ((List.replicate n 97).length + 3)
      Reg_Size := ctx.Reg_Size + ((List.replicate n 97).length + 5) } : ParseContext) = c1
    at hatom
  have f1 : c1.ahead = 123 :: (strBytes "1,2" ++ 125 :: ((if false then [63] else []) ++ [])) := by
    rw [← hc1]
    have h1 := ahead_advance ctx 91 _ hah
    have h2 := ahead_advance_append _ (97 :: List.replicate n 97) _ h1
    have h3 := ahead_advance _ 93 _ h2
    simp only [List.length_cons] at h3
    have e : ctx.Reg_Parse + ((List.replicate n 97).length + 3)
        = ctx.Reg_Parse + 1 + ((List.replicate n 97).length + 1) + 1 := by omega
    rw [e]
    exact h3
  obtain ⟨fl, rg, h⟩ := piece_simple_atom_brace_sizing _ ctx c1 _ (strBytes "1,2") 1 2 false []
    hatom f1 (by decide) (by rw [← hc1]; exact hB) (by rw [← hc1]; exact hP)
    (by rw [← hc1, hNB]; decide)
    (by
      intro c hc
      rw [pieceBrace_comma c [49] [50] [] (by decide) (by decide) (by simpa using hc)
        (by decide) (by decide)]
      simp [numeralValue, digitsValue, strBytes])
  refine ⟨fl, rg, ?_⟩
  rw [h, ← hc1]
  congr 2
  simp only [List.length_cons, List.length_append, List.length_replicate, ParseContext.mk.injEq,
    and_true, true_and, braceCode, braceOp, quantifierNode, insertNode]
  simp [strBytes, BRACE]
  omega

/-- The range checks of `pieceBrace` on `dm , dn }`: a backward range and an explicit
maximum of zero are rejected. -/
theorem pieceBrace_invalid (c : ParseContext) (dm dn rest : List Nat)
    (hdm : ∀ d ∈ dm, isdigit d = true) (hdn : ∀ d ∈ dn, isdigit d = true)
    (hah : c.ahead = dm ++ 44 :: (dn ++ 125 :: rest)) :
    (1 ≤ numeralValue dn → numeralValue dn < numeralValue dm →
      ∃ e, pieceBrace c = Except.error e ∧ e ≠ RegexError.fuel ∧
        (numeralValue dm ≤ 65535 →
          e = RegexError.invalidRange (numeralValue dm) (numeralValue dn))) ∧
    (dn ≠ [] → numeralValue dn = 0 →
      ∃ e, pieceBrace c = Except.error e ∧ e ≠ RegexError.fuel ∧
        (numeralValue dm ≤ 65535 →
          e = (if dm = [] then RegexError.rangeComma0
            else if numeralValue dm = 0 then RegexError.range00
            else RegexError.rangeM0 (numeralValue dm)))) := by
  have hnd : safe_ctype isdigit ((44 :: (dn ++ 125 :: rest)).headD 0) = false := by
    show safe_ctype isdigit 44 = false; decide
  have hover : 65535 < numeralValue dm →
      ∀ K : Prop, ∃ e, pieceBrace c = Except.error e ∧ e ≠ RegexError.fuel ∧
        (numeralValue dm ≤ 65535 → K) := by
    intro hm K
    obtain ⟨e, he⟩ := pieceBrace_min_overflow c dm _ hdm hah hnd hm
    exact ⟨e, he, pieceBrace_error_kind c dm dn rest hdm hdn hah e he, fun h => by omega⟩
  constructor
  · intro h1 hlt
    by_cases hm : numeralValue dm ≤ 65535
    · refine ⟨_, ?_, ?_, fun _ => rfl⟩
      · rw [pieceBrace_comma c dm dn rest hdm hdn hah hm (by omega)]
        have e1 : ¬ (numeralValue dn = 0) := by omega
        simp only [e1, and_false, if_false, ne_eq, not_false_eq_true, true_and, gt_iff_lt, hlt,
          if_true]
      · simp
    · obtain ⟨e, he, hk, -⟩ := hover (by omega) True
      exact ⟨e, he, hk, fun h => absurd h hm⟩
  · intro hne h0
    by_cases hm : numeralValue dm ≤ 65535
    · refine ⟨_, ?_, ?_, fun _ => rfl⟩
      · rw [pieceBrace_comma c dm dn rest hdm hdn hah hm (by omega)]
        by_cases hd : dm = []
        · subst hd
          simp [hne, h0]
        · by_cases hz : numeralValue dm = 0
          · simp [hne, h0, hd, hz]
          · simp [hne, h0, hd, hz]
      · split_ifs <;> simp
    · obtain ⟨e, he, hk, -⟩ := hover (by omega) True
      exact ⟨e, he, hk, fun h => absurd h hm⟩

/-- The range check of `pieceBrace` on `dm }`: an explicit zero is rejected. -/
theorem pieceBrace_zero_single (c : ParseContext) (dm rest : List Nat)
    (hdm : ∀ d ∈ dm, isdigit d = true) (hah : c.ahead = dm ++ 125 :: rest)
    (hne : dm ≠ []) (h0 : numeralValue dm = 0) :
    pieceBrace c = Except.error RegexError.range0 := by
  rw [pieceBrace_single c dm rest hdm hah (by omega)]
  simp [hne, h0]

set_option maxHeartbeats 4000000 in
/-- The function `piece` in the sizing pass on an atom with width followed by a counted
range that `pieceBrace` accepts, and then by no further quantifier. -/
theorem piece_brace_accepted_sizing (chunk : Nat → Comp Ret) (ctx ctx1 ctx2 : ParseContext)
    (flags : Nat) (range : len_range) (rest0 rest : List Nat) (min max : Nat)
    (hatom : atom chunk ctx = Except.ok ((Compute_Size, flags, range), ctx1))
    (hw : flags &&& HAS_WIDTH ≠ 0) (hB : ctx1.Brace_Char = 123)
    (hah : ctx1.ahead = 123 :: rest0)
    (hbrace : pieceBrace { ctx1 with Reg_Parse := ctx1.Reg_Parse + 1 }
      = Except.ok ((min, max), ctx2))
    (h2a : ctx2.ahead = 125 :: rest) (h2B : ctx2.Brace_Char = 123)
    (h2P : ctx2.Code_Emit_Ptr = Compute_Size) (h2N : ctx2.Num_Braces ≤ UINT8_MAX)
    (hr : rest.headD 0 ≠ 42 ∧ rest.headD 0 ≠ 43 ∧ rest.headD 0 ≠ 63 ∧ rest.headD 0 ≠ 123) :
    ∃ fl rg c4, piece chunk ctx = Except.ok ((Compute_Size, fl, rg), c4) ∧ c4.ahead = rest := by
  have hcs : Compute_Size ≠ Ptr.null := by simp [Compute_Size]
  have ha3 := ahead_advance ctx2 125 _ h2a
  have hlazy : ({ ctx2 with Reg_Parse := ctx2.Reg_Parse + 1 } : ParseContext).peek ≠ 63 := by
    rw [peek_eq_ahead, ha3]; exact hr.2.2.1
  rw [piece_brace_ok chunk ctx ctx1 ctx2 Compute_Size flags range rest0 min max hatom hcs hB hah
    hbrace hlazy]
  generalize hc3 : ({ ctx2 with Reg_Parse := ctx2.Reg_Parse + 1 } : ParseContext) = c3 at ha3
  have hB3 : c3.Brace_Char = 123 := by rw [← hc3]; exact h2B
  have hP3 : c3.Code_Emit_Ptr = Compute_Size := by rw [← hc3]; exact h2P
  have hNB3 : ¬ (c3.Num_Braces > UINT8_MAX) := by rw [← hc3]; exact Nat.not_lt.mpr h2N
  simp only [hw, if_false, hNB3, and_false]
  by_cases h11 : min = 1 ∧ max = 1
  · simp only [h11, and_self, if_true]
    exact ⟨_, _, _, rfl, ha3⟩
  · simp only [h11, if_false]
    obtain ⟨size, nb, hem⟩ := pieceEmit_sizing
      (if min = 0 ∧ max = 0 then 42 else if min = 1 ∧ max = 0 then 43
        else if min = 0 ∧ max = 1 then 63 else 123)
      (decide (flags &&& SIMPLE ≠ 0)) false
      (if (if min = 0 ∧ max = 0 then 42 else if min = 1 ∧ max = 0 then 43
        else if min = 0 ∧ max = 1 then 63 else 123) = 43 then 1 else min)
      (if (if min = 0 ∧ max = 0 then 42 else if min = 1 ∧ max = 0 then 43
        else if min = 0 ∧ max = 1 then 63 else 123) = 63 then 1 else max) c3 hP3
      (by split_ifs <;> simp)
    rw [hem]
    simp only []
    have hnq := not_quantifier_of_head
      ({ c3 with Reg_Size := size, Num_Braces := nb } : ParseContext) rest hB3 ha3 hr
    rw [if_neg (by rw [hnq]; simp)]
    exact ⟨_, _, _, rfl, ha3⟩

/-- The function `piece` in the sizing pass on an atom with width followed by a counted
range `{dm,dn}` with `m ≤ n`, `1 ≤ n ≤ 65535`, and then by no further quantifier: the
range is accepted. -/
theorem piece_range_accepted_sizing (chunk : Nat → Comp Ret) (ctx ctx1 : ParseContext)
    (flags : Nat) (range : len_range) (dm dn rest : List Nat)
    (hatom : atom chunk ctx = Except.ok ((Compute_Size, flags, range), ctx1))
    (hw : flags &&& HAS_WIDTH ≠ 0) (hB : ctx1.Brace_Char = 123)
    (hP : ctx1.Code_Emit_Ptr = Compute_Size) (hNB : ctx1.Num_Braces ≤ UINT8_MAX)
    (hdm : ∀ d ∈ dm, isdigit d = true) (hdn : ∀ d ∈ dn, isdigit d = true)
    (hah : ctx1.ahead = 123 :: (dm ++ 44 :: (dn ++ 125 :: rest)))
    (hr : rest.headD 0 ≠ 42 ∧ rest.headD 0 ≠ 43 ∧ rest.headD 0 ≠ 63 ∧ rest.headD 0 ≠ 123)
    (hmn : numeralValue dm ≤ numeralValue dn) (h1 : 1 ≤ numeralValue dn)
    (hn : numeralValue dn ≤ 65535) :
    ∃ fl rg c4, piece chunk ctx = Except.ok ((Compute_Size, fl, rg), c4) ∧ c4.ahead = rest := by
  have ha1 := ahead_advance ctx1 123 _ hah
  have hbrace := pieceBrace_comma { ctx1 with Reg_Parse := ctx1.Reg_Parse + 1 } dm dn rest hdm hdn
    ha1 (by omega) hn
  have e1 : ¬ (numeralValue dn = 0) := by omega
  have e2 : ¬ (numeralValue dm > numeralValue dn) := by omega
  simp only [e1, e2, and_false, false_and, if_false] at hbrace
  have ha2 := ahead_advance_append { ctx1 with Reg_Parse := ctx1.Reg_Parse + 1 } dm _ ha1
  have ha3 := ahead_advance { ctx1 with Reg_Parse := ctx1.Reg_Parse + 1 + dm.length } 44 _ ha2
  have ha4 := ahead_advance_append { ctx1 with Reg_Parse := ctx1.Reg_Parse + 1 + dm.length + 1 }
    dn _ ha3
  exact piece_brace_accepted_sizing chunk ctx ctx1 _ flags range _ rest _ _ hatom hw hB hah
    hbrace ha4 hB hP hNB hr

/-- C1, amended: the validation of a counted range in `piece`; `m` and `n` are the values of
the digit strings `dm` and `dn` (leading zeros allowed).  (1) For every atom, `piece`
rejects `{dm,dn}` when `n ≥ 1` and `m > n` (with the range-order error when `m ≤ 65535`),
rejects an explicit zero maximum `{dm,dn}`, `n = 0` (`{0,0}`, `{,0}`, `{m,0}`), and rejects
`{0}`.  (2) For every atom with width, `piece` accepts `{dm,dn}` with `m ≤ n`,
`1 ≤ n ≤ 65535` in the sizing pass.  (3) For an ordinary character `x` the constructor
rejects `x{dm,dn}` and `x{dm}` in the cases of (1) and accepts `x{dm,dn}` with `m ≤ n`,
`1 ≤ n ≤ 65535`, the program being the code of the range in front of the node of `x`. -/
theorem counted_range_validation :
    (∀ (chunk : Nat → Comp Ret) (ctx ctx1 : ParseContext) (ret : Ptr) (flags : Nat)
        (range : len_range) (dm dn rest : List Nat),
      atom chunk ctx = Except.ok ((ret, flags, range), ctx1) → ret ≠ Ptr.null →
      ctx1.Brace_Char = 123 → (∀ d ∈ dm, isdigit d = true) → (∀ d ∈ dn, isdigit d = true) →
      (ctx1.ahead = 123 :: (dm ++ 44 :: (dn ++ 125 :: rest)) →
        (1 ≤ numeralValue dn → numeralValue dn < numeralValue dm →
          ∃ e, piece chunk ctx = Except.error e ∧ e ≠ RegexError.fuel ∧
            (numeralValue dm ≤ 65535 →
              e = RegexError.invalidRange (numeralValue dm) (numeralValue dn))) ∧
        (dn ≠ [] → numeralValue dn = 0 →
          ∃ e, piece chunk ctx = Except.error e ∧ e ≠ RegexError.fuel ∧
            (numeralValue dm ≤ 65535 →
              e = (if dm = [] then RegexError.rangeComma0
                else if numeralValue dm = 0 then RegexError.range00
                else RegexError.rangeM0 (numeralValue dm))))) ∧
      (ctx1.ahead = 123 :: (dm ++ 125 :: rest) → dm ≠ [] → numeralValue dm = 0 →
        piece chunk ctx = Except.error RegexError.range0)) ∧
    (∀ (chunk : Nat → Comp Ret) (ctx ctx1 : ParseContext) (flags : Nat) (range : len_range)
        (dm dn rest : List Nat),
      atom chunk ctx = Except.ok ((Compute_Size, flags, range), ctx1) →
      flags &&& HAS_WIDTH ≠ 0 → ctx1.Brace_Char = 123 → ctx1.Code_Emit_Ptr = Compute_Size →
      ctx1.Num_Braces ≤ UINT8_MAX →
      (∀ d ∈ dm, isdigit d = true) → (∀ d ∈ dn, isdigit d = true) →
      ctx1.ahead = 123 :: (dm ++ 44 :: (dn ++ 125 :: rest)) →
      (rest.headD 0 ≠ 42 ∧ rest.headD 0 ≠ 43 ∧ rest.headD 0 ≠ 63 ∧ rest.headD 0 ≠ 123) →
      numeralValue dm ≤ numeralValue dn → 1 ≤ numeralValue dn → numeralValue dn ≤ 65535 →
      ∃ fl rg c4, piece chunk ctx = Except.ok ((Compute_Size, fl, rg), c4) ∧ c4.ahead = rest) ∧
    (∀ (x : Nat) (dm dn : List Nat), isOrdinaryChar x →
      (∀ d ∈ dm, isdigit d = true) → (∀ d ∈ dn, isdigit d = true) →
      (1 ≤ numeralValue dn → numeralValue dn < numeralValue dm →
        ∃ e, CompileRE (x :: 123 :: (dm ++ 44 :: (dn ++ [125]))) 0 = Except.error e ∧
          e ≠ RegexError.fuel ∧
          (numeralValue dm ≤ 65535 →
            e = RegexError.invalidRange (numeralValue dm) (numeralValue dn))) ∧
      (dn ≠ [] → numeralValue dn = 0 →
        ∃ e, CompileRE (x :: 123 :: (dm ++ 44 :: (dn ++ [125]))) 0 = Except.error e ∧
          e ≠ RegexError.fuel ∧
          (numeralValue dm ≤ 65535 →
            e = (if dm = [] then RegexError.rangeComma0
              else if numeralValue dm = 0 then RegexError.range00
              else RegexError.rangeM0 (numeralValue dm)))) ∧
      (dm ≠ [] → numeralValue dm = 0 →
        CompileRE (x :: 123 :: (dm ++ [125])) 0 = Except.error RegexError.range0) ∧
      (numeralValue dm ≤ numeralValue dn → 1 ≤ numeralValue dn → numeralValue dn ≤ 65535 →
        ∃ re, CompileRE (x :: 123 :: (dm ++ 44 :: (dn ++ [125]))) 0 = Except.ok re ∧
          re.program = quantifiedProgram (braceCode (numeralValue dm) (numeralValue dn) false)
            x)) := by
  refine ⟨?_, ?_, ?_⟩
  · intro chunk ctx ctx1 ret flags range dm dn rest hatom hret hB hdm hdn
    refine ⟨fun hah => ?_, fun hah hne h0 => ?_⟩
    · have ha1 := ahead_advance ctx1 123 _ hah
      have hinv := pieceBrace_invalid { ctx1 with Reg_Parse := ctx1.Reg_Parse + 1 } dm dn rest
        hdm hdn ha1
      constructor
      · intro h1 hlt
        obtain ⟨e, he, hk, hv⟩ := hinv.1 h1 hlt
        exact ⟨e, piece_brace_error chunk ctx ctx1 ret flags range _ e hatom hret hB hah he, hk,
          hv⟩
      · intro hne h0
        obtain ⟨e, he, hk, hv⟩ := hinv.2 hne h0
        exact ⟨e, piece_brace_error chunk ctx ctx1 ret flags range _ e hatom hret hB hah he, hk,
          hv⟩
    · have ha1 := ahead_advance ctx1 123 _ hah
      exact piece_brace_error chunk ctx ctx1 ret flags range _ _ hatom hret hB hah
        (pieceBrace_zero_single _ dm rest hdm ha1 hne h0)
  · intro chunk ctx ctx1 flags range dm dn rest hatom hw hB hP hNB hdm hdn hah hr hmn h1 hn
    exact piece_range_accepted_sizing chunk ctx ctx1 flags range dm dn rest hatom hw hB hP hNB
      hdm hdn hah hr hmn h1 hn
  · intro x dm dn hx hdm hdn
    refine ⟨fun h1 hlt => ?_, fun hne h0 => ?_, fun hne h0 => ?_, fun hmn h1 hn => ?_⟩
    · exact CompileRE_char_brace_error x _ (fun e => e ≠ RegexError.fuel ∧
        (numeralValue dm ≤ 65535 →
          e = RegexError.invalidRange (numeralValue dm) (numeralValue dn))) hx
        (fun c hah => (pieceBrace_invalid c dm dn [] hdm hdn hah).1 h1 hlt)
    · exact CompileRE_char_brace_error x _ (fun e => e ≠ RegexError.fuel ∧
        (numeralValue dm ≤ 65535 →
          e = (if dm = [] then RegexError.rangeComma0
            else if numeralValue dm = 0 then RegexError.range00
            else RegexError.rangeM0 (numeralValue dm)))) hx
        (fun c hah => (pieceBrace_invalid c dm dn [] hdm hdn hah).2 hne h0)
    · obtain ⟨e, he, rfl⟩ := CompileRE_char_brace_error x (dm ++ [125])
        (fun e => e = RegexError.range0) hx
        (fun c hah => ⟨_, pieceBrace_zero_single c dm [] hdm hah hne h0, rfl⟩)
      exact he
    · obtain ⟨re, hre, hp⟩ := CompileRE_char_brace x (dm ++ 44 :: dn) (numeralValue dm)
        (numeralValue dn) false hx (by
          intro c hah
          have hah' : c.ahead = dm ++ 44 :: (dn ++ 125 :: []) := by
            rw [hah]; simp
          rw [pieceBrace_comma c dm dn [] hdm hdn hah' (by omega) hn]
          have e1 : ¬ (numeralValue dn = 0) := by omega
          have e2 : ¬ (numeralValue dm > numeralValue dn) := by omega
          simp only [e1, e2, and_false, false_and, if_false, ne_eq, not_false_eq_true, true_and]
          congr 2
          simp only [List.length_append, List.length_cons, ParseContext.mk.injEq, and_true]
          omega)
      exact ⟨re, by simpa using hre, hp⟩

/-- C1 at `a{2,1}`, `a{0}`, `a{0,0}`, `a{,0}`, `a{3,0}` and `a{2,3}`. -/
theorem counted_range_validation_witness :
    CompileRE (strBytes "a\x7b2,1\x7d") 0 = Except.error (RegexError.invalidRange 2 1) ∧
    CompileRE (strBytes "a\x7b0\x7d") 0 = Except.error RegexError.range0 ∧
    CompileRE (strBytes "a\x7b0,0\x7d") 0 = Except.error RegexError.range00 ∧
    CompileRE (strBytes "a\x7b,0\x7d") 0 = Except.error RegexError.rangeComma0 ∧
    CompileRE (strBytes "a\x7b3,0\x7d") 0 = Except.error (RegexError.rangeM0 3) ∧
    (∃ re, CompileRE (strBytes "a\x7b2,3\x7d") 0 = Except.ok re ∧
      re.program = [MAGIC, 0, 0, BRANCH, 0, 15, BRACE, 0, 12, 0, 2, 0, 3, EXACTLY, 0, 0, 97, 0,
        END, 0, 0]) := by
  refine ⟨?_, ?_, ?_, ?_, ?_, ?_⟩
  · obtain ⟨e, he, -, hv⟩ := (counted_range_validation.2.2 97 (strBytes "2") (strBytes "1")
      (by decide) (by decide) (by decide)).1 (by decide) (by decide)
    rw [hv (by decide)] at he
    exact he
  · exact (counted_range_validation.2.2 97 (strBytes "0") [] (by decide) (by decide)
      (by decide)).2.2.1 (by decide) (by decide)
  · obtain ⟨e, he, -, hv⟩ := (counted_range_validation.2.2 97 (strBytes "0") (strBytes "0")
      (by decide) (by decide) (by decide)).2.1 (by decide) (by decide)
    rw [hv (by decide)] at he
    exact he
  · obtain ⟨e, he, -, hv⟩ := (counted_range_validation.2.2 97 [] (strBytes "0")
      (by decide) (by decide) (by decide)).2.1 (by decide) (by decide)
    rw [hv (by decide)] at he
    exact he
  · obtain ⟨e, he, -, hv⟩ := (counted_range_validation.2.2 97 (strBytes "3") (strBytes "0")
      (by decide) (by decide) (by decide)).2.1 (by decide) (by decide)
    rw [hv (by decide)] at he
    exact he
  · exact (counted_range_validation.2.2 97 (strBytes "2") (strBytes "3") (by decide) (by decide)
      (by decide)).2.2.2 (by decide) (by decide) (by decide)

/-- C1, a counterexample: the class of 32747 letters `a` is an atom with width, and the
range `{1,2}` is valid, but the constructor rejects the pattern, since the program (32767
bytes) would not stay below `MAX_COMPILED_SIZE`. -/
theorem counted_range_on_large_atom_rejected :
    CompileRE (91 :: ((97 :: List.replicate 32746 97) ++ 93 :: strBytes "\x7b1,2\x7d")) 0
      = Except.error RegexError.tooBig :=
  CompileRE_class_tooBig 32746 (by decide)

/-! ## The length of a look-behind body that contains `\B` -/

/-- C5 at the look-behind `(?<=\By)`: the body consists of the zero-width `\B` and the
literal `y`, so its length is 1, but the stored bounds are lower = upper = 2; on the text
`xyc` the pattern `(?<=\By)c` finds nothing, although `\Byc` matches at 1 (so `\By`
matches the `y` in front of the `c`) and `(?<=y)c` finds the `c` at 2.  For the body `\B`
alone the stored bounds are 1 and 1. -/
theorem look_behind_counts_not_boundary :
    compiled (strBytes "(?<=\\By)c") 0
        = Except.ok ([MAGIC, 0, 0, BRANCH, 0, 29, POS_BEHIND_OPEN, 0, 7, 0, 2, 0, 2, BRANCH, 0,
            11, NOT_BOUNDARY, 0, 3, EXACTLY, 0, 5, 121, 0, LOOK_BEHIND_CLOSE, 0, 3, EXACTLY, 0, 5,
            99, 0, END, 0, 0], 0, 0) ∧
      (compileAndExecute 200 (strBytes "(?<=\\By)c") 0 (strBytes "xyc")).map
          (fun r => (r.1, r.2.2.head?)) = some (false, some (none, none)) ∧
      (compileAndExecute 200 (strBytes "\\Byc") 0 (strBytes "xyc")).map
          (fun r => (r.1, r.2.2.head?)) = some (true, some (some 1, some 3)) ∧
      (compileAndExecute 200 (strBytes "(?<=y)c") 0 (strBytes "xyc")).map
          (fun r => (r.1, r.2.2.head?)) = some (true, some (some 2, some 3)) ∧
      compiled (strBytes "(?<=\\B)c") 0
        = Except.ok ([MAGIC, 0, 0, BRANCH, 0, 24, POS_BEHIND_OPEN, 0, 7, 0, 1, 0, 1, BRANCH, 0,
            6, NOT_BOUNDARY, 0, 3, LOOK_BEHIND_CLOSE, 0, 3, EXACTLY, 0, 5, 99, 0, END, 0, 0],
            0, 0) := by
  refine ⟨by decide!, by decide!, by decide!, by decide!, by decide!⟩

/-! ## The helper `greedy` -/

theorem greedyPred_simple (st : ExecuteContext) (op : Nat) (operand : List Nat) (c : Nat)
    (hop : op ∈ simpleOps) : ∃ b, greedyPred st op operand c = some b := by
  simp only [simpleOps, List.mem_cons, List.mem_singleton, List.not_mem_nil, or_false] at hop
  refine Option.isSome_iff_exists.mp ?_
  rcases hop with h | h | h | h | h | h | h | h | h | h | h | h | h | h | h | h | h | h <;>
    subst h <;>
    simp [greedyPred, ANY, EVERY, EXACTLY, SIMILAR, ANY_OF, ANY_BUT, IS_DELIM, NOT_DELIM,
      WORD_CHAR, NOT_WORD_CHAR, DIGIT, NOT_DIGIT, SPACE, SPACE_NL, NOT_SPACE, NOT_SPACE_NL, LETTER,
      NOT_LETTER]

theorem greedyLoop_run (st : ExecuteContext) (text : List Nat) (pred : Nat → Bool) (max_cmp : Nat) :
    ∀ (k fuel count input : Nat),
      (∀ i, i < k → count + i < max_cmp ∧ (pred (text.getD (input + i) 0) && !AT_END_OF_STRING st (input + i)) = true) →
      ¬ (count + k < max_cmp ∧ (pred (text.getD (input + k) 0) && !AT_END_OF_STRING st (input + k)) = true) →
      k < fuel →
      greedyLoop st text pred max_cmp fuel count input = some (count + k, input + k) := by
  intro k
  induction k with
  | zero =>
    intro fuel count input _ hstop hf
    obtain ⟨f, rfl⟩ : ∃ f, fuel = f + 1 := ⟨fuel - 1, by omega⟩
    rw [greedyLoop]
    simp only [Nat.add_zero, Bool.and_eq_true] at hstop
    rw [if_neg (by tauto)]
    rfl
  | succ k ih =>
    intro fuel count input hrun hstop hf
    obtain ⟨f, rfl⟩ : ∃ f, fuel = f + 1 := ⟨fuel - 1, by omega⟩
    rw [greedyLoop]
    have h0 := hrun 0 (by omega)
    simp only [Nat.add_zero, Bool.and_eq_true] at h0
    rw [if_pos (by tauto)]
    rw [ih f (count + 1) (input + 1) ?_ ?_ (by omega)]
    · congr 2 <;> omega
    · intro i hi
      have := hrun (i + 1) (by omega)
      rwa [show count + 1 + i = count + (i + 1) by omega, show input + 1 + i = input + (i + 1) by omega]
    · rwa [show count + 1 + k = count + (k + 1) by omega, show input + 1 + k = input + (k + 1) by omega]

theorem greedy_run (prog text : List Nat) (p : Ptr) (max : Int) (st : ExecuteContext)
    (hop : GET_OP_CODE prog p ∈ simpleOps) (k : Nat)
    (hrun : ∀ i, i < k → i < (if max > 0 then max.toNat else ULONG_MAX) ∧
      greedyStep prog text p st (st.Reg_Input + i) = true)
    (hstop : ¬ (k < (if max > 0 then max.toNat else ULONG_MAX) ∧
      greedyStep prog text p st (st.Reg_Input + k) = true))
    (hk : k ≤ text.length + 1) :
    greedy prog text p max st = some (k, { st with Reg_Input := st.Reg_Input + k }) := by
  obtain ⟨b, hb⟩ := greedyPred_simple st _ (cstring prog (OPERAND p)) 0 hop
  unfold greedy
  simp only [hb]
  rw [greedyLoop_run st text _ _ k (text.length + 2) 0 st.Reg_Input ?_ ?_ (by omega)]
  · simp only [Nat.zero_add]
  · intro i hi
    simpa only [Nat.zero_add, greedyStep] using hrun i hi
  · simpa only [Nat.zero_add, greedyStep] using hstop

theorem cstring_one (prog : List Nat) (q : Ptr) (h : (cstring prog q).length = 1) :
    cstring prog q = [GET_OP_CODE prog q] := by
  cases q with
  | prog i =>
    simp only [cstring, GET_OP_CODE] at h ⊢
    rcases hd : prog.drop i with _ | ⟨a, rest⟩
    · rw [hd] at h; simp at h
    · rw [hd] at h
      have ha : prog.getD i 0 = a := by
        have := congrArg (fun l => l.headD 0) hd
        simpa [List.headD_eq_head?_getD, List.head?_drop, List.getD_eq_getElem?_getD] using this
      rw [ha]
      by_cases h0 : a = 0
      · subst h0; simp [List.takeWhile] at h
      · simp only [List.takeWhile_cons, ne_eq, h0, not_false_eq_true, decide_True, if_true,
          List.length_cons, Nat.add_eq_right, List.length_eq_zero] at h ⊢
        rw [h]
  | null => simp [cstring] at h
  | one => simp [cstring] at h
  | size off => simp [cstring] at h

theorem matchCharTest_step (prog text : List Nat) (p : Ptr) (st : ExecuteContext) {o : Nat}
    (hop : GET_OP_CODE prog p = o)
    (hchar : o = IS_DELIM ∨ o = NOT_DELIM ∨ o = WORD_CHAR ∨ o = NOT_WORD_CHAR ∨ o = ANY ∨
      o = EVERY ∨ o = DIGIT ∨ o = NOT_DIGIT ∨ o = LETTER ∨ o = NOT_LETTER ∨ o = SPACE ∨
      o = SPACE_NL ∨ o = NOT_SPACE ∨ o = NOT_SPACE_NL ∨ o = ANY_OF ∨ o = ANY_BUT) :
    (matchCharTest prog p st o (text.getD st.Reg_Input 0)).getD false
      = greedyStep prog text p st st.Reg_Input := by
  simp only [greedyStep, matchCharTest]
  rw [hop]
  generalize text.getD st.Reg_Input 0 = c
  generalize AT_END_OF_STRING st st.Reg_Input = e
  rcases hchar with h | h | h | h | h | h | h | h | h | h | h | h | h | h | h | h <;> subst h <;>
    simp [greedyPred, IS_DELIM, NOT_DELIM, WORD_CHAR, NOT_WORD_CHAR, ANY,
      EVERY, DIGIT, NOT_DIGIT, LETTER, NOT_LETTER, SPACE, SPACE_NL, NOT_SPACE, NOT_SPACE_NL,
      ANY_OF, ANY_BUT, EXACTLY, SIMILAR] <;>
    cases e <;> simp

theorem case_EXACTLY_one (prog text : List Nat) (cont : Ptr → ExecuteContext → MatchResult)
    (p d : Ptr) (bip : Option Nat) (st : ExecuteContext)
    (hc : cstring prog (OPERAND p) = [GET_OP_CODE prog (OPERAND p)]) :
    case_EXACTLY prog text cont p d bip st
      = if (decide (GET_OP_CODE prog (OPERAND p) = text.getD st.Reg_Input 0) &&
            !AT_END_OF_STRING st st.Reg_Input) = true then
          cont d { st with Reg_Input := st.Reg_Input + 1 }
        else MATCH_RETURN false bip st := by
  unfold case_EXACTLY AT_END_OF_STRING
  simp only [hc, List.length_singleton]
  generalize text.getD st.Reg_Input 0 = c
  generalize GET_OP_CODE prog (OPERAND p) = x
  by_cases hx : x = c
  · cases st.End_Of_String with
    | none => simp [hx]
    | some e =>
      by_cases he : st.Reg_Input ≥ e
      · have h1 : st.Reg_Input + 1 > e := by omega
        simp [hx, he, h1]
      · have h1 : ¬ st.Reg_Input + 1 > e := by omega
        have h2 : ¬ e < st.Reg_Input + 1 := by omega
        have h3 : ¬ e ≤ st.Reg_Input := by omega
        simp [hx, h2, h3]
  · simp [hx]

theorem case_SIMILAR_one (prog text : List Nat) (cont : Ptr → ExecuteContext → MatchResult)
    (p d : Ptr) (bip : Option Nat) (st : ExecuteContext)
    (hc : cstring prog (OPERAND p) = [GET_OP_CODE prog (OPERAND p)]) :
    case_SIMILAR prog text cont p d bip st
      = if (decide (GET_OP_CODE prog (OPERAND p) = tolower (text.getD st.Reg_Input 0)) &&
            !AT_END_OF_STRING st st.Reg_Input) = true then
          cont d { st with Reg_Input := st.Reg_Input + 1 }
        else MATCH_RETURN false bip
          (if AT_END_OF_STRING st st.Reg_Input = true then st
           else { st with Reg_Input := st.Reg_Input + 1 }) := by
  unfold case_SIMILAR
  simp only [hc, similarLoop]
  generalize text.getD st.Reg_Input 0 = c
  generalize GET_OP_CODE prog (OPERAND p) = x
  generalize AT_END_OF_STRING st st.Reg_Input = e
  cases e with
  | true => simp
  | false =>
    by_cases hx : tolower c = x
    · simp [hx]
    · have hx' : ¬ x = tolower c := fun h => hx h.symm
      simp [hx, hx']

theorem matchLoop_simple (prog text : List Nat) (n : Nat) (bip : Option Nat)
    (st : ExecuteContext) (p : Ptr) (hop : GET_OP_CODE prog p ∈ simpleOps)
    (hone : GET_OP_CODE prog p = EXACTLY ∨ GET_OP_CODE prog p = SIMILAR →
      (cstring prog (OPERAND p)).length = 1) :
    (greedyStep prog text p st st.Reg_Input = true →
      matchLoop prog text (n + 1) p bip st
        = matchLoop prog text n (NEXT_PTR prog p) bip { st with Reg_Input := st.Reg_Input + 1 }) ∧
    (greedyStep prog text p st st.Reg_Input = false →
      ∃ st', matchLoop prog text (n + 1) p bip st = MATCH_RETURN false bip st') := by
  by_cases hE : GET_OP_CODE prog p = EXACTLY
  · have hc := cstring_one prog _ (hone (Or.inl hE))
    have hs : greedyStep prog text p st st.Reg_Input
        = (decide (GET_OP_CODE prog (OPERAND p) = text.getD st.Reg_Input 0) &&
            !AT_END_OF_STRING st st.Reg_Input) := by
      simp only [greedyStep, hE, greedyPred, hc, List.headD_cons]
      simp only [ANY, EVERY, EXACTLY]
      rfl
    rw [matchLoop_EXACTLY prog text n bip st hE rfl, case_EXACTLY_one _ _ _ _ _ _ _ hc, hs]
    constructor
    · intro h; rw [if_pos h]
    · intro h; rw [if_neg (by rw [h]; exact Bool.false_ne_true)]; exact ⟨_, rfl⟩
  · by_cases hS : GET_OP_CODE prog p = SIMILAR
    · have hc := cstring_one prog _ (hone (Or.inr hS))
      have hs : greedyStep prog text p st st.Reg_Input
          = (decide (GET_OP_CODE prog (OPERAND p) = tolower (text.getD st.Reg_Input 0)) &&
              !AT_END_OF_STRING st st.Reg_Input) := by
        simp only [greedyStep, hS, greedyPred, hc, List.headD_cons]
        simp only [ANY, EVERY, EXACTLY, SIMILAR]
        rfl
      rw [matchLoop_SIMILAR prog text n bip st hS rfl, case_SIMILAR_one _ _ _ _ _ _ _ hc, hs]
      constructor
      · intro h; rw [if_pos h]
      · intro h; rw [if_neg (by rw [h]; exact Bool.false_ne_true)]; exact ⟨_, rfl⟩
    · have hchar : GET_OP_CODE prog p = IS_DELIM ∨ GET_OP_CODE prog p = NOT_DELIM ∨
          GET_OP_CODE prog p = WORD_CHAR ∨ GET_OP_CODE prog p = NOT_WORD_CHAR ∨
          GET_OP_CODE prog p = ANY ∨ GET_OP_CODE prog p = EVERY ∨ GET_OP_CODE prog p = DIGIT ∨
          GET_OP_CODE prog p = NOT_DIGIT ∨ GET_OP_CODE prog p = LETTER ∨
          GET_OP_CODE prog p = NOT_LETTER ∨ GET_OP_CODE prog p = SPACE ∨
          GET_OP_CODE prog p = SPACE_NL ∨ GET_OP_CODE prog p = NOT_SPACE ∨
          GET_OP_CODE prog p = NOT_SPACE_NL ∨ GET_OP_CODE prog p = ANY_OF ∨
          GET_OP_CODE prog p = ANY_BUT := by
        simp only [simpleOps, List.mem_cons, List.mem_singleton, List.not_mem_nil, or_false] at hop
        rcases hop with h | h | h | h | h | h | h | h | h | h | h | h | h | h | h | h | h | h <;>
          first
          | exact absurd h hE
          | exact absurd h hS
          | simp only [h, true_or, or_true]
      rw [matchLoop_char prog text n bip st rfl hchar rfl,
        matchCharTest_step prog text p st rfl hchar]
      constructor
      · intro h; rw [if_pos h]
      · intro h; rw [if_neg (by rw [h]; exact Bool.false_ne_true)]; exact ⟨_, rfl⟩

/-- C39: for a node `p` with one of the opcodes of `greedy` whose operand, when the
opcode is `EXACTLY` or `SIMILAR`, is one character long, `greedy(p, 1)` returns 0 or 1 and
moves `Reg_Input` by that count; it returns 1 exactly when the character at the cursor
passes the test of the node before the logical end, and then the case of `match` for `p`
consumes that character and goes on with the next node, while otherwise `match` returns
failure at `p`. -/
theorem greedy_one_agrees_with_match (prog text : List Nat) (p : Ptr) (st : ExecuteContext)
    (hop : GET_OP_CODE prog p ∈ simpleOps)
    (hone : GET_OP_CODE prog p = EXACTLY ∨ GET_OP_CODE prog p = SIMILAR →
      (cstring prog (OPERAND p)).length = 1) :
    ∃ k, greedy prog text p 1 st = some (k, { st with Reg_Input := st.Reg_Input + k }) ∧
      (k = 0 ∨ k = 1) ∧ (k = 1 ↔ greedyStep prog text p st st.Reg_Input = true) ∧
      ∀ (n : Nat) (bip : Option Nat),
        (k = 1 → matchLoop prog text (n + 1) p bip st
          = matchLoop prog text n (NEXT_PTR prog p) bip
              { st with Reg_Input := st.Reg_Input + 1 }) ∧
        (k = 0 → ∃ st', matchLoop prog text (n + 1) p bip st = MATCH_RETURN false bip st') := by
  by_cases hs : greedyStep prog text p st st.Reg_Input = true
  · refine ⟨1, greedy_run prog text p 1 st hop 1 ?_ ?_ (by omega), Or.inr rfl, by simp [hs], ?_⟩
    · intro i hi
      obtain rfl : i = 0 := by omega
      exact ⟨by simp, by simpa using hs⟩
    · simp
    · intro n bip
      exact ⟨fun _ => (matchLoop_simple prog text n bip st p hop hone).1 hs,
        fun h => absurd h (by decide)⟩
  · have hs' : greedyStep prog text p st st.Reg_Input = false := by simpa using hs
    refine ⟨0, greedy_run prog text p 1 st hop 0 ?_ ?_ (by omega), Or.inl rfl, by simp [hs'], ?_⟩
    · intro i hi; omega
    · simp [hs']
    · intro n bip
      exact ⟨fun h => absurd h (by decide),
        fun _ => (matchLoop_simple prog text n bip st p hop hone).2 hs'⟩

theorem greedy_one_agrees_with_match_witness :
    GET_OP_CODE (literalProgram EXACTLY (strBytes "a")) (Ptr.prog 6) ∈ simpleOps ∧
      (GET_OP_CODE (literalProgram EXACTLY (strBytes "a")) (Ptr.prog 6) = EXACTLY ∨
          GET_OP_CODE (literalProgram EXACTLY (strBytes "a")) (Ptr.prog 6) = SIMILAR →
        (cstring (literalProgram EXACTLY (strBytes "a")) (OPERAND (Ptr.prog 6))).length = 1) ∧
      ∃ k, greedy (literalProgram EXACTLY (strBytes "a")) (strBytes "ab") (Ptr.prog 6) 1
            (textContext (strBytes "ab"))
          = some (k, { textContext (strBytes "ab") with
              Reg_Input := (textContext (strBytes "ab")).Reg_Input + k }) ∧
        (k = 0 ∨ k = 1) ∧
        (k = 1 ↔ greedyStep (literalProgram EXACTLY (strBytes "a")) (strBytes "ab") (Ptr.prog 6)
          (textContext (strBytes "ab")) (textContext (strBytes "ab")).Reg_Input = true) :=
  ⟨by decide, by decide,
    (greedy_one_agrees_with_match (literalProgram EXACTLY (strBytes "a")) (strBytes "ab")
      (Ptr.prog 6) (textContext (strBytes "ab")) (by decide) (by decide)).imp
      fun _ h => ⟨h.1, h.2.1, h.2.2.1⟩⟩


/-! ## The functions `tail` and `insert` of the emitter -/

theorem next_ptr_prog_null (prog : List Nat) (a : Nat) :
    next_ptr prog (Ptr.prog a) = Ptr.null ↔ GET_OFFSET prog (Ptr.prog a) = 0 := by
  unfold next_ptr
  rw [if_neg (by simp [Compute_Size])]
  by_cases h : GET_OFFSET prog (Ptr.prog a) = 0
  · simp [h]
  · simp only [h, if_false, iff_false]
    split_ifs <;> simp [Ptr.add]

theorem tailScan_chain (prog : List Nat) :
    ∀ (k fuel : Nat) (start : Ptr), k < fuel →
      (∀ j, j < k → next_ptr prog (chainNode prog start j) ≠ Ptr.null) →
      next_ptr prog (chainNode prog start k) = Ptr.null →
      tailScan fuel prog start = some (chainNode prog start k) := by
  intro k
  induction k with
  | zero =>
    intro fuel start hf _ hlast
    obtain ⟨f, rfl⟩ : ∃ f, fuel = f + 1 := ⟨fuel - 1, by omega⟩
    simp only [chainNode] at hlast
    simp only [tailScan, hlast, if_true, chainNode]
  | succ k ih =>
    intro fuel start hf hbefore hlast
    obtain ⟨f, rfl⟩ : ∃ f, fuel = f + 1 := ⟨fuel - 1, by omega⟩
    have h0 := hbefore 0 (by omega)
    simp only [chainNode] at h0 hlast
    simp only [tailScan, h0, if_false, chainNode]
    exact ih f _ (by omega) (fun j hj => hbefore (j + 1) (by omega)) hlast

theorem chainNode_succ (prog : List Nat) (start : Ptr) (k : Nat) :
    chainNode prog start (k + 1) = next_ptr prog (chainNode prog start k) := by
  induction k generalizing start with
  | zero => rfl
  | succ k ih => rw [chainNode, ih, chainNode]

theorem tail_at (ctx : ParseContext) (s i k : Nat) (target : Ptr)
    (hk : k ≤ ctx.program.length)
    (hbefore : ∀ j, j < k → GET_OFFSET ctx.program (chainNode ctx.program (Ptr.prog s) j) ≠ 0)
    (hnode : chainNode ctx.program (Ptr.prog s) k = Ptr.prog i)
    (hlast : GET_OFFSET ctx.program (Ptr.prog i) = 0) :
    tail (Ptr.prog s) target ctx = Except.ok (PUnit.unit,
      { ctx with
        program := (ctx.program.set (i + 1)
          (PUT_OFFSET_L (if GET_OP_CODE ctx.program (Ptr.prog i) = BACK
            then (i : Int) - target.toInt else target.toInt - (i : Int)) % 256)).set (i + 2)
          (PUT_OFFSET_R (if GET_OP_CODE ctx.program (Ptr.prog i) = BACK
            then (i : Int) - target.toInt else target.toInt - (i : Int)) % 256) }) := by
  have hb : ∀ j, j < k → next_ptr ctx.program (chainNode ctx.program (Ptr.prog s) j) ≠ Ptr.null := by
    intro j hj hnull
    apply hbefore j hj
    cases hc : chainNode ctx.program (Ptr.prog s) j with
    | prog a => rw [hc] at hnull; exact (next_ptr_prog_null _ _).mp hnull
    | null => rfl
    | one => rfl
    | size off => rfl
  have hl : next_ptr ctx.program (chainNode ctx.program (Ptr.prog s) k) = Ptr.null := by
    rw [hnode]; exact (next_ptr_prog_null _ _).mpr hlast
  have hscan := tailScan_chain ctx.program k (ctx.program.length + 1) (Ptr.prog s) (by omega) hb hl
  unfold tail
  rw [if_neg (by simp [Compute_Size]), hscan, hnode]
  simp only [poke, Ptr.add, Ptr.toInt]
  by_cases hop : GET_OP_CODE ctx.program (Ptr.prog i) = BACK
  · simp only [hop, if_true]
    rfl
  · simp only [hop, if_false]
    rfl

theorem chainNode_add (prog : List Nat) : ∀ (a b : Nat) (start : Ptr),
    chainNode prog start (a + b) = chainNode prog (chainNode prog start a) b := by
  intro a
  induction a with
  | zero => intro b start; simp [chainNode]
  | succ a ih =>
    intro b start
    rw [show a + 1 + b = (a + b) + 1 by omega, chainNode, ih, chainNode]

theorem GET_OFFSET_room (prog : List Nat) (q : Ptr) (h : GET_OFFSET prog q ≠ 0) :
    ∃ a, q = Ptr.prog a ∧ a + 1 < prog.length := by
  cases q with
  | prog a =>
    refine ⟨a, rfl, ?_⟩
    by_contra hlt
    apply h
    have h1 : prog.getD (a + 1) 0 = 0 := by
      rw [List.getD_eq_getElem?_getD, List.getElem?_eq_none (by omega)]; rfl
    have h2 : prog.getD (a + 2) 0 = 0 := by
      rw [List.getD_eq_getElem?_getD, List.getElem?_eq_none (by omega)]; rfl
    simp only [GET_OFFSET]
    rw [h1, h2]
    rfl
  | null => exact absurd rfl h
  | one => exact absurd rfl h
  | size off => exact absurd rfl h

/-- A chain of next pointers that reaches a node with a zero offset after `k` links has
fewer links than the program has bytes. -/
theorem chain_length_le (prog : List Nat) (start : Ptr) (k : Nat)
    (hbefore : ∀ j, j < k → GET_OFFSET prog (chainNode prog start j) ≠ 0)
    (hlast : GET_OFFSET prog (chainNode prog start k) = 0) : k ≤ prog.length := by
  have hcard := Finset.card_le_card_of_injOn (s := Finset.range k) (t := Finset.range prog.length)
    (fun j => (chainNode prog start j).toInt.toNat) ?_ ?_
  · simpa using hcard
  · intro j hj
    obtain ⟨a, ha, hlt⟩ := GET_OFFSET_room prog _ (hbefore j (by simpa using hj))
    simp [ha, Ptr.toInt]
    omega
  · intro j1 hj1 j2 hj2 heq
    simp only [Finset.coe_range, Set.mem_Iio] at hj1 hj2
    obtain ⟨a1, ha1, -⟩ := GET_OFFSET_room prog _ (hbefore j1 hj1)
    obtain ⟨a2, ha2, -⟩ := GET_OFFSET_room prog _ (hbefore j2 hj2)
    simp only [ha1, ha2, Ptr.toInt, Int.toNat_ofNat] at heq
    have hsame : chainNode prog start j1 = chainNode prog start j2 := by rw [ha1, ha2, heq]
    by_contra hne
    rcases Nat.lt_or_gt_of_ne hne with hlt | hlt
    · have := chainNode_add prog j2 (k - j2) start
      rw [← hsame, ← chainNode_add, show j2 + (k - j2) = k by omega] at this
      apply hbefore (j1 + (k - j2)) (by omega)
      rw [← this]; exact hlast
    · have := chainNode_add prog j1 (k - j1) start
      rw [hsame, ← chainNode_add, show j1 + (k - j1) = k by omega] at this
      apply hbefore (j2 + (k - j1)) (by omega)
      rw [← this]; exact hlast

theorem getD_set_set (P : List Nat) (i a b j : Nat) (hroom : i + 2 < P.length) :
    ((P.set (i + 1) a).set (i + 2) b).getD j 0
      = if j = i + 2 then b else if j = i + 1 then a else P.getD j 0 := by
  simp only [List.getD_eq_getElem?_getD, List.getElem?_set, List.length_set]
  by_cases h2 : j = i + 2
  · subst h2; simp [hroom]
  · by_cases h1 : j = i + 1
    · subst h1
      have : i + 1 < P.length := by omega
      simp [this]
    · have e2 : ¬ i + 2 = j := fun h => h2 h.symm
      have e1 : ¬ i + 1 = j := fun h => h1 h.symm
      simp [h1, h2, e1, e2]

/-- C37: in the emitting pass, when the chain of next pointers from `start` reaches after
`k` links the first node with a zero next offset, the node at `i`, and its two offset bytes
lie inside the buffer, `tail(start, target)` returns normally and changes nothing but the
program, of which it rewrites only the bytes `i + 1` and `i + 2`, storing the high and the
low byte of `i - target` when the node is a `BACK` node and of `target - i` otherwise;
afterwards `next_ptr` of the node is `target` whenever `target` lies 1 to 65535 bytes after
the node (before it, for a `BACK` node); and in the sizing pass, where `start` is
`&Compute_Size`, `tail` does nothing. -/
theorem tail_patches_chain_end (ctx : ParseContext) (s i k : Nat) (target : Ptr)
    (hbefore : ∀ j, j < k → GET_OFFSET ctx.program (chainNode ctx.program (Ptr.prog s) j) ≠ 0)
    (hnode : chainNode ctx.program (Ptr.prog s) k = Ptr.prog i)
    (hlast : GET_OFFSET ctx.program (Ptr.prog i) = 0)
    (hroom : i + 2 < ctx.program.length) :
    ∃ P' : List Nat,
      tail (Ptr.prog s) target ctx = Except.ok (PUnit.unit, { ctx with program := P' }) ∧
      P'.length = ctx.program.length ∧
      (∀ j, j ≠ i + 1 → j ≠ i + 2 → P'.getD j 0 = ctx.program.getD j 0) ∧
      P'.getD (i + 1) 0 = PUT_OFFSET_L (if GET_OP_CODE ctx.program (Ptr.prog i) = BACK
          then (i : Int) - target.toInt else target.toInt - (i : Int)) ∧
      P'.getD (i + 2) 0 = PUT_OFFSET_R (if GET_OP_CODE ctx.program (Ptr.prog i) = BACK
          then (i : Int) - target.toInt else target.toInt - (i : Int)) ∧
      (∀ t d : Nat, target = Ptr.prog t → 1 ≤ d → d ≤ 65535 →
        (if GET_OP_CODE ctx.program (Ptr.prog i) = BACK then t + d = i else t = i + d) →
        next_ptr P' (Ptr.prog i) = target) ∧
      ∀ (ctx' : ParseContext) (target' : Ptr),
        tail Compute_Size target' ctx' = Except.ok (PUnit.unit, ctx') := by
  have hk : k ≤ ctx.program.length :=
    chain_length_le ctx.program (Ptr.prog s) k hbefore (by rw [hnode]; exact hlast)
  have hL : ∀ v : Int, PUT_OFFSET_L v % 256 = PUT_OFFSET_L v := by
    intro v; unfold PUT_OFFSET_L; omega
  have hR : ∀ v : Int, PUT_OFFSET_R v % 256 = PUT_OFFSET_R v := by
    intro v; unfold PUT_OFFSET_R; omega
  refine ⟨_, tail_at ctx s i k target hk hbefore hnode hlast, ?_, ?_, ?_, ?_, ?_, ?_⟩
  · simp only [List.length_set]
  · intro j h1 h2
    rw [getD_set_set _ _ _ _ _ hroom, if_neg h2, if_neg h1]
  · rw [getD_set_set _ _ _ _ _ hroom, if_neg (by omega), if_pos rfl, hL]
  · rw [getD_set_set _ _ _ _ _ hroom, if_pos rfl, hR]
  · intro t d ht hd1 hd2 hpos
    subst ht
    have hoff : (if GET_OP_CODE ctx.program (Ptr.prog i) = BACK
          then (i : Int) - (Ptr.prog t).toInt else (Ptr.prog t).toInt - (i : Int)) = (d : Int) := by
      simp only [Ptr.toInt]
      split_ifs at hpos ⊢ <;> omega
    rw [hoff]
    have hget : GET_OFFSET ((ctx.program.set (i + 1) (PUT_OFFSET_L (d : Int) % 256)).set (i + 2)
        (PUT_OFFSET_R (d : Int) % 256)) (Ptr.prog i) = d := by
      simp only [GET_OFFSET]
      rw [getD_set_set _ _ _ _ _ hroom, getD_set_set _ _ _ _ _ hroom, if_neg (by omega),
        if_pos rfl, if_pos rfl, hL, hR]
      exact get_put_offset d (by omega)
    have hopc : GET_OP_CODE ((ctx.program.set (i + 1) (PUT_OFFSET_L (d : Int) % 256)).set (i + 2)
        (PUT_OFFSET_R (d : Int) % 256)) (Ptr.prog i) = GET_OP_CODE ctx.program (Ptr.prog i) := by
      simp only [GET_OP_CODE]
      rw [getD_set_set _ _ _ _ _ hroom, if_neg (by omega), if_neg (by omega)]
    unfold next_ptr
    rw [if_neg (by simp [Compute_Size]), hget, hopc]
    simp only [show ¬ d = 0 by omega, if_false, Ptr.add]
    split_ifs at hpos ⊢
    · congr 1; omega
    · congr 1; omega
  · intro ctx' target'
    simp only [tail, if_true]
theorem tail_patches_chain_end_witness :
    (∀ j, j < 1 → GET_OFFSET (emitContext [34, 0, 3, 7, 0, 0, 97, 0, 1, 0, 0] (Ptr.prog 11)).program
        (chainNode (emitContext [34, 0, 3, 7, 0, 0, 97, 0, 1, 0, 0] (Ptr.prog 11)).program
          (Ptr.prog 0) j) ≠ 0) ∧
      chainNode (emitContext [34, 0, 3, 7, 0, 0, 97, 0, 1, 0, 0] (Ptr.prog 11)).program
        (Ptr.prog 0) 1 = Ptr.prog 3 ∧
      GET_OFFSET (emitContext [34, 0, 3, 7, 0, 0, 97, 0, 1, 0, 0] (Ptr.prog 11)).program
        (Ptr.prog 3) = 0 ∧
      3 + 2 < (emitContext [34, 0, 3, 7, 0, 0, 97, 0, 1, 0, 0] (Ptr.prog 11)).program.length ∧
      ∃ P' : List Nat,
        tail (Ptr.prog 0) (Ptr.prog 8) (emitContext [34, 0, 3, 7, 0, 0, 97, 0, 1, 0, 0] (Ptr.prog 11))
          = Except.ok (PUnit.unit,
              { emitContext [34, 0, 3, 7, 0, 0, 97, 0, 1, 0, 0] (Ptr.prog 11) with program := P' }) ∧
        next_ptr P' (Ptr.prog 3) = Ptr.prog 8 :=
  ⟨by decide, by decide, by decide, by decide,
    (tail_patches_chain_end (emitContext [34, 0, 3, 7, 0, 0, 97, 0, 1, 0, 0] (Ptr.prog 11)) 0 3 1
      (Ptr.prog 8) (by decide) (by decide) (by decide) (by decide)).imp
      fun _ h => ⟨h.1, h.2.2.2.2.2.1 8 5 rfl (by decide) (by decide) (by decide)⟩⟩

/-- C38: in the emitting pass, with the program `A ++ B ++ Z`, the emit cursor behind `B` and
room for the new node in `Z`, `insert(op, pos, min, max, index)` at `pos = |A|` leaves `A`
unchanged, moves `B` up by the size `s` of the new node, writes the node at `pos`, sets the
emit cursor to `|A| + |B| + s` and returns `pos + s`, changing nothing else; `s` is 7 for
`BRACE` and `LAZY_BRACE`, 4 for `INIT_COUNT` and 3 otherwise; the node is the opcode, a zero
next offset and then the high and low bytes of `min` and of `max` for `BRACE` and
`LAZY_BRACE`, or the index byte for `INIT_COUNT`; in the sizing pass `insert` only adds `s`
to `Reg_Size` and returns `&Compute_Size`. -/
theorem insert_relocates (op min max index : Nat) (ctx : ParseContext) (A B Z : List Nat)
    (hprog : ctx.program = A ++ B ++ Z)
    (hptr : ctx.Code_Emit_Ptr = Ptr.prog (A.length + B.length))
    (hZ : (insertNode op min max index).length ≤ Z.length) :
    insert op (Ptr.prog A.length) min max index ctx
        = Except.ok (Ptr.prog (A.length + (insertNode op min max index).length),
            { ctx with
              program := A ++ insertNode op min max index ++ B
                ++ Z.drop (insertNode op min max index).length
              Code_Emit_Ptr := Ptr.prog (A.length + B.length
                + (insertNode op min max index).length) }) ∧
      (insertNode op min max index).length
        = (if op = BRACE ∨ op = LAZY_BRACE then 7 else if op = INIT_COUNT then 4 else 3) ∧
      (op < 256 → min ≤ 65535 → max ≤ 65535 → index < 256 →
        insertNode op min max index
          = if op = BRACE ∨ op = LAZY_BRACE then
              [op, 0, 0, min / 256, min % 256, max / 256, max % 256]
            else if op = INIT_COUNT then [op, 0, 0, index] else [op, 0, 0]) ∧
      ∀ (pos : Ptr) (ctx' : ParseContext), ctx'.Code_Emit_Ptr = Compute_Size →
        insert op pos min max index ctx' = Except.ok (Compute_Size,
          { ctx' with Reg_Size := ctx'.Reg_Size + (insertNode op min max index).length }) := by
  refine ⟨insert_at op min max index ctx A B Z hprog hptr hZ, ?_, ?_,
    fun pos ctx' h => insert_sizing op min max index pos ctx' h⟩
  · rw [insertNode_length]; rfl
  · intro hop hmin hmax hidx
    have h1 := put_offset_bytes min hmin
    have h2 := put_offset_bytes max hmax
    simp only [insertNode, PUT_OFFSET_L, PUT_OFFSET_R, h1.1, h1.2, h2.1, h2.2,
      Nat.mod_eq_of_lt hop, Nat.mod_eq_of_lt hidx]

theorem insert_relocates_witness :
    (emitContext [156, 0, 0, 7, 0, 0, 97, 0, 0, 0, 0] (Ptr.prog 8)).program
        = [156, 0, 0] ++ [7, 0, 0, 97, 0] ++ [0, 0, 0] ∧
      (emitContext [156, 0, 0, 7, 0, 0, 97, 0, 0, 0, 0] (Ptr.prog 8)).Code_Emit_Ptr
        = Ptr.prog ([156, 0, 0].length + [7, 0, 0, 97, 0].length) ∧
      (insertNode STAR 0 0 0).length ≤ [0, 0, 0].length ∧
      insert STAR (Ptr.prog [156, 0, 0].length) 0 0 0
          (emitContext [156, 0, 0, 7, 0, 0, 97, 0, 0, 0, 0] (Ptr.prog 8))
        = Except.ok (Ptr.prog ([156, 0, 0].length + (insertNode STAR 0 0 0).length),
            { emitContext [156, 0, 0, 7, 0, 0, 97, 0, 0, 0, 0] (Ptr.prog 8) with
              program := [156, 0, 0] ++ insertNode STAR 0 0 0 ++ [7, 0, 0, 97, 0]
                ++ [0, 0, 0].drop (insertNode STAR 0 0 0).length
              Code_Emit_Ptr := Ptr.prog ([156, 0, 0].length + [7, 0, 0, 97, 0].length
                + (insertNode STAR 0 0 0).length) }) :=
  ⟨rfl, rfl, by decide,
    (insert_relocates STAR 0 0 0 (emitContext [156, 0, 0, 7, 0, 0, 97, 0, 0, 0, 0] (Ptr.prog 8))
      [156, 0, 0] [7, 0, 0, 97, 0] [0, 0, 0] rfl rfl (by decide)).1⟩

/-! ## The look-ahead cases of `match` -/

theorem skipBranches_some (prog : List Nat) :
    ∀ (fuel : Nat) (q : Ptr), 0 < fuel → prog.length < fuel + q.toInt.toNat →
      ∃ close, skipBranches prog fuel q = some close := by
  intro fuel
  induction fuel with
  | zero => intro q h0; omega
  | succ f ih =>
    intro q _ h
    rw [skipBranches]
    by_cases hb : GET_OP_CODE prog q = BRANCH
    · rw [if_pos hb]
      cases q with
      | prog a =>
        have ha : a < prog.length := by
          by_contra hlt
          simp only [GET_OP_CODE, List.getD_eq_getElem?_getD,
            List.getElem?_eq_none (Nat.le_of_not_lt hlt)] at hb
          exact absurd hb (by decide)
        simp only [Ptr.toInt, Int.toNat_ofNat] at h
        by_cases h0 : GET_OFFSET prog (Ptr.prog a) = 0
        · have : next_ptr prog (Ptr.prog a) = Ptr.null := (next_ptr_prog_null _ _).mpr h0
          rw [this]
          cases f with
          | zero => omega
          | succ f' => exact ⟨Ptr.null, by simp [skipBranches, GET_OP_CODE, BRANCH]⟩
        · apply ih _ (by omega)
          unfold next_ptr
          rw [if_neg (by simp [Compute_Size]), if_neg h0,
            if_neg (by rw [hb]; decide)]
          simp only [Ptr.add, Ptr.toInt, Int.toNat_ofNat]
          have : 0 < GET_OFFSET prog (Ptr.prog a) := Nat.pos_of_ne_zero h0
          omega
      | null => simp [GET_OP_CODE, BRANCH] at hb
      | one => simp [GET_OP_CODE, BRANCH] at hb
      | size off => simp [GET_OP_CODE, BRANCH] at hb
    · rw [if_neg hb]
      exact ⟨q, rfl⟩

theorem skipBranches_total (prog : List Nat) (q : Ptr) :
    ∃ close, skipBranches prog (prog.length + 1) q = some close :=
  skipBranches_some prog _ q (by omega) (by omega)

/-- C32, amended: at a `POS_AHEAD_OPEN` or `NEG_AHEAD_OPEN` node `p`, whatever the call of
`match` on the sub-pattern (made with the logical end lifted) returns, as long as it does
not leave `Recursion_Limit_Exceeded` set: the chain of branches of the construct is skipped
to its closing node, and `match` goes on at the node after it when the sub-pattern matched
(positive) or did not match (negative), and returns failure otherwise, in both cases in a
context whose `Reg_Input` and `End_Of_String` are those before the node. -/
theorem look_ahead_restores (prog text : List Nat) (n : Nat) (p : Ptr) (bip : Option Nat)
    (st : ExecuteContext) (answer : Bool)
    (hop : GET_OP_CODE prog p = POS_AHEAD_OPEN ∨ GET_OP_CODE prog p = NEG_AHEAD_OPEN)
    (hsub : (match_ prog text n (NEXT_PTR prog p) none { st with End_Of_String := none }).map
        (fun r => (r.1, r.2.2.Recursion_Limit_Exceeded)) = some (answer, false)) :
    ∃ (st2 : ExecuteContext) (close : Ptr),
      skipBranches prog (prog.length + 1) (next_ptr prog (OPERAND p)) = some close ∧
      st2.Reg_Input = st.Reg_Input ∧ st2.End_Of_String = st.End_Of_String ∧
      matchLoop prog text (n + 1) p bip st
        = if answer = decide (GET_OP_CODE prog p = POS_AHEAD_OPEN) then
            matchLoop prog text n (next_ptr prog close) bip st2
          else MATCH_RETURN false bip st2 := by
  obtain ⟨close, hclose⟩ := skipBranches_total prog (next_ptr prog (OPERAND p))
  rw [matchLoop_AHEAD prog text n bip st rfl hop rfl]
  unfold case_AHEAD
  beta_reduce
  cases hm : match_ prog text n (NEXT_PTR prog p) none { st with End_Of_String := none } with
  | none => rw [hm] at hsub; simp at hsub
  | some r =>
    obtain ⟨a, b, st1⟩ := r
    rw [hm] at hsub
    simp only [Option.map_some', Option.some.injEq, Prod.mk.injEq] at hsub
    obtain ⟨rfl, hlim⟩ := hsub
    have hl : ¬ st1.Recursion_Limit_Exceeded = true := by rw [hlim]; exact Bool.false_ne_true
    simp only [hclose]
    rw [if_neg hl]
    rcases hop with h | h
    · cases a
      · exact ⟨{ st1 with Reg_Input := st.Reg_Input, End_Of_String := st.End_Of_String }, close,
          rfl, rfl, rfl, by simp [h]⟩
      · exact ⟨{ extentFW st1 with Reg_Input := st.Reg_Input, End_Of_String := st.End_Of_String },
          close, rfl, rfl, rfl, by simp [h]⟩
    · have hne : ¬ NEG_AHEAD_OPEN = POS_AHEAD_OPEN := by decide
      cases a
      · exact ⟨{ extentFW st1 with Reg_Input := st.Reg_Input, End_Of_String := st.End_Of_String },
          close, rfl, rfl, rfl, by simp [h, hne]⟩
      · exact ⟨{ st1 with Reg_Input := st.Reg_Input, End_Of_String := st.End_Of_String }, close,
          rfl, rfl, rfl, by simp [h, hne]⟩

theorem look_ahead_restores_witness :
    (GET_OP_CODE program_lookahead (Ptr.prog 6) = POS_AHEAD_OPEN ∨
        GET_OP_CODE program_lookahead (Ptr.prog 6) = NEG_AHEAD_OPEN) ∧
      (match_ program_lookahead (strBytes "a") 10 (NEXT_PTR program_lookahead (Ptr.prog 6)) none
          { textContext (strBytes "a") with End_Of_String := none }).map
        (fun r => (r.1, r.2.2.Recursion_Limit_Exceeded)) = some (true, false) ∧
      ∃ (st2 : ExecuteContext) (close : Ptr),
        skipBranches program_lookahead (program_lookahead.length + 1)
          (next_ptr program_lookahead (OPERAND (Ptr.prog 6))) = some close ∧
        st2.Reg_Input = (textContext (strBytes "a")).Reg_Input ∧
        st2.End_Of_String = (textContext (strBytes "a")).End_Of_String ∧
        matchLoop program_lookahead (strBytes "a") (10 + 1) (Ptr.prog 6) none
            (textContext (strBytes "a"))
          = if true = decide (GET_OP_CODE program_lookahead (Ptr.prog 6) = POS_AHEAD_OPEN) then
              matchLoop program_lookahead (strBytes "a") 10 (next_ptr program_lookahead close)
                none st2
            else MATCH_RETURN false none st2 :=
  ⟨by decide, by decide!,
    look_ahead_restores program_lookahead (strBytes "a") 10 (Ptr.prog 6) none
      (textContext (strBytes "a")) true (by decide) (by decide!)⟩

/-- C32, a case in which the boundary is not restored: the program of `(?=a)` is entered on
`"a"` with the logical end at 1 and the recursion counter one below its ceiling; the call
of `match` on the sub-pattern exceeds the ceiling, and the call on the whole program returns
failure with `End_Of_String` still lifted (null), while entered with the counter at zero it
returns success with the end at 1 again. -/
theorem look_ahead_abort_leaves_end_lifted :
    (textContext (strBytes "a")).End_Of_String = some 1 ∧
      (match_ program_lookahead (strBytes "a") 12 (Ptr.prog 3) none
          { textContext (strBytes "a") with Recursion_Count := REGEX_RECURSION_LIMIT - 1 }).map
        (fun r => (r.1, r.2.2.End_Of_String, r.2.2.Reg_Input, r.2.2.Recursion_Limit_Exceeded))
        = some (false, none, 0, true) ∧
      (match_ program_lookahead (strBytes "a") 12 (Ptr.prog 3) none
          (textContext (strBytes "a"))).map
        (fun r => (r.1, r.2.2.End_Of_String, r.2.2.Reg_Input, r.2.2.Recursion_Limit_Exceeded))
        = some (true, some 1, 0, false) ∧
      compiled (strBytes "(?=a)") 0 = Except.ok (program_lookahead, 0, 0) := by
  refine ⟨by decide, by decide!, by decide!, by decide!⟩

/-! ## Inputs on which the compiler and the search depart from their description -/

/-- C34, failing inputs: the class `[\D]` gets the same operand as `[\d]`, the ten digits,
so it matches `"5"` and does not match `"a"`, the opposite of `\D` outside a class; in the
same way `[\S]` matches a blank and `[\W]` matches a letter.  In `shortcut_escape` the case
of the letter decides between the node and its negation only when a node is emitted; the
class bytes are those of the lower-case escape. -/
theorem class_escape_ignores_negation :
    compiled (strBytes "[\\D]") 0
        = Except.ok ([156, 0, 0, 34, 0, 17, 9, 0, 14, 48, 49, 50, 51, 52, 53, 54, 55, 56, 57, 0,
            1, 0, 0], 0, 0) ∧
      compiled (strBytes "[\\d]") 0 = compiled (strBytes "[\\D]") 0 ∧
      compiled (strBytes "\\D") 0 = Except.ok ([156, 0, 0, 34, 0, 6, 14, 0, 3, 1, 0, 0], 0, 0) ∧
      (compileAndExecute 100 (strBytes "[\\D]") 0 (strBytes "5")).map
          (fun r => (r.1, r.2.2.head?)) = some (true, some (some 0, some 1)) ∧
      (compileAndExecute 100 (strBytes "\\D") 0 (strBytes "5")).map (fun r => r.1)
          = some false ∧
      (compileAndExecute 100 (strBytes "[\\D]") 0 (strBytes "a")).map (fun r => r.1)
          = some false ∧
      (compileAndExecute 100 (strBytes "\\D") 0 (strBytes "a")).map
          (fun r => (r.1, r.2.2.head?)) = some (true, some (some 0, some 1)) ∧
      (compileAndExecute 100 (strBytes "[\\S]") 0 (strBytes " ")).map (fun r => r.1)
          = some true ∧
      (compileAndExecute 100 (strBytes "\\S") 0 (strBytes " ")).map (fun r => r.1)
          = some false ∧
      (compileAndExecute 100 (strBytes "[\\W]") 0 (strBytes "a")).map (fun r => r.1)
          = some true ∧
      (compileAndExecute 100 (strBytes "\\W") 0 (strBytes "a")).map (fun r => r.1)
          = some false := by
  refine ⟨by decide!, by decide!, by decide!, by decide!, by decide!, by decide!, by decide!,
    by decide!, by decide!, by decide!, by decide!⟩

/-- C35, failing inputs: when the escape is the last thing in the pattern, the digit loop
of `numeric_escape` looks the terminator up in the digit string, where `strchr` finds it
at position 22 (8 in the octal digits, plus 14), one past the end of the 22 entries of
`digit_val`.  With that entry read as 0, `\x4` yields 64 and `\07` yields 56, with the parse
position left on the terminator, where `\x4z` and `\07z` yield 4 and 7 with the position
on the digit; and the constructor rejects the pattern `\x4` while it accepts `\x4z`. -/
theorem numeric_escape_reads_past_table :
    strchrPos numeric_digits 0 = some 22 ∧
      strchrPos (numeric_digits.drop 14) 0 = some 8 ∧
      numeric_digit_val.length = 22 ∧
      numeric_escape 120 (strBytes "\\x4") 1 = Except.ok (64, 3) ∧
      numeric_escape 120 (strBytes "\\x4z") 1 = Except.ok (4, 2) ∧
      numeric_escape 48 (strBytes "\\07") 1 = Except.ok (56, 3) ∧
      numeric_escape 48 (strBytes "\\07z") 1 = Except.ok (7, 2) ∧
      compiled (strBytes "\\x4") 0 = Except.error (RegexError.internal 4) ∧
      compiled (strBytes "\\x4z") 0
        = Except.ok ([156, 0, 0, 34, 0, 9, 7, 0, 6, 4, 122, 0, 1, 0, 0], 4, 0) := by
  refine ⟨by decide!, by decide!, by decide!, by decide!, by decide!, by decide!, by decide!,
    by decide!, by decide!⟩

/-- C36, failing inputs: `b` compiles with `match_start = 'b'`; searching `"ab"` forward
from 0 with end offset 1 it is not found, although the attempts at the start positions 0
and 1 find it at `[1, 2)`: the loop over the positions with the known first character
stops before `end`.  The anchored pattern `^b` on `"a\nb"` with end offset 2 is found at
`[2, 3)`, as by the attempts at 0, 1 and 2, but not by the attempts at 0 and 1: the
anchored loop does make an attempt at `end`. -/
theorem start_filter_disagrees_at_end :
    compiled (strBytes "b") 0 = Except.ok ([156, 0, 0, 34, 0, 8, 7, 0, 5, 98, 0, 1, 0, 0], 98, 0) ∧
      (compileAndExecuteRange 100 (strBytes "b") (strBytes "ab") 0 1).map (fun r => r.1)
        = some false ∧
      compileAndAttemptEach 100 (strBytes "b") (strBytes "ab") 0 1 1
        = some (true, some 1, some 2) ∧
      compileAndAttemptEach 100 (strBytes "b") (strBytes "ab") 0 1 0
        = some (false, none, none) ∧
      compiled (strBytes "^b") 0
        = Except.ok ([156, 0, 0, 34, 0, 11, 2, 0, 3, 7, 0, 5, 98, 0, 1, 0, 0], 0, 1) ∧
      compileAndExecuteRange 100 (strBytes "^b") (strBytes "a\nb") 0 2
        = some (true, some 2, some 3) ∧
      compileAndAttemptEach 100 (strBytes "^b") (strBytes "a\nb") 0 2 2
        = some (true, some 2, some 3) ∧
      compileAndAttemptEach 100 (strBytes "^b") (strBytes "a\nb") 0 2 1
        = some (false, none, none) := by
  refine ⟨by decide!, by decide!, by decide!, by decide!, by decide!, by decide!, by decide!,
    by decide!⟩

/-! ## The emit pointer and the returned nodes are never null -/

theorem yields_pure {α : Type} {Q : α → Prop} (a : α) (h : Q a) : Yields Q (pure a : Comp α) := by
  intro ctx r ctx' hP hr
  simp only [comp_pure, Except.ok.injEq, Prod.mk.injEq] at hr
  obtain ⟨rfl, rfl⟩ := hr
  exact ⟨hP, h⟩

theorem yields_raise {α : Type} {Q : α → Prop} (e : RegexError) : Yields Q (raise e : Comp α) := by
  intro ctx r ctx' _ hr
  simp [comp_raise] at hr

theorem yields_bind {α β : Type} {A : α → Prop} {Q : β → Prop} {m : Comp α} {f : α → Comp β}
    (hm : Yields A m) (hf : ∀ a, A a → Yields Q (f a)) : Yields Q (m >>= f) := by
  intro ctx r ctx' hP hr
  simp only [comp_bind] at hr
  rcases hmc : m ctx with e | ⟨a, c⟩
  · rw [hmc] at hr; simp at hr
  · rw [hmc] at hr
    obtain ⟨hPc, hA⟩ := hm ctx a c hP hmc
    exact hf a hA c r ctx' hPc hr

theorem yields_seq {α β : Type} {Q : β → Prop} {m : Comp α} {f : α → Comp β}
    (hm : Yields (fun _ => True) m) (hf : ∀ a, Yields Q (f a)) : Yields Q (m >>= f) :=
  yields_bind hm fun a _ => hf a

theorem yields_mono {α : Type} {A Q : α → Prop} {m : Comp α} (hm : Yields A m)
    (h : ∀ a, A a → Q a) : Yields Q m := by
  intro ctx r ctx' hP hr
  obtain ⟨h1, h2⟩ := hm ctx r ctx' hP hr
  exact ⟨h1, h r h2⟩

theorem yields_ite {α : Type} {Q : α → Prop} (c : Prop) [Decidable c] {a b : Comp α}
    (ha : c → Yields Q a) (hb : ¬ c → Yields Q b) : Yields Q (if c then a else b) := by
  split_ifs with h
  · exact ha h
  · exact hb h

theorem yields_get {β : Type} {Q : β → Prop} {f : ParseContext → Comp β}
    (hf : ∀ c : ParseContext, c.Code_Emit_Ptr ≠ Ptr.null → Yields Q (f c)) :
    Yields Q (get >>= f) := by
  intro ctx r ctx' hP hr
  simp only [comp_bind, comp_get] at hr
  exact hf ctx hP ctx r ctx' hP hr

theorem yields_set (s : ParseContext) (h : s.Code_Emit_Ptr ≠ Ptr.null) :
    Yields (fun _ => True) (set s : Comp PUnit) := by
  intro ctx r ctx' _ hr
  simp only [comp_set, Except.ok.injEq, Prod.mk.injEq] at hr
  obtain ⟨-, rfl⟩ := hr
  exact ⟨h, trivial⟩

theorem yields_modify (f : ParseContext → ParseContext)
    (h : ∀ c, (f c).Code_Emit_Ptr = c.Code_Emit_Ptr) :
    Yields (fun _ => True) (modify f : Comp PUnit) := by
  intro ctx r ctx' hP hr
  simp only [comp_modify, Except.ok.injEq, Prod.mk.injEq] at hr
  obtain ⟨-, rfl⟩ := hr
  exact ⟨by rw [h]; exact hP, trivial⟩

theorem ptr_add_ne_null (p : Ptr) (k : Int) (h : p ≠ Ptr.null) : p.add k ≠ Ptr.null := by
  cases p <;> simp [Ptr.add] at h ⊢

theorem yields_emit_node (op : Nat) : Yields (fun p => p ≠ Ptr.null) (emit_node op) := by
  intro ctx r ctx' hP hr
  simp only [emit_node] at hr
  split_ifs at hr <;>
    simp only [Except.ok.injEq, Prod.mk.injEq] at hr <;>
    obtain ⟨rfl, rfl⟩ := hr
  · exact ⟨hP, hP⟩
  · exact ⟨ptr_add_ne_null _ _ hP, hP⟩

theorem yields_emit_byte (ch : Nat) : Yields (fun _ => True) (emit_byte ch) := by
  intro ctx r ctx' hP hr
  simp only [emit_byte] at hr
  split_ifs at hr <;>
    simp only [Except.ok.injEq, Prod.mk.injEq] at hr <;>
    obtain ⟨-, rfl⟩ := hr
  · exact ⟨hP, trivial⟩
  · exact ⟨ptr_add_ne_null _ _ hP, trivial⟩

theorem yields_emit_class_byte (ch : Nat) : Yields (fun _ => True) (emit_class_byte ch) := by
  intro ctx r ctx' hP hr
  simp only [emit_class_byte] at hr
  split_ifs at hr <;>
    simp only [Except.ok.injEq, Prod.mk.injEq] at hr <;>
    obtain ⟨-, rfl⟩ := hr
  · exact ⟨hP, trivial⟩
  · exact ⟨hP, trivial⟩
  · exact ⟨ptr_add_ne_null _ _ hP, trivial⟩
  · exact ⟨ptr_add_ne_null _ _ hP, trivial⟩

theorem yields_emit_special (op t i : Nat) :
    Yields (fun p => p ≠ Ptr.null) (emit_special op t i) := by
  intro ctx r ctx' hP hr
  have h3 := ptr_add_ne_null _ 3 hP
  by_cases hc : ctx.Code_Emit_Ptr = Compute_Size
  · simp only [emit_special, hc, if_true, Except.ok.injEq, Prod.mk.injEq] at hr
    obtain ⟨rfl, rfl⟩ := hr
    exact ⟨by simp [Compute_Size], by simp [Compute_Size]⟩
  · simp only [emit_special, emit_node, hc, if_false] at hr
    split_ifs at hr <;>
      simp only [Except.ok.injEq, Prod.mk.injEq] at hr <;>
      obtain ⟨rfl, rfl⟩ := hr <;>
      first
      | exact ⟨ptr_add_ne_null _ _ h3, hP⟩
      | exact ⟨h3, hP⟩

theorem yields_insert (op : Nat) (pos : Ptr) (min max index : Nat) :
    Yields (fun _ => True) (insert op pos min max index) := by
  intro ctx r ctx' hP hr
  simp only [insert] at hr
  split_ifs at hr <;>
    simp only [Except.ok.injEq, Prod.mk.injEq] at hr <;>
    obtain ⟨-, rfl⟩ := hr <;>
    first
    | exact ⟨hP, trivial⟩
    | exact ⟨by simp, trivial⟩

theorem yields_tail (s t : Ptr) : Yields (fun _ => True) (tail s t) := by
  intro ctx r ctx' hP hr
  simp only [tail] at hr
  split_ifs at hr
  · simp only [Except.ok.injEq, Prod.mk.injEq] at hr
    obtain ⟨-, rfl⟩ := hr
    exact ⟨hP, trivial⟩
  · rcases hts : tailScan (ctx.program.length + 1) ctx.program s with _ | scan
    · rw [hts] at hr; simp at hr
    · rw [hts] at hr
      simp only [Except.ok.injEq, Prod.mk.injEq] at hr
      obtain ⟨-, rfl⟩ := hr
      exact ⟨hP, trivial⟩

theorem yields_offset_tail (p : Ptr) (o : Int) (v : Ptr) :
    Yields (fun _ => True) (offset_tail p o v) := by
  unfold offset_tail
  split_ifs
  · exact yields_pure _ trivial
  · exact yields_tail _ _

theorem yields_branch_tail (p : Ptr) (o : Int) (v : Ptr) :
    Yields (fun _ => True) (branch_tail p o v) := by
  intro ctx r ctx' hP hr
  simp only [branch_tail] at hr
  split_ifs at hr
  · simp only [Except.ok.injEq, Prod.mk.injEq] at hr
    obtain ⟨-, rfl⟩ := hr
    exact ⟨hP, trivial⟩
  · exact yields_tail _ _ ctx r ctx' hP hr

theorem yields_advance (k : Nat) : Yields (fun _ => True) (advance k) :=
  yields_modify _ fun _ => rfl

theorem yields_retreat : Yields (fun _ => True) retreat :=
  yields_modify _ fun _ => rfl

theorem yields_numeric_escape_parse : Yields (fun _ => True) numeric_escape_parse := by
  intro ctx r ctx' hP hr
  simp only [numeric_escape_parse] at hr
  rcases hn : numeric_escape ctx.peek ctx.InputString ctx.Reg_Parse with e | ⟨v, p⟩
  · rw [hn] at hr; simp at hr
  · rw [hn] at hr
    simp only [Except.ok.injEq, Prod.mk.injEq] at hr
    obtain ⟨-, rfl⟩ := hr
    exact ⟨hP, trivial⟩

theorem yields_emit_bytes (cs : List Nat) : Yields (fun _ => True) (emit_bytes cs) := by
  induction cs with
  | nil => exact yields_pure _ trivial
  | cons c cs ih =>
    rw [emit_bytes]
    exact yields_seq (yields_emit_byte c) fun _ => ih

theorem yields_shortcut_escape (ch flag emit : Nat) :
    Yields (fun _ => True) (shortcut_escape ch flag emit) := by
  unfold shortcut_escape
  with_reducible repeat' first
    | exact yields_pure _ trivial
    | exact yields_raise _
    | exact yields_emit_byte _
    | exact yields_emit_bytes _
    | exact yields_mono (yields_emit_node _) (fun _ _ => trivial)
    | apply yields_ite
    | apply yields_get
    | apply yields_seq
    | intro _

theorem yields_back_ref (ch flag emit : Nat) :
    Yields (fun _ => True) (back_ref ch flag emit) := by
  unfold back_ref
  with_reducible repeat' first
    | exact yields_pure _ trivial
    | exact yields_raise _
    | exact yields_emit_byte _
    | exact yields_mono (yields_emit_node _) (fun _ _ => trivial)
    | apply yields_ite
    | apply yields_get
    | apply yields_seq
    | intro _

theorem yields_skipComment : ∀ fuel, Yields (fun _ => True) (skipComment fuel) := by
  intro fuel
  induction fuel with
  | zero => exact yields_pure _ trivial
  | succ n ih =>
    rw [skipComment]
    with_reducible repeat' first
      | exact yields_pure _ trivial
      | exact yields_advance _
      | exact ih
      | apply yields_ite
      | apply yields_get
      | apply yields_seq
      | intro _

theorem yields_atomComments :
    ∀ fuel, Yields (fun r => ∀ p, r = some p → p ≠ Ptr.null) (atomComments fuel) := by
  intro fuel
  induction fuel with
  | zero => exact yields_raise _
  | succ n ih =>
    rw [atomComments]
    with_reducible repeat' first
      | exact yields_pure none (by simp)
      | exact yields_pure _ trivial
      | exact yields_raise _
      | exact yields_advance _
      | exact yields_skipComment _
      | exact ih
      | refine yields_bind (yields_emit_node _) (fun p hp => yields_pure _ (by simpa using hp))
      | apply yields_ite
      | apply yields_get
      | apply yields_seq
      | intro _

theorem yields_emitClassRange : ∀ n v, Yields (fun _ => True) (emitClassRange n v) := by
  intro n
  induction n with
  | zero => intro v; exact yields_pure _ trivial
  | succ n ih =>
    intro v
    rw [emitClassRange]
    exact yields_seq (yields_emit_class_byte _) fun _ => ih _

theorem yields_atomClassLoop : ∀ fuel last, Yields (fun _ => True) (atomClassLoop fuel last) := by
  intro fuel
  induction fuel with
  | zero => intro last; exact yields_raise _
  | succ n ih =>
    intro last
    rw [atomClassLoop]
    with_reducible repeat' first
      | exact yields_pure _ trivial
      | exact yields_raise _
      | exact yields_advance _
      | exact yields_emit_byte _
      | exact yields_emit_class_byte _
      | exact yields_emitClassRange _ _
      | exact yields_numeric_escape_parse
      | exact yields_shortcut_escape _ _ _
      | exact ih _
      | apply yields_ite
      | apply yields_get
      | apply yields_seq
      | intro _

theorem yields_atomLiteralLoop : ∀ fuel len, Yields (fun _ => True) (atomLiteralLoop fuel len) := by
  intro fuel
  induction fuel with
  | zero => intro len; exact yields_raise _
  | succ n ih =>
    intro len
    rw [atomLiteralLoop]
    with_reducible repeat' first
      | exact yields_pure _ trivial
      | exact yields_raise _
      | exact yields_advance _
      | exact yields_retreat
      | exact yields_emit_byte _
      | exact yields_numeric_escape_parse
      | exact yields_shortcut_escape _ _ _
      | exact yields_back_ref _ _ _
      | exact ih _
      | exact yields_set _ (by assumption)
      | exact yields_set _ (ptr_add_ne_null _ _ (by assumption))
      | apply yields_ite
      | apply yields_get
      | apply yields_seq
      | intro _

theorem yields_atom (chunk : Nat → Comp Ret)
    (hchunk : ∀ k, Yields (fun r : Ret => r.1 ≠ Ptr.null) (chunk k)) :
    Yields (fun r : Ret => r.1 ≠ Ptr.null) (atom chunk) := by
  unfold atom
  refine yields_get fun c _ => yields_bind (yields_atomComments _) ?_
  rintro (_ | rv) hx
  · with_reducible repeat' first
      | exact yields_pure _ trivial
      | exact yields_pure _ (by assumption)
      | exact yields_raise _
      | exact yields_advance _
      | exact yields_retreat
      | exact yields_emit_byte _
      | exact yields_atomClassLoop _ _
      | exact yields_atomLiteralLoop _ _
      | exact yields_shortcut_escape _ _ _
      | exact yields_back_ref _ _ _
      | refine yields_bind (yields_emit_node _) ?_
      | refine yields_bind (hchunk _) ?_
      | apply yields_ite
      | apply yields_get
      | apply yields_seq
      | intro _
      | split
      | exact yields_pure _ (by simp_all)
  · exact yields_pure _ (hx _ rfl)

theorem yields_braceDigits (i min0 : Nat) :
    ∀ fuel v d, Yields (fun _ => True) (braceDigits i min0 fuel v d) := by
  intro fuel
  induction fuel with
  | zero => intro v d; exact yields_raise _
  | succ n ih =>
    intro v d
    rw [braceDigits]
    with_reducible repeat' first
      | exact yields_pure _ trivial
      | exact yields_raise _
      | exact yields_advance _
      | exact ih _ _
      | apply yields_ite
      | apply yields_get
      | apply yields_seq
      | intro _

theorem yields_pieceBrace : Yields (fun _ => True) pieceBrace := by
  unfold pieceBrace
  with_reducible repeat' first
    | exact yields_pure _ trivial
    | exact yields_raise _
    | exact yields_advance _
    | exact yields_braceDigits _ _ _ _ _
    | apply yields_ite
    | apply yields_get
    | apply yields_seq
    | intro _
    | split

theorem yields_pieceEmit (op : Nat) (simple lz : Bool) (min max : Nat) (ret : Ptr) :
    Yields (fun _ => True) (pieceEmit op simple lz min max ret) := by
  unfold pieceEmit
  with_reducible repeat' first
    | exact yields_pure _ trivial
    | exact yields_raise _
    | exact yields_mono (yields_emit_node _) (fun _ _ => trivial)
    | exact yields_mono (yields_emit_special _ _ _) (fun _ _ => trivial)
    | exact yields_insert _ _ _ _ _
    | exact yields_tail _ _
    | exact yields_offset_tail _ _ _
    | exact yields_modify _ (fun _ => rfl)
    | apply yields_ite
    | apply yields_get
    | apply yields_seq
    | intro _

/-! ## The flags at the return of `chunk` -/

theorem yields_piece (chunk : Nat → Comp Ret)
    (hchunk : ∀ k, Yields (fun r : Ret => r.1 ≠ Ptr.null) (chunk k)) :
    Yields (fun r : Ret => r.1 ≠ Ptr.null) (piece chunk) := by
  unfold piece
  refine yields_bind (yields_atom chunk hchunk) ?_
  rintro ⟨ret_val, flags_local, range_local⟩ hx
  have hne : ret_val ≠ Ptr.null := hx
  simp -zeta only []
  lift_lets
  intro min max bp max1 oc oc1 oc2 lz jp
  have hjp : ∀ y, Yields (fun r : Ret => r.1 ≠ Ptr.null) (jp y) := by
    intro y
    unfold jp
    clear jp
    refine yields_get fun ctx _ => ?_
    lift_lets
    intro op_code0 op_code3 jp1 jp0
    have hjp1 : ∀ b mx mn y, Yields (fun r : Ret => r.1 ≠ Ptr.null) (jp1 b mx mn y) := by
      intro b mx mn y
      unfold jp1
      clear jp1 jp0
      lift_lets
      intro jp2
      have hjp2 : ∀ l mx mn y, Yields (fun r : Ret => r.1 ≠ Ptr.null) (jp2 l mx mn y) := by
        intro l mx mn y
        unfold jp2
        clear jp2
        lift_lets
        intro jp3
        have hjp3 : ∀ mx mn o y, Yields (fun r : Ret => r.1 ≠ Ptr.null) (jp3 mx mn o y) := by
          intro mx mn o y
          unfold jp3
          clear jp3
          with_reducible repeat' first
            | exact yields_pure _ hne
            | exact yields_pure _ trivial
            | exact yields_raise _
            | exact yields_pieceEmit _ _ _ _ _ _
            | apply yields_ite
            | apply yields_get
            | apply yields_seq
            | intro _
        clear_value jp3
        with_reducible repeat' first
          | exact yields_pure _ hne
          | exact yields_pure _ trivial
          | exact yields_raise _
          | apply hjp3
          | apply yields_ite
          | apply yields_get
          | apply yields_seq
          | intro _
      clear_value jp2
      with_reducible repeat' first
        | exact yields_pure _ trivial
        | exact yields_advance _
        | apply hjp2
        | apply yields_ite
        | apply yields_get
        | apply yields_seq
        | intro _
    clear_value jp1
    have hjp0 : ∀ y, Yields (fun r : Ret => r.1 ≠ Ptr.null) (jp0 y) := by
      intro y
      unfold jp0
      clear jp0
      with_reducible repeat' first
        | exact yields_pure _ hne
        | exact yields_pure _ trivial
        | exact yields_raise _
        | exact yields_advance _
        | exact yields_pieceBrace
        | apply hjp1
        | apply yields_ite
        | apply yields_get
        | apply yields_seq
        | intro _
    clear_value jp0
    with_reducible repeat' first
      | exact yields_pure _ hne
      | exact yields_pure _ trivial
      | apply hjp0
      | apply yields_ite
      | apply yields_get
      | apply yields_seq
      | intro _
  clear_value jp
  with_reducible repeat' first
    | exact absurd (by assumption) hne
    | exact yields_pure _ hne
    | exact yields_pure _ trivial
    | apply hjp
    | apply yields_ite
    | apply yields_get
    | apply yields_seq
    | intro _

theorem yields_alternativeLoop (chunk : Nat → Comp Ret)
    (hchunk : ∀ k, Yields (fun r : Ret => r.1 ≠ Ptr.null) (chunk k)) :
    ∀ fuel chain flag range,
      Yields (fun r => r ≠ none) (alternativeLoop chunk fuel chain flag range) := by
  intro fuel
  induction fuel with
  | zero => intro chain flag range; exact yields_raise _
  | succ n ih =>
    intro chain flag range
    rw [alternativeLoop]
    refine yields_get fun c _ => ?_
    refine yields_ite _ (fun _ => ?_) (fun _ => yields_pure _ (by simp))
    refine yields_bind (yields_piece chunk hchunk) ?_
    rintro ⟨latest, flags_local, range_local⟩ hx
    have hne : latest ≠ Ptr.null := hx
    with_reducible repeat' first
      | exact yields_pure _ trivial
      | exact yields_tail _ _
      | exact ih _ _ _
      | apply yields_ite
      | apply yields_seq
      | intro _
      | exact yields_pure _ (by simp_all)

theorem yields_alternative (chunk : Nat → Comp Ret)
    (hchunk : ∀ k, Yields (fun r : Ret => r.1 ≠ Ptr.null) (chunk k)) :
    Yields (fun r : Ret => r.1 ≠ Ptr.null) (alternative chunk) := by
  unfold alternative
  refine yields_bind (yields_emit_node _) fun ret_val hne => ?_
  refine yields_get fun c _ => ?_
  refine yields_bind (yields_alternativeLoop chunk hchunk _ _ _ _) ?_
  rintro (_ | ⟨chain, flag, range⟩) hx
  · exact absurd rfl hx
  · with_reducible repeat' first
      | exact yields_pure _ trivial
      | exact yields_pure _ hne
      | exact yields_mono (yields_emit_node _) (fun _ _ => trivial)
      | apply yields_ite
      | apply yields_seq
      | intro _

theorem yields_chunkBranches (chunk : Nat → Comp Ret)
    (hchunk : ∀ k, Yields (fun r : Ret => r.1 ≠ Ptr.null) (chunk k)) :
    ∀ fuel ret_val first flag range, (first = true ∨ ret_val ≠ Ptr.null) →
      Yields (fun r => ∃ x : Ret, r = some x ∧ x.1 ≠ Ptr.null)
        (chunkBranches chunk fuel ret_val first flag range) := by
  intro fuel
  induction fuel with
  | zero => intro ret_val first flag range _; exact yields_raise _
  | succ n ih =>
    intro ret_val first flag range hpre
    rw [chunkBranches]
    refine yields_bind (yields_alternative chunk hchunk) ?_
    rintro ⟨this_branch, flags_local, range_local⟩ hx
    have hne : this_branch ≠ Ptr.null := hx
    have hrv : (if first = true ∧ ret_val = Ptr.null then this_branch else ret_val) ≠ Ptr.null := by
      split_ifs with h
      · exact hne
      · rcases hpre with h1 | h1
        · intro h2; exact h ⟨h1, h2⟩
        · exact h1
    refine yields_ite _ (fun h => absurd h hne) fun _ => ?_
    refine yields_seq (yields_pure _ trivial) fun _ => ?_
    refine yields_seq (yields_tail _ _) fun _ => ?_
    refine yields_get fun c _ => ?_
    refine yields_ite _ (fun _ => yields_pure _ ⟨_, rfl, hrv⟩) fun _ => ?_
    refine yields_seq (yields_pure _ trivial) fun _ => ?_
    exact yields_seq (yields_advance _) fun _ => ih _ _ _ _ (Or.inr hrv)

theorem yields_chunkHook (ender : Ptr) :
    ∀ fuel this_branch, Yields (fun _ => True) (chunkHook ender fuel this_branch) := by
  intro fuel
  induction fuel with
  | zero => intro b; exact yields_raise _
  | succ n ih =>
    intro b
    rw [chunkHook]
    with_reducible repeat' first
      | exact yields_pure _ trivial
      | exact yields_branch_tail _ _ _
      | exact ih _
      | apply yields_ite
      | apply yields_get
      | apply yields_seq
      | intro _

theorem yf_bind {α : Type} {ci mn : Bool} {A : α → Prop} {m : Comp α} {f : α → Comp Ret}
    (hm : Yields A m) (hf : ∀ a, A a → YieldsFlags ci mn (f a)) :
    YieldsFlags ci mn (m >>= f) := by
  intro ctx r ctx' hP hr
  simp only [comp_bind] at hr
  rcases hmc : m ctx with e | ⟨a, c⟩
  · rw [hmc] at hr; simp at hr
  · rw [hmc] at hr
    obtain ⟨h1, h2⟩ := hm ctx a c hP hmc
    exact hf a h2 c r ctx' h1 hr

theorem yf_seq {α : Type} {ci mn : Bool} {m : Comp α} {f : α → Comp Ret}
    (hm : Yields (fun _ => True) m) (hf : ∀ a, YieldsFlags ci mn (f a)) :
    YieldsFlags ci mn (m >>= f) :=
  yf_bind hm fun a _ => hf a

theorem yf_ite {ci mn : Bool} (c : Prop) [Decidable c] {a b : Comp Ret}
    (ha : c → YieldsFlags ci mn a) (hb : ¬ c → YieldsFlags ci mn b) :
    YieldsFlags ci mn (if c then a else b) := by
  split_ifs with h
  · exact ha h
  · exact hb h

theorem yf_raise {ci mn : Bool} (e : RegexError) : YieldsFlags ci mn (raise e) := by
  intro ctx r ctx' _ hr
  simp [comp_raise] at hr

theorem yf_get {ci mn : Bool} {f : ParseContext → Comp Ret}
    (hf : ∀ c : ParseContext, c.Code_Emit_Ptr ≠ Ptr.null → YieldsFlags ci mn (f c)) :
    YieldsFlags ci mn (get >>= f) := by
  intro ctx r ctx' hP hr
  simp only [comp_bind, comp_get] at hr
  exact hf ctx hP ctx r ctx' hP hr

theorem yf_final (ci mn : Bool) (x : Ret) (hx : x.1 ≠ Ptr.null) :
    YieldsFlags ci mn
      ((modify fun c => { c with Is_Case_Insensitive := ci, Match_Newline := mn } : Comp PUnit)
        >>= fun _ => pure x) := by
  intro ctx r ctx' hP hr
  simp only [comp_bind, comp_modify, comp_pure, Except.ok.injEq, Prod.mk.injEq] at hr
  obtain ⟨rfl, rfl⟩ := hr
  exact ⟨hP, hx, rfl, rfl⟩

theorem yf_get_self {f : ParseContext → Comp Ret}
    (hf : ∀ c : ParseContext, c.Code_Emit_Ptr ≠ Ptr.null →
      YieldsFlags c.Is_Case_Insensitive c.Match_Newline (f c)) :
    ∀ (ctx : ParseContext) (r : Ret) (ctx' : ParseContext), ctx.Code_Emit_Ptr ≠ Ptr.null →
      (get >>= f) ctx = Except.ok (r, ctx') →
      ctx'.Code_Emit_Ptr ≠ Ptr.null ∧ r.1 ≠ Ptr.null ∧
        ctx'.Is_Case_Insensitive = ctx.Is_Case_Insensitive ∧
        ctx'.Match_Newline = ctx.Match_Newline := by
  intro ctx r ctx' hP hr
  simp only [comp_bind, comp_get] at hr
  exact hf ctx hP ctx r ctx' hP hr

theorem chunkBody_yields (chunk : Nat → Comp Ret)
    (hchunk : ∀ k, Yields (fun r : Ret => r.1 ≠ Ptr.null) (chunk k)) (paren : Nat) :
    ∀ (ctx : ParseContext) (r : Ret) (ctx' : ParseContext), ctx.Code_Emit_Ptr ≠ Ptr.null →
      chunkBody chunk paren ctx = Except.ok (r, ctx') →
      ctx'.Code_Emit_Ptr ≠ Ptr.null ∧ r.1 ≠ Ptr.null ∧
        ctx'.Is_Case_Insensitive = ctx.Is_Case_Insensitive ∧
        ctx'.Match_Newline = ctx.Match_Newline := by
  unfold chunkBody
  refine yf_get_self fun ctx0 h0 => ?_
  generalize ctx0.Is_Case_Insensitive = ci
  generalize ctx0.Match_Newline = mn
  lift_lets
  intro old_sensitive old_newline ret_val this_paren look_only flag fuel zero_width jp
  have hjp : ∀ e f l r t y, YieldsFlags ci mn (jp e f l r t y) := by
    intro e f l r t y
    unfold jp
    clear jp
    refine yf_bind (yields_chunkBranches chunk hchunk _ _ _ _ _ (Or.inl rfl)) ?_
    rintro _ ⟨⟨ret_val1, flag1, range1⟩, rfl, hne⟩
    simp -zeta only []
    lift_lets
    intro range2 jpA jpB jpC jp1 jp2 jpD jpE
    have hA : ∀ y, YieldsFlags ci mn (jpA y) := fun y => yf_final _ _ _ hne
    clear_value jpA
    have hB : ∀ z y, YieldsFlags ci mn (jpB z y) := by
      intro z y
      unfold jpB
      with_reducible repeat' first
        | exact yields_pure _ trivial
        | exact yields_raise _
        | exact yields_modify _ (fun _ => rfl)
        | exact yields_set _ hc
        | exact yields_set _ h0
        | exact yields_tail _ _
        | exact yields_chunkHook _ _ _
        | exact yields_advance _
        | exact yields_mono (yields_emit_node _) (fun _ _ => trivial)
        | exact yields_mono (yields_emit_special _ _ _) (fun _ _ => trivial)
        | apply hA
        | apply yf_ite
        | refine yf_get fun c hc => ?_
        | apply yf_seq
        | intro _
    clear_value jpB
    have hC : ∀ y, YieldsFlags ci mn (jpC y) := by
      intro y
      unfold jpC
      with_reducible repeat' first
        | exact yields_pure _ trivial
        | exact yields_raise _
        | exact yields_modify _ (fun _ => rfl)
        | exact yields_set _ hc
        | exact yields_set _ h0
        | exact yields_tail _ _
        | exact yields_chunkHook _ _ _
        | exact yields_advance _
        | exact yields_mono (yields_emit_node _) (fun _ _ => trivial)
        | exact yields_mono (yields_emit_special _ _ _) (fun _ _ => trivial)
        | apply hB
        | apply yf_ite
        | refine yf_get fun c hc => ?_
        | apply yf_seq
        | intro _
    clear_value jpC
    have h1 : ∀ y, YieldsFlags ci mn (jp1 y) := by
      intro y
      unfold jp1
      with_reducible repeat' first
        | exact yields_pure _ trivial
        | exact yields_raise _
        | exact yields_modify _ (fun _ => rfl)
        | exact yields_set _ hc
        | exact yields_set _ h0
        | exact yields_tail _ _
        | exact yields_chunkHook _ _ _
        | exact yields_advance _
        | exact yields_mono (yields_emit_node _) (fun _ _ => trivial)
        | exact yields_mono (yields_emit_special _ _ _) (fun _ _ => trivial)
        | apply hC
        | apply yf_ite
        | refine yf_get fun c hc => ?_
        | apply yf_seq
        | intro _
    clear_value jp1
    have h2 : ∀ y, YieldsFlags ci mn (jp2 y) := by
      intro y
      unfold jp2
      with_reducible repeat' first
        | exact yields_pure _ trivial
        | exact yields_raise _
        | exact yields_modify _ (fun _ => rfl)
        | exact yields_set _ hc
        | exact yields_set _ h0
        | exact yields_tail _ _
        | exact yields_chunkHook _ _ _
        | exact yields_advance _
        | exact yields_mono (yields_emit_node _) (fun _ _ => trivial)
        | exact yields_mono (yields_emit_special _ _ _) (fun _ _ => trivial)
        | apply h1
        | apply yf_ite
        | refine yf_get fun c hc => ?_
        | apply yf_seq
        | intro _
    clear_value jp2
    have hD : ∀ y, YieldsFlags ci mn (jpD y) := by
      intro y
      unfold jpD
      with_reducible repeat' first
        | exact yields_pure _ trivial
        | exact yields_raise _
        | exact yields_modify _ (fun _ => rfl)
        | exact yields_set _ hc
        | exact yields_set _ h0
        | exact yields_tail _ _
        | exact yields_chunkHook _ _ _
        | exact yields_advance _
        | exact yields_mono (yields_emit_node _) (fun _ _ => trivial)
        | exact yields_mono (yields_emit_special _ _ _) (fun _ _ => trivial)
        | apply h2
        | apply hC
        | apply yf_ite
        | refine yf_get fun c hc => ?_
        | apply yf_seq
        | intro _
    clear_value jpD
    have hE : ∀ y, YieldsFlags ci mn (jpE y) := by
      intro y
      unfold jpE
      with_reducible repeat' first
        | exact yields_pure _ trivial
        | exact yields_raise _
        | exact yields_modify _ (fun _ => rfl)
        | exact yields_set _ hc
        | exact yields_set _ h0
        | exact yields_tail _ _
        | exact yields_chunkHook _ _ _
        | exact yields_advance _
        | exact yields_mono (yields_emit_node _) (fun _ _ => trivial)
        | exact yields_mono (yields_emit_special _ _ _) (fun _ _ => trivial)
        | apply hD
        | apply yf_ite
        | refine yf_get fun c hc => ?_
        | apply yf_seq
        | intro _
    clear_value jpE
    with_reducible repeat' first
      | exact yields_pure _ trivial
      | exact yields_raise _
      | exact yields_modify _ (fun _ => rfl)
      | exact yields_set _ hc
      | exact yields_set _ h0
      | exact yields_tail _ _
      | exact yields_chunkHook _ _ _
      | exact yields_advance _
      | exact yields_mono (yields_emit_node _) (fun _ _ => trivial)
      | exact yields_mono (yields_emit_special _ _ _) (fun _ _ => trivial)
      | apply hE
      | apply yf_ite
      | refine yf_get fun c hc => ?_
      | apply yf_seq
      | intro _
  clear_value jp
  intro this_paren1 jp1
  have hjp1 : ∀ r t y, YieldsFlags ci mn (jp1 r t y) := by
    intro r t y
    unfold jp1
    with_reducible repeat' first
      | exact yields_pure _ trivial
      | exact yields_raise _
      | exact yields_modify _ (fun _ => rfl)
      | exact yields_set _ hc
      | exact yields_set _ h0
      | exact yields_tail _ _
      | exact yields_chunkHook _ _ _
      | exact yields_advance _
      | exact yields_mono (yields_emit_node _) (fun _ _ => trivial)
      | exact yields_mono (yields_emit_special _ _ _) (fun _ _ => trivial)
      | apply hjp
      | apply yf_ite
      | refine yf_get fun c hc => ?_
      | apply yf_seq
      | intro _
  clear_value jp1
  intro flag1
  with_reducible repeat' first
    | exact yields_pure _ trivial
    | exact yields_raise _
    | exact yields_modify _ (fun _ => rfl)
    | exact yields_set _ hc
    | exact yields_set _ h0
    | exact yields_tail _ _
    | exact yields_chunkHook _ _ _
    | exact yields_advance _
    | exact yields_mono (yields_emit_node _) (fun _ _ => trivial)
    | exact yields_mono (yields_emit_special _ _ _) (fun _ _ => trivial)
    | apply hjp1
    | apply hjp
    | apply yf_ite
    | refine yf_get fun c hc => ?_
    | apply yf_seq
    | intro _

theorem chunk_yields : ∀ fuel paren, Yields (fun r : Ret => r.1 ≠ Ptr.null) (chunk fuel paren) := by
  intro fuel
  induction fuel with
  | zero => intro paren; exact yields_raise _
  | succ n ih =>
    intro paren
    rw [chunk]
    intro ctx r ctx' hP hr
    obtain ⟨h1, h2, -, -⟩ := chunkBody_yields (chunk n) ih paren ctx r ctx' hP hr
    exact ⟨h1, h2⟩

/-- C33: every call `chunk(paren, ...)` that returns, for every kind of group `paren` and in
both passes (the emit pointer is `&Compute_Size` or points into the program, never null),
returns a node and leaves `Is_Case_Insensitive` and `Match_Newline` equal to their values at
entry.  With default flags `(?ia)b` matches `ab` and `Ab` but neither `aB` nor `AB`; `(?n.)`
matches a newline, and in `(?n.).` the second `.` does not: the pattern fails on two newlines
and matches a newline followed by `a`, while a plain `.` fails on a newline. -/
theorem chunk_restores_flags (fuel paren : Nat) (ctx ctx' : ParseContext) (r : Ret)
    (hemit : ctx.Code_Emit_Ptr ≠ Ptr.null)
    (hret : chunk fuel paren ctx = Except.ok (r, ctx')) :
    (ctx'.Is_Case_Insensitive = ctx.Is_Case_Insensitive ∧
      ctx'.Match_Newline = ctx.Match_Newline ∧ r.1 ≠ Ptr.null) ∧
    compileAndExecuteRange 200 (strBytes "(?ia)b") (strBytes "ab") 0 2
      = some (true, some 0, some 2) ∧
    compileAndExecuteRange 200 (strBytes "(?ia)b") (strBytes "Ab") 0 2
      = some (true, some 0, some 2) ∧
    compileAndExecuteRange 200 (strBytes "(?ia)b") (strBytes "aB") 0 2
      = some (false, none, none) ∧
    compileAndExecuteRange 200 (strBytes "(?ia)b") (strBytes "AB") 0 2
      = some (false, none, none) ∧
    compileAndExecuteRange 200 (strBytes "(?n.)") (strBytes "\n") 0 1
      = some (true, some 0, some 1) ∧
    compileAndExecuteRange 200 (strBytes "(?n.).") (strBytes "\n\n") 0 2
      = some (false, none, none) ∧
    compileAndExecuteRange 200 (strBytes "(?n.).") (strBytes "\na") 0 2
      = some (true, some 0, some 2) ∧
    compileAndExecuteRange 200 (strBytes ".") (strBytes "\n") 0 1
      = some (false, none, none) := by
  refine ⟨?_, by decide!, by decide!, by decide!, by decide!, by decide!, by decide!,
    by decide!, by decide!⟩
  cases fuel with
  | zero => simp [chunk, comp_raise] at hret
  | succ n =>
    rw [chunk] at hret
    obtain ⟨-, h2, h3, h4⟩ := chunkBody_yields (chunk n) (chunk_yields n) paren ctx r ctx' hemit hret
    exact ⟨h3, h4, h2⟩

theorem chunk_restores_flags_witness :
    (sizingStart (strBytes "a)")).Code_Emit_Ptr ≠ Ptr.null ∧
    chunk 3 INSENSITIVE (sizingStart (strBytes "a)"))
      = Except.ok ((Compute_Size, 1, { lower := 1, upper := 1 }),
          { sizingStart (strBytes "a)") with Reg_Parse := 2, Reg_Size := 17 }) ∧
    ({ sizingStart (strBytes "a)") with Reg_Parse := 2, Reg_Size := 17 } :
        ParseContext).Is_Case_Insensitive = (sizingStart (strBytes "a)")).Is_Case_Insensitive ∧
    ({ sizingStart (strBytes "a)") with Reg_Parse := 2, Reg_Size := 17 } :
        ParseContext).Match_Newline = (sizingStart (strBytes "a)")).Match_Newline :=
  ⟨by decide!, by decide!,
    (chunk_restores_flags 3 INSENSITIVE (sizingStart (strBytes "a)"))
      { sizingStart (strBytes "a)") with Reg_Parse := 2, Reg_Size := 17 }
      (Compute_Size, 1, { lower := 1, upper := 1 }) (by decide!) (by decide!)).1.1,
    (chunk_restores_flags 3 INSENSITIVE (sizingStart (strBytes "a)"))
      { sizingStart (strBytes "a)") with Reg_Parse := 2, Reg_Size := 17 }
      (Compute_Size, 1, { lower := 1, upper := 1 }) (by decide!) (by decide!)).1.2.1⟩

end NEditRegex
